import Mathlib

/-! # The vcpkg install planner (`toolsrc/src/vcpkg/dependencies.cpp`)

A shallow embedding of the feature-aware install planner: the cluster graph, the
mutually recursive marking procedures `mark_plus`, `mark_minus` and
`follow_plus_dependencies`, graph construction from the status database and the
serialization of the resulting `GraphPlan` into an action list.

Conventions of the embedding.

* A `Cluster&` / `ClusterPtr` is represented by the `PackageSpec` that keys the cluster
  in `ClusterGraph::m_graph`; pointer equality of clusters is equality of specs.
* `std::set` is a strictly sorted list (`set_insert`), `std::unordered_map` an
  association list (`AssocMap`), `std::vector` a list.
* `Checks::check_exit`, `Checks::unreachable` and friends end the process; they are the
  `Failure.fatal` results.  Text printed to the console is not modelled.
* The marking procedures are recursive without a syntactic bound; they are defined with a
  recursion-depth budget (`fuel`), and `Failure.out_of_fuel` is reported when it runs out.
* Helpers whose definitions are outside the translated sources (`get_control_file`,
  `filter_dependencies_to_specs`, `InstalledPackageView::dependencies`,
  `Graphs::topological_sort`) are the fields of `Env`.
-/

namespace Vcpkg

/-! ## Containers -/

namespace AssocMap

/-- Lookup of a key (`find`). -/
def find {κ ν : Type} [DecidableEq κ] : List (κ × ν) → κ → Option ν
  | [], _ => none
  | (k', v) :: rest, k => if k' = k then some v else find rest k

/-- Assignment `m[k] = v`: the value is replaced when the key is present, added otherwise. -/
def set {κ ν : Type} [DecidableEq κ] : List (κ × ν) → κ → ν → List (κ × ν)
  | [], k, v => [(k, v)]
  | (k', v') :: rest, k, v => if k' = k then (k, v) :: rest else (k', v') :: set rest k v

/-- The call `m.emplace(k, v)`: nothing happens when the key is already present. -/
def emplace {κ ν : Type} [DecidableEq κ] (m : List (κ × ν)) (k : κ) (v : ν) : List (κ × ν) :=
  match find m k with
  | some _ => m
  | none => set m k v

end AssocMap

/-- The call `s.insert(x)` on a `std::set` ordered by `less`, kept as a sorted list. -/
def set_insert {α : Type} [DecidableEq α] (less : α → α → Bool) (x : α) : List α → List α
  | [] => [x]
  | y :: ys =>
    if x = y then y :: ys else if less x y then x :: y :: ys else y :: set_insert less x ys

/-- Lexicographic comparison of two character sequences. -/
def chars_less : List Char → List Char → Bool
  | [], [] => false
  | [], _ :: _ => true
  | _ :: _, [] => false
  | a :: as, b :: bs =>
    if a.toNat < b.toNat then true
    else if b.toNat < a.toNat then false
    else chars_less as bs

/-- The order `operator<` of `std::string`. -/
def string_less (a b : String) : Bool := chars_less a.data b.data

/-! ## Data model -/

/-- A triplet is identified by its canonical name. -/
abbrev Triplet := String

/-- A package name together with a triplet. -/
structure PackageSpec where
  name : String
  triplet : Triplet
deriving DecidableEq, Repr

/-- Modelled from the spec: the order `operator<` of `PackageSpec` (declared outside the
translated sources), by name and then by triplet; "the canonical spec key is
`name:triplet`". -/
def PackageSpec.less (a b : PackageSpec) : Bool :=
  string_less a.name b.name || (a.name = b.name && string_less a.triplet b.triplet)

/-- A feature of a package: `"core"` is the core paragraph, `""` the default feature set,
`"*"` all features. -/
structure FeatureSpec where
  spec : PackageSpec
  feature : String
deriving DecidableEq, Repr

/-- Name of the package of a feature spec (`FeatureSpec::name`). -/
def FeatureSpec.name (f : FeatureSpec) : String := f.spec.name

/-- A feature paragraph of a port. -/
structure FeatureParagraph where
  name : String
  depends : List String
deriving DecidableEq, Repr

/-- The core paragraph of a port. -/
structure SourceParagraph where
  name : String
  version : String
  depends : List String
  default_features : List String
  description : String := ""
  homepage : String := ""
deriving DecidableEq, Repr

/-- The manifest of a port. -/
structure SourceControlFile where
  core_paragraph : SourceParagraph
  feature_paragraphs : List FeatureParagraph
deriving DecidableEq, Repr

/-- A paragraph of the status database. -/
structure BinaryParagraph where
  spec : PackageSpec
  version : String
  feature : String
  default_features : List String
  depends : List String
  abi : String
deriving DecidableEq, Repr

/-- An installed package: its core paragraph and the paragraphs of its installed
features. -/
structure InstalledPackageView where
  core : BinaryParagraph
  features : List BinaryParagraph
deriving DecidableEq, Repr

/-- The spec of an installed package (`InstalledPackageView::spec`). -/
def InstalledPackageView.spec (ipv : InstalledPackageView) : PackageSpec := ipv.core.spec

/-- Modelled from the spec: the status database (`StatusParagraphs`, declared outside the
translated sources) is the snapshot of the currently installed package views, which is
what `get_installed_ports` returns. -/
abbrev StatusParagraphs := List InstalledPackageView

/-- The enumeration `RequestType`. -/
inductive RequestType where
  | UNKNOWN
  | USER_REQUESTED
  | AUTO_SELECTED
deriving DecidableEq, Repr

/-- The enumeration `InstallPlanType`. -/
inductive InstallPlanType where
  | UNKNOWN
  | BUILD_AND_INSTALL
  | ALREADY_INSTALLED
  | EXCLUDED
deriving DecidableEq, Repr

/-- The enumeration `RemovePlanType`. -/
inductive RemovePlanType where
  | UNKNOWN
  | NOT_INSTALLED
  | REMOVE
deriving DecidableEq, Repr

/-- The installed half of a cluster. -/
structure ClusterInstalled where
  ipv : InstalledPackageView
  remove_edges : List PackageSpec
  original_features : List String
deriving DecidableEq, Repr

/-- The source half of a cluster. -/
structure ClusterSource where
  scf : SourceControlFile
  build_edges : List (String × List FeatureSpec)
deriving DecidableEq, Repr

/-- Representation of a package and its features in a `ClusterGraph`. -/
structure Cluster where
  spec : PackageSpec
  installed : Option ClusterInstalled := none
  source : Option ClusterSource := none
  plus : List (String × Bool) := []
  to_install_features : List String := []
  minus : Bool := false
  transient_uninstalled : Bool := true
  request_type : RequestType := RequestType.AUTO_SELECTED
deriving DecidableEq, Repr

/-- Value of `cluster.plus[feature]`; an absent entry reads as `false`. -/
def Cluster.plus_of (c : Cluster) (feature : String) : Bool :=
  (AssocMap.find c.plus feature).getD false

/-- Modelled from the spec: `Graphs::Graph<ClusterPtr>` (declared outside the translated
sources) maps every vertex to the set of vertices it has an edge to; "edges encode
`from depends on to`". -/
structure Graph where
  m_edges : List (PackageSpec × List PackageSpec) := []
deriving DecidableEq, Repr

namespace Graph

/-- Modelled from the spec: `add_vertex` makes the vertex known to the graph. -/
def add_vertex (g : Graph) (v : PackageSpec) : Graph :=
  match AssocMap.find g.m_edges v with
  | some _ => g
  | none => ⟨AssocMap.set g.m_edges v []⟩

/-- Modelled from the spec: `add_edge` records the edge `u → v`; both ends become
vertices. -/
def add_edge (g : Graph) (u v : PackageSpec) : Graph :=
  let g1 := (g.add_vertex v).add_vertex u
  let adj := (AssocMap.find g1.m_edges u).getD []
  ⟨AssocMap.set g1.m_edges u (if v ∈ adj then adj else adj ++ [v])⟩

/-- Modelled from the spec: the vertices of the graph. -/
def vertex_list (g : Graph) : List PackageSpec := g.m_edges.map Prod.fst

/-- Modelled from the spec: the vertices a vertex has an edge to. -/
def adjacency_list (g : Graph) (v : PackageSpec) : List PackageSpec :=
  (AssocMap.find g.m_edges v).getD []

end Graph

/-- The two sub-graphs of a plan. -/
structure GraphPlan where
  remove_graph : Graph := {}
  install_graph : Graph := {}
deriving DecidableEq, Repr

/-- A path (`fs::path`), as the list of its components. -/
abbrev Path := List String

/-- The result of `compute_abi_tag` (`AbiTagAndFile`). -/
structure AbiTagAndFile where
  tag : String
  tag_file : Path
deriving DecidableEq, Repr

/-- The option `UseHeadVersion`. -/
inductive UseHeadVersion where
  | NO
  | YES
deriving DecidableEq, Repr

/-- The option `AllowDownloads`. -/
inductive AllowDownloads where
  | NO
  | YES
deriving DecidableEq, Repr

/-- The option `CleanBuildtrees`. -/
inductive CleanBuildtrees where
  | NO
  | YES
deriving DecidableEq, Repr

/-- The option `DownloadTool`. -/
inductive DownloadTool where
  | BUILT_IN
  | ARIA2
deriving DecidableEq, Repr

/-- The option `BinaryCaching`. -/
inductive BinaryCaching where
  | NO
  | YES
deriving DecidableEq, Repr

/-- The option `FailOnTombstone`. -/
inductive FailOnTombstone where
  | NO
  | YES
deriving DecidableEq, Repr

/-- The options of a build that the translated sources read (`BuildPackageOptions`); the
defaults are those of `BuildPackageOptions{}`. -/
structure BuildPackageOptions where
  use_head_version : UseHeadVersion := UseHeadVersion.NO
  allow_downloads : AllowDownloads := AllowDownloads.NO
  clean_buildtrees : CleanBuildtrees := CleanBuildtrees.NO
  download_tool : DownloadTool := DownloadTool.BUILT_IN
  binary_caching : BinaryCaching := BinaryCaching.NO
  fail_on_tombstone : FailOnTombstone := FailOnTombstone.NO
deriving DecidableEq, Repr

/-- The install action of a plan.  `build_action` holds the manifest the
`BuildAndInstallAction` refers to; the other members of the build action are the fields
`build_options` and `port_dir`, which the planner leaves at `BuildPackageOptions{}` and
`{}`.  The field `abi` is filled in after planning. -/
structure InstallPlanAction where
  spec : PackageSpec
  feature_list : List String
  computed_dependencies : List PackageSpec
  plan_type : InstallPlanType
  request_type : RequestType
  build_action : Option SourceControlFile
  installed_package : Option InstalledPackageView
  build_options : BuildPackageOptions := {}
  port_dir : Option Path := none
  abi : Option AbiTagAndFile := none
deriving DecidableEq, Repr

/-- The remove action of a plan. -/
structure RemovePlanAction where
  spec : PackageSpec
  plan_type : RemovePlanType
  request_type : RequestType
deriving DecidableEq, Repr

/-- An action of a plan: exactly one of `install_action`, `remove_action`. -/
inductive AnyAction where
  | install_action (a : InstallPlanAction)
  | remove_action (a : RemovePlanAction)
deriving DecidableEq, Repr

/-- The spec an action is about (`AnyAction::spec`). -/
def AnyAction.spec : AnyAction → PackageSpec
  | .install_action a => a.spec
  | .remove_action a => a.spec

/-- The fatal exits of the planner. -/
inductive FatalError where
  /-- "Error: Cannot find definition for package" (`mark_plus`). -/
  | cannot_find_definition (name : String)
  /-- "Error: cannot locate new portfile" (`mark_minus`). -/
  | cannot_locate_portfile (spec : PackageSpec)
  /-- A `check_exit` without a message, identified by the function it is in. -/
  | check_failed (place : String)
  /-- "Error: Unable to satisfy default dependencies of". -/
  | unsatisfied_default_dependencies (spec : PackageSpec)
  /-- "Error: Unable to satisfy dependency". -/
  | unsatisfied_dependency (depend : FeatureSpec) (of_feature : FeatureSpec)
  /-- "Error: Internal error while installing feature". -/
  | internal_error_installing_feature (feature : String) (spec : PackageSpec)
  /-- "Error: ... is not a feature of package ..." (`PackageGraph::install`). -/
  | not_a_feature (feature : String) (name : String)
  /-- "Error: database corrupted. Package ... is installed but dependency ... is not." -/
  | database_corrupted (spec : PackageSpec) (dep : PackageSpec)
  /-- The topological sort did not produce an order. -/
  | topological_sort_failed
  /-- The call `Checks::unreachable`, identified by the function it is in. -/
  | unreachable (place : String)
  /-- The call `Checks::exit_fail`, identified by the function it is in. -/
  | exit_fail (place : String)
  /-- The call `Checks::exit_with_message` or a `check_exit` with a message. -/
  | exit_with_message (message : String)
deriving DecidableEq, Repr

/-- Ways in which a run does not produce a result. -/
inductive Failure where
  | fatal (e : FatalError)
  | out_of_fuel
deriving DecidableEq, Repr

/-- The helpers the planner calls whose definitions lie outside the translated sources. -/
structure Env where
  /-- The virtual `PortFileProvider::get_control_file`. -/
  get_control_file : String → Option SourceControlFile
  /-- The helper `filter_dependencies_to_specs(depends, triplet)`. -/
  filter_dependencies_to_specs : List String → Triplet → List FeatureSpec
  /-- The method `InstalledPackageView::dependencies()`. -/
  dependencies : InstalledPackageView → List PackageSpec
  /-- The call `Graphs::topological_sort(vertex_list, graph, randomizer)`; `none` when it
  exits instead of returning. -/
  topological_sort : List PackageSpec → Graph → Option (List PackageSpec)

/-! ## The cluster graph -/

/-- The map `ClusterGraph::m_graph`. -/
abbrev ClusterGraph := List (PackageSpec × Cluster)

/-- The function `ClusterGraph::cluster_from_scf`. -/
def cluster_from_scf (env : Env) (scf : SourceControlFile) (t : Triplet) : ClusterSource :=
  let core_edges : List (String × List FeatureSpec) :=
    AssocMap.emplace [] "core" (env.filter_dependencies_to_specs scf.core_paragraph.depends t)
  { scf := scf
    build_edges := scf.feature_paragraphs.foldl
      (fun edges feature =>
        AssocMap.emplace edges feature.name (env.filter_dependencies_to_specs feature.depends t))
      core_edges }

/-- The cluster `ClusterGraph::get` creates for a spec that is not in the graph yet. -/
def new_cluster (env : Env) (spec : PackageSpec) : Cluster :=
  { spec := spec
    source := (env.get_control_file spec.name).map (fun scf => cluster_from_scf env scf spec.triplet) }

/-- The function `ClusterGraph::get`: find the cluster of `spec` or create it from the
port file provider.  The result is the graph with the cluster in it. -/
def ClusterGraph.get (env : Env) (g : ClusterGraph) (spec : PackageSpec) : ClusterGraph :=
  match AssocMap.find g spec with
  | some _ => g
  | none => AssocMap.set g spec (new_cluster env spec)

/-- The cluster a `Cluster&` for `spec` refers to: the one `graph.get(spec)` returns. -/
def ClusterGraph.cluster (env : Env) (g : ClusterGraph) (spec : PackageSpec) : Cluster :=
  match AssocMap.find g spec with
  | some cluster => cluster
  | none => new_cluster env spec

/-- The state the marking procedures work on: the cluster graph and the graph plan. -/
structure PlanState where
  m_graph : ClusterGraph := []
  graph_plan : GraphPlan := {}
deriving DecidableEq, Repr

/-- The cluster a `Cluster&` for `spec` refers to: the one `graph.get(spec)` returns. -/
def PlanState.cluster (env : Env) (st : PlanState) (spec : PackageSpec) : Cluster :=
  ClusterGraph.cluster env st.m_graph spec

/-- Write through a `Cluster&`. -/
def PlanState.modify (env : Env) (st : PlanState) (spec : PackageSpec) (f : Cluster → Cluster) :
    PlanState :=
  { st with m_graph := AssocMap.set st.m_graph spec (f (st.cluster env spec)) }

/-- The call `graph.get(spec)` on the graph of the state. -/
def PlanState.get (env : Env) (st : PlanState) (spec : PackageSpec) : PlanState :=
  { st with m_graph := ClusterGraph.get env st.m_graph spec }

/-- The enumeration `MarkPlusResult`. -/
inductive MarkPlusResult where
  | FEATURE_NOT_FOUND
  | SUCCESS
deriving DecidableEq, Repr

deriving instance DecidableEq for Except

/-- A procedure on the planner state that may exit. -/
abbrev Planner (α : Type) := StateT PlanState (Except Failure) α

/-- The call `Checks::check_exit(line, cond, ...)`. -/
def check_exit (cond : Bool) (e : FatalError) : Planner Unit :=
  if cond then pure () else throw (Failure.fatal e)

/-- A range-based `for` loop whose body does not leave the loop early. -/
def for_each {α : Type} (xs : List α) (body : α → Planner Unit) : Planner Unit :=
  match xs with
  | [] => pure ()
  | x :: rest => do
    body x
    for_each rest body

/-- A range-based `for` loop that is left with the first result that is not `SUCCESS`;
the value is `SUCCESS` when the loop runs to its end. -/
def first_failure {α : Type} (xs : List α) (body : α → Planner MarkPlusResult) :
    Planner MarkPlusResult :=
  match xs with
  | [] => pure MarkPlusResult.SUCCESS
  | x :: rest => do
    let res ← body x
    if res ≠ MarkPlusResult.SUCCESS then pure res else first_failure rest body

/-! ## Marking -/

/-- The three mutually recursive marking procedures, as they are available to a caller
for its nested calls. -/
structure Marking where
  mark_plus : String → PackageSpec → Planner MarkPlusResult
  mark_minus : PackageSpec → Planner Unit
  follow_plus_dependencies : String → PackageSpec → Planner MarkPlusResult

/-- Body of the loop of `follow_plus_dependencies` over the build edges of the feature. -/
def follow_plus_dependencies_edge (env : Env) (callee : Marking) (feature : String)
    (cluster : PackageSpec) (depend : FeatureSpec) : Planner Unit := do
  modify (fun st => st.get env depend.spec)
  let res ← callee.mark_plus depend.feature depend.spec
  check_exit (res = MarkPlusResult.SUCCESS)
    (FatalError.unsatisfied_dependency depend ⟨cluster, feature⟩)
  if depend.spec = cluster then pure ()
  else modify (fun st => { st with graph_plan :=
    { st.graph_plan with
      install_graph := st.graph_plan.install_graph.add_edge cluster depend.spec } })

/-- Body of `follow_plus_dependencies(feature, cluster, graph, graph_plan,
prevent_default_features)`; nested calls go to `callee`. -/
def follow_plus_dependencies_body (env : Env) (prevent_default_features : List String)
    (callee : Marking) (feature : String) (cluster : PackageSpec) : Planner MarkPlusResult := do
  match ((← get).cluster env cluster).source with
  | some p_source =>
    match AssocMap.find p_source.build_edges feature with
    | some build_edges => do
      -- mark this package for rebuilding if needed
      callee.mark_minus cluster
      modify (fun st => { st with graph_plan :=
        { st.graph_plan with install_graph := st.graph_plan.install_graph.add_vertex cluster } })
      modify (fun st => st.modify env cluster (fun c =>
        { c with to_install_features := set_insert string_less feature c.to_install_features }))
      (if feature ≠ "core" then do
        -- All features implicitly depend on core
        let res ← callee.mark_plus "core" cluster
        -- Should be impossible for "core" to not exist
        check_exit (res = MarkPlusResult.SUCCESS) (FatalError.check_failed "follow_plus_dependencies")
      else pure ())
      let st ← get
      (if (st.cluster env cluster).installed.isNone
          ∧ cluster.name ∉ prevent_default_features then do
        -- Add the default features of this package if it was not previously installed and
        -- it isn't being suppressed.
        let res ← callee.mark_plus "" cluster
        check_exit (res = MarkPlusResult.SUCCESS) (FatalError.unsatisfied_default_dependencies cluster)
      else pure ())
      for_each build_edges (follow_plus_dependencies_edge env callee feature cluster)
      pure MarkPlusResult.SUCCESS
    | none =>
      -- The feature was not available in the installed package nor the source paragraph.
      pure MarkPlusResult.FEATURE_NOT_FOUND
  | none => pure MarkPlusResult.FEATURE_NOT_FOUND

/-- Body of the loop of `mark_plus` over the feature paragraphs, for the feature "*". -/
def mark_plus_all_features_step (callee : Marking) (cluster : PackageSpec)
    (fpgh : FeatureParagraph) : Planner Unit := do
  let res ← callee.mark_plus fpgh.name cluster
  check_exit (res = MarkPlusResult.SUCCESS)
    (FatalError.internal_error_installing_feature fpgh.name cluster)

/-- Body of `mark_plus(feature, cluster, graph, graph_plan, prevent_default_features)`;
nested calls go to `callee`. -/
def mark_plus_body (env : Env) (callee : Marking) (feature : String) (cluster : PackageSpec) :
    Planner MarkPlusResult := do
  if ((← get).cluster env cluster).plus_of feature then pure MarkPlusResult.SUCCESS
  else do
    modify (fun st => st.modify env cluster (fun c =>
      { c with plus := AssocMap.set c.plus feature true }))
    match ((← get).cluster env cluster).source with
    | none => throw (Failure.fatal (FatalError.cannot_find_definition cluster.name))
    | some p_source =>
      if feature = "" then do
        -- Add default features for this package. This is an exact reference, so ignore
        -- prevent_default_features.
        let res ← first_failure p_source.scf.core_paragraph.default_features
          (fun default_feature => callee.mark_plus default_feature cluster)
        if res ≠ MarkPlusResult.SUCCESS then pure res
        else
          -- "core" is always required.
          callee.mark_plus "core" cluster
      else if feature = "*" then do
        for_each p_source.scf.feature_paragraphs (mark_plus_all_features_step callee cluster)
        let res ← callee.mark_plus "core" cluster
        check_exit (res = MarkPlusResult.SUCCESS) (FatalError.check_failed "mark_plus")
        pure MarkPlusResult.SUCCESS
      else if feature ∈ (match ((← get).cluster env cluster).installed with
          | some p_installed => p_installed.original_features
          | none => []) then
        pure MarkPlusResult.SUCCESS
      else do
        -- This feature was or will be uninstalled, therefore we need to rebuild
        callee.mark_minus cluster
        callee.follow_plus_dependencies feature cluster

/-- Body of the loop of `mark_minus` over the remove edges of the installed package. -/
def mark_minus_remove_edge (env : Env) (callee : Marking) (cluster : PackageSpec)
    (edge : PackageSpec) : Planner Unit := do
  modify (fun st => st.get env edge)
  check_exit (cluster ≠ edge) (FatalError.check_failed "mark_minus")
  modify (fun st => { st with graph_plan :=
    { st.graph_plan with remove_graph := st.graph_plan.remove_graph.add_edge cluster edge } })
  callee.mark_minus edge

/-- Body of the loop of `mark_minus` over the original features; a result other than
`SUCCESS` only prints a warning. -/
def mark_minus_reinstall (callee : Marking) (cluster : PackageSpec) (f : String) :
    Planner Unit := do
  let _ ← callee.follow_plus_dependencies f cluster
  pure ()

/-- Body of the loop of `mark_minus` over the default features of the port; a result other
than `SUCCESS` only prints a warning. -/
def mark_minus_new_default (callee : Marking) (cluster : PackageSpec)
    (previous_df : List String) (default_feature : String) : Planner Unit :=
  if default_feature ∉ previous_df then do
    -- This is a new default feature, mark it for installation
    let _ ← callee.mark_plus default_feature cluster
    pure ()
  else pure ()

/-- Body of `mark_minus(cluster, graph, graph_plan, prevent_default_features)`; nested
calls go to `callee`. -/
def mark_minus_body (env : Env) (callee : Marking) (cluster : PackageSpec) : Planner Unit := do
  if ((← get).cluster env cluster).minus then pure ()
  else do
    modify (fun st => st.modify env cluster (fun c =>
      { c with minus := true, transient_uninstalled := true }))
    let p_installed := ((← get).cluster env cluster).installed
    match ((← get).cluster env cluster).source with
    | none => throw (Failure.fatal (FatalError.cannot_locate_portfile cluster))
    | some p_source =>
      match p_installed with
      | none => pure ()
      | some p_installed => do
        modify (fun st => { st with graph_plan :=
          { st.graph_plan with remove_graph := st.graph_plan.remove_graph.add_vertex cluster } })
        for_each p_installed.remove_edges (mark_minus_remove_edge env callee cluster)
        -- Reinstall all original features. Don't use mark_plus because it will ignore them
        -- since they are "already installed".
        for_each p_installed.original_features (mark_minus_reinstall callee cluster)
        -- Check if any default features have been added
        for_each p_source.scf.core_paragraph.default_features
          (mark_minus_new_default callee cluster p_installed.ipv.core.default_features)

/-- The marking procedures with recursion depth at most `fuel`. -/
def marking (env : Env) (prevent_default_features : List String) : Nat → Marking
  | 0 =>
    { mark_plus := fun _ _ => throw Failure.out_of_fuel
      mark_minus := fun _ => throw Failure.out_of_fuel
      follow_plus_dependencies := fun _ _ => throw Failure.out_of_fuel }
  | fuel + 1 =>
    { mark_plus := mark_plus_body env (marking env prevent_default_features fuel)
      mark_minus := mark_minus_body env (marking env prevent_default_features fuel)
      follow_plus_dependencies :=
        follow_plus_dependencies_body env prevent_default_features
          (marking env prevent_default_features fuel) }

/-- The procedure `mark_plus`. -/
def mark_plus (env : Env) (prevent_default_features : List String) (fuel : Nat)
    (feature : String) (cluster : PackageSpec) : Planner MarkPlusResult :=
  (marking env prevent_default_features fuel).mark_plus feature cluster

/-- The procedure `mark_minus`. -/
def mark_minus (env : Env) (prevent_default_features : List String) (fuel : Nat)
    (cluster : PackageSpec) : Planner Unit :=
  (marking env prevent_default_features fuel).mark_minus cluster

/-- The procedure `follow_plus_dependencies`. -/
def follow_plus_dependencies (env : Env) (prevent_default_features : List String) (fuel : Nat)
    (feature : String) (cluster : PackageSpec) : Planner MarkPlusResult :=
  (marking env prevent_default_features fuel).follow_plus_dependencies feature cluster

/-! ## The package graph -/

/-- The lambda of `create_feature_install_graph` that builds the installed half of a
cluster. -/
def cluster_installed_of (ipv : InstalledPackageView) : ClusterInstalled :=
  { ipv := ipv
    remove_edges := []
    original_features :=
      ipv.features.foldl (fun s feature => set_insert string_less feature.feature s)
        (set_insert string_less "core" []) }

/-- First loop of `create_feature_install_graph`: attach the installed views. -/
def attach_installed (env : Env) (installed_ports : List InstalledPackageView)
    (graph : ClusterGraph) : ClusterGraph :=
  installed_ports.foldl
    (fun g ipv =>
      let g1 := ClusterGraph.get env g ipv.spec
      let cluster := ClusterGraph.cluster env g1 ipv.spec
      AssocMap.set g1 ipv.spec
        { cluster with
          transient_uninstalled := false
          installed := some (cluster_installed_of ipv) })
    graph

/-- Inner loop of the second loop of `create_feature_install_graph`: the remove edges
one installed package contributes. -/
def add_remove_edges (env : Env) (spec : PackageSpec) :
    List PackageSpec → ClusterGraph → Except Failure ClusterGraph
  | [], g => pure g
  | dep :: deps, g =>
    let g1 := ClusterGraph.get env g dep
    let cluster := ClusterGraph.cluster env g1 dep
    match cluster.installed with
    | none => throw (Failure.fatal (FatalError.database_corrupted spec dep))
    | some p_installed =>
      add_remove_edges env spec deps
        (AssocMap.set g1 dep
          { cluster with
            installed := some
              { p_installed with
                remove_edges := set_insert PackageSpec.less spec p_installed.remove_edges } })

/-- Second loop of `create_feature_install_graph`: populate the graph with "remove
edges", which are the reverse of the Build-Depends edges. -/
def populate_remove_edges (env : Env) :
    List InstalledPackageView → ClusterGraph → Except Failure ClusterGraph
  | [], g => pure g
  | ipv :: rest, g => do
    let g1 ← add_remove_edges env ipv.spec (env.dependencies ipv) g
    populate_remove_edges env rest g1

/-- The function `create_feature_install_graph`. -/
def create_feature_install_graph (env : Env) (status_db : StatusParagraphs) :
    Except Failure ClusterGraph :=
  let installed_ports := status_db
  populate_remove_edges env installed_ports (attach_installed env installed_ports [])

/-- The method `PackageGraph::install`. -/
def PackageGraph.install (env : Env) (fuel : Nat) (spec : FeatureSpec)
    (prevent_default_features : List String) : Planner Unit := do
  modify (fun st => st.get env spec.spec)
  modify (fun st => st.modify env spec.spec (fun c =>
    { c with request_type := RequestType.USER_REQUESTED }))
  let res ← mark_plus env prevent_default_features fuel spec.feature spec.spec
  check_exit (res = MarkPlusResult.SUCCESS) (FatalError.not_a_feature spec.feature spec.name)
  modify (fun st => { st with graph_plan :=
    { st.graph_plan with install_graph := st.graph_plan.install_graph.add_vertex spec.spec } })

/-- The call `Util::sort_unique_erase` on a vector of specs. -/
def sort_unique_erase (specs : List PackageSpec) : List PackageSpec :=
  specs.foldl (fun sorted spec => set_insert PackageSpec.less spec sorted) []

/-- Second loop of `PackageGraph::serialize`: the install actions, in the order of the
sorted install graph. -/
def serialize_install (env : Env) (st : PlanState) :
    List PackageSpec → Except Failure (List AnyAction)
  | [] => pure []
  | p_cluster :: rest =>
    let cluster := st.cluster env p_cluster
    if cluster.transient_uninstalled then
      -- If it will be transiently uninstalled, we need to issue a full installation command
      match cluster.source with
      | none => throw (Failure.fatal (FatalError.check_failed "serialize"))
      | some source => do
        let dep_specs :=
          sort_unique_erase
            ((st.graph_plan.install_graph.adjacency_list p_cluster).map
              (fun p => (st.cluster env p).spec))
        let plan ← serialize_install env st rest
        pure (AnyAction.install_action
          { spec := cluster.spec
            feature_list := cluster.to_install_features
            computed_dependencies := dep_specs
            plan_type := InstallPlanType.BUILD_AND_INSTALL
            request_type := cluster.request_type
            build_action := some source.scf
            installed_package := none } :: plan)
    else if cluster.request_type ≠ RequestType.USER_REQUESTED then
      -- If the package isn't transitively installed, still include it if the user
      -- explicitly requested it
      serialize_install env st rest
    else
      match cluster.installed with
      | none => throw (Failure.fatal (FatalError.check_failed "serialize"))
      | some installed => do
        let plan ← serialize_install env st rest
        pure (AnyAction.install_action
          { spec := installed.ipv.spec
            feature_list := installed.original_features
            computed_dependencies := env.dependencies installed.ipv
            plan_type := InstallPlanType.ALREADY_INSTALLED
            request_type := cluster.request_type
            build_action := none
            installed_package := some installed.ipv } :: plan)

/-- First loop of `PackageGraph::serialize`: one remove action per vertex of the sorted
remove graph. -/
def serialize_remove (env : Env) (st : PlanState) (remove_toposort : List PackageSpec) :
    List AnyAction :=
  remove_toposort.map (fun p_cluster =>
    AnyAction.remove_action
      { spec := (st.cluster env p_cluster).spec
        plan_type := RemovePlanType.REMOVE
        request_type := (st.cluster env p_cluster).request_type })

/-- The method `PackageGraph::serialize`, on the state reached by the marking. -/
def PackageGraph.serialize (env : Env) (st : PlanState) : Except Failure (List AnyAction) :=
  let remove_vertex_list := st.graph_plan.remove_graph.vertex_list
  match env.topological_sort remove_vertex_list st.graph_plan.remove_graph with
  | none => throw (Failure.fatal FatalError.topological_sort_failed)
  | some remove_toposort =>
    let insert_vertex_list := st.graph_plan.install_graph.vertex_list
    match env.topological_sort insert_vertex_list st.graph_plan.install_graph with
    | none => throw (Failure.fatal FatalError.topological_sort_failed)
    | some insert_toposort => do
      let installs ← serialize_install env st insert_toposort
      pure (serialize_remove env st remove_toposort ++ installs)

/-- The set `prevent_default_features` that `create_feature_install_plan` computes from
its input: when "core" is explicitly listed, default features should not be installed. -/
def prevent_default_features_of (specs : List FeatureSpec) : List String :=
  specs.foldl
    (fun s spec => if spec.feature = "core" then (if spec.name ∈ s then s else s ++ [spec.name]) else s)
    []

/-- The state of a `PackageGraph` that has just been constructed. -/
def PackageGraph.init (env : Env) (status_db : StatusParagraphs) : Except Failure PlanState := do
  let graph ← create_feature_install_graph env status_db
  pure { m_graph := graph, graph_plan := {} }

/-- The marking phase of `create_feature_install_plan`: the loop over the input. -/
def install_all (env : Env) (fuel : Nat) (specs : List FeatureSpec)
    (prevent_default_features : List String) : Planner Unit :=
  for_each specs (fun spec =>
    -- If preventing default features, ignore the automatically generated "" references
    if spec.feature = "" ∧ spec.name ∈ prevent_default_features then pure ()
    else PackageGraph.install env fuel spec prevent_default_features)

/-- The state of the `PackageGraph` of `create_feature_install_plan` when it is about to
be serialized. -/
def marked_state (env : Env) (fuel : Nat) (specs : List FeatureSpec)
    (status_db : StatusParagraphs) : Except Failure PlanState := do
  let prevent_default_features := prevent_default_features_of specs
  let pgraph ← PackageGraph.init env status_db
  let (_, marked) ← (install_all env fuel specs prevent_default_features).run pgraph
  pure marked

/-- The function `create_feature_install_plan(provider, specs, status_db, options)`. -/
def create_feature_install_plan (env : Env) (fuel : Nat) (specs : List FeatureSpec)
    (status_db : StatusParagraphs) : Except Failure (List AnyAction) := do
  let marked ← marked_state env fuel specs status_db
  PackageGraph.serialize env marked

/-! ## The contract of the topological sort -/

/-- Whether every vertex of the list comes after all vertices of its adjacency list, the
vertices in `seen` counting as coming before the list. -/
def Graph.ordered_from (g : Graph) : List PackageSpec → List PackageSpec → Bool
  | _, [] => true
  | seen, v :: rest =>
    (g.adjacency_list v).all (fun w => decide (w ∈ seen)) && g.ordered_from (v :: seen) rest

/-- Modelled from the spec: a topological order of a graph lists every vertex of the graph
once, each vertex after all vertices of its adjacency list ("dependencies before their
dependents" for the install graph). -/
def Graph.TopologicalOrder (g : Graph) (sorted : List PackageSpec) : Prop :=
  sorted.Perm g.vertex_list ∧ g.ordered_from [] sorted = true

/-- Modelled from the spec: `Graphs::topological_sort` (defined outside the translated
sources), called on the vertex list of a graph, returns a topological order of the graph,
and exits only when there is none. -/
def Env.TopologicalSortSpec (env : Env) : Prop :=
  ∀ g : Graph,
    match env.topological_sort g.vertex_list g with
    | some sorted => g.TopologicalOrder sorted
    | none => ∀ sorted, ¬ g.TopologicalOrder sorted

/-! ## Concrete environments -/

/-- A topological sort: the first permutation of the vertices that is in topological
order. -/
def search_topological_sort (vertices : List PackageSpec) (g : Graph) :
    Option (List PackageSpec) :=
  (vertices.permutations').find? (fun sorted => g.ordered_from [] sorted)

/-- Split a feature list `a,b,c` at the commas. -/
def split_features : List Char → List Char → List String
  | acc, [] => if acc = [] then [] else [String.mk acc.reverse]
  | acc, c :: cs =>
    if c = ',' then String.mk acc.reverse :: split_features [] cs
    else split_features (c :: acc) cs

/-- Read one dependency `name` or `name[feature,feature]` for a triplet: one feature spec
per listed feature, the default feature set `""` when none is listed. -/
def parse_depend (t : Triplet) (depend : String) : List FeatureSpec :=
  let name := String.mk (depend.data.takeWhile (fun c => c ≠ '['))
  let inner :=
    ((depend.data.dropWhile (fun c => c ≠ '[')).drop 1).takeWhile (fun c => c ≠ ']')
  match split_features [] inner with
  | [] => [⟨⟨name, t⟩, ""⟩]
  | features => features.map (fun feature => ⟨⟨name, t⟩, feature⟩)

/-- An environment over a finite port catalog: dependencies are not filtered by platform,
and the dependencies of an installed package are those of its paragraphs, at its triplet. -/
def catalog_env (ports : List (String × SourceControlFile)) : Env :=
  { get_control_file := fun name => AssocMap.find ports name
    filter_dependencies_to_specs := fun depends t => depends.flatMap (parse_depend t)
    dependencies := fun ipv =>
      (ipv.features.flatMap (fun feature => feature.depends) ++ ipv.core.depends).map
        (fun depend => ⟨depend, ipv.spec.triplet⟩)
    topological_sort := search_topological_sort }

/-- A port with the given core dependencies, default features and features. -/
def make_port (name : String) (depends default_features : List String)
    (features : List (String × List String)) : SourceControlFile :=
  { core_paragraph :=
      { name := name, version := "1.0", depends := depends, default_features := default_features }
    feature_paragraphs := features.map (fun feature => ⟨feature.1, feature.2⟩) }

/-- An installed package with the given installed features, recorded default features and
core dependencies. -/
def make_installed (name : String) (t : Triplet) (features default_features depends : List String) :
    InstalledPackageView :=
  { core :=
      { spec := ⟨name, t⟩, version := "1.0", feature := "", default_features := default_features
        depends := depends, abi := "" }
    features := features.map (fun feature =>
      { spec := ⟨name, t⟩, version := "1.0", feature := feature, default_features := []
        depends := [], abi := "" }) }

end Vcpkg

namespace Vcpkg

/-! ## Relations between states used in the proofs -/

/-- The graph `g` is `g0` with remove edges added: every cluster is unchanged except for
the remove edges of its installed half, which gained exactly the specs `x` with `E x s`. -/
def RemoveEdgesAdded (env : Env) (E : PackageSpec → PackageSpec → Prop)
    (g0 g : ClusterGraph) : Prop :=
  ∀ s : PackageSpec,
    { ClusterGraph.cluster env g s with installed := none } =
      { ClusterGraph.cluster env g0 s with installed := none } ∧
    ((ClusterGraph.cluster env g0 s).installed = none →
      (ClusterGraph.cluster env g s).installed = none) ∧
    (∀ i0, (ClusterGraph.cluster env g0 s).installed = some i0 →
      ∃ i, (ClusterGraph.cluster env g s).installed = some i ∧ i.ipv = i0.ipv ∧
        i.original_features = i0.original_features ∧
        ∀ x, x ∈ i.remove_edges ↔ x ∈ i0.remove_edges ∨ E x s)

/-- The view of the status database that is attached to the cluster of `s`: the last one
listed for that spec. -/
def last_installed : List InstalledPackageView → PackageSpec → Option InstalledPackageView
  | [], _ => none
  | ipv :: rest, s =>
    match last_installed rest s with
    | some found => some found
    | none => if ipv.spec = s then some ipv else none

/-! ## Reasoning about planner procedures -/

/-- Weakest precondition for partial correctness: whenever the procedure returns from
`st`, the result and the final state satisfy `Q`. -/
def wp {α : Type} (m : Planner α) (Q : α → PlanState → Prop) (st : PlanState) : Prop :=
  ∀ r st', m.run st = Except.ok (r, st') → Q r st'

/-- A specification of the three marking procedures: for each, a relation between the
arguments, the state before the call, the result and the state after the call. -/
structure MarkingSpec where
  mark_plus : String → PackageSpec → PlanState → MarkPlusResult → PlanState → Prop
  mark_minus : PackageSpec → PlanState → PlanState → Prop
  follow_plus_dependencies :
    String → PackageSpec → PlanState → MarkPlusResult → PlanState → Prop

/-- The procedures of `callee` meet the specification whenever they return. -/
def Marking.Meets (callee : Marking) (S : MarkingSpec) : Prop :=
  (∀ feature cluster st, wp (callee.mark_plus feature cluster) (S.mark_plus feature cluster st) st) ∧
  (∀ cluster st, wp (callee.mark_minus cluster) (fun _ => S.mark_minus cluster st) st) ∧
  (∀ feature cluster st,
    wp (callee.follow_plus_dependencies feature cluster)
      (S.follow_plus_dependencies feature cluster st) st)

/-- One elementary change of the planner state made while marking.  The edge steps carry
the guard under which the code adds the edge. -/
inductive Step (env : Env) : PlanState → PlanState → Prop where
  | get (st : PlanState) (spec : PackageSpec) : Step env st (st.get env spec)
  | set_plus (st : PlanState) (cluster : PackageSpec) (feature : String) :
    Step env st (st.modify env cluster (fun c =>
      { c with plus := AssocMap.set c.plus feature true }))
  | set_minus (st : PlanState) (cluster : PackageSpec) :
    Step env st (st.modify env cluster (fun c =>
      { c with minus := true, transient_uninstalled := true }))
  | insert_feature (st : PlanState) (cluster : PackageSpec) (feature : String) :
    Step env st (st.modify env cluster (fun c =>
      { c with to_install_features := set_insert string_less feature c.to_install_features }))
  | set_user_requested (st : PlanState) (cluster : PackageSpec) :
    Step env st (st.modify env cluster (fun c =>
      { c with request_type := RequestType.USER_REQUESTED }))
  | remove_vertex (st : PlanState) (cluster : PackageSpec) :
    Step env st { st with graph_plan :=
      { st.graph_plan with remove_graph := st.graph_plan.remove_graph.add_vertex cluster } }
  | remove_edge (st : PlanState) (cluster edge : PackageSpec) (h : cluster ≠ edge) :
    Step env st { st with graph_plan :=
      { st.graph_plan with remove_graph := st.graph_plan.remove_graph.add_edge cluster edge } }
  | install_vertex (st : PlanState) (cluster : PackageSpec) :
    Step env st { st with graph_plan :=
      { st.graph_plan with install_graph := st.graph_plan.install_graph.add_vertex cluster } }
  | install_edge (st : PlanState) (cluster depend : PackageSpec) (h : depend ≠ cluster) :
    Step env st { st with graph_plan :=
      { st.graph_plan with
        install_graph := st.graph_plan.install_graph.add_edge cluster depend } }

/-- The procedure keeps the state property `I`. -/
def Preserves {α : Type} (I : PlanState → Prop) (m : Planner α) : Prop :=
  ∀ st, I st → wp m (fun _ st' => I st') st

/-- The callee's procedures keep `I`. -/
def Marking.Keeps (callee : Marking) (I : PlanState → Prop) : Prop :=
  (∀ feature cluster, Preserves I (callee.mark_plus feature cluster)) ∧
  (∀ cluster, Preserves I (callee.mark_minus cluster)) ∧
  (∀ feature cluster, Preserves I (callee.follow_plus_dependencies feature cluster))

/-- The features recorded for the installed package of the cluster; none when the package
is not installed. -/
def Cluster.original (c : Cluster) : List String :=
  match c.installed with
  | some p_installed => p_installed.original_features
  | none => []

/-- The port of the cluster has build edges for the feature. -/
def Cluster.declares (c : Cluster) (feature : String) : Prop :=
  ∃ src es, c.source = some src ∧ AssocMap.find src.build_edges feature = some es

/-- What a run of marking procedures from the state `st` to the state `st'` does to the
clusters and to the vertices of the plan. -/
structure Marked (env : Env) (st st' : PlanState) : Prop where
  installed : ∀ c, (st'.cluster env c).installed = (st.cluster env c).installed
  source : ∀ c, (st'.cluster env c).source = (st.cluster env c).source
  minus : ∀ c, (st.cluster env c).minus = true → (st'.cluster env c).minus = true
  plus : ∀ c f, (st.cluster env c).plus_of f = true → (st'.cluster env c).plus_of f = true
  features : ∀ c f, f ∈ (st.cluster env c).to_install_features →
    f ∈ (st'.cluster env c).to_install_features
  install_vertices : ∀ c, c ∈ st.graph_plan.install_graph.vertex_list →
    c ∈ st'.graph_plan.install_graph.vertex_list
  remove_vertices : ∀ c, c ∈ st.graph_plan.remove_graph.vertex_list →
    c ∈ st'.graph_plan.remove_graph.vertex_list
  /-- A feature is only inserted for a cluster that is marked minus. -/
  inserted : ∀ c f, f ∈ (st'.cluster env c).to_install_features →
    f ∈ (st.cluster env c).to_install_features ∨ (st'.cluster env c).minus = true
  /-- An installed cluster that was marked minus on the way has a port, is a vertex of the
  remove graph and has every original feature that its port declares among the features to
  install. -/
  rebuilt : ∀ c i, (st.cluster env c).installed = some i → (st.cluster env c).minus = false →
    (st'.cluster env c).minus = true →
      (∃ src, (st.cluster env c).source = some src) ∧
      c ∈ st'.graph_plan.remove_graph.vertex_list ∧
      ∀ f ∈ i.original_features, (st.cluster env c).declares f →
        f ∈ (st'.cluster env c).to_install_features
  /-- A feature that was marked plus on the way, other than "" and "*" and the original
  features, belongs to a cluster with a port; if the port declares it, it is among the
  features to install and the cluster is marked minus. -/
  added : ∀ c f, (st.cluster env c).plus_of f = false → (st'.cluster env c).plus_of f = true →
    f ≠ "" → f ≠ "*" → f ∉ (st.cluster env c).original →
      ∃ src, (st.cluster env c).source = some src ∧
        ((st.cluster env c).declares f →
          f ∈ (st'.cluster env c).to_install_features ∧ (st'.cluster env c).minus = true)

/-- The cluster of a package that is not installed, once it has been touched (it has a
feature to install, is a vertex of the install graph, or has a plus mark), has "core" among
its features to install or marked plus. -/
def PlanState.CoreTaken (env : Env) (st : PlanState) (c : PackageSpec) : Prop :=
  (st.cluster env c).installed = none →
    ((st.cluster env c).to_install_features ≠ [] ∨
      c ∈ st.graph_plan.install_graph.vertex_list ∨
      ∃ f, (st.cluster env c).plus_of f = true) →
      "core" ∈ (st.cluster env c).to_install_features ∨ (st.cluster env c).plus_of "core" = true

/-- The marking from `st` to `st'` keeps `CoreTaken` for every cluster but `c0`. -/
def CoreKept (env : Env) (c0 : PackageSpec) (st st' : PlanState) : Prop :=
  ∀ c, c ≠ c0 → st.CoreTaken env c → st'.CoreTaken env c

/-- The relation between the states before and after a part of a marking procedure that is
called for the cluster `c0`. -/
def Ran (env : Env) (c0 : PackageSpec) (st st' : PlanState) : Prop :=
  Marked env st st' ∧ CoreKept env c0 st st'

/-- What `follow_plus_dependencies(f, c0)`, called in the state `st`, has achieved in the
state `s`, once the feature is inserted and "core" is seen to. -/
def Followed (env : Env) (f : String) (c0 : PackageSpec) (st s : PlanState) : Prop :=
  Marked env st s ∧ f ∈ (s.cluster env c0).to_install_features ∧
  (s.cluster env c0).minus = true ∧
  ("core" ∈ (s.cluster env c0).to_install_features ∨ (s.cluster env c0).plus_of "core" = true) ∧
  ∀ c, st.CoreTaken env c → s.CoreTaken env c

/-- The mark `transient_uninstalled` goes with the mark `minus`: a cluster marked minus is
transiently uninstalled, and an installed package is transiently uninstalled only when its
cluster is marked minus. -/
def PlanState.TransientMarked (env : Env) (st : PlanState) : Prop :=
  ∀ c, ((st.cluster env c).minus = true → (st.cluster env c).transient_uninstalled = true) ∧
    ((st.cluster env c).installed ≠ none → (st.cluster env c).transient_uninstalled = true →
      (st.cluster env c).minus = true)

/-- What the marking procedures do, as far as the core closure is concerned. -/
def core_closure_spec (env : Env) : MarkingSpec where
  mark_plus := fun f c0 st r st' =>
    Marked env st st' ∧ (st'.cluster env c0).plus_of f = true ∧ CoreKept env c0 st st' ∧
    (st.CoreTaken env c0 → r = MarkPlusResult.SUCCESS → st'.CoreTaken env c0) ∧
    (f = "" → (st.cluster env c0).plus_of "" = false → r = MarkPlusResult.SUCCESS →
      ∀ src, (st.cluster env c0).source = some src →
        ∀ d ∈ src.scf.core_paragraph.default_features, (st'.cluster env c0).plus_of d = true)
  mark_minus := fun c0 st st' =>
    Marked env st st' ∧ (st'.cluster env c0).minus = true ∧
    ∀ c, st.CoreTaken env c → st'.CoreTaken env c
  follow_plus_dependencies := fun f c0 st r st' =>
    Marked env st st' ∧
    (r = MarkPlusResult.SUCCESS →
      f ∈ (st'.cluster env c0).to_install_features ∧ (st'.cluster env c0).minus = true ∧
      ("core" ∈ (st'.cluster env c0).to_install_features ∨
        (st'.cluster env c0).plus_of "core" = true)) ∧
    ((st.cluster env c0).declares f → r = MarkPlusResult.SUCCESS) ∧
    ∀ c, st.CoreTaken env c → st'.CoreTaken env c

/-- The state property `I` is kept by every elementary change. -/
def StepClosed (env : Env) (I : PlanState → Prop) : Prop :=
  ∀ st st', I st → Step env st st' → I st'

/-- Neither sub-graph of the plan has an edge from a vertex to itself. -/
def GraphPlan.NoSelfEdges (gp : GraphPlan) : Prop :=
  ∀ v : PackageSpec,
    v ∉ gp.remove_graph.adjacency_list v ∧ v ∉ gp.install_graph.adjacency_list v

/-- Clusters and vertices are identified by their keys: the cluster kept for a spec has
that spec, its installed view is the one of that spec, and no vertex is listed twice. -/
def PlanState.WellKeyed (env : Env) (st : PlanState) : Prop :=
  (∀ s, (st.cluster env s).spec = s) ∧
  (∀ s installed, (st.cluster env s).installed = some installed → installed.ipv.spec = s) ∧
  st.graph_plan.remove_graph.vertex_list.Nodup ∧
  st.graph_plan.install_graph.vertex_list.Nodup

/-- The vertex `u` is listed before the vertex `v`. -/
def ListedBefore (sorted : List PackageSpec) (u v : PackageSpec) : Prop :=
  ∃ pre post, sorted = pre ++ v :: post ∧ u ∈ pre

/-- Modelled from the spec: the part of the contract of `Graphs::topological_sort` that the
install order rests on: the sorted list names no vertex twice and lists each vertex after
all vertices of its adjacency list. -/
def Env.TopologicalSortOrdered (env : Env) : Prop :=
  ∀ (g : Graph) (sorted : List PackageSpec), g.vertex_list.Nodup →
    env.topological_sort g.vertex_list g = some sorted →
      sorted.Nodup ∧ g.ordered_from [] sorted = true

/-- A build edge of a port of the catalog names the feature `f` of the package `X`. -/
def Env.EdgeNames (env : Env) (X : PackageSpec) (f : String) : Prop :=
  ∃ name scf t g es, env.get_control_file name = some scf ∧
    AssocMap.find (cluster_from_scf env scf t).build_edges g = some es ∧
    (⟨X, f⟩ : FeatureSpec) ∈ es

/-- The package `X` is not installed, the source half of every cluster comes from the port
of its package, and every feature to install of `X` is allowed. -/
def PlanState.Suppressed (env : Env) (X : PackageSpec) (Allowed : String → Prop)
    (st : PlanState) : Prop :=
  (st.cluster env X).installed = none ∧
  (∀ c src, (st.cluster env c).source = some src →
    ∃ scf, env.get_control_file c.name = some scf ∧ src = cluster_from_scf env scf c.triplet) ∧
  ∀ f ∈ (st.cluster env X).to_install_features, Allowed f

/-- The marking procedures keep the features to install of `X` allowed when they are called
for `X` with an allowed feature only. -/
def suppression_spec (env : Env) (X : PackageSpec) (Allowed : String → Prop) : MarkingSpec where
  mark_plus := fun f c0 st _ st' =>
    st.Suppressed env X Allowed → (c0 = X → Allowed f) → st'.Suppressed env X Allowed
  mark_minus := fun _ st st' => st.Suppressed env X Allowed → st'.Suppressed env X Allowed
  follow_plus_dependencies := fun f c0 st _ st' =>
    st.Suppressed env X Allowed → (c0 = X → Allowed f) → st'.Suppressed env X Allowed

/-- Every outcome of `m`, a result or a fatal error, other than running out of recursion
depth, is the outcome of `m'`. -/
def Refines {α : Type} (m m' : Planner α) : Prop :=
  ∀ st res, m.run st = res → res ≠ Except.error Failure.out_of_fuel → m'.run st = res

/-- Every outcome of a procedure of `callee`, other than running out of recursion depth, is
the outcome of the same procedure of `callee'`. -/
def Marking.Refines (callee callee' : Marking) : Prop :=
  (∀ feature cluster, Vcpkg.Refines (callee.mark_plus feature cluster)
    (callee'.mark_plus feature cluster)) ∧
  (∀ cluster, Vcpkg.Refines (callee.mark_minus cluster) (callee'.mark_minus cluster)) ∧
  (∀ feature cluster, Vcpkg.Refines (callee.follow_plus_dependencies feature cluster)
    (callee'.follow_plus_dependencies feature cluster))

/-- A sequence of elementary changes. -/
def Steps (env : Env) : PlanState → PlanState → Prop := Relation.ReflTransGen (Step env)

/-! ## Example scenarios -/

/-- The triplet of the examples. -/
def x64_linux : Triplet := "x64-linux"

/-- A catalog with a port `a` whose core depends on the port `b`. -/
def ab_env : Env :=
  catalog_env [("a", make_port "a" ["b"] [] []), ("b", make_port "b" [] [] [])]

/-- The install action for `b` in the plan for `a[core]` on an empty installation. -/
def ab_install_b : InstallPlanAction :=
  { spec := ⟨"b", x64_linux⟩
    feature_list := ["core"]
    computed_dependencies := []
    plan_type := InstallPlanType.BUILD_AND_INSTALL
    request_type := RequestType.AUTO_SELECTED
    build_action := some (make_port "b" [] [] [])
    installed_package := none }

/-- The install action for `a` in the plan for `a[core]` on an empty installation. -/
def ab_install_a : InstallPlanAction :=
  { spec := ⟨"a", x64_linux⟩
    feature_list := ["core"]
    computed_dependencies := [⟨"b", x64_linux⟩]
    plan_type := InstallPlanType.BUILD_AND_INSTALL
    request_type := RequestType.USER_REQUESTED
    build_action := some (make_port "a" ["b"] [] [])
    installed_package := none }

/-- A status database in which `a` and `b` are installed and `a` depends on `b`. -/
def ab_status_db : StatusParagraphs :=
  [make_installed "a" x64_linux [] [] ["b"], make_installed "b" x64_linux [] [] []]

/-- The state in which `mark_plus("core", a)` returns when called on an empty graph. -/
def ab_marked : PlanState :=
  match (mark_plus ab_env [] 10 "core" ⟨"a", x64_linux⟩).run {} with
  | Except.ok (_, st) => st
  | Except.error _ => {}

/-- The catalog of the scenario "feature addition on an installed package". -/
def curl_env : Env :=
  catalog_env
    [("curl", make_port "curl" [] [] [("ssl", ["openssl[core]"])]),
     ("openssl", make_port "openssl" [] [] [])]

/-- The status database of the scenario "feature addition on an installed package". -/
def curl_status_db : StatusParagraphs :=
  [make_installed "curl" x64_linux [] [] [], make_installed "openssl" x64_linux [] [] []]

/-- The plan of the scenario "feature addition on an installed package". -/
def curl_plan : List AnyAction :=
  [AnyAction.remove_action
      { spec := ⟨"curl", x64_linux⟩
        plan_type := RemovePlanType.REMOVE
        request_type := RequestType.USER_REQUESTED },
    AnyAction.install_action
      { spec := ⟨"curl", x64_linux⟩
        feature_list := ["core", "ssl"]
        computed_dependencies := [⟨"openssl", x64_linux⟩]
        plan_type := InstallPlanType.BUILD_AND_INSTALL
        request_type := RequestType.USER_REQUESTED
        build_action := some (make_port "curl" [] [] [("ssl", ["openssl[core]"])])
        installed_package := none }]

/-- The catalog of the scenario "feature addition on an installed package", with a core
dependency of `curl` on the port `zlib` added. -/
def curl_zlib_env : Env :=
  catalog_env
    [("curl", make_port "curl" ["zlib[core]"] [] [("ssl", ["openssl[core]"])]),
     ("openssl", make_port "openssl" [] [] []),
     ("zlib", make_port "zlib" [] [] [])]

/-- The plan for `curl[ssl]` with the catalog `curl_zlib_env`. -/
def curl_zlib_plan : List AnyAction :=
  [AnyAction.remove_action
      { spec := ⟨"curl", x64_linux⟩
        plan_type := RemovePlanType.REMOVE
        request_type := RequestType.USER_REQUESTED },
    AnyAction.install_action
      { spec := ⟨"zlib", x64_linux⟩
        feature_list := ["core"]
        computed_dependencies := []
        plan_type := InstallPlanType.BUILD_AND_INSTALL
        request_type := RequestType.AUTO_SELECTED
        build_action := some (make_port "zlib" [] [] [])
        installed_package := none },
    AnyAction.install_action
      { spec := ⟨"curl", x64_linux⟩
        feature_list := ["core", "ssl"]
        computed_dependencies := [⟨"openssl", x64_linux⟩, ⟨"zlib", x64_linux⟩]
        plan_type := InstallPlanType.BUILD_AND_INSTALL
        request_type := RequestType.USER_REQUESTED
        build_action :=
          some (make_port "curl" ["zlib[core]"] [] [("ssl", ["openssl[core]"])])
        installed_package := none }]

/-- The port `foo` with the default features `bar` and `baz`. -/
def foo_port : SourceControlFile :=
  make_port "foo" [] ["bar", "baz"] [("bar", []), ("baz", [])]

/-- The catalog of the scenario "opt-out of defaults". -/
def foo_env : Env := catalog_env [("foo", foo_port)]

/-- The port `foo` with the single default feature `bar`. -/
def foobar_port : SourceControlFile := make_port "foo" [] ["bar"] [("bar", [])]

/-- The catalog of the scenario "new default feature appears". -/
def foobar_env : Env := catalog_env [("foo", foobar_port)]

/-- The installed package `foo` of the scenario "new default feature appears": features
`{core}`, no default features recorded. -/
def foobar_installed : InstalledPackageView := make_installed "foo" x64_linux [] [] []

/-- The status database of the scenario "new default feature appears". -/
def foobar_status_db : StatusParagraphs := [foobar_installed]

/-- The plan of the scenario "new default feature appears" for the defaulted input `foo`. -/
def foobar_plan : List AnyAction :=
  [AnyAction.remove_action
      { spec := ⟨"foo", x64_linux⟩
        plan_type := RemovePlanType.REMOVE
        request_type := RequestType.USER_REQUESTED },
    AnyAction.install_action
      { spec := ⟨"foo", x64_linux⟩
        feature_list := ["bar", "core"]
        computed_dependencies := []
        plan_type := InstallPlanType.BUILD_AND_INSTALL
        request_type := RequestType.USER_REQUESTED
        build_action := some foobar_port
        installed_package := none }]

/-- The port `foo` with the single default feature `bar`, which depends on `baz`. -/
def foobaz_port : SourceControlFile := make_port "foo" [] ["bar"] [("bar", ["baz"])]

/-- A catalog with the port `foobaz_port` and no port `baz`. -/
def foobaz_env : Env := catalog_env [("foo", foobaz_port)]

/-- The port `foo` with the default feature `bar` and a further feature `g`. -/
def foog_port : SourceControlFile := make_port "foo" [] ["bar"] [("bar", []), ("g", [])]

/-- The catalog of the port `foog_port`. -/
def foog_env : Env := catalog_env [("foo", foog_port)]

/-- The input `foo[core,g]`. -/
def foog_specs : List FeatureSpec :=
  [⟨⟨"foo", x64_linux⟩, "core"⟩, ⟨⟨"foo", x64_linux⟩, "g"⟩]

/-- The plan for `foo[core,g]` when `foo` is not installed. -/
def foog_plan : List AnyAction :=
  [AnyAction.install_action
      { spec := ⟨"foo", x64_linux⟩
        feature_list := ["core", "g"]
        computed_dependencies := []
        plan_type := InstallPlanType.BUILD_AND_INSTALL
        request_type := RequestType.USER_REQUESTED
        build_action := some foog_port
        installed_package := none }]

/-- The plan for `foo[core,g]` when `foo` is installed with `{core}` and no recorded
default features. -/
def foog_rebuild_plan : List AnyAction :=
  [AnyAction.remove_action
      { spec := ⟨"foo", x64_linux⟩
        plan_type := RemovePlanType.REMOVE
        request_type := RequestType.USER_REQUESTED },
    AnyAction.install_action
      { spec := ⟨"foo", x64_linux⟩
        feature_list := ["bar", "core", "g"]
        computed_dependencies := []
        plan_type := InstallPlanType.BUILD_AND_INSTALL
        request_type := RequestType.USER_REQUESTED
        build_action := some foog_port
        installed_package := none }]

/-- The marked state of the scenario "feature addition on an installed package". -/
def curl_marked : PlanState :=
  match marked_state curl_env 10 [⟨⟨"curl", x64_linux⟩, "ssl"⟩] curl_status_db with
  | Except.ok st => st
  | Except.error _ => {}

/-- The package `curl` installed with the feature `ssl` and a dependency on `openssl`. -/
def curl_ssl_installed : InstalledPackageView :=
  make_installed "curl" x64_linux ["ssl"] [] ["openssl"]

/-- A status database with `curl[core,ssl]` and its dependency `openssl` installed. -/
def curl_ssl_status_db : StatusParagraphs :=
  [curl_ssl_installed, make_installed "openssl" x64_linux [] [] []]

end Vcpkg

namespace Vcpkg

/-! ## Regular expressions and the NuGet package version

`Dependencies::nuget_package_version` matches the version against a `std::regex` in the
default (ECMAScript) grammar.  The regular expression library is outside the translated
sources; the part of it that the function uses is modelled here after the C++ standard:
`std::regex_match` succeeds when the whole string matches, sub-matches are those of the
first match in backtracking order, and `match_results::size()` is one more than the number
of marked sub-expressions of the pattern. -/

/-- The ECMAScript class `\d`. -/
def is_digit (c : Char) : Bool := decide (48 ≤ c.toNat ∧ c.toNat ≤ 57)

/-- The line terminators, which `.` does not match: in a `std::regex` over `char` these are
the line feed and the carriage return.  The version is a `std::string`, which is matched
byte by byte; no byte of a character outside ASCII is a line terminator or a digit, so the
pattern matches the characters as it matches their bytes. -/
def is_line_terminator (c : Char) : Bool := decide (c.toNat = 10 ∨ c.toNat = 13)

/-- The constructs of the regular expression grammar that the patterns of the program use:
a character, `\d`, `.`, a sequence, the greedy quantifiers `?`, `+` and `*`, and a marked
sub-expression (capture group) with its number. -/
inductive Regex where
  | char (c : Char)
  | digit
  | any
  | seq (a b : Regex)
  | opt (a : Regex)
  | plus (a : Regex)
  | star (a : Regex)
  | group (index : Nat) (a : Regex)
deriving Repr

/-- The number of marked sub-expressions of a pattern (`basic_regex::mark_count`). -/
def Regex.mark_count : Regex → Nat
  | .char _ => 0
  | .digit => 0
  | .any => 0
  | .seq a b => a.mark_count + b.mark_count
  | .opt a => a.mark_count
  | .plus a => a.mark_count
  | .star a => a.mark_count
  | .group _ a => a.mark_count + 1

/-- A state of the matcher: the input that is left, and the sub-matches so far (`none` for
a sub-expression that has not taken part in the match). -/
structure MatchState where
  rest : List Char
  captures : List (Option (List Char))
deriving DecidableEq, Repr

/-- Match one character of a class. -/
def Regex.run_class (p : Char → Bool) (s : MatchState) : List MatchState :=
  match s.rest with
  | c :: cs => if p c then [{ s with rest := cs }] else []
  | [] => []

/-- Greedy repetition of a matcher: the states after as many iterations as possible come
first, the state after no iteration last.  An iteration that consumes no input is not
repeated, so at most `n` iterations are made for an input of length `n`. -/
def Regex.iterate (step : MatchState → List MatchState) : Nat → MatchState → List MatchState
  | 0, s => [s]
  | n + 1, s =>
    ((step s).filter (fun s' => decide (s'.rest.length < s.rest.length))).flatMap
      (Regex.iterate step n) ++ [s]

/-- The states a backtracking matcher reaches by matching the pattern at the start of the
input that is left, in the order in which it tries them. -/
def Regex.run : Regex → MatchState → List MatchState
  | .char c, s => Regex.run_class (fun x => decide (x = c)) s
  | .digit, s => Regex.run_class is_digit s
  | .any, s => Regex.run_class (fun x => !is_line_terminator x) s
  | .seq a b, s => (a.run s).flatMap b.run
  | .opt a, s => a.run s ++ [s]
  | .plus a, s => (a.run s).flatMap (fun s' => Regex.iterate a.run s'.rest.length s')
  | .star a, s => Regex.iterate a.run s.rest.length s
  | .group index a, s =>
    (a.run s).map (fun s' =>
      { s' with
        captures :=
          s'.captures.set index (some (s.rest.take (s.rest.length - s'.rest.length))) })

/-- The call `std::regex_match(first, last, sm, re)`: the sub-matches `sm` of the first
match of the whole input, `sm[0]` being the whole match; `none` when the input does not
match. -/
def regex_match (re : Regex) (input : List Char) : Option (List (Option (List Char))) :=
  match (re.run { rest := input, captures := List.replicate (re.mark_count + 1) none }).find?
      (fun s => s.rest.isEmpty) with
  | some s => some (s.captures.set 0 (some input))
  | none => none

/-- The call `sm.str(n)`: the text of the sub-match, empty for one that did not take part
in the match. -/
def smatch_str (sm : List (Option (List Char))) (n : Nat) : String :=
  match sm.get? n with
  | some (some text) => String.mk text
  | _ => ""

/-- The pattern `v?(\d+\.\d+)(\.(\d+))?.*` of `nuget_package_version`. -/
def semver_matcher : Regex :=
  .seq (.opt (.char 'v'))
    (.seq (.group 1 (.seq (.plus .digit) (.seq (.char '.') (.plus .digit))))
      (.seq (.opt (.group 2 (.seq (.char '.') (.group 3 (.plus .digit))))) (.star .any)))

/-- The function `Dependencies::nuget_package_version(version, abi_tag)`. -/
def nuget_package_version (version abi_tag : String) : Except Failure String :=
  match regex_match semver_matcher version.data with
  | some sm =>
    if sm.length = 2 then pure (smatch_str sm 1 ++ ".0-" ++ abi_tag)
    else if sm.length ≥ 3 then pure (smatch_str sm 1 ++ smatch_str sm 2 ++ "-" ++ abi_tag)
    else throw (Failure.fatal (FatalError.unreachable "nuget_package_version"))
  | none => pure ("0.0.0-" ++ abi_tag)

/-- The words a pattern matches as a whole. -/
def Regex.Accepts : Regex → List Char → Prop
  | .char c, w => w = [c]
  | .digit, w => ∃ c, w = [c] ∧ is_digit c = true
  | .any, w => ∃ c, w = [c] ∧ is_line_terminator c = false
  | .seq a b, w => ∃ u v, w = u ++ v ∧ a.Accepts u ∧ b.Accepts v
  | .opt a, w => w = [] ∨ a.Accepts w
  | .plus a, w => ∃ ws : List (List Char), ws ≠ [] ∧ w = ws.flatten ∧ ∀ u ∈ ws, a.Accepts u
  | .star a, w => ∃ ws : List (List Char), w = ws.flatten ∧ ∀ u ∈ ws, a.Accepts u
  | .group _ a, w => a.Accepts w

/-- The pattern `^\d+\.\d+\.\d+-.+$` of the NuGet version format. -/
def nuget_version_format : Regex :=
  .seq (.plus .digit) (.seq (.char '.') (.seq (.plus .digit) (.seq (.char '.')
    (.seq (.plus .digit) (.seq (.char '-') (.plus .any))))))

end Vcpkg

namespace Vcpkg

/-! ## The ABI tag and the binary cache paths (`build.cpp`)

The file system, the hash function and the paths of the installation are outside the
translated sources.  A path is modelled by the list of its components (root names and the
difference between absolute and relative paths are left out), the file system by the list
of its entries in the order in which a directory iterator visits them. -/

/-- Lexicographic comparison of two sequences by an order of their elements. -/
def list_less {α : Type} (less : α → α → Bool) : List α → List α → Bool
  | [], [] => false
  | [], _ :: _ => true
  | _ :: _, [] => false
  | a :: as, b :: bs =>
    if less a b then true
    else if less b a then false
    else list_less less as bs

/-- The order `operator<` of `fs::path`: lexicographic on the components. -/
def Path.less (a b : Path) : Bool := list_less string_less a b

/-- The components of a path given as text: the parts between the directory separators,
`cur` being the part read so far, in reverse. -/
def path_components : List Char → List Char → List String
  | cur, [] => if cur = [] then [] else [String.mk cur.reverse]
  | cur, c :: cs =>
    if c = '/' then
      if cur = [] then path_components [] cs
      else String.mk cur.reverse :: path_components [] cs
    else path_components (c :: cur) cs

/-- The call `fs::u8path(s)`, also the conversion of a string to a path. -/
def u8path (s : String) : Path := path_components [] s.data

/-- The method `path::filename`. -/
def Path.filename (p : Path) : String := p.getLast?.getD ""

/-- The method `path::parent_path`. -/
def Path.parent_path (p : Path) : Path := p.dropLast

/-- The call `s.substr(pos, n)`. -/
def substr (s : String) (pos n : Nat) : String := String.mk ((s.data.drop pos).take n)

/-- The kinds of file a status tells apart. -/
inductive FileType where
  | regular
  | directory
  | other
deriving DecidableEq, Repr

/-- An entry of the file system. -/
structure FileEntry where
  path : Path
  type : FileType
  contents : String := ""
deriving DecidableEq, Repr

/-- The file system: its entries, in the order of enumeration. -/
abbrev Filesystem := List FileEntry

/-- The call `fs::is_directory(path)`. -/
def Filesystem.is_directory (fs : Filesystem) (path : Path) : Bool :=
  fs.any (fun e => decide (e.path = path ∧ e.type = FileType.directory))

/-- The iteration `fs::stdfs::recursive_directory_iterator(dir)`: the entries below the
directory; the iterator throws when `dir` is not a directory. -/
def recursive_directory_iterator (fs : Filesystem) (dir : Path) :
    Except Failure (List FileEntry) :=
  if fs.is_directory dir then
    pure (fs.filter (fun e => dir.isPrefixOf e.path && decide (e.path ≠ dir)))
  else throw (Failure.fatal (FatalError.check_failed "recursive_directory_iterator"))

/-- The call `fs.create_directories(path, ec)`: the directory and its missing parents are
created. -/
def Filesystem.create_directories (fs : Filesystem) (path : Path) : Filesystem :=
  path.inits.tail.foldl
    (fun fs dir => if fs.any (fun e => decide (e.path = dir)) then fs
      else fs ++ [{ path := dir, type := FileType.directory }]) fs

/-- The call `fs.write_contents(path, data, VCPKG_LINE_INFO)`: afterwards the regular file
`path` holds `data`. -/
def Filesystem.write_contents (fs : Filesystem) (path : Path) (data : String) : Filesystem :=
  fs.filter (fun e => decide (e.path ≠ path)) ++
    [{ path := path, type := FileType.regular, contents := data }]

/-- The contents of a regular file, `none` when there is no such file. -/
def Filesystem.read_contents (fs : Filesystem) (path : Path) : Option String :=
  (fs.find? (fun e => decide (e.path = path ∧ e.type = FileType.regular))).map
    FileEntry.contents

/-- An entry of the ABI of a build (`AbiEntry`). -/
structure AbiEntry where
  key : String
  value : String
deriving DecidableEq, Repr

/-- The enumeration `ConfigurationType`. -/
inductive ConfigurationType where
  | DEBUG
  | RELEASE
deriving DecidableEq, Repr

/-- The settings of a triplet (`PreBuildInfo`); `compute_abi_tag` reads the member
`triplet_abi_tag`.  The defaults are those of a default-constructed value. -/
structure PreBuildInfo where
  target_architecture : String := ""
  cmake_system_name : String := ""
  cmake_system_version : String := ""
  platform_toolset : Option String := none
  visual_studio_path : Option Path := none
  external_toolchain_file : Option String := none
  build_type : Option ConfigurationType := none
  triplet_abi_tag : String := ""
deriving DecidableEq, Repr

/-- The enumeration `System::CPUArchitecture`. -/
inductive CPUArchitecture where
  | X86
  | X64
  | ARM
  | ARM64
deriving DecidableEq, Repr

/-- An architecture pair a toolset supports (`ToolsetArchOption`). -/
structure ToolsetArchOption where
  name : String
  host_arch : CPUArchitecture
  target_arch : CPUArchitecture
deriving DecidableEq, Repr

/-- The members of a `Toolset` that the build reads. -/
structure Toolset where
  version : String := ""
  vcvarsall : Path := []
  vcvarsall_options : List String := []
  supported_architectures : List ToolsetArchOption := []
deriving DecidableEq, Repr

/-- The name `Tools::CMAKE` of the tool. -/
def Tools.CMAKE : String := "cmake"

/-- The paths of the installation (`VcpkgPaths`). -/
structure VcpkgPaths where
  root : Path
  buildtrees : Path
  scripts : Path
  /-- The method `VcpkgPaths::get_tool_version`. -/
  get_tool_version : String → String
  packages : Path := []
  downloads : Path := []
  triplets : Path := []
  ports_cmake : Path := []
  /-- The method `VcpkgPaths::package_dir`. -/
  package_dir : PackageSpec → Path := fun _ => []
  /-- The method `VcpkgPaths::build_info_file_path`. -/
  build_info_file_path : PackageSpec → Path := fun _ => []
  /-- The method `VcpkgPaths::get_tool_exe`. -/
  get_tool_exe : String → Path := fun _ => []
  /-- The method `VcpkgPaths::get_toolset`. -/
  get_toolset : PreBuildInfo → Toolset := fun _ => {}

/-- The helpers the build calls whose definitions lie outside the translated sources. -/
structure BuildEnv where
  /-- The call `Hash::get_file_hash(fs, path, "SHA1")`. -/
  get_file_hash : Filesystem → Path → String
  /-- The order `operator<` of `AbiEntry`. -/
  abi_entry_less : AbiEntry → AbiEntry → Bool

/-- Modelled from the spec: the order `operator<` of `AbiEntry` (declared outside the
translated sources): "Sort the entire entry list by key"; entries of one key are ordered
by value, so that the order is total. -/
def AbiEntry.less (a b : AbiEntry) : Bool :=
  string_less a.key b.key || (decide (a.key = b.key) && string_less a.value b.value)

/-- The calls `std::sort(first, last)` and `Util::sort(container)`: the elements in
ascending order.  The order of elements neither of which is less than the other is not
specified by `std::sort`; here they keep their order. -/
def Util.sort {α : Type} (less : α → α → Bool) (xs : List α) : List α :=
  xs.insertionSort (fun a b => less b a = false)

/-- The call `Strings::join(delimiter, xs, f)`. -/
def Strings.join {α : Type} (delimiter : String) (xs : List α) (f : α → String) : String :=
  delimiter.intercalate (xs.map f)

/-- The call `Strings::format("%03d", n)`: the decimal digits, padded with zeros to three. -/
def format_03d (n : Nat) : String :=
  String.mk (List.replicate (3 - (Nat.toDigits 10 n).length) '0' ++ Nat.toDigits 10 n)

/-- The limit `max_port_file_count`. -/
def max_port_file_count : Nat := 100

/-- The first loop of `compute_abi_tag` over the port directory: the regular files are
collected in `port_files`; when there are more than `max_port_file_count` of them the
entry `no_hash_max_portfile` is added and the loop is left. -/
def collect_port_files : List FileEntry → List Path × List AbiEntry → List Path × List AbiEntry
  | [], st => st
  | port_file :: rest, (port_files, abi_tag_entries) =>
    if port_file.type = FileType.regular then
      if (port_files ++ [port_file.path]).length > max_port_file_count then
        (port_files ++ [port_file.path],
          abi_tag_entries ++ [{ key := "no_hash_max_portfile", value := "" }])
      else collect_port_files rest (port_files ++ [port_file.path], abi_tag_entries)
    else collect_port_files rest (port_files, abi_tag_entries)

/-- The second loop of `compute_abi_tag`: each port file gets an entry with the key
`file_NNN` of its number and the hash of the file as value. -/
def hash_port_files (env : BuildEnv) (fs : Filesystem) :
    List Path → Nat → List AbiEntry → List AbiEntry
  | [], _, abi_tag_entries => abi_tag_entries
  | port_file :: rest, counter, abi_tag_entries =>
    hash_port_files env fs rest (counter + 1)
      (abi_tag_entries ++
        [{ key := "file_" ++ format_03d counter, value := env.get_file_hash fs port_file }])

/-- The entries of the ABI as `compute_abi_tag` composes and sorts them (the value of
`abi_tag_entries` after `Util::sort`). -/
def abi_tag_entries (env : BuildEnv) (paths : VcpkgPaths) (fs : Filesystem)
    (config : InstallPlanAction) (pre_build_info : PreBuildInfo)
    (dependency_abis : List AbiEntry) : Except Failure (List AbiEntry) := do
  let abi_tag_entries := dependency_abis
  let abi_tag_entries :=
    abi_tag_entries ++ [{ key := "cmake", value := paths.get_tool_version Tools.CMAKE }]
  let port_dir ← match config.port_dir with
    | some port_dir => pure port_dir
    | none => throw (Failure.fatal (FatalError.check_failed "compute_abi_tag"))
  let listing ← recursive_directory_iterator fs port_dir
  let (port_files, abi_tag_entries) := collect_port_files listing ([], abi_tag_entries)
  let abi_tag_entries :=
    if port_files.length ≤ max_port_file_count then
      hash_port_files env fs (Util.sort Path.less port_files) 0 abi_tag_entries
    else abi_tag_entries
  let abi_tag_entries := abi_tag_entries ++
    [{ key := "vcpkg_fixup_cmake_targets",
       value := env.get_file_hash fs
         (paths.scripts ++ u8path "cmake" ++ u8path "vcpkg_fixup_cmake_targets.cmake") }]
  let abi_tag_entries :=
    abi_tag_entries ++ [{ key := "triplet", value := pre_build_info.triplet_abi_tag }]
  let features := Strings.join ";" config.feature_list id
  let abi_tag_entries := abi_tag_entries ++ [{ key := "features", value := features }]
  let abi_tag_entries :=
    if config.build_options.use_head_version = UseHeadVersion.YES then
      abi_tag_entries ++ [{ key := "head", value := "" }]
    else abi_tag_entries
  pure (Util.sort env.abi_entry_less abi_tag_entries)

/-- The text `full_abi_info` of the entries. -/
def full_abi_info (abi_tag_entries : List AbiEntry) : String :=
  Strings.join "" abi_tag_entries (fun p => p.key ++ " " ++ p.value ++ "\n")

/-- The path `abi_file_path` of the file the ABI is written to. -/
def abi_file_path (paths : VcpkgPaths) (name : String) (triplet : Triplet) : Path :=
  paths.buildtrees ++ u8path name ++ u8path (triplet ++ ".vcpkg_abi_info.txt")

/-- The function `compute_abi_tag(paths, config, pre_build_info, dependency_abis)`, with
the file system it reads and writes.  The result is `none` where the function returns
`nullopt`; what it prints is left out. -/
def compute_abi_tag (env : BuildEnv) (paths : VcpkgPaths) (fs : Filesystem)
    (config : InstallPlanAction) (pre_build_info : PreBuildInfo)
    (dependency_abis : List AbiEntry) :
    Except Failure (Option AbiTagAndFile × Filesystem) := do
  let scf ← match config.build_action with
    | some scf => pure scf
    | none => throw (Failure.fatal (FatalError.check_failed "compute_abi_tag"))
  if config.build_options.binary_caching = BinaryCaching.NO then
    pure (none, fs)
  else
    let triplet := config.spec.triplet
    let name := scf.core_paragraph.name
    let abi_tag_entries ←
      abi_tag_entries env paths fs config pre_build_info dependency_abis
    let abi_tag_entries_missing := abi_tag_entries.filter (fun p => decide (p.value = ""))
    if abi_tag_entries_missing.isEmpty then
      let fs := fs.create_directories (paths.buildtrees ++ u8path name)
      let fs := fs.write_contents (abi_file_path paths name triplet)
        (full_abi_info abi_tag_entries)
      pure (some { tag := env.get_file_hash fs (abi_file_path paths name triplet),
                   tag_file := abi_file_path paths name triplet }, fs)
    else pure (none, fs)

/-- The path `archives_root_dir` of `build_package`. -/
def archives_root_dir (paths : VcpkgPaths) : Path := paths.root ++ u8path "archives"

/-- The name `archive_name` of `build_package`. -/
def archive_name (tag : String) : String := tag ++ ".zip"

/-- The path `archive_subpath` of `build_package`. -/
def archive_subpath (tag : String) : Path := u8path (substr tag 0 2) ++ u8path (archive_name tag)

/-- The path `archive_path` of `build_package`. -/
def archive_path (paths : VcpkgPaths) (tag : String) : Path :=
  archives_root_dir paths ++ archive_subpath tag

/-- The path `archive_tombstone_path` of `build_package`. -/
def archive_tombstone_path (paths : VcpkgPaths) (tag : String) : Path :=
  archives_root_dir paths ++ u8path "fail" ++ archive_subpath tag

end Vcpkg

namespace Vcpkg

/-! ## Orders, and a scenario of the ABI tag -/

/-- A strict total order, given by its test. -/
def StrictTotalOrder {α : Type} (less : α → α → Bool) : Prop :=
  (∀ a, less a a = false) ∧
    (∀ a b c, less a b = true → less b c = true → less a c = true) ∧
    (∀ a b, a ≠ b → less a b = true ∨ less b a = true)

/-- The entries `compute_abi_tag` composes, before they are sorted, from the entries
`port_file_entries` that the two loops over the port directory add. -/
def composed_entries (env : BuildEnv) (paths : VcpkgPaths) (fs : Filesystem)
    (config : InstallPlanAction)
    (pre_build_info : PreBuildInfo) (dependency_abis port_file_entries : List AbiEntry) :
    List AbiEntry :=
  dependency_abis ++ [{ key := "cmake", value := paths.get_tool_version Tools.CMAKE }] ++
    port_file_entries ++
    [{ key := "vcpkg_fixup_cmake_targets",
       value := env.get_file_hash fs
         (paths.scripts ++ ["cmake"] ++ ["vcpkg_fixup_cmake_targets.cmake"]) },
     { key := "triplet", value := pre_build_info.triplet_abi_tag },
     { key := "features", value := ";".intercalate config.feature_list }] ++
    (if config.build_options.use_head_version = UseHeadVersion.YES then
      [{ key := "head", value := "" }] else [])

/-- The regular files below a directory, in the order of enumeration. -/
def regular_files (fs : Filesystem) (dir : Path) : List Path :=
  (fs.filter (fun e => dir.isPrefixOf e.path && decide (e.path ≠ dir) &&
    decide (e.type = FileType.regular))).map FileEntry.path

/-- The entries of the port files: the hashes of the first `count` files of a list, with
the keys `file_000`, `file_001`, and so on. -/
def file_entries (env : BuildEnv) (fs : Filesystem) (files : List Path) : List AbiEntry :=
  files.enum.map (fun p => { key := "file_" ++ format_03d p.1, value := env.get_file_hash fs p.2 })

/-- A hash function for the scenarios: the contents of the file, marked. -/
def scenario_hash (fs : Filesystem) (path : Path) : String :=
  match fs.read_contents path with
  | some contents => "sha1(" ++ contents ++ ")"
  | none => ""

/-- The helpers of the scenarios. -/
def scenario_build_env : BuildEnv :=
  { get_file_hash := scenario_hash, abi_entry_less := AbiEntry.less }

/-- The paths of the scenarios. -/
def scenario_paths : VcpkgPaths :=
  { root := ["vcpkg"], buildtrees := ["vcpkg", "buildtrees"], scripts := ["vcpkg", "scripts"]
    get_tool_version := fun _ => "3.14.0" }

/-- The file system of the scenarios: the port `curl` with two files in a directory, and
the helper script. -/
def scenario_fs : Filesystem :=
  [{ path := ["vcpkg", "ports", "curl"], type := FileType.directory },
   { path := ["vcpkg", "ports", "curl", "portfile.cmake"], type := FileType.regular,
     contents := "build" },
   { path := ["vcpkg", "ports", "curl", "patches"], type := FileType.directory },
   { path := ["vcpkg", "ports", "curl", "CONTROL"], type := FileType.regular,
     contents := "Source: curl" },
   { path := ["vcpkg", "scripts", "cmake", "vcpkg_fixup_cmake_targets.cmake"],
     type := FileType.regular, contents := "fixup" }]

/-- The action of the scenarios: build `curl[core,ssl]`, with binary caching. -/
def scenario_action : InstallPlanAction :=
  { spec := ⟨"curl", x64_linux⟩, feature_list := ["core", "ssl"]
    computed_dependencies := [⟨"openssl", x64_linux⟩, ⟨"zlib", x64_linux⟩]
    plan_type := InstallPlanType.BUILD_AND_INSTALL, request_type := RequestType.USER_REQUESTED
    build_action := some (make_port "curl" ["zlib"] [] [("ssl", ["openssl"])])
    installed_package := none
    build_options := { binary_caching := BinaryCaching.YES }
    port_dir := some ["vcpkg", "ports", "curl"] }

/-- The action of the scenarios at the head version. -/
def scenario_head_action : InstallPlanAction :=
  { scenario_action with
    build_options :=
      { binary_caching := BinaryCaching.YES, use_head_version := UseHeadVersion.YES } }

/-- The triplet information of the scenarios. -/
def scenario_pre_build_info : PreBuildInfo := { triplet_abi_tag := "triplet-hash" }

/-- The ABI entries of the dependencies in the scenarios. -/
def scenario_dependency_abis : List AbiEntry :=
  [{ key := "openssl", value := "abi-openssl" }, { key := "zlib", value := "abi-zlib" }]

end Vcpkg

namespace Vcpkg

/-! ## Procedures with effects, and the job queue (`system.jobs.cpp`) -/

/-- A procedure on a state that may exit the process: the result, or the failure it exits
with, together with the state it leaves. -/
def Proc (σ α : Type) : Type := σ → Except Failure α × σ

/-- The procedure that returns a value. -/
def Proc.pure {σ α : Type} (a : α) : Proc σ α := fun s => (Except.ok a, s)

/-- Sequencing: a failure of the first procedure ends the run. -/
def Proc.bind {σ α β : Type} (x : Proc σ α) (f : α → Proc σ β) : Proc σ β :=
  fun s =>
    match x s with
    | (Except.ok a, s') => f a s'
    | (Except.error e, s') => (Except.error e, s')

instance {σ : Type} : Monad (Proc σ) where
  pure := Proc.pure
  bind := Proc.bind

/-- The state. -/
def Proc.get {σ : Type} : Proc σ σ := fun s => (Except.ok s, s)

/-- A change of the state. -/
def Proc.modify {σ : Type} (f : σ → σ) : Proc σ Unit := fun s => (Except.ok (), f s)

/-- An exit of the process. -/
def Proc.exit {σ α : Type} (e : FatalError) : Proc σ α :=
  fun s => (Except.error (Failure.fatal e), s)

/-- A range-based `for` loop whose body does not leave the loop early. -/
def Proc.for_each {σ α : Type} (xs : List α) (body : α → Proc σ Unit) : Proc σ Unit :=
  match xs with
  | [] => Proc.pure ()
  | x :: rest => Proc.bind (body x) (fun _ => Proc.for_each rest body)

/-- A task of the job queue (`std::function<void()>`), named by the command line it runs. -/
abbrev Task := String

/-- The future of a posted task: the task and the number `i` it was started with. -/
structure Future where
  f : Task
  i : Nat
deriving DecidableEq, Repr

/-- The job queue (`Jobs::Queue`, without its lock). -/
structure Queue where
  m_futures : List Future := []
  m_descriptions : List String := []
  m_completions : List Bool := []
  m_join_all_in_progress : Bool := false
deriving DecidableEq, Repr

/-- The state the build acts on: the file system, the text printed to the standard output
and to the debug channel, the command lines executed, the global job queue, and the static
map `s_hash_cache` of `PreBuildInfo::from_triplet_file`. -/
structure World where
  fs : Filesystem := []
  printed : List String := []
  debug_printed : List String := []
  commands : List String := []
  queue : Queue := {}
  s_hash_cache : List (Path × String) := []
deriving DecidableEq, Repr

/-- The call `System::print2(...)`, also `System::printf(...)`. -/
def print2 (text : String) : Proc World Unit :=
  Proc.modify (fun w => { w with printed := w.printed ++ [text] })

/-- The call `Debug::print(...)`. -/
def Debug.print (text : String) : Proc World Unit :=
  Proc.modify (fun w => { w with debug_printed := w.debug_printed ++ [text] })

/-- The function `Jobs::post(f, description)`.  The index given to the task is the number
of futures before the call. -/
def Jobs.post (f : Task) (description : String) : Proc World Unit := do
  let q := (← Proc.get).queue
  if q.m_join_all_in_progress then
    Proc.exit (FatalError.exit_with_message "Attempted to post job to queue while draining.")
  else
    Proc.modify (fun w => { w with queue :=
      { w.queue with
        m_descriptions := w.queue.m_descriptions ++ [description]
        m_completions := w.queue.m_completions ++ [false]
        m_futures := w.queue.m_futures ++ [{ f := f, i := w.queue.m_futures.length }] } })

/-- The end of the task with the number `i` (the lambda of `post` after `f()`): under the
lock, the completion is recorded unless the queue is draining. -/
def Jobs.task_done (i : Nat) : Proc World Unit :=
  Proc.modify (fun w =>
    if w.queue.m_join_all_in_progress then w
    else { w with queue := { w.queue with m_completions := w.queue.m_completions.set i true } })

/-- One iteration of the loop of `join_all`: the line "Waiting for background task" goes
to the debug channel when the task is recorded as complete, to the standard output
otherwise; then `get` blocks until the task has ended.  The tasks `ending` are those that
end while the caller waits.  Tasks run to completion, so `get` returns; an index outside
the vectors (undefined behaviour) is modelled as an exit. -/
def Jobs.join_one (ending : List Nat) (i : Nat) : Proc World Unit := do
  let q := (← Proc.get).queue
  match q.m_completions.get? i, q.m_descriptions.get? i with
  | some completion, some description =>
    (if completion then Debug.print ("Waiting for background task: " ++ description ++ "\n")
     else print2 ("Waiting for background task: " ++ description ++ "\n"))
    Proc.for_each ending Jobs.task_done
  | _, _ => Proc.exit (FatalError.check_failed "Jobs::join_all")

/-- The function `Jobs::join_all()`; `ending i` are the tasks that end during the wait for
the future number `i`. -/
def Jobs.join_all (ending : Nat → List Nat) : Proc World Unit := do
  let q := (← Proc.get).queue
  if q.m_join_all_in_progress then
    Proc.exit (FatalError.exit_with_message "Attempted to drain queue while draining.")
  else
    Proc.modify (fun w => { w with queue := { w.queue with m_join_all_in_progress := true } })
    Proc.for_each (List.range q.m_futures.length) (fun i => Jobs.join_one (ending i) i)
    Proc.modify (fun w => { w with queue :=
      { w.queue with
        m_join_all_in_progress := false, m_futures := [], m_descriptions := []
        m_completions := [] } })

/-- A world in which two tasks are posted, the second recorded as complete. -/
def scenario_queue_world : World :=
  { queue :=
    { m_futures := [{ f := "push a", i := 0 }, { f := "push b", i := 1 }]
      m_descriptions := ["Uploading a to NuGet Feed", "Uploading b to NuGet Feed"]
      m_completions := [false, true] } }

end Vcpkg

namespace Vcpkg

/-! ## Printing a plan (`print_plan`) -/

/-- A result that is computed without effect, as the result of a procedure. -/
def Proc.of_except {σ α : Type} (x : Except Failure α) : Proc σ α := fun s => (x, s)

/-- Modelled from the spec: the text `PackageSpec::to_string` (declared outside the
translated sources): "the canonical spec key is `name:triplet`". -/
def PackageSpec.to_string (spec : PackageSpec) : String := spec.name ++ ":" ++ spec.triplet

/-- The function `to_output_string(request_type, s, options)`. -/
def to_output_string (request_type : RequestType) (s : String)
    (options : BuildPackageOptions) : Except Failure String :=
  let from_head := if options.use_head_version = UseHeadVersion.YES then " (from HEAD)" else ""
  match request_type with
  | RequestType.AUTO_SELECTED => pure ("  * " ++ s ++ from_head)
  | RequestType.USER_REQUESTED => pure ("    " ++ s ++ from_head)
  | RequestType.UNKNOWN => throw (Failure.fatal (FatalError.unreachable "to_output_string"))

/-- The method `InstallPlanAction::displayname`. -/
def InstallPlanAction.displayname (a : InstallPlanAction) : String :=
  if a.feature_list.isEmpty then a.spec.to_string
  else
    let features := Strings.join "," a.feature_list id
    a.spec.name ++ "[" ++ features ++ "]:" ++ a.spec.triplet

/-- The comparison `InstallPlanAction::compare_by_name`. -/
def InstallPlanAction.compare_by_name (left right : InstallPlanAction) : Bool :=
  string_less left.spec.name right.spec.name

/-- The comparison `RemovePlanAction::compare_by_name`. -/
def RemovePlanAction.compare_by_name (left right : RemovePlanAction) : Bool :=
  string_less left.spec.name right.spec.name

/-- The lists into which `print_plan` sorts the actions of a plan. -/
structure PlanLists where
  remove_plans : List RemovePlanAction := []
  rebuilt_plans : List InstallPlanAction := []
  only_install_plans : List InstallPlanAction := []
  new_plans : List InstallPlanAction := []
  already_installed_plans : List InstallPlanAction := []
  excluded : List InstallPlanAction := []
deriving DecidableEq, Repr

/-- Body of the loop of `print_plan` over the actions of the plan. -/
def print_plan_classify (lists : PlanLists) (action : AnyAction) : Except Failure PlanLists :=
  match action with
  | AnyAction.install_action install_action =>
    -- remove plans are guaranteed to come before install plans, so we know the plan will
    -- be contained if at all.
    if lists.remove_plans.any (fun plan => decide (plan.spec = install_action.spec)) then
      pure { lists with rebuilt_plans := lists.rebuilt_plans ++ [install_action] }
    else
      match install_action.plan_type with
      | InstallPlanType.ALREADY_INSTALLED =>
        if install_action.request_type = RequestType.USER_REQUESTED then
          pure { lists with
            already_installed_plans := lists.already_installed_plans ++ [install_action] }
        else pure lists
      | InstallPlanType.BUILD_AND_INSTALL =>
        pure { lists with new_plans := lists.new_plans ++ [install_action] }
      | InstallPlanType.EXCLUDED =>
        pure { lists with excluded := lists.excluded ++ [install_action] }
      | InstallPlanType.UNKNOWN => throw (Failure.fatal (FatalError.unreachable "print_plan"))
  | AnyAction.remove_action remove_action =>
    pure { lists with remove_plans := lists.remove_plans ++ [remove_action] }

/-- The lambda `actions_to_output_string` of `print_plan`. -/
def actions_to_output_string (v : List InstallPlanAction) : Except Failure String := do
  let lines ← v.mapM (fun p => to_output_string p.request_type p.displayname p.build_options)
  pure ("\n".intercalate lines)

/-- One of the sections of the text of `print_plan`: nothing is printed for an empty
list. -/
def print_plan_section (header : String) (v : List InstallPlanAction) : Proc World Unit :=
  if v.isEmpty then Proc.pure ()
  else Proc.bind (Proc.of_except (actions_to_output_string v))
    (fun text => print2 (header ++ text ++ "\n"))

/-- The function `print_plan(action_plan, is_recursive)`. -/
def print_plan (action_plan : List AnyAction) (is_recursive : Bool) : Proc World Unit := do
  let has_non_user_requested_packages := action_plan.any (fun package =>
    match package with
    | AnyAction.install_action iplan => decide (iplan.request_type ≠ RequestType.USER_REQUESTED)
    | AnyAction.remove_action _ => false)
  let lists ← Proc.of_except (action_plan.foldlM print_plan_classify {})
  let remove_plans := Util.sort RemovePlanAction.compare_by_name lists.remove_plans
  let rebuilt_plans := Util.sort InstallPlanAction.compare_by_name lists.rebuilt_plans
  let only_install_plans :=
    Util.sort InstallPlanAction.compare_by_name lists.only_install_plans
  let new_plans := Util.sort InstallPlanAction.compare_by_name lists.new_plans
  let already_installed_plans :=
    Util.sort InstallPlanAction.compare_by_name lists.already_installed_plans
  let excluded := Util.sort InstallPlanAction.compare_by_name lists.excluded
  print_plan_section "The following packages are excluded:\n" excluded
  print_plan_section "The following packages are already installed:\n" already_installed_plans
  print_plan_section "The following packages will be rebuilt:\n" rebuilt_plans
  print_plan_section "The following packages will be built and installed:\n" new_plans
  print_plan_section "The following packages will be directly installed:\n" only_install_plans
  (if has_non_user_requested_packages then
    print2 "Additional packages (*) will be modified to complete this operation.\n"
  else Proc.pure ())
  if !remove_plans.isEmpty && !is_recursive then
    Proc.bind
      (print2 ("If you are sure you want to rebuild the above packages, run the command " ++
        "with the --recurse option\n"))
      (fun _ => Proc.exit (FatalError.exit_fail "print_plan"))
  else Proc.pure ()

end Vcpkg

namespace Vcpkg

/-! ## The build orchestrator (`build.cpp`)

The build runs external processes and works on the file system.  A process is modelled by
the exit code and the output it ends with and the file system it leaves; the helpers whose
definitions lie outside the translated sources are the fields of `SystemEnv`.  Of the
platform-dependent code the branch for systems other than Windows is translated.  Metrics
are not modelled. -/

/-- The enumeration `BuildResult`. -/
inductive BuildResult where
  | NULLVALUE
  | SUCCEEDED
  | BUILD_FAILED
  | POST_BUILD_CHECKS_FAILED
  | FILE_CONFLICTS
  | CASCADED_DUE_TO_MISSING_DEPENDENCIES
  | EXCLUDED
deriving DecidableEq, Repr

/-- The control file of a built package (`BinaryControlFile`). -/
structure BinaryControlFile where
  core_paragraph : BinaryParagraph
  features : List BinaryParagraph := []
deriving DecidableEq, Repr

/-- The result of a build (`ExtendedBuildResult`), with its three constructors: a code, a
code with a control file, a code with unmet dependencies. -/
structure ExtendedBuildResult where
  code : BuildResult
  unmet_dependencies : List FeatureSpec := []
  binary_control_file : Option BinaryControlFile := none
deriving DecidableEq, Repr

/-- The enumeration `LinkageType`. -/
inductive LinkageType where
  | DYNAMIC
  | STATIC
deriving DecidableEq, Repr

/-- The enumeration `BuildPolicy`. -/
inductive BuildPolicy where
  | EMPTY_PACKAGE
  | DLLS_WITHOUT_LIBS
  | ONLY_RELEASE_CRT
  | EMPTY_INCLUDE_FOLDER
  | ALLOW_OBSOLETE_MSVCRT
deriving DecidableEq, Repr

/-- The function `to_string(BuildPolicy policy)`. -/
def BuildPolicy.to_string : BuildPolicy → String
  | .EMPTY_PACKAGE => "PolicyEmptyPackage"
  | .DLLS_WITHOUT_LIBS => "PolicyDLLsWithoutLIBs"
  | .ONLY_RELEASE_CRT => "PolicyOnlyReleaseCRT"
  | .EMPTY_INCLUDE_FOLDER => "PolicyEmptyIncludeFolder"
  | .ALLOW_OBSOLETE_MSVCRT => "PolicyAllowObsoleteMsvcrt"

/-- Modelled from the spec: the array `G_ALL_POLICIES` (declared outside the translated
sources) of all policies: "any `Policy*` field with value `enabled` or `disabled`". -/
def G_ALL_POLICIES : List BuildPolicy :=
  [BuildPolicy.EMPTY_PACKAGE, BuildPolicy.DLLS_WITHOUT_LIBS, BuildPolicy.ONLY_RELEASE_CRT,
    BuildPolicy.EMPTY_INCLUDE_FOLDER, BuildPolicy.ALLOW_OBSOLETE_MSVCRT]

/-- The function `to_string(DownloadTool tool)`. -/
def DownloadTool.to_string : DownloadTool → String
  | .BUILT_IN => "BUILT_IN"
  | .ARIA2 => "ARIA2"

/-- The contents of a `BUILD_INFO` file (`BuildInfo`). -/
structure BuildInfo where
  crt_linkage : LinkageType := LinkageType.DYNAMIC
  library_linkage : LinkageType := LinkageType.DYNAMIC
  version : Option String := none
  policies : List (BuildPolicy × Bool) := []
deriving DecidableEq, Repr

/-- The function `to_linkage_type(str)`. -/
def to_linkage_type (str : String) : Option LinkageType :=
  if str = "dynamic" then some LinkageType.DYNAMIC
  else if str = "static" then some LinkageType.STATIC
  else none

/-- The name `BuildInfoRequiredField::CRT_LINKAGE`. -/
def BuildInfoRequiredField.CRT_LINKAGE : String := "CRTLinkage"

/-- The name `BuildInfoRequiredField::LIBRARY_LINKAGE`. -/
def BuildInfoRequiredField.LIBRARY_LINKAGE : String := "LibraryLinkage"

/-- Modelled from the spec: the parser of a paragraph (`Parse::ParagraphParser`, declared
outside the translated sources): the fields of the paragraph that were not read yet and the
required fields that were not found; "single paragraph with required fields `CRTLinkage`,
`LibraryLinkage`, optional `Version`, and any `Policy*` field". -/
structure ParagraphParser where
  fields : List (String × String)
  missing_fields : List String := []
deriving DecidableEq, Repr

/-- Modelled from the spec: a field is read by taking it out of the paragraph. -/
def ParagraphParser.remove_field (parser : ParagraphParser) (fieldname : String) :
    Option String × ParagraphParser :=
  match AssocMap.find parser.fields fieldname with
  | none => (none, parser)
  | some value =>
    (some value,
      { parser with fields := parser.fields.filter (fun kv => decide (kv.1 ≠ fieldname)) })

/-- Modelled from the spec: `required_field(fieldname, out)` reads a "required field"; when
the paragraph does not have it, `out` is left as it is and the field is recorded as
missing. -/
def ParagraphParser.required_field (parser : ParagraphParser) (fieldname : String)
    (out : String) : String × ParagraphParser :=
  match parser.remove_field fieldname with
  | (some value, parser) => (value, parser)
  | (none, parser) => (out, { parser with missing_fields := parser.missing_fields ++ [fieldname] })

/-- Modelled from the spec: `optional_field(fieldname)` reads an "optional" field; the
value is empty when the paragraph does not have it. -/
def ParagraphParser.optional_field (parser : ParagraphParser) (fieldname : String) :
    String × ParagraphParser :=
  match parser.remove_field fieldname with
  | (some value, parser) => (value, parser)
  | (none, parser) => ("", parser)

/-- The text of a path (`path::u8string`). -/
def Path.u8string (p : Path) : String := "/".intercalate p

/-- The method `path::extension`: the part of the file name from its last dot on, empty
when the name has no dot or only begins with one. -/
def Path.extension (p : Path) : String :=
  let name := p.filename.data
  let stem := (name.reverse.dropWhile (fun c => c ≠ '.')).reverse
  if stem.length ≤ 1 then "" else String.mk (name.drop (stem.length - 1))

/-- The method `PackageSpec::dir`; "`<packages>/<dir>/CONTROL`".  Modelled from the spec is
only that it names a directory of the package: the name and the triplet. -/
def PackageSpec.dir (spec : PackageSpec) : String := spec.name ++ "_" ++ spec.triplet

/-- The call `fs.exists(path)`. -/
def Filesystem.exists_path (fs : Filesystem) (path : Path) : Bool :=
  fs.any (fun e => decide (e.path = path))

/-- The call `fs.remove(path, ...)`. -/
def Filesystem.remove (fs : Filesystem) (path : Path) : Filesystem :=
  fs.filter (fun e => decide (e.path ≠ path))

/-- The call `fs.remove_all(path, ec)`: the entry and everything below it are removed. -/
def Filesystem.remove_all (fs : Filesystem) (path : Path) : Filesystem :=
  fs.filter (fun e => !path.isPrefixOf e.path)

/-- The call `fs.get_files_non_recursive(dir)`: the entries directly in the directory. -/
def Filesystem.get_files_non_recursive (fs : Filesystem) (dir : Path) : List Path :=
  (fs.filter (fun e => decide (e.path ≠ [] ∧ e.path.parent_path = dir))).map FileEntry.path

/-- The effect of a rename of `old_path` to `new_path`: what was at the new path is
replaced by what was at the old one. -/
def Filesystem.renamed (fs : Filesystem) (old_path new_path : Path) : Filesystem :=
  (fs.remove_all new_path).map (fun e =>
    if old_path.isPrefixOf e.path then { e with path := new_path ++ e.path.drop old_path.length }
    else e)

/-- The call `fs.copy_file(oldpath, newpath, copy_options::none, ec)`: the new file system
and whether `ec` reports an error, which it does when there is no regular file to copy or
the new path exists. -/
def Filesystem.copy_file (fs : Filesystem) (oldpath newpath : Path) : Filesystem × Bool :=
  match fs.read_contents oldpath with
  | none => (fs, true)
  | some data =>
    if fs.exists_path newpath then (fs, true)
    else (fs ++ [{ path := newpath, type := FileType.regular, contents := data }], false)

/-- The call `fs.rename_or_copy(old_path, new_path, temp_suffix, ec)`: the new file system
and whether `ec` reports an error. -/
def Filesystem.rename_or_copy (fs : Filesystem) (old_path new_path : Path) :
    Filesystem × Bool :=
  if fs.exists_path old_path then (fs.renamed old_path new_path, false) else (fs, true)

/-- How a process ends: its exit code, its output, and the file system it leaves. -/
structure ProcessResult where
  exit_code : Int
  output : String := ""
  fs : Filesystem
deriving DecidableEq, Repr

/-- The result of `System::cmd_execute_and_capture_output` (`ExitCodeAndOutput`). -/
structure ExitCodeAndOutput where
  exit_code : Int
  output : String
deriving DecidableEq, Repr

/-- The helpers the build orchestrator calls whose definitions lie outside the translated
sources. -/
structure SystemEnv extends BuildEnv where
  /-- The call `Strings::split(s, delimiter)`. -/
  split : String → String → List String
  /-- The call `Strings::case_insensitive_ascii_equals(left, right)`. -/
  case_insensitive_ascii_equals : String → String → Bool
  /-- The call `Strings::replace_all(s, search, rep)`. -/
  replace_all : String → String → String → String
  /-- Whether `ParagraphParser::error_info(name)` reports an error. -/
  error_info : ParagraphParser → String → Bool
  /-- A run of the command line by `System::cmd_execute` or
  `System::cmd_execute_and_capture_output` on the file system. -/
  run : String → Filesystem → ProcessResult
  /-- The call `System::get_environment_variable(name)`. -/
  get_environment_variable : String → Option String
  /-- The call `System::make_cmake_cmd(cmake_exe, cmake_script, pass_variables)`. -/
  make_cmake_cmd : Path → Path → List (String × String) → String
  /-- The call `Paragraphs::get_single_paragraph(fs, filepath)`. -/
  get_single_paragraph : Filesystem → Path → Option (List (String × String))
  /-- The call `PostBuildLint::perform_all_checks(spec, paths, pre_build_info, build_info)`. -/
  perform_all_checks : PackageSpec → Filesystem → PreBuildInfo → BuildInfo → Nat
  /-- The call `Paragraphs::try_load_cached_package(paths, spec)`. -/
  try_load_cached_package : Filesystem → PackageSpec → Option BinaryControlFile
  /-- The call `Strings::serialize(paragraph)`. -/
  serialize : BinaryParagraph → String
  /-- The call `filter_dependencies(depends, triplet)`. -/
  filter_dependencies : List String → Triplet → List String
  /-- The call `FeatureSpec::from_strings_and_triplet(depends, triplet)`. -/
  from_strings_and_triplet : List String → Triplet → List FeatureSpec
  /-- The order `operator<` of `FeatureSpec`. -/
  feature_spec_less : FeatureSpec → FeatureSpec → Bool
  /-- The call `std::stoi(s)`. -/
  stoi : String → Int
  /-- The call `System::get_num_logical_cores()`. -/
  get_num_logical_cores : Int
  /-- The call `System::to_cpu_architecture(s)`. -/
  to_cpu_architecture : String → Option CPUArchitecture
  /-- The call `System::get_supported_host_architectures()`. -/
  get_supported_host_architectures : List CPUArchitecture
  /-- The flag `Debug::g_debugging`. -/
  g_debugging : Bool

/-- The call `Checks::check_exit(line, cond, ...)` of a procedure with effects. -/
def Proc.check_exit {σ : Type} (cond : Bool) (e : FatalError) : Proc σ Unit :=
  if cond then Proc.pure () else Proc.exit e

/-- The call `System::cmd_execute(cmd_line, env)`: the command line is run and its exit
code returned. -/
def cmd_execute (env : SystemEnv) (cmd_line : String) : Proc World Int := fun w =>
  (Except.ok (env.run cmd_line w.fs).exit_code,
    { w with fs := (env.run cmd_line w.fs).fs, commands := w.commands ++ [cmd_line] })

/-- The call `System::cmd_execute_and_capture_output(cmd_line)`. -/
def cmd_execute_and_capture_output (env : SystemEnv) (cmd_line : String) :
    Proc World ExitCodeAndOutput := fun w =>
  (Except.ok { exit_code := (env.run cmd_line w.fs).exit_code
               output := (env.run cmd_line w.fs).output },
    { w with fs := (env.run cmd_line w.fs).fs, commands := w.commands ++ [cmd_line] })

/-- A change of the file system. -/
def modify_fs (f : Filesystem → Filesystem) : Proc World Unit :=
  Proc.modify (fun w => { w with fs := f w.fs })

/-- The call `fs.rename(oldpath, newpath, VCPKG_LINE_INFO)`, which exits when the rename
fails; it fails when there is nothing at the old path. -/
def fs_rename (old_path new_path : Path) : Proc World Unit := do
  if (← Proc.get).fs.exists_path old_path then modify_fs (fun fs => fs.renamed old_path new_path)
  else Proc.exit (FatalError.check_failed "rename")

/-! ### The status database as the build reads it -/

/-- Modelled from the spec: `StatusParagraphs::find_installed(spec)` (declared outside the
translated sources): the view of the package in the "snapshot of currently installed package
views", if it has one. -/
def StatusParagraphs.find_installed (status_db : StatusParagraphs) (spec : PackageSpec) :
    Option InstalledPackageView :=
  List.find? (fun ipv => decide (ipv.spec = spec)) status_db

/-- Modelled from the spec: `StatusParagraphs::find(spec)` (declared outside the translated
sources): the paragraph the status database records for the package; in the "snapshot of
currently installed package views" it is the one of the installed view. -/
def StatusParagraphs.find (status_db : StatusParagraphs) (spec : PackageSpec) :
    Option InstalledPackageView :=
  List.find? (fun ipv => decide (ipv.spec = spec)) status_db

/-- Modelled from the spec: `StatusParagraphs::is_installed(fspec)` (declared outside the
translated sources): the package is installed with the feature, the installed features being
"`{"core"}` ∪ installed features". -/
def StatusParagraphs.is_installed (status_db : StatusParagraphs) (fspec : FeatureSpec) : Bool :=
  match status_db.find_installed fspec.spec with
  | none => false
  | some ipv =>
    decide (fspec.feature = "core") || ipv.features.any (fun f => decide (f.feature = fspec.feature))

/-- Modelled from the spec: `SourceControlFile::find_feature(featurename)` (declared outside
the translated sources): the feature paragraph of that name. -/
def SourceControlFile.find_feature (scf : SourceControlFile) (featurename : String) :
    Option FeatureParagraph :=
  scf.feature_paragraphs.find? (fun f => decide (f.name = featurename))

/-! ### The BUILD_INFO file -/

/-- The loop of `inner_create_buildinfo` over `G_ALL_POLICIES`. -/
def read_policies :
    List BuildPolicy → List (BuildPolicy × Bool) × ParagraphParser →
      Except Failure (List (BuildPolicy × Bool) × ParagraphParser)
  | [], st => pure st
  | policy :: rest, (policies, parser) =>
    let setting := (parser.optional_field policy.to_string).1
    let parser := (parser.optional_field policy.to_string).2
    if setting = "" then read_policies rest (policies, parser)
    else if setting = "enabled" then
      read_policies rest (AssocMap.emplace policies policy true, parser)
    else if setting = "disabled" then
      read_policies rest (AssocMap.emplace policies policy false, parser)
    else
      throw (Failure.fatal (FatalError.exit_with_message
        ("Unknown setting for policy '" ++ policy.to_string ++ "': " ++ setting)))

/-- The function `inner_create_buildinfo(pgh)`. -/
def inner_create_buildinfo (env : SystemEnv) (pgh : List (String × String)) :
    Except Failure BuildInfo := do
  let parser : ParagraphParser := { fields := pgh }
  let build_info : BuildInfo := {}
  let crt_linkage_as_string := (parser.required_field BuildInfoRequiredField.CRT_LINKAGE "").1
  let parser := (parser.required_field BuildInfoRequiredField.CRT_LINKAGE "").2
  let build_info ← match to_linkage_type crt_linkage_as_string with
    | some p => pure { build_info with crt_linkage := p }
    | none =>
      throw (Failure.fatal (FatalError.exit_with_message
        ("Invalid crt linkage type: [" ++ crt_linkage_as_string ++ "]")))
  let library_linkage_as_string :=
    (parser.required_field BuildInfoRequiredField.LIBRARY_LINKAGE "").1
  let parser := (parser.required_field BuildInfoRequiredField.LIBRARY_LINKAGE "").2
  let build_info ← match to_linkage_type library_linkage_as_string with
    | some p => pure { build_info with library_linkage := p }
    | none =>
      throw (Failure.fatal (FatalError.exit_with_message
        ("Invalid library linkage type: [" ++ library_linkage_as_string ++ "]")))
  let version := (parser.optional_field "Version").1
  let parser := (parser.optional_field "Version").2
  let build_info :=
    if version ≠ "" then { build_info with version := some version } else build_info
  let (policies, parser) ← read_policies G_ALL_POLICIES ([], parser)
  if env.error_info parser "PostBuildInformation" then
    throw (Failure.fatal (FatalError.exit_fail "inner_create_buildinfo"))
  else
    pure { build_info with policies := policies }

/-- The function `read_build_info(fs, filepath)`. -/
def read_build_info (env : SystemEnv) (fs : Filesystem) (filepath : Path) :
    Except Failure BuildInfo :=
  match env.get_single_paragraph fs filepath with
  | none =>
    throw (Failure.fatal (FatalError.exit_with_message "Invalid BUILD_INFO file for package"))
  | some pgh => inner_create_buildinfo env pgh

/-! ### The inspection of a triplet -/

/-- The text `FLAG_GUID` of `PreBuildInfo::from_triplet_file`. -/
def FLAG_GUID : String := "c35112b6-d1ba-415b-aa5d-81de856ef8eb"

/-- The lines from `cur` on after `cur = std::find(lines.cbegin(), e, FLAG_GUID)` and
`if (cur != e) ++cur`: those the loop of `from_triplet_file` visits. -/
def lines_after_flag : List String → List String
  | [] => []
  | line :: rest => if line = FLAG_GUID then rest else lines_after_flag rest

/-- One iteration of the loop of `PreBuildInfo::from_triplet_file` over the lines. -/
def parse_triplet_line (env : SystemEnv) (pre_build_info : PreBuildInfo) (line : String) :
    Except Failure PreBuildInfo :=
  let s := env.split line "="
  if s.length = 1 ∨ s.length = 2 then
    let variable_with_no_value := decide (s.length = 1)
    let variable_name := s.getD 0 ""
    let variable_value := if variable_with_no_value then "" else s.getD 1 ""
    if variable_name = "VCPKG_TARGET_ARCHITECTURE" then
      pure { pre_build_info with target_architecture := variable_value }
    else if variable_name = "VCPKG_CMAKE_SYSTEM_NAME" then
      pure { pre_build_info with cmake_system_name := variable_value }
    else if variable_name = "VCPKG_CMAKE_SYSTEM_VERSION" then
      pure { pre_build_info with cmake_system_version := variable_value }
    else if variable_name = "VCPKG_PLATFORM_TOOLSET" then
      pure { pre_build_info with
        platform_toolset := if variable_value = "" then none else some variable_value }
    else if variable_name = "VCPKG_VISUAL_STUDIO_PATH" then
      pure { pre_build_info with
        visual_studio_path := if variable_value = "" then none else some (u8path variable_value) }
    else if variable_name = "VCPKG_CHAINLOAD_TOOLCHAIN_FILE" then
      pure { pre_build_info with
        external_toolchain_file := if variable_value = "" then none else some variable_value }
    else if variable_name = "VCPKG_BUILD_TYPE" then
      if variable_value = "" then pure { pre_build_info with build_type := none }
      else if env.case_insensitive_ascii_equals variable_value "debug" then
        pure { pre_build_info with build_type := some ConfigurationType.DEBUG }
      else if env.case_insensitive_ascii_equals variable_value "release" then
        pure { pre_build_info with build_type := some ConfigurationType.RELEASE }
      else
        throw (Failure.fatal (FatalError.exit_with_message
          ("Unknown setting for VCPKG_BUILD_TYPE: " ++ variable_value)))
    else
      throw (Failure.fatal (FatalError.exit_with_message ("Unknown variable name " ++ line)))
  else
    throw (Failure.fatal (FatalError.exit_with_message
      ("Expected format is [VARIABLE_NAME=VARIABLE_VALUE], but was [" ++ line ++ "]")))

/-- The loop of `PreBuildInfo::from_triplet_file` over the lines from `cur` on. -/
def parse_triplet_lines (env : SystemEnv) :
    List String → PreBuildInfo → Except Failure PreBuildInfo
  | [], pre_build_info => pure pre_build_info
  | line :: rest, pre_build_info => do
    let pre_build_info ← parse_triplet_line env pre_build_info line
    parse_triplet_lines env rest pre_build_info

/-- The lambda of `PreBuildInfo::from_triplet_file` that computes `triplet_abi_tag`, with
its static map `s_hash_cache`. -/
def triplet_abi_tag_of (env : SystemEnv) (paths : VcpkgPaths) (triplet_file_path : Path)
    (pre_build_info : PreBuildInfo) : Proc World String := fun w =>
  match AssocMap.find w.s_hash_cache triplet_file_path with
  | some hash => (Except.ok hash, w)
  | none =>
    let hash := env.get_file_hash w.fs triplet_file_path
    let hash :=
      match pre_build_info.external_toolchain_file with
      | some p => hash ++ "-" ++ env.get_file_hash w.fs (u8path p)
      | none =>
        if pre_build_info.cmake_system_name = "Linux" then
          hash ++ "-" ++ env.get_file_hash w.fs
            (paths.scripts ++ u8path "toolchains" ++ u8path "linux.cmake")
        else if pre_build_info.cmake_system_name = "Darwin" then
          hash ++ "-" ++ env.get_file_hash w.fs
            (paths.scripts ++ u8path "toolchains" ++ u8path "osx.cmake")
        else if pre_build_info.cmake_system_name = "FreeBSD" then
          hash ++ "-" ++ env.get_file_hash w.fs
            (paths.scripts ++ u8path "toolchains" ++ u8path "freebsd.cmake")
        else if pre_build_info.cmake_system_name = "Android" then
          hash ++ "-" ++ env.get_file_hash w.fs
            (paths.scripts ++ u8path "toolchains" ++ u8path "android.cmake")
        else hash
    (Except.ok hash,
      { w with s_hash_cache := AssocMap.emplace w.s_hash_cache triplet_file_path hash })

/-- The part of `PreBuildInfo::from_triplet_file` that follows the split of the output into
`lines`: the loop over the lines after the flag, and the ABI tag of the triplet. -/
def from_triplet_lines (env : SystemEnv) (paths : VcpkgPaths) (triplet_file_path : Path)
    (lines : List String) : Proc World PreBuildInfo := do
  let pre_build_info ← Proc.of_except (parse_triplet_lines env (lines_after_flag lines) {})
  let triplet_abi_tag ← triplet_abi_tag_of env paths triplet_file_path pre_build_info
  pure { pre_build_info with triplet_abi_tag := triplet_abi_tag }

/-- The function `PreBuildInfo::from_triplet_file(paths, triplet)`. -/
def PreBuildInfo.from_triplet_file (env : SystemEnv) (paths : VcpkgPaths) (triplet : Triplet) :
    Proc World PreBuildInfo := do
  let cmake_exe_path := paths.get_tool_exe Tools.CMAKE
  let ports_cmake_script_path := paths.scripts ++ u8path "get_triplet_environment.cmake"
  let triplet_file_path := paths.triplets ++ u8path (triplet ++ ".cmake")
  let cmd_launch_cmake := env.make_cmake_cmd cmake_exe_path ports_cmake_script_path
    [("CMAKE_TRIPLET_FILE", triplet_file_path.u8string)]
  let ec_data ← cmd_execute_and_capture_output env cmd_launch_cmake
  Proc.check_exit (decide (ec_data.exit_code = 0)) (FatalError.exit_with_message ec_data.output)
  let lines := env.split ec_data.output "\n"
  from_triplet_lines env paths triplet_file_path lines

/-! ### The required feature specs -/

/-- The `Util::fmap_flatten` of `compute_required_feature_specs` over the feature list: the
dependencies of the features, as text. -/
def required_dep_strings (env : SystemEnv) (scf : SourceControlFile) (triplet : Triplet) :
    List String → Except Failure (List String)
  | [] => pure []
  | feature :: rest => do
    let deps ←
      if feature = "core" then pure (env.filter_dependencies scf.core_paragraph.depends triplet)
      else
        match scf.find_feature feature with
        | some maybe_feature => pure (env.filter_dependencies maybe_feature.depends triplet)
        | none =>
          throw (Failure.fatal (FatalError.check_failed "compute_required_feature_specs"))
    let more ← required_dep_strings env scf triplet rest
    pure (deps ++ more)

/-- The call `Util::sort_unique_erase` on a vector of feature specs. -/
def sort_unique_erase_fspecs (env : SystemEnv) (fspecs : List FeatureSpec) : List FeatureSpec :=
  fspecs.foldl (fun sorted fspec => set_insert env.feature_spec_less fspec sorted) []

/-- The loop "expand defaults" of `compute_required_feature_specs`. -/
def expand_defaults (status_db : StatusParagraphs) : List FeatureSpec → List FeatureSpec
  | [] => []
  | fspec :: rest =>
    (if fspec.feature = "" then
      -- reference to default features
      match status_db.find_installed fspec.spec with
      | none =>
        -- not currently installed, so just leave the default reference so it will fail later
        [fspec]
      | some it =>
        (⟨fspec.spec, "core"⟩ : FeatureSpec) ::
          it.core.default_features.map (fun default_feature => ⟨fspec.spec, default_feature⟩)
    else [fspec]) ++ expand_defaults status_db rest

/-- The function `compute_required_feature_specs(scf, triplet, feature_list, status_db)`. -/
def compute_required_feature_specs (env : SystemEnv) (scf : SourceControlFile)
    (triplet : Triplet) (feature_list : List String) (status_db : StatusParagraphs) :
    Except Failure (List FeatureSpec) := do
  let dep_strings ← required_dep_strings env scf triplet feature_list
  let dep_fspecs := env.from_strings_and_triplet dep_strings triplet
  let dep_fspecs := sort_unique_erase_fspecs env dep_fspecs
  let ret := expand_defaults status_db dep_fspecs
  pure (sort_unique_erase_fspecs env ret)

/-! ### The build -/

/-- The name `Tools::GIT` of the tool. -/
def Tools.GIT : String := "git"

/-- The function `get_concurrency()`, as text. -/
def get_concurrency (env : SystemEnv) : Int :=
  match env.get_environment_variable "VCPKG_MAX_CONCURRENCY" with
  | some user_defined_concurrency => env.stoi user_defined_concurrency
  | none => env.get_num_logical_cores + 1

/-- The function `to_vcvarsall_target(cmake_system_name)`. -/
def to_vcvarsall_target (cmake_system_name : String) : Except Failure String :=
  if cmake_system_name = "" then pure ""
  else if cmake_system_name = "Windows" then pure ""
  else if cmake_system_name = "WindowsStore" then pure "store"
  else
    throw (Failure.fatal (FatalError.exit_with_message
      ("Unsupported vcvarsall target " ++ cmake_system_name)))

/-- The function `to_vcvarsall_toolchain(target_architecture, toolset)`. -/
def to_vcvarsall_toolchain (env : SystemEnv) (target_architecture : String)
    (toolset : Toolset) : Except Failure String :=
  match env.to_cpu_architecture target_architecture with
  | none =>
    throw (Failure.fatal (FatalError.exit_with_message
      ("Invalid architecture string: " ++ target_architecture)))
  | some target_arch =>
    match env.get_supported_host_architectures.findSome? (fun host =>
        (toolset.supported_architectures.find? (fun opt =>
          decide (host = opt.host_arch ∧ target_arch = opt.target_arch))).map
          ToolsetArchOption.name) with
    | some name => pure name
    | none =>
      throw (Failure.fatal (FatalError.exit_with_message
        ("Unsupported toolchain combination. Target was: " ++ target_architecture ++
          " but supported ones were:\n" ++
          Strings.join "," toolset.supported_architectures ToolsetArchOption.name)))

/-- The function `make_build_env_cmd(pre_build_info, toolset)`. -/
def make_build_env_cmd (env : SystemEnv) (pre_build_info : PreBuildInfo) (toolset : Toolset) :
    Except Failure String :=
  if pre_build_info.external_toolchain_file.isSome then pure ""
  else if pre_build_info.cmake_system_name ≠ "" ∧
      pre_build_info.cmake_system_name ≠ "WindowsStore" then pure ""
  else do
    let tonull := if env.g_debugging then "" else " >nul"
    let arch ← to_vcvarsall_toolchain env pre_build_info.target_architecture toolset
    let target ← to_vcvarsall_target pre_build_info.cmake_system_name
    pure ("\"" ++ toolset.vcvarsall.u8string ++ "\" " ++
      Strings.join " " toolset.vcvarsall_options id ++ " " ++ arch ++ " " ++ target ++ " " ++
      tonull ++ " 2>&1 <NUL")

/-- Modelled from the spec: the constructor `BinaryParagraph(spgh, triplet, abi_tag)`
(declared outside the translated sources) of the core paragraph of a built package, "each
`BinaryParagraph` carrying `{spec, version, abi, default_features[], depends[]}`". -/
def BinaryParagraph.of_source (env : SystemEnv) (spgh : SourceParagraph) (triplet : Triplet)
    (abi_tag : String) : BinaryParagraph :=
  { spec := ⟨spgh.name, triplet⟩, version := spgh.version, feature := ""
    default_features := spgh.default_features
    depends := env.filter_dependencies spgh.depends triplet, abi := abi_tag }

/-- Modelled from the spec: the constructor `BinaryParagraph(spgh, fpgh, triplet)`
(declared outside the translated sources) of the paragraph of a built feature, "each
`BinaryParagraph` carrying `{spec, version, abi, default_features[], depends[]}`". -/
def BinaryParagraph.of_feature (env : SystemEnv) (spgh : SourceParagraph)
    (fpgh : FeatureParagraph) (triplet : Triplet) : BinaryParagraph :=
  { spec := ⟨spgh.name, triplet⟩, version := "", feature := fpgh.name, default_features := []
    depends := env.filter_dependencies fpgh.depends triplet, abi := "" }

/-- The function `create_binary_feature_control_file`. -/
def create_binary_feature_control_file (env : SystemEnv) (source_paragraph : SourceParagraph)
    (feature_paragraph : FeatureParagraph) (triplet : Triplet) : BinaryParagraph :=
  BinaryParagraph.of_feature env source_paragraph feature_paragraph triplet

/-- The function `create_binary_control_file`. -/
def create_binary_control_file (env : SystemEnv) (source_paragraph : SourceParagraph)
    (triplet : Triplet) (build_info : BuildInfo) (abi_tag : String) : BinaryControlFile :=
  let bpgh := BinaryParagraph.of_source env source_paragraph triplet abi_tag
  let bpgh :=
    match build_info.version with
    | some p_ver => { bpgh with version := p_ver }
    | none => bpgh
  { core_paragraph := bpgh }

/-- The function `write_binary_control_file(paths, bcf)`. -/
def write_binary_control_file (env : SystemEnv) (paths : VcpkgPaths)
    (bcf : BinaryControlFile) : Proc World Unit :=
  let start := bcf.features.foldl (fun start feature => start ++ "\n" ++ env.serialize feature)
    (env.serialize bcf.core_paragraph)
  let binary_control_file :=
    paths.packages ++ u8path bcf.core_paragraph.spec.dir ++ u8path "CONTROL"
  modify_fs (fun fs => fs.write_contents binary_control_file start)

/-- The two loops of `do_build_package` that add the paragraphs of the built features. -/
def built_features (env : SystemEnv) (scf : SourceControlFile) (triplet : Triplet)
    (feature_list : List String) : List BinaryParagraph :=
  feature_list.flatMap (fun feature =>
    (scf.feature_paragraphs.filter (fun f_pgh => decide (f_pgh.name = feature))).map
      (fun f_pgh => create_binary_feature_control_file env scf.core_paragraph f_pgh triplet))

/-- The command line `cmd_launch_cmake` of `do_build_package`: the build tool is launched
with `CMD=BUILD`. -/
def build_command (env : SystemEnv) (paths : VcpkgPaths) (pre_build_info : PreBuildInfo)
    (config : InstallPlanAction) (scf : SourceControlFile) (port_dir : Path) : String :=
  let cmake_exe_path := paths.get_tool_exe Tools.CMAKE
  let git_exe_path := paths.get_tool_exe Tools.GIT
  let all_features :=
    scf.feature_paragraphs.foldl (fun all_features feature => all_features ++ (feature.name ++ ";"))
      ""
  let toolset := paths.get_toolset pre_build_info
  let pass_variables : List (String × String) :=
    [("CMD", "BUILD"),
     ("PORT", scf.core_paragraph.name),
     ("CURRENT_PORT_DIR", port_dir.u8string),
     ("TARGET_TRIPLET", config.spec.triplet),
     ("VCPKG_PLATFORM_TOOLSET", toolset.version),
     ("VCPKG_USE_HEAD_VERSION",
       if config.build_options.use_head_version = UseHeadVersion.YES then "1" else "0"),
     ("DOWNLOADS", paths.downloads.u8string),
     ("_VCPKG_NO_DOWNLOADS",
       if ¬ config.build_options.allow_downloads = AllowDownloads.YES then "1" else "0"),
     ("_VCPKG_DOWNLOAD_TOOL", config.build_options.download_tool.to_string),
     ("FEATURES", Strings.join ";" config.feature_list id),
     ("ALL_FEATURES", all_features),
     ("VCPKG_CONCURRENCY", toString (get_concurrency env))]
  let pass_variables :=
    if (env.get_environment_variable "VCPKG_FORCE_SYSTEM_BINARIES").isNone then
      pass_variables ++ [("GIT", git_exe_path.u8string)]
    else pass_variables
  env.make_cmake_cmd cmake_exe_path paths.ports_cmake pass_variables

/-- The function `do_build_package(paths, pre_build_info, config)`. -/
def do_build_package (env : SystemEnv) (paths : VcpkgPaths) (pre_build_info : PreBuildInfo)
    (config : InstallPlanAction) : Proc World ExtendedBuildResult := do
  let scf ← match config.build_action with
    | some scf => Proc.pure scf
    | none => Proc.exit (FatalError.check_failed "do_build_package")
  let port_dir ← match config.port_dir with
    | some port_dir => Proc.pure port_dir
    | none => Proc.exit (FatalError.check_failed "do_build_package")
  let toolset := paths.get_toolset pre_build_info
  let cmd_launch_cmake := build_command env paths pre_build_info config scf port_dir
  let _ ← Proc.of_except (make_build_env_cmd env pre_build_info toolset)
  let return_code ← cmd_execute env cmd_launch_cmake
  if return_code ≠ 0 then
    Proc.pure { code := BuildResult.BUILD_FAILED }
  else do
    let build_info ←
      Proc.of_except (read_build_info env (← Proc.get).fs (paths.build_info_file_path config.spec))
    let error_count :=
      env.perform_all_checks config.spec (← Proc.get).fs pre_build_info build_info
    let bcf := create_binary_control_file env scf.core_paragraph config.spec.triplet build_info
      (config.abi.getD { tag := "", tag_file := [] }).tag
    if error_count ≠ 0 then
      Proc.pure { code := BuildResult.POST_BUILD_CHECKS_FAILED }
    else do
      let bcf : BinaryControlFile :=
        { bcf with features :=
            bcf.features ++ built_features env scf config.spec.triplet config.feature_list }
      write_binary_control_file env paths bcf
      Proc.pure { code := BuildResult.SUCCEEDED, binary_control_file := some bcf }

/-- The body of the loop of `do_build_package_and_clean_buildtrees` over the files of the
build tree. -/
def clean_buildtree_file (file : Path) : Proc World Unit := do
  if (← Proc.get).fs.is_directory file then
    -- Will only keep the logs
    modify_fs (fun fs => fs.remove_all file)
  else Proc.pure ()

/-- The function `do_build_package_and_clean_buildtrees(paths, pre_build_info, config)`. -/
def do_build_package_and_clean_buildtrees (env : SystemEnv) (paths : VcpkgPaths)
    (pre_build_info : PreBuildInfo) (config : InstallPlanAction) :
    Proc World ExtendedBuildResult := do
  let result ← do_build_package env paths pre_build_info config
  let scf ← match config.build_action with
    | some scf => Proc.pure scf
    | none => Proc.exit (FatalError.check_failed "do_build_package_and_clean_buildtrees")
  if config.build_options.clean_buildtrees = CleanBuildtrees.YES then do
    let buildtrees_dir := paths.buildtrees ++ u8path scf.core_paragraph.name
    let buildtree_files := (← Proc.get).fs.get_files_non_recursive buildtrees_dir
    Proc.for_each buildtree_files clean_buildtree_file
    Proc.pure result
  else Proc.pure result

/-- The function `decompress_archive(paths, spec, archive_path)`. -/
def decompress_archive (env : SystemEnv) (paths : VcpkgPaths) (spec : PackageSpec)
    (archive_path : Path) : Proc World Unit := do
  let pkg_path := paths.package_dir spec
  modify_fs (fun fs => fs.remove_all pkg_path)
  modify_fs (fun fs => fs.create_directories pkg_path)
  let files := (← Proc.get).fs.get_files_non_recursive pkg_path
  Proc.check_exit files.isEmpty
    (FatalError.exit_with_message ("unable to clear path: " ++ pkg_path.u8string))
  let _ ← cmd_execute env
    ("unzip -qq \"" ++ archive_path.u8string ++ "\" \"-d" ++ pkg_path.u8string ++ "\"")
  Proc.pure ()

/-- The function `compress_directory(paths, source, destination)`. -/
def compress_directory (env : SystemEnv) (source destination : Path) : Proc World Unit := do
  modify_fs (fun fs => fs.remove destination)
  Proc.check_exit (!(← Proc.get).fs.exists_path destination)
    (FatalError.exit_with_message ("Could not remove file: " ++ destination.u8string))
  let _ ← cmd_execute env
    ("cd '" ++ source.u8string ++ "' && zip --quiet -r '" ++ destination.u8string ++ "' *")
  Proc.pure ()

/-- The function `compress_archive(paths, spec, destination)`. -/
def compress_archive (env : SystemEnv) (paths : VcpkgPaths) (spec : PackageSpec)
    (destination : Path) : Proc World Unit :=
  compress_directory env (paths.package_dir spec) destination

/-- The method `InstallPlanAction::version`. -/
def InstallPlanAction.version (config : InstallPlanAction) : Except Failure String :=
  match config.plan_type with
  | InstallPlanType.ALREADY_INSTALLED =>
    match config.installed_package with
    | some ipv => pure ipv.core.version
    | none => throw (Failure.fatal (FatalError.check_failed "InstallPlanAction::version"))
  | InstallPlanType.BUILD_AND_INSTALL =>
    match config.build_action with
    | some scf => pure scf.core_paragraph.version
    | none => throw (Failure.fatal (FatalError.check_failed "InstallPlanAction::version"))
  | _ => throw (Failure.fatal (FatalError.unreachable "InstallPlanAction::version"))

/-- The method `InstallPlanAction::nuget_package_version`. -/
def InstallPlanAction.nuget_package_version (config : InstallPlanAction) :
    Except Failure String := do
  let version ← config.version
  match config.abi with
  | some abi => Vcpkg.nuget_package_version version abi.tag
  | none => throw (Failure.fatal (FatalError.check_failed "nuget_package_version"))

/-- The loop of `build_package` over `dep_pspecs`: the ABI entries of the installed
dependencies and, when the action has an ABI, their NuGet dependency strings. -/
def installed_dependency_abis (config : InstallPlanAction) (status_db : StatusParagraphs) :
    List PackageSpec → List AbiEntry × List String → Except Failure (List AbiEntry × List String)
  | [], st => pure st
  | pspec :: rest, (dependency_abis, nuget_dependency_strings) =>
    if pspec = config.spec then
      installed_dependency_abis config status_db rest (dependency_abis, nuget_dependency_strings)
    else
      match status_db.find_installed pspec with
      | none => throw (Failure.fatal (FatalError.check_failed "build_package"))
      | some status_it => do
        let dependency_abis :=
          dependency_abis ++ [{ key := status_it.core.spec.name, value := status_it.core.abi }]
        let nuget_dependency_strings ←
          if config.abi.isSome then do
            let version ← nuget_package_version status_it.core.version status_it.core.abi
            pure (nuget_dependency_strings ++ [status_it.core.spec.dir ++ " " ++ version])
          else pure nuget_dependency_strings
        installed_dependency_abis config status_db rest
          (dependency_abis, nuget_dependency_strings)

/-- The template `CONTENT_TEMPLATE` of the `.nuspec` file. -/
def CONTENT_TEMPLATE : String :=
  "\n<package>\n    <metadata>\n        <id>@NUGET_ID@</id>\n" ++
  "        <version>@VERSION@</version>\n        <authors>vcpkg</authors>\n" ++
  "        <summary>@SUMMARY@</summary>\n        <description>\n" ++
  "            @DESCRIPTION@\n        </description>\n" ++
  "        <packageTypes><packageType name=\"vcpkg\" /></packageTypes>\n" ++
  "        @METADATA@\n    </metadata>\n    <files>\n" ++
  "        <file src=\"@PACKAGE_DIR@\\**\" target=\"\" />\n    </files>\n</package>\n"

/-- The text of the `.nuspec` file that `build_package` writes. -/
def nuspec_file_content (env : SystemEnv) (scf : SourceControlFile)
    (config : InstallPlanAction) (nuget_id nuget_version : String) (package_dir : Path)
    (nuget_dependency_strings : List String) : String :=
  let nuspec_file_content := env.replace_all CONTENT_TEMPLATE "@NUGET_ID@" nuget_id
  let nuspec_file_content := env.replace_all nuspec_file_content "@VERSION@" nuget_version
  let nuspec_file_content :=
    env.replace_all nuspec_file_content "@PACKAGE_DIR@" package_dir.u8string
  let nuspec_file_content := env.replace_all nuspec_file_content "@SUMMARY@"
    "Binary Cache Package automatically generated by vcpkg. NOT FOR DIRECT USE."
  let text := "Binary Cache Package automatically generated by vcpkg. NOT FOR DIRECT USE.\n\n"
  let text := text ++ scf.core_paragraph.description ++ "\n\n"
  let text := text ++ "Version: " ++ scf.core_paragraph.version ++ "\n"
  let text := text ++ "Features: " ++ Strings.join ", " config.feature_list id ++ "\n"
  let text :=
    if ¬ nuget_dependency_strings = [] then
      nuget_dependency_strings.foldl (fun text dep => text ++ "    " ++ dep ++ "\n")
        (text ++ "\nDependencies:\n")
    else text
  let nuspec_file_content := env.replace_all nuspec_file_content "@DESCRIPTION@" text
  let metadata :=
    if ¬ scf.core_paragraph.homepage = "" then
      "<projectUrl>" ++ scf.core_paragraph.homepage ++ "</projectUrl>"
    else ""
  env.replace_all nuspec_file_content "@METADATA@" metadata

/-- The text `escape(s)` of `build_package`. -/
def escape (s : String) : String := "\"" ++ s ++ "\""

/-- The text `escapep(p)` of `build_package`. -/
def escapep (p : Path) : String := escape p.u8string

/-- The branch of `build_package` that publishes a package to a NuGet feed. -/
def publish_nuget (env : SystemEnv) (paths : VcpkgPaths) (config : InstallPlanAction)
    (scf : SourceControlFile) (feed nuget_id nuget_version : String)
    (package_dir buildtree_dir nuget_archives nuget_archive_path : Path)
    (nuget_dependency_strings : List String) : Proc World Unit := do
  let content := nuspec_file_content env scf config nuget_id nuget_version package_dir
    nuget_dependency_strings
  let nuspec_path := buildtree_dir ++ u8path (nuget_id ++ ".nuspec")
  modify_fs (fun fs => fs.write_contents nuspec_path content)
  let nuget_exe := paths.get_tool_exe "nuget-devops"
  let pack_rc ← cmd_execute_and_capture_output env
    (escapep nuget_exe ++ " pack " ++ escapep nuspec_path ++ " -OutputDirectory " ++
      escapep buildtree_dir ++ " -NoDefaultExcludes -NonInteractive -ForceEnglishOutput")
  if pack_rc.exit_code ≠ 0 then do
    print2 "Packing NuGet failed. Use --debug for more information.\n"
    Debug.print (pack_rc.output ++ "\n")
  else do
    modify_fs (fun fs => fs.create_directories nuget_archives)
    fs_rename (buildtree_dir ++ u8path (nuget_id ++ "." ++ nuget_version ++ ".nupkg"))
      nuget_archive_path
    print2 "Uploading package to NuGet Feed in background.\n"
    let cmdline := escapep nuget_exe ++ " push " ++ escapep nuget_archive_path ++ " -Source " ++
      escape feed ++ " -ApiKey AzureDevOps -NonInteractive -ForceEnglishOutput"
    Jobs.post cmdline ("Uploading " ++ config.spec.to_string ++ " to NuGet Feed")

/-- The branch of `build_package` that stores the built package in the archive. -/
def publish_archive (env : SystemEnv) (paths : VcpkgPaths) (config : InstallPlanAction)
    (buildtree_dir archive_path : Path) : Proc World Unit := do
  let tmp_archive_path := buildtree_dir ++ u8path (config.spec.triplet ++ ".zip")
  compress_archive env paths config.spec tmp_archive_path
  modify_fs (fun fs => fs.create_directories archive_path.parent_path)
  let ec := ((← Proc.get).fs.rename_or_copy tmp_archive_path archive_path).2
  modify_fs (fun fs => (fs.rename_or_copy tmp_archive_path archive_path).1)
  if ec then
    print2 ("Failed to store binary cache " ++ archive_path.u8string ++ "\n")
  else print2 ("Stored binary cache: " ++ archive_path.u8string ++ "\n")

/-- The body of the loop of `build_package` that copies the logs of a failed build. -/
def copy_log_file (tmp_log_path_destination : Path) (log_file : Path) : Proc World Unit :=
  if log_file.extension = ".log" then
    modify_fs (fun fs =>
      (fs.copy_file log_file (tmp_log_path_destination ++ u8path log_file.filename)).1)
  else Proc.pure ()

/-- The branch of `build_package` that stores the logs of a failed build in the tombstone. -/
def publish_tombstone (env : SystemEnv) (config : InstallPlanAction)
    (buildtree_dir archive_tombstone_path : Path) : Proc World Unit := do
  if ¬ (← Proc.get).fs.exists_path archive_tombstone_path then do
    -- Build failed, store all failure logs in the tombstone.
    let tmp_log_path := buildtree_dir ++ u8path "tmp_failure_logs"
    let tmp_log_path_destination := tmp_log_path ++ u8path config.spec.name
    let tmp_failure_zip := buildtree_dir ++ u8path "failure_logs.zip"
    modify_fs (fun fs => fs.create_directories tmp_log_path_destination)
    Proc.for_each ((← Proc.get).fs.get_files_non_recursive buildtree_dir)
      (copy_log_file tmp_log_path_destination)
    compress_directory env tmp_log_path (buildtree_dir ++ u8path "failure_logs.zip")
    modify_fs (fun fs => fs.create_directories archive_tombstone_path.parent_path)
    modify_fs (fun fs => (fs.rename_or_copy tmp_failure_zip archive_tombstone_path).1)
    -- clean up temporary directory
    modify_fs (fun fs => fs.remove_all tmp_log_path)
  else Proc.pure ()

/-- The part of `build_package` after a miss of the caches: the build, and the publication
of its outcome. -/
def build_and_publish (env : SystemEnv) (paths : VcpkgPaths) (config : InstallPlanAction)
    (scf : SourceControlFile) (pre_build_info : PreBuildInfo) (abi_tag_and_file : AbiTagAndFile)
    (nuget_id nuget_version : String)
    (package_dir buildtree_dir nuget_archives nuget_archive_path archive_path
      archive_tombstone_path : Path)
    (nuget_dependency_strings : List String) : Proc World ExtendedBuildResult := do
  let result ← do_build_package_and_clean_buildtrees env paths pre_build_info config
  modify_fs (fun fs =>
    fs.create_directories (package_dir ++ u8path "share" ++ u8path config.spec.name))
  let abi_file_in_package :=
    package_dir ++ u8path "share" ++ u8path config.spec.name ++ u8path "vcpkg_abi_info.txt"
  let ec := ((← Proc.get).fs.copy_file abi_tag_and_file.tag_file abi_file_in_package).2
  modify_fs (fun fs => (fs.copy_file abi_tag_and_file.tag_file abi_file_in_package).1)
  Proc.check_exit (!ec)
    (FatalError.exit_with_message ("Could not copy into file: " ++ abi_file_in_package.u8string))
  if result.code = BuildResult.SUCCEEDED then
    match env.get_environment_variable "VCPKG_BINARYCACHING_FEED" with
    | some feed =>
      publish_nuget env paths config scf feed nuget_id nuget_version package_dir buildtree_dir
        nuget_archives nuget_archive_path nuget_dependency_strings
    | none => publish_archive env paths config buildtree_dir archive_path
  else if result.code = BuildResult.BUILD_FAILED ∨
      result.code = BuildResult.POST_BUILD_CHECKS_FAILED then
    publish_tombstone env config buildtree_dir archive_tombstone_path
  else Proc.pure ()
  Proc.pure result

/-- The block of `build_package` that looks for an unpacked NuGet package in the package
directory: the value of `restored_from_cache` after it. -/
def restore_unpacked_nupkg (nupkg_in_package_dir nuget_archives nuget_archive_path : Path) :
    Proc World Bool := do
  if (← Proc.get).fs.exists_path nupkg_in_package_dir then do
    if (← Proc.get).fs.exists_path nuget_archive_path then
      modify_fs (fun fs => fs.remove nupkg_in_package_dir)
    else do
      modify_fs (fun fs => fs.create_directories nuget_archives)
      fs_rename nupkg_in_package_dir nuget_archive_path
    print2 "Using unpacked NuGet package\n"
    Proc.pure true
  else Proc.pure false

/-- The block `if (!restored_from_cache)` of `build_package` that looks for the archive:
the value of `restored_from_cache` after it. -/
def restore_archive (env : SystemEnv) (paths : VcpkgPaths) (config : InstallPlanAction)
    (archive_path : Path) (restored_from_cache : Bool) : Proc World Bool := do
  if ¬ restored_from_cache = true then
    if (← Proc.get).fs.exists_path archive_path then do
      print2 ("Using cached binary package: " ++ archive_path.u8string ++ "\n")
      decompress_archive env paths config.spec archive_path
      Proc.pure true
    else Proc.pure restored_from_cache
  else Proc.pure restored_from_cache

/-- The part of `build_package` for an action with an ABI tag: the look-up in the caches,
the tombstone, and the build. -/
def build_package_with_abi (env : SystemEnv) (paths : VcpkgPaths) (config : InstallPlanAction)
    (scf : SourceControlFile) (pre_build_info : PreBuildInfo) (abi_tag_and_file : AbiTagAndFile)
    (nuget_dependency_strings : List String) : Proc World ExtendedBuildResult := do
  let buildtree_dir := paths.buildtrees ++ u8path config.spec.name
  let package_dir := paths.package_dir config.spec
  -- First, check local nuget archives
  let nuget_archives := paths.root ++ u8path "archives.nuget"
  let nuget_id := config.spec.dir
  let nuget_version ← Proc.of_except config.nuget_package_version
  let nuget_name := nuget_id ++ "." ++ nuget_version ++ ".nupkg"
  let nuget_archive_path := nuget_archives ++ u8path nuget_name
  let nupkg_in_package_dir := package_dir ++ u8path (nuget_id ++ ".nupkg")
  let restored_from_cache ← restore_unpacked_nupkg nupkg_in_package_dir nuget_archives
    nuget_archive_path
  let archive_path := archive_path paths abi_tag_and_file.tag
  let archive_tombstone_path := archive_tombstone_path paths abi_tag_and_file.tag
  let restored_from_cache ← restore_archive env paths config archive_path restored_from_cache
  if restored_from_cache = true then
    match env.try_load_cached_package (← Proc.get).fs config.spec with
    | some bcf =>
      Proc.pure { code := BuildResult.SUCCEEDED, binary_control_file := some bcf }
    | none => Proc.exit (FatalError.check_failed "build_package")
  else do
    -- Failed to restore from any cache options
    let tombstone := (← Proc.get).fs.exists_path archive_tombstone_path
    if tombstone = true ∧ config.build_options.fail_on_tombstone = FailOnTombstone.YES then do
      print2 ("Found failure tombstone: " ++ archive_tombstone_path.u8string ++ "\n")
      Proc.pure { code := BuildResult.BUILD_FAILED }
    else do
      (if tombstone = true then
        print2 ("Found failure tombstone: " ++ archive_tombstone_path.u8string ++ "\n")
      else Proc.pure ())
      print2 ("Could not locate cached archive: " ++ archive_path.u8string ++ "\n")
      build_and_publish env paths config scf pre_build_info abi_tag_and_file nuget_id
        nuget_version package_dir buildtree_dir nuget_archives nuget_archive_path archive_path
        archive_tombstone_path nuget_dependency_strings

/-- The function `build_package(paths, config, status_db)`. -/
def build_package (env : SystemEnv) (paths : VcpkgPaths) (config : InstallPlanAction)
    (status_db : StatusParagraphs) : Proc World ExtendedBuildResult := do
  let scf ← match config.build_action with
    | some scf => Proc.pure scf
    | none => Proc.exit (FatalError.check_failed "build_package")
  let name := scf.core_paragraph.name
  let required_fspecs ← Proc.of_except
    (compute_required_feature_specs env scf config.spec.triplet config.feature_list status_db)
  -- extract out the actual package ids
  let dep_pspecs := sort_unique_erase (required_fspecs.map FeatureSpec.spec)
  -- Find all features that aren't installed. This mutates required_fspecs.
  let required_fspecs := required_fspecs.filter (fun fspec =>
    !(status_db.is_installed fspec || decide (fspec.name = name)))
  if ¬ required_fspecs = [] then
    Proc.pure { code := BuildResult.CASCADED_DUE_TO_MISSING_DEPENDENCIES
                unmet_dependencies := required_fspecs }
  else do
    let abis ← Proc.of_except (installed_dependency_abis config status_db dep_pspecs ([], []))
    let pre_build_info ← PreBuildInfo.from_triplet_file env paths config.spec.triplet
    match config.abi with
    | some abi_tag_and_file =>
      build_package_with_abi env paths config scf pre_build_info abi_tag_and_file abis.2
    | none => do_build_package_and_clean_buildtrees env paths pre_build_info config

/-! ### The ABI tags of a plan -/

/-- The lambda of `compute_all_abi_tags` that makes the ABI entry of a dependency. -/
def dependency_abi_entry (abi_tag_map : List (PackageSpec × String))
    (status_db : StatusParagraphs) (spec : PackageSpec) : AbiEntry :=
  match AssocMap.find abi_tag_map spec with
  | none =>
    let abi :=
      match status_db.find spec with
      | some it2 => it2.core.abi
      | none => ""
    { key := spec.name, value := abi }
  | some tag => { key := spec.name, value := tag }

/-- The call `pre_build_info_cache.get_lazy(triplet, ...)` of `compute_all_abi_tags`: the
settings of the triplet, read from the triplet file when the cache does not have them. -/
def get_lazy_pre_build_info (env : SystemEnv) (paths : VcpkgPaths)
    (pre_build_info_cache : List (Triplet × PreBuildInfo)) (triplet : Triplet) :
    Proc World (PreBuildInfo × List (Triplet × PreBuildInfo)) :=
  match AssocMap.find pre_build_info_cache triplet with
  | some pre_build_info => Proc.pure (pre_build_info, pre_build_info_cache)
  | none => do
    let pre_build_info ← PreBuildInfo.from_triplet_file env paths triplet
    Proc.pure (pre_build_info, AssocMap.emplace pre_build_info_cache triplet pre_build_info)

/-- The call of `compute_abi_tag` on the file system of the world. -/
def compute_abi_tag_proc (env : SystemEnv) (paths : VcpkgPaths) (config : InstallPlanAction)
    (pre_build_info : PreBuildInfo) (dependency_abis : List AbiEntry) :
    Proc World (Option AbiTagAndFile) := fun w =>
  match compute_abi_tag env.toBuildEnv paths w.fs config pre_build_info dependency_abis with
  | Except.ok (abi, fs) => (Except.ok abi, { w with fs := fs })
  | Except.error e => (Except.error e, w)

/-- The maps `compute_all_abi_tags` updates: `abi_tag_map` and `pre_build_info_cache`. -/
structure AbiTagMaps where
  abi_tag_map : List (PackageSpec × String) := []
  pre_build_info_cache : List (Triplet × PreBuildInfo) := []
deriving DecidableEq, Repr

/-- The body of the loop of `compute_all_abi_tags`: the action and the maps after the
iteration. -/
def compute_all_abi_tags_step (env : SystemEnv) (paths : VcpkgPaths)
    (status_db : StatusParagraphs) (maps : AbiTagMaps) (action : AnyAction) :
    Proc World (AnyAction × AbiTagMaps) :=
  match action with
  | AnyAction.install_action p =>
    -- determine abi tag
    match p.build_action with
    | some _ => do
      let triplet := p.spec.triplet
      let dependency_abis :=
        p.computed_dependencies.map (dependency_abi_entry maps.abi_tag_map status_db)
      let (pre_build_info, cache) ←
        get_lazy_pre_build_info env paths maps.pre_build_info_cache triplet
      let abi ← compute_abi_tag_proc env paths p pre_build_info dependency_abis
      let abi_tag_map :=
        match abi with
        | some tag_and_file => AssocMap.emplace maps.abi_tag_map p.spec tag_and_file.tag
        | none => maps.abi_tag_map
      Proc.pure (AnyAction.install_action { p with abi := abi },
        { abi_tag_map := abi_tag_map, pre_build_info_cache := cache })
    | none =>
      match p.installed_package with
      | some ipv =>
        Proc.pure (action,
          { maps with abi_tag_map := AssocMap.emplace maps.abi_tag_map p.spec ipv.core.abi })
      | none => Proc.pure (action, maps)
  | AnyAction.remove_action _ => Proc.pure (action, maps)

/-- The function `compute_all_abi_tags(paths, abi_tag_map, pre_build_info_cache, action_plan,
status_db)`: the plan with the ABI of its actions filled in, and the two maps. -/
def compute_all_abi_tags (env : SystemEnv) (paths : VcpkgPaths) (status_db : StatusParagraphs) :
    List AnyAction → AbiTagMaps → Proc World (List AnyAction × AbiTagMaps)
  | [], maps => Proc.pure ([], maps)
  | action :: rest, maps => do
    let (action, maps) ← compute_all_abi_tags_step env paths status_db maps action
    let (rest, maps) ← compute_all_abi_tags env paths status_db rest maps
    Proc.pure (action :: rest, maps)

end Vcpkg

namespace Vcpkg

/-! ## Further properties of the marked state -/

/-- The conjunction of two specifications of the marking procedures. -/
def MarkingSpec.both (S T : MarkingSpec) : MarkingSpec where
  mark_plus := fun f c st r st' => S.mark_plus f c st r st' ∧ T.mark_plus f c st r st'
  mark_minus := fun c st st' => S.mark_minus c st st' ∧ T.mark_minus c st st'
  follow_plus_dependencies := fun f c st r st' =>
    S.follow_plus_dependencies f c st r st' ∧ T.follow_plus_dependencies f c st r st'

/-- The cluster of the spec has a source half: its package has a port. -/
def PlanState.Sourced (env : Env) (st : PlanState) (c : PackageSpec) : Prop :=
  ∃ src, (st.cluster env c).source = some src

/-- The edge `u → d` of the install graph comes from a build edge of a feature to install of
`u`, and is not an edge from `u` to itself. -/
def PlanState.EdgeDeclared (env : Env) (st : PlanState) (u d : PackageSpec) : Prop :=
  d ≠ u ∧ ∃ (f : String) (src : ClusterSource) (es : List FeatureSpec) (x : FeatureSpec),
    f ∈ (st.cluster env u).to_install_features ∧ (st.cluster env u).source = some src ∧
    AssocMap.find src.build_edges f = some es ∧ x ∈ es ∧ x.spec = d

/-- Every cluster the marking has reached has a source half: the clusters with a plus
mark or the minus mark, the ends of the edges of the install graph, and the vertices of the
remove graph other than the `pending` ones; and every edge of the install graph comes from
a build edge. -/
def PlanState.Reached (env : Env) (pending : PackageSpec → Prop) (st : PlanState) : Prop :=
  (∀ c f, (st.cluster env c).plus_of f = true → st.Sourced env c) ∧
  (∀ c, (st.cluster env c).minus = true → st.Sourced env c) ∧
  (∀ u d, d ∈ st.graph_plan.install_graph.adjacency_list u →
    st.Sourced env d ∧ st.EdgeDeclared env u d) ∧
  (∀ v, v ∈ st.graph_plan.remove_graph.vertex_list → ¬ pending v → st.Sourced env v)

/-- The marking procedures keep `Reached`; `mark_minus` is also called for a vertex of the
remove graph whose source half is still to be checked. -/
def reached_spec (env : Env) : MarkingSpec where
  mark_plus := fun _ _ st _ st' =>
    st.Reached env (fun _ => False) → st'.Reached env (fun _ => False)
  mark_minus := fun c0 st st' =>
    st.Reached env (fun v => v = c0) → st'.Reached env (fun _ => False)
  follow_plus_dependencies := fun _ _ st _ st' =>
    st.Reached env (fun _ => False) → st'.Reached env (fun _ => False)

/-- The build edges of the feature `f` of the cluster `u` are all in the install graph,
but for those to `u` itself. -/
def PlanState.EdgesDone (env : Env) (st : PlanState) (u : PackageSpec) (f : String) : Prop :=
  ∀ src es, (st.cluster env u).source = some src →
    AssocMap.find src.build_edges f = some es →
      ∀ x ∈ es, x.spec ≠ u → x.spec ∈ st.graph_plan.install_graph.adjacency_list u

/-- The build edges of every feature to install are in the install graph, but for the
features `pending`, whose edges are being followed. -/
def PlanState.EdgesClosed (env : Env) (pending : PackageSpec → String → Prop)
    (st : PlanState) : Prop :=
  ∀ u f, f ∈ (st.cluster env u).to_install_features → ¬ pending u f → st.EdgesDone env u f

/-- No edge of the install graph is lost. -/
def EdgesKept (st st' : PlanState) : Prop :=
  ∀ u d, d ∈ st.graph_plan.install_graph.adjacency_list u →
    d ∈ st'.graph_plan.install_graph.adjacency_list u

/-- The specification that relates the states before and after every call by `R`. -/
def MarkingSpec.rel (R : PlanState → PlanState → Prop) : MarkingSpec where
  mark_plus := fun _ _ st _ st' => R st st'
  mark_minus := fun _ st st' => R st st'
  follow_plus_dependencies := fun _ _ st _ st' => R st st'

/-- From `st` to `st'` the source halves stay, no edge of the install graph is lost, and
`EdgesClosed` is kept, whatever features are pending. -/
def EdgesRel (env : Env) (st st' : PlanState) : Prop :=
  (∀ c, (st'.cluster env c).source = (st.cluster env c).source) ∧ EdgesKept st st' ∧
  ∀ pending, st.EdgesClosed env pending → st'.EdgesClosed env pending

/-- From `st` to `st'` the installed halves stay, no minus mark is lost, and no vertex and
no edge of the remove graph is lost. -/
def RemoveKept (env : Env) (st st' : PlanState) : Prop :=
  (∀ c, (st'.cluster env c).installed = (st.cluster env c).installed) ∧
  (∀ c, (st.cluster env c).minus = true → (st'.cluster env c).minus = true) ∧
  (∀ v, v ∈ st.graph_plan.remove_graph.vertex_list →
    v ∈ st'.graph_plan.remove_graph.vertex_list) ∧
  (∀ u d, d ∈ st.graph_plan.remove_graph.adjacency_list u →
    d ∈ st'.graph_plan.remove_graph.adjacency_list u)

/-- Every vertex of the remove graph is marked minus, but for the vertices `pendV` whose
call of `mark_minus` is still to come; and every installed cluster that is marked minus is
a vertex of the remove graph with an edge to each of its remove edges, but for the clusters
`pendM` whose call of `mark_minus` is still running. -/
def PlanState.RemoveClosed (env : Env) (pendV pendM : PackageSpec → Prop)
    (st : PlanState) : Prop :=
  (∀ v, v ∈ st.graph_plan.remove_graph.vertex_list → ¬ pendV v →
    (st.cluster env v).minus = true) ∧
  (∀ v i, (st.cluster env v).minus = true → (st.cluster env v).installed = some i →
    ¬ pendM v →
      v ∈ st.graph_plan.remove_graph.vertex_list ∧
      ∀ e ∈ i.remove_edges,
        e ∈ st.graph_plan.remove_graph.adjacency_list v ∧
        e ∈ st.graph_plan.remove_graph.vertex_list)

/-- From `st` to `st'` nothing of the remove graph is lost and `RemoveClosed` is kept. -/
def RemoveRel (env : Env) (st st' : PlanState) : Prop :=
  RemoveKept env st st' ∧
  ∀ pendV pendM, st.RemoveClosed env pendV pendM → st'.RemoveClosed env pendV pendM

/-- The marking procedures keep `RemoveClosed`; `mark_minus` sees to the vertex it is
called for. -/
def remove_closed_spec (env : Env) : MarkingSpec where
  mark_plus := fun _ _ st _ st' => RemoveRel env st st'
  mark_minus := fun c0 st st' =>
    RemoveKept env st st' ∧
    ∀ pendV pendM, st.RemoveClosed env pendV pendM →
      st'.RemoveClosed env (fun v => pendV v ∧ v ≠ c0) pendM
  follow_plus_dependencies := fun _ _ st _ st' => RemoveRel env st st'

/-- Every cluster with a feature to install is a vertex of the install graph. -/
def PlanState.InstallListed (env : Env) (st : PlanState) : Prop :=
  ∀ c f, f ∈ (st.cluster env c).to_install_features →
    c ∈ st.graph_plan.install_graph.vertex_list

/-- Every vertex of the remove graph is an installed package, and so is every remove edge
of an installed package. -/
def PlanState.RemoveInstalled (env : Env) (st : PlanState) : Prop :=
  (∀ v, v ∈ st.graph_plan.remove_graph.vertex_list → (st.cluster env v).installed ≠ none) ∧
  (∀ v i, (st.cluster env v).installed = some i →
    ∀ e ∈ i.remove_edges, (st.cluster env e).installed ≠ none)

/-- From `st` to `st'` the installed halves stay and `RemoveInstalled` is kept. -/
def RemoveInstalledRel (env : Env) (st st' : PlanState) : Prop :=
  (∀ c, (st'.cluster env c).installed = (st.cluster env c).installed) ∧
  (st.RemoveInstalled env → st'.RemoveInstalled env)

/-- The feature `f` is unknown for the package `P`: it is none of "", "*" and "core", the
port of `P`, when there is one, has no build edges for it and does not name it as a feature
paragraph or as a default feature, and `P` is not installed with it. -/
def PlanState.Unknown (env : Env) (P : PackageSpec) (f : String) (st : PlanState) : Prop :=
  f ≠ "" ∧ f ≠ "*" ∧ f ≠ "core" ∧
  (∀ src, (st.cluster env P).source = some src →
    AssocMap.find src.build_edges f = none ∧
    f ∉ src.scf.core_paragraph.default_features ∧
    ∀ fp ∈ src.scf.feature_paragraphs, fp.name ≠ f) ∧
  f ∉ (st.cluster env P).original

/-- While the unknown feature `f` of `P` has no plus mark, no marking procedure sets it and
returns `SUCCESS`: `mark_plus(f, P)` and `follow_plus_dependencies(f, P)` return
`FEATURE_NOT_FOUND`, and every other call leaves the feature without the mark. -/
def unknown_feature_spec (env : Env) (P : PackageSpec) (f : String) : MarkingSpec where
  mark_plus := fun g c st r st' =>
    st.Unknown env P f → (st.cluster env P).plus_of f = false →
      ((c = P ∧ g = f) → r = MarkPlusResult.FEATURE_NOT_FOUND) ∧
      (¬ (c = P ∧ g = f) → (st'.cluster env P).plus_of f = false)
  mark_minus := fun _ st st' =>
    st.Unknown env P f → (st.cluster env P).plus_of f = false →
      (st'.cluster env P).plus_of f = false
  follow_plus_dependencies := fun g c st r st' =>
    st.Unknown env P f →
      ((c = P ∧ g = f) → r = MarkPlusResult.FEATURE_NOT_FOUND) ∧
      ((st.cluster env P).plus_of f = false → (st'.cluster env P).plus_of f = false)

/-! ## Termination of the marking -/

/-- The procedure does not run out of recursion depth from `st`, and whenever it returns,
the result and the final state satisfy `Q`. -/
def twp {α : Type} (m : Planner α) (Q : α → PlanState → Prop) (st : PlanState) : Prop :=
  m.run st ≠ Except.error Failure.out_of_fuel ∧ wp m Q st

/-- From `st` to `st'` the source and installed halves of the clusters stay and no mark is
lost. -/
def Grow (env : Env) (st st' : PlanState) : Prop :=
  (∀ c, (st'.cluster env c).source = (st.cluster env c).source) ∧
  (∀ c, (st'.cluster env c).installed = (st.cluster env c).installed) ∧
  (∀ c f, (st.cluster env c).plus_of f = true → (st'.cluster env c).plus_of f = true) ∧
  (∀ c, (st.cluster env c).minus = true → (st'.cluster env c).minus = true)

/-- The number of marks of the universe `U` that are not set: the plus marks of its
feature specs and the minus marks of their clusters. -/
def PlanState.marks_left (env : Env) (U : List FeatureSpec) (st : PlanState) : Nat :=
  U.countP (fun x => !(st.cluster env x.spec).plus_of x.feature) +
    U.countP (fun x => !(st.cluster env x.spec).minus)

/-- Whether the finite universe `U` of feature specs is closed under the calls that the
marking procedures make: for every cluster of `U` with a port, "core", the default feature
set, every default feature, every feature paragraph and every build edge of the port are in
`U`; for every installed cluster of `U`, the core of every remove edge and every original
feature are in `U`. -/
def PlanState.universe_closed (env : Env) (U : List FeatureSpec) (st : PlanState) : Bool :=
  U.all (fun x =>
    (match (st.cluster env x.spec).source with
      | none => true
      | some src =>
        decide ((⟨x.spec, "core"⟩ : FeatureSpec) ∈ U) &&
        decide ((⟨x.spec, ""⟩ : FeatureSpec) ∈ U) &&
        src.scf.core_paragraph.default_features.all
          (fun d => decide ((⟨x.spec, d⟩ : FeatureSpec) ∈ U)) &&
        src.scf.feature_paragraphs.all
          (fun fp => decide ((⟨x.spec, fp.name⟩ : FeatureSpec) ∈ U)) &&
        src.build_edges.all (fun p => p.2.all (fun y => decide (y ∈ U)))) &&
    (match (st.cluster env x.spec).installed with
      | none => true
      | some i =>
        i.remove_edges.all (fun e => decide ((⟨e, "core"⟩ : FeatureSpec) ∈ U)) &&
        i.original_features.all (fun f => decide ((⟨x.spec, f⟩ : FeatureSpec) ∈ U))))

/-- What is assumed of a callee at the recursion depth `n`: from a state in which the
universe is closed, a call for a feature spec of the universe does not run out of
recursion depth when `n` is more than twice the number of marks left (at least twice that
number plus two for `follow_plus_dependencies`). -/
def Marking.Terminates (callee : Marking) (env : Env) (U : List FeatureSpec) (n : Nat) :
    Prop :=
  ∀ st : PlanState, st.universe_closed env U = true → ∀ x ∈ U,
    (2 * st.marks_left env U + 1 ≤ n →
      (callee.mark_plus x.feature x.spec).run st ≠ Except.error Failure.out_of_fuel) ∧
    (2 * st.marks_left env U + 1 ≤ n →
      (callee.mark_minus x.spec).run st ≠ Except.error Failure.out_of_fuel) ∧
    (2 * st.marks_left env U + 2 ≤ n →
      (callee.follow_plus_dependencies x.feature x.spec).run st ≠
        Except.error Failure.out_of_fuel)

/-! ## Further example scenarios -/

/-- A catalog with a port `a` whose core depends on the port `b`, which has a feature `x`. -/
def abx_env : Env :=
  catalog_env [("a", make_port "a" ["b"] [] []), ("b", make_port "b" [] [] [("x", [])])]

/-- The remove action for `a` in the plan for `b[x]` when `a` and `b` are installed. -/
def abx_remove_a : RemovePlanAction :=
  { spec := ⟨"a", x64_linux⟩
    plan_type := RemovePlanType.REMOVE
    request_type := RequestType.AUTO_SELECTED }

/-- The remove action for `b` in the plan for `b[x]` when `a` and `b` are installed. -/
def abx_remove_b : RemovePlanAction :=
  { spec := ⟨"b", x64_linux⟩
    plan_type := RemovePlanType.REMOVE
    request_type := RequestType.USER_REQUESTED }

/-- The install action for `b` in the plan for `b[x]` when `a` and `b` are installed. -/
def abx_install_b : InstallPlanAction :=
  { spec := ⟨"b", x64_linux⟩
    feature_list := ["core", "x"]
    computed_dependencies := []
    plan_type := InstallPlanType.BUILD_AND_INSTALL
    request_type := RequestType.USER_REQUESTED
    build_action := some (make_port "b" [] [] [("x", [])])
    installed_package := none }

/-- The install action for `a` in the plan for `b[x]` when `a` and `b` are installed. -/
def abx_install_a : InstallPlanAction :=
  { spec := ⟨"a", x64_linux⟩
    feature_list := ["core"]
    computed_dependencies := [⟨"b", x64_linux⟩]
    plan_type := InstallPlanType.BUILD_AND_INSTALL
    request_type := RequestType.AUTO_SELECTED
    build_action := some (make_port "a" ["b"] [] [])
    installed_package := none }

/-- The plan for `b[x]` when `a` and `b` are installed and `a` depends on `b`: both are
removed, the dependent first, and both are built again. -/
def abx_plan : List AnyAction :=
  [AnyAction.remove_action abx_remove_a, AnyAction.remove_action abx_remove_b,
    AnyAction.install_action abx_install_b, AnyAction.install_action abx_install_a]

/-- A second triplet for the examples. -/
def x86_windows : Triplet := "x86-windows"

/-- The port `foo` with the feature `h`, whose default feature `g` has no feature
paragraph. -/
def fg_port : SourceControlFile := make_port "foo" [] ["g"] [("h", [])]

/-- A catalog with the port `fg_port` only. -/
def fg_env : Env := catalog_env [("foo", fg_port)]

/-- A status database in which `foo` is installed with its core only. -/
def fg_status_db : StatusParagraphs := [make_installed "foo" x64_linux [] [] []]

/-- The plan for `foo[h]` and `foo[g]` when `foo` is installed: `foo` is rebuilt with the
features `core` and `h`. -/
def fg_plan : List AnyAction :=
  [AnyAction.remove_action
      { spec := ⟨"foo", x64_linux⟩
        plan_type := RemovePlanType.REMOVE
        request_type := RequestType.USER_REQUESTED },
    AnyAction.install_action
      { spec := ⟨"foo", x64_linux⟩
        feature_list := ["core", "h"]
        computed_dependencies := []
        plan_type := InstallPlanType.BUILD_AND_INSTALL
        request_type := RequestType.USER_REQUESTED
        build_action := some fg_port
        installed_package := none }]

/-- The plan for the defaulted `foo:x64-linux` and `foo[core]:x86-windows` on an empty
installation: the only action is for `foo:x86-windows`. -/
def fg_cross_plan : List AnyAction :=
  [AnyAction.install_action
      { spec := ⟨"foo", x86_windows⟩
        feature_list := ["core"]
        computed_dependencies := []
        plan_type := InstallPlanType.BUILD_AND_INSTALL
        request_type := RequestType.USER_REQUESTED
        build_action := some fg_port
        installed_package := none }]

/-- A catalog in which the cores of the ports `a` and `b` depend on each other. -/
def cyc_env : Env :=
  catalog_env [("a", make_port "a" ["b"] [] []), ("b", make_port "b" ["a"] [] [])]

/-- The feature specs that the marking of `a[core]` can reach in `cyc_env`. -/
def cyc_universe : List FeatureSpec :=
  [⟨⟨"a", x64_linux⟩, "core"⟩, ⟨⟨"a", x64_linux⟩, ""⟩,
    ⟨⟨"b", x64_linux⟩, "core"⟩, ⟨⟨"b", x64_linux⟩, ""⟩]

/-- The port `foo` with the features `keep` and `new`; it has no feature `old`. -/
def drift_port : SourceControlFile := make_port "foo" [] [] [("keep", []), ("new", [])]

/-- The catalog of the scenario "drifted feature". -/
def drift_env : Env := catalog_env [("foo", drift_port)]

/-- The package `foo` installed with the features `keep` and `old`. -/
def drift_installed : InstalledPackageView := make_installed "foo" x64_linux ["keep", "old"] [] []

/-- A status database in which `foo` is installed with the features `keep` and `old`. -/
def drift_status_db : StatusParagraphs := [drift_installed]

/-- The plan of the scenario "drifted feature" for the input `foo[new]`. -/
def drift_plan : List AnyAction :=
  [AnyAction.remove_action
      { spec := ⟨"foo", x64_linux⟩
        plan_type := RemovePlanType.REMOVE
        request_type := RequestType.USER_REQUESTED },
    AnyAction.install_action
      { spec := ⟨"foo", x64_linux⟩
        feature_list := ["core", "keep", "new"]
        computed_dependencies := []
        plan_type := InstallPlanType.BUILD_AND_INSTALL
        request_type := RequestType.USER_REQUESTED
        build_action := some drift_port
        installed_package := none }]

/-- The port `foo` whose feature `new` depends on `baz`. -/
def drift_baz_port : SourceControlFile := make_port "foo" [] [] [("keep", []), ("new", ["baz"])]

/-- The catalog of the scenario "drifted feature" in which the feature `new` depends on
`baz`, a package without a port. -/
def drift_baz_env : Env := catalog_env [("foo", drift_baz_port)]

/-- Every feature to install of a cluster has build edges in the port of the cluster. -/
def PlanState.FeaturesDeclared (env : Env) (st : PlanState) : Prop :=
  ∀ c f, f ∈ (st.cluster env c).to_install_features → (st.cluster env c).declares f

/-- From `st` to `st'` the source halves stay and `FeaturesDeclared` is kept. -/
def DeclaredRel (env : Env) (st st' : PlanState) : Prop :=
  (∀ c, (st'.cluster env c).source = (st.cluster env c).source) ∧
  (st.FeaturesDeclared env → st'.FeaturesDeclared env)

/-- The state in which `mark_plus("zzz", foo)` returns when called on an empty graph. -/
def fg_unknown_marked : PlanState :=
  match (mark_plus fg_env [] 10 "zzz" ⟨"foo", x64_linux⟩).run {} with
  | Except.ok (_, st) => st
  | Except.error _ => {}

end Vcpkg

namespace Vcpkg

/-! ## Notions and scenarios for the build orchestrator -/

/-- Whenever the procedure returns from the state `s`, its result and the state it leaves
satisfy `Q`. -/
def Proc.post {σ α : Type} (p : Proc σ α) (Q : α → σ → Prop) (s : σ) : Prop :=
  ∀ a s', p s = (Except.ok a, s') → Q a s'

/-- The procedure keeps the property `I` of the state, whether it returns or exits. -/
def Proc.Keeps {σ α : Type} (I : σ → Prop) (p : Proc σ α) : Prop :=
  ∀ s, I s → I (p s).2

/-- The code of a result of `do_build_package`: one of `SUCCEEDED`, `BUILD_FAILED` and
`POST_BUILD_CHECKS_FAILED`. -/
def BuildResult.IsBuildOutcome (code : BuildResult) : Prop :=
  code = BuildResult.SUCCEEDED ∨ code = BuildResult.BUILD_FAILED ∨
    code = BuildResult.POST_BUILD_CHECKS_FAILED

/-- The feature specs of `compute_required_feature_specs` that `build_package` finds unmet:
those that are not installed and do not name the package being built. -/
def unmet_feature_specs (status_db : StatusParagraphs) (name : String)
    (required_fspecs : List FeatureSpec) : List FeatureSpec :=
  required_fspecs.filter (fun fspec =>
    !(status_db.is_installed fspec || decide (fspec.name = name)))

/-- The command line is among those that were run. -/
def World.ran (cmd_line : String) (w : World) : Prop := cmd_line ∈ w.commands

/-- The command line with which `decompress_archive` unpacks an archive. -/
def unzip_command (paths : VcpkgPaths) (spec : PackageSpec) (archive_path : Path) : String :=
  "unzip -qq \"" ++ archive_path.u8string ++ "\" \"-d" ++ (paths.package_dir spec).u8string ++
    "\""

/-- The command line with which `PreBuildInfo::from_triplet_file` inspects a triplet. -/
def triplet_inspection_command (env : SystemEnv) (paths : VcpkgPaths) (triplet : Triplet) :
    String :=
  env.make_cmake_cmd (paths.get_tool_exe Tools.CMAKE)
    (paths.scripts ++ u8path "get_triplet_environment.cmake")
    [("CMAKE_TRIPLET_FILE", (paths.triplets ++ u8path (triplet ++ ".cmake")).u8string)]

/-- A splitting of a text at a character: the parts between the occurrences of the
character, without a part after the last occurrence when nothing follows it; `cur` is the
part read so far, in reverse. -/
def split_on_char (d : Char) : List Char → List Char → List String
  | cur, [] => if cur = [] then [] else [String.mk cur.reverse]
  | cur, c :: cs =>
    if c = d then String.mk cur.reverse :: split_on_char d [] cs
    else split_on_char d (c :: cur) cs

/-- The splitting of the scenarios, for a delimiter of one character. -/
def scenario_split (s delimiter : String) : List String :=
  match delimiter.data with
  | [d] => split_on_char d [] s.data
  | _ => [s]

/-- The command line the scenarios make of a script and its variables. -/
def scenario_make_cmake_cmd (cmake_exe cmake_script : Path)
    (pass_variables : List (String × String)) : String :=
  cmake_exe.u8string ++ " " ++
    Strings.join " " pass_variables (fun v => "-D" ++ v.1 ++ "=" ++ v.2) ++ " -P " ++
    cmake_script.u8string

/-- The paths of the scenarios of the build. -/
def build_paths : VcpkgPaths :=
  { scenario_paths with
    packages := ["vcpkg", "packages"]
    downloads := ["vcpkg", "downloads"]
    triplets := ["vcpkg", "triplets"]
    ports_cmake := ["vcpkg", "scripts", "ports.cmake"]
    package_dir := fun spec => ["vcpkg", "packages", spec.dir]
    build_info_file_path := fun spec => ["vcpkg", "packages", spec.dir, "BUILD_INFO"]
    get_tool_exe := fun tool => [tool] }

/-- The command line of the triplet inspection in the scenarios. -/
def inspect_command : String :=
  "cmake -DCMAKE_TRIPLET_FILE=vcpkg/triplets/x64-linux.cmake -P " ++
    "vcpkg/scripts/get_triplet_environment.cmake"

/-- The output of the triplet inspection in the scenarios: two lines of noise, the flag, and
the settings of a Linux triplet. -/
def inspect_output : String :=
  "-- noise\nBAD=1=2\n" ++ FLAG_GUID ++ "\nVCPKG_TARGET_ARCHITECTURE=x64\n" ++
    "VCPKG_CMAKE_SYSTEM_NAME=Linux\nVCPKG_PLATFORM_TOOLSET=\n"

/-- The control file that is in the archives of the scenarios. -/
def cached_bcf : BinaryControlFile :=
  { core_paragraph :=
      { spec := ⟨"curl", x64_linux⟩, version := "1.0", feature := "", default_features := []
        depends := ["zlib"], abi := "cached" } }

/-- The processes of the scenarios: the triplet inspection prints `inspect_output`; `unzip`
leaves a control file in the package directory of `curl`; the build tool, which is every
other command, fails with the exit code 1. -/
def scenario_run (cmd_line : String) (fs : Filesystem) : ProcessResult :=
  if cmd_line = inspect_command then { exit_code := 0, output := inspect_output, fs := fs }
  else if "unzip".data.isPrefixOf cmd_line.data then
    { exit_code := 0
      fs := fs.write_contents ["vcpkg", "packages", "curl_x64-linux", "CONTROL"] "cached" }
  else { exit_code := 1, fs := fs }

/-- The helpers of the scenarios of the build: a paragraph is in error when a required field
is missing or a field is left, the comparison without regard to case is the comparison of
the texts (the scenarios use lower case), and dependencies are not filtered by platform. -/
def scenario_system_env : SystemEnv :=
  { scenario_build_env with
    split := scenario_split
    case_insensitive_ascii_equals := fun a b => decide (a = b)
    replace_all := fun s _ _ => s
    error_info := fun parser _ => !parser.fields.isEmpty || !parser.missing_fields.isEmpty
    run := scenario_run
    get_environment_variable := fun _ => none
    make_cmake_cmd := scenario_make_cmake_cmd
    get_single_paragraph := fun _ _ => none
    perform_all_checks := fun _ _ _ _ => 0
    try_load_cached_package := fun fs spec =>
      if fs.read_contents ["vcpkg", "packages", spec.dir, "CONTROL"] = some "cached" then
        some cached_bcf
      else none
    serialize := fun pgh => pgh.spec.name
    filter_dependencies := fun depends _ => depends
    from_strings_and_triplet := fun depends t => depends.flatMap (parse_depend t)
    feature_spec_less := fun a b =>
      PackageSpec.less a.spec b.spec || (decide (a.spec = b.spec) && string_less a.feature b.feature)
    stoi := fun _ => 1
    get_num_logical_cores := 1
    to_cpu_architecture := fun _ => none
    get_supported_host_architectures := []
    g_debugging := false }

/-- The action of the scenarios of the build: build `curl[core,ssl]` with the ABI tag
`abcdef`. -/
def curl_build_action : InstallPlanAction :=
  { scenario_action with
    abi := some { tag := "abcdef"
                  tag_file := ["vcpkg", "buildtrees", "curl", "x64-linux.vcpkg_abi_info.txt"] } }

/-- A status database with the two dependencies of `curl[core,ssl]` installed. -/
def curl_deps_status_db : StatusParagraphs :=
  [make_installed "openssl" x64_linux [] [] [], make_installed "zlib" x64_linux [] [] []]

/-- A status database with `zlib` installed and `openssl` not. -/
def zlib_only_status_db : StatusParagraphs := [make_installed "zlib" x64_linux [] [] []]

/-- A world in which the archive of the ABI tag `abcdef` is in the binary cache. -/
def cache_hit_world : World :=
  { fs := [{ path := ["vcpkg", "archives", "ab", "abcdef.zip"], type := FileType.regular,
             contents := "zip" }] }

/-- A world in which the tombstone of the ABI tag `abcdef` is in the binary cache, and the
file of the ABI in the build tree. -/
def tombstone_world : World :=
  { fs := [{ path := ["vcpkg", "archives", "fail", "ab", "abcdef.zip"],
             type := FileType.regular, contents := "logs" },
           { path := ["vcpkg", "buildtrees", "curl", "x64-linux.vcpkg_abi_info.txt"],
             type := FileType.regular, contents := "abi" }] }

/-- The action of the scenarios of the build, with `fail_on_tombstone == YES`. -/
def curl_build_action_strict : InstallPlanAction :=
  { curl_build_action with
    build_options :=
      { binary_caching := BinaryCaching.YES, fail_on_tombstone := FailOnTombstone.YES } }

/-- The world of the scenarios after the triplet inspection, for a file system. -/
def inspected_world (fs : Filesystem) : World :=
  { fs := fs, commands := [inspect_command]
    s_hash_cache := [(["vcpkg", "triplets", "x64-linux.cmake"], "-")] }

/-- The command line of the build of `curl[core,ssl]` in the scenarios. -/
def curl_build_command : String :=
  "cmake -DCMD=BUILD -DPORT=curl -DCURRENT_PORT_DIR=vcpkg/ports/curl " ++
  "-DTARGET_TRIPLET=x64-linux -DVCPKG_PLATFORM_TOOLSET= -DVCPKG_USE_HEAD_VERSION=0 " ++
  "-DDOWNLOADS=vcpkg/downloads -D_VCPKG_NO_DOWNLOADS=1 -D_VCPKG_DOWNLOAD_TOOL=BUILT_IN " ++
  "-DFEATURES=core;ssl -DALL_FEATURES=ssl; -DVCPKG_CONCURRENCY=2 -DGIT=git " ++
  "-P vcpkg/scripts/ports.cmake"

/-- The settings of the triplet of the scenarios, as the inspection reads them. -/
def linux_pre_build_info : PreBuildInfo :=
  { target_architecture := "x64", cmake_system_name := "Linux", triplet_abi_tag := "-" }

/-- A file system without the directories among `files` and what is below them. -/
def Filesystem.without_directories (fs : Filesystem) (files : List Path) : Filesystem :=
  fs.filter (fun e => !files.any (fun d => fs.is_directory d && d.isPrefixOf e.path))

/-- The action of the scenarios of the build, with `clean_buildtrees == YES`. -/
def curl_clean_action : InstallPlanAction :=
  { curl_build_action with
    build_options :=
      { binary_caching := BinaryCaching.YES, clean_buildtrees := CleanBuildtrees.YES } }

/-- A world with a build tree of `curl`: the file of the ABI, a log, and a directory of
sources with a file and a log in it. -/
def buildtree_world : World :=
  { fs := [{ path := ["vcpkg", "buildtrees", "curl"], type := FileType.directory },
           { path := ["vcpkg", "buildtrees", "curl", "x64-linux.vcpkg_abi_info.txt"],
             type := FileType.regular, contents := "abi" },
           { path := ["vcpkg", "buildtrees", "curl", "config-x64-linux.log"],
             type := FileType.regular, contents := "log" },
           { path := ["vcpkg", "buildtrees", "curl", "src"], type := FileType.directory },
           { path := ["vcpkg", "buildtrees", "curl", "src", "main.c"],
             type := FileType.regular, contents := "code" },
           { path := ["vcpkg", "buildtrees", "curl", "src", "make.log"],
             type := FileType.regular, contents := "log" },
           { path := ["vcpkg", "buildtrees", "zlib"], type := FileType.directory },
           { path := ["vcpkg", "buildtrees", "zlib", "src"], type := FileType.directory }] }

/-! ### The ABI tags of a plan with a package that is built again -/

/-- A status database in which `zlib` is installed without an ABI and `openssl` with the
ABI `old-abi`. -/
def stale_status_db : StatusParagraphs :=
  [make_installed "zlib" x64_linux [] [] [],
   { core := { spec := ⟨"openssl", x64_linux⟩, version := "1.0", feature := ""
               default_features := [], depends := ["zlib"], abi := "old-abi" }
     features := [] }]

/-- The action that builds `openssl`, which depends on `zlib`, with binary caching. -/
def openssl_build_action : InstallPlanAction :=
  { spec := ⟨"openssl", x64_linux⟩, feature_list := ["core"]
    computed_dependencies := [⟨"zlib", x64_linux⟩]
    plan_type := InstallPlanType.BUILD_AND_INSTALL, request_type := RequestType.USER_REQUESTED
    build_action := some (make_port "openssl" ["zlib"] [] [])
    installed_package := none
    build_options := { binary_caching := BinaryCaching.YES }
    port_dir := some ["vcpkg", "ports", "openssl"] }

/-- The action that builds `curl`, which depends on `openssl`, with binary caching. -/
def curl_on_openssl_action : InstallPlanAction :=
  { spec := ⟨"curl", x64_linux⟩, feature_list := ["core"]
    computed_dependencies := [⟨"openssl", x64_linux⟩]
    plan_type := InstallPlanType.BUILD_AND_INSTALL, request_type := RequestType.USER_REQUESTED
    build_action := some (make_port "curl" ["openssl"] [] [])
    installed_package := none
    build_options := { binary_caching := BinaryCaching.YES }
    port_dir := some ["vcpkg", "ports", "curl"] }

/-- A plan that removes the installed `openssl`, builds it again and then builds `curl`. -/
def stale_plan : List AnyAction :=
  [AnyAction.remove_action
     { spec := ⟨"openssl", x64_linux⟩, plan_type := RemovePlanType.REMOVE
       request_type := RequestType.USER_REQUESTED },
   AnyAction.install_action openssl_build_action,
   AnyAction.install_action curl_on_openssl_action]

/-- A world with the ports `openssl` and `curl`, the helper script and the triplet file. -/
def stale_world : World :=
  { fs := [{ path := ["vcpkg", "ports", "openssl"], type := FileType.directory },
           { path := ["vcpkg", "ports", "openssl", "portfile.cmake"], type := FileType.regular,
             contents := "build openssl" },
           { path := ["vcpkg", "ports", "curl"], type := FileType.directory },
           { path := ["vcpkg", "ports", "curl", "portfile.cmake"], type := FileType.regular,
             contents := "build curl" },
           { path := ["vcpkg", "scripts", "cmake", "vcpkg_fixup_cmake_targets.cmake"],
             type := FileType.regular, contents := "fixup" },
           { path := ["vcpkg", "triplets", "x64-linux.cmake"], type := FileType.regular,
             contents := "triplet" }] }

/-! ### The lists of a plan -/

/-- The install actions of the lists all have a property. -/
def PlanLists.All (Q : InstallPlanAction → Prop) (lists : PlanLists) : Prop :=
  (∀ a ∈ lists.rebuilt_plans, Q a) ∧ (∀ a ∈ lists.only_install_plans, Q a) ∧
    (∀ a ∈ lists.new_plans, Q a) ∧ (∀ a ∈ lists.already_installed_plans, Q a) ∧
    (∀ a ∈ lists.excluded, Q a)

end Vcpkg

namespace Vcpkg

/-! ## Containers: basic facts -/

namespace AssocMap

theorem find_set {κ ν : Type} [DecidableEq κ] (m : List (κ × ν)) (k k' : κ) (v : ν) :
    find (set m k v) k' = if k' = k then some v else find m k' := by
  induction m with
  | nil =>
    by_cases h : k' = k
    · subst h; simp [set, find]
    · have h' : ¬ k = k' := fun e => h e.symm
      simp [set, find, h, h']
  | cons p rest ih =>
    obtain ⟨k0, v0⟩ := p
    by_cases h0 : k0 = k
    · subst h0
      by_cases h : k' = k0
      · subst h; simp [set, find]
      · have h' : ¬ k0 = k' := fun e => h e.symm
        simp [set, find, h, h']
    · by_cases h : k' = k
      · subst h; simp [set, find, h0, ih]
      · simp [set, find, h0, ih, h]

theorem find_set_same {κ ν : Type} [DecidableEq κ] (m : List (κ × ν)) (k : κ) (v : ν) :
    find (set m k v) k = some v := by
  simp [find_set]

theorem find_set_other {κ ν : Type} [DecidableEq κ] (m : List (κ × ν)) (k k' : κ) (v : ν)
    (h : k' ≠ k) : find (set m k v) k' = find m k' := by
  simp [find_set, h]

theorem find_eq_none_iff {κ ν : Type} [DecidableEq κ] (m : List (κ × ν)) (k : κ) :
    find m k = none ↔ k ∉ m.map Prod.fst := by
  induction m with
  | nil => simp [find]
  | cons p rest ih =>
    obtain ⟨k0, v0⟩ := p
    by_cases h0 : k0 = k
    · subst h0; simp [find]
    · have h' : ¬ k = k0 := fun e => h0 e.symm
      simp [find, h0, ih, h']

theorem find_isSome_iff {κ ν : Type} [DecidableEq κ] (m : List (κ × ν)) (k : κ) :
    (find m k).isSome = true ↔ k ∈ m.map Prod.fst := by
  rw [← not_iff_not, ← find_eq_none_iff]
  cases find m k <;> simp

theorem mem_of_find {κ ν : Type} [DecidableEq κ] (m : List (κ × ν)) (k : κ) (v : ν)
    (h : find m k = some v) : (k, v) ∈ m := by
  induction m with
  | nil => simp [find] at h
  | cons p rest ih =>
    obtain ⟨k0, v0⟩ := p
    by_cases h0 : k0 = k
    · subst h0; simp [find] at h; subst h; simp
    · simp [find, h0] at h; simp [ih h]

theorem keys_set {κ ν : Type} [DecidableEq κ] (m : List (κ × ν)) (k : κ) (v : ν) :
    (set m k v).map Prod.fst = if k ∈ m.map Prod.fst then m.map Prod.fst else m.map Prod.fst ++ [k] := by
  induction m with
  | nil => simp [set]
  | cons p rest ih =>
    obtain ⟨k0, v0⟩ := p
    by_cases h0 : k0 = k
    · subst h0; simp [set]
    · have h' : ¬ k = k0 := fun e => h0 e.symm
      simp only [set, h0, if_false, List.map_cons, ih, List.mem_cons, h', false_or]
      split <;> simp

theorem mem_keys_set {κ ν : Type} [DecidableEq κ] (m : List (κ × ν)) (k k' : κ) (v : ν) :
    k' ∈ (set m k v).map Prod.fst ↔ k' = k ∨ k' ∈ m.map Prod.fst := by
  rw [keys_set]
  split
  · constructor
    · intro h; exact Or.inr h
    · rintro (h | h)
      · subst h; assumption
      · exact h
  · simp [or_comm]

theorem nodup_keys_set {κ ν : Type} [DecidableEq κ] (m : List (κ × ν)) (k : κ) (v : ν)
    (h : (m.map Prod.fst).Nodup) : ((set m k v).map Prod.fst).Nodup := by
  rw [keys_set]
  split
  · exact h
  · rename_i hk
    rw [List.nodup_append]
    refine ⟨h, List.nodup_singleton k, ?_⟩
    intro a ha hb
    simp at hb
    subst hb
    exact hk ha

theorem find_of_mem {κ ν : Type} [DecidableEq κ] (m : List (κ × ν)) (k : κ) (v : ν)
    (hnd : (m.map Prod.fst).Nodup) (h : (k, v) ∈ m) : find m k = some v := by
  induction m with
  | nil => simp at h
  | cons p rest ih =>
    obtain ⟨k0, v0⟩ := p
    simp only [List.map_cons, List.nodup_cons] at hnd
    simp only [List.mem_cons, Prod.mk.injEq] at h
    rcases h with ⟨h1, h2⟩ | h
    · subst h1; subst h2; simp [find]
    · have : k0 ≠ k := by
        intro e; subst e
        exact hnd.1 (List.mem_map.mpr ⟨(k0, v), h, rfl⟩)
      simp [find, this, ih hnd.2 h]

end AssocMap

theorem mem_set_insert {α : Type} [DecidableEq α] (less : α → α → Bool)
    (x y : α) (l : List α) : y ∈ set_insert less x l ↔ y = x ∨ y ∈ l := by
  induction l with
  | nil => simp [set_insert]
  | cons z zs ih =>
    simp only [set_insert]
    split
    · rename_i h; subst h; simp
    · split
      · simp
      · simp only [List.mem_cons, ih]; tauto

theorem set_insert_ne_nil {α : Type} [DecidableEq α] (less : α → α → Bool) (x : α)
    (l : List α) : set_insert less x l ≠ [] := by
  intro h
  have : x ∈ set_insert less x l := (mem_set_insert less x x l).mpr (Or.inl rfl)
  rw [h] at this
  simp at this

/-! ## Graphs -/

namespace Graph

theorem mem_vertex_list_add_vertex (g : Graph) (u v : PackageSpec) :
    v ∈ (g.add_vertex u).vertex_list ↔ v = u ∨ v ∈ g.vertex_list := by
  unfold add_vertex vertex_list
  cases h : AssocMap.find g.m_edges u with
  | none => simp only [AssocMap.mem_keys_set]
  | some adj =>
    have hu : u ∈ g.m_edges.map Prod.fst := by
      rw [← AssocMap.find_isSome_iff, h]; rfl
    simp only
    constructor
    · intro h1; exact Or.inr h1
    · rintro (h1 | h1)
      · subst h1; exact hu
      · exact h1

theorem adjacency_list_add_vertex (g : Graph) (u v : PackageSpec) :
    (g.add_vertex u).adjacency_list v = g.adjacency_list v := by
  unfold add_vertex adjacency_list
  cases h : AssocMap.find g.m_edges u with
  | none =>
    simp only [AssocMap.find_set]
    split
    · rename_i e; subst e; simp [h]
    · rfl
  | some adj => rfl

theorem nodup_add_vertex (g : Graph) (u : PackageSpec) (h : g.vertex_list.Nodup) :
    (g.add_vertex u).vertex_list.Nodup := by
  unfold add_vertex vertex_list
  cases AssocMap.find g.m_edges u with
  | none => exact AssocMap.nodup_keys_set _ _ _ h
  | some adj => exact h

theorem mem_vertex_list_add_edge (g : Graph) (u v x : PackageSpec) :
    x ∈ (g.add_edge u v).vertex_list ↔ x = u ∨ x = v ∨ x ∈ g.vertex_list := by
  have h1 := mem_vertex_list_add_vertex (g.add_vertex v) u x
  have h2 := mem_vertex_list_add_vertex g v x
  unfold add_edge
  unfold vertex_list at *
  simp only [AssocMap.mem_keys_set]
  rw [h1, h2]
  tauto

theorem nodup_add_edge (g : Graph) (u v : PackageSpec) (h : g.vertex_list.Nodup) :
    (g.add_edge u v).vertex_list.Nodup := by
  have h1 := nodup_add_vertex _ u (nodup_add_vertex g v h)
  unfold add_edge
  unfold vertex_list at *
  exact AssocMap.nodup_keys_set _ _ _ h1

theorem mem_adjacency_list_add_edge (g : Graph) (u v x w : PackageSpec) :
    w ∈ (g.add_edge u v).adjacency_list x ↔ (x = u ∧ w = v) ∨ w ∈ g.adjacency_list x := by
  have h1 := adjacency_list_add_vertex (g.add_vertex v) u
  have h2 := adjacency_list_add_vertex g v
  unfold add_edge
  unfold adjacency_list at *
  simp only [AssocMap.find_set]
  by_cases hx : x = u
  · subst hx
    simp only [if_true, Option.getD_some, true_and]
    rw [← h2 x, ← h1 x]
    split
    · rename_i hv
      constructor
      · intro hw; exact Or.inr hw
      · rintro (hw | hw)
        · subst hw; exact hv
        · exact hw
    · simp [or_comm]
  · simp only [hx, if_false, false_and, false_or]
    rw [h1 x, h2 x]

end Graph

/-! ## The cluster view of a state -/

theorem ClusterGraph.graph_cluster_set (env : Env) (g : ClusterGraph) (s s' : PackageSpec)
    (c : Cluster) :
    ClusterGraph.cluster env (AssocMap.set g s c) s' =
      if s' = s then c else ClusterGraph.cluster env g s' := by
  unfold ClusterGraph.cluster
  rw [AssocMap.find_set]
  by_cases h : s' = s
  · simp [h]
  · simp [h]

theorem ClusterGraph.graph_cluster_get (env : Env) (g : ClusterGraph) (s s' : PackageSpec) :
    ClusterGraph.cluster env (ClusterGraph.get env g s) s' = ClusterGraph.cluster env g s' := by
  unfold ClusterGraph.get
  cases h : AssocMap.find g s with
  | some c => rfl
  | none =>
    simp only [ClusterGraph.graph_cluster_set]
    split
    · rename_i e; subst e; simp [ClusterGraph.cluster, h]
    · rfl

theorem ClusterGraph.find_get (env : Env) (g : ClusterGraph) (s s' : PackageSpec) :
    AssocMap.find (ClusterGraph.get env g s) s' =
      if s' = s then some (ClusterGraph.cluster env g s) else AssocMap.find g s' := by
  unfold ClusterGraph.get ClusterGraph.cluster
  cases h : AssocMap.find g s with
  | some c =>
    simp only
    split
    · rename_i e; subst e; exact h
    · rfl
  | none => simp only [AssocMap.find_set]

namespace PlanState

@[simp] theorem state_cluster_modify (env : Env) (st : PlanState) (s s' : PackageSpec)
    (f : Cluster → Cluster) :
    (st.modify env s f).cluster env s' = if s' = s then f (st.cluster env s) else st.cluster env s' := by
  unfold PlanState.modify PlanState.cluster
  simp only [ClusterGraph.graph_cluster_set]

@[simp] theorem graph_plan_modify (env : Env) (st : PlanState) (s : PackageSpec)
    (f : Cluster → Cluster) : (st.modify env s f).graph_plan = st.graph_plan := rfl

@[simp] theorem state_cluster_get (env : Env) (st : PlanState) (s s' : PackageSpec) :
    (st.get env s).cluster env s' = st.cluster env s' := by
  unfold PlanState.get PlanState.cluster
  simp only [ClusterGraph.graph_cluster_get]

@[simp] theorem graph_plan_get (env : Env) (st : PlanState) (s : PackageSpec) :
    (st.get env s).graph_plan = st.graph_plan := rfl

@[simp] theorem cluster_with_graph_plan (env : Env) (st : PlanState) (gp : GraphPlan)
    (s : PackageSpec) :
    PlanState.cluster env { st with graph_plan := gp } s = st.cluster env s := rfl

end PlanState

/-! ## Running planner procedures -/

namespace Planner

@[simp] theorem run_pure {α : Type} (a : α) (st : PlanState) :
    (pure a : Planner α).run st = Except.ok (a, st) := rfl

@[simp] theorem run_get (st : PlanState) :
    (get : Planner PlanState).run st = Except.ok (st, st) := rfl

@[simp] theorem run_modify (f : PlanState → PlanState) (st : PlanState) :
    (modify f : Planner Unit).run st = Except.ok ((), f st) := rfl

@[simp] theorem run_throw {α : Type} (e : Failure) (st : PlanState) :
    (throw e : Planner α).run st = Except.error e := rfl

theorem run_bind {α β : Type} (m : Planner α) (f : α → Planner β) (st : PlanState) :
    (m >>= f).run st =
      match m.run st with
      | Except.ok (a, st1) => (f a).run st1
      | Except.error e => Except.error e := by
  simp only [StateT.run_bind]
  cases m.run st with
  | error e => rfl
  | ok p => rfl

theorem bind_ok {α β : Type} (m : Planner α) (f : α → Planner β) (st : PlanState)
    (r : β) (st' : PlanState) :
    (m >>= f).run st = Except.ok (r, st') ↔
      ∃ a st1, m.run st = Except.ok (a, st1) ∧ (f a).run st1 = Except.ok (r, st') := by
  rw [run_bind]
  cases h : m.run st with
  | error e => simp
  | ok p =>
    obtain ⟨a, st1⟩ := p
    constructor
    · intro h1; exact ⟨a, st1, rfl, h1⟩
    · rintro ⟨a', st1', h1, h2⟩
      simp only [Except.ok.injEq, Prod.mk.injEq] at h1
      obtain ⟨e1, e2⟩ := h1
      subst e1; subst e2
      exact h2

theorem run_ite {α : Type} (c : Prop) [Decidable c] (a b : Planner α) (st : PlanState) :
    (if c then a else b).run st = if c then a.run st else b.run st := by
  split <;> rfl

theorem check_exit_ok (cond : Bool) (e : FatalError) (st : PlanState) (r : Unit)
    (st' : PlanState) :
    (check_exit cond e).run st = Except.ok (r, st') ↔ cond = true ∧ st' = st := by
  unfold check_exit
  cases cond
  · simp
  · simp only [if_true, run_pure, Except.ok.injEq, Prod.mk.injEq, true_and]
    exact eq_comm

end Planner

end Vcpkg

namespace Vcpkg

/-! ## Serialization -/

theorem except_bind_ok {ε α β : Type} (m : Except ε α) (f : α → Except ε β) (b : β) :
    (m >>= f) = Except.ok b ↔ ∃ a, m = Except.ok a ∧ f a = Except.ok b := by
  cases m with
  | error e => simp [bind, Except.bind]
  | ok a => simp [bind, Except.bind]

theorem create_feature_install_plan_ok (env : Env) (fuel : Nat) (specs : List FeatureSpec)
    (status_db : StatusParagraphs) (plan : List AnyAction) :
    create_feature_install_plan env fuel specs status_db = Except.ok plan ↔
      ∃ marked, marked_state env fuel specs status_db = Except.ok marked ∧
        PackageGraph.serialize env marked = Except.ok plan := by
  unfold create_feature_install_plan
  exact except_bind_ok _ _ _

/-- What `serialize_install` emits for one vertex: nothing, or one install action. -/
theorem serialize_install_cons_ok (env : Env) (st : PlanState) (p : PackageSpec)
    (rest : List PackageSpec) (plan : List AnyAction)
    (h : serialize_install env st (p :: rest) = Except.ok plan) :
    ∃ tail, serialize_install env st rest = Except.ok tail ∧
      ((plan = tail ∧ (st.cluster env p).transient_uninstalled = false ∧
          (st.cluster env p).request_type ≠ RequestType.USER_REQUESTED) ∨
       (∃ source, (st.cluster env p).transient_uninstalled = true ∧
          (st.cluster env p).source = some source ∧
          plan = AnyAction.install_action
            { spec := (st.cluster env p).spec
              feature_list := (st.cluster env p).to_install_features
              computed_dependencies :=
                sort_unique_erase ((st.graph_plan.install_graph.adjacency_list p).map
                  (fun q => (st.cluster env q).spec))
              plan_type := InstallPlanType.BUILD_AND_INSTALL
              request_type := (st.cluster env p).request_type
              build_action := some source.scf
              installed_package := none } :: tail) ∨
       (∃ installed, (st.cluster env p).transient_uninstalled = false ∧
          (st.cluster env p).request_type = RequestType.USER_REQUESTED ∧
          (st.cluster env p).installed = some installed ∧
          plan = AnyAction.install_action
            { spec := installed.ipv.spec
              feature_list := installed.original_features
              computed_dependencies := env.dependencies installed.ipv
              plan_type := InstallPlanType.ALREADY_INSTALLED
              request_type := (st.cluster env p).request_type
              build_action := none
              installed_package := some installed.ipv } :: tail)) := by
  simp only [serialize_install] at h
  split at h
  · rename_i ht
    split at h
    · simp [throw, throwThe, MonadExceptOf.throw] at h
    · rename_i source hs
      rw [except_bind_ok] at h
      obtain ⟨tail, h1, h2⟩ := h
      refine ⟨tail, h1, Or.inr (Or.inl ⟨source, ht, hs, ?_⟩)⟩
      simp only [pure, Except.pure, Except.ok.injEq] at h2
      exact h2.symm
  · rename_i ht
    simp only [Bool.not_eq_true] at ht
    split at h
    · rename_i hr
      exact ⟨plan, h, Or.inl ⟨rfl, ht, hr⟩⟩
    · rename_i hr
      simp only [ne_eq, not_not] at hr
      split at h
      · simp [throw, throwThe, MonadExceptOf.throw] at h
      · rename_i installed hi
        rw [except_bind_ok] at h
        obtain ⟨tail, h1, h2⟩ := h
        refine ⟨tail, h1, Or.inr (Or.inr ⟨installed, ht, hr, hi, ?_⟩)⟩
        simp only [pure, Except.pure, Except.ok.injEq] at h2
        exact h2.symm

theorem serialize_install_all_install (env : Env) (st : PlanState) (vs : List PackageSpec) :
    ∀ plan, serialize_install env st vs = Except.ok plan →
      ∀ x ∈ plan, ∃ a, x = AnyAction.install_action a := by
  induction vs with
  | nil =>
    intro plan h x hx
    simp only [serialize_install, pure, Except.pure, Except.ok.injEq] at h
    subst h
    simp at hx
  | cons p rest ih =>
    intro plan h x hx
    obtain ⟨tail, ht, hcase⟩ := serialize_install_cons_ok env st p rest plan h
    rcases hcase with ⟨e, _, _⟩ | ⟨source, _, _, e⟩ | ⟨installed, _, _, _, e⟩
    · subst e; exact ih _ ht x hx
    · subst e
      rcases List.mem_cons.mp hx with hx | hx
      · exact ⟨_, hx⟩
      · exact ih _ ht x hx
    · subst e
      rcases List.mem_cons.mp hx with hx | hx
      · exact ⟨_, hx⟩
      · exact ih _ ht x hx

theorem serialize_ok (env : Env) (st : PlanState) (plan : List AnyAction)
    (h : PackageGraph.serialize env st = Except.ok plan) :
    ∃ remove_toposort insert_toposort installs,
      env.topological_sort st.graph_plan.remove_graph.vertex_list st.graph_plan.remove_graph
        = some remove_toposort ∧
      env.topological_sort st.graph_plan.install_graph.vertex_list st.graph_plan.install_graph
        = some insert_toposort ∧
      serialize_install env st insert_toposort = Except.ok installs ∧
      plan = serialize_remove env st remove_toposort ++ installs := by
  unfold PackageGraph.serialize at h
  simp only at h
  split at h
  · simp [throw, throwThe, MonadExceptOf.throw] at h
  · rename_i remove_toposort hr
    split at h
    · simp [throw, throwThe, MonadExceptOf.throw] at h
    · rename_i insert_toposort hi
      rw [except_bind_ok] at h
      obtain ⟨installs, h1, h2⟩ := h
      simp only [pure, Except.pure, Except.ok.injEq] at h2
      exact ⟨remove_toposort, insert_toposort, installs, hr, hi, h1, h2.symm⟩

theorem serialize_remove_before_install (env : Env) (st : PlanState) (plan : List AnyAction)
    (h : PackageGraph.serialize env st = Except.ok plan) (i j : Nat)
    (r : RemovePlanAction) (a : InstallPlanAction)
    (hi : plan[i]? = some (AnyAction.remove_action r))
    (hj : plan[j]? = some (AnyAction.install_action a)) : i < j := by
  obtain ⟨rs, is, installs, _, _, h3, h4⟩ := serialize_ok env st plan h
  subst h4
  have hlen : (serialize_remove env st rs).length = rs.length := by
    simp [serialize_remove]
  have hi' : i < rs.length := by
    by_contra hge
    have hge : (serialize_remove env st rs).length ≤ i := by omega
    rw [List.getElem?_append_right hge] at hi
    have hmem := List.getElem?_mem hi
    obtain ⟨a', ha'⟩ := serialize_install_all_install env st is installs h3 _ hmem
    cases ha'
  have hj' : rs.length ≤ j := by
    by_contra hlt
    have hlt : j < (serialize_remove env st rs).length := by omega
    rw [List.getElem?_append_left hlt] at hj
    have hmem := List.getElem?_mem hj
    simp only [serialize_remove, List.mem_map] at hmem
    obtain ⟨_, _, e⟩ := hmem
    cases e
  omega

end Vcpkg

namespace Vcpkg

/-! ## Graph construction -/

theorem RemoveEdgesAdded.refl (env : Env) (g : ClusterGraph) :
    RemoveEdgesAdded env (fun _ _ => False) g g := by
  intro s
  refine ⟨rfl, fun h => h, ?_⟩
  intro i0 h0
  exact ⟨i0, h0, rfl, rfl, fun x => by simp⟩

theorem RemoveEdgesAdded.trans (env : Env) (E1 E2 E : PackageSpec → PackageSpec → Prop)
    (g0 g1 g2 : ClusterGraph) (h1 : RemoveEdgesAdded env E1 g0 g1)
    (h2 : RemoveEdgesAdded env E2 g1 g2) (hE : ∀ x s, E x s ↔ E1 x s ∨ E2 x s) :
    RemoveEdgesAdded env E g0 g2 := by
  intro s
  obtain ⟨a1, b1, c1⟩ := h1 s
  obtain ⟨a2, b2, c2⟩ := h2 s
  refine ⟨a2.trans a1, fun h => b2 (b1 h), ?_⟩
  intro i0 h0
  obtain ⟨i1, hi1, e1, f1, m1⟩ := c1 i0 h0
  obtain ⟨i2, hi2, e2, f2, m2⟩ := c2 i1 hi1
  refine ⟨i2, hi2, e2.trans e1, f2.trans f1, ?_⟩
  intro x
  rw [m2, m1, hE]
  tauto

/-- One step of the inner loop of the second loop of `create_feature_install_graph`. -/
theorem RemoveEdgesAdded.step (env : Env) (g : ClusterGraph) (spec dep : PackageSpec)
    (p_installed : ClusterInstalled)
    (h : (ClusterGraph.cluster env (ClusterGraph.get env g dep) dep).installed = some p_installed) :
    RemoveEdgesAdded env (fun x s => x = spec ∧ s = dep) g
      (AssocMap.set (ClusterGraph.get env g dep) dep
        { ClusterGraph.cluster env (ClusterGraph.get env g dep) dep with
          installed := some
            { p_installed with
              remove_edges := set_insert PackageSpec.less spec p_installed.remove_edges } }) := by
  intro s
  rw [ClusterGraph.graph_cluster_get] at h
  simp only [ClusterGraph.graph_cluster_set, ClusterGraph.graph_cluster_get]
  by_cases hs : s = dep
  · subst hs
    simp only [if_true]
    refine ⟨trivial, ?_, ?_⟩
    · intro h0; rw [h] at h0; cases h0
    · intro i0 h0
      rw [h] at h0
      cases h0
      refine ⟨_, rfl, rfl, rfl, ?_⟩
      intro x
      simp only [mem_set_insert, and_true]
      tauto
  · simp only [hs, if_false]
    refine ⟨trivial, fun h0 => h0, ?_⟩
    intro i0 h0
    exact ⟨i0, h0, rfl, rfl, fun x => by simp [hs]⟩

theorem add_remove_edges_result (env : Env) (spec : PackageSpec) (deps : List PackageSpec) :
    ∀ g : ClusterGraph,
      (∃ g', add_remove_edges env spec deps g = Except.ok g' ∧
        RemoveEdgesAdded env (fun x s => x = spec ∧ s ∈ deps) g g' ∧
        ∀ d ∈ deps, (ClusterGraph.cluster env g d).installed ≠ none) ∨
      (∃ d ∈ deps, (ClusterGraph.cluster env g d).installed = none ∧
        add_remove_edges env spec deps g =
          Except.error (Failure.fatal (FatalError.database_corrupted spec d))) := by
  induction deps with
  | nil =>
    intro g
    refine Or.inl ⟨g, rfl, ?_, by simp⟩
    have := RemoveEdgesAdded.refl env g
    intro s
    obtain ⟨a, b, c⟩ := this s
    refine ⟨a, b, ?_⟩
    intro i0 h0
    obtain ⟨i, hi, e, f, m⟩ := c i0 h0
    exact ⟨i, hi, e, f, fun x => by rw [m]; simp⟩
  | cons dep deps ih =>
    intro g
    simp only [add_remove_edges]
    cases hinst : (ClusterGraph.cluster env (ClusterGraph.get env g dep) dep).installed with
    | none =>
      refine Or.inr ⟨dep, by simp, ?_, rfl⟩
      rw [ClusterGraph.graph_cluster_get] at hinst
      exact hinst
    | some p_installed =>
      simp only
      have hstep := RemoveEdgesAdded.step env g spec dep p_installed hinst
      rcases ih (AssocMap.set (ClusterGraph.get env g dep) dep
        { ClusterGraph.cluster env (ClusterGraph.get env g dep) dep with
          installed := some
            { p_installed with
              remove_edges := set_insert PackageSpec.less spec p_installed.remove_edges } })
        with ⟨g', hok, hrel, hall⟩ | ⟨d, hd, hnone, herr⟩
      · refine Or.inl ⟨g', hok, ?_, ?_⟩
        · refine RemoveEdgesAdded.trans env _ _ _ _ _ _ hstep hrel ?_
          intro x s
          simp only [List.mem_cons]
          tauto
        · intro d hd
          rcases List.mem_cons.mp hd with e | hd
          · subst e
            rw [ClusterGraph.graph_cluster_get] at hinst
            rw [hinst]; simp
          · have h1 := hall d hd
            intro h0
            exact h1 ((hstep d).2.1 h0)
      · refine Or.inr ⟨d, List.mem_cons_of_mem _ hd, ?_, herr⟩
        by_contra hne
        obtain ⟨i0, hi0⟩ := Option.ne_none_iff_exists'.mp hne
        obtain ⟨i, hi, _⟩ := (hstep d).2.2 i0 hi0
        rw [hi] at hnone
        cases hnone

theorem populate_remove_edges_result (env : Env) (ports : List InstalledPackageView) :
    ∀ g : ClusterGraph,
      (∃ g', populate_remove_edges env ports g = Except.ok g' ∧
        RemoveEdgesAdded env
          (fun x s => ∃ ipv ∈ ports, ipv.spec = x ∧ s ∈ env.dependencies ipv) g g' ∧
        ∀ ipv ∈ ports, ∀ d ∈ env.dependencies ipv,
          (ClusterGraph.cluster env g d).installed ≠ none) ∨
      (∃ ipv ∈ ports, ∃ d ∈ env.dependencies ipv,
        (ClusterGraph.cluster env g d).installed = none ∧
        populate_remove_edges env ports g =
          Except.error (Failure.fatal (FatalError.database_corrupted ipv.spec d))) := by
  induction ports with
  | nil =>
    intro g
    refine Or.inl ⟨g, rfl, ?_, by simp⟩
    intro s
    obtain ⟨a, b, c⟩ := RemoveEdgesAdded.refl env g s
    refine ⟨a, b, ?_⟩
    intro i0 h0
    obtain ⟨i, hi, e, f, m⟩ := c i0 h0
    exact ⟨i, hi, e, f, fun x => by rw [m]; simp⟩
  | cons ipv ports ih =>
    intro g
    simp only [populate_remove_edges]
    rcases add_remove_edges_result env ipv.spec (env.dependencies ipv) g
      with ⟨g1, hok1, hrel1, hall1⟩ | ⟨d, hd, hnone, herr⟩
    · rw [hok1]
      simp only [bind, Except.bind]
      rcases ih g1 with ⟨g', hok, hrel, hall⟩ | ⟨ipv', hipv', d, hd, hnone, herr⟩
      · refine Or.inl ⟨g', hok, ?_, ?_⟩
        · refine RemoveEdgesAdded.trans env _ _ _ _ _ _ hrel1 hrel ?_
          intro x s
          simp only [List.mem_cons, exists_eq_or_imp]
          tauto
        · intro ipv' hipv' d hd
          rcases List.mem_cons.mp hipv' with e | hipv'
          · subst e; exact hall1 d hd
          · intro h0
            exact hall ipv' hipv' d hd ((hrel1 d).2.1 h0)
      · refine Or.inr ⟨ipv', List.mem_cons_of_mem _ hipv', d, hd, ?_, herr⟩
        by_contra hne
        obtain ⟨i0, hi0⟩ := Option.ne_none_iff_exists'.mp hne
        obtain ⟨i, hi, _⟩ := (hrel1 d).2.2 i0 hi0
        rw [hi] at hnone
        cases hnone
    · refine Or.inr ⟨ipv, by simp, d, hd, hnone, ?_⟩
      rw [herr]
      rfl

theorem last_installed_some (ports : List InstalledPackageView) (s : PackageSpec)
    (ipv : InstalledPackageView) (h : last_installed ports s = some ipv) :
    ipv ∈ ports ∧ ipv.spec = s := by
  induction ports with
  | nil => simp [last_installed] at h
  | cons p rest ih =>
    simp only [last_installed] at h
    cases hr : last_installed rest s with
    | some found =>
      rw [hr] at h
      simp only [Option.some.injEq] at h
      subst h
      obtain ⟨h1, h2⟩ := ih hr
      exact ⟨List.mem_cons_of_mem _ h1, h2⟩
    | none =>
      rw [hr] at h
      simp only at h
      split at h
      · rename_i hp
        simp only [Option.some.injEq] at h
        subst h
        exact ⟨List.mem_cons_self _ _, hp⟩
      · cases h

theorem last_installed_none (ports : List InstalledPackageView) (s : PackageSpec) :
    last_installed ports s = none ↔ ∀ ipv ∈ ports, ipv.spec ≠ s := by
  induction ports with
  | nil => simp [last_installed]
  | cons p rest ih =>
    simp only [last_installed, List.mem_cons, forall_eq_or_imp]
    cases hr : last_installed rest s with
    | some found =>
      constructor
      · intro h; cases h
      · rintro ⟨_, hall⟩
        have := ih.mpr hall
        rw [hr] at this
        cases this
    | none =>
      have := ih.mp hr
      by_cases hp : p.spec = s
      · simp [hp]
      · simp only [hp, if_false, true_iff, ne_eq, not_false_eq_true, true_and]
        exact this

theorem last_installed_isSome (ports : List InstalledPackageView) (s : PackageSpec) :
    (∃ ipv, last_installed ports s = some ipv) ↔ ∃ ipv ∈ ports, ipv.spec = s := by
  constructor
  · rintro ⟨ipv, h⟩
    exact ⟨ipv, last_installed_some ports s ipv h⟩
  · rintro ⟨ipv, h1, h2⟩
    cases hr : last_installed ports s with
    | some found => exact ⟨found, rfl⟩
    | none => exact absurd h2 ((last_installed_none ports s).mp hr ipv h1)

theorem last_installed_of_nodup (ports : List InstalledPackageView)
    (hnd : (ports.map InstalledPackageView.spec).Nodup) (ipv : InstalledPackageView)
    (h : ipv ∈ ports) : last_installed ports ipv.spec = some ipv := by
  induction ports with
  | nil => simp at h
  | cons p rest ih =>
    simp only [List.map_cons, List.nodup_cons] at hnd
    simp only [last_installed]
    rcases List.mem_cons.mp h with e | h
    · subst e
      have : last_installed rest ipv.spec = none := by
        rw [last_installed_none]
        intro q hq e
        exact hnd.1 (List.mem_map.mpr ⟨q, hq, e⟩)
      rw [this]
      simp
    · rw [ih hnd.2 h]

theorem attach_installed_cluster (env : Env) (ports : List InstalledPackageView) :
    ∀ (g : ClusterGraph) (s : PackageSpec),
      ClusterGraph.cluster env (attach_installed env ports g) s =
        match last_installed ports s with
        | some ipv =>
          { ClusterGraph.cluster env g s with
            transient_uninstalled := false
            installed := some (cluster_installed_of ipv) }
        | none => ClusterGraph.cluster env g s := by
  induction ports with
  | nil => intro g s; rfl
  | cons p rest ih =>
    intro g s
    have hstep : attach_installed env (p :: rest) g =
        attach_installed env rest
          (AssocMap.set (ClusterGraph.get env g p.spec) p.spec
            { ClusterGraph.cluster env (ClusterGraph.get env g p.spec) p.spec with
              transient_uninstalled := false
              installed := some (cluster_installed_of p) }) := rfl
    rw [hstep, ih]
    simp only [last_installed, ClusterGraph.graph_cluster_set, ClusterGraph.graph_cluster_get]
    cases hr : last_installed rest s with
    | some found =>
      simp only
      by_cases hs : s = p.spec
      · subst hs; simp
      · simp [hs]
    | none =>
      simp only
      by_cases hs : s = p.spec
      · subst hs; simp
      · have hs' : ¬ p.spec = s := fun e => hs e.symm
        simp [hs, hs']

theorem new_cluster_installed (env : Env) (s : PackageSpec) :
    (new_cluster env s).installed = none := rfl

theorem cluster_nil (env : Env) (s : PackageSpec) :
    ClusterGraph.cluster env [] s = new_cluster env s := rfl

/-- The installed half of a cluster right after the first loop of
`create_feature_install_graph`. -/
theorem attach_installed_installed (env : Env) (ports : List InstalledPackageView)
    (s : PackageSpec) :
    (ClusterGraph.cluster env (attach_installed env ports []) s).installed =
      (last_installed ports s).map cluster_installed_of := by
  rw [attach_installed_cluster]
  cases last_installed ports s with
  | some ipv => rfl
  | none => rfl

theorem find_of_installed (env : Env) (g : ClusterGraph) (s : PackageSpec)
    (inst : ClusterInstalled) (h : (ClusterGraph.cluster env g s).installed = some inst) :
    AssocMap.find g s = some (ClusterGraph.cluster env g s) := by
  unfold ClusterGraph.cluster at h ⊢
  cases hf : AssocMap.find g s with
  | some c => rfl
  | none =>
    rw [hf] at h
    simp only [new_cluster_installed] at h
    cases h

/-- The outcome of `create_feature_install_graph`. -/
theorem create_feature_install_graph_result (env : Env) (status_db : StatusParagraphs) :
    (∃ g, create_feature_install_graph env status_db = Except.ok g ∧
      RemoveEdgesAdded env
        (fun x s => ∃ ipv ∈ status_db, ipv.spec = x ∧ s ∈ env.dependencies ipv)
        (attach_installed env status_db []) g ∧
      ∀ ipv ∈ status_db, ∀ d ∈ env.dependencies ipv, ∃ dep ∈ status_db, dep.spec = d) ∨
    (∃ ipv ∈ status_db, ∃ d ∈ env.dependencies ipv, (∀ dep ∈ status_db, dep.spec ≠ d) ∧
      create_feature_install_graph env status_db =
        Except.error (Failure.fatal (FatalError.database_corrupted ipv.spec d))) := by
  unfold create_feature_install_graph
  simp only
  rcases populate_remove_edges_result env status_db (attach_installed env status_db [])
    with ⟨g, hok, hrel, hall⟩ | ⟨ipv, hipv, d, hd, hnone, herr⟩
  · refine Or.inl ⟨g, hok, hrel, ?_⟩
    intro ipv hipv d hd
    have h1 := hall ipv hipv d hd
    rw [attach_installed_installed] at h1
    cases hl : last_installed status_db d with
    | none => rw [hl] at h1; simp at h1
    | some dep => exact ⟨dep, last_installed_some _ _ _ hl⟩
  · refine Or.inr ⟨ipv, hipv, d, hd, ?_, herr⟩
    rw [attach_installed_installed] at hnone
    cases hl : last_installed status_db d with
    | none => exact (last_installed_none _ _).mp hl
    | some dep => rw [hl] at hnone; simp at hnone

end Vcpkg

namespace Vcpkg

/-! ## Weakest preconditions -/

theorem wp_pure {α : Type} (a : α) (Q : α → PlanState → Prop) (st : PlanState) :
    wp (pure a : Planner α) Q st ↔ Q a st := by
  unfold wp
  simp only [Planner.run_pure, Except.ok.injEq, Prod.mk.injEq]
  constructor
  · intro h; exact h a st ⟨rfl, rfl⟩
  · rintro h r st' ⟨rfl, rfl⟩; exact h

theorem wp_bind {α β : Type} (m : Planner α) (f : α → Planner β) (Q : β → PlanState → Prop)
    (st : PlanState) : wp (m >>= f) Q st ↔ wp m (fun a st1 => wp (f a) Q st1) st := by
  unfold wp
  simp only [Planner.bind_ok]
  constructor
  · intro h a st1 h1 r st' h2
    exact h r st' ⟨a, st1, h1, h2⟩
  · rintro h r st' ⟨a, st1, h1, h2⟩
    exact h a st1 h1 r st' h2

theorem wp_get (Q : PlanState → PlanState → Prop) (st : PlanState) :
    wp (get : Planner PlanState) Q st ↔ Q st st := by
  unfold wp
  simp only [Planner.run_get, Except.ok.injEq, Prod.mk.injEq]
  constructor
  · intro h; exact h st st ⟨rfl, rfl⟩
  · rintro h r st' ⟨rfl, rfl⟩; exact h

theorem wp_modify (f : PlanState → PlanState) (Q : Unit → PlanState → Prop) (st : PlanState) :
    wp (modify f : Planner Unit) Q st ↔ Q () (f st) := by
  unfold wp
  simp only [Planner.run_modify, Except.ok.injEq, Prod.mk.injEq]
  constructor
  · intro h; exact h () (f st) ⟨trivial, rfl⟩
  · rintro h r st' ⟨_, rfl⟩; exact h

theorem wp_throw {α : Type} (e : Failure) (Q : α → PlanState → Prop) (st : PlanState) :
    wp (throw e : Planner α) Q st ↔ True := by
  unfold wp
  simp

theorem wp_ite {α : Type} (c : Prop) [Decidable c] (a b : Planner α)
    (Q : α → PlanState → Prop) (st : PlanState) :
    wp (if c then a else b) Q st ↔ (c → wp a Q st) ∧ (¬ c → wp b Q st) := by
  by_cases h : c <;> simp [h]

theorem wp_check_exit (cond : Bool) (e : FatalError) (Q : Unit → PlanState → Prop)
    (st : PlanState) : wp (check_exit cond e) Q st ↔ (cond = true → Q () st) := by
  unfold wp
  simp only [Planner.check_exit_ok]
  constructor
  · intro h hc; exact h () st ⟨hc, rfl⟩
  · rintro h r st' ⟨hc, rfl⟩; exact h hc

theorem wp_mono {α : Type} (m : Planner α) (Q Q' : α → PlanState → Prop) (st : PlanState)
    (h : wp m Q st) (hQ : ∀ r st', Q r st' → Q' r st') : wp m Q' st := by
  intro r st' hrun
  exact hQ r st' (h r st' hrun)

/-- Loop rule: an invariant of the body is an invariant of the loop. -/
theorem wp_for_each {α : Type} (xs : List α) (body : α → Planner Unit)
    (I : PlanState → Prop) (hbody : ∀ x ∈ xs, ∀ st, I st → wp (body x) (fun _ st' => I st') st) :
    ∀ st, I st → wp (for_each xs body) (fun _ st' => I st') st := by
  induction xs with
  | nil =>
    intro st h
    simp only [for_each, wp_pure]
    exact h
  | cons x rest ih =>
    intro st h
    simp only [for_each, wp_bind]
    refine wp_mono _ _ _ _ (hbody x (List.mem_cons_self _ _) st h) ?_
    intro _ st1 h1
    exact ih (fun y hy => hbody y (List.mem_cons_of_mem _ hy)) st1 h1

/-- Loop rule for an indexed invariant: `I done` holds after the elements `done` have been
processed. -/
theorem wp_for_each_from {α : Type} (body : α → Planner Unit)
    (I : List α → PlanState → Prop) (xs : List α) :
    ∀ (done : List α),
      (∀ pre x, (∃ post, done ++ xs = pre ++ x :: post) → done.length ≤ pre.length →
        ∀ st, I pre st → wp (body x) (fun _ st' => I (pre ++ [x]) st') st) →
      ∀ st, I done st → wp (for_each xs body) (fun _ st' => I (done ++ xs) st') st := by
  induction xs with
  | nil =>
    intro done _ st h
    simp only [for_each, wp_pure, List.append_nil]
    exact h
  | cons x rest ih =>
    intro done hbody st h
    simp only [for_each, wp_bind]
    refine wp_mono _ _ _ _ (hbody done x ⟨rest, rfl⟩ (le_refl _) st h) ?_
    intro _ st1 h1
    have := ih (done ++ [x]) (fun pre y hpost hlen => hbody pre y (by
      obtain ⟨post, hp⟩ := hpost
      exact ⟨post, by simpa using hp⟩) (by simp at hlen; omega)) st1 h1
    simpa using this

/-- Loop rule for `first_failure`: `I done` holds after the elements `done` have been
processed with `SUCCESS`, and `J` holds when the loop is left early. -/
theorem wp_first_failure_from {α : Type} (body : α → Planner MarkPlusResult)
    (I : List α → PlanState → Prop) (J : MarkPlusResult → PlanState → Prop) (xs : List α) :
    ∀ (done : List α),
      (∀ pre x, (∃ post, done ++ xs = pre ++ x :: post) → done.length ≤ pre.length →
        ∀ st, I pre st →
          wp (body x) (fun r st' =>
            (r = MarkPlusResult.SUCCESS → I (pre ++ [x]) st') ∧
            (r ≠ MarkPlusResult.SUCCESS → J r st')) st) →
      ∀ st, I done st →
        wp (first_failure xs body) (fun r st' =>
          (r = MarkPlusResult.SUCCESS → I (done ++ xs) st') ∧
          (r ≠ MarkPlusResult.SUCCESS → J r st')) st := by
  induction xs with
  | nil =>
    intro done _ st h
    simp only [first_failure, wp_pure, List.append_nil]
    exact ⟨fun _ => h, fun hr => absurd rfl hr⟩
  | cons x rest ih =>
    intro done hbody st h
    simp only [first_failure, wp_bind]
    refine wp_mono _ _ _ _ (hbody done x ⟨rest, rfl⟩ (le_refl _) st h) ?_
    intro r st1 ⟨hs, hf⟩
    simp only [wp_ite, wp_pure]
    constructor
    · intro hr
      exact ⟨fun e => absurd e hr, fun _ => hf hr⟩
    · intro hr
      simp only [ne_eq, not_not] at hr
      have := ih (done ++ [x]) (fun pre y hpost hlen => hbody pre y (by
        obtain ⟨post, hp⟩ := hpost
        exact ⟨post, by simpa using hp⟩) (by simp at hlen; omega)) st1 (hs hr)
      simpa using this

/-- Loop rule for `first_failure` with a plain invariant. -/
theorem wp_first_failure {α : Type} (xs : List α) (body : α → Planner MarkPlusResult)
    (I : PlanState → Prop)
    (hbody : ∀ x ∈ xs, ∀ st, I st → wp (body x) (fun _ st' => I st') st) :
    ∀ st, I st → wp (first_failure xs body) (fun _ st' => I st') st := by
  intro st h
  have := wp_first_failure_from body (fun _ => I) (fun _ => I) xs []
    (fun pre x hpost _ st hst => by
      obtain ⟨post, hp⟩ := hpost
      have hx : x ∈ xs := by
        simp only [List.nil_append] at hp
        rw [hp]; simp
      refine wp_mono _ _ _ _ (hbody x hx st hst) ?_
      intro r st' h'
      exact ⟨fun _ => h', fun _ => h'⟩) st h
  refine wp_mono _ _ _ _ this ?_
  intro r st' ⟨h1, h2⟩
  by_cases hr : r = MarkPlusResult.SUCCESS
  · exact h1 hr
  · exact h2 hr

/-- Induction over the recursion depth: a specification that every body meets when its
callees meet it is met by the marking procedures at every depth. -/
theorem marking_meets (env : Env) (prevent_default_features : List String) (S : MarkingSpec)
    (hplus : ∀ callee : Marking, callee.Meets S → ∀ feature cluster st,
      wp (mark_plus_body env callee feature cluster) (S.mark_plus feature cluster st) st)
    (hminus : ∀ callee : Marking, callee.Meets S → ∀ cluster st,
      wp (mark_minus_body env callee cluster) (fun _ => S.mark_minus cluster st) st)
    (hfollow : ∀ callee : Marking, callee.Meets S → ∀ feature cluster st,
      wp (follow_plus_dependencies_body env prevent_default_features callee feature cluster)
        (S.follow_plus_dependencies feature cluster st) st) :
    ∀ fuel, (marking env prevent_default_features fuel).Meets S := by
  intro fuel
  induction fuel with
  | zero =>
    refine ⟨?_, ?_, ?_⟩
    · intro feature cluster st r st' h
      simp [marking] at h
    · intro cluster st r st' h
      simp [marking] at h
    · intro feature cluster st r st' h
      simp [marking] at h
  | succ n ih =>
    exact ⟨hplus _ ih, hminus _ ih, hfollow _ ih⟩

end Vcpkg

namespace Vcpkg

/-! ## Invariants of the marking -/

namespace Preserves

theorem keeps_pure {α : Type} (I : PlanState → Prop) (a : α) : Preserves I (pure a : Planner α) := by
  intro st h
  rw [wp_pure]
  exact h

theorem keeps_bind {α β : Type} (I : PlanState → Prop) (m : Planner α) (f : α → Planner β)
    (hm : Preserves I m) (hf : ∀ a, Preserves I (f a)) : Preserves I (m >>= f) := by
  intro st h
  rw [wp_bind]
  exact wp_mono _ _ _ _ (hm st h) (fun a st1 h1 => hf a st1 h1)

theorem keeps_get (I : PlanState → Prop) : Preserves I (get : Planner PlanState) := by
  intro st h
  rw [wp_get]
  exact h

theorem keeps_modify (I : PlanState → Prop) (f : PlanState → PlanState)
    (hf : ∀ st, I st → I (f st)) : Preserves I (modify f : Planner Unit) := by
  intro st h
  rw [wp_modify]
  exact hf st h

theorem keeps_throw {α : Type} (I : PlanState → Prop) (e : Failure) :
    Preserves I (throw e : Planner α) := by
  intro st _
  rw [wp_throw]
  trivial

theorem keeps_ite {α : Type} (I : PlanState → Prop) (c : Prop) [Decidable c] (a b : Planner α)
    (ha : c → Preserves I a) (hb : ¬ c → Preserves I b) :
    Preserves I (if c then a else b) := by
  intro st h
  rw [wp_ite]
  exact ⟨fun hc => ha hc st h, fun hc => hb hc st h⟩

theorem keeps_check_exit (I : PlanState → Prop) (cond : Bool) (e : FatalError) :
    Preserves I (check_exit cond e) := by
  intro st h
  rw [wp_check_exit]
  exact fun _ => h

theorem keeps_check_exit_bind {β : Type} (I : PlanState → Prop) (cond : Bool) (e : FatalError)
    (f : Unit → Planner β) (hf : cond = true → Preserves I (f ())) :
    Preserves I (Vcpkg.check_exit cond e >>= f) := by
  intro st h
  rw [wp_bind, wp_check_exit]
  exact fun hc => hf hc st h

theorem keeps_for_each {α : Type} (I : PlanState → Prop) (xs : List α) (body : α → Planner Unit)
    (hbody : ∀ x ∈ xs, Preserves I (body x)) : Preserves I (for_each xs body) :=
  wp_for_each xs body I hbody

theorem keeps_first_failure {α : Type} (I : PlanState → Prop) (xs : List α)
    (body : α → Planner MarkPlusResult) (hbody : ∀ x ∈ xs, Preserves I (body x)) :
    Preserves I (first_failure xs body) :=
  wp_first_failure xs body I hbody

end Preserves

theorem follow_plus_dependencies_edge_keeps (env : Env) (I : PlanState → Prop)
    (hI : StepClosed env I) (callee : Marking) (hc : callee.Keeps I) (feature : String)
    (cluster : PackageSpec) (depend : FeatureSpec) :
    Preserves I (follow_plus_dependencies_edge env callee feature cluster depend) := by
  unfold follow_plus_dependencies_edge
  refine Preserves.keeps_bind _ _ _ (Preserves.keeps_modify _ _ (fun st h => hI _ _ h (Step.get st _))) ?_
  intro _
  refine Preserves.keeps_bind _ _ _ (hc.1 _ _) ?_
  intro res
  refine Preserves.keeps_bind _ _ _ (Preserves.keeps_check_exit _ _ _) ?_
  intro _
  refine Preserves.keeps_ite _ _ _ _ (fun _ => Preserves.keeps_pure _ _) ?_
  intro hne
  exact Preserves.keeps_modify _ _ (fun st h => hI _ _ h (Step.install_edge st _ _ hne))

theorem follow_plus_dependencies_body_keeps (env : Env) (pdf : List String)
    (I : PlanState → Prop) (hI : StepClosed env I) (callee : Marking) (hc : callee.Keeps I)
    (feature : String) (cluster : PackageSpec) :
    Preserves I (follow_plus_dependencies_body env pdf callee feature cluster) := by
  unfold follow_plus_dependencies_body
  refine Preserves.keeps_bind _ _ _ (Preserves.keeps_get _) ?_
  intro s
  split
  · split
    · refine Preserves.keeps_bind _ _ _ (hc.2.1 _) ?_
      intro _
      refine Preserves.keeps_bind _ _ _
        (Preserves.keeps_modify _ _ (fun st h => hI _ _ h (Step.install_vertex st _))) ?_
      intro _
      refine Preserves.keeps_bind _ _ _
        (Preserves.keeps_modify _ _ (fun st h => hI _ _ h (Step.insert_feature st _ _))) ?_
      intro _
      refine Preserves.keeps_bind _ _ _ ?_ ?_
      · refine Preserves.keeps_ite _ _ _ _ ?_ (fun _ => Preserves.keeps_pure _ _)
        intro _
        refine Preserves.keeps_bind _ _ _ (hc.1 _ _) ?_
        intro _
        exact Preserves.keeps_check_exit _ _ _
      intro _
      refine Preserves.keeps_bind _ _ _ (Preserves.keeps_get _) ?_
      intro s2
      refine Preserves.keeps_bind _ _ _ ?_ ?_
      · refine Preserves.keeps_ite _ _ _ _ ?_ (fun _ => Preserves.keeps_pure _ _)
        intro _
        refine Preserves.keeps_bind _ _ _ (hc.1 _ _) ?_
        intro _
        exact Preserves.keeps_check_exit _ _ _
      intro _
      refine Preserves.keeps_bind _ _ _ ?_ (fun _ => Preserves.keeps_pure _ _)
      exact Preserves.keeps_for_each _ _ _
        (fun x _ => follow_plus_dependencies_edge_keeps env I hI callee hc _ _ x)
    · exact Preserves.keeps_pure _ _
  · exact Preserves.keeps_pure _ _

theorem mark_plus_body_keeps (env : Env) (I : PlanState → Prop) (hI : StepClosed env I)
    (callee : Marking) (hc : callee.Keeps I) (feature : String) (cluster : PackageSpec) :
    Preserves I (mark_plus_body env callee feature cluster) := by
  unfold mark_plus_body
  refine Preserves.keeps_bind _ _ _ (Preserves.keeps_get _) ?_
  intro s
  refine Preserves.keeps_ite _ _ _ _ (fun _ => Preserves.keeps_pure _ _) ?_
  intro _
  refine Preserves.keeps_bind _ _ _
    (Preserves.keeps_modify _ _ (fun st h => hI _ _ h (Step.set_plus st _ _))) ?_
  intro _
  refine Preserves.keeps_bind _ _ _ (Preserves.keeps_get _) ?_
  intro s2
  split
  · exact Preserves.keeps_throw _ _
  · refine Preserves.keeps_ite _ _ _ _ ?_ ?_
    · intro _
      refine Preserves.keeps_bind _ _ _ (Preserves.keeps_first_failure _ _ _ (fun x _ => hc.1 _ _)) ?_
      intro res
      exact Preserves.keeps_ite _ _ _ _ (fun _ => Preserves.keeps_pure _ _) (fun _ => hc.1 _ _)
    · intro _
      refine Preserves.keeps_ite _ _ _ _ ?_ ?_
      · intro _
        refine Preserves.keeps_bind _ _ _ (Preserves.keeps_for_each _ _ _ ?_) ?_
        · intro x _
          unfold mark_plus_all_features_step
          exact Preserves.keeps_bind _ _ _ (hc.1 _ _) (fun _ => Preserves.keeps_check_exit _ _ _)
        intro _
        refine Preserves.keeps_bind _ _ _ (hc.1 _ _) ?_
        intro _
        exact Preserves.keeps_bind _ _ _ (Preserves.keeps_check_exit _ _ _) (fun _ => Preserves.keeps_pure _ _)
      · intro _
        refine Preserves.keeps_bind _ _ _ (Preserves.keeps_get _) ?_
        intro s3
        refine Preserves.keeps_ite _ _ _ _ (fun _ => Preserves.keeps_pure _ _) ?_
        intro _
        exact Preserves.keeps_bind _ _ _ (hc.2.1 _) (fun _ => hc.2.2 _ _)

theorem mark_minus_body_keeps (env : Env) (I : PlanState → Prop) (hI : StepClosed env I)
    (callee : Marking) (hc : callee.Keeps I) (cluster : PackageSpec) :
    Preserves I (mark_minus_body env callee cluster) := by
  unfold mark_minus_body
  refine Preserves.keeps_bind _ _ _ (Preserves.keeps_get _) ?_
  intro s
  refine Preserves.keeps_ite _ _ _ _ (fun _ => Preserves.keeps_pure _ _) ?_
  intro _
  refine Preserves.keeps_bind _ _ _
    (Preserves.keeps_modify _ _ (fun st h => hI _ _ h (Step.set_minus st _))) ?_
  intro _
  refine Preserves.keeps_bind _ _ _ (Preserves.keeps_get _) ?_
  intro s2
  refine Preserves.keeps_bind _ _ _ (Preserves.keeps_get _) ?_
  intro s3
  split
  · exact Preserves.keeps_throw _ _
  · split
    · exact Preserves.keeps_pure _ _
    · refine Preserves.keeps_bind _ _ _
        (Preserves.keeps_modify _ _ (fun st h => hI _ _ h (Step.remove_vertex st _))) ?_
      intro _
      refine Preserves.keeps_bind _ _ _ (Preserves.keeps_for_each _ _ _ ?_) ?_
      · intro edge _
        unfold mark_minus_remove_edge
        refine Preserves.keeps_bind _ _ _
          (Preserves.keeps_modify _ _ (fun st h => hI _ _ h (Step.get st _))) ?_
        intro _
        refine Preserves.keeps_check_exit_bind _ _ _ _ ?_
        intro hne
        simp only [ne_eq, decide_eq_true_eq] at hne
        refine Preserves.keeps_bind _ _ _
          (Preserves.keeps_modify _ _ (fun st h => hI _ _ h (Step.remove_edge st _ _ hne))) ?_
        intro _
        exact hc.2.1 _
      intro _
      refine Preserves.keeps_bind _ _ _ (Preserves.keeps_for_each _ _ _ ?_) ?_
      · intro f _
        unfold mark_minus_reinstall
        exact Preserves.keeps_bind _ _ _ (hc.2.2 _ _) (fun _ => Preserves.keeps_pure _ _)
      intro _
      refine Preserves.keeps_for_each _ _ _ ?_
      intro d _
      unfold mark_minus_new_default
      refine Preserves.keeps_ite _ _ _ _ ?_ (fun _ => Preserves.keeps_pure _ _)
      intro _
      exact Preserves.keeps_bind _ _ _ (hc.1 _ _) (fun _ => Preserves.keeps_pure _ _)

/-- Every property kept by the elementary changes is kept by the marking procedures. -/
theorem marking_keeps (env : Env) (pdf : List String) (I : PlanState → Prop)
    (hI : StepClosed env I) : ∀ fuel, (marking env pdf fuel).Keeps I := by
  have h := marking_meets env pdf
    { mark_plus := fun _ _ st _ st' => I st → I st'
      mark_minus := fun _ st st' => I st → I st'
      follow_plus_dependencies := fun _ _ st _ st' => I st → I st' }
  have toKeeps : ∀ callee : Marking, callee.Meets
      { mark_plus := fun _ _ st _ st' => I st → I st'
        mark_minus := fun _ st st' => I st → I st'
        follow_plus_dependencies := fun _ _ st _ st' => I st → I st' } → callee.Keeps I := by
    intro callee hm
    refine ⟨?_, ?_, ?_⟩
    · intro f c st hst r st' hrun
      exact hm.1 f c st r st' hrun hst
    · intro c st hst r st' hrun
      exact hm.2.1 c st r st' hrun hst
    · intro f c st hst r st' hrun
      exact hm.2.2 f c st r st' hrun hst
  intro fuel
  apply toKeeps
  apply h
  · intro callee hm f c st r st' hrun hst
    exact mark_plus_body_keeps env I hI callee (toKeeps callee hm) f c st hst r st' hrun
  · intro callee hm c st r st' hrun hst
    exact mark_minus_body_keeps env I hI callee (toKeeps callee hm) c st hst r st' hrun
  · intro callee hm f c st r st' hrun hst
    exact follow_plus_dependencies_body_keeps env pdf I hI callee (toKeeps callee hm) f c st hst
      r st' hrun

end Vcpkg

namespace Vcpkg

theorem install_keeps (env : Env) (pdf : List String) (I : PlanState → Prop)
    (hI : StepClosed env I) (fuel : Nat) (spec : FeatureSpec) :
    Preserves I (PackageGraph.install env fuel spec pdf) := by
  unfold PackageGraph.install
  refine Preserves.keeps_bind _ _ _ (Preserves.keeps_modify _ _ (fun st h => hI _ _ h (Step.get st _))) ?_
  intro _
  refine Preserves.keeps_bind _ _ _
    (Preserves.keeps_modify _ _ (fun st h => hI _ _ h (Step.set_user_requested st _))) ?_
  intro _
  refine Preserves.keeps_bind _ _ _ ((marking_keeps env pdf I hI fuel).1 _ _) ?_
  intro _
  refine Preserves.keeps_bind _ _ _ (Preserves.keeps_check_exit _ _ _) ?_
  intro _
  exact Preserves.keeps_modify _ _ (fun st h => hI _ _ h (Step.install_vertex st _))

theorem install_all_keeps (env : Env) (pdf : List String) (I : PlanState → Prop)
    (hI : StepClosed env I) (fuel : Nat) (specs : List FeatureSpec) :
    Preserves I (install_all env fuel specs pdf) := by
  unfold install_all
  refine Preserves.keeps_for_each _ _ _ ?_
  intro spec _
  exact Preserves.keeps_ite _ _ _ _ (fun _ => Preserves.keeps_pure _ _)
    (fun _ => install_keeps env pdf I hI fuel spec)

theorem marked_state_ok (env : Env) (fuel : Nat) (specs : List FeatureSpec)
    (status_db : StatusParagraphs) (marked : PlanState) :
    marked_state env fuel specs status_db = Except.ok marked ↔
      ∃ g, create_feature_install_graph env status_db = Except.ok g ∧
        (install_all env fuel specs (prevent_default_features_of specs)).run
          { m_graph := g, graph_plan := {} } = Except.ok ((), marked) := by
  unfold marked_state PackageGraph.init
  simp only [except_bind_ok, pure, Except.pure, Except.ok.injEq]
  constructor
  · rintro ⟨pg, ⟨g, hg, e⟩, ⟨u, m⟩, hrun, e2⟩
    subst e; subst e2
    exact ⟨g, hg, hrun⟩
  · rintro ⟨g, hg, hrun⟩
    exact ⟨_, ⟨g, hg, rfl⟩, ((), marked), hrun, rfl⟩

/-- Every property of the freshly constructed package graph that the elementary changes
keep holds when the graph is serialized. -/
theorem marked_state_keeps (env : Env) (I : PlanState → Prop) (hI : StepClosed env I)
    (fuel : Nat) (specs : List FeatureSpec) (status_db : StatusParagraphs)
    (marked : PlanState) (h : marked_state env fuel specs status_db = Except.ok marked)
    (h0 : ∀ g, create_feature_install_graph env status_db = Except.ok g →
      I { m_graph := g, graph_plan := {} }) : I marked := by
  rw [marked_state_ok] at h
  obtain ⟨g, hg, hrun⟩ := h
  exact install_all_keeps env _ I hI fuel specs _ (h0 g hg) () marked hrun

/-! ## No self-edges -/

theorem no_self_edges_step_closed (env : Env) :
    StepClosed env (fun st => st.graph_plan.NoSelfEdges) := by
  intro st st' h hstep
  cases hstep with
  | get spec => exact h
  | set_plus cluster feature => exact h
  | set_minus cluster => exact h
  | insert_feature cluster feature => exact h
  | set_user_requested cluster => exact h
  | remove_vertex cluster =>
    intro v
    refine ⟨?_, (h v).2⟩
    simp only [Graph.adjacency_list_add_vertex]
    exact (h v).1
  | remove_edge cluster edge hne =>
    intro v
    refine ⟨?_, (h v).2⟩
    simp only [Graph.mem_adjacency_list_add_edge, not_or, not_and]
    refine ⟨?_, (h v).1⟩
    intro e1 e2
    exact hne (e1.symm.trans e2)
  | install_vertex cluster =>
    intro v
    refine ⟨(h v).1, ?_⟩
    simp only [Graph.adjacency_list_add_vertex]
    exact (h v).2
  | install_edge cluster depend hne =>
    intro v
    refine ⟨(h v).1, ?_⟩
    simp only [Graph.mem_adjacency_list_add_edge, not_or, not_and]
    refine ⟨?_, (h v).2⟩
    intro e1 e2
    exact hne (e2.symm.trans e1)

theorem wp_for_each_never {α : Type} (xs : List α) (body : α → Planner Unit) (x : α)
    (hx : x ∈ xs) (hbody : ∀ st, wp (body x) (fun _ _ => False) st) :
    ∀ st, wp (for_each xs body) (fun _ _ => False) st := by
  induction xs with
  | nil => simp at hx
  | cons y rest ih =>
    intro st
    simp only [for_each, wp_bind]
    rcases List.mem_cons.mp hx with e | hx
    · subst e
      exact wp_mono _ _ _ _ (hbody st) (fun _ _ hf => hf.elim)
    · intro r st1 _
      exact ih hx st1

/-- A remove edge from a cluster to itself makes `mark_minus` exit. -/
theorem mark_minus_self_edge_exits (env : Env) (pdf : List String) (fuel : Nat)
    (cluster : PackageSpec) (st : PlanState) (p_installed : ClusterInstalled)
    (hminus : (st.cluster env cluster).minus = false)
    (hinst : (st.cluster env cluster).installed = some p_installed)
    (hself : cluster ∈ p_installed.remove_edges) :
    wp (mark_minus env pdf fuel cluster) (fun _ _ => False) st := by
  cases fuel with
  | zero =>
    intro r st' h
    simp [mark_minus, marking] at h
  | succ n =>
    show wp (mark_minus_body env (marking env pdf n) cluster) (fun _ _ => False) st
    unfold mark_minus_body
    simp only [wp_bind, wp_get, wp_ite, wp_pure, wp_modify, hminus, Bool.false_eq_true,
      false_implies, not_false_eq_true, true_implies, true_and, PlanState.state_cluster_modify,
      if_true, hinst]
    split
    · simp only [wp_throw]
    · simp only [wp_bind, wp_modify]
      refine wp_mono _ _ _ _ (wp_for_each_never _ _ cluster hself ?_ _) (fun _ _ hf => hf.elim)
      intro st1
      unfold mark_minus_remove_edge
      simp only [wp_bind, wp_modify, wp_check_exit, ne_eq, not_true_eq_false, decide_False,
        Bool.false_eq_true, false_implies]

end Vcpkg

namespace Vcpkg

/-! ## The freshly constructed package graph -/

/-- The cluster view of the graph that `create_feature_install_graph` returns. -/
theorem create_feature_install_graph_cluster (env : Env) (status_db : StatusParagraphs)
    (g : ClusterGraph) (h : create_feature_install_graph env status_db = Except.ok g)
    (s : PackageSpec) :
    { ClusterGraph.cluster env g s with installed := none } =
      { new_cluster env s with
        transient_uninstalled := (last_installed status_db s).isNone } ∧
    (last_installed status_db s = none → (ClusterGraph.cluster env g s).installed = none) ∧
    (∀ ipv, last_installed status_db s = some ipv →
      ∃ i, (ClusterGraph.cluster env g s).installed = some i ∧ i.ipv = ipv ∧
        i.original_features = (cluster_installed_of ipv).original_features ∧
        ∀ x, x ∈ i.remove_edges ↔
          ∃ dependent ∈ status_db, dependent.spec = x ∧ s ∈ env.dependencies dependent) := by
  rcases create_feature_install_graph_result env status_db
    with ⟨g', hok, hrel, _⟩ | ⟨ipv, _, d, _, _, herr⟩
  · rw [h] at hok
    simp only [Except.ok.injEq] at hok
    subst hok
    obtain ⟨a, b, c⟩ := hrel s
    have hc := attach_installed_cluster env status_db [] s
    have hi := attach_installed_installed env status_db s
    refine ⟨?_, ?_, ?_⟩
    · rw [a, hc]
      cases last_installed status_db s with
      | none => rfl
      | some ipv => rfl
    · intro hnone
      apply b
      rw [hi, hnone]
      rfl
    · intro ipv hsome
      rw [hsome] at hi
      obtain ⟨i, h1, h2, h3, h4⟩ := c _ hi
      refine ⟨i, h1, h2, h3, ?_⟩
      intro x
      rw [h4]
      simp [cluster_installed_of]
  · rw [h] at herr
    cases herr

theorem step_frame (env : Env) (st st' : PlanState) (h : Step env st st') (s : PackageSpec) :
    (st'.cluster env s).spec = (st.cluster env s).spec ∧
    (st'.cluster env s).installed = (st.cluster env s).installed ∧
    (st'.cluster env s).source = (st.cluster env s).source := by
  cases h with
  | get spec => simp
  | set_plus cluster feature =>
    simp only [PlanState.state_cluster_modify]
    split
    · rename_i e; subst e; exact ⟨rfl, rfl, rfl⟩
    · exact ⟨rfl, rfl, rfl⟩
  | set_minus cluster =>
    simp only [PlanState.state_cluster_modify]
    split
    · rename_i e; subst e; exact ⟨rfl, rfl, rfl⟩
    · exact ⟨rfl, rfl, rfl⟩
  | insert_feature cluster feature =>
    simp only [PlanState.state_cluster_modify]
    split
    · rename_i e; subst e; exact ⟨rfl, rfl, rfl⟩
    · exact ⟨rfl, rfl, rfl⟩
  | set_user_requested cluster =>
    simp only [PlanState.state_cluster_modify]
    split
    · rename_i e; subst e; exact ⟨rfl, rfl, rfl⟩
    · exact ⟨rfl, rfl, rfl⟩
  | remove_vertex cluster => exact ⟨rfl, rfl, rfl⟩
  | remove_edge cluster edge hne => exact ⟨rfl, rfl, rfl⟩
  | install_vertex cluster => exact ⟨rfl, rfl, rfl⟩
  | install_edge cluster depend hne => exact ⟨rfl, rfl, rfl⟩

theorem well_keyed_step_closed (env : Env) : StepClosed env (fun st => st.WellKeyed env) := by
  intro st st' h hstep
  obtain ⟨h1, h2, h3, h4⟩ := h
  have hf := step_frame env st st' hstep
  refine ⟨?_, ?_, ?_, ?_⟩
  · intro s; rw [(hf s).1]; exact h1 s
  · intro s installed hi; rw [(hf s).2.1] at hi; exact h2 s installed hi
  · cases hstep with
    | get spec => exact h3
    | set_plus cluster feature => exact h3
    | set_minus cluster => exact h3
    | insert_feature cluster feature => exact h3
    | set_user_requested cluster => exact h3
    | remove_vertex cluster => exact Graph.nodup_add_vertex _ _ h3
    | remove_edge cluster edge hne => exact Graph.nodup_add_edge _ _ _ h3
    | install_vertex cluster => exact h3
    | install_edge cluster depend hne => exact h3
  · cases hstep with
    | get spec => exact h4
    | set_plus cluster feature => exact h4
    | set_minus cluster => exact h4
    | insert_feature cluster feature => exact h4
    | set_user_requested cluster => exact h4
    | remove_vertex cluster => exact h4
    | remove_edge cluster edge hne => exact h4
    | install_vertex cluster => exact Graph.nodup_add_vertex _ _ h4
    | install_edge cluster depend hne => exact Graph.nodup_add_edge _ _ _ h4

theorem init_well_keyed (env : Env) (status_db : StatusParagraphs) (g : ClusterGraph)
    (h : create_feature_install_graph env status_db = Except.ok g) :
    PlanState.WellKeyed env { m_graph := g, graph_plan := {} } := by
  refine ⟨?_, ?_, ?_, ?_⟩
  · intro s
    have := (create_feature_install_graph_cluster env status_db g h s).1
    have e := congrArg Cluster.spec this
    exact e
  · intro s installed hi
    obtain ⟨_, hnone, hsome⟩ := create_feature_install_graph_cluster env status_db g h s
    cases hl : last_installed status_db s with
    | none =>
      have := hnone hl
      rw [PlanState.cluster] at hi
      rw [this] at hi
      cases hi
    | some ipv =>
      obtain ⟨i, hi', e, _⟩ := hsome ipv hl
      rw [PlanState.cluster] at hi
      rw [hi'] at hi
      simp only [Option.some.injEq] at hi
      subst hi
      rw [e]
      exact (last_installed_some _ _ _ hl).2
  · exact List.nodup_nil
  · exact List.nodup_nil

theorem marked_state_well_keyed (env : Env) (fuel : Nat) (specs : List FeatureSpec)
    (status_db : StatusParagraphs) (marked : PlanState)
    (h : marked_state env fuel specs status_db = Except.ok marked) : marked.WellKeyed env :=
  marked_state_keeps env _ (well_keyed_step_closed env) fuel specs status_db marked h
    (fun g hg => init_well_keyed env status_db g hg)

/-! ## Install order -/

theorem mem_sort_unique_erase (specs : List PackageSpec) (x : PackageSpec) :
    x ∈ sort_unique_erase specs ↔ x ∈ specs := by
  unfold sort_unique_erase
  have key : ∀ (l acc : List PackageSpec),
      x ∈ l.foldl (fun sorted spec => set_insert PackageSpec.less spec sorted) acc ↔
        x ∈ acc ∨ x ∈ l := by
    intro l
    induction l with
    | nil => intro acc; simp
    | cons y rest ih =>
      intro acc
      simp only [List.foldl_cons, ih, mem_set_insert, List.mem_cons]
      tauto
  rw [key]
  simp

/-- The spec of the install action emitted for a vertex is the vertex. -/
theorem serialize_install_spec (env : Env) (st : PlanState) (hwk : st.WellKeyed env)
    (vs : List PackageSpec) :
    ∀ plan, serialize_install env st vs = Except.ok plan →
      ∀ x ∈ plan, ∃ a, x = AnyAction.install_action a ∧ a.spec ∈ vs := by
  induction vs with
  | nil =>
    intro plan h x hx
    simp only [serialize_install, pure, Except.pure, Except.ok.injEq] at h
    subst h
    simp at hx
  | cons p rest ih =>
    intro plan h x hx
    obtain ⟨tail, ht, hcase⟩ := serialize_install_cons_ok env st p rest plan h
    have htail : ∀ x ∈ tail, ∃ a, x = AnyAction.install_action a ∧ a.spec ∈ p :: rest := by
      intro x hx
      obtain ⟨a, e, ha⟩ := ih tail ht x hx
      exact ⟨a, e, List.mem_cons_of_mem _ ha⟩
    rcases hcase with ⟨e, _, _⟩ | ⟨source, _, _, e⟩ | ⟨installed, _, _, hi, e⟩
    · subst e; exact htail x hx
    · subst e
      rcases List.mem_cons.mp hx with hx | hx
      · refine ⟨_, hx, ?_⟩
        simp only [hwk.1 p, List.mem_cons, true_or]
      · exact htail x hx
    · subst e
      rcases List.mem_cons.mp hx with hx | hx
      · refine ⟨_, hx, ?_⟩
        simp only [hwk.2.1 p installed hi, List.mem_cons, true_or]
      · exact htail x hx

theorem listed_before_cons (x : PackageSpec) (rest : List PackageSpec) (u v : PackageSpec)
    (h : ListedBefore (x :: rest) u v) (_hv : v ≠ x) :
    u = x ∨ ListedBefore rest u v := by
  obtain ⟨pre, post, e, hu⟩ := h
  cases pre with
  | nil => simp at hu
  | cons y pre' =>
    simp only [List.cons_append, List.cons.injEq] at e
    obtain ⟨e1, e2⟩ := e
    subst e1
    rcases List.mem_cons.mp hu with hu | hu
    · exact Or.inl hu
    · exact Or.inr ⟨pre', post, e2, hu⟩

theorem listed_before_mem (sorted : List PackageSpec) (u v : PackageSpec)
    (h : ListedBefore sorted u v) : u ∈ sorted ∧ v ∈ sorted := by
  obtain ⟨pre, post, e, hu⟩ := h
  subst e
  simp [hu]

theorem listed_before_irrefl (sorted : List PackageSpec) (hnd : sorted.Nodup) (v : PackageSpec) :
    ¬ ListedBefore sorted v v := by
  rintro ⟨pre, post, e, hu⟩
  subst e
  rw [List.nodup_append] at hnd
  exact hnd.2.2 hu (List.mem_cons_self _ _)

/-- The install actions keep the order of the sorted vertices. -/
theorem serialize_install_order (env : Env) (st : PlanState) (hwk : st.WellKeyed env)
    (vs : List PackageSpec) :
    vs.Nodup → ∀ plan, serialize_install env st vs = Except.ok plan →
      ∀ (i j : Nat) (a b : InstallPlanAction),
        plan[i]? = some (AnyAction.install_action a) →
        plan[j]? = some (AnyAction.install_action b) →
        ListedBefore vs b.spec a.spec → j < i := by
  induction vs with
  | nil =>
    intro _ plan h i j a b hi _ _
    simp only [serialize_install, pure, Except.pure, Except.ok.injEq] at h
    subst h
    simp at hi
  | cons p rest ih =>
    intro hnd plan h i j a b hi hj hbefore
    obtain ⟨tail, ht, hcase⟩ := serialize_install_cons_ok env st p rest plan h
    have hnd' := (List.nodup_cons.mp hnd).2
    have hp := (List.nodup_cons.mp hnd).1
    have hspec := serialize_install_spec env st hwk rest tail ht
    have hne : a.spec ≠ b.spec := by
      intro e
      rw [e] at hbefore
      exact listed_before_irrefl _ hnd _ hbefore
    -- an action of the tail whose spec is listed after another one in `p :: rest`
    have tail_case : ∀ (i' j' : Nat), tail[i']? = some (AnyAction.install_action a) →
        tail[j']? = some (AnyAction.install_action b) → j' < i' := by
      intro i' j' hi' hj'
      obtain ⟨a', ea, ha⟩ := hspec _ (List.getElem?_mem hi')
      obtain ⟨b', eb, hb⟩ := hspec _ (List.getElem?_mem hj')
      cases ea; cases eb
      have hva : a.spec ≠ p := fun e => hp (e ▸ ha)
      rcases listed_before_cons p rest _ _ hbefore hva with e | hb'
      · exact absurd (e ▸ hb) hp
      · exact ih hnd' tail ht i' j' a b hi' hj' hb'
    rcases hcase with ⟨e, _, _⟩ | ⟨source, _, _, e⟩ | ⟨installed, _, _, hinst, e⟩
    · subst e; exact tail_case i j hi hj
    all_goals
      subst e
      cases i with
      | zero =>
        -- the action for `a` is the head: its spec is `p`, and nothing is listed before it
        simp only [List.getElem?_cons_zero, Option.some.injEq, AnyAction.install_action.injEq] at hi
        have hap : a.spec = p := by
          rw [← hi]
          first
            | exact hwk.1 p
            | exact hwk.2.1 p installed hinst
        obtain ⟨pre, post, e, hu⟩ := hbefore
        cases pre with
        | nil => simp at hu
        | cons y pre' =>
          simp only [List.cons_append, List.cons.injEq] at e
          have : a.spec ∈ rest := by rw [e.2]; simp
          exact absurd (hap ▸ this) hp
      | succ i' =>
        cases j with
        | zero => omega
        | succ j' =>
          simp only [List.getElem?_cons_succ] at hi hj
          have := tail_case i' j' hi hj
          omega

theorem ordered_from_listed (g : Graph) :
    ∀ (sorted seen : List PackageSpec), g.ordered_from seen sorted = true →
      ∀ pre v post, sorted = pre ++ v :: post →
        ∀ w ∈ g.adjacency_list v, w ∈ seen ∨ w ∈ pre := by
  intro sorted
  induction sorted with
  | nil =>
    intro seen _ pre v post e
    simp at e
  | cons x rest ih =>
    intro seen h pre v post e w hw
    simp only [Graph.ordered_from, Bool.and_eq_true, List.all_eq_true, decide_eq_true_eq] at h
    cases pre with
    | nil =>
      simp only [List.nil_append, List.cons.injEq] at e
      obtain ⟨e1, _⟩ := e
      subst e1
      exact Or.inl (h.1 w hw)
    | cons y pre' =>
      simp only [List.cons_append, List.cons.injEq] at e
      obtain ⟨e1, e2⟩ := e
      subst e1
      rcases ih (x :: seen) h.2 pre' v post e2 w hw with h1 | h1
      · rcases List.mem_cons.mp h1 with h1 | h1
        · exact Or.inr (h1 ▸ List.mem_cons_self _ _)
        · exact Or.inl h1
      · exact Or.inr (List.mem_cons_of_mem _ h1)

end Vcpkg

namespace Vcpkg

/-! ## The search-based topological sort meets the contract -/

theorem search_topological_sort_some (vertices : List PackageSpec) (g : Graph)
    (sorted : List PackageSpec) (h : search_topological_sort vertices g = some sorted) :
    sorted.Perm vertices ∧ g.ordered_from [] sorted = true := by
  unfold search_topological_sort at h
  have h1 := List.mem_of_find?_eq_some h
  have h2 := List.find?_some h
  exact ⟨List.mem_permutations'.mp h1, h2⟩

theorem search_topological_sort_none (vertices : List PackageSpec) (g : Graph)
    (h : search_topological_sort vertices g = none) (sorted : List PackageSpec)
    (hp : sorted.Perm vertices) : g.ordered_from [] sorted ≠ true := by
  unfold search_topological_sort at h
  rw [List.find?_eq_none] at h
  exact h sorted (List.mem_permutations'.mpr hp)

theorem catalog_env_topological_sort_spec (ports : List (String × SourceControlFile)) :
    (catalog_env ports).TopologicalSortSpec := by
  intro g
  show match search_topological_sort g.vertex_list g with
    | some sorted => g.TopologicalOrder sorted
    | none => ∀ sorted, ¬ g.TopologicalOrder sorted
  cases h : search_topological_sort g.vertex_list g with
  | some sorted => exact search_topological_sort_some _ _ _ h
  | none =>
    intro sorted ⟨hp, ho⟩
    exact search_topological_sort_none _ _ h sorted hp ho

theorem catalog_env_topological_sort_ordered (ports : List (String × SourceControlFile)) :
    (catalog_env ports).TopologicalSortOrdered := by
  intro g sorted hnd h
  obtain ⟨hp, ho⟩ := search_topological_sort_some _ _ _ h
  exact ⟨hp.nodup_iff.mpr hnd, ho⟩

/-! ## Remove-before-install (C7) -/

/-- C7 (remove-before-install): in every action list returned by `PackageGraph::serialize`,
and so in every plan returned by `create_feature_install_plan`, every `RemovePlanAction`
occurs at a smaller index than every `InstallPlanAction`; in particular the remove action of
a spec precedes the install action of the same spec. -/
theorem remove_before_install (env : Env) (plan : List AnyAction)
    (h : (∃ st, PackageGraph.serialize env st = Except.ok plan) ∨
      (∃ fuel specs status_db,
        create_feature_install_plan env fuel specs status_db = Except.ok plan))
    (i j : Nat) (r : RemovePlanAction) (a : InstallPlanAction)
    (hi : plan[i]? = some (AnyAction.remove_action r))
    (hj : plan[j]? = some (AnyAction.install_action a)) : i < j := by
  rcases h with ⟨st, h⟩ | ⟨fuel, specs, status_db, h⟩
  · exact serialize_remove_before_install env st plan h i j r a hi hj
  · obtain ⟨marked, _, h2⟩ := (create_feature_install_plan_ok env fuel specs status_db plan).mp h
    exact serialize_remove_before_install env marked plan h2 i j r a hi hj

set_option maxRecDepth 100000 in
/-- The plan of the scenario "feature addition on an installed package" removes `curl` at
index 0 and installs it at index 1. -/
theorem remove_before_install_witness :
    create_feature_install_plan curl_env 10 [⟨⟨"curl", x64_linux⟩, "ssl"⟩] curl_status_db =
        Except.ok curl_plan ∧ (0 : Nat) < 1 :=
  ⟨by decide,
    remove_before_install curl_env curl_plan
      (Or.inr ⟨10, [⟨⟨"curl", x64_linux⟩, "ssl"⟩], curl_status_db, by decide⟩) 0 1
      { spec := ⟨"curl", x64_linux⟩
        plan_type := RemovePlanType.REMOVE
        request_type := RequestType.USER_REQUESTED }
      { spec := ⟨"curl", x64_linux⟩
        feature_list := ["core", "ssl"]
        computed_dependencies := [⟨"openssl", x64_linux⟩]
        plan_type := InstallPlanType.BUILD_AND_INSTALL
        request_type := RequestType.USER_REQUESTED
        build_action := some (make_port "curl" [] [] [("ssl", ["openssl[core]"])])
        installed_package := none }
      (by decide) (by decide)⟩

/-! ## Install order (C8) -/

/-- What a `BUILD_AND_INSTALL` action of the serialized plan is made of. -/
theorem serialize_install_build (env : Env) (st : PlanState) (hwk : st.WellKeyed env)
    (vs : List PackageSpec) :
    ∀ plan, serialize_install env st vs = Except.ok plan →
      ∀ a, AnyAction.install_action a ∈ plan →
        a.plan_type = InstallPlanType.BUILD_AND_INSTALL →
          a.spec ∈ vs ∧
          (st.cluster env a.spec).transient_uninstalled = true ∧
          a.feature_list = (st.cluster env a.spec).to_install_features ∧
          a.computed_dependencies =
            sort_unique_erase ((st.graph_plan.install_graph.adjacency_list a.spec).map
              (fun q => (st.cluster env q).spec)) := by
  induction vs with
  | nil =>
    intro plan h a ha _
    simp only [serialize_install, pure, Except.pure, Except.ok.injEq] at h
    subst h
    simp at ha
  | cons p rest ih =>
    intro plan h a ha hb
    obtain ⟨tail, ht, hcase⟩ := serialize_install_cons_ok env st p rest plan h
    have htail : AnyAction.install_action a ∈ tail →
        a.spec ∈ p :: rest ∧
        (st.cluster env a.spec).transient_uninstalled = true ∧
        a.feature_list = (st.cluster env a.spec).to_install_features ∧
        a.computed_dependencies =
          sort_unique_erase ((st.graph_plan.install_graph.adjacency_list a.spec).map
            (fun q => (st.cluster env q).spec)) := by
      intro hx
      obtain ⟨h1, h2⟩ := ih tail ht a hx hb
      exact ⟨List.mem_cons_of_mem _ h1, h2⟩
    rcases hcase with ⟨e, _, _⟩ | ⟨source, htr, _, e⟩ | ⟨installed, _, _, hi, e⟩
    · subst e; exact htail ha
    · subst e
      rcases List.mem_cons.mp ha with hx | hx
      · simp only [AnyAction.install_action.injEq] at hx
        subst hx
        simp only [hwk.1 p, List.mem_cons, true_or, htr, and_self]
      · exact htail hx
    · subst e
      rcases List.mem_cons.mp ha with hx | hx
      · simp only [AnyAction.install_action.injEq] at hx
        subst hx
        cases hb
      · exact htail hx

/-- C8 (install order): in every plan returned by `create_feature_install_plan`, assuming
`Graphs::topological_sort` lists each vertex once and after all vertices of its adjacency
list, if a `BUILD_AND_INSTALL` action `a` lists the spec of an install action `d` of the plan
in `computed_dependencies`, then `d` occurs before `a`. -/
theorem install_order (env : Env) (hsort : env.TopologicalSortOrdered) (fuel : Nat)
    (specs : List FeatureSpec) (status_db : StatusParagraphs) (plan : List AnyAction)
    (h : create_feature_install_plan env fuel specs status_db = Except.ok plan)
    (i j : Nat) (a d : InstallPlanAction)
    (hi : plan[i]? = some (AnyAction.install_action a))
    (hbuild : a.plan_type = InstallPlanType.BUILD_AND_INSTALL)
    (hj : plan[j]? = some (AnyAction.install_action d))
    (hdep : d.spec ∈ a.computed_dependencies) : j < i := by
  obtain ⟨marked, hm, hs⟩ := (create_feature_install_plan_ok env fuel specs status_db plan).mp h
  have hwk := marked_state_well_keyed env fuel specs status_db marked hm
  obtain ⟨rs, is, installs, _, htopo, hinst, hplan⟩ := serialize_ok env marked plan hs
  obtain ⟨hnd, hord⟩ := hsort _ _ hwk.2.2.2 htopo
  subst hplan
  -- both actions are in the install part of the plan
  have hlen : ∀ (k : Nat) (x : InstallPlanAction),
      (serialize_remove env marked rs ++ installs)[k]? = some (AnyAction.install_action x) →
        (serialize_remove env marked rs).length ≤ k := by
    intro k x hk
    by_contra hlt
    have hlt : k < (serialize_remove env marked rs).length := by omega
    rw [List.getElem?_append_left hlt] at hk
    have hmem := List.getElem?_mem hk
    simp only [serialize_remove, List.mem_map] at hmem
    obtain ⟨_, _, e⟩ := hmem
    cases e
  have hi1 := hlen i a hi
  have hj1 := hlen j d hj
  rw [List.getElem?_append_right hi1] at hi
  rw [List.getElem?_append_right hj1] at hj
  obtain ⟨ha_mem, _, _, hdeps⟩ :=
    serialize_install_build env marked hwk is installs hinst a (List.getElem?_mem hi) hbuild
  -- the dependency is in the adjacency list of the vertex of `a`
  have hadj : d.spec ∈ marked.graph_plan.install_graph.adjacency_list a.spec := by
    rw [hdeps, mem_sort_unique_erase, List.mem_map] at hdep
    obtain ⟨q, hq, e⟩ := hdep
    rw [hwk.1 q] at e
    exact e ▸ hq
  obtain ⟨pre, post, e⟩ := List.append_of_mem ha_mem
  have hbefore : ListedBefore is d.spec a.spec := by
    refine ⟨pre, post, e, ?_⟩
    rcases ordered_from_listed _ _ _ hord pre a.spec post e d.spec hadj with h1 | h1
    · simp at h1
    · exact h1
  have := serialize_install_order env marked hwk is hnd installs hinst _ _ a d hi hj hbefore
  omega

set_option maxRecDepth 100000 in
/-- Installing `a[core]`, whose core depends on `b`, on an empty installation: the install
action for `b` (index 0) comes before the one for `a` (index 1). -/
theorem install_order_witness :
    create_feature_install_plan ab_env 10 [⟨⟨"a", x64_linux⟩, "core"⟩] [] =
        Except.ok [AnyAction.install_action ab_install_b, AnyAction.install_action ab_install_a] ∧
      (0 : Nat) < 1 :=
  ⟨by decide,
    install_order ab_env (catalog_env_topological_sort_ordered _) 10
      [⟨⟨"a", x64_linux⟩, "core"⟩] []
      [AnyAction.install_action ab_install_b, AnyAction.install_action ab_install_a]
      (by decide) 1 0 ab_install_a ab_install_b (by decide) (by decide) (by decide)
      (by decide)⟩

/-! ## No self-edges (C9) -/

/-- C9 (no self-edges): from a state whose plan has no edge from a cluster to itself (such
as the empty plan of a new `PackageGraph`), every state in which `mark_plus`, `mark_minus`
or `follow_plus_dependencies` returns has no such edge either, neither in the remove graph
nor in the install graph; and `mark_minus` on an installed, not yet marked cluster that is
among its own remove edges does not return: the self-dependency is a fatal error. -/
theorem marking_no_self_edges (env : Env) (prevent_default_features : List String)
    (fuel : Nat) (st : PlanState) (h0 : st.graph_plan.NoSelfEdges) :
    (∀ feature cluster r st',
      (mark_plus env prevent_default_features fuel feature cluster).run st = Except.ok (r, st') →
        st'.graph_plan.NoSelfEdges) ∧
    (∀ cluster r st',
      (mark_minus env prevent_default_features fuel cluster).run st = Except.ok (r, st') →
        st'.graph_plan.NoSelfEdges) ∧
    (∀ feature cluster r st',
      (follow_plus_dependencies env prevent_default_features fuel feature cluster).run st =
          Except.ok (r, st') →
        st'.graph_plan.NoSelfEdges) ∧
    (∀ cluster p_installed,
      (st.cluster env cluster).minus = false →
      (st.cluster env cluster).installed = some p_installed →
      cluster ∈ p_installed.remove_edges →
        ∀ r st',
          (mark_minus env prevent_default_features fuel cluster).run st ≠ Except.ok (r, st')) := by
  have hk := marking_keeps env prevent_default_features _ (no_self_edges_step_closed env) fuel
  refine ⟨?_, ?_, ?_, ?_⟩
  · intro feature cluster r st' hrun
    exact hk.1 feature cluster st h0 r st' hrun
  · intro cluster r st' hrun
    exact hk.2.1 cluster st h0 r st' hrun
  · intro feature cluster r st' hrun
    exact hk.2.2 feature cluster st h0 r st' hrun
  · intro cluster p_installed hminus hinst hself r st' hrun
    exact mark_minus_self_edge_exits env prevent_default_features fuel cluster st p_installed
      hminus hinst hself r st' hrun

theorem no_self_edges_empty : ({} : PlanState).graph_plan.NoSelfEdges := by
  intro v
  simp [Graph.adjacency_list, AssocMap.find]

set_option maxRecDepth 100000 in
/-- Marking `a[core]`, whose core depends on `b`, from the empty state returns in a state
without self-edges. -/
theorem marking_no_self_edges_witness :
    (mark_plus ab_env [] 10 "core" ⟨"a", x64_linux⟩).run {} =
        Except.ok (MarkPlusResult.SUCCESS, ab_marked) ∧
      ab_marked.graph_plan.NoSelfEdges :=
  ⟨by decide,
    (marking_no_self_edges ab_env [] 10 {} no_self_edges_empty).1 "core" ⟨"a", x64_linux⟩
      MarkPlusResult.SUCCESS ab_marked (by decide)⟩

/-! ## Reverse edges (C10) -/

/-- C10 (reverse-edge completeness and exactness): when `create_feature_install_graph`
succeeds, every installed package `B` has a cluster whose installed half has as
`remove_edges` exactly the specs of the installed packages whose direct dependencies contain
`B`; construction fails with the "database corrupted" error exactly when some installed
package has a direct dependency that is not installed, and succeeds otherwise. -/
theorem reverse_edges_exact (env : Env) (status_db : StatusParagraphs) :
    (∀ g, create_feature_install_graph env status_db = Except.ok g →
      ∀ B ∈ status_db, ∃ cluster installed,
        AssocMap.find g B.spec = some cluster ∧ cluster.installed = some installed ∧
        ∀ s, s ∈ installed.remove_edges ↔
          ∃ A ∈ status_db, A.spec = s ∧ B.spec ∈ env.dependencies A) ∧
    ((∃ A d, create_feature_install_graph env status_db =
        Except.error (Failure.fatal (FatalError.database_corrupted A d))) ↔
      ∃ A ∈ status_db, ∃ d ∈ env.dependencies A, ∀ B ∈ status_db, B.spec ≠ d) ∧
    ((∃ g, create_feature_install_graph env status_db = Except.ok g) ↔
      ¬ ∃ A ∈ status_db, ∃ d ∈ env.dependencies A, ∀ B ∈ status_db, B.spec ≠ d) := by
  have hres := create_feature_install_graph_result env status_db
  refine ⟨?_, ?_, ?_⟩
  · intro g hg B hB
    obtain ⟨ipv, hl⟩ := (last_installed_isSome status_db B.spec).mpr ⟨B, hB, rfl⟩
    obtain ⟨_, _, hsome⟩ := create_feature_install_graph_cluster env status_db g hg B.spec
    obtain ⟨i, hi, _, _, hmem⟩ := hsome ipv hl
    exact ⟨_, i, find_of_installed env g B.spec i hi, hi, hmem⟩
  · constructor
    · rintro ⟨A, d, herr⟩
      rcases hres with ⟨g, hok, _⟩ | ⟨ipv, hipv, d', hd', hmiss, _⟩
      · rw [hok] at herr; cases herr
      · exact ⟨ipv, hipv, d', hd', hmiss⟩
    · rintro ⟨A, hA, d, hd, hmiss⟩
      rcases hres with ⟨g, _, _, hall⟩ | ⟨ipv, _, d', _, _, herr⟩
      · obtain ⟨dep, hdep, e⟩ := hall A hA d hd
        exact absurd e (hmiss dep hdep)
      · exact ⟨_, _, herr⟩
  · constructor
    · rintro ⟨g, hg⟩ ⟨A, hA, d, hd, hmiss⟩
      rcases hres with ⟨g', _, _, hall⟩ | ⟨ipv, _, d', _, _, herr⟩
      · obtain ⟨dep, hdep, e⟩ := hall A hA d hd
        exact absurd e (hmiss dep hdep)
      · rw [hg] at herr; cases herr
    · intro hno
      rcases hres with ⟨g, hok, _⟩ | ⟨ipv, hipv, d', hd', hmiss, _⟩
      · exact ⟨g, hok⟩
      · exact absurd ⟨ipv, hipv, d', hd', hmiss⟩ hno

end Vcpkg

namespace Vcpkg

/-! ## Running the marking procedures step by step -/

theorem mark_plus_run_marked (env : Env) (pdf : List String) (n : Nat) (feature : String)
    (cluster : PackageSpec) (st : PlanState)
    (h : (st.cluster env cluster).plus_of feature = true) :
    (mark_plus env pdf (n + 1) feature cluster).run st =
      Except.ok (MarkPlusResult.SUCCESS, st) := by
  show (mark_plus_body env (marking env pdf n) feature cluster).run st = _
  unfold mark_plus_body
  simp only [Planner.run_bind, Planner.run_get, Planner.run_ite, Planner.run_pure, h, if_true]

theorem mark_plus_run_installed (env : Env) (pdf : List String) (n : Nat) (feature : String)
    (cluster : PackageSpec) (st : PlanState) (source : ClusterSource)
    (installed : ClusterInstalled)
    (hplus : (st.cluster env cluster).plus_of feature = false)
    (hsource : (st.cluster env cluster).source = some source)
    (hf1 : feature ≠ "") (hf2 : feature ≠ "*")
    (hinst : (st.cluster env cluster).installed = some installed)
    (hmem : feature ∈ installed.original_features) :
    (mark_plus env pdf (n + 1) feature cluster).run st =
      Except.ok (MarkPlusResult.SUCCESS,
        st.modify env cluster (fun c => { c with plus := AssocMap.set c.plus feature true })) := by
  show (mark_plus_body env (marking env pdf n) feature cluster).run st = _
  unfold mark_plus_body
  simp only [Planner.run_bind, Planner.run_get, Planner.run_ite, Planner.run_pure,
    Planner.run_modify, hplus, Bool.false_eq_true, if_false, PlanState.state_cluster_modify,
    if_true, hsource, hf1, hf2, hinst, hmem]

theorem mark_plus_run_rebuild (env : Env) (pdf : List String) (n : Nat) (feature : String)
    (cluster : PackageSpec) (st : PlanState) (source : ClusterSource)
    (hplus : (st.cluster env cluster).plus_of feature = false)
    (hsource : (st.cluster env cluster).source = some source)
    (hf1 : feature ≠ "") (hf2 : feature ≠ "*")
    (hmem : ∀ installed, (st.cluster env cluster).installed = some installed →
      feature ∉ installed.original_features) :
    (mark_plus env pdf (n + 1) feature cluster).run st =
      (mark_minus env pdf n cluster >>= fun _ =>
        follow_plus_dependencies env pdf n feature cluster).run
        (st.modify env cluster (fun c => { c with plus := AssocMap.set c.plus feature true })) := by
  show (mark_plus_body env (marking env pdf n) feature cluster).run st = _
  unfold mark_plus_body
  simp only [Planner.run_bind, Planner.run_get, Planner.run_ite, Planner.run_pure,
    Planner.run_modify, hplus, Bool.false_eq_true, if_false, PlanState.state_cluster_modify,
    if_true, hsource, hf1, hf2]
  cases hinst : (st.cluster env cluster).installed with
  | none => simp only [List.not_mem_nil, if_false]; rfl
  | some installed => simp only [hmem installed hinst, if_false]; rfl

theorem mark_plus_run_default (env : Env) (pdf : List String) (n : Nat)
    (cluster : PackageSpec) (st : PlanState) (source : ClusterSource)
    (hplus : (st.cluster env cluster).plus_of "" = false)
    (hsource : (st.cluster env cluster).source = some source) :
    (mark_plus env pdf (n + 1) "" cluster).run st =
      (first_failure source.scf.core_paragraph.default_features
          (fun default_feature => mark_plus env pdf n default_feature cluster) >>= fun res =>
        if res ≠ MarkPlusResult.SUCCESS then pure res
        else mark_plus env pdf n "core" cluster).run
        (st.modify env cluster (fun c => { c with plus := AssocMap.set c.plus "" true })) := by
  show (mark_plus_body env (marking env pdf n) "" cluster).run st = _
  unfold mark_plus_body
  simp only [Planner.run_bind, Planner.run_get, Planner.run_ite, Planner.run_pure,
    Planner.run_modify, hplus, Bool.false_eq_true, if_false, PlanState.state_cluster_modify,
    if_true, hsource]
  rfl

theorem mark_minus_run_marked (env : Env) (pdf : List String) (n : Nat)
    (cluster : PackageSpec) (st : PlanState) (h : (st.cluster env cluster).minus = true) :
    (mark_minus env pdf (n + 1) cluster).run st = Except.ok ((), st) := by
  show (mark_minus_body env (marking env pdf n) cluster).run st = _
  unfold mark_minus_body
  simp only [Planner.run_bind, Planner.run_get, Planner.run_ite, Planner.run_pure, h, if_true]

theorem mark_minus_run_not_installed (env : Env) (pdf : List String) (n : Nat)
    (cluster : PackageSpec) (st : PlanState) (source : ClusterSource)
    (hminus : (st.cluster env cluster).minus = false)
    (hsource : (st.cluster env cluster).source = some source)
    (hinst : (st.cluster env cluster).installed = none) :
    (mark_minus env pdf (n + 1) cluster).run st =
      Except.ok ((), st.modify env cluster (fun c =>
        { c with minus := true, transient_uninstalled := true })) := by
  show (mark_minus_body env (marking env pdf n) cluster).run st = _
  unfold mark_minus_body
  simp only [Planner.run_bind, Planner.run_get, Planner.run_ite, Planner.run_pure,
    Planner.run_modify, hminus, Bool.false_eq_true, if_false, PlanState.state_cluster_modify,
    if_true, hsource, hinst]

theorem follow_plus_dependencies_run_found (env : Env) (pdf : List String) (n : Nat)
    (feature : String) (cluster : PackageSpec) (st : PlanState) (source : ClusterSource)
    (build_edges : List FeatureSpec)
    (hsource : (st.cluster env cluster).source = some source)
    (hedges : AssocMap.find source.build_edges feature = some build_edges) :
    (follow_plus_dependencies env pdf (n + 1) feature cluster).run st =
      (mark_minus env pdf n cluster >>= fun _ =>
        (modify (fun st => { st with graph_plan :=
          { st.graph_plan with
            install_graph := st.graph_plan.install_graph.add_vertex cluster } }) :
          Planner Unit) >>= fun _ =>
        (modify (fun st => st.modify env cluster (fun c =>
          { c with
            to_install_features := set_insert string_less feature c.to_install_features })) :
          Planner Unit) >>= fun _ =>
        (if feature ≠ "core" then
          mark_plus env pdf n "core" cluster >>= fun res =>
            check_exit (res = MarkPlusResult.SUCCESS)
              (FatalError.check_failed "follow_plus_dependencies")
        else pure ()) >>= fun _ =>
        get >>= fun st =>
        (if (st.cluster env cluster).installed.isNone ∧ cluster.name ∉ pdf then
          mark_plus env pdf n "" cluster >>= fun res =>
            check_exit (res = MarkPlusResult.SUCCESS)
              (FatalError.unsatisfied_default_dependencies cluster)
        else pure ()) >>= fun _ =>
        for_each build_edges
          (follow_plus_dependencies_edge env (marking env pdf n) feature cluster) >>= fun _ =>
        pure MarkPlusResult.SUCCESS).run st := by
  show (follow_plus_dependencies_body env pdf (marking env pdf n) feature cluster).run st = _
  unfold follow_plus_dependencies_body
  simp only [Planner.run_bind, Planner.run_get, hsource, hedges]
  rfl

theorem follow_plus_dependencies_run_not_found (env : Env) (pdf : List String) (n : Nat)
    (feature : String) (cluster : PackageSpec) (st : PlanState)
    (h : ∀ source, (st.cluster env cluster).source = some source →
      AssocMap.find source.build_edges feature = none) :
    (follow_plus_dependencies env pdf (n + 1) feature cluster).run st =
      Except.ok (MarkPlusResult.FEATURE_NOT_FOUND, st) := by
  show (follow_plus_dependencies_body env pdf (marking env pdf n) feature cluster).run st = _
  unfold follow_plus_dependencies_body
  simp only [Planner.run_bind, Planner.run_get]
  cases hs : (st.cluster env cluster).source with
  | none => rfl
  | some source => simp only [h source hs, Planner.run_pure]

theorem install_run (env : Env) (pdf : List String) (fuel : Nat) (spec : FeatureSpec)
    (st : PlanState) :
    (PackageGraph.install env fuel spec pdf).run st =
      (mark_plus env pdf fuel spec.feature spec.spec >>= fun res =>
        check_exit (res = MarkPlusResult.SUCCESS)
          (FatalError.not_a_feature spec.feature spec.name) >>= fun _ =>
        modify (fun st => { st with graph_plan :=
          { st.graph_plan with
            install_graph := st.graph_plan.install_graph.add_vertex spec.spec } })).run
        ((st.get env spec.spec).modify env spec.spec (fun c =>
          { c with request_type := RequestType.USER_REQUESTED })) := by
  unfold PackageGraph.install
  simp only [Planner.run_bind, Planner.run_modify]

end Vcpkg

namespace Vcpkg

theorem topological_sort_unique (env : Env) (hsort : env.TopologicalSortSpec) (g : Graph)
    (sorted : List PackageSpec) (h : g.TopologicalOrder sorted)
    (huniq : ∀ l, g.TopologicalOrder l → l = sorted) :
    env.topological_sort g.vertex_list g = some sorted := by
  have := hsort g
  cases hr : env.topological_sort g.vertex_list g with
  | none =>
    rw [hr] at this
    exact absurd h (this sorted)
  | some l =>
    rw [hr] at this
    rw [huniq l this]

theorem find_emplace {κ ν : Type} [DecidableEq κ] (m : List (κ × ν)) (k k' : κ) (v : ν) :
    AssocMap.find (AssocMap.emplace m k v) k' =
      match AssocMap.find m k' with
      | some x => some x
      | none => if k' = k then some v else none := by
  unfold AssocMap.emplace
  cases hk : AssocMap.find m k with
  | some x =>
    simp only
    cases hk' : AssocMap.find m k' with
    | some y => rfl
    | none =>
      have : k' ≠ k := by intro e; subst e; rw [hk] at hk'; cases hk'
      simp [this]
  | none =>
    simp only [AssocMap.find_set]
    by_cases e : k' = k
    · subst e; simp [hk]
    · simp only [e, if_false]
      cases AssocMap.find m k' <;> rfl

theorem cluster_from_scf_core (env : Env) (scf : SourceControlFile) (t : Triplet) :
    AssocMap.find (cluster_from_scf env scf t).build_edges "core" =
      some (env.filter_dependencies_to_specs scf.core_paragraph.depends t) := by
  unfold cluster_from_scf
  simp only
  have key : ∀ (fps : List FeatureParagraph) (edges : List (String × List FeatureSpec)) v,
      AssocMap.find edges "core" = some v →
      AssocMap.find (fps.foldl (fun edges feature =>
        AssocMap.emplace edges feature.name
          (env.filter_dependencies_to_specs feature.depends t)) edges) "core" = some v := by
    intro fps
    induction fps with
    | nil => intro edges v h; exact h
    | cons fp rest ih =>
      intro edges v h
      simp only [List.foldl_cons]
      apply ih
      rw [find_emplace, h]
  apply key
  rw [find_emplace]
  simp [AssocMap.find]


theorem cluster_from_scf_scf (env : Env) (scf : SourceControlFile) (t : Triplet) :
    (cluster_from_scf env scf t).scf = scf := rfl

theorem topological_sort_nil (env : Env) (hsort : env.TopologicalSortSpec) :
    env.topological_sort [] ⟨[]⟩ = some [] := by
  have := topological_sort_unique env hsort ⟨[]⟩ [] ⟨List.Perm.refl _, rfl⟩
    (fun l hl => List.Perm.eq_nil hl.1)
  exact this

theorem topological_sort_singleton (env : Env) (hsort : env.TopologicalSortSpec)
    (v : PackageSpec) : env.topological_sort [v] ⟨[(v, [])]⟩ = some [v] := by
  have := topological_sort_unique env hsort ⟨[(v, [])]⟩ [v]
    ⟨List.Perm.refl _, by simp [Graph.ordered_from, Graph.adjacency_list, AssocMap.find]⟩
    (fun l hl => List.perm_singleton.mp hl.1)
  exact this

/-- Installing `foo[core]` into the empty package graph. -/
theorem install_core_fresh (env : Env) (foo : String) (T : Triplet)
    (scf : SourceControlFile) (hport : env.get_control_file foo = some scf)
    (hcore : env.filter_dependencies_to_specs scf.core_paragraph.depends T = [])
    (n : Nat) :
    ∃ marked, (PackageGraph.install env (n + 1 + 1 + 1) ⟨⟨foo, T⟩, "core"⟩ [foo]).run ({} : PlanState) = Except.ok ((), marked)
     ∧ marked.graph_plan = ({ remove_graph := {}, install_graph := ⟨[(⟨foo, T⟩, [])]⟩ } : GraphPlan)
     ∧ marked.cluster env ⟨foo, T⟩ =
        ({ spec := ⟨foo, T⟩
           source := some (cluster_from_scf env scf T)
           plus := [("core", true)]
           to_install_features := ["core"]
           minus := true
           request_type := RequestType.USER_REQUESTED } : Cluster) := by
  have hnew : new_cluster env ⟨foo, T⟩ =
      { spec := ⟨foo, T⟩, source := some (cluster_from_scf env scf T) } := by
    simp [new_cluster, hport]
  have h0 : PlanState.cluster env ({} : PlanState) ⟨foo, T⟩ =
      { spec := ⟨foo, T⟩, source := some (cluster_from_scf env scf T) } := by
    rw [← hnew]; rfl
  have hedges := cluster_from_scf_core env scf T
  rw [hcore] at hedges
  rw [install_run]
  simp only [Planner.run_bind]
  rw [mark_plus_run_rebuild env [foo] (n + 1 + 1) "core" ⟨foo, T⟩ _ (cluster_from_scf env scf T)
    (by simp [h0, Cluster.plus_of, AssocMap.find]) (by simp [h0]) (by decide) (by decide)
    (by simp [h0])]
  simp only [Planner.run_bind]
  rw [mark_minus_run_not_installed env [foo] (n + 1) ⟨foo, T⟩ _ (cluster_from_scf env scf T)
    (by simp [h0]) (by simp [h0]) (by simp [h0])]
  simp only []
  rw [follow_plus_dependencies_run_found env [foo] (n + 1) "core" ⟨foo, T⟩ _ (cluster_from_scf env scf T) []
    (by simp [h0]) hedges]
  simp only [Planner.run_bind]
  rw [mark_minus_run_marked env [foo] n ⟨foo, T⟩ _ (by simp [h0])]
  simp only [Planner.run_modify, Planner.run_ite, Planner.run_pure, Planner.run_get, ne_eq, not_true_eq_false, if_false,
     List.mem_singleton, not_true_eq_false, and_false, for_each, Planner.check_exit_ok, decide_True, check_exit, if_true]
  refine ⟨_, rfl, ?_, ?_⟩
  · simp [Graph.add_vertex, AssocMap.find, AssocMap.set]
  · simp [h0, AssocMap.set, set_insert]



theorem prevent_default_features_of_core (foo : String) (T : Triplet) :
    prevent_default_features_of [⟨⟨foo, T⟩, "core"⟩] = [foo] ∧
    prevent_default_features_of [⟨⟨foo, T⟩, "core"⟩, ⟨⟨foo, T⟩, ""⟩] = [foo] ∧
    prevent_default_features_of [⟨⟨foo, T⟩, ""⟩, ⟨⟨foo, T⟩, "core"⟩] = [foo] := by
  refine ⟨?_, ?_, ?_⟩ <;> simp [prevent_default_features_of, FeatureSpec.name]

/-- C4 (opt-out of defaults on a fresh install): with an empty status database, for every
port `foo` (whatever its default features) whose core paragraph has no dependencies at the
triplet `T`, and with a topological sort that meets its contract, the plan for the input
`foo[core]:T`, optionally accompanied by the defaulted spec `foo:T`, is exactly one
action: the `BUILD_AND_INSTALL` install action for `foo:T` with feature list `{core}`;
there is no remove action.  Recursion depth 3 suffices. -/
theorem opt_out_of_defaults (env : Env) (hsort : env.TopologicalSortSpec) (foo : String)
    (T : Triplet) (scf : SourceControlFile) (hport : env.get_control_file foo = some scf)
    (hcore : env.filter_dependencies_to_specs scf.core_paragraph.depends T = [])
    (fuel : Nat) (hfuel : 3 ≤ fuel) (specs : List FeatureSpec)
    (hspecs : specs = [⟨⟨foo, T⟩, "core"⟩] ∨
      specs = [⟨⟨foo, T⟩, "core"⟩, ⟨⟨foo, T⟩, ""⟩] ∨
      specs = [⟨⟨foo, T⟩, ""⟩, ⟨⟨foo, T⟩, "core"⟩]) :
    create_feature_install_plan env fuel specs [] =
      Except.ok [AnyAction.install_action
        { spec := ⟨foo, T⟩
          feature_list := ["core"]
          computed_dependencies := []
          plan_type := InstallPlanType.BUILD_AND_INSTALL
          request_type := RequestType.USER_REQUESTED
          build_action := some scf
          installed_package := none }] := by
  obtain ⟨n, rfl⟩ : ∃ n, fuel = n + 1 + 1 + 1 := ⟨fuel - 3, by omega⟩
  obtain ⟨marked, hrun, hgp, hview⟩ := install_core_fresh env foo T scf hport hcore n
  have hmarked : marked_state env (n + 1 + 1 + 1) specs [] = Except.ok marked := by
    rw [marked_state_ok]
    refine ⟨[], rfl, ?_⟩
    obtain ⟨p1, p2, p3⟩ := prevent_default_features_of_core foo T
    rcases hspecs with e | e | e
    · subst e
      rw [p1]
      simp only [install_all, for_each, Planner.run_bind, Planner.run_ite, Planner.run_pure]
      simp only [show ¬ ("core" = "") by decide, false_and, if_false]
      rw [hrun]
    · subst e
      rw [p2]
      simp only [install_all, for_each, Planner.run_bind, Planner.run_ite, Planner.run_pure]
      simp only [show ¬ ("core" = "") by decide, false_and, if_false, FeatureSpec.name,
        List.mem_singleton, and_self, if_true]
      rw [hrun]
    · subst e
      rw [p3]
      simp only [install_all, for_each, Planner.run_bind, Planner.run_ite, Planner.run_pure]
      simp only [show ¬ ("core" = "") by decide, false_and, if_false, FeatureSpec.name,
        List.mem_singleton, and_self, if_true]
      rw [hrun]
  rw [create_feature_install_plan_ok]
  refine ⟨marked, hmarked, ?_⟩
  unfold PackageGraph.serialize
  simp only [hgp, Graph.vertex_list, List.map_nil, List.map_cons, topological_sort_nil env hsort,
    topological_sort_singleton env hsort]
  simp only [serialize_install, hview, if_true, serialize_remove, List.map_nil, List.nil_append,
    Graph.adjacency_list, hgp, AssocMap.find, if_true, Option.getD_some, sort_unique_erase,
    List.foldl_nil, cluster_from_scf_scf]
  rfl

set_option maxRecDepth 100000 in
/-- The port `foo` with `Default-Features: bar, baz`: the plan for `foo[core]` builds `foo`
with the feature list `{core}`. -/
theorem opt_out_of_defaults_witness :
    create_feature_install_plan foo_env 3 [⟨⟨"foo", x64_linux⟩, "core"⟩] [] =
      Except.ok [AnyAction.install_action
        { spec := ⟨"foo", x64_linux⟩
          feature_list := ["core"]
          computed_dependencies := []
          plan_type := InstallPlanType.BUILD_AND_INSTALL
          request_type := RequestType.USER_REQUESTED
          build_action := some foo_port
          installed_package := none }] :=
  opt_out_of_defaults foo_env (catalog_env_topological_sort_spec _) "foo" x64_linux foo_port
    (by decide) (by decide) 3 (by decide) [⟨⟨"foo", x64_linux⟩, "core"⟩] (Or.inl rfl)

end Vcpkg

namespace Vcpkg

/-! ## The clusters of installed packages in a new package graph -/

theorem create_feature_install_graph_ok_of_closed (env : Env) (status_db : StatusParagraphs)
    (hclosed : ∀ A ∈ status_db, ∀ d ∈ env.dependencies A, ∃ B ∈ status_db, B.spec = d) :
    ∃ g, create_feature_install_graph env status_db = Except.ok g := by
  rcases create_feature_install_graph_result env status_db
    with ⟨g, hok, _⟩ | ⟨A, hA, d, hd, hmiss, _⟩
  · exact ⟨g, hok⟩
  · obtain ⟨B, hB, e⟩ := hclosed A hA d hd
    exact absurd e (hmiss B hB)

/-- The cluster of an installed package in a new package graph. -/
theorem init_cluster_installed (env : Env) (status_db : StatusParagraphs) (g : ClusterGraph)
    (h : create_feature_install_graph env status_db = Except.ok g) (s : PackageSpec)
    (ipv : InstalledPackageView) (hl : last_installed status_db s = some ipv) :
    ∃ remove_edges,
      PlanState.cluster env { m_graph := g, graph_plan := {} } s =
        { spec := s
          installed := some
            { ipv := ipv
              remove_edges := remove_edges
              original_features := (cluster_installed_of ipv).original_features }
          source := (new_cluster env s).source
          transient_uninstalled := false } ∧
      ∀ x, x ∈ remove_edges ↔
        ∃ dependent ∈ status_db, dependent.spec = x ∧ s ∈ env.dependencies dependent := by
  obtain ⟨h1, _, h3⟩ := create_feature_install_graph_cluster env status_db g h s
  obtain ⟨i, hi, e1, e2, hmem⟩ := h3 ipv hl
  refine ⟨i.remove_edges, ?_, hmem⟩
  show ClusterGraph.cluster env g s = _
  rw [hl] at h1
  cases hc : ClusterGraph.cluster env g s with
  | mk spec installed source plus to_install minus transient request =>
    rw [hc] at h1 hi
    simp only [new_cluster, Option.isNone_some, Cluster.mk.injEq, true_and] at h1
    obtain ⟨a1, a2, a3, a4, a5, a6, a7⟩ := h1
    simp only at hi
    subst a1 a2 a3 a4 a5 a6 a7 hi
    cases i with
    | mk ipv' re of =>
      simp only at e1 e2
      subst e1 e2
      rfl

/-- The cluster of a package that is not installed, in a new package graph. -/
theorem init_cluster_not_installed (env : Env) (status_db : StatusParagraphs)
    (g : ClusterGraph) (h : create_feature_install_graph env status_db = Except.ok g)
    (s : PackageSpec) (hl : last_installed status_db s = none) :
    PlanState.cluster env { m_graph := g, graph_plan := {} } s = new_cluster env s := by
  obtain ⟨h1, h2, _⟩ := create_feature_install_graph_cluster env status_db g h s
  have hi := h2 hl
  show ClusterGraph.cluster env g s = _
  rw [hl] at h1
  cases hc : ClusterGraph.cluster env g s with
  | mk spec installed source plus to_install minus transient request =>
    rw [hc] at h1 hi
    simp only [new_cluster, Option.isNone_none, Cluster.mk.injEq, true_and] at h1
    obtain ⟨a1, a2, a3, a4, a5, a6, a7⟩ := h1
    simp only at hi
    subst a1 a2 a3 a4 a5 a6 a7 hi
    rfl

theorem core_mem_original_features (ipv : InstalledPackageView) :
    "core" ∈ (cluster_installed_of ipv).original_features := by
  unfold cluster_installed_of
  simp only
  have key : ∀ (fs : List BinaryParagraph) (acc : List String), "core" ∈ acc →
      "core" ∈ fs.foldl (fun s feature => set_insert string_less feature.feature s) acc := by
    intro fs
    induction fs with
    | nil => intro acc h; exact h
    | cons f rest ih =>
      intro acc h
      simp only [List.foldl_cons]
      exact ih _ ((mem_set_insert _ _ _ _).mpr (Or.inr h))
  exact key _ _ ((mem_set_insert _ _ _ _).mpr (Or.inl rfl))

theorem mem_original_features (ipv : InstalledPackageView) (f : String) :
    f ∈ (cluster_installed_of ipv).original_features ↔
      f = "core" ∨ ∃ p ∈ ipv.features, p.feature = f := by
  unfold cluster_installed_of
  simp only
  have key : ∀ (fs : List BinaryParagraph) (acc : List String),
      f ∈ fs.foldl (fun s feature => set_insert string_less feature.feature s) acc ↔
        f ∈ acc ∨ ∃ p ∈ fs, p.feature = f := by
    intro fs
    induction fs with
    | nil => intro acc; simp
    | cons p rest ih =>
      intro acc
      simp only [List.foldl_cons, ih, mem_set_insert, List.mem_cons, exists_eq_or_imp]
      constructor
      · rintro ((h | h) | h)
        · exact Or.inr (Or.inl h.symm)
        · exact Or.inl h
        · exact Or.inr (Or.inr h)
      · rintro (h | h | h)
        · exact Or.inl (Or.inr h)
        · exact Or.inl (Or.inl h.symm)
        · exact Or.inr h
  rw [key]
  simp [set_insert]

theorem original_features_core_only (ipv : InstalledPackageView) (h : ipv.features = []) :
    (cluster_installed_of ipv).original_features = ["core"] := by
  unfold cluster_installed_of
  simp [h, set_insert]

/-! ## A request for an installed feature (C2) -/

/-- The plan for the single input `foo[core]:T` when `foo:T` is installed and has a port:
one `ALREADY_INSTALLED` action. -/
theorem core_request_plan (env : Env) (hsort : env.TopologicalSortSpec)
    (status_db : StatusParagraphs)
    (hnodup : (status_db.map InstalledPackageView.spec).Nodup)
    (hclosed : ∀ A ∈ status_db, ∀ d ∈ env.dependencies A, ∃ B ∈ status_db, B.spec = d)
    (foo : String) (T : Triplet) (ipv : InstalledPackageView) (hipv : ipv ∈ status_db)
    (hspec : ipv.spec = ⟨foo, T⟩) (scf : SourceControlFile)
    (hport : env.get_control_file foo = some scf) (n : Nat) :
    create_feature_install_plan env (n + 1) [⟨⟨foo, T⟩, "core"⟩] status_db =
      Except.ok [AnyAction.install_action
        { spec := ⟨foo, T⟩
          feature_list := (cluster_installed_of ipv).original_features
          computed_dependencies := env.dependencies ipv
          plan_type := InstallPlanType.ALREADY_INSTALLED
          request_type := RequestType.USER_REQUESTED
          build_action := none
          installed_package := some ipv }] := by
  obtain ⟨g, hg⟩ := create_feature_install_graph_ok_of_closed env status_db hclosed
  have hl : last_installed status_db ⟨foo, T⟩ = some ipv := by
    rw [← hspec]; exact last_installed_of_nodup status_db hnodup ipv hipv
  obtain ⟨remove_edges, h0, _⟩ := init_cluster_installed env status_db g hg ⟨foo, T⟩ ipv hl
  have hsrc : (new_cluster env ⟨foo, T⟩).source = some (cluster_from_scf env scf T) := by
    simp [new_cluster, hport]
  rw [hsrc] at h0
  have hcore := core_mem_original_features ipv
  have hrun : ∃ marked,
      (PackageGraph.install env (n + 1) ⟨⟨foo, T⟩, "core"⟩
        (prevent_default_features_of [⟨⟨foo, T⟩, "core"⟩])).run
          { m_graph := g, graph_plan := {} } = Except.ok ((), marked) ∧
      marked.graph_plan =
        ({ remove_graph := {}, install_graph := ⟨[(⟨foo, T⟩, [])]⟩ } : GraphPlan) ∧
      marked.cluster env ⟨foo, T⟩ =
        ({ spec := ⟨foo, T⟩
           installed := some
             { ipv := ipv
               remove_edges := remove_edges
               original_features := (cluster_installed_of ipv).original_features }
           source := some (cluster_from_scf env scf T)
           plus := [("core", true)]
           transient_uninstalled := false
           request_type := RequestType.USER_REQUESTED } : Cluster) := by
    rw [install_run]
    simp only [Planner.run_bind]
    rw [mark_plus_run_installed env _ n "core" ⟨foo, T⟩ _ (cluster_from_scf env scf T)
      { ipv := ipv, remove_edges := remove_edges
        original_features := (cluster_installed_of ipv).original_features }
      (by simp [h0, Cluster.plus_of, AssocMap.find]) (by simp [h0]) (by decide) (by decide)
      (by simp [h0]) hcore]
    simp only [check_exit, decide_True, if_true, Planner.run_pure, Planner.run_modify]
    refine ⟨_, rfl, ?_, ?_⟩
    · simp [Graph.add_vertex, AssocMap.find, AssocMap.set]
    · simp [h0, AssocMap.set]
  obtain ⟨marked, hrun, hgp, hview⟩ := hrun
  rw [create_feature_install_plan_ok]
  refine ⟨marked, ?_, ?_⟩
  · rw [marked_state_ok]
    refine ⟨g, hg, ?_⟩
    simp only [install_all, for_each, Planner.run_bind, Planner.run_ite, Planner.run_pure,
      show ¬ ("core" = "") by decide, false_and, if_false]
    rw [hrun]
  · unfold PackageGraph.serialize
    simp only [hgp, Graph.vertex_list, List.map_nil, List.map_cons,
      topological_sort_nil env hsort, topological_sort_singleton env hsort]
    simp only [serialize_install, hview, serialize_remove, List.map_nil, List.nil_append,
      Bool.false_eq_true, if_false, ne_eq, not_true_eq_false, hspec]
    rfl

/-- C2, as the code has it (new default feature with an explicit core request): if `foo:T`
is installed with the features `{core}` (whatever default features were recorded) and has a
port (whatever default features it declares, such as `bar`), then the plan for the input
`foo[core]:T` on a well-formed status database is exactly one action, an
`ALREADY_INSTALLED` install action for `foo:T` with feature list `{core}`: the package is
neither removed nor rebuilt. -/
theorem core_request_on_installed (env : Env) (hsort : env.TopologicalSortSpec)
    (status_db : StatusParagraphs)
    (hnodup : (status_db.map InstalledPackageView.spec).Nodup)
    (hclosed : ∀ A ∈ status_db, ∀ d ∈ env.dependencies A, ∃ B ∈ status_db, B.spec = d)
    (foo : String) (T : Triplet) (ipv : InstalledPackageView) (hipv : ipv ∈ status_db)
    (hspec : ipv.spec = ⟨foo, T⟩) (hfeatures : ipv.features = []) (scf : SourceControlFile)
    (hport : env.get_control_file foo = some scf) (fuel : Nat) (hfuel : 1 ≤ fuel) :
    create_feature_install_plan env fuel [⟨⟨foo, T⟩, "core"⟩] status_db =
      Except.ok [AnyAction.install_action
        { spec := ⟨foo, T⟩
          feature_list := ["core"]
          computed_dependencies := env.dependencies ipv
          plan_type := InstallPlanType.ALREADY_INSTALLED
          request_type := RequestType.USER_REQUESTED
          build_action := none
          installed_package := some ipv }] := by
  obtain ⟨n, rfl⟩ : ∃ n, fuel = n + 1 := ⟨fuel - 1, by omega⟩
  rw [core_request_plan env hsort status_db hnodup hclosed foo T ipv hipv hspec scf hport n,
    original_features_core_only ipv hfeatures]

set_option maxRecDepth 100000 in
/-- The installed `foo` of the scenario "new default feature appears": the plan for
`foo[core]` reports it as already installed. -/
theorem core_request_on_installed_witness :
    create_feature_install_plan foobar_env 1 [⟨⟨"foo", x64_linux⟩, "core"⟩] foobar_status_db =
      Except.ok [AnyAction.install_action
        { spec := ⟨"foo", x64_linux⟩
          feature_list := ["core"]
          computed_dependencies := foobar_env.dependencies foobar_installed
          plan_type := InstallPlanType.ALREADY_INSTALLED
          request_type := RequestType.USER_REQUESTED
          build_action := none
          installed_package := some foobar_installed }] :=
  core_request_on_installed foobar_env (catalog_env_topological_sort_spec _) foobar_status_db
    (by decide) (by decide) "foo" x64_linux foobar_installed (by decide) (by decide) (by decide)
    foobar_port (by decide) 1 (by decide)

set_option maxRecDepth 100000 in
/-- In the scenario "new default feature appears" (`foo` installed with `{core}` and no
recorded default features, the port declaring `Default-Features: bar`), no recursion depth
makes the plan for `foo[core]` contain a remove action: `foo` is not rebuilt. -/
theorem new_default_core_request_counterexample :
    ¬ ∃ fuel plan r,
      create_feature_install_plan foobar_env fuel [⟨⟨"foo", x64_linux⟩, "core"⟩]
        foobar_status_db = Except.ok plan ∧
      AnyAction.remove_action r ∈ plan := by
  rintro ⟨fuel, plan, r, h, hr⟩
  cases fuel with
  | zero =>
    have h0 : create_feature_install_plan foobar_env 0 [⟨⟨"foo", x64_linux⟩, "core"⟩]
        foobar_status_db = Except.error Failure.out_of_fuel := by decide
    rw [h0] at h
    cases h
  | succ n =>
    rw [core_request_plan foobar_env (catalog_env_topological_sort_spec _) foobar_status_db
      (by decide) (by decide) "foo" x64_linux foobar_installed (by decide) (by decide)
      foobar_port (by decide) n] at h
    simp only [Except.ok.injEq] at h
    subst h
    simp at hr

end Vcpkg

namespace Vcpkg

/-! ## Feature addition on an installed package (C1) -/

theorem marking_mark_plus (env : Env) (pdf : List String) (n : Nat) :
    (marking env pdf n).mark_plus = mark_plus env pdf n := rfl

theorem marking_mark_minus (env : Env) (pdf : List String) (n : Nat) :
    (marking env pdf n).mark_minus = mark_minus env pdf n := rfl

theorem topological_sort_pair (env : Env) (hsort : env.TopologicalSortSpec)
    (u v : PackageSpec) (hne : u ≠ v) :
    env.topological_sort [u, v] ⟨[(u, [v]), (v, [])]⟩ = some [v, u] := by
  have hvu : ¬ v = u := fun e => hne e.symm
  have := topological_sort_unique env hsort ⟨[(u, [v]), (v, [])]⟩ [v, u]
    ⟨List.Perm.swap _ _ _, by
      simp [Graph.ordered_from, Graph.adjacency_list, AssocMap.find, hne, hvu]⟩
    (fun l hl => by
      obtain ⟨hp, ho⟩ := hl
      have hlen : l.length = 2 := hp.length_eq
      obtain ⟨a, b, rfl⟩ := List.length_eq_two.mp hlen
      have ha : a ∈ [u, v] := hp.subset (List.mem_cons_self _ _)
      have hb : b ∈ [u, v] := hp.subset (List.mem_cons_of_mem _ (List.mem_cons_self _ _))
      have hnd : [a, b].Nodup := hp.nodup_iff.mpr (by simp [Graph.vertex_list, hne])
      simp only [List.mem_cons, List.mem_singleton, List.not_mem_nil, or_false] at ha hb
      simp only [List.nodup_cons, List.mem_singleton, List.not_mem_nil, not_false_eq_true,
        List.nodup_nil, and_true] at hnd
      rcases ha with ha | ha <;> rcases hb with hb | hb
      · subst ha hb; exact absurd rfl hnd
      · subst ha hb
        simp [Graph.ordered_from, Graph.adjacency_list, AssocMap.find] at ho
      · subst ha hb; rfl
      · subst ha hb; exact absurd rfl hnd)
  exact this

theorem spec_ne_of_name_ne (P Q : String) (T : Triplet) (h : Q ≠ P) :
    (⟨Q, T⟩ : PackageSpec) ≠ ⟨P, T⟩ := by
  intro e
  exact h (congrArg PackageSpec.name e)

end Vcpkg

namespace Vcpkg

/-! ## More recursion depth does not change a result -/

theorem refines_refl {α : Type} (m : Planner α) : Refines m m := fun _ _ h _ => h

theorem refines_bind {α β : Type} (m m' : Planner α) (f f' : α → Planner β)
    (hm : Refines m m') (hf : ∀ a, Refines (f a) (f' a)) : Refines (m >>= f) (m' >>= f') := by
  intro st res h hne
  rw [Planner.run_bind] at h ⊢
  cases hrun : m.run st with
  | error e =>
    rw [hrun] at h
    simp only at h
    have := hm st _ hrun (by
      intro he
      apply hne
      rw [← h]
      cases he
      rfl)
    rw [this]
    exact h
  | ok p =>
    obtain ⟨a, st1⟩ := p
    rw [hrun] at h
    simp only at h
    have := hm st _ hrun (by simp)
    rw [this]
    exact hf a st1 res h hne

theorem refines_ite {α : Type} (c : Prop) [Decidable c] (a a' b b' : Planner α)
    (ha : Refines a a') (hb : Refines b b') :
    Refines (if c then a else b) (if c then a' else b') := by
  by_cases h : c
  · simp only [h, if_true]; exact ha
  · simp only [h, if_false]; exact hb

theorem refines_for_each {α : Type} (xs : List α) (body body' : α → Planner Unit)
    (h : ∀ x, Refines (body x) (body' x)) : Refines (for_each xs body) (for_each xs body') := by
  induction xs with
  | nil => exact refines_refl _
  | cons x rest ih =>
    simp only [for_each]
    exact refines_bind _ _ _ _ (h x) (fun _ => ih)

theorem refines_first_failure {α : Type} (xs : List α) (body body' : α → Planner MarkPlusResult)
    (h : ∀ x, Refines (body x) (body' x)) :
    Refines (first_failure xs body) (first_failure xs body') := by
  induction xs with
  | nil => exact refines_refl _
  | cons x rest ih =>
    simp only [first_failure]
    exact refines_bind _ _ _ _ (h x) (fun _ => refines_ite _ _ _ _ _ (refines_refl _) ih)

theorem follow_plus_dependencies_body_refines (env : Env) (pdf : List String)
    (callee callee' : Marking) (hc : callee.Refines callee') (feature : String)
    (cluster : PackageSpec) :
    Refines (follow_plus_dependencies_body env pdf callee feature cluster)
      (follow_plus_dependencies_body env pdf callee' feature cluster) := by
  unfold follow_plus_dependencies_body
  refine refines_bind _ _ _ _ (refines_refl _) ?_
  intro s
  split
  · split
    · refine refines_bind _ _ _ _ (hc.2.1 _) ?_
      intro _
      refine refines_bind _ _ _ _ (refines_refl _) ?_
      intro _
      refine refines_bind _ _ _ _ (refines_refl _) ?_
      intro _
      refine refines_bind _ _ _ _ ?_ ?_
      · refine refines_ite _ _ _ _ _ ?_ (refines_refl _)
        exact refines_bind _ _ _ _ (hc.1 _ _) (fun _ => refines_refl _)
      intro _
      refine refines_bind _ _ _ _ (refines_refl _) ?_
      intro s2
      refine refines_bind _ _ _ _ ?_ ?_
      · refine refines_ite _ _ _ _ _ ?_ (refines_refl _)
        exact refines_bind _ _ _ _ (hc.1 _ _) (fun _ => refines_refl _)
      intro _
      refine refines_bind _ _ _ _ ?_ (fun _ => refines_refl _)
      refine refines_for_each _ _ _ ?_
      intro depend
      unfold follow_plus_dependencies_edge
      refine refines_bind _ _ _ _ (refines_refl _) ?_
      intro _
      exact refines_bind _ _ _ _ (hc.1 _ _) (fun _ => refines_refl _)
    · exact refines_refl _
  · exact refines_refl _

theorem mark_plus_body_refines (env : Env) (callee callee' : Marking)
    (hc : callee.Refines callee') (feature : String) (cluster : PackageSpec) :
    Refines (mark_plus_body env callee feature cluster)
      (mark_plus_body env callee' feature cluster) := by
  unfold mark_plus_body
  refine refines_bind _ _ _ _ (refines_refl _) ?_
  intro s
  refine refines_ite _ _ _ _ _ (refines_refl _) ?_
  refine refines_bind _ _ _ _ (refines_refl _) ?_
  intro _
  refine refines_bind _ _ _ _ (refines_refl _) ?_
  intro s2
  split
  · exact refines_refl _
  · refine refines_ite _ _ _ _ _ ?_ ?_
    · refine refines_bind _ _ _ _ (refines_first_failure _ _ _ (fun x => hc.1 _ _)) ?_
      intro res
      exact refines_ite _ _ _ _ _ (refines_refl _) (hc.1 _ _)
    · refine refines_ite _ _ _ _ _ ?_ ?_
      · refine refines_bind _ _ _ _ (refines_for_each _ _ _ ?_) ?_
        · intro x
          unfold mark_plus_all_features_step
          exact refines_bind _ _ _ _ (hc.1 _ _) (fun _ => refines_refl _)
        intro _
        exact refines_bind _ _ _ _ (hc.1 _ _) (fun _ => refines_refl _)
      · refine refines_bind _ _ _ _ (refines_refl _) ?_
        intro s3
        refine refines_ite _ _ _ _ _ (refines_refl _) ?_
        exact refines_bind _ _ _ _ (hc.2.1 _) (fun _ => hc.2.2 _ _)

theorem mark_minus_body_refines (env : Env) (callee callee' : Marking)
    (hc : callee.Refines callee') (cluster : PackageSpec) :
    Refines (mark_minus_body env callee cluster) (mark_minus_body env callee' cluster) := by
  unfold mark_minus_body
  refine refines_bind _ _ _ _ (refines_refl _) ?_
  intro s
  refine refines_ite _ _ _ _ _ (refines_refl _) ?_
  refine refines_bind _ _ _ _ (refines_refl _) ?_
  intro _
  refine refines_bind _ _ _ _ (refines_refl _) ?_
  intro s2
  refine refines_bind _ _ _ _ (refines_refl _) ?_
  intro s3
  split
  · exact refines_refl _
  · split
    · exact refines_refl _
    · refine refines_bind _ _ _ _ (refines_refl _) ?_
      intro _
      refine refines_bind _ _ _ _ (refines_for_each _ _ _ ?_) ?_
      · intro edge
        unfold mark_minus_remove_edge
        refine refines_bind _ _ _ _ (refines_refl _) ?_
        intro _
        refine refines_bind _ _ _ _ (refines_refl _) ?_
        intro _
        exact refines_bind _ _ _ _ (refines_refl _) (fun _ => hc.2.1 _)
      intro _
      refine refines_bind _ _ _ _ (refines_for_each _ _ _ ?_) ?_
      · intro f
        unfold mark_minus_reinstall
        exact refines_bind _ _ _ _ (hc.2.2 _ _) (fun _ => refines_refl _)
      intro _
      refine refines_for_each _ _ _ ?_
      intro d
      unfold mark_minus_new_default
      refine refines_ite _ _ _ _ _ ?_ (refines_refl _)
      exact refines_bind _ _ _ _ (hc.1 _ _) (fun _ => refines_refl _)

theorem marking_refines_succ (env : Env) (pdf : List String) (n : Nat) :
    (marking env pdf n).Refines (marking env pdf (n + 1)) := by
  induction n with
  | zero =>
    refine ⟨?_, ?_, ?_⟩
    · intro f c st res h hne
      simp only [marking, Planner.run_throw] at h
      exact absurd h.symm hne
    · intro c st res h hne
      simp only [marking, Planner.run_throw] at h
      exact absurd h.symm hne
    · intro f c st res h hne
      simp only [marking, Planner.run_throw] at h
      exact absurd h.symm hne
  | succ n ih =>
    exact ⟨fun f c => mark_plus_body_refines env _ _ ih f c,
      fun c => mark_minus_body_refines env _ _ ih c,
      fun f c => follow_plus_dependencies_body_refines env pdf _ _ ih f c⟩

theorem marking_refines_le (env : Env) (pdf : List String) (n m : Nat) (h : n ≤ m) :
    (marking env pdf n).Refines (marking env pdf m) := by
  induction m with
  | zero =>
    have : n = 0 := by omega
    subst this
    exact ⟨fun _ _ => refines_refl _, fun _ => refines_refl _, fun _ _ => refines_refl _⟩
  | succ m ih =>
    by_cases e : n = m + 1
    · subst e
      exact ⟨fun _ _ => refines_refl _, fun _ => refines_refl _, fun _ _ => refines_refl _⟩
    · have h1 := ih (by omega)
      have h2 := marking_refines_succ env pdf m
      exact ⟨fun f c st res hr hne => h2.1 f c st res (h1.1 f c st res hr hne) hne,
        fun c st res hr hne => h2.2.1 c st res (h1.2.1 c st res hr hne) hne,
        fun f c st res hr hne => h2.2.2 f c st res (h1.2.2 f c st res hr hne) hne⟩

theorem install_all_refines (env : Env) (n m : Nat) (h : n ≤ m) (specs : List FeatureSpec)
    (pdf : List String) : Refines (install_all env n specs pdf) (install_all env m specs pdf) := by
  unfold install_all
  refine refines_for_each _ _ _ ?_
  intro spec
  refine refines_ite _ _ _ _ _ (refines_refl _) ?_
  unfold PackageGraph.install
  refine refines_bind _ _ _ _ (refines_refl _) ?_
  intro _
  refine refines_bind _ _ _ _ (refines_refl _) ?_
  intro _
  exact refines_bind _ _ _ _ ((marking_refines_le env _ n m h).1 _ _) (fun _ => refines_refl _)

/-- An outcome of `create_feature_install_plan` with some recursion depth, a plan or a fatal
error, is its outcome with every larger depth. -/
theorem create_feature_install_plan_fuel_stable (env : Env) (n m : Nat) (h : n ≤ m)
    (specs : List FeatureSpec) (status_db : StatusParagraphs)
    (res : Except Failure (List AnyAction))
    (hres : create_feature_install_plan env n specs status_db = res)
    (hne : res ≠ Except.error Failure.out_of_fuel) :
    create_feature_install_plan env m specs status_db = res := by
  have href := install_all_refines env n m h specs (prevent_default_features_of specs)
  unfold create_feature_install_plan marked_state at hres ⊢
  simp only [bind, Except.bind] at hres ⊢
  cases hinit : PackageGraph.init env status_db with
  | error e =>
    rw [hinit] at hres
    exact hres
  | ok pgraph =>
    rw [hinit] at hres
    simp only at hres ⊢
    cases hrun : (install_all env n specs (prevent_default_features_of specs)).run pgraph with
    | error e =>
      rw [hrun] at hres
      simp only at hres
      have := href pgraph _ hrun (by
        intro he
        apply hne
        rw [← hres]
        cases he
        rfl)
      rw [this]
      exact hres
    | ok p =>
      rw [hrun] at hres
      have := href pgraph _ hrun (by simp)
      rw [this]
      exact hres

/-- A plan returned with some recursion depth is returned with every larger depth. -/
theorem create_feature_install_plan_fuel_mono (env : Env) (n m : Nat) (h : n ≤ m)
    (specs : List FeatureSpec) (status_db : StatusParagraphs) (plan : List AnyAction)
    (hplan : create_feature_install_plan env n specs status_db = Except.ok plan) :
    create_feature_install_plan env m specs status_db = Except.ok plan :=
  create_feature_install_plan_fuel_stable env n m h specs status_db _ hplan (by simp)

/-- A fatal error with some recursion depth rules out a plan with any depth. -/
theorem create_feature_install_plan_fuel_fatal (env : Env) (n m : Nat)
    (specs : List FeatureSpec) (status_db : StatusParagraphs) (e : FatalError)
    (h : create_feature_install_plan env n specs status_db = Except.error (Failure.fatal e))
    (plan : List AnyAction) :
    create_feature_install_plan env m specs status_db ≠ Except.ok plan := by
  intro h'
  have h1 := create_feature_install_plan_fuel_stable env n (max n m) (le_max_left _ _) specs
    status_db _ h (by simp)
  have h2 := create_feature_install_plan_fuel_stable env m (max n m) (le_max_right _ _) specs
    status_db _ h' (by simp)
  rw [h1] at h2
  cases h2

/-- The plans returned with two recursion depths are the same. -/
theorem create_feature_install_plan_fuel_unique (env : Env) (n m : Nat)
    (specs : List FeatureSpec) (status_db : StatusParagraphs) (plan plan' : List AnyAction)
    (h : create_feature_install_plan env n specs status_db = Except.ok plan)
    (h' : create_feature_install_plan env m specs status_db = Except.ok plan') :
    plan = plan' := by
  have h1 := create_feature_install_plan_fuel_mono env n (max n m) (le_max_left _ _) specs
    status_db plan h
  have h2 := create_feature_install_plan_fuel_mono env m (max n m) (le_max_right _ _) specs
    status_db plan' h'
  rw [h1] at h2
  simpa using h2

end Vcpkg

namespace Vcpkg

/-! ## Feature addition on an installed package (C1) -/

end Vcpkg

namespace Vcpkg

/-! ## What marking does to the clusters -/

theorem plus_of_set (c : Cluster) (f g : String) :
    ({ c with plus := AssocMap.set c.plus f true } : Cluster).plus_of g =
      (decide (g = f) || c.plus_of g) := by
  unfold Cluster.plus_of
  simp only [AssocMap.find_set]
  by_cases h : g = f <;> simp [h]

theorem marked_refl (env : Env) (st : PlanState) : Marked env st st where
  installed := fun _ => rfl
  source := fun _ => rfl
  minus := fun _ h => h
  plus := fun _ _ h => h
  features := fun _ _ h => h
  install_vertices := fun _ h => h
  remove_vertices := fun _ h => h
  inserted := fun _ _ h => Or.inl h
  rebuilt := fun c i _ h0 h1 => by rw [h0] at h1; cases h1
  added := fun c f h0 h1 => by rw [h0] at h1; cases h1

theorem declares_of_marked (env : Env) (a b : PlanState) (h : Marked env a b) (c : PackageSpec)
    (f : String) : (b.cluster env c).declares f ↔ (a.cluster env c).declares f := by
  unfold Cluster.declares
  rw [h.source c]

theorem original_of_marked (env : Env) (a b : PlanState) (h : Marked env a b) (c : PackageSpec) :
    (b.cluster env c).original = (a.cluster env c).original := by
  unfold Cluster.original
  rw [h.installed c]

theorem marked_trans (env : Env) (a b c : PlanState) (hab : Marked env a b)
    (hbc : Marked env b c) : Marked env a c where
  installed := fun s => (hbc.installed s).trans (hab.installed s)
  source := fun s => (hbc.source s).trans (hab.source s)
  minus := fun s h => hbc.minus s (hab.minus s h)
  plus := fun s f h => hbc.plus s f (hab.plus s f h)
  features := fun s f h => hbc.features s f (hab.features s f h)
  install_vertices := fun s h => hbc.install_vertices s (hab.install_vertices s h)
  remove_vertices := fun s h => hbc.remove_vertices s (hab.remove_vertices s h)
  inserted := fun s f h => by
    rcases hbc.inserted s f h with h1 | h1
    · rcases hab.inserted s f h1 with h2 | h2
      · exact Or.inl h2
      · exact Or.inr (hbc.minus s h2)
    · exact Or.inr h1
  rebuilt := fun s i hi h0 h1 => by
    cases hb : (b.cluster env s).minus with
    | true =>
      obtain ⟨hs, hv, hf⟩ := hab.rebuilt s i hi h0 hb
      exact ⟨hs, hbc.remove_vertices s hv, fun f hfo hd => hbc.features s f (hf f hfo hd)⟩
    | false =>
      have hi' : (b.cluster env s).installed = some i := by rw [hab.installed s]; exact hi
      obtain ⟨hs, hv, hf⟩ := hbc.rebuilt s i hi' hb h1
      rw [hab.source s] at hs
      exact ⟨hs, hv, fun f hfo hd => hf f hfo ((declares_of_marked env a b hab s f).mpr hd)⟩
  added := fun s f h0 h1 hf1 hf2 hfo => by
    cases hb : (b.cluster env s).plus_of f with
    | true =>
      obtain ⟨src, hs, hd⟩ := hab.added s f h0 hb hf1 hf2 hfo
      refine ⟨src, hs, fun hdec => ?_⟩
      obtain ⟨h2, h3⟩ := hd hdec
      exact ⟨hbc.features s f h2, hbc.minus s h3⟩
    | false =>
      have hfo' : f ∉ (b.cluster env s).original := by
        rw [original_of_marked env a b hab]; exact hfo
      obtain ⟨src, hs, hd⟩ := hbc.added s f hb h1 hf1 hf2 hfo'
      refine ⟨src, by rw [← hab.source s]; exact hs, fun hdec => ?_⟩
      exact hd ((declares_of_marked env a b hab s f).mpr hdec)

/-- A change of the state that leaves every cluster as it is and loses no vertex. -/
theorem marked_of_cluster_eq (env : Env) (st st' : PlanState)
    (hc : ∀ c, st'.cluster env c = st.cluster env c)
    (hi : ∀ c, c ∈ st.graph_plan.install_graph.vertex_list →
      c ∈ st'.graph_plan.install_graph.vertex_list)
    (hr : ∀ c, c ∈ st.graph_plan.remove_graph.vertex_list →
      c ∈ st'.graph_plan.remove_graph.vertex_list) : Marked env st st' where
  installed := fun c => by rw [hc]
  source := fun c => by rw [hc]
  minus := fun c h => by rw [hc]; exact h
  plus := fun c f h => by rw [hc]; exact h
  features := fun c f h => by rw [hc]; exact h
  install_vertices := hi
  remove_vertices := hr
  inserted := fun c f h => by rw [hc] at h; exact Or.inl h
  rebuilt := fun c i _ h0 h1 => by rw [hc, h0] at h1; cases h1
  added := fun c f h0 h1 => by rw [hc, h0] at h1; cases h1

/-- A write through a `Cluster&` that changes neither the marks nor the installed and
source halves, and loses no feature to install. -/
theorem marked_modify (env : Env) (st : PlanState) (c0 : PackageSpec) (g : Cluster → Cluster)
    (hinst : ∀ c, (g c).installed = c.installed) (hsrc : ∀ c, (g c).source = c.source)
    (hminus : ∀ c, (g c).minus = c.minus) (hplus : ∀ c, (g c).plus = c.plus)
    (hfeat : ∀ c f, f ∈ c.to_install_features → f ∈ (g c).to_install_features)
    (hins : (st.cluster env c0).minus = true ∨
      (g (st.cluster env c0)).to_install_features = (st.cluster env c0).to_install_features) :
    Marked env st (st.modify env c0 g) where
  installed := fun c => by
    simp only [PlanState.state_cluster_modify]
    split
    · rename_i h; subst h; exact hinst _
    · rfl
  source := fun c => by
    simp only [PlanState.state_cluster_modify]
    split
    · rename_i h; subst h; exact hsrc _
    · rfl
  minus := fun c h => by
    simp only [PlanState.state_cluster_modify]
    split
    · rename_i e; subst e; rw [hminus]; exact h
    · exact h
  plus := fun c f h => by
    simp only [PlanState.state_cluster_modify]
    split
    · rename_i e; subst e; unfold Cluster.plus_of at *; rw [hplus]; exact h
    · exact h
  features := fun c f h => by
    simp only [PlanState.state_cluster_modify]
    split
    · rename_i e; subst e; exact hfeat _ _ h
    · exact h
  install_vertices := fun _ h => h
  remove_vertices := fun _ h => h
  inserted := fun c f h => by
    simp only [PlanState.state_cluster_modify] at h ⊢
    split at h
    · rename_i e; subst e
      simp only [if_true]
      rcases hins with h1 | h1
      · right; rw [hminus]; exact h1
      · left; rw [h1] at h; exact h
    · rename_i e
      simp only [e, if_false]
      exact Or.inl h
  rebuilt := fun c i _ h0 h1 => by
    simp only [PlanState.state_cluster_modify] at h1
    split at h1
    · rename_i e; subst e; rw [hminus, h0] at h1; cases h1
    · rw [h0] at h1; cases h1
  added := fun c f h0 h1 => by
    simp only [PlanState.state_cluster_modify] at h1
    split at h1
    · rename_i e; subst e; unfold Cluster.plus_of at *; rw [hplus, h0] at h1; cases h1
    · rw [h0] at h1; cases h1

end Vcpkg

namespace Vcpkg

/-- A mark set on the cluster `c0`, followed by a marking: what is claimed of the newly
marked cluster and feature is to be shown for `c0` only. -/
theorem marked_of_mark (env : Env) (st st' : PlanState) (c0 : PackageSpec)
    (g : Cluster → Cluster)
    (hinst : ∀ c, (g c).installed = c.installed) (hsrc : ∀ c, (g c).source = c.source)
    (hfeat : ∀ c, (g c).to_install_features = c.to_install_features)
    (hminus : ∀ c, c.minus = true → (g c).minus = true)
    (hplus : ∀ c f, c.plus_of f = true → (g c).plus_of f = true)
    (h : Marked env (st.modify env c0 g) st')
    (hre : ∀ i, (st.cluster env c0).installed = some i → (st.cluster env c0).minus = false →
      (st'.cluster env c0).minus = true →
        (∃ src, (st.cluster env c0).source = some src) ∧
        c0 ∈ st'.graph_plan.remove_graph.vertex_list ∧
        ∀ f ∈ i.original_features, (st.cluster env c0).declares f →
          f ∈ (st'.cluster env c0).to_install_features)
    (hadd : ∀ f, (st.cluster env c0).plus_of f = false → (st'.cluster env c0).plus_of f = true →
      f ≠ "" → f ≠ "*" → f ∉ (st.cluster env c0).original →
        ∃ src, (st.cluster env c0).source = some src ∧
          ((st.cluster env c0).declares f →
            f ∈ (st'.cluster env c0).to_install_features ∧ (st'.cluster env c0).minus = true)) :
    Marked env st st' := by
  have hcl : ∀ c, c ≠ c0 → (st.modify env c0 g).cluster env c = st.cluster env c := by
    intro c hne
    simp [hne]
  have hc0 : (st.modify env c0 g).cluster env c0 = g (st.cluster env c0) := by simp
  have kinst : ∀ c, ((st.modify env c0 g).cluster env c).installed =
      (st.cluster env c).installed := by
    intro c; by_cases e : c = c0
    · subst e; rw [hc0, hinst]
    · rw [hcl c e]
  have ksrc : ∀ c, ((st.modify env c0 g).cluster env c).source = (st.cluster env c).source := by
    intro c; by_cases e : c = c0
    · subst e; rw [hc0, hsrc]
    · rw [hcl c e]
  have kfeat : ∀ c, ((st.modify env c0 g).cluster env c).to_install_features =
      (st.cluster env c).to_install_features := by
    intro c; by_cases e : c = c0
    · subst e; rw [hc0, hfeat]
    · rw [hcl c e]
  refine
    { installed := fun c => (h.installed c).trans (kinst c)
      source := fun c => (h.source c).trans (ksrc c)
      minus := ?_, plus := ?_, features := ?_
      install_vertices := fun c hv => h.install_vertices c hv
      remove_vertices := fun c hv => h.remove_vertices c hv
      inserted := ?_, rebuilt := ?_, added := ?_ }
  · intro c hm
    apply h.minus
    by_cases e : c = c0
    · subst e; rw [hc0]; exact hminus _ hm
    · rw [hcl c e]; exact hm
  · intro c f hp
    apply h.plus
    by_cases e : c = c0
    · subst e; rw [hc0]; exact hplus _ _ hp
    · rw [hcl c e]; exact hp
  · intro c f hf
    apply h.features
    rw [kfeat]; exact hf
  · intro c f hf
    have := h.inserted c f hf
    rw [kfeat] at this
    exact this
  · intro c i hi h0 h1
    by_cases e : c = c0
    · subst e; exact hre i hi h0 h1
    · have := h.rebuilt c i (by rw [kinst]; exact hi) (by rw [hcl c e]; exact h0) h1
      rw [hcl c e] at this
      exact this
  · intro c f h0 h1 hf1 hf2 hfo
    by_cases e : c = c0
    · subst e; exact hadd f h0 h1 hf1 hf2 hfo
    · have := h.added c f (by rw [hcl c e]; exact h0) h1 hf1 hf2 (by rw [hcl c e]; exact hfo)
      rw [hcl c e] at this
      exact this

theorem marked_of_set_minus (env : Env) (st st' : PlanState) (c0 : PackageSpec)
    (h : Marked env
      (st.modify env c0 (fun c => { c with minus := true, transient_uninstalled := true })) st')
    (hre : ∀ i, (st.cluster env c0).installed = some i →
      (∃ src, (st.cluster env c0).source = some src) ∧
      c0 ∈ st'.graph_plan.remove_graph.vertex_list ∧
      ∀ f ∈ i.original_features, (st.cluster env c0).declares f →
        f ∈ (st'.cluster env c0).to_install_features) : Marked env st st' := by
  refine marked_of_mark env st st' c0
    (fun c => { c with minus := true, transient_uninstalled := true })
    (fun _ => rfl) (fun _ => rfl) (fun _ => rfl)
    (fun _ _ => rfl) (fun _ _ hp => hp) h (fun i hi _ _ => hre i hi) ?_
  intro f h0 h1 hf1 hf2 hfo
  have hc0 : (st.modify env c0
      (fun c => { c with minus := true, transient_uninstalled := true })).cluster env c0 =
      { st.cluster env c0 with minus := true, transient_uninstalled := true } := by simp
  have := h.added c0 f (by rw [hc0]; exact h0) h1 hf1 hf2 (by rw [hc0]; exact hfo)
  rw [hc0] at this
  exact this

theorem marked_of_set_plus (env : Env) (st st' : PlanState) (c0 : PackageSpec) (f0 : String)
    (h : Marked env
      (st.modify env c0 (fun c => { c with plus := AssocMap.set c.plus f0 true })) st')
    (hadd : (st.cluster env c0).plus_of f0 = false → f0 ≠ "" → f0 ≠ "*" →
      f0 ∉ (st.cluster env c0).original →
        ∃ src, (st.cluster env c0).source = some src ∧
          ((st.cluster env c0).declares f0 →
            f0 ∈ (st'.cluster env c0).to_install_features ∧
            (st'.cluster env c0).minus = true)) : Marked env st st' := by
  have hc0 : (st.modify env c0
      (fun c => { c with plus := AssocMap.set c.plus f0 true })).cluster env c0 =
      { st.cluster env c0 with plus := AssocMap.set (st.cluster env c0).plus f0 true } := by
    simp
  refine marked_of_mark env st st' c0
    (fun c => { c with plus := AssocMap.set c.plus f0 true })
    (fun _ => rfl) (fun _ => rfl) (fun _ => rfl)
    (fun _ hm => hm) ?_ h ?_ ?_
  · intro c f hp
    show ({ c with plus := AssocMap.set c.plus f0 true } : Cluster).plus_of f = true
    rw [plus_of_set, hp, Bool.or_true]
  · intro i hi h0 h1
    have := h.rebuilt c0 i (by rw [hc0]; exact hi) (by rw [hc0]; exact h0) h1
    rw [hc0] at this
    exact this
  · intro f h0 h1 hf1 hf2 hfo
    by_cases e : f = f0
    · subst e; exact hadd h0 hf1 hf2 hfo
    · have := h.added c0 f (by rw [hc0, plus_of_set, h0]; simp [e]) h1 hf1 hf2
        (by rw [hc0]; exact hfo)
      rw [hc0] at this
      exact this

/-! ## The clusters of packages that are not installed -/

theorem core_taken_congr (env : Env) (a b : PlanState) (c : PackageSpec)
    (hinst : (b.cluster env c).installed = (a.cluster env c).installed)
    (hfeat : (b.cluster env c).to_install_features = (a.cluster env c).to_install_features)
    (hplus : ∀ f, (b.cluster env c).plus_of f = (a.cluster env c).plus_of f)
    (hv : c ∈ b.graph_plan.install_graph.vertex_list →
      c ∈ a.graph_plan.install_graph.vertex_list)
    (h : a.CoreTaken env c) : b.CoreTaken env c := by
  intro hi ht
  rw [hfeat, hplus]
  rw [hinst] at hi
  apply h hi
  rcases ht with ht | ht | ⟨f, hf⟩
  · left; rw [← hfeat]; exact ht
  · right; left; exact hv ht
  · right; right; exact ⟨f, by rw [← hplus]; exact hf⟩

theorem core_taken_of_installed (env : Env) (st : PlanState) (c : PackageSpec)
    (h : (st.cluster env c).installed ≠ none) : st.CoreTaken env c :=
  fun hi => absurd hi h

theorem core_taken_of_core (env : Env) (st : PlanState) (c : PackageSpec)
    (h : "core" ∈ (st.cluster env c).to_install_features ∨
      (st.cluster env c).plus_of "core" = true) : st.CoreTaken env c :=
  fun _ _ => h

/-- Once a touched cluster is core-taken, it stays so. -/
theorem core_taken_of_marked (env : Env) (a b : PlanState) (h : Marked env a b)
    (c : PackageSpec) (hc : a.CoreTaken env c)
    (ht : (a.cluster env c).to_install_features ≠ [] ∨
      c ∈ a.graph_plan.install_graph.vertex_list ∨
      ∃ f, (a.cluster env c).plus_of f = true) : b.CoreTaken env c := by
  intro hi _
  rw [h.installed] at hi
  rcases hc hi ht with h1 | h1
  · exact Or.inl (h.features c _ h1)
  · exact Or.inr (h.plus c _ h1)

theorem ran_refl (env : Env) (c0 : PackageSpec) (st : PlanState) : Ran env c0 st st :=
  ⟨marked_refl env st, fun _ _ h => h⟩

theorem ran_trans (env : Env) (c0 : PackageSpec) (a b c : PlanState) (hab : Ran env c0 a b)
    (hbc : Ran env c0 b c) : Ran env c0 a c :=
  ⟨marked_trans env a b c hab.1 hbc.1, fun s hs h => hbc.2 s hs (hab.2 s hs h)⟩

/-- A change of the plan that leaves the clusters as they are and adds no vertex other
than `c0` to the install graph. -/
theorem ran_of_cluster_eq (env : Env) (c0 : PackageSpec) (st st' : PlanState)
    (hc : ∀ c, st'.cluster env c = st.cluster env c)
    (hi : ∀ c, c ∈ st.graph_plan.install_graph.vertex_list →
      c ∈ st'.graph_plan.install_graph.vertex_list)
    (hi' : ∀ c, c ≠ c0 → c ∈ st'.graph_plan.install_graph.vertex_list →
      c ∈ st.graph_plan.install_graph.vertex_list)
    (hr : ∀ c, c ∈ st.graph_plan.remove_graph.vertex_list →
      c ∈ st'.graph_plan.remove_graph.vertex_list) : Ran env c0 st st' :=
  ⟨marked_of_cluster_eq env st st' hc hi hr, fun c hne h =>
    core_taken_congr env st st' c (by rw [hc]) (by rw [hc]) (fun f => by rw [hc]) (hi' c hne) h⟩

/-! ## Loop rules for relations between states -/

/-- A change of the state, with the new state named. -/
theorem wp_modify_named (f : PlanState → PlanState) (Q : Unit → PlanState → Prop)
    (st : PlanState) (h : ∀ st', st' = f st → Q () st') : wp (modify f : Planner Unit) Q st :=
  (wp_modify f Q st).mpr (h _ rfl)

theorem wp_for_each_rel {α : Type} (R : PlanState → PlanState → Prop)
    (hrefl : ∀ s, R s s) (htrans : ∀ a b c, R a b → R b c → R a c)
    (E : α → PlanState → Prop) (hstable : ∀ x s s', R s s' → E x s → E x s')
    (xs : List α) (body : α → Planner Unit) (s0 : PlanState)
    (hbody : ∀ x ∈ xs, ∀ s, R s0 s → wp (body x) (fun _ s' => R s s' ∧ E x s') s) :
    ∀ s, R s0 s → wp (for_each xs body) (fun _ s' => R s s' ∧ ∀ x ∈ xs, E x s') s := by
  induction xs with
  | nil =>
    intro s _
    simp only [for_each, wp_pure]
    exact ⟨hrefl s, fun x hx => by simp at hx⟩
  | cons x rest ih =>
    intro s hs
    simp only [for_each, wp_bind]
    refine wp_mono _ _ _ _ (hbody x (List.mem_cons_self _ _) s hs) ?_
    intro _ s1 ⟨h1, hx⟩
    refine wp_mono _ _ _ _
      (ih (fun y hy => hbody y (List.mem_cons_of_mem _ hy)) s1 (htrans _ _ _ hs h1)) ?_
    intro _ s2 ⟨h2, hall⟩
    refine ⟨htrans _ _ _ h1 h2, ?_⟩
    intro y hy
    rcases List.mem_cons.mp hy with e | hy
    · subst e; exact hstable _ _ _ h2 hx
    · exact hall y hy

theorem wp_first_failure_rel {α : Type} (R : PlanState → PlanState → Prop)
    (hrefl : ∀ s, R s s) (htrans : ∀ a b c, R a b → R b c → R a c)
    (E : α → PlanState → Prop) (hstable : ∀ x s s', R s s' → E x s → E x s')
    (xs : List α) (body : α → Planner MarkPlusResult) (s0 : PlanState)
    (hbody : ∀ x ∈ xs, ∀ s, R s0 s →
      wp (body x) (fun r s' => R s s' ∧ (r = MarkPlusResult.SUCCESS → E x s')) s) :
    ∀ s, R s0 s →
      wp (first_failure xs body)
        (fun r s' => R s s' ∧ (r = MarkPlusResult.SUCCESS → ∀ x ∈ xs, E x s')) s := by
  induction xs with
  | nil =>
    intro s _
    simp only [first_failure, wp_pure]
    exact ⟨hrefl s, fun _ x hx => by simp at hx⟩
  | cons x rest ih =>
    intro s hs
    simp only [first_failure, wp_bind]
    refine wp_mono _ _ _ _ (hbody x (List.mem_cons_self _ _) s hs) ?_
    intro r s1 ⟨h1, hx⟩
    simp only [wp_ite, wp_pure]
    constructor
    · intro hr
      exact ⟨h1, fun e => absurd e hr⟩
    · intro hr
      simp only [ne_eq, not_not] at hr
      refine wp_mono _ _ _ _
        (ih (fun y hy => hbody y (List.mem_cons_of_mem _ hy)) s1 (htrans _ _ _ hs h1)) ?_
      intro r2 s2 ⟨h2, hall⟩
      refine ⟨htrans _ _ _ h1 h2, ?_⟩
      intro hr2 y hy
      rcases List.mem_cons.mp hy with e | hy
      · subst e; exact hstable _ _ _ h2 (hx hr)
      · exact hall hr2 y hy

end Vcpkg

namespace Vcpkg

/-! ## The bodies of the marking procedures and the core closure -/

theorem mark_minus_remove_edge_ran (env : Env) (callee : Marking)
    (hc : callee.Meets (core_closure_spec env)) (c0 cX edge : PackageSpec) (s : PlanState) :
    wp (mark_minus_remove_edge env callee c0 edge) (fun _ s' => Ran env cX s s') s := by
  unfold mark_minus_remove_edge
  simp only [wp_bind, wp_modify, wp_check_exit]
  intro _
  refine wp_mono _ _ _ _ (hc.2.1 edge _) ?_
  intro _ s' ⟨hm, _, hk⟩
  refine ran_trans env cX _ _ _ (ran_of_cluster_eq env cX _ _ ?_ ?_ ?_ ?_)
    ⟨hm, fun c _ h => hk c h⟩
  · intro c; simp
  · intro c h; exact h
  · intro c _ h; exact h
  · intro c h
    simp only [PlanState.graph_plan_get]
    exact (Graph.mem_vertex_list_add_edge _ _ _ _).mpr (Or.inr (Or.inr h))

theorem mark_minus_reinstall_ran (env : Env) (callee : Marking)
    (hc : callee.Meets (core_closure_spec env)) (c0 cX : PackageSpec) (f : String)
    (s : PlanState) :
    wp (mark_minus_reinstall callee c0 f)
      (fun _ s' => Ran env cX s s' ∧
        ((s.cluster env c0).declares f → f ∈ (s'.cluster env c0).to_install_features)) s := by
  unfold mark_minus_reinstall
  simp only [wp_bind, wp_pure]
  refine wp_mono _ _ _ _ (hc.2.2 f c0 s) ?_
  intro r s' ⟨hm, hs, hd, hk⟩
  exact ⟨⟨hm, fun c _ h => hk c h⟩, fun hdec => (hs (hd hdec)).1⟩

theorem mark_minus_new_default_ran (env : Env) (callee : Marking)
    (hc : callee.Meets (core_closure_spec env)) (c0 : PackageSpec) (previous_df : List String)
    (d : String) (s : PlanState) :
    wp (mark_minus_new_default callee c0 previous_df d) (fun _ s' => Ran env c0 s s') s := by
  unfold mark_minus_new_default
  simp only [wp_ite, wp_bind, wp_pure]
  refine ⟨fun _ => ?_, fun _ => ran_refl env c0 s⟩
  refine wp_mono _ _ _ _ (hc.1 d c0 s) ?_
  intro r s' ⟨hm, _, hk, _⟩
  exact ⟨hm, hk⟩

theorem mark_minus_body_core (env : Env) (callee : Marking)
    (hc : callee.Meets (core_closure_spec env)) (c0 : PackageSpec) (st : PlanState) :
    wp (mark_minus_body env callee c0)
      (fun _ => (core_closure_spec env).mark_minus c0 st) st := by
  unfold mark_minus_body
  simp only [wp_bind, wp_get, wp_ite, wp_pure, wp_modify]
  refine ⟨fun hm => ⟨marked_refl env st, hm, fun _ h => h⟩, fun _ => ?_⟩
  have h1c : ∀ c, c ≠ c0 → (st.modify env c0 (fun c =>
      { c with minus := true, transient_uninstalled := true })).cluster env c =
      st.cluster env c := by
    intro c hne; simp [hne]
  have h1c0 : (st.modify env c0 (fun c =>
      { c with minus := true, transient_uninstalled := true })).cluster env c0 =
      { st.cluster env c0 with minus := true, transient_uninstalled := true } := by simp
  have h1k : ∀ c, st.CoreTaken env c → (st.modify env c0 (fun c =>
      { c with minus := true, transient_uninstalled := true })).CoreTaken env c := by
    intro c
    refine core_taken_congr env _ _ c ?_ ?_ ?_ (fun h => h)
    · by_cases e : c = c0
      · subst e; rw [h1c0]
      · rw [h1c c e]
    · by_cases e : c = c0
      · subst e; rw [h1c0]
      · rw [h1c c e]
    · intro f
      by_cases e : c = c0
      · subst e; rw [h1c0]; rfl
      · rw [h1c c e]
  generalize hst1 : (st.modify env c0 (fun c =>
      { c with minus := true, transient_uninstalled := true })) = st1 at h1c h1c0 h1k ⊢
  have hm1 : (st1.cluster env c0).minus = true := by rw [h1c0]
  split
  · exact (wp_throw _ _ _).mpr trivial
  · rename_i p_source hsrc
    split
    · rename_i hinst
      rw [wp_pure]
      refine ⟨marked_of_set_minus env st st1 c0 (by rw [hst1]; exact marked_refl env st1) ?_,
        hm1, h1k⟩
      intro i hi
      rw [h1c0] at hinst
      rw [hi] at hinst
      cases hinst
    · rename_i p_installed hinst
      simp only [wp_bind, wp_modify]
      refine wp_mono _ _ _ _
        (wp_for_each_rel (Ran env c0) (ran_refl env c0) (ran_trans env c0) (fun _ _ => True)
          (fun _ _ _ _ _ => trivial) p_installed.remove_edges _ _
          (fun x _ s _ => wp_mono _ _ _ _ (mark_minus_remove_edge_ran env callee hc c0 c0 x s)
            (fun _ _ h => ⟨h, trivial⟩)) _ (ran_refl env c0 _)) ?_
      intro _ s3 ⟨h23, _⟩
      have h12 : Ran env c0 st1 s3 := by
        refine ran_trans env c0 _ _ _ ?_ h23
        refine ran_of_cluster_eq env c0 _ _ (fun _ => rfl) (fun _ h => h) (fun _ _ h => h) ?_
        intro c h
        exact (Graph.mem_vertex_list_add_vertex _ _ _).mpr (Or.inr h)
      have hv3 : c0 ∈ s3.graph_plan.remove_graph.vertex_list :=
        h23.1.remove_vertices c0 ((Graph.mem_vertex_list_add_vertex _ _ _).mpr (Or.inl rfl))
      refine wp_mono _ _ _ _
        (wp_for_each_rel (Ran env c0) (ran_refl env c0) (ran_trans env c0)
          (fun f s => (s3.cluster env c0).declares f →
            f ∈ (s.cluster env c0).to_install_features)
          (fun f s s' hr h hdec => hr.1.features c0 f (h hdec)) p_installed.original_features
          _ s3
          (fun x _ s hr => wp_mono _ _ _ _ (mark_minus_reinstall_ran env callee hc c0 c0 x s)
            (fun _ s' h => ⟨h.1, fun hdec =>
              h.2 ((declares_of_marked env s3 s hr.1 c0 x).mpr hdec)⟩)) s3
          (ran_refl env c0 _)) ?_
      intro _ s4 ⟨h34, hfeat⟩
      refine wp_mono _ _ _ _
        (wp_for_each_rel (Ran env c0) (ran_refl env c0) (ran_trans env c0) (fun _ _ => True)
          (fun _ _ _ _ _ => trivial) p_source.scf.core_paragraph.default_features _ s4
          (fun x _ s _ => wp_mono _ _ _ _ (mark_minus_new_default_ran env callee hc c0 _ x s)
            (fun _ _ h => ⟨h, trivial⟩)) s4 (ran_refl env c0 _)) ?_
      intro _ s5 ⟨h45, _⟩
      have h15 : Ran env c0 st1 s5 :=
        ran_trans env c0 _ _ _ h12 (ran_trans env c0 _ _ _ h34 h45)
      have hi0 : (st.cluster env c0).installed = some p_installed := by
        rw [h1c0] at hinst; exact hinst
      refine ⟨marked_of_set_minus env st s5 c0 (by rw [hst1]; exact h15.1) ?_,
        h15.1.minus c0 hm1, ?_⟩
      · intro i hi
        rw [hi0] at hi
        cases hi
        refine ⟨⟨p_source, by rw [h1c0] at hsrc; exact hsrc⟩,
          h45.1.remove_vertices c0 (h34.1.remove_vertices c0 hv3), ?_⟩
        intro f hf hdec
        refine h45.1.features c0 f (hfeat f hf ?_)
        rw [declares_of_marked env st1 s3 h12.1]
        unfold Cluster.declares at hdec ⊢
        rw [h1c0]
        exact hdec
      · intro c hct
        by_cases e : c = c0
        · subst e
          refine core_taken_of_installed env s5 c ?_
          rw [h15.1.installed, hinst]
          simp
        · exact h15.2 c e (h1k c hct)

theorem ran_insert_feature (env : Env) (c0 : PackageSpec) (f : String) (st : PlanState)
    (hm : (st.cluster env c0).minus = true) :
    Ran env c0 st (st.modify env c0 (fun c =>
      { c with to_install_features := set_insert string_less f c.to_install_features })) := by
  refine ⟨marked_modify env st c0 _ (fun _ => rfl) (fun _ => rfl) (fun _ => rfl) (fun _ => rfl)
    (fun c g hg => (mem_set_insert _ _ _ _).mpr (Or.inr hg)) (Or.inl hm), ?_⟩
  intro c hne
  refine core_taken_congr env _ _ c ?_ ?_ ?_ (fun h => h) <;> simp [hne]

theorem followed_step (env : Env) (f : String) (c0 : PackageSpec) (st s s' : PlanState)
    (h : Followed env f c0 st s) (hr : Ran env c0 s s') : Followed env f c0 st s' := by
  obtain ⟨hm, hf, hmin, hcore, hk⟩ := h
  have hcore' : "core" ∈ (s'.cluster env c0).to_install_features ∨
      (s'.cluster env c0).plus_of "core" = true := by
    rcases hcore with h1 | h1
    · exact Or.inl (hr.1.features c0 _ h1)
    · exact Or.inr (hr.1.plus c0 _ h1)
  refine ⟨marked_trans env _ _ _ hm hr.1, hr.1.features c0 f hf, hr.1.minus c0 hmin, hcore', ?_⟩
  intro c hct
  by_cases e : c = c0
  · subst e; exact core_taken_of_core env s' c hcore'
  · exact hr.2 c e (hk c hct)

theorem follow_plus_dependencies_edge_ran (env : Env) (callee : Marking)
    (hc : callee.Meets (core_closure_spec env)) (f : String) (c0 : PackageSpec)
    (depend : FeatureSpec) (s : PlanState) :
    wp (follow_plus_dependencies_edge env callee f c0 depend) (fun _ s' => Ran env c0 s s') s := by
  unfold follow_plus_dependencies_edge
  simp only [wp_bind, wp_modify]
  refine wp_mono _ _ _ _ (hc.1 depend.feature depend.spec _) ?_
  intro r s1 ⟨hm, hplus, hk, hk0, _⟩
  simp only [wp_check_exit, wp_ite, wp_pure, wp_modify, decide_eq_true_eq]
  intro hr
  have hget : Ran env c0 s (s.get env depend.spec) :=
    ran_of_cluster_eq env c0 _ _ (fun c => by simp) (fun _ h => h) (fun _ _ h => h)
      (fun _ h => h)
  have hall : ∀ c, (s.get env depend.spec).CoreTaken env c → s1.CoreTaken env c := by
    intro c hct
    by_cases e : c = depend.spec
    · subst e; exact hk0 hct hr
    · exact hk c e hct
  have h01 : Ran env c0 s s1 := ran_trans env c0 _ _ _ hget ⟨hm, fun c _ h => hall c h⟩
  refine ⟨fun _ => h01, fun hne => ?_⟩
  refine ran_trans env c0 _ _ _ h01 ⟨marked_of_cluster_eq env _ _ (fun _ => rfl) ?_ (fun _ h => h), ?_⟩
  · intro c h
    exact (Graph.mem_vertex_list_add_edge _ _ _ _).mpr (Or.inr (Or.inr h))
  · intro c hne0 hct
    by_cases e : c = depend.spec
    · subst e
      have hct' := core_taken_of_marked env s1 s1 (marked_refl env s1) _ hct
        (Or.inr (Or.inr ⟨_, hplus⟩))
      intro hi _
      exact hct' hi (Or.inr (Or.inr ⟨_, hplus⟩))
    · refine core_taken_congr env s1 _ c rfl rfl (fun _ => rfl) ?_ hct
      intro hv
      rcases (Graph.mem_vertex_list_add_edge _ _ _ _).mp hv with h1 | h1 | h1
      · exact absurd h1 hne0
      · exact absurd h1 e
      · exact h1

theorem follow_plus_dependencies_body_core (env : Env) (pdf : List String) (callee : Marking)
    (hc : callee.Meets (core_closure_spec env)) (f : String) (c0 : PackageSpec)
    (st : PlanState) :
    wp (follow_plus_dependencies_body env pdf callee f c0)
      ((core_closure_spec env).follow_plus_dependencies f c0 st) st := by
  unfold follow_plus_dependencies_body
  simp only [wp_bind, wp_get]
  split
  · rename_i p_source hsrc
    split
    · rename_i build_edges hfind
      simp only [wp_bind]
      refine wp_mono _ _ _ _ (hc.2.1 c0 st) ?_
      intro _ st1 ⟨hm01, hmin1, hk01⟩
      refine wp_modify_named _ _ _ ?_
      intro st2 hst2
      have h12 : Ran env c0 st1 st2 := by
        subst hst2
        refine ran_of_cluster_eq env c0 _ _ (fun _ => rfl) ?_ ?_ (fun _ h => h)
        · intro c h
          exact (Graph.mem_vertex_list_add_vertex _ _ _).mpr (Or.inr h)
        · intro c hne h
          rcases (Graph.mem_vertex_list_add_vertex _ _ _).mp h with h1 | h1
          · exact absurd h1 hne
          · exact h1
      refine wp_modify_named _ _ _ ?_
      intro st3 hst3
      have h23 : Ran env c0 st2 st3 := by
        subst hst3
        exact ran_insert_feature env c0 f st2 (h12.1.minus c0 hmin1)
      have hf3 : f ∈ (st3.cluster env c0).to_install_features := by
        subst hst3
        simp [mem_set_insert]
      have h13 := ran_trans env c0 _ _ _ h12 h23
      have hmin3 := h13.1.minus c0 hmin1
      refine wp_mono _ (fun _ s => Followed env f c0 st s) _ _ ?_ ?_
      · rw [wp_ite]
        constructor
        · intro _
          simp only [wp_bind]
          refine wp_mono _ _ _ _ (hc.1 "core" c0 st3) ?_
          intro r st4 ⟨hm, hplus, hk, _, _⟩
          rw [wp_check_exit]
          intro _
          refine ⟨marked_trans env _ _ _ hm01 (marked_trans env _ _ _ h13.1 hm),
            hm.features c0 f hf3, hm.minus c0 hmin3, Or.inr hplus, ?_⟩
          intro c hct
          by_cases e : c = c0
          · subst e; exact core_taken_of_core env st4 c (Or.inr hplus)
          · exact hk c e (h13.2 c e (hk01 c hct))
        · intro hcore
          simp only [ne_eq, not_not] at hcore
          rw [wp_pure]
          have hcore3 : "core" ∈ (st3.cluster env c0).to_install_features := by
            rw [← hcore]; exact hf3
          refine ⟨marked_trans env _ _ _ hm01 h13.1, hf3, hmin3, Or.inl hcore3, ?_⟩
          intro c hct
          by_cases e : c = c0
          · subst e; exact core_taken_of_core env st3 c (Or.inl hcore3)
          · exact h13.2 c e (hk01 c hct)
      · intro _ s4 hF4
        simp only [wp_get]
        refine wp_mono _ (fun _ s => Followed env f c0 st s) _ _ ?_ ?_
        · rw [wp_ite]
          constructor
          · intro _
            simp only [wp_bind]
            refine wp_mono _ _ _ _ (hc.1 "" c0 s4) ?_
            intro r s5 ⟨hm, _, hk, _, _⟩
            rw [wp_check_exit]
            intro _
            exact followed_step env f c0 st s4 s5 hF4 ⟨hm, hk⟩
          · intro _
            rw [wp_pure]
            exact hF4
        · intro _ s5 hF5
          refine wp_mono _ _ _ _
            (wp_for_each_rel (Ran env c0) (ran_refl env c0) (ran_trans env c0)
              (fun _ _ => True) (fun _ _ _ _ _ => trivial) build_edges _ s5
              (fun x _ s _ => wp_mono _ _ _ _
                (follow_plus_dependencies_edge_ran env callee hc f c0 x s)
                (fun _ _ h => ⟨h, trivial⟩)) s5 (ran_refl env c0 _)) ?_
          intro _ s6 ⟨h56, _⟩
          rw [wp_pure]
          obtain ⟨hm, hf, hmin, hcore, hk⟩ := followed_step env f c0 st s5 s6 hF5 h56
          exact ⟨hm, fun _ => ⟨hf, hmin, hcore⟩, fun _ => rfl, hk⟩
    · rename_i hfind
      rw [wp_pure]
      refine ⟨marked_refl env st, ?_, ?_, fun _ h => h⟩
      · intro h; cases h
      · rintro ⟨src, es, hs, hfd⟩
        rw [hsrc] at hs
        cases hs
        rw [hfind] at hfd
        cases hfd
  · rename_i hsrc
    rw [wp_pure]
    refine ⟨marked_refl env st, ?_, ?_, fun _ h => h⟩
    · intro h; cases h
    · rintro ⟨src, es, hs, hfd⟩
      rw [hsrc] at hs
      cases hs

end Vcpkg

namespace Vcpkg

theorem mark_plus_all_features_step_ran (env : Env) (callee : Marking)
    (hc : callee.Meets (core_closure_spec env)) (c0 : PackageSpec) (fpgh : FeatureParagraph)
    (s : PlanState) :
    wp (mark_plus_all_features_step callee c0 fpgh) (fun _ s' => Ran env c0 s s') s := by
  unfold mark_plus_all_features_step
  simp only [wp_bind]
  refine wp_mono _ _ _ _ (hc.1 fpgh.name c0 s) ?_
  intro r s' ⟨hm, _, hk, _, _⟩
  rw [wp_check_exit]
  intro _
  exact ⟨hm, hk⟩

theorem mark_plus_body_core (env : Env) (callee : Marking)
    (hc : callee.Meets (core_closure_spec env)) (f : String) (c0 : PackageSpec)
    (st : PlanState) :
    wp (mark_plus_body env callee f c0) ((core_closure_spec env).mark_plus f c0 st) st := by
  unfold mark_plus_body
  simp only [wp_bind, wp_get]
  rw [wp_ite]
  constructor
  · intro hp
    rw [wp_pure]
    refine ⟨marked_refl env st, hp, fun _ _ h => h, fun h _ => h, ?_⟩
    intro hf hp0
    rw [hf] at hp
    rw [hp0] at hp
    cases hp
  · intro hp0
    simp only [Bool.not_eq_true] at hp0
    simp only [wp_bind]
    refine wp_modify_named _ _ _ ?_
    intro st1 hst1
    have hp1 : (st1.cluster env c0).plus_of f = true := by
      subst hst1
      simp [plus_of_set]
    have hk1 : CoreKept env c0 st st1 := by
      subst hst1
      intro c hne
      refine core_taken_congr env _ _ c ?_ ?_ ?_ (fun h => h) <;> simp [hne]
    have hi1 : (st1.cluster env c0).installed = (st.cluster env c0).installed := by
      subst hst1; simp
    have hs1 : (st1.cluster env c0).source = (st.cluster env c0).source := by
      subst hst1; simp
    have finish : ∀ st' r, Ran env c0 st1 st' →
        (f ≠ "" → f ≠ "*" → f ∉ (st.cluster env c0).original →
          ∃ src, (st.cluster env c0).source = some src ∧
            ((st.cluster env c0).declares f →
              f ∈ (st'.cluster env c0).to_install_features ∧
              (st'.cluster env c0).minus = true)) →
        (r = MarkPlusResult.SUCCESS → (st.cluster env c0).installed = none →
          "core" ∈ (st'.cluster env c0).to_install_features ∨
            (st'.cluster env c0).plus_of "core" = true) →
        (f = "" → r = MarkPlusResult.SUCCESS →
          ∀ src, (st.cluster env c0).source = some src →
            ∀ d ∈ src.scf.core_paragraph.default_features,
              (st'.cluster env c0).plus_of d = true) →
        (core_closure_spec env).mark_plus f c0 st r st' := by
      intro st' r hR hadd hct hdef
      refine ⟨marked_of_set_plus env st st' c0 f (by rw [← hst1]; exact hR.1)
        (fun _ h1 h2 h3 => hadd h1 h2 h3), hR.1.plus c0 f hp1,
        fun c e h => hR.2 c e (hk1 c e h), ?_, fun hf _ hr => hdef hf hr⟩
      intro _ hr
      cases hi : (st.cluster env c0).installed with
      | none => exact core_taken_of_core env st' c0 (hct hr hi)
      | some i =>
        refine core_taken_of_installed env st' c0 ?_
        rw [hR.1.installed, hi1, hi]
        simp
    simp only [wp_get]
    split
    · exact (wp_throw _ _ _).mpr trivial
    · rename_i p_source hsrc
      rw [wp_ite]
      constructor
      · intro hf
        simp only [wp_bind]
        refine wp_mono _ _ _ _
          (wp_first_failure_rel (Ran env c0) (ran_refl env c0) (ran_trans env c0)
            (fun d s => (s.cluster env c0).plus_of d = true)
            (fun d s s' hr h => hr.1.plus c0 d h)
            p_source.scf.core_paragraph.default_features _ st1
            (fun x _ s _ => wp_mono _ _ _ _ (hc.1 x c0 s)
              (fun r s' h => ⟨⟨h.1, h.2.2.1⟩, fun _ => h.2.1⟩)) st1 (ran_refl env c0 _)) ?_
        intro res s2 ⟨h12, hall⟩
        rw [wp_ite]
        constructor
        · intro hres
          rw [wp_pure]
          exact finish s2 res h12 (fun h => absurd hf h) (fun h => absurd h hres)
            (fun _ h => absurd h hres)
        · intro hres
          simp only [ne_eq, not_not] at hres
          refine wp_mono _ _ _ _ (hc.1 "core" c0 s2) ?_
          intro r s3 ⟨hm, hp, hk, _, _⟩
          refine finish s3 r (ran_trans env c0 _ _ _ h12 ⟨hm, hk⟩) (fun h => absurd hf h)
            (fun _ _ => Or.inr hp) ?_
          intro _ _ src hsrc' d hd
          rw [hs1, hsrc'] at hsrc
          cases hsrc
          exact hm.plus c0 d (hall hres d hd)
      · intro hf
        rw [wp_ite]
        constructor
        · intro hstar
          simp only [wp_bind]
          refine wp_mono _ _ _ _
            (wp_for_each_rel (Ran env c0) (ran_refl env c0) (ran_trans env c0)
              (fun _ _ => True) (fun _ _ _ _ _ => trivial) p_source.scf.feature_paragraphs _ st1
              (fun x _ s _ => wp_mono _ _ _ _
                (mark_plus_all_features_step_ran env callee hc c0 x s)
                (fun _ _ h => ⟨h, trivial⟩)) st1 (ran_refl env c0 _)) ?_
          intro _ s2 ⟨h12, _⟩
          refine wp_mono _ _ _ _ (hc.1 "core" c0 s2) ?_
          intro r s3 ⟨hm, hp, hk, _, _⟩
          rw [wp_check_exit]
          intro _
          rw [wp_pure]
          exact finish s3 _ (ran_trans env c0 _ _ _ h12 ⟨hm, hk⟩) (fun _ h => absurd hstar h)
            (fun _ _ => Or.inr hp) (fun h => absurd h hf)
        · intro hstar
          simp only [wp_bind, wp_get]
          rw [wp_ite]
          constructor
          · intro horig
            rw [wp_pure]
            have horig' : f ∈ (st.cluster env c0).original := by
              unfold Cluster.original
              rw [← hi1]
              exact horig
            refine finish st1 _ (ran_refl env c0 _) (fun _ _ h => absurd horig' h) ?_
              (fun h => absurd h hf)
            intro _ hnone
            unfold Cluster.original at horig'
            rw [hnone] at horig'
            simp at horig'
          · intro _
            simp only [wp_bind]
            refine wp_mono _ _ _ _ (hc.2.1 c0 st1) ?_
            intro _ s2 ⟨hm12, _, hk12⟩
            refine wp_mono _ _ _ _ (hc.2.2 f c0 s2) ?_
            intro r s3 ⟨hm23, hs, hd, hk23⟩
            refine finish s3 r ⟨marked_trans env _ _ _ hm12 hm23,
              fun c _ h => hk23 c (hk12 c h)⟩ ?_ (fun hr _ => (hs hr).2.2)
              (fun h => absurd h hf)
            intro _ _ _
            refine ⟨p_source, by rw [← hs1]; exact hsrc, ?_⟩
            intro hdec
            have hdec2 : (s2.cluster env c0).declares f := by
              unfold Cluster.declares at hdec ⊢
              rw [hm12.source, hs1]
              exact hdec
            exact ⟨(hs (hd hdec2)).1, (hs (hd hdec2)).2.1⟩

/-- The marking procedures meet the specification of the core closure at every depth. -/
theorem marking_core_closure (env : Env) (pdf : List String) (fuel : Nat) :
    (marking env pdf fuel).Meets (core_closure_spec env) :=
  marking_meets env pdf (core_closure_spec env)
    (fun callee hc f c st => mark_plus_body_core env callee hc f c st)
    (fun callee hc c st => mark_minus_body_core env callee hc c st)
    (fun callee hc f c st => follow_plus_dependencies_body_core env pdf callee hc f c st) fuel

end Vcpkg

namespace Vcpkg

/-! ## The core closure of a plan -/

theorem install_core (env : Env) (fuel : Nat) (spec : FeatureSpec) (pdf : List String)
    (st : PlanState) :
    wp (PackageGraph.install env fuel spec pdf)
      (fun _ st' => (Marked env st st' ∧ ∀ c, st.CoreTaken env c → st'.CoreTaken env c) ∧
        (st'.cluster env spec.spec).plus_of spec.feature = true ∧
        spec.spec ∈ st'.graph_plan.install_graph.vertex_list ∧
        (spec.feature = "" → (st.cluster env spec.spec).plus_of "" = false →
          ∀ src, (st.cluster env spec.spec).source = some src →
            ∀ d ∈ src.scf.core_paragraph.default_features,
              (st'.cluster env spec.spec).plus_of d = true)) st := by
  unfold PackageGraph.install
  simp only [wp_bind]
  refine wp_modify_named _ _ _ ?_
  intro st1 hst1
  have hc1 : ∀ c, st1.cluster env c = st.cluster env c := by
    subst hst1; intro c; simp
  have hg1 : st1.graph_plan = st.graph_plan := by subst hst1; rfl
  refine wp_modify_named _ _ _ ?_
  intro st2 hst2
  have h12 : Marked env st1 st2 := by
    subst hst2
    exact marked_modify env st1 spec.spec _ (fun _ => rfl) (fun _ => rfl) (fun _ => rfl)
      (fun _ => rfl) (fun _ _ h => h) (Or.inr rfl)
  have hk12 : ∀ c, st1.CoreTaken env c → st2.CoreTaken env c := by
    subst hst2
    intro c
    refine core_taken_congr env _ _ c ?_ ?_ ?_ (fun h => h)
    · simp only [PlanState.state_cluster_modify]; split
      · rename_i e; subst e; rfl
      · rfl
    · simp only [PlanState.state_cluster_modify]; split
      · rename_i e; subst e; rfl
      · rfl
    · intro f
      simp only [PlanState.state_cluster_modify]; split
      · rename_i e; subst e; rfl
      · rfl
  have hp2 : ∀ f, (st2.cluster env spec.spec).plus_of f = (st.cluster env spec.spec).plus_of f := by
    subst hst2
    intro f
    simp only [PlanState.state_cluster_modify, if_true]
    rw [← hc1]
    rfl
  have hs2 : (st2.cluster env spec.spec).source = (st.cluster env spec.spec).source := by
    rw [h12.source, hc1]
  have h01 : Marked env st st1 :=
    marked_of_cluster_eq env st st1 hc1 (fun _ h => by rw [hg1]; exact h)
      (fun _ h => by rw [hg1]; exact h)
  have hk01 : ∀ c, st.CoreTaken env c → st1.CoreTaken env c := by
    intro c
    exact core_taken_congr env _ _ c (by rw [hc1]) (by rw [hc1]) (fun f => by rw [hc1])
      (fun h => by rw [hg1] at h; exact h)
  refine wp_mono _ _ _ _ ((marking_core_closure env pdf fuel).1 spec.feature spec.spec st2) ?_
  intro r st3 ⟨hm, hp, hk, hk0, hdef⟩
  rw [wp_check_exit]
  intro hr
  simp only [decide_eq_true_eq] at hr
  refine wp_modify_named _ _ _ ?_
  intro st4 hst4
  subst hst4
  have hall : ∀ c, st.CoreTaken env c → st3.CoreTaken env c := by
    intro c hct
    by_cases e : c = spec.spec
    · subst e; exact hk0 (hk12 _ (hk01 _ hct)) hr
    · exact hk c e (hk12 _ (hk01 _ hct))
  refine ⟨⟨marked_trans env _ _ _ (marked_trans env _ _ _ h01 h12)
    (marked_trans env _ _ _ hm (marked_of_cluster_eq env _ _ (fun _ => rfl) ?_ (fun _ h => h))),
    ?_⟩, hp, (Graph.mem_vertex_list_add_vertex _ _ _).mpr (Or.inl rfl), ?_⟩
  · intro c h
    exact (Graph.mem_vertex_list_add_vertex _ _ _).mpr (Or.inr h)
  · intro c hct
    by_cases e : c = spec.spec
    · subst e
      have h3 := hall _ hct
      intro hi _
      exact h3 hi (Or.inr (Or.inr ⟨_, hp⟩))
    · refine core_taken_congr env st3 _ c rfl rfl (fun _ => rfl) ?_ (hall c hct)
      intro hv
      rcases (Graph.mem_vertex_list_add_vertex _ _ _).mp hv with h1 | h1
      · exact absurd h1 e
      · exact h1
  · intro hf hp0 src hsrc d hd
    exact hdef hf (by rw [hp2]; exact hp0) hr src (by rw [hs2]; exact hsrc) d hd

theorem install_all_core (env : Env) (fuel : Nat) (specs : List FeatureSpec) (pdf : List String)
    (st : PlanState) :
    wp (install_all env fuel specs pdf)
      (fun _ st' => Marked env st st' ∧ ∀ c, st.CoreTaken env c → st'.CoreTaken env c) st := by
  unfold install_all
  refine wp_mono _ _ _ _
    (wp_for_each_rel (fun a b => Marked env a b ∧ ∀ c, a.CoreTaken env c → b.CoreTaken env c)
      (fun s => ⟨marked_refl env s, fun _ h => h⟩)
      (fun a b c hab hbc => ⟨marked_trans env _ _ _ hab.1 hbc.1, fun s h => hbc.2 s (hab.2 s h)⟩)
      (fun _ _ => True) (fun _ _ _ _ _ => trivial) specs _ st ?_ st
      ⟨marked_refl env st, fun _ h => h⟩) (fun _ _ h => h.1)
  intro x _ s _
  rw [wp_ite]
  refine ⟨fun _ => ?_, fun _ => ?_⟩
  · rw [wp_pure]
    exact ⟨⟨marked_refl env s, fun _ h => h⟩, trivial⟩
  · exact wp_mono _ _ _ _ (install_core env fuel x pdf s) (fun _ _ h => ⟨h.1, trivial⟩)

theorem transient_marked_step_closed (env : Env) :
    StepClosed env (fun st => st.TransientMarked env) := by
  intro st st' hI hstep c
  have h := hI c
  cases hstep with
  | get spec => simpa using h
  | set_plus cluster feature =>
    simp only [PlanState.state_cluster_modify]
    split
    · rename_i e; subst e; exact h
    · exact h
  | set_minus cluster =>
    simp only [PlanState.state_cluster_modify]
    split
    · rename_i e; subst e; exact ⟨fun _ => rfl, fun _ _ => rfl⟩
    · exact h
  | insert_feature cluster feature =>
    simp only [PlanState.state_cluster_modify]
    split
    · rename_i e; subst e; exact h
    · exact h
  | set_user_requested cluster =>
    simp only [PlanState.state_cluster_modify]
    split
    · rename_i e; subst e; exact h
    · exact h
  | remove_vertex cluster => exact h
  | remove_edge cluster edge hne => exact h
  | install_vertex cluster => exact h
  | install_edge cluster depend hne => exact h

/-- The clusters of a `PackageGraph` that has just been constructed. -/
theorem init_cluster_fresh (env : Env) (status_db : StatusParagraphs) (g : ClusterGraph)
    (h : create_feature_install_graph env status_db = Except.ok g) (c : PackageSpec) :
    (PlanState.cluster env { m_graph := g, graph_plan := {} } c).minus = false ∧
    (∀ f, (PlanState.cluster env { m_graph := g, graph_plan := {} } c).plus_of f = false) ∧
    (PlanState.cluster env { m_graph := g, graph_plan := {} } c).to_install_features = [] ∧
    (PlanState.cluster env { m_graph := g, graph_plan := {} } c).source =
      (new_cluster env c).source ∧
    (∀ i, (PlanState.cluster env { m_graph := g, graph_plan := {} } c).installed = some i →
      "core" ∈ i.original_features ∧
      (PlanState.cluster env { m_graph := g, graph_plan := {} } c).transient_uninstalled
        = false) := by
  obtain ⟨h1, h2, h3⟩ := create_feature_install_graph_cluster env status_db g h c
  have e : PlanState.cluster env { m_graph := g, graph_plan := {} } c =
      ClusterGraph.cluster env g c := rfl
  rw [e]
  have hminus := congrArg Cluster.minus h1
  have hfeat := congrArg Cluster.to_install_features h1
  have hsrc := congrArg Cluster.source h1
  refine ⟨hminus, ?_, hfeat, hsrc, ?_⟩
  · intro f
    have := congrArg Cluster.plus h1
    unfold Cluster.plus_of
    simp only at this
    rw [this]
    rfl
  · intro i hi
    cases hl : last_installed status_db c with
    | none => rw [h2 hl] at hi; cases hi
    | some ipv =>
      obtain ⟨i', hi', _, ho, _⟩ := h3 ipv hl
      rw [hi] at hi'
      cases hi'
      refine ⟨by rw [ho]; exact core_mem_original_features ipv, ?_⟩
      have := congrArg Cluster.transient_uninstalled h1
      simp only [hl] at this
      exact this

/-- The port of a fresh cluster declares "core". -/
theorem new_cluster_declares_core (env : Env) (c : PackageSpec) (src : ClusterSource)
    (h : (new_cluster env c).source = some src) :
    ∃ es, AssocMap.find src.build_edges "core" = some es := by
  unfold new_cluster at h
  simp only at h
  cases hg : env.get_control_file c.name with
  | none => rw [hg] at h; cases h
  | some scf =>
    rw [hg] at h
    simp only [Option.map_some', Option.some.injEq] at h
    subst h
    exact ⟨_, cluster_from_scf_core env scf c.triplet⟩

/-- What the marking phase of `create_feature_install_plan` achieves. -/
theorem marked_state_marked (env : Env) (fuel : Nat) (specs : List FeatureSpec)
    (status_db : StatusParagraphs) (marked : PlanState)
    (h : marked_state env fuel specs status_db = Except.ok marked) :
    ∃ g, create_feature_install_graph env status_db = Except.ok g ∧
      Marked env { m_graph := g, graph_plan := {} } marked ∧
      (∀ c, marked.CoreTaken env c) ∧ marked.TransientMarked env := by
  have hT := marked_state_keeps env _ (transient_marked_step_closed env) fuel specs status_db
    marked h (fun g hg c => by
      obtain ⟨hmin, _, _, _, hinst⟩ := init_cluster_fresh env status_db g hg c
      refine ⟨fun hm => (by rw [hmin] at hm; cases hm), fun hi ht => ?_⟩
      cases hc : (PlanState.cluster env { m_graph := g, graph_plan := {} } c).installed with
      | none => exact absurd hc hi
      | some i => rw [(hinst i hc).2] at ht; cases ht)
  rw [marked_state_ok] at h
  obtain ⟨g, hg, hrun⟩ := h
  obtain ⟨hM, hk⟩ := install_all_core env fuel specs _ _ () marked hrun
  refine ⟨g, hg, hM, fun c => hk c ?_, hT⟩
  obtain ⟨_, hplus, hfeat, _, _⟩ := init_cluster_fresh env status_db g hg c
  intro _ ht
  rcases ht with ht | ht | ⟨f, hf⟩
  · exact absurd hfeat ht
  · simp [Graph.vertex_list] at ht
  · rw [hplus f] at hf; cases hf

/-- Core closure of the marked state: a cluster that has a feature to install, or that is a
transiently uninstalled vertex of the install graph, has "core" among its features to
install. -/
theorem marked_state_core_closure (env : Env) (fuel : Nat) (specs : List FeatureSpec)
    (status_db : StatusParagraphs) (marked : PlanState)
    (h : marked_state env fuel specs status_db = Except.ok marked) (c : PackageSpec)
    (htouch : (marked.cluster env c).to_install_features ≠ [] ∨
      (c ∈ marked.graph_plan.install_graph.vertex_list ∧
        (marked.cluster env c).transient_uninstalled = true)) :
    "core" ∈ (marked.cluster env c).to_install_features := by
  obtain ⟨g, hg, hM, hct, hT⟩ := marked_state_marked env fuel specs status_db marked h
  obtain ⟨hmin0, hplus0, hfeat0, hsrc0, hinst0⟩ := init_cluster_fresh env status_db g hg c
  have hdecl : ∀ src,
      (PlanState.cluster env { m_graph := g, graph_plan := {} } c).source = some src →
      (PlanState.cluster env { m_graph := g, graph_plan := {} } c).declares "core" := by
    intro src hs
    obtain ⟨es, hes⟩ := new_cluster_declares_core env c src (by rw [← hsrc0]; exact hs)
    exact ⟨src, es, hs, hes⟩
  have installed_case : ∀ i,
      (PlanState.cluster env { m_graph := g, graph_plan := {} } c).installed = some i →
      (marked.cluster env c).minus = true →
      "core" ∈ (marked.cluster env c).to_install_features := by
    intro i hi hm
    obtain ⟨⟨src, hs⟩, _, hf⟩ := hM.rebuilt c i hi hmin0 hm
    exact hf "core" (hinst0 i hi).1 (hdecl src hs)
  cases hi : (PlanState.cluster env { m_graph := g, graph_plan := {} } c).installed with
  | none =>
    have ht : (marked.cluster env c).to_install_features ≠ [] ∨
        c ∈ marked.graph_plan.install_graph.vertex_list ∨
        ∃ f, (marked.cluster env c).plus_of f = true := by
      rcases htouch with h1 | h1
      · exact Or.inl h1
      · exact Or.inr (Or.inl h1.1)
    rcases hct c (by rw [hM.installed, hi]) ht with h1 | h1
    · exact h1
    · obtain ⟨src, hs, hd⟩ := hM.added c "core" (hplus0 _) h1 (by decide) (by decide)
        (by unfold Cluster.original; rw [hi]; simp)
      exact (hd (hdecl src hs)).1
  | some i =>
    rcases htouch with h1 | h1
    · obtain ⟨f, hf⟩ := List.exists_mem_of_ne_nil _ h1
      rcases hM.inserted c f hf with h2 | h2
      · rw [hfeat0] at h2; simp at h2
      · exact installed_case i hi h2
    · refine installed_case i hi ((hT c).2 ?_ h1.2)
      rw [hM.installed, hi]
      simp

/-- C6 (core closure): whenever `create_feature_install_plan` returns a plan, every cluster
of the marked state whose `to_install_features` is non-empty has "core" in it; and, the
topological sort returning vertices of the graph it is given, every `BUILD_AND_INSTALL`
action of the plan has "core" in its feature list. -/
theorem core_closure (env : Env) (fuel : Nat) (specs : List FeatureSpec)
    (status_db : StatusParagraphs) (plan : List AnyAction)
    (h : create_feature_install_plan env fuel specs status_db = Except.ok plan) :
    ∃ marked, marked_state env fuel specs status_db = Except.ok marked ∧
      PackageGraph.serialize env marked = Except.ok plan ∧
      (∀ c, (marked.cluster env c).to_install_features ≠ [] →
        "core" ∈ (marked.cluster env c).to_install_features) ∧
      (env.TopologicalSortSpec →
        ∀ a, AnyAction.install_action a ∈ plan →
          a.plan_type = InstallPlanType.BUILD_AND_INSTALL → "core" ∈ a.feature_list) := by
  obtain ⟨marked, hmarked, hser⟩ := (create_feature_install_plan_ok _ _ _ _ _).mp h
  refine ⟨marked, hmarked, hser,
    fun c hc => marked_state_core_closure env fuel specs status_db marked hmarked c (Or.inl hc),
    ?_⟩
  intro hsort a ha hbuild
  obtain ⟨remove_toposort, insert_toposort, installs, _, hins, hinstalls, hplan⟩ :=
    serialize_ok env marked plan hser
  have hmem : AnyAction.install_action a ∈ installs := by
    rw [hplan] at ha
    rcases List.mem_append.mp ha with h1 | h1
    · unfold serialize_remove at h1
      obtain ⟨_, _, e⟩ := List.mem_map.mp h1
      cases e
    · exact h1
  obtain ⟨hspec, htrans, hlist, _⟩ := serialize_install_build env marked
    (marked_state_well_keyed env fuel specs status_db marked hmarked) insert_toposort installs
    hinstalls a hmem hbuild
  have hperm := hsort marked.graph_plan.install_graph
  rw [hins] at hperm
  rw [hlist]
  exact marked_state_core_closure env fuel specs status_db marked hmarked a.spec
    (Or.inr ⟨hperm.1.mem_iff.mp hspec, htrans⟩)

set_option maxRecDepth 100000 in
/-- The plan for `curl[ssl]`, where the core of `curl` depends on `zlib`: both packages
that are built have "core" among their features. -/
theorem core_closure_witness :
    ∃ marked,
      marked_state curl_zlib_env 10 [⟨⟨"curl", x64_linux⟩, "ssl"⟩] curl_status_db =
        Except.ok marked ∧
      PackageGraph.serialize curl_zlib_env marked = Except.ok curl_zlib_plan ∧
      (∀ c, (marked.cluster curl_zlib_env c).to_install_features ≠ [] →
        "core" ∈ (marked.cluster curl_zlib_env c).to_install_features) ∧
      (curl_zlib_env.TopologicalSortSpec →
        ∀ a, AnyAction.install_action a ∈ curl_zlib_plan →
          a.plan_type = InstallPlanType.BUILD_AND_INSTALL → "core" ∈ a.feature_list) :=
  core_closure curl_zlib_env 10 [⟨⟨"curl", x64_linux⟩, "ssl"⟩] curl_status_db curl_zlib_plan
    (by decide)

end Vcpkg

namespace Vcpkg

/-! ## Newly added default features -/

theorem serialize_install_build_mem (env : Env) (st : PlanState) (vs : List PackageSpec) :
    ∀ plan, serialize_install env st vs = Except.ok plan →
      ∀ v ∈ vs, (st.cluster env v).transient_uninstalled = true →
        ∃ a, AnyAction.install_action a ∈ plan ∧ a.spec = (st.cluster env v).spec ∧
          a.feature_list = (st.cluster env v).to_install_features ∧
          a.plan_type = InstallPlanType.BUILD_AND_INSTALL := by
  induction vs with
  | nil => intro plan _ v hv; simp at hv
  | cons p rest ih =>
    intro plan h v hv ht
    obtain ⟨tail, htail, hcase⟩ := serialize_install_cons_ok env st p rest plan h
    have hrest : v ∈ rest → ∃ a, AnyAction.install_action a ∈ plan ∧
        a.spec = (st.cluster env v).spec ∧
        a.feature_list = (st.cluster env v).to_install_features ∧
        a.plan_type = InstallPlanType.BUILD_AND_INSTALL := by
      intro hvr
      obtain ⟨a, ha, h1, h2, h3⟩ := ih tail htail v hvr ht
      refine ⟨a, ?_, h1, h2, h3⟩
      rcases hcase with ⟨e, _, _⟩ | ⟨_, _, _, e⟩ | ⟨_, _, _, _, e⟩
      · rw [e]; exact ha
      · rw [e]; exact List.mem_cons_of_mem _ ha
      · rw [e]; exact List.mem_cons_of_mem _ ha
    rcases List.mem_cons.mp hv with e | hvr
    · subst e
      rcases hcase with ⟨_, hf, _⟩ | ⟨source, _, _, e⟩ | ⟨_, hf, _, _, _⟩
      · rw [hf] at ht; cases ht
      · exact ⟨_, by rw [e]; exact List.mem_cons_self _ _, rfl, rfl, rfl⟩
      · rw [hf] at ht; cases ht
    · exact hrest hvr

/-- The port declares its feature paragraphs. -/
theorem cluster_from_scf_declares (env : Env) (scf : SourceControlFile) (t : Triplet)
    (f : String) (h : f = "core" ∨ ∃ fp ∈ scf.feature_paragraphs, fp.name = f) :
    ∃ es, AssocMap.find (cluster_from_scf env scf t).build_edges f = some es := by
  rcases h with h | h
  · subst h; exact ⟨_, cluster_from_scf_core env scf t⟩
  · unfold cluster_from_scf
    simp only
    have key : ∀ (fps : List FeatureParagraph) (edges : List (String × List FeatureSpec)),
        ((∃ es, AssocMap.find edges f = some es) ∨ ∃ fp ∈ fps, fp.name = f) →
        ∃ es, AssocMap.find (fps.foldl (fun edges feature =>
          AssocMap.emplace edges feature.name
            (env.filter_dependencies_to_specs feature.depends t)) edges) f = some es := by
      intro fps
      induction fps with
      | nil =>
        intro edges h
        rcases h with h | ⟨fp, hfp, _⟩
        · exact h
        · simp at hfp
      | cons p rest ih =>
        intro edges h
        simp only [List.foldl_cons]
        apply ih
        rcases h with ⟨es, hes⟩ | ⟨fp, hfp, hname⟩
        · left
          rw [find_emplace, hes]
          exact ⟨es, rfl⟩
        · rcases List.mem_cons.mp hfp with e | hfp
          · subst e
            left
            rw [find_emplace]
            cases AssocMap.find edges f with
            | some x => exact ⟨x, rfl⟩
            | none => simp [hname]
          · exact Or.inr ⟨fp, hfp, hname⟩
    exact key _ _ (Or.inr h)

theorem single_install_run (env : Env) (fuel : Nat) (P : PackageSpec) (st marked : PlanState)
    (h : (install_all env fuel [⟨P, ""⟩] (prevent_default_features_of [⟨P, ""⟩])).run st =
      Except.ok ((), marked)) :
    (PackageGraph.install env fuel ⟨P, ""⟩ []).run st = Except.ok ((), marked) := by
  have hpdf : prevent_default_features_of [⟨P, ""⟩] = [] := by
    simp [prevent_default_features_of]
  rw [hpdf] at h
  unfold install_all at h
  simp only [for_each, List.not_mem_nil, and_false, if_false] at h
  rw [Planner.bind_ok] at h
  obtain ⟨a, st1, h1, h2⟩ := h
  simp only [Planner.run_pure, Except.ok.injEq, Prod.mk.injEq] at h2
  obtain ⟨_, e⟩ := h2
  subst e
  exact h1

/-- C3, as the code has it (newly added defaults are picked up on a default request): for
an installed package `P` with a port, a default feature `d` of the port, other than "" and
"*", that is a feature paragraph of the port and is not among the installed features of `P`:
whenever `create_feature_install_plan` returns a plan for the single defaulted input `P`
(feature ""), the plan has a `RemovePlanAction` for `P` followed by a `BUILD_AND_INSTALL`
action for `P` whose feature list contains "core", `d` and every installed feature that is
still a feature paragraph of the port.  The topological sort is taken to return a
topological order of the graph it is given. -/
theorem new_defaults_on_default_request (env : Env) (hsort : env.TopologicalSortSpec)
    (status_db : StatusParagraphs) (P : PackageSpec) (ipv : InstalledPackageView)
    (hinstalled : last_installed status_db P = some ipv)
    (scf : SourceControlFile) (hport : env.get_control_file P.name = some scf)
    (d : String) (hd : d ∈ scf.core_paragraph.default_features)
    (hpar : ∃ fp ∈ scf.feature_paragraphs, fp.name = d)
    (hnew : d ∉ (cluster_installed_of ipv).original_features)
    (hd1 : d ≠ "") (hd2 : d ≠ "*")
    (fuel : Nat) (plan : List AnyAction)
    (h : create_feature_install_plan env fuel [⟨P, ""⟩] status_db = Except.ok plan) :
    ∃ (i j : Nat) (r : RemovePlanAction) (a : InstallPlanAction), i < j ∧
      plan[i]? = some (AnyAction.remove_action r) ∧
      plan[j]? = some (AnyAction.install_action a) ∧ r.spec = P ∧ a.spec = P ∧
      a.plan_type = InstallPlanType.BUILD_AND_INSTALL ∧
      "core" ∈ a.feature_list ∧ d ∈ a.feature_list ∧
      ∀ f ∈ (cluster_installed_of ipv).original_features,
        (∃ fp ∈ scf.feature_paragraphs, fp.name = f) → f ∈ a.feature_list := by
  obtain ⟨marked, hmarked, hser⟩ := (create_feature_install_plan_ok _ _ _ _ _).mp h
  have hwk := marked_state_well_keyed env fuel [⟨P, ""⟩] status_db marked hmarked
  obtain ⟨g, hg, hM, _, hT⟩ := marked_state_marked env fuel _ status_db marked hmarked
  obtain ⟨g', hg', hrun⟩ := (marked_state_ok _ _ _ _ _).mp hmarked
  rw [hg] at hg'
  cases hg'
  obtain ⟨_, _, hv, hdef⟩ := install_core env fuel ⟨P, ""⟩ [] _ () marked
    (single_install_run env fuel P _ marked hrun)
  obtain ⟨hmin0, hplus0, hfeat0, hsrc0, _⟩ := init_cluster_fresh env status_db g hg P
  obtain ⟨_, _, h3⟩ := create_feature_install_graph_cluster env status_db g hg P
  obtain ⟨i0, hi0, _, horig, _⟩ := h3 ipv hinstalled
  have hi0' : (PlanState.cluster env { m_graph := g, graph_plan := {} } P).installed =
      some i0 := hi0
  have hsrc : (PlanState.cluster env { m_graph := g, graph_plan := {} } P).source =
      some (cluster_from_scf env scf P.triplet) := by
    rw [hsrc0]
    unfold new_cluster
    simp only [hport, Option.map_some']
  have hdecl : ∀ f, (f = "core" ∨ ∃ fp ∈ scf.feature_paragraphs, fp.name = f) →
      (PlanState.cluster env { m_graph := g, graph_plan := {} } P).declares f := by
    intro f hf
    obtain ⟨es, hes⟩ := cluster_from_scf_declares env scf P.triplet f hf
    exact ⟨_, es, hsrc, hes⟩
  have hplusd : (marked.cluster env P).plus_of d = true :=
    hdef rfl (hplus0 "") _ hsrc d hd
  obtain ⟨_, _, hadd⟩ := hM.added P d (hplus0 d) hplusd hd1 hd2 (by
    simp only [Cluster.original, hi0', horig]
    exact hnew)
  obtain ⟨hdin, hminus⟩ := hadd (hdecl d (Or.inr hpar))
  obtain ⟨_, hrv, hfeat⟩ := hM.rebuilt P i0 hi0' hmin0 hminus
  have htrans := (hT P).1 hminus
  obtain ⟨remove_toposort, insert_toposort, installs, hrem, hins, hinstalls, hplan⟩ :=
    serialize_ok env marked plan hser
  have hperm_r := hsort marked.graph_plan.remove_graph
  rw [hrem] at hperm_r
  have hperm_i := hsort marked.graph_plan.install_graph
  rw [hins] at hperm_i
  obtain ⟨a, ha, haspec, halist, hatype⟩ := serialize_install_build_mem env marked
    insert_toposort installs hinstalls P (hperm_i.1.mem_iff.mpr hv) htrans
  have hr : AnyAction.remove_action
      { spec := (marked.cluster env P).spec
        plan_type := RemovePlanType.REMOVE
        request_type := (marked.cluster env P).request_type } ∈ plan := by
    rw [hplan]
    refine List.mem_append_left _ ?_
    unfold serialize_remove
    exact List.mem_map.mpr ⟨P, hperm_r.1.mem_iff.mpr hrv, rfl⟩
  have ha' : AnyAction.install_action a ∈ plan := by
    rw [hplan]
    exact List.mem_append_right _ ha
  obtain ⟨i, hi⟩ := List.mem_iff_getElem?.mp hr
  obtain ⟨j, hj⟩ := List.mem_iff_getElem?.mp ha'
  refine ⟨i, j, _, a, serialize_remove_before_install env marked plan hser i j _ a hi hj, hi, hj,
    hwk.1 P, by rw [haspec]; exact hwk.1 P, hatype, ?_, by rw [halist]; exact hdin, ?_⟩
  · rw [halist]
    refine hfeat "core" ?_ (hdecl "core" (Or.inl rfl))
    rw [horig]
    exact core_mem_original_features ipv
  · intro f hf hfp
    rw [halist]
    exact hfeat f (by rw [horig]; exact hf) (hdecl f (Or.inr hfp))

set_option maxRecDepth 100000 in
/-- The scenario "new default feature appears" with the defaulted input `foo`: remove, then
rebuild with the features "bar" and "core". -/
theorem new_defaults_on_default_request_witness :
    ∃ (i j : Nat) (r : RemovePlanAction) (a : InstallPlanAction), i < j ∧
      foobar_plan[i]? = some (AnyAction.remove_action r) ∧
      foobar_plan[j]? = some (AnyAction.install_action a) ∧
      r.spec = ⟨"foo", x64_linux⟩ ∧ a.spec = ⟨"foo", x64_linux⟩ ∧
      a.plan_type = InstallPlanType.BUILD_AND_INSTALL ∧
      "core" ∈ a.feature_list ∧ "bar" ∈ a.feature_list ∧
      ∀ f ∈ (cluster_installed_of foobar_installed).original_features,
        (∃ fp ∈ foobar_port.feature_paragraphs, fp.name = f) → f ∈ a.feature_list :=
  new_defaults_on_default_request foobar_env (catalog_env_topological_sort_spec _)
    foobar_status_db ⟨"foo", x64_linux⟩ foobar_installed (by decide) foobar_port (by decide)
    "bar" (by decide) ⟨⟨"bar", []⟩, by decide, rfl⟩ (by decide) (by decide) (by decide)
    10 foobar_plan (by decide)

set_option maxRecDepth 100000 in
/-- The premises of C3 do not make `create_feature_install_plan` return: with `foo`
installed with `{core}` and no recorded default features, and the port declaring the new
default feature `bar` as a feature paragraph that depends on `baz`, a package without a
port, the call for the defaulted input `foo` exits with "cannot find definition for
package baz" and returns no plan, whatever the recursion depth. -/
theorem new_defaults_counterexample :
    last_installed foobar_status_db ⟨"foo", x64_linux⟩ = some foobar_installed ∧
    foobaz_env.get_control_file "foo" = some foobaz_port ∧
    "bar" ∈ foobaz_port.core_paragraph.default_features ∧
    (∃ fp ∈ foobaz_port.feature_paragraphs, fp.name = "bar") ∧
    "bar" ∉ (cluster_installed_of foobar_installed).original_features ∧
    "bar" ∉ foobar_installed.core.default_features ∧
    create_feature_install_plan foobaz_env 10 [⟨⟨"foo", x64_linux⟩, ""⟩] foobar_status_db =
      Except.error (Failure.fatal (FatalError.cannot_find_definition "baz")) ∧
    ¬ ∃ fuel plan,
      create_feature_install_plan foobaz_env fuel [⟨⟨"foo", x64_linux⟩, ""⟩]
        foobar_status_db = Except.ok plan := by
  have h10 : create_feature_install_plan foobaz_env 10 [⟨⟨"foo", x64_linux⟩, ""⟩]
      foobar_status_db =
      Except.error (Failure.fatal (FatalError.cannot_find_definition "baz")) := by decide
  refine ⟨by decide, by decide, by decide, ⟨⟨"bar", ["baz"]⟩, by decide, rfl⟩, by decide,
    by decide, h10, ?_⟩
  rintro ⟨fuel, plan, h⟩
  exact create_feature_install_plan_fuel_fatal _ 10 fuel _ _ _ h10 plan h

end Vcpkg

namespace Vcpkg

/-! ## Suppression of the default features -/

theorem wp_imp {α : Type} (m : Planner α) (H : Prop) (Q : α → PlanState → Prop)
    (st : PlanState) (h : H → wp m Q st) : wp m (fun r st' => H → Q r st') st :=
  fun r st' hrun hH => h hH r st' hrun

/-- A change of the state that leaves the installed and source halves of the clusters as
they are and adds only allowed features to the features to install of `X`. -/
theorem suppressed_of_view (env : Env) (X : PackageSpec) (Allowed : String → Prop)
    (st st' : PlanState) (h : st.Suppressed env X Allowed)
    (hinst : ∀ c, (st'.cluster env c).installed = (st.cluster env c).installed)
    (hsrc : ∀ c, (st'.cluster env c).source = (st.cluster env c).source)
    (hfeat : ∀ f ∈ (st'.cluster env X).to_install_features,
      f ∈ (st.cluster env X).to_install_features ∨ Allowed f) :
    st'.Suppressed env X Allowed := by
  obtain ⟨h1, h2, h3⟩ := h
  refine ⟨by rw [hinst]; exact h1, fun c src hs => h2 c src (by rw [← hsrc]; exact hs), ?_⟩
  intro f hf
  rcases hfeat f hf with h4 | h4
  · exact h3 f h4
  · exact h4

/-- A write through a `Cluster&` that changes neither the installed and source halves nor
the features to install. -/
theorem suppressed_modify (env : Env) (X : PackageSpec) (Allowed : String → Prop)
    (st : PlanState) (c0 : PackageSpec) (g : Cluster → Cluster)
    (h : st.Suppressed env X Allowed)
    (hinst : ∀ c, (g c).installed = c.installed) (hsrc : ∀ c, (g c).source = c.source)
    (hfeat : ∀ c, ∀ f ∈ (g c).to_install_features,
      f ∈ c.to_install_features ∨ (c0 = X → Allowed f)) :
    (st.modify env c0 g).Suppressed env X Allowed := by
  refine suppressed_of_view env X Allowed st _ h ?_ ?_ ?_
  · intro c
    simp only [PlanState.state_cluster_modify]
    split
    · rename_i e; subst e; exact hinst _
    · rfl
  · intro c
    simp only [PlanState.state_cluster_modify]
    split
    · rename_i e; subst e; exact hsrc _
    · rfl
  · intro f hf
    simp only [PlanState.state_cluster_modify] at hf
    split at hf
    · rename_i e
      rcases hfeat _ f hf with h1 | h1
      · left; rw [e]; exact h1
      · exact Or.inr (h1 e.symm)
    · exact Or.inl hf

theorem suppressed_plan (env : Env) (X : PackageSpec) (Allowed : String → Prop)
    (st : PlanState) (gp : GraphPlan) (h : st.Suppressed env X Allowed) :
    PlanState.Suppressed env X Allowed { st with graph_plan := gp } := h

theorem suppressed_get (env : Env) (X : PackageSpec) (Allowed : String → Prop)
    (st : PlanState) (spec : PackageSpec) (h : st.Suppressed env X Allowed) :
    (st.get env spec).Suppressed env X Allowed :=
  suppressed_of_view env X Allowed st _ h (fun c => by simp) (fun c => by simp)
    (fun f hf => Or.inl (by simpa using hf))

theorem mark_minus_body_suppressed (env : Env) (X : PackageSpec) (Allowed : String → Prop)
    (callee : Marking) (hc : callee.Meets (suppression_spec env X Allowed)) (c0 : PackageSpec)
    (st : PlanState) :
    wp (mark_minus_body env callee c0)
      (fun _ => (suppression_spec env X Allowed).mark_minus c0 st) st := by
  refine wp_imp _ _ _ _ ?_
  intro hS
  unfold mark_minus_body
  simp only [wp_bind, wp_get]
  rw [wp_ite]
  refine ⟨fun _ => (wp_pure _ _ _).mpr hS, fun _ => ?_⟩
  simp only [wp_bind]
  refine wp_modify_named _ _ _ ?_
  intro st1 hst1
  have hS1 : st1.Suppressed env X Allowed := by
    subst hst1
    exact suppressed_modify env X Allowed st c0 _ hS (fun _ => rfl) (fun _ => rfl)
      (fun _ _ hf => Or.inl hf)
  simp only [wp_get]
  split
  · exact (wp_throw _ _ _).mpr trivial
  · split
    · exact (wp_pure _ _ _).mpr hS1
    · rename_i p_installed hinst
      have hne : c0 ≠ X := by
        intro e
        rw [e, hS1.1] at hinst
        cases hinst
      simp only [wp_bind]
      refine wp_modify_named _ _ _ ?_
      intro st2 hst2
      have hS2 : st2.Suppressed env X Allowed := by
        subst hst2; exact suppressed_plan env X Allowed st1 _ hS1
      refine wp_mono _ _ _ _ (wp_for_each _ _ (fun s => s.Suppressed env X Allowed) ?_ st2 hS2) ?_
      · intro edge _ s hs
        unfold mark_minus_remove_edge
        simp only [wp_bind, wp_modify, wp_check_exit]
        intro _
        refine wp_mono _ _ _ _ (hc.2.1 edge _) ?_
        intro _ s' h
        exact h (suppressed_plan env X Allowed _ _ (suppressed_get env X Allowed s edge hs))
      intro _ st3 hS3
      refine wp_mono _ _ _ _ (wp_for_each _ _ (fun s => s.Suppressed env X Allowed) ?_ st3 hS3) ?_
      · intro f _ s hs
        unfold mark_minus_reinstall
        simp only [wp_bind, wp_pure]
        refine wp_mono _ _ _ _ (hc.2.2 f c0 s) ?_
        intro _ s' h
        exact h hs (fun e => absurd e hne)
      intro _ st4 hS4
      refine wp_for_each _ _ (fun s => s.Suppressed env X Allowed) ?_ st4 hS4
      intro d _ s hs
      unfold mark_minus_new_default
      simp only [wp_ite, wp_bind, wp_pure]
      refine ⟨fun _ => ?_, fun _ => hs⟩
      refine wp_mono _ _ _ _ (hc.1 d c0 s) ?_
      intro _ s' h
      exact h hs (fun e => absurd e hne)

theorem follow_plus_dependencies_body_suppressed (env : Env) (pdf : List String)
    (X : PackageSpec) (hpdf : X.name ∈ pdf) (Allowed : String → Prop)
    (hcore : Allowed "core") (hedge : ∀ f, env.EdgeNames X f → Allowed f)
    (callee : Marking) (hc : callee.Meets (suppression_spec env X Allowed)) (f : String)
    (c0 : PackageSpec) (st : PlanState) :
    wp (follow_plus_dependencies_body env pdf callee f c0)
      ((suppression_spec env X Allowed).follow_plus_dependencies f c0 st) st := by
  refine wp_imp _ _ _ _ ?_
  intro hS
  refine wp_imp _ _ _ _ ?_
  intro hf
  unfold follow_plus_dependencies_body
  simp only [wp_bind, wp_get]
  split
  · rename_i p_source hsrc
    split
    · rename_i build_edges hfind
      obtain ⟨scf, hscf, hsrc_eq⟩ := hS.2.1 c0 p_source hsrc
      simp only [wp_bind]
      refine wp_mono _ _ _ _ (hc.2.1 c0 st) ?_
      intro _ st1 h1
      have hS1 := h1 hS
      refine wp_modify_named _ _ _ ?_
      intro st2 hst2
      have hS2 : st2.Suppressed env X Allowed := by
        subst hst2; exact suppressed_plan env X Allowed st1 _ hS1
      refine wp_modify_named _ _ _ ?_
      intro st3 hst3
      have hS3 : st3.Suppressed env X Allowed := by
        subst hst3
        refine suppressed_modify env X Allowed st2 c0 _ hS2 (fun _ => rfl) (fun _ => rfl) ?_
        intro c g hg
        rcases (mem_set_insert _ _ _ _).mp hg with e | hg
        · subst e; exact Or.inr hf
        · exact Or.inl hg
      refine wp_mono _ (fun _ s => s.Suppressed env X Allowed) _ _ ?_ ?_
      · rw [wp_ite]
        refine ⟨fun _ => ?_, fun _ => (wp_pure _ _ _).mpr hS3⟩
        simp only [wp_bind]
        refine wp_mono _ _ _ _ (hc.1 "core" c0 st3) ?_
        intro r s4 h
        rw [wp_check_exit]
        intro _
        exact h hS3 (fun _ => hcore)
      · intro _ s4 hS4
        simp only [wp_get]
        refine wp_mono _ (fun _ s => s.Suppressed env X Allowed) _ _ ?_ ?_
        · rw [wp_ite]
          refine ⟨fun hcond => ?_, fun _ => (wp_pure _ _ _).mpr hS4⟩
          simp only [wp_bind]
          refine wp_mono _ _ _ _ (hc.1 "" c0 s4) ?_
          intro r s5 h
          rw [wp_check_exit]
          intro _
          refine h hS4 (fun e => ?_)
          subst e
          exact absurd hpdf hcond.2
        · intro _ s5 hS5
          refine wp_mono _ _ _ _
            (wp_for_each _ _ (fun s => s.Suppressed env X Allowed) ?_ s5 hS5) ?_
          · intro depend hdep s hs
            unfold follow_plus_dependencies_edge
            simp only [wp_bind, wp_modify]
            refine wp_mono _ _ _ _ (hc.1 depend.feature depend.spec _) ?_
            intro r s' h
            rw [wp_check_exit]
            intro _
            have hs' := h (suppressed_get env X Allowed s depend.spec hs) (fun e => by
              refine hedge _ ⟨c0.name, scf, c0.triplet, f, build_edges, hscf, ?_, ?_⟩
              · rw [← hsrc_eq]; exact hfind
              · rw [← e]; exact hdep)
            rw [wp_ite]
            refine ⟨fun _ => (wp_pure _ _ _).mpr hs', fun _ => ?_⟩
            rw [wp_modify]
            exact suppressed_plan env X Allowed s' _ hs'
          · intro _ s6 hS6
            exact (wp_pure _ _ _).mpr hS6
    · exact (wp_pure _ _ _).mpr hS
  · exact (wp_pure _ _ _).mpr hS

theorem mark_plus_body_suppressed (env : Env) (X : PackageSpec) (Allowed : String → Prop)
    (hcore : Allowed "core")
    (hdefault : Allowed "" → ∀ scf, env.get_control_file X.name = some scf →
      ∀ d ∈ scf.core_paragraph.default_features, Allowed d)
    (hstar : Allowed "*" → ∀ scf, env.get_control_file X.name = some scf →
      ∀ fp ∈ scf.feature_paragraphs, Allowed fp.name)
    (callee : Marking) (hc : callee.Meets (suppression_spec env X Allowed)) (f : String)
    (c0 : PackageSpec) (st : PlanState) :
    wp (mark_plus_body env callee f c0) ((suppression_spec env X Allowed).mark_plus f c0 st)
      st := by
  refine wp_imp _ _ _ _ ?_
  intro hS
  refine wp_imp _ _ _ _ ?_
  intro hf
  unfold mark_plus_body
  simp only [wp_bind, wp_get]
  rw [wp_ite]
  refine ⟨fun _ => (wp_pure _ _ _).mpr hS, fun _ => ?_⟩
  simp only [wp_bind]
  refine wp_modify_named _ _ _ ?_
  intro st1 hst1
  have hS1 : st1.Suppressed env X Allowed := by
    subst hst1
    exact suppressed_modify env X Allowed st c0 _ hS (fun _ => rfl) (fun _ => rfl)
      (fun _ _ hf => Or.inl hf)
  simp only [wp_get]
  split
  · exact (wp_throw _ _ _).mpr trivial
  · rename_i p_source hsrc
    obtain ⟨scf, hscf, hsrc_eq⟩ := hS1.2.1 c0 p_source hsrc
    have hscf_eq : p_source.scf = scf := by rw [hsrc_eq]; rfl
    rw [wp_ite]
    constructor
    · intro he
      simp only [wp_bind]
      refine wp_mono _ _ _ _
        (wp_first_failure _ _ (fun s => s.Suppressed env X Allowed) ?_ st1 hS1) ?_
      · intro d hd s hs
        refine wp_mono _ _ _ _ (hc.1 d c0 s) ?_
        intro _ s' h
        refine h hs (fun e => ?_)
        subst e
        exact hdefault (by rw [← he]; exact hf rfl) scf hscf d (by rw [← hscf_eq]; exact hd)
      intro res s2 hS2
      rw [wp_ite]
      refine ⟨fun _ => (wp_pure _ _ _).mpr hS2, fun _ => ?_⟩
      refine wp_mono _ _ _ _ (hc.1 "core" c0 s2) ?_
      intro _ s' h
      exact h hS2 (fun _ => hcore)
    · intro _
      rw [wp_ite]
      constructor
      · intro he
        simp only [wp_bind]
        refine wp_mono _ _ _ _
          (wp_for_each _ _ (fun s => s.Suppressed env X Allowed) ?_ st1 hS1) ?_
        · intro fp hfp s hs
          unfold mark_plus_all_features_step
          simp only [wp_bind]
          refine wp_mono _ _ _ _ (hc.1 fp.name c0 s) ?_
          intro _ s' h
          rw [wp_check_exit]
          intro _
          refine h hs (fun e => ?_)
          subst e
          exact hstar (by rw [← he]; exact hf rfl) scf hscf fp (by rw [← hscf_eq]; exact hfp)
        intro _ s2 hS2
        refine wp_mono _ _ _ _ (hc.1 "core" c0 s2) ?_
        intro _ s' h
        rw [wp_check_exit]
        intro _
        exact (wp_pure _ _ _).mpr (h hS2 (fun _ => hcore))
      · intro _
        simp only [wp_bind, wp_get]
        rw [wp_ite]
        refine ⟨fun _ => (wp_pure _ _ _).mpr hS1, fun _ => ?_⟩
        simp only [wp_bind]
        refine wp_mono _ _ _ _ (hc.2.1 c0 st1) ?_
        intro _ s2 h2
        refine wp_mono _ _ _ _ (hc.2.2 f c0 s2) ?_
        intro _ s3 h3
        exact h3 (h2 hS1) hf

/-- The marking procedures keep the features to install of `X` allowed. -/
theorem marking_suppressed (env : Env) (pdf : List String) (X : PackageSpec)
    (hpdf : X.name ∈ pdf) (Allowed : String → Prop) (hcore : Allowed "core")
    (hdefault : Allowed "" → ∀ scf, env.get_control_file X.name = some scf →
      ∀ d ∈ scf.core_paragraph.default_features, Allowed d)
    (hstar : Allowed "*" → ∀ scf, env.get_control_file X.name = some scf →
      ∀ fp ∈ scf.feature_paragraphs, Allowed fp.name)
    (hedge : ∀ f, env.EdgeNames X f → Allowed f) (fuel : Nat) :
    (marking env pdf fuel).Meets (suppression_spec env X Allowed) :=
  marking_meets env pdf (suppression_spec env X Allowed)
    (fun callee hc f c st =>
      mark_plus_body_suppressed env X Allowed hcore hdefault hstar callee hc f c st)
    (fun callee hc c st => mark_minus_body_suppressed env X Allowed callee hc c st)
    (fun callee hc f c st =>
      follow_plus_dependencies_body_suppressed env pdf X hpdf Allowed hcore hedge callee hc f c
        st) fuel

end Vcpkg

namespace Vcpkg

/-! ## Suppression of the default features of a requested package -/

theorem mem_prevent_default_features_of (specs : List FeatureSpec) (spec : FeatureSpec)
    (h : spec ∈ specs) (hcore : spec.feature = "core") :
    spec.name ∈ prevent_default_features_of specs := by
  unfold prevent_default_features_of
  have key : ∀ (l : List FeatureSpec) (acc : List String),
      (spec.name ∈ acc ∨ spec ∈ l) →
      spec.name ∈ l.foldl (fun s spec =>
        if spec.feature = "core" then (if spec.name ∈ s then s else s ++ [spec.name]) else s)
        acc := by
    intro l
    induction l with
    | nil =>
      intro acc h
      rcases h with h | h
      · exact h
      · simp at h
    | cons x rest ih =>
      intro acc h
      simp only [List.foldl_cons]
      apply ih
      rcases h with h | h
      · left
        split
        · split
          · exact h
          · exact List.mem_append_left _ h
        · exact h
      · rcases List.mem_cons.mp h with e | h
        · subst e
          left
          simp only [hcore, if_true]
          split
          · assumption
          · simp
        · exact Or.inr h
  exact key specs [] (Or.inr h)

theorem install_all_suppressed (env : Env) (fuel : Nat) (specs : List FeatureSpec)
    (pdf : List String) (X : PackageSpec) (hpdf : X.name ∈ pdf) (Allowed : String → Prop)
    (hcore : Allowed "core")
    (hdefault : Allowed "" → ∀ scf, env.get_control_file X.name = some scf →
      ∀ d ∈ scf.core_paragraph.default_features, Allowed d)
    (hstar : Allowed "*" → ∀ scf, env.get_control_file X.name = some scf →
      ∀ fp ∈ scf.feature_paragraphs, Allowed fp.name)
    (hedge : ∀ f, env.EdgeNames X f → Allowed f)
    (hinput : ∀ spec ∈ specs, spec.spec = X → spec.feature ≠ "" → Allowed spec.feature)
    (st : PlanState) (hS : st.Suppressed env X Allowed) :
    wp (install_all env fuel specs pdf) (fun _ st' => st'.Suppressed env X Allowed) st := by
  unfold install_all
  refine wp_for_each _ _ (fun s => s.Suppressed env X Allowed) ?_ st hS
  intro spec hspec s hs
  rw [wp_ite]
  refine ⟨fun _ => (wp_pure _ _ _).mpr hs, fun hcond => ?_⟩
  unfold PackageGraph.install
  simp only [wp_bind]
  refine wp_modify_named _ _ _ ?_
  intro s1 hs1
  have hS1 : s1.Suppressed env X Allowed := by
    subst hs1; exact suppressed_get env X Allowed s _ hs
  refine wp_modify_named _ _ _ ?_
  intro s2 hs2
  have hS2 : s2.Suppressed env X Allowed := by
    subst hs2
    exact suppressed_modify env X Allowed s1 _ _ hS1 (fun _ => rfl) (fun _ => rfl)
      (fun _ _ hf => Or.inl hf)
  refine wp_mono _ _ _ _
    ((marking_suppressed env pdf X hpdf Allowed hcore hdefault hstar hedge fuel).1
      spec.feature spec.spec s2) ?_
  intro r s3 h
  rw [wp_check_exit]
  intro _
  rw [wp_modify]
  refine suppressed_plan env X Allowed s3 _ (h hS2 (fun e => ?_))
  refine hinput spec hspec e (fun he => hcond ⟨he, ?_⟩)
  unfold FeatureSpec.name
  rw [e]
  exact hpdf

/-- C5, as the code has it (default-feature suppression): if the input contains the spec
`X` with the feature "core", the package `X` is not installed, the input does not name the
feature "*" for `X`, and no build edge of a port of the catalog names `X` with the feature
"" (a dependency on `X` without a feature list) or "*", then, whenever
`create_feature_install_plan` returns a plan, every feature among the `to_install_features`
of the cluster of `X`, and so every feature of the feature list of a `BUILD_AND_INSTALL`
action for `X`, is "core", a feature that the input names for `X`, or a feature that a build
edge of a port names for `X`.  In particular no default feature of `X` is among them unless
the input or a build edge names it. -/
theorem default_feature_suppression (env : Env) (specs : List FeatureSpec)
    (status_db : StatusParagraphs) (X : PackageSpec)
    (hcore : (⟨X, "core"⟩ : FeatureSpec) ∈ specs)
    (hnot : last_installed status_db X = none)
    (hstar : (⟨X, "*"⟩ : FeatureSpec) ∉ specs)
    (hedges : ¬ env.EdgeNames X "" ∧ ¬ env.EdgeNames X "*")
    (fuel : Nat) (plan : List AnyAction)
    (h : create_feature_install_plan env fuel specs status_db = Except.ok plan) :
    ∃ marked, marked_state env fuel specs status_db = Except.ok marked ∧
      PackageGraph.serialize env marked = Except.ok plan ∧
      (∀ f ∈ (marked.cluster env X).to_install_features,
        f = "core" ∨ (⟨X, f⟩ : FeatureSpec) ∈ specs ∨ env.EdgeNames X f) ∧
      ∀ a, AnyAction.install_action a ∈ plan → a.spec = X →
        a.plan_type = InstallPlanType.BUILD_AND_INSTALL →
          ∀ f ∈ a.feature_list,
            f = "core" ∨ (⟨X, f⟩ : FeatureSpec) ∈ specs ∨ env.EdgeNames X f := by
  obtain ⟨marked, hmarked, hser⟩ := (create_feature_install_plan_ok _ _ _ _ _).mp h
  have hfeat : ∀ f ∈ (marked.cluster env X).to_install_features,
      f = "core" ∨ (⟨X, f⟩ : FeatureSpec) ∈ specs ∨ env.EdgeNames X f := by
    obtain ⟨g, hg, hrun⟩ := (marked_state_ok _ _ _ _ _).mp hmarked
    have hpdf : X.name ∈ prevent_default_features_of specs :=
      mem_prevent_default_features_of specs ⟨X, "core"⟩ hcore rfl
    have hS0 : PlanState.Suppressed env X
        (fun f => f = "core" ∨ (f ≠ "" ∧ f ≠ "*" ∧ (⟨X, f⟩ : FeatureSpec) ∈ specs) ∨
          env.EdgeNames X f) { m_graph := g, graph_plan := {} } := by
      refine ⟨?_, ?_, ?_⟩
      · have := init_cluster_not_installed env status_db g hg X hnot
        rw [this]
        rfl
      · intro c src hs
        rw [(init_cluster_fresh env status_db g hg c).2.2.2.1] at hs
        unfold new_cluster at hs
        simp only at hs
        cases hgc : env.get_control_file c.name with
        | none => rw [hgc] at hs; cases hs
        | some scf =>
          rw [hgc] at hs
          simp only [Option.map_some', Option.some.injEq] at hs
          exact ⟨scf, rfl, hs.symm⟩
      · intro f hf
        rw [(init_cluster_fresh env status_db g hg X).2.2.1] at hf
        simp at hf
    have hS := install_all_suppressed env fuel specs _ X hpdf _ (Or.inl rfl)
      (fun ha => by
        rcases ha with ha | ha | ha
        · exact absurd ha (by decide)
        · exact absurd rfl ha.1
        · exact absurd ha hedges.1)
      (fun ha => by
        rcases ha with ha | ha | ha
        · exact absurd ha (by decide)
        · exact absurd rfl ha.2.1
        · exact absurd ha hedges.2)
      (fun f hf => Or.inr (Or.inr hf))
      (fun spec hspec e hne => by
        refine Or.inr (Or.inl ⟨hne, ?_, ?_⟩)
        · intro hs
          apply hstar
          rw [← hs, ← e]
          exact hspec
        · rw [← e]
          exact hspec)
      _ hS0 () marked hrun
    intro f hf
    rcases hS.2.2 f hf with h1 | h1 | h1
    · exact Or.inl h1
    · exact Or.inr (Or.inl h1.2.2)
    · exact Or.inr (Or.inr h1)
  refine ⟨marked, hmarked, hser, hfeat, ?_⟩
  intro a ha hspec hbuild f hf
  obtain ⟨_, _, installs, _, _, hinstalls, hplan⟩ := serialize_ok env marked plan hser
  have hmem : AnyAction.install_action a ∈ installs := by
    rw [hplan] at ha
    rcases List.mem_append.mp ha with h1 | h1
    · unfold serialize_remove at h1
      obtain ⟨_, _, e⟩ := List.mem_map.mp h1
      cases e
    · exact h1
  obtain ⟨_, _, hlist, _⟩ := serialize_install_build env marked
    (marked_state_well_keyed env fuel specs status_db marked hmarked) _ installs
    hinstalls a hmem hbuild
  rw [hlist, hspec] at hf
  exact hfeat f hf

theorem foog_env_no_edges (X : PackageSpec) (f : String) : ¬ foog_env.EdgeNames X f := by
  rintro ⟨name, scf, t, g, es, h1, h2, h3⟩
  have hscf : scf = foog_port := by
    simp only [foog_env, catalog_env, AssocMap.find] at h1
    split at h1
    · cases h1; rfl
    · cases h1
  subst hscf
  have hb : (cluster_from_scf foog_env foog_port t).build_edges =
      [("core", []), ("bar", []), ("g", [])] := rfl
  rw [hb] at h2
  simp only [AssocMap.find] at h2
  split at h2
  · cases h2; simp at h3
  · split at h2
    · cases h2; simp at h3
    · split at h2
      · cases h2; simp at h3
      · cases h2

set_option maxRecDepth 100000 in
/-- The input `foo[core,g]` for the port `foo` with the default feature `bar`, nothing being
installed: the features to install are "core" and "g". -/
theorem default_feature_suppression_witness :
    ∃ marked, marked_state foog_env 10 foog_specs [] = Except.ok marked ∧
      PackageGraph.serialize foog_env marked = Except.ok foog_plan ∧
      (∀ f ∈ (marked.cluster foog_env ⟨"foo", x64_linux⟩).to_install_features,
        f = "core" ∨ (⟨⟨"foo", x64_linux⟩, f⟩ : FeatureSpec) ∈ foog_specs ∨
          foog_env.EdgeNames ⟨"foo", x64_linux⟩ f) ∧
      ∀ a, AnyAction.install_action a ∈ foog_plan → a.spec = ⟨"foo", x64_linux⟩ →
        a.plan_type = InstallPlanType.BUILD_AND_INSTALL →
          ∀ f ∈ a.feature_list,
            f = "core" ∨ (⟨⟨"foo", x64_linux⟩, f⟩ : FeatureSpec) ∈ foog_specs ∨
              foog_env.EdgeNames ⟨"foo", x64_linux⟩ f :=
  default_feature_suppression foog_env foog_specs [] ⟨"foo", x64_linux⟩ (by decide) rfl
    (by decide) ⟨foog_env_no_edges _ _, foog_env_no_edges _ _⟩ 10 foog_plan (by decide)

set_option maxRecDepth 100000 in
/-- The input containing `X` with "core" does not keep the default features of an installed
`X` out: with `foo` installed with `{core}` and no recorded default features, and the port
declaring the default feature `bar` and the feature `g`, the input `foo[core,g]` marks `foo`
for rebuilding, which picks up the new default feature: the plan, whatever the recursion
depth, rebuilds `foo` with the feature list `{bar, core, g}`, and the input does not name
`bar`. -/
theorem default_feature_suppression_counterexample :
    (⟨⟨"foo", x64_linux⟩, "core"⟩ : FeatureSpec) ∈ foog_specs ∧
    (⟨⟨"foo", x64_linux⟩, "bar"⟩ : FeatureSpec) ∉ foog_specs ∧
    "bar" ∈ foog_port.core_paragraph.default_features ∧
    create_feature_install_plan foog_env 10 foog_specs foobar_status_db =
      Except.ok foog_rebuild_plan ∧
    (∃ a, AnyAction.install_action a ∈ foog_rebuild_plan ∧ a.spec = ⟨"foo", x64_linux⟩ ∧
      a.plan_type = InstallPlanType.BUILD_AND_INSTALL ∧ "bar" ∈ a.feature_list) ∧
    ∀ fuel plan, create_feature_install_plan foog_env fuel foog_specs foobar_status_db =
      Except.ok plan → plan = foog_rebuild_plan := by
  have h10 : create_feature_install_plan foog_env 10 foog_specs foobar_status_db =
      Except.ok foog_rebuild_plan := by decide
  refine ⟨by decide, by decide, by decide, h10, ⟨_, List.mem_cons_of_mem _ (List.mem_cons_self _ _), rfl, rfl, by decide⟩, ?_⟩
  intro fuel plan h
  exact create_feature_install_plan_fuel_unique _ _ _ _ _ _ _ h h10

end Vcpkg

namespace Vcpkg

/-! ## The plan type of a serialized install action -/

/-- What `serialize_install` emits, with the vertex each action is emitted for. -/
theorem serialize_install_emitted (env : Env) (st : PlanState) (vs : List PackageSpec) :
    ∀ plan, serialize_install env st vs = Except.ok plan →
      ∃ emitted : List (PackageSpec × InstallPlanAction),
        plan = emitted.map (fun p => AnyAction.install_action p.2) ∧
        (emitted.map Prod.fst).Sublist vs ∧
        ∀ p ∈ emitted,
          (p.2.plan_type = InstallPlanType.BUILD_AND_INSTALL ↔
            (st.cluster env p.1).transient_uninstalled = true) ∧
          ((st.cluster env p.1).transient_uninstalled = true →
            p.2.spec = (st.cluster env p.1).spec ∧ p.2.installed_package = none) ∧
          ((st.cluster env p.1).transient_uninstalled = false →
            p.2.plan_type = InstallPlanType.ALREADY_INSTALLED ∧
            ∃ installed, (st.cluster env p.1).installed = some installed ∧
              p.2.installed_package = some installed.ipv ∧ p.2.spec = installed.ipv.spec) := by
  induction vs with
  | nil =>
    intro plan h
    simp only [serialize_install, pure, Except.pure, Except.ok.injEq] at h
    subst h
    exact ⟨[], rfl, List.Sublist.refl _, fun p hp => by simp at hp⟩
  | cons v rest ih =>
    intro plan h
    obtain ⟨tail, ht, hcase⟩ := serialize_install_cons_ok env st v rest plan h
    obtain ⟨emitted, he, hsub, hall⟩ := ih tail ht
    rcases hcase with ⟨e, _, _⟩ | ⟨source, htr, _, e⟩ | ⟨installed, htr, _, hi, e⟩
    · subst e
      exact ⟨emitted, he, List.Sublist.cons _ hsub, hall⟩
    · obtain ⟨a, ea, h1, h2, h3⟩ : ∃ a, plan = AnyAction.install_action a :: tail ∧
          a.spec = (st.cluster env v).spec ∧
          a.plan_type = InstallPlanType.BUILD_AND_INSTALL ∧ a.installed_package = none :=
        ⟨_, e, rfl, rfl, rfl⟩
      refine ⟨(v, a) :: emitted, ?_, List.Sublist.cons₂ _ hsub, ?_⟩
      · rw [ea, he]; rfl
      · intro p hp
        rcases List.mem_cons.mp hp with hp | hp
        · subst hp
          refine ⟨⟨fun _ => htr, fun _ => h2⟩, fun _ => ⟨h1, h3⟩, fun hf => ?_⟩
          rw [htr] at hf
          cases hf
        · exact hall p hp
    · obtain ⟨a, ea, h1, h2, h3⟩ : ∃ a, plan = AnyAction.install_action a :: tail ∧
          a.spec = installed.ipv.spec ∧
          a.plan_type = InstallPlanType.ALREADY_INSTALLED ∧
          a.installed_package = some installed.ipv :=
        ⟨_, e, rfl, rfl, rfl⟩
      refine ⟨(v, a) :: emitted, ?_, List.Sublist.cons₂ _ hsub, ?_⟩
      · rw [ea, he]; rfl
      · intro p hp
        rcases List.mem_cons.mp hp with hp | hp
        · subst hp
          refine ⟨⟨fun hb => ?_, fun ht' => ?_⟩, fun ht' => ?_,
            fun _ => ⟨h2, installed, hi, h3, h1⟩⟩
          · rw [h2] at hb; cases hb
          · rw [htr] at ht'; cases ht'
          · rw [htr] at ht'; cases ht'
        · exact hall p hp

/-- C12 (transient-uninstalled iff `BUILD_AND_INSTALL`): the plan that
`PackageGraph::serialize` returns is the remove actions followed by the install actions, and
the install actions can be listed with the vertex of the sorted install graph each was
emitted for, in order, such that the plan type of an action is `BUILD_AND_INSTALL` iff the
cluster of its vertex has `transient_uninstalled = true` in the serialized state; such an
action has the spec of the cluster, and otherwise the action is `ALREADY_INSTALLED` and
carries the installed view of the cluster. -/
theorem transient_iff_build (env : Env) (st : PlanState) (plan : List AnyAction)
    (h : PackageGraph.serialize env st = Except.ok plan) :
    ∃ (removes : List RemovePlanAction) (insert_toposort : List PackageSpec)
      (emitted : List (PackageSpec × InstallPlanAction)),
      plan = removes.map AnyAction.remove_action ++
        emitted.map (fun p => AnyAction.install_action p.2) ∧
      env.topological_sort st.graph_plan.install_graph.vertex_list st.graph_plan.install_graph =
        some insert_toposort ∧
      (emitted.map Prod.fst).Sublist insert_toposort ∧
      ∀ p ∈ emitted,
        (p.2.plan_type = InstallPlanType.BUILD_AND_INSTALL ↔
          (st.cluster env p.1).transient_uninstalled = true) ∧
        ((st.cluster env p.1).transient_uninstalled = true →
          p.2.spec = (st.cluster env p.1).spec ∧ p.2.installed_package = none) ∧
        ((st.cluster env p.1).transient_uninstalled = false →
          p.2.plan_type = InstallPlanType.ALREADY_INSTALLED ∧
          ∃ installed, (st.cluster env p.1).installed = some installed ∧
            p.2.installed_package = some installed.ipv ∧ p.2.spec = installed.ipv.spec) := by
  obtain ⟨remove_toposort, insert_toposort, installs, _, hins, hinstalls, hplan⟩ :=
    serialize_ok env st plan h
  obtain ⟨emitted, he, hsub, hall⟩ := serialize_install_emitted env st insert_toposort installs
    hinstalls
  refine ⟨remove_toposort.map (fun p_cluster =>
      { spec := (st.cluster env p_cluster).spec
        plan_type := RemovePlanType.REMOVE
        request_type := (st.cluster env p_cluster).request_type }),
    insert_toposort, emitted, ?_, hins, hsub, hall⟩
  rw [hplan, he]
  unfold serialize_remove
  simp only [List.map_map]
  rfl

set_option maxRecDepth 100000 in
/-- The marked state of the scenario "feature addition on an installed package" is
serialized into the plan of the scenario. -/
theorem transient_iff_build_witness :
    ∃ (removes : List RemovePlanAction) (insert_toposort : List PackageSpec)
      (emitted : List (PackageSpec × InstallPlanAction)),
      curl_plan = removes.map AnyAction.remove_action ++
        emitted.map (fun p => AnyAction.install_action p.2) ∧
      curl_env.topological_sort curl_marked.graph_plan.install_graph.vertex_list
        curl_marked.graph_plan.install_graph = some insert_toposort ∧
      (emitted.map Prod.fst).Sublist insert_toposort ∧
      ∀ p ∈ emitted,
        (p.2.plan_type = InstallPlanType.BUILD_AND_INSTALL ↔
          (curl_marked.cluster curl_env p.1).transient_uninstalled = true) ∧
        ((curl_marked.cluster curl_env p.1).transient_uninstalled = true →
          p.2.spec = (curl_marked.cluster curl_env p.1).spec ∧ p.2.installed_package = none) ∧
        ((curl_marked.cluster curl_env p.1).transient_uninstalled = false →
          p.2.plan_type = InstallPlanType.ALREADY_INSTALLED ∧
          ∃ installed, (curl_marked.cluster curl_env p.1).installed = some installed ∧
            p.2.installed_package = some installed.ipv ∧ p.2.spec = installed.ipv.spec) :=
  transient_iff_build curl_env curl_marked curl_plan (by decide)

end Vcpkg

namespace Vcpkg

/-! ## Requests for installed features (C11) -/

/-- One `PackageGraph::install` call for an installed feature of the installed package `P`:
the call returns, the cluster of `P` stays installed and not transiently uninstalled and is
user requested, and `P` is the only vertex of the install graph. -/
theorem install_installed_feature (env : Env) (pdf : List String) (n : Nat) (P : PackageSpec)
    (f : String) (i : ClusterInstalled) (src : ClusterSource) (st : PlanState)
    (hinst : (st.cluster env P).installed = some i)
    (hsrc : (st.cluster env P).source = some src)
    (htrans : (st.cluster env P).transient_uninstalled = false)
    (hrem : st.graph_plan.remove_graph = ⟨[]⟩)
    (hins : st.graph_plan.install_graph = ⟨[]⟩ ∨ st.graph_plan.install_graph = ⟨[(P, [])]⟩)
    (hf : f ∈ i.original_features) (hf1 : f ≠ "") (hf2 : f ≠ "*") :
    ∃ st', (PackageGraph.install env (n + 1) ⟨P, f⟩ pdf).run st = Except.ok ((), st') ∧
      (st'.cluster env P).installed = some i ∧ (st'.cluster env P).source = some src ∧
      (st'.cluster env P).transient_uninstalled = false ∧
      (st'.cluster env P).request_type = RequestType.USER_REQUESTED ∧
      st'.graph_plan.remove_graph = ⟨[]⟩ ∧ st'.graph_plan.install_graph = ⟨[(P, [])]⟩ := by
  have hadd : (st.graph_plan.install_graph.add_vertex P) = ⟨[(P, [])]⟩ := by
    rcases hins with h | h <;> rw [h] <;> simp [Graph.add_vertex, AssocMap.find, AssocMap.set]
  rw [install_run]
  simp only [Planner.run_bind]
  cases hp : (((st.get env P).modify env P (fun c =>
      { c with request_type := RequestType.USER_REQUESTED })).cluster env P).plus_of f with
  | true =>
    rw [mark_plus_run_marked env pdf n f P _ hp]
    simp only [check_exit, decide_True, if_true, Planner.run_pure, Planner.run_modify]
    refine ⟨_, rfl, ?_, ?_, ?_, ?_, ?_, ?_⟩
    · simp [hinst]
    · simp [hsrc]
    · simp [htrans]
    · simp
    · simp [hrem]
    · simp [hadd]
  | false =>
    rw [mark_plus_run_installed env pdf n f P _ src i hp (by simp [hsrc]) hf1 hf2
      (by simp [hinst]) hf]
    simp only [check_exit, decide_True, if_true, Planner.run_pure, Planner.run_modify]
    refine ⟨_, rfl, ?_, ?_, ?_, ?_, ?_, ?_⟩
    · simp [hinst]
    · simp [hsrc]
    · simp [htrans]
    · simp
    · simp [hrem]
    · simp [hadd]

/-- The marking phase for an input that names installed features of `P` only. -/
theorem install_all_installed_features (env : Env) (pdf : List String) (n : Nat)
    (P : PackageSpec) (i : ClusterInstalled) (src : ClusterSource) (specs : List FeatureSpec)
    (hspecs : ∀ s ∈ specs, s.spec = P ∧ s.feature ∈ i.original_features ∧ s.feature ≠ "" ∧
      s.feature ≠ "*") :
    ∀ st : PlanState, (st.cluster env P).installed = some i →
      (st.cluster env P).source = some src →
      (st.cluster env P).transient_uninstalled = false →
      st.graph_plan.remove_graph = ⟨[]⟩ →
      (specs ≠ [] ∧ st.graph_plan.install_graph = ⟨[]⟩ ∨
        (st.cluster env P).request_type = RequestType.USER_REQUESTED ∧
          st.graph_plan.install_graph = ⟨[(P, [])]⟩) →
      ∃ st', (install_all env (n + 1) specs pdf).run st = Except.ok ((), st') ∧
        (st'.cluster env P).installed = some i ∧
        (st'.cluster env P).transient_uninstalled = false ∧
        (st'.cluster env P).request_type = RequestType.USER_REQUESTED ∧
        st'.graph_plan.remove_graph = ⟨[]⟩ ∧ st'.graph_plan.install_graph = ⟨[(P, [])]⟩ := by
  induction specs with
  | nil =>
    intro st hinst _ htrans hrem hcase
    rcases hcase with ⟨hne, _⟩ | ⟨hreq, hins⟩
    · exact absurd rfl hne
    · exact ⟨st, rfl, hinst, htrans, hreq, hrem, hins⟩
  | cons s rest ih =>
    intro st hinst hsrc htrans hrem hcase
    obtain ⟨hs, hf, hf1, hf2⟩ := hspecs s (List.mem_cons_self _ _)
    obtain ⟨st1, hrun1, h1, h2, h3, h4, h5, h6⟩ :=
      install_installed_feature env pdf n P s.feature i src st hinst hsrc htrans hrem
        (by
          rcases hcase with ⟨_, h⟩ | ⟨_, h⟩
          · exact Or.inl h
          · exact Or.inr h) hf hf1 hf2
    obtain ⟨st', hrun', hres⟩ := ih (fun x hx => hspecs x (List.mem_cons_of_mem _ hx)) st1 h1 h2
      h3 h5 (Or.inr ⟨h4, h6⟩)
    refine ⟨st', ?_, hres⟩
    have hseq : s = ⟨P, s.feature⟩ := by
      cases s with
      | mk sp ft => simp only at hs; rw [hs]
    unfold install_all at hrun' ⊢
    simp only [for_each, Planner.run_bind, Planner.run_ite, hf1, false_and, if_false]
    rw [hseq, hrun1]
    exact hrun'

/-- C11 (requesting what is already installed is a no-op plan): on a status database that
lists each package once and is closed under dependencies, if the package `P` is installed,
with the original feature set `F` (core and the installed features, none of which is named
"" or "*"), and has a port, and the input is a non-empty list of specs `P[f]` with `f` in
`F`, then `create_feature_install_plan` returns exactly one action: the install action for
`P` with plan type `ALREADY_INSTALLED`, request type `USER_REQUESTED` and feature list `F`.
There is no remove action, and no action for the dependencies of `P`.  The topological sort
is taken to meet its contract; recursion depth 1 suffices. -/
theorem installed_request_is_noop (env : Env) (hsort : env.TopologicalSortSpec)
    (status_db : StatusParagraphs)
    (hnodup : (status_db.map InstalledPackageView.spec).Nodup)
    (hclosed : ∀ A ∈ status_db, ∀ d ∈ env.dependencies A, ∃ B ∈ status_db, B.spec = d)
    (P : PackageSpec) (ipv : InstalledPackageView) (hipv : ipv ∈ status_db)
    (hspec : ipv.spec = P)
    (hnames : ∀ p ∈ ipv.features, p.feature ≠ "" ∧ p.feature ≠ "*")
    (scf : SourceControlFile) (hport : env.get_control_file P.name = some scf)
    (specs : List FeatureSpec) (hne : specs ≠ [])
    (hspecs : ∀ s ∈ specs,
      s.spec = P ∧ s.feature ∈ (cluster_installed_of ipv).original_features)
    (fuel : Nat) (hfuel : 1 ≤ fuel) :
    create_feature_install_plan env fuel specs status_db =
      Except.ok [AnyAction.install_action
        { spec := P
          feature_list := (cluster_installed_of ipv).original_features
          computed_dependencies := env.dependencies ipv
          plan_type := InstallPlanType.ALREADY_INSTALLED
          request_type := RequestType.USER_REQUESTED
          build_action := none
          installed_package := some ipv }] := by
  obtain ⟨n, rfl⟩ : ∃ n, fuel = n + 1 := ⟨fuel - 1, by omega⟩
  obtain ⟨g, hg⟩ := create_feature_install_graph_ok_of_closed env status_db hclosed
  have hl : last_installed status_db P = some ipv := by
    rw [← hspec]; exact last_installed_of_nodup status_db hnodup ipv hipv
  obtain ⟨remove_edges, h0, _⟩ := init_cluster_installed env status_db g hg P ipv hl
  have hsrc : (new_cluster env P).source = some (cluster_from_scf env scf P.triplet) := by
    simp [new_cluster, hport]
  rw [hsrc] at h0
  have hfeat : ∀ s ∈ specs, s.spec = P ∧
      s.feature ∈ (cluster_installed_of ipv).original_features ∧ s.feature ≠ "" ∧
      s.feature ≠ "*" := by
    intro s hs
    obtain ⟨h1, h2⟩ := hspecs s hs
    refine ⟨h1, h2, ?_, ?_⟩
    · rcases (mem_original_features ipv s.feature).mp h2 with e | ⟨p, hp, e⟩
      · rw [e]; decide
      · rw [← e]; exact (hnames p hp).1
    · rcases (mem_original_features ipv s.feature).mp h2 with e | ⟨p, hp, e⟩
      · rw [e]; decide
      · rw [← e]; exact (hnames p hp).2
  obtain ⟨marked, hrun, hinst, htrans, hreq, hrem, hins⟩ :=
    install_all_installed_features env (prevent_default_features_of specs) n P
      { ipv := ipv, remove_edges := remove_edges
        original_features := (cluster_installed_of ipv).original_features }
      (cluster_from_scf env scf P.triplet) specs hfeat { m_graph := g, graph_plan := {} }
      (by rw [h0]) (by rw [h0]) (by rw [h0]) rfl (Or.inl ⟨hne, rfl⟩)
  rw [create_feature_install_plan_ok]
  refine ⟨marked, (marked_state_ok _ _ _ _ _).mpr ⟨g, hg, hrun⟩, ?_⟩
  unfold PackageGraph.serialize
  simp only [hrem, hins, Graph.vertex_list, List.map_nil, List.map_cons,
    topological_sort_nil env hsort, topological_sort_singleton env hsort]
  simp only [serialize_install, htrans, hreq, hinst, serialize_remove, List.map_nil,
    List.nil_append, Bool.false_eq_true, if_false, ne_eq, not_true_eq_false, hspec]
  rfl

set_option maxRecDepth 100000 in
/-- The package `curl`, installed with `{core, ssl}` and depending on the installed
`openssl`, requested with both of its features: one action, none for `openssl`. -/
theorem installed_request_is_noop_witness :
    create_feature_install_plan curl_env 1
        [⟨⟨"curl", x64_linux⟩, "ssl"⟩, ⟨⟨"curl", x64_linux⟩, "core"⟩] curl_ssl_status_db =
      Except.ok [AnyAction.install_action
        { spec := ⟨"curl", x64_linux⟩
          feature_list := (cluster_installed_of curl_ssl_installed).original_features
          computed_dependencies := curl_env.dependencies curl_ssl_installed
          plan_type := InstallPlanType.ALREADY_INSTALLED
          request_type := RequestType.USER_REQUESTED
          build_action := none
          installed_package := some curl_ssl_installed }] :=
  installed_request_is_noop curl_env (catalog_env_topological_sort_spec _) curl_ssl_status_db
    (by decide) (by decide) ⟨"curl", x64_linux⟩ curl_ssl_installed
    (by decide) (by decide) (by decide)
    (make_port "curl" [] [] [("ssl", ["openssl[core]"])]) (by decide)
    [⟨⟨"curl", x64_linux⟩, "ssl"⟩, ⟨⟨"curl", x64_linux⟩, "core"⟩] (by decide) (by decide)
    1 (by decide)

end Vcpkg

namespace Vcpkg

/-! ## The regular expression matcher -/

theorem self_mem_iterate (step : MatchState → List MatchState) :
    ∀ (n : Nat) (s : MatchState), s ∈ Regex.iterate step n s
  | 0, s => by simp [Regex.iterate]
  | n + 1, s => by simp [Regex.iterate]

theorem iterate_invariant (step : MatchState → List MatchState)
    (Q : MatchState → MatchState → Prop) (hrefl : ∀ s, Q s s)
    (htrans : ∀ a b c, Q a b → Q b c → Q a c)
    (hstep : ∀ s s', s' ∈ step s → Q s s') :
    ∀ (n : Nat) (s s' : MatchState), s' ∈ Regex.iterate step n s → Q s s' := by
  intro n
  induction n with
  | zero =>
    intro s s' h
    simp only [Regex.iterate, List.mem_singleton] at h
    subst h
    exact hrefl _
  | succ n ih =>
    intro s s' h
    simp only [Regex.iterate, List.mem_append, List.mem_flatMap, List.mem_filter,
      List.mem_singleton] at h
    rcases h with ⟨s1, ⟨h1, _⟩, h2⟩ | h
    · exact htrans _ _ _ (hstep _ _ h1) (ih _ _ h2)
    · subst h
      exact hrefl _

theorem mem_run_class (p : Char → Bool) (s s' : MatchState) :
    s' ∈ Regex.run_class p s ↔
      ∃ c cs, s.rest = c :: cs ∧ p c = true ∧ s' = { s with rest := cs } := by
  unfold Regex.run_class
  cases hr : s.rest with
  | nil => simp
  | cons c cs =>
    by_cases hp : p c = true
    · simp only [hp, if_true, List.mem_singleton, List.cons.injEq]
      constructor
      · intro h
        exact ⟨c, cs, ⟨rfl, rfl⟩, hp, h⟩
      · rintro ⟨_, _, ⟨rfl, rfl⟩, _, h⟩
        exact h
    · simp only [hp, List.cons.injEq]
      constructor
      · intro h
        cases h
      · rintro ⟨_, _, ⟨rfl, rfl⟩, h, _⟩
        exact absurd h hp

/-- Every state the matcher reaches has consumed a word of the pattern. -/
theorem run_sound : ∀ (r : Regex) (s s' : MatchState), s' ∈ r.run s →
    ∃ w, s.rest = w ++ s'.rest ∧ r.Accepts w := by
  intro r
  induction r with
  | char c =>
    intro s s' h
    obtain ⟨x, cs, hx, hp, rfl⟩ := (mem_run_class _ s s').1 h
    refine ⟨[x], by simpa using hx, ?_⟩
    have : x = c := by simpa using hp
    simp [Regex.Accepts, this]
  | digit =>
    intro s s' h
    obtain ⟨x, cs, hx, hp, rfl⟩ := (mem_run_class _ s s').1 h
    exact ⟨[x], by simpa using hx, x, rfl, hp⟩
  | any =>
    intro s s' h
    obtain ⟨x, cs, hx, hp, rfl⟩ := (mem_run_class _ s s').1 h
    exact ⟨[x], by simpa using hx, x, rfl, by simpa using hp⟩
  | seq a b iha ihb =>
    intro s s' h
    simp only [Regex.run, List.mem_flatMap] at h
    obtain ⟨s1, h1, h2⟩ := h
    obtain ⟨u, hu, hau⟩ := iha _ _ h1
    obtain ⟨v, hv, hbv⟩ := ihb _ _ h2
    exact ⟨u ++ v, by rw [hu, hv, List.append_assoc], u, v, rfl, hau, hbv⟩
  | opt a iha =>
    intro s s' h
    simp only [Regex.run, List.mem_append, List.mem_singleton] at h
    rcases h with h | h
    · obtain ⟨u, hu, hau⟩ := iha _ _ h
      exact ⟨u, hu, Or.inr hau⟩
    · subst h
      exact ⟨[], rfl, Or.inl rfl⟩
  | plus a iha =>
    intro s s' h
    simp only [Regex.run, List.mem_flatMap] at h
    obtain ⟨s1, h1, h2⟩ := h
    obtain ⟨u, hu, hau⟩ := iha _ _ h1
    obtain ⟨ws, hws, hall⟩ := iterate_invariant a.run
      (fun x y => ∃ ws : List (List Char), x.rest = ws.flatten ++ y.rest ∧ ∀ u ∈ ws, a.Accepts u)
      (fun x => ⟨[], rfl, by simp⟩)
      (fun x y z ⟨w1, h1, a1⟩ ⟨w2, h2, a2⟩ =>
        ⟨w1 ++ w2, by rw [h1, h2, List.flatten_append, List.append_assoc], by
          intro u hu
          rcases List.mem_append.1 hu with hu | hu
          · exact a1 u hu
          · exact a2 u hu⟩)
      (fun x y hxy => by
        obtain ⟨w, hw, haw⟩ := iha _ _ hxy
        exact ⟨[w], by simpa using hw, by simpa using haw⟩)
      _ _ _ h2
    refine ⟨(u :: ws).flatten, by rw [hu, hws]; simp, u :: ws, by simp, rfl, ?_⟩
    intro x hx
    rcases List.mem_cons.1 hx with hx | hx
    · exact hx ▸ hau
    · exact hall x hx
  | star a iha =>
    intro s s' h
    simp only [Regex.run] at h
    obtain ⟨ws, hws, hall⟩ := iterate_invariant a.run
      (fun x y => ∃ ws : List (List Char), x.rest = ws.flatten ++ y.rest ∧ ∀ u ∈ ws, a.Accepts u)
      (fun x => ⟨[], rfl, by simp⟩)
      (fun x y z ⟨w1, h1, a1⟩ ⟨w2, h2, a2⟩ =>
        ⟨w1 ++ w2, by rw [h1, h2, List.flatten_append, List.append_assoc], by
          intro u hu
          rcases List.mem_append.1 hu with hu | hu
          · exact a1 u hu
          · exact a2 u hu⟩)
      (fun x y hxy => by
        obtain ⟨w, hw, haw⟩ := iha _ _ hxy
        exact ⟨[w], by simpa using hw, by simpa using haw⟩)
      _ _ _ h
    exact ⟨ws.flatten, hws, ws, rfl, hall⟩
  | group index a iha =>
    intro s s' h
    simp only [Regex.run, List.mem_map] at h
    obtain ⟨s1, h1, rfl⟩ := h
    obtain ⟨w, hw, hacc⟩ := iha _ _ h1
    exact ⟨w, hw, hacc⟩

theorem iterate_complete (a : Regex)
    (H : ∀ u, a.Accepts u → ∀ (s : MatchState) (t : List Char), s.rest = u ++ t →
      ∃ s' ∈ a.run s, s'.rest = t) :
    ∀ (ws : List (List Char)), (∀ u ∈ ws, a.Accepts u) →
      ∀ (n : Nat) (s : MatchState) (t : List Char), s.rest = ws.flatten ++ t →
        s.rest.length ≤ n → ∃ s' ∈ Regex.iterate a.run n s, s'.rest = t := by
  intro ws
  induction ws with
  | nil =>
    intro _ n s t hs _
    exact ⟨s, self_mem_iterate _ _ _, by simpa using hs⟩
  | cons u ws ih =>
    intro hall n s t hs hn
    have hws : ∀ x ∈ ws, a.Accepts x := fun x hx => hall x (List.mem_cons_of_mem _ hx)
    by_cases hu : u = []
    · subst hu
      exact ih hws n s t (by simpa using hs) hn
    · have hpos : 0 < u.length := List.length_pos.2 hu
      have hlen : s.rest.length = u.length + (ws.flatten ++ t).length := by
        rw [hs, List.flatten_cons, List.append_assoc, List.length_append]
      cases n with
      | zero => omega
      | succ n =>
        obtain ⟨s1, h1, hr1⟩ := H u (hall u (List.mem_cons_self _ _)) s (ws.flatten ++ t)
          (by rw [hs, List.flatten_cons, List.append_assoc])
        have hlt : s1.rest.length < s.rest.length := by rw [hr1, hlen]; omega
        obtain ⟨s', h2, hr2⟩ := ih hws n s1 t hr1 (by omega)
        refine ⟨s', ?_, hr2⟩
        simp only [Regex.iterate, List.mem_append, List.mem_flatMap, List.mem_filter]
        exact Or.inl ⟨s1, ⟨h1, by simpa using hlt⟩, h2⟩

/-- The matcher reaches the end of every word of the pattern. -/
theorem run_complete : ∀ (r : Regex) (w : List Char), r.Accepts w →
    ∀ (s : MatchState) (t : List Char), s.rest = w ++ t → ∃ s' ∈ r.run s, s'.rest = t := by
  intro r
  induction r with
  | char c =>
    intro w hw s t hs
    simp only [Regex.Accepts] at hw
    subst hw
    exact ⟨{ s with rest := t }, (mem_run_class _ _ _).2 ⟨c, t, by simpa using hs, by simp, rfl⟩,
      rfl⟩
  | digit =>
    intro w hw s t hs
    obtain ⟨c, rfl, hc⟩ := hw
    exact ⟨{ s with rest := t }, (mem_run_class _ _ _).2 ⟨c, t, by simpa using hs, hc, rfl⟩, rfl⟩
  | any =>
    intro w hw s t hs
    obtain ⟨c, rfl, hc⟩ := hw
    exact ⟨{ s with rest := t },
      (mem_run_class _ _ _).2 ⟨c, t, by simpa using hs, by simp [hc], rfl⟩, rfl⟩
  | seq a b iha ihb =>
    intro w hw s t hs
    obtain ⟨u, v, rfl, hu, hv⟩ := hw
    obtain ⟨s1, h1, hr1⟩ := iha u hu s (v ++ t) (by rw [hs, List.append_assoc])
    obtain ⟨s2, h2, hr2⟩ := ihb v hv s1 t hr1
    exact ⟨s2, by simp only [Regex.run, List.mem_flatMap]; exact ⟨s1, h1, h2⟩, hr2⟩
  | opt a iha =>
    intro w hw s t hs
    rcases hw with rfl | hw
    · exact ⟨s, by simp [Regex.run], by simpa using hs⟩
    · obtain ⟨s1, h1, hr1⟩ := iha w hw s t hs
      exact ⟨s1, by simp only [Regex.run, List.mem_append]; exact Or.inl h1, hr1⟩
  | plus a iha =>
    intro w hw s t hs
    obtain ⟨ws, hne, rfl, hall⟩ := hw
    cases ws with
    | nil => exact absurd rfl hne
    | cons u ws =>
      obtain ⟨s1, h1, hr1⟩ := iha u (hall u (List.mem_cons_self _ _)) s (ws.flatten ++ t)
        (by rw [hs, List.flatten_cons, List.append_assoc])
      obtain ⟨s2, h2, hr2⟩ := iterate_complete a iha ws
        (fun x hx => hall x (List.mem_cons_of_mem _ hx)) s1.rest.length s1 t hr1 (le_refl _)
      exact ⟨s2, by simp only [Regex.run, List.mem_flatMap]; exact ⟨s1, h1, h2⟩, hr2⟩
  | star a iha =>
    intro w hw s t hs
    obtain ⟨ws, rfl, hall⟩ := hw
    exact iterate_complete a iha ws hall s.rest.length s t hs (le_refl _)
  | group index a iha =>
    intro w hw s t hs
    obtain ⟨s1, h1, hr1⟩ := iha w hw s t hs
    simp only [Regex.run, List.mem_map]
    exact ⟨_, ⟨s1, h1, rfl⟩, hr1⟩

/-- The call `regex_match` succeeds exactly on the words of the pattern. -/
theorem regex_match_eq_none_iff (re : Regex) (input : List Char) :
    regex_match re input = none ↔ ¬ re.Accepts input := by
  unfold regex_match
  generalize hs0 : MatchState.mk input (List.replicate (re.mark_count + 1) none) = s0
  have hin : s0.rest = input := by rw [← hs0]
  constructor
  · intro h hacc
    obtain ⟨s', hmem, hrest⟩ := run_complete re input hacc s0 [] (by simpa using hin)
    cases hf : (re.run s0).find? (fun s => s.rest.isEmpty) with
    | some s => rw [hf] at h; cases h
    | none =>
      have := List.find?_eq_none.1 hf s' hmem
      simp [hrest] at this
  · intro h
    cases hf : (re.run s0).find? (fun s => s.rest.isEmpty) with
    | none => rfl
    | some s =>
      exfalso
      apply h
      have hmem := List.mem_of_find?_eq_some hf
      have hp := List.find?_some hf
      obtain ⟨w, hw, hacc⟩ := run_sound re _ _ hmem
      have hnil : s.rest = [] := by simpa using hp
      rw [hnil, List.append_nil, hin] at hw
      exact hw ▸ hacc

end Vcpkg

namespace Vcpkg

/-! ## The first match of the version pattern -/

theorem run_captures_length : ∀ (r : Regex) (s s' : MatchState), s' ∈ r.run s →
    s'.captures.length = s.captures.length := by
  intro r
  induction r with
  | char c =>
    intro s s' h
    obtain ⟨x, cs, _, _, rfl⟩ := (mem_run_class _ s s').1 h
    rfl
  | digit =>
    intro s s' h
    obtain ⟨x, cs, _, _, rfl⟩ := (mem_run_class _ s s').1 h
    rfl
  | any =>
    intro s s' h
    obtain ⟨x, cs, _, _, rfl⟩ := (mem_run_class _ s s').1 h
    rfl
  | seq a b iha ihb =>
    intro s s' h
    simp only [Regex.run, List.mem_flatMap] at h
    obtain ⟨s1, h1, h2⟩ := h
    rw [ihb _ _ h2, iha _ _ h1]
  | opt a iha =>
    intro s s' h
    simp only [Regex.run, List.mem_append, List.mem_singleton] at h
    rcases h with h | h
    · exact iha _ _ h
    · rw [h]
  | plus a iha =>
    intro s s' h
    simp only [Regex.run, List.mem_flatMap] at h
    obtain ⟨s1, h1, h2⟩ := h
    have := iterate_invariant a.run (fun x y => y.captures.length = x.captures.length)
      (fun _ => rfl) (fun x y z h1 h2 => h2.trans h1) (fun x y hxy => iha _ _ hxy) _ _ _ h2
    rw [this, iha _ _ h1]
  | star a iha =>
    intro s s' h
    simp only [Regex.run] at h
    exact iterate_invariant a.run (fun x y => y.captures.length = x.captures.length)
      (fun _ => rfl) (fun x y z h1 h2 => h2.trans h1) (fun x y hxy => iha _ _ hxy) _ _ _ h
  | group index a iha =>
    intro s s' h
    simp only [Regex.run, List.mem_map] at h
    obtain ⟨s1, h1, rfl⟩ := h
    simp only [List.length_set]
    exact iha _ _ h1

/-- The size of the match results is one more than the number of marked sub-expressions. -/
theorem regex_match_size (re : Regex) (input : List Char) (sm : List (Option (List Char)))
    (h : regex_match re input = some sm) : sm.length = re.mark_count + 1 := by
  unfold regex_match at h
  generalize hs0 : MatchState.mk input (List.replicate (re.mark_count + 1) none) = s0 at h
  cases hf : (re.run s0).find? (fun s => s.rest.isEmpty) with
  | none => rw [hf] at h; cases h
  | some s =>
    rw [hf] at h
    simp only [Option.some.injEq] at h
    rw [← h, List.length_set, run_captures_length re _ _ (List.mem_of_find?_eq_some hf), ← hs0]
    simp

/-- The match results of the version pattern always have size 4, so that the branch
`sm.size() == 2` of `nuget_package_version` is never taken. -/
theorem semver_match_size (input : List Char) (sm : List (Option (List Char)))
    (h : regex_match semver_matcher input = some sm) : sm.length = 4 :=
  regex_match_size semver_matcher input sm h

/-- On a match the function returns the first two sub-matches and the tag: nothing is
inserted between them. -/
theorem nuget_package_version_of_match (version abi_tag : String)
    (sm : List (Option (List Char)))
    (h : regex_match semver_matcher version.data = some sm) :
    nuget_package_version version abi_tag =
      Except.ok (smatch_str sm 1 ++ smatch_str sm 2 ++ "-" ++ abi_tag) := by
  have hsize := semver_match_size _ _ h
  unfold nuget_package_version
  rw [h]
  simp only [hsize]
  rfl

theorem nuget_package_version_of_no_match (version abi_tag : String)
    (h : regex_match semver_matcher version.data = none) :
    nuget_package_version version abi_tag = Except.ok ("0.0.0-" ++ abi_tag) := by
  unfold nuget_package_version
  rw [h]
  rfl

theorem head?_append_some {α : Type} (l l' : List α) (a : α) (h : l.head? = some a) :
    (l ++ l').head? = some a := by
  cases l with
  | nil => cases h
  | cons x xs => exact h

theorem head?_flatMap_some {α β : Type} (l : List α) (f : α → List β) (a : α) (b : β)
    (h : l.head? = some a) (hf : (f a).head? = some b) : (l.flatMap f).head? = some b := by
  cases l with
  | nil => cases h
  | cons x xs =>
    simp only [List.head?_cons, Option.some.injEq] at h
    subst h
    rw [List.flatMap_cons]
    exact head?_append_some _ _ _ hf

theorem run_class_nil_of_head (p : Char → Bool) (rest : List Char)
    (captures : List (Option (List Char)))
    (hrest : ∀ c, rest.head? = some c → p c = false) :
    Regex.run_class p ⟨rest, captures⟩ = [] := by
  unfold Regex.run_class
  cases rest with
  | nil => rfl
  | cons c cs => simp [hrest c rfl]

/-- Greedy repetition of a character class takes the longest run of the class first. -/
theorem iterate_class_head (p : Char → Bool) (rest : List Char)
    (captures : List (Option (List Char)))
    (hrest : ∀ c, rest.head? = some c → p c = false) :
    ∀ (xs : List Char), (∀ c ∈ xs, p c = true) → ∀ (n : Nat), (xs ++ rest).length ≤ n →
      (Regex.iterate (Regex.run_class p) n ⟨xs ++ rest, captures⟩).head? =
        some ⟨rest, captures⟩ := by
  intro xs
  induction xs with
  | nil =>
    intro _ n _
    cases n with
    | zero => rfl
    | succ n =>
      simp only [Regex.iterate, List.nil_append, run_class_nil_of_head p rest captures hrest]
      rfl
  | cons x xs ih =>
    intro hxs n hn
    cases n with
    | zero => simp at hn
    | succ n =>
      have hx : p x = true := hxs x (List.mem_cons_self _ _)
      have hstep : Regex.run_class p ⟨x :: xs ++ rest, captures⟩ = [⟨xs ++ rest, captures⟩] := by
        simp [Regex.run_class, hx]
      simp only [Regex.iterate, hstep]
      apply head?_append_some
      apply head?_flatMap_some _ _ ⟨xs ++ rest, captures⟩
      · simp
      · exact ih (fun c hc => hxs c (List.mem_cons_of_mem _ hc)) n (by simpa using hn)

theorem run_digit_eq : Regex.digit.run = Regex.run_class is_digit := by
  funext s
  simp only [Regex.run]

theorem run_any_eq : Regex.any.run = Regex.run_class (fun x => !is_line_terminator x) := by
  funext s
  simp only [Regex.run]

/-- The pattern `\d+` takes the longest run of digits first. -/
theorem run_plus_digit_head (x : Char) (xs rest : List Char)
    (captures : List (Option (List Char)))
    (hxs : ∀ c ∈ x :: xs, is_digit c = true)
    (hrest : ∀ c, rest.head? = some c → is_digit c = false) :
    ((Regex.plus Regex.digit).run ⟨x :: xs ++ rest, captures⟩).head? =
      some ⟨rest, captures⟩ := by
  have hx : is_digit x = true := hxs x (List.mem_cons_self _ _)
  simp only [Regex.run, run_digit_eq]
  apply head?_flatMap_some _ _ ⟨xs ++ rest, captures⟩
  · simp [Regex.run_class, hx]
  · exact iterate_class_head is_digit rest captures hrest xs
      (fun c hc => hxs c (List.mem_cons_of_mem _ hc)) _ (le_refl _)

/-- The pattern `.*` takes the whole input first when it has no line terminator. -/
theorem run_star_any_head (xs : List Char) (captures : List (Option (List Char)))
    (hxs : ∀ c ∈ xs, is_line_terminator c = false) :
    ((Regex.star Regex.any).run ⟨xs, captures⟩).head? = some ⟨[], captures⟩ := by
  simp only [Regex.run, run_any_eq]
  have := iterate_class_head (fun x => !is_line_terminator x) [] captures
    (fun c hc => by cases hc) xs (fun c hc => by simp [hxs c hc]) xs.length (by simp)
  simpa using this

theorem run_char_head (c : Char) (rest : List Char) (captures : List (Option (List Char))) :
    ((Regex.char c).run ⟨c :: rest, captures⟩).head? = some ⟨rest, captures⟩ := by
  simp [Regex.run, Regex.run_class]

theorem run_seq_head (a b : Regex) (s s1 s2 : MatchState) (h1 : (a.run s).head? = some s1)
    (h2 : (b.run s1).head? = some s2) : ((Regex.seq a b).run s).head? = some s2 := by
  simp only [Regex.run]
  exact head?_flatMap_some _ _ _ _ h1 h2

theorem run_opt_head (a : Regex) (s s1 : MatchState) (h1 : (a.run s).head? = some s1) :
    ((Regex.opt a).run s).head? = some s1 := by
  simp only [Regex.run]
  exact head?_append_some _ _ _ h1

theorem run_group_head (index : Nat) (a : Regex) (s s1 : MatchState)
    (h1 : (a.run s).head? = some s1) :
    ((Regex.group index a).run s).head? =
      some ⟨s1.rest,
        s1.captures.set index (some (s.rest.take (s.rest.length - s1.rest.length)))⟩ := by
  simp only [Regex.run, List.head?_map, h1, Option.map_some']

theorem take_consumed (xs rest : List Char) :
    (xs ++ rest).take ((xs ++ rest).length - rest.length) = xs := by
  simp

theorem is_digit_ne_dot (c : Char) (h : is_digit c = true) : c ≠ '.' := by
  rintro rfl
  revert h
  decide

theorem is_digit_ne_v (c : Char) (h : is_digit c = true) : c ≠ 'v' := by
  rintro rfl
  revert h
  decide

end Vcpkg

namespace Vcpkg

/-! ## The NuGet package version -/

theorem run_opt_v_head (v X : List Char) (captures : List (Option (List Char)))
    (hv : v = [] ∨ v = ['v']) (hX : ∀ c, X.head? = some c → is_digit c = true) :
    ((Regex.opt (Regex.char 'v')).run ⟨v ++ X, captures⟩).head? = some ⟨X, captures⟩ := by
  rcases hv with rfl | rfl
  · simp only [Regex.run, List.nil_append]
    rw [run_class_nil_of_head _ X captures]
    · rfl
    · intro c hc
      simpa using is_digit_ne_v c (hX c hc)
  · exact run_opt_head _ _ _ (run_char_head 'v' X captures)

/-- The first sub-expression `(\d+\.\d+)` takes the major and minor numbers. -/
theorem run_major_minor_head (M N R : List Char) (captures : List (Option (List Char)))
    (hM : M ≠ []) (hMd : ∀ c ∈ M, is_digit c = true)
    (hN : N ≠ []) (hNd : ∀ c ∈ N, is_digit c = true)
    (hR : ∀ c, R.head? = some c → is_digit c = false) :
    ((Regex.group 1 (.seq (.plus .digit) (.seq (.char '.') (.plus .digit)))).run
        ⟨M ++ '.' :: (N ++ R), captures⟩).head? =
      some ⟨R, captures.set 1 (some (M ++ '.' :: N))⟩ := by
  cases M with
  | nil => exact absurd rfl hM
  | cons m M =>
    cases N with
    | nil => exact absurd rfl hN
    | cons n N =>
      have h1 := run_plus_digit_head m M ('.' :: (n :: N ++ R)) captures hMd
        (fun c hc => by
          simp only [List.head?_cons, Option.some.injEq] at hc
          subst hc
          decide)
      have h2 := run_char_head '.' (n :: N ++ R) captures
      have h3 := run_plus_digit_head n N R captures hNd hR
      have h := run_group_head 1 _ _ _
        (run_seq_head _ _ _ _ _ h1 (run_seq_head _ _ _ _ _ h2 h3))
      rw [h]
      have ht : m :: M ++ '.' :: (n :: N ++ R) = (m :: M ++ '.' :: (n :: N)) ++ R := by simp
      simp only [ht, take_consumed]

/-- The second sub-expression `(\.(\d+))` takes the patch number when there is one. -/
theorem run_patch_head (P suffix : List Char) (captures : List (Option (List Char)))
    (hP : P ≠ []) (hPd : ∀ c ∈ P, is_digit c = true)
    (hhead : ∀ c, suffix.head? = some c → is_digit c = false) :
    ((Regex.opt (.group 2 (.seq (.char '.') (.group 3 (.plus .digit))))).run
        ⟨'.' :: (P ++ suffix), captures⟩).head? =
      some ⟨suffix, (captures.set 3 (some P)).set 2 (some ('.' :: P))⟩ := by
  cases P with
  | nil => exact absurd rfl hP
  | cons p P =>
    have h1 := run_char_head '.' (p :: P ++ suffix) captures
    have h2 := run_group_head 3 _ _ _ (run_plus_digit_head p P suffix captures hPd hhead)
    have h := run_opt_head _ _ _ (run_group_head 2 _ _ _ (run_seq_head _ _ _ _ _ h1 h2))
    rw [h]
    have ht : '.' :: (p :: P ++ suffix) = ('.' :: p :: P) ++ suffix := by simp
    simp only [ht, take_consumed]

/-- The second sub-expression takes nothing when no patch number follows. -/
theorem run_no_patch_head (suffix : List Char) (captures : List (Option (List Char)))
    (hdot : ∀ c rest, suffix = '.' :: c :: rest → is_digit c = false) :
    ((Regex.opt (.group 2 (.seq (.char '.') (.group 3 (.plus .digit))))).run
        ⟨suffix, captures⟩).head? = some ⟨suffix, captures⟩ := by
  have hnil : (Regex.group 2 (.seq (.char '.') (.group 3 (.plus .digit)))).run
      ⟨suffix, captures⟩ = [] := by
    simp only [Regex.run, run_digit_eq]
    cases suffix with
    | nil => rfl
    | cons c cs =>
      by_cases hc : c = '.'
      · subst hc
        have hcs : Regex.run_class is_digit ⟨cs, captures⟩ = [] :=
          run_class_nil_of_head _ _ _ (fun d hd => by
            cases cs with
            | nil => cases hd
            | cons e es =>
              simp only [List.head?_cons, Option.some.injEq] at hd
              subst hd
              exact hdot _ _ rfl)
        have hstep : Regex.run_class (fun x => decide (x = '.')) ⟨'.' :: cs, captures⟩ =
            [⟨cs, captures⟩] := by
          simp [Regex.run_class]
        rw [hstep]
        simp [hcs]
      · have hstep : Regex.run_class (fun x => decide (x = '.')) ⟨c :: cs, captures⟩ = [] := by
          simp [Regex.run_class, hc]
        rw [hstep]
        rfl
  simp only [Regex.run] at hnil ⊢
  rw [hnil]
  rfl

theorem regex_match_of_head (re : Regex) (input : List Char)
    (captures : List (Option (List Char)))
    (h : (re.run ⟨input, List.replicate (re.mark_count + 1) none⟩).head? =
      some ⟨[], captures⟩) :
    regex_match re input = some (captures.set 0 (some input)) := by
  unfold regex_match
  cases hr : re.run ⟨input, List.replicate (re.mark_count + 1) none⟩ with
  | nil => rw [hr] at h; cases h
  | cons s l =>
    rw [hr] at h
    simp only [List.head?_cons, Option.some.injEq] at h
    subst h
    rfl

/-- The match of a version with a patch number. -/
theorem semver_match_patch (v M N P suffix : List Char)
    (hv : v = [] ∨ v = ['v'])
    (hM : M ≠ []) (hMd : ∀ c ∈ M, is_digit c = true)
    (hN : N ≠ []) (hNd : ∀ c ∈ N, is_digit c = true)
    (hP : P ≠ []) (hPd : ∀ c ∈ P, is_digit c = true)
    (hsuffix : ∀ c ∈ suffix, is_line_terminator c = false)
    (hhead : ∀ c, suffix.head? = some c → is_digit c = false) :
    regex_match semver_matcher (v ++ (M ++ '.' :: (N ++ '.' :: (P ++ suffix)))) =
      some [some (v ++ (M ++ '.' :: (N ++ '.' :: (P ++ suffix)))), some (M ++ '.' :: N),
        some ('.' :: P), some P] := by
  have h0 := run_opt_v_head v (M ++ '.' :: (N ++ '.' :: (P ++ suffix)))
    (List.replicate (semver_matcher.mark_count + 1) none) hv (fun c hc => by
      cases M with
      | nil => exact absurd rfl hM
      | cons m M =>
        simp only [List.cons_append, List.head?_cons, Option.some.injEq] at hc
        exact hMd c (hc ▸ List.mem_cons_self _ _))
  have h1 := run_major_minor_head M N ('.' :: (P ++ suffix))
    (List.replicate (semver_matcher.mark_count + 1) none) hM hMd hN hNd (fun c hc => by
      simp only [List.head?_cons, Option.some.injEq] at hc
      subst hc
      decide)
  have h2 := run_patch_head P suffix
    ((List.replicate (semver_matcher.mark_count + 1) none).set 1 (some (M ++ '.' :: N)))
    hP hPd hhead
  have h3 := run_star_any_head suffix
    ((((List.replicate (semver_matcher.mark_count + 1) none).set 1
      (some (M ++ '.' :: N))).set 3 (some P)).set 2 (some ('.' :: P))) hsuffix
  have h := regex_match_of_head semver_matcher _ _
    (run_seq_head _ _ _ _ _ h0 (run_seq_head _ _ _ _ _ h1 (run_seq_head _ _ _ _ _ h2 h3)))
  rw [h]
  rfl

/-- The match of a version without a patch number. -/
theorem semver_match_no_patch (v M N suffix : List Char)
    (hv : v = [] ∨ v = ['v'])
    (hM : M ≠ []) (hMd : ∀ c ∈ M, is_digit c = true)
    (hN : N ≠ []) (hNd : ∀ c ∈ N, is_digit c = true)
    (hsuffix : ∀ c ∈ suffix, is_line_terminator c = false)
    (hhead : ∀ c, suffix.head? = some c → is_digit c = false)
    (hdot : ∀ c rest, suffix = '.' :: c :: rest → is_digit c = false) :
    regex_match semver_matcher (v ++ (M ++ '.' :: (N ++ suffix))) =
      some [some (v ++ (M ++ '.' :: (N ++ suffix))), some (M ++ '.' :: N), none, none] := by
  have h0 := run_opt_v_head v (M ++ '.' :: (N ++ suffix))
    (List.replicate (semver_matcher.mark_count + 1) none) hv (fun c hc => by
      cases M with
      | nil => exact absurd rfl hM
      | cons m M =>
        simp only [List.cons_append, List.head?_cons, Option.some.injEq] at hc
        exact hMd c (hc ▸ List.mem_cons_self _ _))
  have h1 := run_major_minor_head M N suffix
    (List.replicate (semver_matcher.mark_count + 1) none) hM hMd hN hNd hhead
  have h2 := run_no_patch_head suffix
    ((List.replicate (semver_matcher.mark_count + 1) none).set 1 (some (M ++ '.' :: N))) hdot
  have h3 := run_star_any_head suffix
    ((List.replicate (semver_matcher.mark_count + 1) none).set 1 (some (M ++ '.' :: N)))
    hsuffix
  have h := regex_match_of_head semver_matcher _ _
    (run_seq_head _ _ _ _ _ h0 (run_seq_head _ _ _ _ _ h1 (run_seq_head _ _ _ _ _ h2 h3)))
  rw [h]
  rfl

/-- For every version without a patch number the function returns `<major>.<minor>-<abi>`:
the component `.0` is not inserted. -/
theorem nuget_package_version_no_patch (v M N suffix : List Char) (abi_tag : String)
    (hv : v = [] ∨ v = ['v'])
    (hM : M ≠ []) (hMd : ∀ c ∈ M, is_digit c = true)
    (hN : N ≠ []) (hNd : ∀ c ∈ N, is_digit c = true)
    (hsuffix : ∀ c ∈ suffix, is_line_terminator c = false)
    (hhead : ∀ c, suffix.head? = some c → is_digit c = false)
    (hdot : ∀ c rest, suffix = '.' :: c :: rest → is_digit c = false) :
    nuget_package_version (String.mk (v ++ (M ++ '.' :: (N ++ suffix)))) abi_tag =
      Except.ok (String.mk (M ++ '.' :: N) ++ "-" ++ abi_tag) := by
  rw [nuget_package_version_of_match _ _ _
    (semver_match_no_patch v M N suffix hv hM hMd hN hNd hsuffix hhead hdot)]
  simp [smatch_str]

end Vcpkg

namespace Vcpkg

/-! ## Claims on the NuGet package version -/

/-- C13 (NuGet version, patch absent): evaluation of the code at the versions `1.2` and
`v1.2-beta`, which have no patch number.  The function returns `1.2-abi` for both: the
sub-match `1.2` followed directly by `-` and the tag, and not the padded `1.2.0-abi`. -/
theorem nuget_version_patch_absent_unpadded :
    nuget_package_version "1.2" "abi" = Except.ok "1.2-abi" ∧
      nuget_package_version "v1.2-beta" "abi" = Except.ok "1.2-abi" ∧
      nuget_package_version "1.2" "abi" ≠ Except.ok "1.2.0-abi" := by
  decide

/-- C14 (NuGet version format): evaluation of the code at the version `1.2` with the tag
`abi`.  The string returned is `1.2-abi`, which is not a word of the pattern
`^\d+\.\d+\.\d+-.+$`: it has two numeric components, not three. -/
theorem nuget_version_format_violated :
    nuget_package_version "1.2" "abi" = Except.ok "1.2-abi" ∧
      regex_match nuget_version_format "1.2-abi".data = none ∧
      ¬ nuget_version_format.Accepts "1.2-abi".data :=
  ⟨by decide, by decide, (regex_match_eq_none_iff _ _).1 (by decide)⟩

/-- C15 (NuGet version, patch present): for a version made of an optional `v`, three
non-empty digit strings `M`, `N`, `P` separated by dots, and a suffix without line
terminator that does not start with a digit, the function returns `M.N.P-<abi>`; and for
every version and tag whatsoever the function returns a string, so that its branch
`Checks::unreachable` is never reached. -/
theorem nuget_version_patch_present (v M N P suffix : List Char) (abi_tag : String)
    (hv : v = [] ∨ v = ['v'])
    (hM : M ≠ []) (hMd : ∀ c ∈ M, is_digit c = true)
    (hN : N ≠ []) (hNd : ∀ c ∈ N, is_digit c = true)
    (hP : P ≠ []) (hPd : ∀ c ∈ P, is_digit c = true)
    (hsuffix : ∀ c ∈ suffix, is_line_terminator c = false)
    (hhead : ∀ c, suffix.head? = some c → is_digit c = false) :
    nuget_package_version (String.mk (v ++ (M ++ '.' :: (N ++ '.' :: (P ++ suffix))))) abi_tag =
        Except.ok (String.mk (M ++ '.' :: (N ++ '.' :: P)) ++ "-" ++ abi_tag) ∧
      ∀ (version tag : String), ∃ result, nuget_package_version version tag = Except.ok result := by
  constructor
  · rw [nuget_package_version_of_match _ _ _
      (semver_match_patch v M N P suffix hv hM hMd hN hNd hP hPd hsuffix hhead)]
    have happ : String.mk (M ++ '.' :: N) ++ String.mk ('.' :: P) =
        String.mk (M ++ '.' :: (N ++ '.' :: P)) := by
      show String.mk ((M ++ '.' :: N) ++ '.' :: P) = _
      simp
    simp only [smatch_str, List.get?]
    rw [happ]
  · intro version tag
    cases hm : regex_match semver_matcher version.data with
    | none => exact ⟨_, nuget_package_version_of_no_match _ _ hm⟩
    | some sm => exact ⟨_, nuget_package_version_of_match _ _ _ hm⟩

theorem nuget_version_patch_present_witness :
    nuget_package_version "v1.2.3-beta" "abi" = Except.ok "1.2.3-abi" ∧
      ∀ (version tag : String), ∃ result, nuget_package_version version tag = Except.ok result :=
  nuget_version_patch_present ['v'] ['1'] ['2'] ['3'] ['-', 'b', 'e', 't', 'a'] "abi"
    (by decide) (by decide) (by decide) (by decide) (by decide) (by decide) (by decide)
    (by decide) (by decide)

set_option maxRecDepth 100000 in
/-- The pattern is matched against the bytes of the version: a character outside ASCII,
such as the line separator U+2028, is matched by `.` as any other character that is not a
line feed or a carriage return. -/
theorem nuget_version_line_separator :
    nuget_package_version "1.2.3\u2028" "abi" = Except.ok "1.2.3-abi" ∧
    nuget_package_version "1.2.3\n" "abi" = Except.ok "0.0.0-abi" := by
  decide

/-- C16 (NuGet version, no match): for every version that is not a word of the pattern
`v?(\d+\.\d+)(\.(\d+))?.*`, the function returns `0.0.0-` followed by the tag. -/
theorem nuget_version_no_match (version abi_tag : String)
    (h : ¬ semver_matcher.Accepts version.data) :
    nuget_package_version version abi_tag = Except.ok ("0.0.0-" ++ abi_tag) :=
  nuget_package_version_of_no_match version abi_tag ((regex_match_eq_none_iff _ _).2 h)

theorem nuget_version_no_match_witness :
    ¬ semver_matcher.Accepts "2019-05-01".data ∧
      nuget_package_version "2019-05-01" "abi" = Except.ok ("0.0.0-" ++ "abi") :=
  ⟨(regex_match_eq_none_iff _ _).1 (by decide),
    nuget_version_no_match "2019-05-01" "abi" ((regex_match_eq_none_iff _ _).1 (by decide))⟩

end Vcpkg

namespace Vcpkg

/-! ## Orders and sorting -/

theorem strict_total_asymm {α : Type} (less : α → α → Bool) (h : StrictTotalOrder less)
    (a b : α) (hab : less a b = true) : less b a = false := by
  cases hba : less b a with
  | false => rfl
  | true =>
    have := h.2.1 a b a hab hba
    rw [h.1 a] at this
    cases this

theorem strict_total_eq {α : Type} (less : α → α → Bool) (h : StrictTotalOrder less)
    (a b : α) (hab : less a b = false) (hba : less b a = false) : a = b := by
  by_contra hne
  rcases h.2.2 a b hne with h1 | h1
  · rw [hab] at h1; cases h1
  · rw [hba] at h1; cases h1

theorem list_less_cons_iff {α : Type} (less : α → α → Bool) (h : StrictTotalOrder less)
    (a b : α) (as bs : List α) :
    list_less less (a :: as) (b :: bs) = true ↔
      less a b = true ∨ (a = b ∧ list_less less as bs = true) := by
  show (if less a b = true then true else if less b a = true then false
    else list_less less as bs) = true ↔ _
  cases hab : less a b with
  | true => simp
  | false =>
    cases hba : less b a with
    | true =>
      simp only [Bool.false_eq_true, if_false, if_true, false_or, false_iff, not_and]
      intro he
      subst he
      rw [hab] at hba
      cases hba
    | false =>
      have he := strict_total_eq less h a b hab hba
      simp [he]

/-- The lexicographic order of a strict total order is a strict total order. -/
theorem list_less_strict_total {α : Type} (less : α → α → Bool) (h : StrictTotalOrder less) :
    StrictTotalOrder (list_less less) := by
  refine ⟨?_, ?_, ?_⟩
  · intro a
    induction a with
    | nil => rfl
    | cons x xs ih =>
      cases hl : list_less less (x :: xs) (x :: xs) with
      | false => rfl
      | true =>
        rcases (list_less_cons_iff less h x x xs xs).1 hl with h1 | ⟨_, h1⟩
        · rw [h.1 x] at h1; cases h1
        · rw [ih] at h1; cases h1
  · intro a
    induction a with
    | nil =>
      intro b c hab hbc
      cases b with
      | nil => cases hab
      | cons y ys =>
        cases c with
        | nil => cases hbc
        | cons z zs => rfl
    | cons x xs ih =>
      intro b c hab hbc
      cases b with
      | nil => cases hab
      | cons y ys =>
        cases c with
        | nil => cases hbc
        | cons z zs =>
          rw [list_less_cons_iff less h] at hab hbc ⊢
          rcases hab with hab | ⟨rfl, hab⟩
          · rcases hbc with hbc | ⟨rfl, hbc⟩
            · exact Or.inl (h.2.1 _ _ _ hab hbc)
            · exact Or.inl hab
          · rcases hbc with hbc | ⟨rfl, hbc⟩
            · exact Or.inl hbc
            · exact Or.inr ⟨rfl, ih ys zs hab hbc⟩
  · intro a
    induction a with
    | nil =>
      intro b hne
      cases b with
      | nil => exact absurd rfl hne
      | cons y ys => exact Or.inl rfl
    | cons x xs ih =>
      intro b hne
      cases b with
      | nil => exact Or.inr rfl
      | cons y ys =>
        rw [list_less_cons_iff less h, list_less_cons_iff less h]
        by_cases hxy : x = y
        · subst hxy
          have hne' : xs ≠ ys := fun he => hne (by rw [he])
          rcases ih ys hne' with h1 | h1
          · exact Or.inl (Or.inr ⟨rfl, h1⟩)
          · exact Or.inr (Or.inr ⟨rfl, h1⟩)
        · rcases h.2.2 x y hxy with h1 | h1
          · exact Or.inl (Or.inl h1)
          · exact Or.inr (Or.inl h1)

theorem chars_less_eq_list_less (a b : List Char) :
    chars_less a b = list_less (fun x y => decide (x.toNat < y.toNat)) a b := by
  induction a generalizing b with
  | nil => cases b <;> rfl
  | cons x xs ih =>
    cases b with
    | nil => rfl
    | cons y ys =>
      simp only [chars_less, list_less, ih ys, decide_eq_true_eq]

theorem char_order_strict_total :
    StrictTotalOrder (fun x y : Char => decide (x.toNat < y.toNat)) := by
  refine ⟨?_, ?_, ?_⟩
  · intro a
    simp
  · intro a b c hab hbc
    simp only [decide_eq_true_eq] at hab hbc ⊢
    omega
  · intro a b hne
    simp only [decide_eq_true_eq]
    have hn : a.toNat ≠ b.toNat := by
      intro he
      apply hne
      rw [← Char.ofNat_toNat (c := a), he, Char.ofNat_toNat]
    omega

/-- The order of `std::string` is a strict total order. -/
theorem string_less_strict_total : StrictTotalOrder string_less := by
  have h := list_less_strict_total _ char_order_strict_total
  refine ⟨?_, ?_, ?_⟩
  · intro a
    simp only [string_less, chars_less_eq_list_less]
    exact h.1 _
  · intro a b c
    simp only [string_less, chars_less_eq_list_less]
    exact h.2.1 _ _ _
  · intro a b hne
    simp only [string_less, chars_less_eq_list_less]
    exact h.2.2 _ _ (fun he => hne (String.ext he))

/-- The order of paths is a strict total order. -/
theorem path_less_strict_total : StrictTotalOrder Path.less :=
  list_less_strict_total _ string_less_strict_total

/-- The order of ABI entries by key and then by value is a strict total order. -/
theorem abi_entry_less_strict_total : StrictTotalOrder AbiEntry.less := by
  have h := string_less_strict_total
  have hiff : ∀ a b : AbiEntry, AbiEntry.less a b = true ↔
      string_less a.key b.key = true ∨ (a.key = b.key ∧ string_less a.value b.value = true) := by
    intro a b
    simp [AbiEntry.less]
  refine ⟨?_, ?_, ?_⟩
  · intro a
    cases hl : AbiEntry.less a a with
    | false => rfl
    | true =>
      rcases (hiff a a).1 hl with h1 | ⟨_, h1⟩
      · rw [h.1] at h1; cases h1
      · rw [h.1] at h1; cases h1
  · intro a b c hab hbc
    rw [hiff] at hab hbc ⊢
    rcases hab with hab | ⟨hk, hab⟩
    · rcases hbc with hbc | ⟨hk', hbc⟩
      · exact Or.inl (h.2.1 _ _ _ hab hbc)
      · exact Or.inl (hk' ▸ hab)
    · rcases hbc with hbc | ⟨hk', hbc⟩
      · exact Or.inl (hk ▸ hbc)
      · exact Or.inr ⟨hk.trans hk', h.2.1 _ _ _ hab hbc⟩
  · intro a b hne
    rw [hiff, hiff]
    by_cases hk : a.key = b.key
    · have hv : a.value ≠ b.value := by
        intro hv
        apply hne
        cases a
        cases b
        simp only at hk hv
        rw [hk, hv]
      rcases h.2.2 _ _ hv with h1 | h1
      · exact Or.inl (Or.inr ⟨hk, h1⟩)
      · exact Or.inr (Or.inr ⟨hk.symm, h1⟩)
    · rcases h.2.2 _ _ hk with h1 | h1
      · exact Or.inl (Or.inl h1)
      · exact Or.inr (Or.inl h1)

theorem sort_perm {α : Type} (less : α → α → Bool) (xs : List α) :
    (Util.sort less xs).Perm xs :=
  List.perm_insertionSort _ xs

theorem mem_sort {α : Type} (less : α → α → Bool) (xs : List α) (x : α) :
    x ∈ Util.sort less xs ↔ x ∈ xs :=
  (sort_perm less xs).mem_iff

/-- Sorting by a strict total order gives an ascending list. -/
theorem sort_sorted {α : Type} (less : α → α → Bool) (h : StrictTotalOrder less)
    (xs : List α) : (Util.sort less xs).Sorted (fun a b => less b a = false) := by
  haveI : IsTotal α (fun a b => less b a = false) := ⟨fun a b => by
    cases hba : less b a with
    | false => exact Or.inl rfl
    | true => exact Or.inr (strict_total_asymm less h b a hba)⟩
  haveI : IsTrans α (fun a b => less b a = false) := ⟨fun a b c hab hbc => by
    show less c a = false
    cases hca : less c a with
    | false => rfl
    | true =>
      exfalso
      by_cases he : a = b
      · subst he
        rw [hca] at hbc
        cases hbc
      · rcases h.2.2 a b he with h1 | h1
        · have := h.2.1 _ _ _ hca h1
          rw [hbc] at this
          cases this
        · rw [hab] at h1
          cases h1⟩
  exact List.sorted_insertionSort _ xs

/-- Sorting by a strict total order does not depend on the order of the input. -/
theorem sort_eq_of_perm {α : Type} (less : α → α → Bool) (h : StrictTotalOrder less)
    (xs ys : List α) (hp : xs.Perm ys) : Util.sort less xs = Util.sort less ys := by
  haveI : IsAntisymm α (fun a b => less b a = false) :=
    ⟨fun a b hab hba => strict_total_eq less h a b hba hab⟩
  exact List.eq_of_perm_of_sorted
    (((sort_perm less xs).trans hp).trans (sort_perm less ys).symm)
    (sort_sorted less h xs) (sort_sorted less h ys)

end Vcpkg

namespace Vcpkg

/-! ## The entries of the ABI -/

theorem collect_port_files_spec (listing : List FileEntry) :
    ∀ (port_files : List Path) (entries : List AbiEntry),
      port_files.length ≤ max_port_file_count →
      collect_port_files listing (port_files, entries) =
        if port_files.length +
            ((listing.filter (fun e => decide (e.type = FileType.regular))).map
              FileEntry.path).length ≤ max_port_file_count then
          (port_files ++
            (listing.filter (fun e => decide (e.type = FileType.regular))).map FileEntry.path,
            entries)
        else
          (port_files ++
            ((listing.filter (fun e => decide (e.type = FileType.regular))).map
              FileEntry.path).take (max_port_file_count + 1 - port_files.length),
            entries ++ [{ key := "no_hash_max_portfile", value := "" }]) := by
  induction listing with
  | nil =>
    intro port_files entries h
    simp [collect_port_files, h]
  | cons e rest ih =>
    intro port_files entries h
    by_cases hreg : e.type = FileType.regular
    · by_cases hfull : (port_files ++ [e.path]).length > max_port_file_count
      · have hlen : port_files.length = max_port_file_count := by
          simp only [List.length_append, List.length_singleton] at hfull
          omega
        simp only [collect_port_files, hreg, if_true, hfull, List.filter_cons, decide_True,
          List.map_cons, List.length_cons]
        rw [if_neg (by omega)]
        simp [hlen]
      · have hlen : port_files.length + 1 ≤ max_port_file_count := by
          simp only [List.length_append, List.length_singleton] at hfull
          omega
        simp only [collect_port_files, hreg, if_true, hfull, if_false, List.filter_cons,
          decide_True, List.map_cons, List.length_cons]
        rw [ih (port_files ++ [e.path]) entries (by simpa using hlen)]
        have h1 : max_port_file_count + 1 - port_files.length =
            (max_port_file_count + 1 - (port_files ++ [e.path]).length) + 1 := by
          simp only [List.length_append, List.length_singleton]
          omega
        rw [h1, List.take_succ_cons]
        simp only [List.length_append, List.length_singleton, List.append_assoc,
          List.singleton_append]
        have h2 : port_files.length + 1 + (List.map FileEntry.path
            (List.filter (fun e => decide (e.type = FileType.regular)) rest)).length =
            port_files.length + ((List.map FileEntry.path
            (List.filter (fun e => decide (e.type = FileType.regular)) rest)).length + 1) := by
          omega
        rw [h2]
    · simp only [collect_port_files, hreg, if_false, List.filter_cons, decide_False]
      exact ih port_files entries h

theorem hash_port_files_spec (env : BuildEnv) (fs : Filesystem) (files : List Path) :
    ∀ (counter : Nat) (entries : List AbiEntry),
      hash_port_files env fs files counter entries =
        entries ++ (files.enumFrom counter).map (fun p =>
          { key := "file_" ++ format_03d p.1, value := env.get_file_hash fs p.2 }) := by
  induction files with
  | nil =>
    intro counter entries
    simp [hash_port_files]
  | cons f rest ih =>
    intro counter entries
    simp only [hash_port_files, ih, List.enumFrom_cons, List.map_cons, List.append_assoc,
      List.singleton_append]

theorem u8path_cmake : u8path "cmake" = ["cmake"] := by decide

theorem u8path_fixup :
    u8path "vcpkg_fixup_cmake_targets.cmake" = ["vcpkg_fixup_cmake_targets.cmake"] := by
  decide

theorem regular_files_eq (fs : Filesystem) (dir : Path) :
    ((fs.filter (fun e => dir.isPrefixOf e.path && decide (e.path ≠ dir))).filter
      (fun e => decide (e.type = FileType.regular))).map FileEntry.path =
      regular_files fs dir := by
  unfold regular_files
  rw [List.filter_filter]
  congr 1
  apply List.filter_congr
  intro e _
  simp only [Bool.and_comm]

/-- The entries of the ABI, when the port directory is given and is a directory: the
entries of the dependencies, the tool version, the entries of the port files, the helper
script, the triplet, the features and the head marker, sorted. -/
theorem abi_tag_entries_eq (env : BuildEnv) (paths : VcpkgPaths) (fs : Filesystem)
    (config : InstallPlanAction)
    (pre_build_info : PreBuildInfo) (dependency_abis : List AbiEntry) (dir : Path)
    (hdir : config.port_dir = some dir) (hisdir : fs.is_directory dir = true) :
    abi_tag_entries env paths fs config pre_build_info dependency_abis =
      Except.ok (Util.sort env.abi_entry_less
        (composed_entries env paths fs config pre_build_info dependency_abis
          (if (regular_files fs dir).length ≤ max_port_file_count then
            file_entries env fs (Util.sort Path.less (regular_files fs dir))
          else [{ key := "no_hash_max_portfile", value := "" }]))) := by
  unfold abi_tag_entries
  simp only [hdir, recursive_directory_iterator, hisdir, if_true, bind, Except.bind, pure,
    Except.pure]
  rw [collect_port_files_spec _ _ _ (by decide)]
  simp only [List.length_nil, Nat.zero_add, List.nil_append, regular_files_eq]
  by_cases hn : (regular_files fs dir).length ≤ max_port_file_count
  · simp only [hn, if_true, hash_port_files_spec, composed_entries, file_entries, List.enum,
      u8path_cmake, u8path_fixup, Strings.join, List.map_id, List.append_assoc]
    congr 2
    by_cases hh : config.build_options.use_head_version = UseHeadVersion.YES
    · simp [hh]
    · simp [hh]
  · have hlen : ((regular_files fs dir).take (max_port_file_count + 1)).length =
        max_port_file_count + 1 := by
      rw [List.length_take]
      omega
    simp only [hn, if_false, hlen, composed_entries,
      u8path_cmake, u8path_fixup, Strings.join, List.map_id, List.append_assoc]
    congr 2
    by_cases hh : config.build_options.use_head_version = UseHeadVersion.YES
    · simp [hh, hn]
    · simp [hh, hn]

theorem abi_tag_entries_no_port_dir (env : BuildEnv) (paths : VcpkgPaths) (fs : Filesystem)
    (config : InstallPlanAction)
    (pre_build_info : PreBuildInfo) (dependency_abis : List AbiEntry)
    (hdir : config.port_dir = none) :
    abi_tag_entries env paths fs config pre_build_info dependency_abis =
      Except.error (Failure.fatal (FatalError.check_failed "compute_abi_tag")) := by
  unfold abi_tag_entries
  simp only [hdir]
  rfl

theorem abi_tag_entries_no_directory (env : BuildEnv) (paths : VcpkgPaths) (fs : Filesystem)
    (config : InstallPlanAction)
    (pre_build_info : PreBuildInfo) (dependency_abis : List AbiEntry) (dir : Path)
    (hdir : config.port_dir = some dir) (hisdir : fs.is_directory dir = false) :
    abi_tag_entries env paths fs config pre_build_info dependency_abis =
      Except.error (Failure.fatal (FatalError.check_failed "recursive_directory_iterator")) := by
  unfold abi_tag_entries
  simp only [hdir, recursive_directory_iterator, hisdir, bind, Except.bind, pure, Except.pure]
  rfl

end Vcpkg

namespace Vcpkg

/-! ## Claims on the ABI tag -/

theorem composed_entries_perm (env : BuildEnv) (paths : VcpkgPaths) (fs : Filesystem)
    (config : InstallPlanAction)
    (pre_build_info : PreBuildInfo) (deps deps' port_file_entries : List AbiEntry)
    (hperm : deps.Perm deps') :
    (composed_entries env paths fs config pre_build_info deps
      port_file_entries).Perm
      (composed_entries env paths fs config pre_build_info deps'
        port_file_entries) := by
  unfold composed_entries
  exact (((hperm.append_right _).append_right _).append_right _).append_right _

theorem abi_tag_entries_perm (env : BuildEnv) (paths : VcpkgPaths) (fs : Filesystem)
    (config : InstallPlanAction)
    (pre_build_info : PreBuildInfo) (deps deps' : List AbiEntry)
    (horder : StrictTotalOrder env.abi_entry_less) (hperm : deps.Perm deps') :
    abi_tag_entries env paths fs config pre_build_info deps =
      abi_tag_entries env paths fs config pre_build_info deps' := by
  cases hdir : config.port_dir with
  | none => rw [abi_tag_entries_no_port_dir _ _ _ _ _ _ hdir,
      abi_tag_entries_no_port_dir _ _ _ _ _ _ hdir]
  | some dir =>
    cases hisdir : fs.is_directory dir with
    | false => rw [abi_tag_entries_no_directory _ _ _ _ _ _ dir hdir hisdir,
        abi_tag_entries_no_directory _ _ _ _ _ _ dir hdir hisdir]
    | true =>
      rw [abi_tag_entries_eq _ _ _ _ _ _ dir hdir hisdir,
        abi_tag_entries_eq _ _ _ _ _ _ dir hdir hisdir]
      exact congrArg Except.ok (sort_eq_of_perm _ horder _ _
        (composed_entries_perm _ _ _ _ _ _ _ _ hperm))

/-- C17 (ABI sort canonicalization): when the order of ABI entries is a strict total
order, a permutation of the ABI entries of the dependencies, everything else fixed, gives
the same sorted list of entries, the same text `full_abi_info` and the same result of
`compute_abi_tag`: the same tag, file and file system. -/
theorem abi_sort_canonical (env : BuildEnv) (paths : VcpkgPaths) (fs : Filesystem)
    (config : InstallPlanAction)
    (pre_build_info : PreBuildInfo) (deps deps' : List AbiEntry)
    (horder : StrictTotalOrder env.abi_entry_less) (hperm : deps.Perm deps') :
    abi_tag_entries env paths fs config pre_build_info deps =
        abi_tag_entries env paths fs config pre_build_info deps' ∧
      (abi_tag_entries env paths fs config pre_build_info deps).map
          full_abi_info =
        (abi_tag_entries env paths fs config pre_build_info deps').map
          full_abi_info ∧
      compute_abi_tag env paths fs config pre_build_info deps =
        compute_abi_tag env paths fs config pre_build_info deps' := by
  have h := abi_tag_entries_perm env paths fs config pre_build_info deps deps'
    horder hperm
  refine ⟨h, by rw [h], ?_⟩
  unfold compute_abi_tag
  rw [h]

set_option maxRecDepth 100000 in
theorem abi_sort_canonical_witness :
    compute_abi_tag scenario_build_env scenario_paths scenario_fs scenario_action
        scenario_pre_build_info
        [{ key := "openssl", value := "abi-openssl" }, { key := "zlib", value := "abi-zlib" }] =
      compute_abi_tag scenario_build_env scenario_paths scenario_fs scenario_action
        scenario_pre_build_info
        [{ key := "zlib", value := "abi-zlib" }, { key := "openssl", value := "abi-openssl" }] :=
  (abi_sort_canonical scenario_build_env scenario_paths scenario_fs scenario_action
    scenario_pre_build_info _ _ abi_entry_less_strict_total
    (List.Perm.swap _ _ _)).2.2

theorem format_03d_two_digits :
    ∀ i, i < 100 →
      format_03d i = String.mk ['0', Nat.digitChar (i / 10), Nat.digitChar (i % 10)] := by
  decide

/-- C19 (port-file entries of the ABI): for a port directory with at most 100 regular
files the entries that `compute_abi_tag` sorts are those of the dependencies, the tool
version, one entry per regular file (the files taken in ascending order of their paths, the
file number `i` with the key `file_` and the three digits of `i`, valued with the hash of
the file), the helper script, the triplet, the features and the head marker; with more
than 100 regular files the entry `no_hash_max_portfile` with an empty value stands in the
place of the entries of the files. -/
theorem port_file_entries_of_abi (env : BuildEnv) (paths : VcpkgPaths) (fs : Filesystem)
    (config : InstallPlanAction)
    (pre_build_info : PreBuildInfo) (deps : List AbiEntry) (dir : Path)
    (hdir : config.port_dir = some dir) (hisdir : fs.is_directory dir = true) :
    ((regular_files fs dir).length ≤ 100 →
        abi_tag_entries env paths fs config pre_build_info deps =
          Except.ok (Util.sort env.abi_entry_less
            (composed_entries env paths fs config pre_build_info deps
              (file_entries env fs (Util.sort Path.less (regular_files fs dir)))))) ∧
      (100 < (regular_files fs dir).length →
        abi_tag_entries env paths fs config pre_build_info deps =
          Except.ok (Util.sort env.abi_entry_less
            (composed_entries env paths fs config pre_build_info deps
              [{ key := "no_hash_max_portfile", value := "" }]))) ∧
      (Util.sort Path.less (regular_files fs dir)).Perm (regular_files fs dir) ∧
      (Util.sort Path.less (regular_files fs dir)).Sorted (fun a b => Path.less b a = false) ∧
      (file_entries env fs (Util.sort Path.less (regular_files fs dir))).length =
        (regular_files fs dir).length ∧
      (∀ (i : Nat) (h : i < (Util.sort Path.less (regular_files fs dir)).length),
        (file_entries env fs (Util.sort Path.less (regular_files fs dir))).get? i =
          some { key := "file_" ++ format_03d i,
                 value := env.get_file_hash fs
                   ((Util.sort Path.less (regular_files fs dir)).get ⟨i, h⟩) }) ∧
      ∀ i, i < 100 →
        format_03d i = String.mk ['0', Nat.digitChar (i / 10), Nat.digitChar (i % 10)] := by
  have h := abi_tag_entries_eq env paths fs config pre_build_info deps dir hdir
    hisdir
  refine ⟨?_, ?_, sort_perm _ _, sort_sorted _ path_less_strict_total _, ?_, ?_,
    format_03d_two_digits⟩
  · intro hn
    have hn' : (regular_files fs dir).length ≤ max_port_file_count := hn
    rw [h, if_pos hn']
  · intro hn
    have hn' : ¬ (regular_files fs dir).length ≤ max_port_file_count := Nat.not_le.2 hn
    rw [h, if_neg hn']
  · simp only [file_entries, List.length_map, List.enum_length]
    exact (sort_perm _ _).length_eq
  · intro i hi
    simp only [file_entries, List.get?_eq_getElem?, List.getElem?_map, List.enum,
      List.getElem?_enumFrom, List.getElem?_eq_getElem hi, Option.map_some', Nat.zero_add,
      List.get_eq_getElem]

set_option maxRecDepth 100000 in
theorem port_file_entries_of_abi_witness :
    abi_tag_entries scenario_build_env scenario_paths scenario_fs scenario_action
        scenario_pre_build_info scenario_dependency_abis =
      Except.ok
        [{ key := "cmake", value := "3.14.0" }, { key := "features", value := "core;ssl" },
         { key := "file_000", value := "sha1(Source: curl)" },
         { key := "file_001", value := "sha1(build)" },
         { key := "openssl", value := "abi-openssl" },
         { key := "triplet", value := "triplet-hash" },
         { key := "vcpkg_fixup_cmake_targets", value := "sha1(fixup)" },
         { key := "zlib", value := "abi-zlib" }] :=
  ((port_file_entries_of_abi scenario_build_env scenario_paths scenario_fs scenario_action
    scenario_pre_build_info scenario_dependency_abis ["vcpkg", "ports", "curl"]
    rfl (by decide)).1 (by decide)).trans (by decide)

end Vcpkg

namespace Vcpkg

/-! ## The missing-value rule of the ABI, and the paths of the cache -/

theorem read_write_contents (fs : Filesystem) (path : Path) (data : String) :
    (fs.write_contents path data).read_contents path = some data := by
  unfold Filesystem.read_contents Filesystem.write_contents
  rw [List.find?_append]
  have hnone : List.find? (fun e => decide (e.path = path ∧ e.type = FileType.regular))
      (List.filter (fun e => decide (e.path ≠ path)) fs) = none := by
    rw [List.find?_eq_none]
    intro e he
    have := (List.mem_filter.1 he).2
    simp only [decide_eq_true_eq] at this
    simp [this]
  rw [hnone]
  simp

theorem mem_composed_entries (env : BuildEnv) (paths : VcpkgPaths) (fs : Filesystem)
    (config : InstallPlanAction)
    (pre_build_info : PreBuildInfo) (deps port_file_entries : List AbiEntry) (e : AbiEntry) :
    e ∈ composed_entries env paths fs config pre_build_info deps
        port_file_entries ↔
      e ∈ deps ∨ e = { key := "cmake", value := paths.get_tool_version Tools.CMAKE } ∨
        e ∈ port_file_entries ∨
        e = { key := "vcpkg_fixup_cmake_targets",
              value := env.get_file_hash fs
                (paths.scripts ++ ["cmake"] ++ ["vcpkg_fixup_cmake_targets.cmake"]) } ∨
        e = { key := "triplet", value := pre_build_info.triplet_abi_tag } ∨
        e = { key := "features", value := ";".intercalate config.feature_list } ∨
        (config.build_options.use_head_version = UseHeadVersion.YES ∧
          e = { key := "head", value := "" }) := by
  unfold composed_entries
  by_cases hh : config.build_options.use_head_version = UseHeadVersion.YES
  · simp [hh, or_assoc]
  · simp [hh, or_assoc]

/-- When the entries are composed, the port directory is given and is a directory. -/
theorem abi_tag_entries_ok (env : BuildEnv) (paths : VcpkgPaths) (fs : Filesystem)
    (config : InstallPlanAction)
    (pre_build_info : PreBuildInfo) (deps entries : List AbiEntry)
    (h : abi_tag_entries env paths fs config pre_build_info deps =
      Except.ok entries) :
    ∃ dir, config.port_dir = some dir ∧ fs.is_directory dir = true ∧
      entries = Util.sort env.abi_entry_less
        (composed_entries env paths fs config pre_build_info deps
          (if (regular_files fs dir).length ≤ max_port_file_count then
            file_entries env fs (Util.sort Path.less (regular_files fs dir))
          else [{ key := "no_hash_max_portfile", value := "" }])) := by
  cases hdir : config.port_dir with
  | none =>
    rw [abi_tag_entries_no_port_dir _ _ _ _ _ _ hdir] at h
    cases h
  | some dir =>
    cases hisdir : fs.is_directory dir with
    | false =>
      rw [abi_tag_entries_no_directory _ _ _ _ _ _ dir hdir hisdir] at h
      cases h
    | true =>
      rw [abi_tag_entries_eq _ _ _ _ _ _ dir hdir hisdir] at h
      exact ⟨dir, rfl, hisdir, (Except.ok.inj h).symm⟩

theorem compute_abi_tag_missing (env : BuildEnv) (paths : VcpkgPaths) (fs : Filesystem)
    (config : InstallPlanAction)
    (pre_build_info : PreBuildInfo) (deps entries : List AbiEntry) (scf : SourceControlFile)
    (hscf : config.build_action = some scf)
    (hcaching : config.build_options.binary_caching = BinaryCaching.YES)
    (hentries : abi_tag_entries env paths fs config pre_build_info deps =
      Except.ok entries)
    (e : AbiEntry) (he : e ∈ entries) (hempty : e.value = "") :
    compute_abi_tag env paths fs config pre_build_info deps =
      Except.ok (none, fs) := by
  have hne : (entries.filter (fun p => decide (p.value = ""))).isEmpty = false := by
    cases hf : entries.filter (fun p => decide (p.value = "")) with
    | nil =>
      have := List.filter_eq_nil_iff.1 hf e he
      simp [hempty] at this
    | cons x xs => rfl
  simp only [compute_abi_tag, hscf, hcaching, hentries, bind, Except.bind, pure, Except.pure,
    hne]
  rfl

/-- C18 (ABI missing-value rule): with binary caching enabled and the entries composed,
`compute_abi_tag` returns null when some entry whatsoever has an empty value, the entries
`head` and `no_hash_max_portfile` included: so it does when the head version is requested,
when the port directory has more than 100 regular files, and when the ABI of a dependency
is empty.  When no entry has an empty value it writes the text of the entries to the ABI
file and returns the hash of that file with its path. -/
theorem abi_missing_value_rule (env : BuildEnv) (paths : VcpkgPaths) (fs : Filesystem)
    (config : InstallPlanAction)
    (pre_build_info : PreBuildInfo) (deps entries : List AbiEntry) (scf : SourceControlFile)
    (hscf : config.build_action = some scf)
    (hcaching : config.build_options.binary_caching = BinaryCaching.YES)
    (hentries : abi_tag_entries env paths fs config pre_build_info deps =
      Except.ok entries) :
    ((∃ e ∈ entries, e.value = "") →
        compute_abi_tag env paths fs config pre_build_info deps =
          Except.ok (none, fs)) ∧
      ((∀ e ∈ entries, e.value ≠ "") →
        compute_abi_tag env paths fs config pre_build_info deps =
          Except.ok
            (some
              { tag := env.get_file_hash
                  ((fs.create_directories (paths.buildtrees ++ u8path scf.core_paragraph.name)
                    ).write_contents
                    (abi_file_path paths scf.core_paragraph.name config.spec.triplet)
                    (full_abi_info entries))
                  (abi_file_path paths scf.core_paragraph.name config.spec.triplet)
                tag_file := abi_file_path paths scf.core_paragraph.name config.spec.triplet },
              (fs.create_directories (paths.buildtrees ++ u8path scf.core_paragraph.name)
                ).write_contents
                (abi_file_path paths scf.core_paragraph.name config.spec.triplet)
                (full_abi_info entries)) ∧
          ((fs.create_directories (paths.buildtrees ++ u8path scf.core_paragraph.name)
            ).write_contents
            (abi_file_path paths scf.core_paragraph.name config.spec.triplet)
            (full_abi_info entries)).read_contents
            (abi_file_path paths scf.core_paragraph.name config.spec.triplet) =
              some (full_abi_info entries)) ∧
      (config.build_options.use_head_version = UseHeadVersion.YES →
        { key := "head", value := "" } ∈ entries ∧
          compute_abi_tag env paths fs config pre_build_info deps =
            Except.ok (none, fs)) ∧
      (∀ dir, config.port_dir = some dir → 100 < (regular_files fs dir).length →
        { key := "no_hash_max_portfile", value := "" } ∈ entries ∧
          compute_abi_tag env paths fs config pre_build_info deps =
            Except.ok (none, fs)) ∧
      ((∃ d ∈ deps, d.value = "") →
        compute_abi_tag env paths fs config pre_build_info deps =
          Except.ok (none, fs)) := by
  obtain ⟨dir, hdir, hisdir, hsorted⟩ := abi_tag_entries_ok _ _ _ _ _ _ _ hentries
  have hmem : ∀ e, e ∈ entries ↔ e ∈ composed_entries env paths fs config pre_build_info deps
      (if (regular_files fs dir).length ≤ max_port_file_count then
        file_entries env fs (Util.sort Path.less (regular_files fs dir))
      else [{ key := "no_hash_max_portfile", value := "" }]) := by
    intro e
    rw [hsorted, mem_sort]
  refine ⟨?_, ?_, ?_, ?_, ?_⟩
  · rintro ⟨e, he, hempty⟩
    exact compute_abi_tag_missing _ _ _ _ _ _ _ _ hscf hcaching hentries e he hempty
  · intro hall
    have hnil : (entries.filter (fun p => decide (p.value = ""))).isEmpty = true := by
      rw [List.isEmpty_iff, List.filter_eq_nil_iff]
      intro e he
      simpa using hall e he
    refine ⟨?_, read_write_contents _ _ _⟩
    simp only [compute_abi_tag, hscf, hcaching, hentries, bind, Except.bind, pure,
      Except.pure, hnil]
    rfl
  · intro hhead
    have he : ({ key := "head", value := "" } : AbiEntry) ∈ entries := by
      rw [hmem, mem_composed_entries]
      exact Or.inr (Or.inr (Or.inr (Or.inr (Or.inr (Or.inr ⟨hhead, rfl⟩)))))
    exact ⟨he, compute_abi_tag_missing _ _ _ _ _ _ _ _ hscf hcaching hentries _ he rfl⟩
  · intro dir' hdir' hn
    have hd : dir' = dir := by
      rw [hdir] at hdir'
      exact (Option.some.inj hdir').symm
    subst hd
    have hn' : ¬ (regular_files fs dir').length ≤ max_port_file_count := Nat.not_le.2 hn
    have he : ({ key := "no_hash_max_portfile", value := "" } : AbiEntry) ∈ entries := by
      rw [hmem, mem_composed_entries, if_neg hn']
      exact Or.inr (Or.inr (Or.inl (List.mem_singleton.2 rfl)))
    exact ⟨he, compute_abi_tag_missing _ _ _ _ _ _ _ _ hscf hcaching hentries _ he rfl⟩
  · rintro ⟨d, hd, hempty⟩
    have he : d ∈ entries := by
      rw [hmem, mem_composed_entries]
      exact Or.inl hd
    exact compute_abi_tag_missing _ _ _ _ _ _ _ _ hscf hcaching hentries d he hempty

set_option maxRecDepth 100000 in
theorem abi_missing_value_rule_witness :
    compute_abi_tag scenario_build_env scenario_paths scenario_fs scenario_action
        scenario_pre_build_info scenario_dependency_abis =
      Except.ok
        (some
          { tag := "sha1(cmake 3.14.0\nfeatures core;ssl\nfile_000 sha1(Source: curl)\n" ++
              "file_001 sha1(build)\nopenssl abi-openssl\ntriplet triplet-hash\n" ++
              "vcpkg_fixup_cmake_targets sha1(fixup)\nzlib abi-zlib\n)"
            tag_file := ["vcpkg", "buildtrees", "curl", "x64-linux.vcpkg_abi_info.txt"] },
          (scenario_fs.create_directories ["vcpkg", "buildtrees", "curl"]).write_contents
            ["vcpkg", "buildtrees", "curl", "x64-linux.vcpkg_abi_info.txt"]
            ("cmake 3.14.0\nfeatures core;ssl\nfile_000 sha1(Source: curl)\n" ++
              "file_001 sha1(build)\nopenssl abi-openssl\ntriplet triplet-hash\n" ++
              "vcpkg_fixup_cmake_targets sha1(fixup)\nzlib abi-zlib\n")) :=
  (((abi_missing_value_rule scenario_build_env scenario_paths scenario_fs scenario_action
    scenario_pre_build_info scenario_dependency_abis
    [{ key := "cmake", value := "3.14.0" }, { key := "features", value := "core;ssl" },
     { key := "file_000", value := "sha1(Source: curl)" },
     { key := "file_001", value := "sha1(build)" },
     { key := "openssl", value := "abi-openssl" },
     { key := "triplet", value := "triplet-hash" },
     { key := "vcpkg_fixup_cmake_targets", value := "sha1(fixup)" },
     { key := "zlib", value := "abi-zlib" }]
    (make_port "curl" ["zlib"] [] [("ssl", ["openssl"])]) rfl rfl (by decide)).2.1
    (by decide)).1).trans (by decide)

set_option maxRecDepth 100000 in
/-- A build at the head version in which every entry other than `head` has a value:
`compute_abi_tag` returns null and writes no file. -/
theorem abi_head_version_counterexample :
    scenario_head_action.build_options.binary_caching = BinaryCaching.YES ∧
      scenario_head_action.build_options.use_head_version = UseHeadVersion.YES ∧
      abi_tag_entries scenario_build_env scenario_paths scenario_fs scenario_head_action
          scenario_pre_build_info scenario_dependency_abis =
        Except.ok
          [{ key := "cmake", value := "3.14.0" }, { key := "features", value := "core;ssl" },
           { key := "file_000", value := "sha1(Source: curl)" },
           { key := "file_001", value := "sha1(build)" },
           { key := "head", value := "" },
           { key := "openssl", value := "abi-openssl" },
           { key := "triplet", value := "triplet-hash" },
           { key := "vcpkg_fixup_cmake_targets", value := "sha1(fixup)" },
           { key := "zlib", value := "abi-zlib" }] ∧
      compute_abi_tag scenario_build_env scenario_paths scenario_fs scenario_head_action
          scenario_pre_build_info scenario_dependency_abis =
        Except.ok (none, scenario_fs) := by
  decide

/-! ## The paths of the cache -/

theorem path_components_no_separator (s : List Char) :
    ∀ (cur : List Char), (∀ c ∈ s, c ≠ '/') →
      path_components cur s =
        if cur.reverse ++ s = [] then [] else [String.mk (cur.reverse ++ s)] := by
  induction s with
  | nil =>
    intro cur _
    simp [path_components]
  | cons c cs ih =>
    intro cur h
    have hc : c ≠ '/' := h c (List.mem_cons_self _ _)
    simp only [path_components, hc, if_false]
    rw [ih (c :: cur) (fun x hx => h x (List.mem_cons_of_mem _ hx))]
    simp

/-- A text without directory separator is a path of one component. -/
theorem u8path_of_no_separator (s : String) (hne : s.data ≠ [])
    (h : ∀ c ∈ s.data, c ≠ '/') : u8path s = [s] := by
  unfold u8path
  rw [path_components_no_separator _ _ h]
  simp [hne]

/-- C20 (cache identity paths): for a tag of length at least 2 without directory
separator, the archive is `<root>/archives/<T[0:2]>/<T>.zip` and the tombstone is
`<root>/archives/fail/<T[0:2]>/<T>.zip`; for both the file name is the tag followed by
`.zip` and the name of the parent directory is the first two characters of the tag. -/
theorem cache_identity_paths (paths : VcpkgPaths) (tag : String) (hlen : 2 ≤ tag.length)
    (hsep : ∀ c ∈ tag.data, c ≠ '/') :
    archive_path paths tag = paths.root ++ ["archives", substr tag 0 2, tag ++ ".zip"] ∧
      archive_tombstone_path paths tag =
        paths.root ++ ["archives", "fail", substr tag 0 2, tag ++ ".zip"] ∧
      (archive_path paths tag).filename = tag ++ ".zip" ∧
      (archive_path paths tag).parent_path.filename = substr tag 0 2 ∧
      (archive_tombstone_path paths tag).filename = tag ++ ".zip" ∧
      (archive_tombstone_path paths tag).parent_path.filename = substr tag 0 2 ∧
      (substr tag 0 2).data = tag.data.take 2 ∧ (substr tag 0 2).length = 2 := by
  have hlen' : 2 ≤ tag.data.length := hlen
  have hsub : u8path (substr tag 0 2) = [substr tag 0 2] := by
    apply u8path_of_no_separator
    · show (tag.data.drop 0).take 2 ≠ []
      intro h
      have := congrArg List.length h
      simp only [List.drop_zero, List.length_take, List.length_nil] at this
      omega
    · intro c hc
      exact hsep c (List.mem_of_mem_take hc)
  have hname : u8path (archive_name tag) = [tag ++ ".zip"] := by
    apply u8path_of_no_separator
    · show tag.data ++ ".zip".data ≠ []
      simp
    · intro c hc
      have hc' : c ∈ tag.data ++ ".zip".data := hc
      rcases List.mem_append.1 hc' with h | h
      · exact hsep c h
      · intro he
        subst he
        revert h
        decide
  have harch : u8path "archives" = ["archives"] := by decide
  have hfail : u8path "fail" = ["fail"] := by decide
  have h1 : archive_path paths tag =
      paths.root ++ ["archives", substr tag 0 2, tag ++ ".zip"] := by
    simp [archive_path, archives_root_dir, archive_subpath, hsub, hname, harch]
  have h2 : archive_tombstone_path paths tag =
      paths.root ++ ["archives", "fail", substr tag 0 2, tag ++ ".zip"] := by
    simp [archive_tombstone_path, archives_root_dir, archive_subpath, hsub, hname, harch, hfail]
  refine ⟨h1, h2, ?_, ?_, ?_, ?_, rfl, ?_⟩
  · rw [h1]
    simp [Path.filename, List.getLast?_append]
  · rw [h1]
    have : paths.root ++ ["archives", substr tag 0 2, tag ++ ".zip"] =
        (paths.root ++ ["archives", substr tag 0 2]) ++ [tag ++ ".zip"] := by simp
    rw [Path.parent_path, this, List.dropLast_concat]
    simp [Path.filename, List.getLast?_append]
  · rw [h2]
    simp [Path.filename, List.getLast?_append]
  · rw [h2]
    have : paths.root ++ ["archives", "fail", substr tag 0 2, tag ++ ".zip"] =
        (paths.root ++ ["archives", "fail", substr tag 0 2]) ++ [tag ++ ".zip"] := by simp
    rw [Path.parent_path, this, List.dropLast_concat]
    simp [Path.filename, List.getLast?_append]
  · show ((tag.data.drop 0).take 2).length = 2
    simp only [List.drop_zero, List.length_take]
    omega

theorem cache_identity_paths_witness :
    archive_path scenario_paths "abcdef0123" = ["vcpkg", "archives", "ab", "abcdef0123.zip"] ∧
      archive_tombstone_path scenario_paths "abcdef0123" =
        ["vcpkg", "archives", "fail", "ab", "abcdef0123.zip"] :=
  ⟨(cache_identity_paths scenario_paths "abcdef0123" (by decide) (by decide)).1,
    (cache_identity_paths scenario_paths "abcdef0123" (by decide) (by decide)).2.1⟩

end Vcpkg

namespace Vcpkg

/-! ## The job queue -/

theorem proc_bind_eq {σ α β : Type} (x : Proc σ α) (f : α → Proc σ β) (s : σ) :
    (x >>= f) s = Proc.bind x f s := rfl

theorem proc_bind_ok {σ α β : Type} (x : Proc σ α) (f : α → Proc σ β) (s s' : σ) (a : α)
    (h : x s = (Except.ok a, s')) : Proc.bind x f s = f a s' := by
  unfold Proc.bind
  rw [h]

theorem proc_bind_error {σ α β : Type} (x : Proc σ α) (f : α → Proc σ β) (s s' : σ)
    (e : Failure) (h : x s = (Except.error e, s')) :
    Proc.bind x f s = (Except.error e, s') := by
  unfold Proc.bind
  rw [h]

/-- A loop whose body returns and keeps a property of the state returns and keeps it. -/
theorem proc_for_each_keeps {σ α : Type} (P : σ → Prop) (body : α → Proc σ Unit)
    (xs : List α)
    (hbody : ∀ x ∈ xs, ∀ s, P s → (body x s).1 = Except.ok () ∧ P (body x s).2) :
    ∀ s, P s → (Proc.for_each xs body s).1 = Except.ok () ∧ P (Proc.for_each xs body s).2 := by
  induction xs with
  | nil =>
    intro s hs
    exact ⟨rfl, hs⟩
  | cons x rest ih =>
    intro s hs
    obtain ⟨h1, h2⟩ := hbody x (List.mem_cons_self _ _) s hs
    have hx : body x s = (Except.ok (), (body x s).2) := by
      rw [← h1]
    show (Proc.bind (body x) (fun _ => Proc.for_each rest body) s).1 = _ ∧
      P (Proc.bind (body x) (fun _ => Proc.for_each rest body) s).2
    rw [proc_bind_ok _ _ _ _ _ hx]
    exact ih (fun y hy => hbody y (List.mem_cons_of_mem _ hy)) _ h2

/-- While the queue is draining, the end of a task changes nothing. -/
theorem task_done_draining (i : Nat) (w : World)
    (h : w.queue.m_join_all_in_progress = true) : Jobs.task_done i w = (Except.ok (), w) := by
  simp [Jobs.task_done, Proc.modify, h]

/-- While the queue is draining, the wait for a future prints one line and leaves the
queue, the file system and the commands as they are. -/
theorem join_one_draining (ending : List Nat) (i : Nat) (q : Queue) (w : World)
    (hq : w.queue = q) (hdraining : q.m_join_all_in_progress = true)
    (hd : i < q.m_descriptions.length) (hc : i < q.m_completions.length) :
    (Jobs.join_one ending i w).1 = Except.ok () ∧
      ((Jobs.join_one ending i w).2.queue = q ∧ (Jobs.join_one ending i w).2.fs = w.fs ∧
        (Jobs.join_one ending i w).2.commands = w.commands) := by
  subst hq
  have hloop : ∀ w' : World, (w'.queue = w.queue ∧ w'.fs = w.fs ∧ w'.commands = w.commands) →
      (Proc.for_each ending Jobs.task_done w').1 = Except.ok () ∧
        ((Proc.for_each ending Jobs.task_done w').2.queue = w.queue ∧
          (Proc.for_each ending Jobs.task_done w').2.fs = w.fs ∧
          (Proc.for_each ending Jobs.task_done w').2.commands = w.commands) := by
    apply proc_for_each_keeps
      (fun w' : World => w'.queue = w.queue ∧ w'.fs = w.fs ∧ w'.commands = w.commands)
    intro j _ s hs
    rw [task_done_draining j s (by rw [hs.1]; exact hdraining)]
    exact ⟨rfl, hs⟩
  obtain ⟨c, hc'⟩ : ∃ c, w.queue.m_completions.get? i = some c :=
    ⟨_, List.get?_eq_get hc⟩
  obtain ⟨d, hd'⟩ : ∃ d, w.queue.m_descriptions.get? i = some d :=
    ⟨_, List.get?_eq_get hd⟩
  cases c with
  | true =>
    have : Jobs.join_one ending i w = Proc.for_each ending Jobs.task_done
        { w with debug_printed :=
          w.debug_printed ++ ["Waiting for background task: " ++ d ++ "\n"] } := by
      simp only [Jobs.join_one, proc_bind_eq, Proc.bind, Proc.get, hc', hd', if_true,
        Debug.print, Proc.modify]
    rw [this]
    exact hloop _ ⟨rfl, rfl, rfl⟩
  | false =>
    have : Jobs.join_one ending i w = Proc.for_each ending Jobs.task_done
        { w with printed := w.printed ++ ["Waiting for background task: " ++ d ++ "\n"] } := by
      simp only [Jobs.join_one, proc_bind_eq, Proc.bind, Proc.get, hc', hd', print2,
        Proc.modify]
      rfl
    rw [this]
    exact hloop _ ⟨rfl, rfl, rfl⟩

/-- C26 (queue drain): a call of `join_all` on a queue that is not draining and whose three
vectors have one length returns, whatever tasks end while it waits, and leaves the futures,
the descriptions and the completions empty and the queue not draining; the file system and
the commands executed are as before. -/
theorem queue_drain (ending : Nat → List Nat) (w : World)
    (hidle : w.queue.m_join_all_in_progress = false)
    (hd : w.queue.m_descriptions.length = w.queue.m_futures.length)
    (hc : w.queue.m_completions.length = w.queue.m_futures.length) :
    (Jobs.join_all ending w).1 = Except.ok () ∧
      (Jobs.join_all ending w).2.queue.m_futures = [] ∧
      (Jobs.join_all ending w).2.queue.m_descriptions = [] ∧
      (Jobs.join_all ending w).2.queue.m_completions = [] ∧
      (Jobs.join_all ending w).2.queue.m_join_all_in_progress = false ∧
      (Jobs.join_all ending w).2.fs = w.fs ∧
      (Jobs.join_all ending w).2.commands = w.commands := by
  have hloop := proc_for_each_keeps
    (fun w' : World => w'.queue = { w.queue with m_join_all_in_progress := true } ∧
      w'.fs = w.fs ∧ w'.commands = w.commands)
    (fun i => Jobs.join_one (ending i) i) (List.range w.queue.m_futures.length)
    (fun i hi s hs => by
      have hi' : i < w.queue.m_futures.length := List.mem_range.1 hi
      have h := join_one_draining (ending i) i { w.queue with m_join_all_in_progress := true }
        s hs.1 rfl (by rw [← hd] at hi'; exact hi') (by rw [← hc] at hi'; exact hi')
      exact ⟨h.1, h.2.1, h.2.2.1.trans hs.2.1, h.2.2.2.trans hs.2.2⟩)
    { w with queue := { w.queue with m_join_all_in_progress := true } } ⟨rfl, rfl, rfl⟩
  obtain ⟨h1, h2, h3, h4⟩ := hloop
  have hrun : Jobs.join_all ending w =
      Proc.bind (Proc.for_each (List.range w.queue.m_futures.length)
        (fun i => Jobs.join_one (ending i) i))
        (fun _ => Proc.modify (fun w => { w with queue :=
          { w.queue with
            m_join_all_in_progress := false, m_futures := [], m_descriptions := []
            m_completions := [] } }))
        { w with queue := { w.queue with m_join_all_in_progress := true } } := by
    simp only [Jobs.join_all, proc_bind_eq, Proc.bind, Proc.get, hidle, Proc.modify,
      Bool.false_eq_true, if_false]
  have hx : Proc.for_each (List.range w.queue.m_futures.length)
      (fun i => Jobs.join_one (ending i) i)
      { w with queue := { w.queue with m_join_all_in_progress := true } } =
      (Except.ok (), (Proc.for_each (List.range w.queue.m_futures.length)
        (fun i => Jobs.join_one (ending i) i)
        { w with queue := { w.queue with m_join_all_in_progress := true } }).2) := by
    rw [← h1]
  rw [hrun, proc_bind_ok _ _ _ _ _ hx]
  exact ⟨rfl, rfl, rfl, rfl, rfl, h3, h4⟩

theorem queue_drain_witness :
    (Jobs.join_all (fun _ => [0, 1]) scenario_queue_world).1 = Except.ok () ∧
      (Jobs.join_all (fun _ => [0, 1]) scenario_queue_world).2.queue.m_futures = [] ∧
      (Jobs.join_all (fun _ => [0, 1]) scenario_queue_world).2.queue.m_descriptions = [] ∧
      (Jobs.join_all (fun _ => [0, 1]) scenario_queue_world).2.queue.m_completions = [] ∧
      (Jobs.join_all (fun _ => [0, 1])
        scenario_queue_world).2.queue.m_join_all_in_progress = false ∧
      (Jobs.join_all (fun _ => [0, 1]) scenario_queue_world).2.fs = scenario_queue_world.fs ∧
      (Jobs.join_all (fun _ => [0, 1]) scenario_queue_world).2.commands =
        scenario_queue_world.commands :=
  queue_drain (fun _ => [0, 1]) scenario_queue_world rfl rfl rfl

/-- C27 (queue safety): while the queue is draining, `post` and `join_all` exit and leave
the state as it is; while it is not, `post` returns and adds one element to each of the
three vectors: the description, a completion slot `false`, and the future of the task
with the number of futures before the call, so that equal lengths stay equal. -/
theorem queue_safety (f : Task) (description : String) (ending : Nat → List Nat)
    (w : World) :
    (w.queue.m_join_all_in_progress = true →
      Jobs.post f description w =
          (Except.error (Failure.fatal
            (FatalError.exit_with_message "Attempted to post job to queue while draining.")),
            w) ∧
        Jobs.join_all ending w =
          (Except.error (Failure.fatal
            (FatalError.exit_with_message "Attempted to drain queue while draining.")), w)) ∧
      (w.queue.m_join_all_in_progress = false →
        Jobs.post f description w =
          (Except.ok (),
            { w with queue :=
              { w.queue with
                m_descriptions := w.queue.m_descriptions ++ [description]
                m_completions := w.queue.m_completions ++ [false]
                m_futures :=
                  w.queue.m_futures ++ [{ f := f, i := w.queue.m_futures.length }] } }) ∧
        (Jobs.post f description w).2.queue.m_futures.length =
          w.queue.m_futures.length + 1 ∧
        (Jobs.post f description w).2.queue.m_descriptions.length =
          w.queue.m_descriptions.length + 1 ∧
        (Jobs.post f description w).2.queue.m_completions.length =
          w.queue.m_completions.length + 1 ∧
        (Jobs.post f description w).2.queue.m_join_all_in_progress = false ∧
        (w.queue.m_descriptions.length = w.queue.m_futures.length →
          w.queue.m_completions.length = w.queue.m_futures.length →
          (Jobs.post f description w).2.queue.m_descriptions.length =
              (Jobs.post f description w).2.queue.m_futures.length ∧
            (Jobs.post f description w).2.queue.m_completions.length =
              (Jobs.post f description w).2.queue.m_futures.length)) := by
  constructor
  · intro h
    constructor
    · simp only [Jobs.post, proc_bind_eq, Proc.bind, Proc.get, h, if_true, Proc.exit]
    · simp only [Jobs.join_all, proc_bind_eq, Proc.bind, Proc.get, h, if_true, Proc.exit]
  · intro h
    have hrun : Jobs.post f description w =
        (Except.ok (),
          { w with queue :=
            { w.queue with
              m_descriptions := w.queue.m_descriptions ++ [description]
              m_completions := w.queue.m_completions ++ [false]
              m_futures :=
                w.queue.m_futures ++ [{ f := f, i := w.queue.m_futures.length }] } }) := by
      simp only [Jobs.post, proc_bind_eq, Proc.bind, Proc.get, h, Proc.modify,
        Bool.false_eq_true, if_false]
    rw [hrun]
    refine ⟨rfl, by simp, by simp, by simp, h, ?_⟩
    intro hd hc
    simp [hd, hc]

end Vcpkg

namespace Vcpkg

/-! ## The gate of `print_plan` -/

theorem proc_bind_ok_fst {σ α β : Type} (x : Proc σ α) (f : α → Proc σ β) (s : σ) (a : α)
    (h : (x s).1 = Except.ok a) : Proc.bind x f s = f a (x s).2 :=
  proc_bind_ok x f s (x s).2 a (by rw [← h])

theorem proc_seq_ok_fst {σ α β : Type} (x : Proc σ α) (f : α → Proc σ β) (s : σ) (a : α)
    (h : (x s).1 = Except.ok a) : (x >>= f) s = f a (x s).2 :=
  proc_bind_ok_fst x f s a h

theorem mem_append_singleton_all {α : Type} (Q : α → Prop) (l : List α) (x : α)
    (hl : ∀ a ∈ l, Q a) (hx : Q x) : ∀ a ∈ l ++ [x], Q a := by
  intro a ha
  rcases List.mem_append.1 ha with h | h
  · exact hl a h
  · rw [List.mem_singleton.1 h]
    exact hx

/-- The loop of `print_plan` over a plan whose install actions have a known plan type runs
to its end: the remove actions are collected in their order, and the install actions in the
lists are actions of the plan. -/
theorem print_plan_classify_fold (Q : InstallPlanAction → Prop) (xs : List AnyAction) :
    ∀ (acc : PlanLists), acc.All Q →
      (∀ a, AnyAction.install_action a ∈ xs → a.plan_type ≠ InstallPlanType.UNKNOWN ∧ Q a) →
      ∃ lists, xs.foldlM print_plan_classify acc = Except.ok lists ∧ lists.All Q ∧
        (lists.remove_plans = [] ↔
          acc.remove_plans = [] ∧ ∀ r, AnyAction.remove_action r ∉ xs) := by
  induction xs with
  | nil =>
    intro acc hacc _
    exact ⟨acc, rfl, hacc, by simp⟩
  | cons x rest ih =>
    intro acc hacc hxs
    have hrest : ∀ a, AnyAction.install_action a ∈ rest →
        a.plan_type ≠ InstallPlanType.UNKNOWN ∧ Q a :=
      fun a ha => hxs a (List.mem_cons_of_mem _ ha)
    cases x with
    | remove_action r =>
      obtain ⟨lists, h1, h2, h3⟩ :=
        ih { acc with remove_plans := acc.remove_plans ++ [r] } hacc hrest
      refine ⟨lists, ?_, h2, ?_⟩
      · rw [List.foldlM_cons]
        exact h1
      · rw [h3]
        constructor
        · intro h
          exact absurd h.1 (by simp)
        · intro h
          exact absurd (List.mem_cons_self _ _) (h.2 r)
    | install_action a =>
      obtain ⟨hty, hq⟩ := hxs a (List.mem_cons_self _ _)
      obtain ⟨h1, h2, h3, h4, h5⟩ := hacc
      have hstep : ∃ acc', print_plan_classify acc (AnyAction.install_action a) =
          Except.ok acc' ∧ acc'.All Q ∧ acc'.remove_plans = acc.remove_plans := by
        unfold print_plan_classify
        by_cases hre : acc.remove_plans.any (fun plan => decide (plan.spec = a.spec)) = true
        · simp only [hre, if_true]
          exact ⟨_, rfl, ⟨mem_append_singleton_all Q _ _ h1 hq, h2, h3, h4, h5⟩, rfl⟩
        · simp only [hre]
          cases hpt : a.plan_type with
          | UNKNOWN => exact absurd hpt hty
          | BUILD_AND_INSTALL =>
            exact ⟨_, rfl, ⟨h1, h2, mem_append_singleton_all Q _ _ h3 hq, h4, h5⟩, rfl⟩
          | ALREADY_INSTALLED =>
            by_cases hrt : a.request_type = RequestType.USER_REQUESTED
            · simp only [hrt, if_true]
              exact ⟨_, rfl, ⟨h1, h2, h3, mem_append_singleton_all Q _ _ h4 hq, h5⟩, rfl⟩
            · simp only [hrt, if_false]
              exact ⟨_, rfl, ⟨h1, h2, h3, h4, h5⟩, rfl⟩
          | EXCLUDED =>
            exact ⟨_, rfl, ⟨h1, h2, h3, h4, mem_append_singleton_all Q _ _ h5 hq⟩, rfl⟩
      obtain ⟨acc', hs1, hs2, hs3⟩ := hstep
      obtain ⟨lists, hl1, hl2, hl3⟩ := ih acc' hs2 hrest
      refine ⟨lists, ?_, hl2, ?_⟩
      · rw [List.foldlM_cons, hs1]
        exact hl1
      · rw [hl3, hs3]
        constructor
        · rintro ⟨ha, hr⟩
          refine ⟨ha, fun r hmem => ?_⟩
          rcases List.mem_cons.1 hmem with h | h
          · cases h
          · exact hr r h
        · rintro ⟨ha, hr⟩
          exact ⟨ha, fun r hmem => hr r (List.mem_cons_of_mem _ hmem)⟩

theorem actions_to_output_string_ok (v : List InstallPlanAction)
    (h : ∀ a ∈ v, a.request_type ≠ RequestType.UNKNOWN) :
    ∃ text, actions_to_output_string v = Except.ok text := by
  have hmap : ∃ lines, v.mapM (fun p =>
      to_output_string p.request_type p.displayname p.build_options) = Except.ok lines := by
    induction v with
    | nil => exact ⟨[], rfl⟩
    | cons a rest ih =>
      obtain ⟨lines, hl⟩ := ih (fun b hb => h b (List.mem_cons_of_mem _ hb))
      have ha := h a (List.mem_cons_self _ _)
      have hline : ∃ line, to_output_string a.request_type a.displayname a.build_options =
          Except.ok line := by
        unfold to_output_string
        cases hrt : a.request_type with
        | UNKNOWN => exact absurd hrt ha
        | USER_REQUESTED => exact ⟨_, rfl⟩
        | AUTO_SELECTED => exact ⟨_, rfl⟩
      obtain ⟨line, hline⟩ := hline
      refine ⟨line :: lines, ?_⟩
      rw [List.mapM_cons, hline, hl]
      rfl
  obtain ⟨lines, hl⟩ := hmap
  refine ⟨"\n".intercalate lines, ?_⟩
  unfold actions_to_output_string
  rw [hl]
  rfl

/-- A section of the text is printed without an exit when no request type is unknown. -/
theorem print_plan_section_ok (header : String) (v : List InstallPlanAction)
    (h : ∀ a ∈ v, a.request_type ≠ RequestType.UNKNOWN) (w : World) :
    (print_plan_section header v w).1 = Except.ok () := by
  unfold print_plan_section
  by_cases he : v.isEmpty = true
  · simp only [he, if_true]
    rfl
  · obtain ⟨text, ht⟩ := actions_to_output_string_ok v h
    simp only [he, ht]
    rfl

theorem sort_is_empty {α : Type} (less : α → α → Bool) (xs : List α) :
    (Util.sort less xs).isEmpty = xs.isEmpty := by
  have h := (sort_perm less xs).length_eq
  cases xs with
  | nil =>
    cases hs : Util.sort less [] with
    | nil => rfl
    | cons y ys => rw [hs] at h; simp at h
  | cons x rest =>
    cases hs : Util.sort less (x :: rest) with
    | nil => rw [hs] at h; simp at h
    | cons y ys => rfl

/-- C28 (recursive opt-in gate): for a plan whose install actions have a plan type other
than `UNKNOWN` and a request type other than `UNKNOWN`, `print_plan` exits with
`Checks::exit_fail` when the plan contains a remove action and `is_recursive` is false, and
returns otherwise. -/
theorem recursive_opt_in_gate (action_plan : List AnyAction) (is_recursive : Bool)
    (w : World)
    (hplan : ∀ a, AnyAction.install_action a ∈ action_plan →
      a.plan_type ≠ InstallPlanType.UNKNOWN ∧ a.request_type ≠ RequestType.UNKNOWN) :
    (((∃ r, AnyAction.remove_action r ∈ action_plan) ∧ is_recursive = false) →
        (print_plan action_plan is_recursive w).1 =
          Except.error (Failure.fatal (FatalError.exit_fail "print_plan"))) ∧
      (¬ ((∃ r, AnyAction.remove_action r ∈ action_plan) ∧ is_recursive = false) →
        (print_plan action_plan is_recursive w).1 = Except.ok ()) := by
  obtain ⟨lists, hfold, hall, hrem⟩ := print_plan_classify_fold
    (fun a => a.request_type ≠ RequestType.UNKNOWN) action_plan {}
    ⟨by simp, by simp, by simp, by simp, by simp⟩ hplan
  obtain ⟨h1, h2, h3, h4, h5⟩ := hall
  have hsorted : ∀ l : List InstallPlanAction,
      (∀ a ∈ l, a.request_type ≠ RequestType.UNKNOWN) →
      ∀ a ∈ Util.sort InstallPlanAction.compare_by_name l,
        a.request_type ≠ RequestType.UNKNOWN :=
    fun l hl a ha => hl a ((mem_sort _ l a).1 ha)
  have hempty : (Util.sort RemovePlanAction.compare_by_name lists.remove_plans).isEmpty =
      true ↔ ∀ r, AnyAction.remove_action r ∉ action_plan := by
    rw [sort_is_empty, List.isEmpty_iff, hrem]
    simp
  unfold print_plan
  rw [proc_seq_ok_fst _ _ w lists (by simp only [Proc.of_except, hfold])]
  simp only [Proc.of_except]
  rw [proc_seq_ok_fst _ _ _ () (print_plan_section_ok _ _ (hsorted _ h5) _)]
  rw [proc_seq_ok_fst _ _ _ () (print_plan_section_ok _ _ (hsorted _ h4) _)]
  rw [proc_seq_ok_fst _ _ _ () (print_plan_section_ok _ _ (hsorted _ h1) _)]
  rw [proc_seq_ok_fst _ _ _ () (print_plan_section_ok _ _ (hsorted _ h3) _)]
  rw [proc_seq_ok_fst _ _ _ () (print_plan_section_ok _ _ (hsorted _ h2) _)]
  rw [proc_seq_ok_fst _ _ _ () (by
    split
    · rfl
    · rfl)]
  constructor
  · rintro ⟨⟨r, hr⟩, hrec⟩
    have hne : (Util.sort RemovePlanAction.compare_by_name lists.remove_plans).isEmpty =
        false := by
      cases hb : (Util.sort RemovePlanAction.compare_by_name lists.remove_plans).isEmpty with
      | false => rfl
      | true => exact absurd hr (hempty.1 hb r)
    simp only [hne, hrec]
    rfl
  · intro hcond
    by_cases hb : (Util.sort RemovePlanAction.compare_by_name lists.remove_plans).isEmpty =
        true
    · simp only [hb]
      rfl
    · have hrec : is_recursive = true := by
        cases is_recursive with
        | true => rfl
        | false =>
          exfalso
          apply hcond
          refine ⟨?_, rfl⟩
          by_contra hno
          apply hb
          rw [hempty]
          intro r hr
          exact hno ⟨r, hr⟩
      simp only [hrec]
      cases (Util.sort RemovePlanAction.compare_by_name lists.remove_plans).isEmpty <;> rfl

theorem curl_plan_known : ∀ a, AnyAction.install_action a ∈ curl_plan →
    a.plan_type ≠ InstallPlanType.UNKNOWN ∧ a.request_type ≠ RequestType.UNKNOWN := by
  intro a ha
  simp only [curl_plan, List.mem_cons, List.mem_singleton, AnyAction.install_action.injEq,
    List.not_mem_nil, or_false, false_or, reduceCtorEq] at ha
  subst ha
  exact ⟨by decide, by decide⟩

theorem curl_plan_removes : ∃ r, AnyAction.remove_action r ∈ curl_plan :=
  ⟨_, List.mem_cons_self _ _⟩

set_option maxRecDepth 100000 in
theorem recursive_opt_in_gate_witness :
    (print_plan curl_plan false {}).1 =
        Except.error (Failure.fatal (FatalError.exit_fail "print_plan")) ∧
      (print_plan curl_plan true {}).1 = Except.ok () :=
  ⟨(recursive_opt_in_gate curl_plan false {} curl_plan_known).1 ⟨curl_plan_removes, rfl⟩,
    (recursive_opt_in_gate curl_plan true {} curl_plan_known).2 (fun h => by cases h.2)⟩

end Vcpkg

namespace Vcpkg

/-! ## Every cluster that is reached has a port -/

theorem wp_and {α : Type} (m : Planner α) (Q Q' : α → PlanState → Prop) (st : PlanState)
    (h : wp m Q st) (h' : wp m Q' st) : wp m (fun r st' => Q r st' ∧ Q' r st') st :=
  fun r st' hrun => ⟨h r st' hrun, h' r st' hrun⟩

theorem meets_both_left (callee : Marking) (S T : MarkingSpec)
    (h : callee.Meets (S.both T)) : callee.Meets S :=
  ⟨fun f c st => wp_mono _ _ _ _ (h.1 f c st) (fun _ _ hq => hq.1),
    fun c st => wp_mono _ _ _ _ (h.2.1 c st) (fun _ _ hq => hq.1),
    fun f c st => wp_mono _ _ _ _ (h.2.2 f c st) (fun _ _ hq => hq.1)⟩

theorem meets_both_right (callee : Marking) (S T : MarkingSpec)
    (h : callee.Meets (S.both T)) : callee.Meets T :=
  ⟨fun f c st => wp_mono _ _ _ _ (h.1 f c st) (fun _ _ hq => hq.2),
    fun c st => wp_mono _ _ _ _ (h.2.1 c st) (fun _ _ hq => hq.2),
    fun f c st => wp_mono _ _ _ _ (h.2.2 f c st) (fun _ _ hq => hq.2)⟩

/-- A specification is met by the marking procedures when their bodies meet it for callees
that meet it and the specification of the core closure. -/
theorem marking_meets_with_core (env : Env) (pdf : List String) (S : MarkingSpec)
    (hplus : ∀ callee : Marking, callee.Meets (core_closure_spec env) → callee.Meets S →
      ∀ feature cluster st,
        wp (mark_plus_body env callee feature cluster) (S.mark_plus feature cluster st) st)
    (hminus : ∀ callee : Marking, callee.Meets (core_closure_spec env) → callee.Meets S →
      ∀ cluster st,
        wp (mark_minus_body env callee cluster) (fun _ => S.mark_minus cluster st) st)
    (hfollow : ∀ callee : Marking, callee.Meets (core_closure_spec env) → callee.Meets S →
      ∀ feature cluster st,
        wp (follow_plus_dependencies_body env pdf callee feature cluster)
          (S.follow_plus_dependencies feature cluster st) st) :
    ∀ fuel, (marking env pdf fuel).Meets S := by
  intro fuel
  refine meets_both_right _ (core_closure_spec env) S ?_
  refine marking_meets env pdf ((core_closure_spec env).both S) ?_ ?_ ?_ fuel
  · intro callee hc f c st
    exact wp_and _ _ _ _
      (mark_plus_body_core env callee (meets_both_left _ _ _ hc) f c st)
      (hplus callee (meets_both_left _ _ _ hc) (meets_both_right _ _ _ hc) f c st)
  · intro callee hc c st
    exact wp_and _ _ _ _
      (mark_minus_body_core env callee (meets_both_left _ _ _ hc) c st)
      (hminus callee (meets_both_left _ _ _ hc) (meets_both_right _ _ _ hc) c st)
  · intro callee hc f c st
    exact wp_and _ _ _ _
      (follow_plus_dependencies_body_core env pdf callee (meets_both_left _ _ _ hc) f c st)
      (hfollow callee (meets_both_left _ _ _ hc) (meets_both_right _ _ _ hc) f c st)

theorem sourced_of_source_eq (env : Env) (st st' : PlanState) (c : PackageSpec)
    (h : (st'.cluster env c).source = (st.cluster env c).source)
    (hs : st.Sourced env c) : st'.Sourced env c := by
  obtain ⟨src, hsrc⟩ := hs
  exact ⟨src, by rw [h]; exact hsrc⟩

theorem edge_declared_of_view (env : Env) (st st' : PlanState) (u d : PackageSpec)
    (hsrc : (st'.cluster env u).source = (st.cluster env u).source)
    (hfeat : ∀ f, f ∈ (st.cluster env u).to_install_features →
      f ∈ (st'.cluster env u).to_install_features)
    (h : st.EdgeDeclared env u d) : st'.EdgeDeclared env u d := by
  obtain ⟨hne, f, src, es, x, h1, h2, h3, h4, h5⟩ := h
  exact ⟨hne, f, src, es, x, hfeat f h1, by rw [hsrc]; exact h2, h3, h4, h5⟩

/-- A change of the state keeps `Reached` when the sources stay, no feature to install is
lost, and what is new (a mark, an edge, a vertex of the remove graph) is at a cluster with
a source half. -/
theorem reached_of_view (env : Env) (pending pending' : PackageSpec → Prop)
    (st st' : PlanState) (h : st.Reached env pending)
    (hsrc : ∀ c, (st'.cluster env c).source = (st.cluster env c).source)
    (hfeat : ∀ c f, f ∈ (st.cluster env c).to_install_features →
      f ∈ (st'.cluster env c).to_install_features)
    (hplus : ∀ c f, (st'.cluster env c).plus_of f = true →
      (st.cluster env c).plus_of f = true ∨ st.Sourced env c)
    (hminus : ∀ c, (st'.cluster env c).minus = true →
      (st.cluster env c).minus = true ∨ st.Sourced env c)
    (hadj : ∀ u d, d ∈ st'.graph_plan.install_graph.adjacency_list u →
      d ∈ st.graph_plan.install_graph.adjacency_list u ∨
        (st.Sourced env d ∧ st'.EdgeDeclared env u d))
    (hrem : ∀ v, v ∈ st'.graph_plan.remove_graph.vertex_list → ¬ pending' v →
      (v ∈ st.graph_plan.remove_graph.vertex_list ∧ ¬ pending v) ∨ st.Sourced env v) :
    st'.Reached env pending' := by
  obtain ⟨h1, h2, h3, h4⟩ := h
  have hs : ∀ c, st.Sourced env c → st'.Sourced env c :=
    fun c => sourced_of_source_eq env st st' c (hsrc c)
  refine ⟨?_, ?_, ?_, ?_⟩
  · intro c f hp
    rcases hplus c f hp with h | h
    · exact hs c (h1 c f h)
    · exact hs c h
  · intro c hm
    rcases hminus c hm with h | h
    · exact hs c (h2 c h)
    · exact hs c h
  · intro u d hd
    rcases hadj u d hd with h | h
    · exact ⟨hs d (h3 u d h).1,
        edge_declared_of_view env st st' u d (hsrc u) (hfeat u) (h3 u d h).2⟩
    · exact ⟨hs d h.1, h.2⟩
  · intro v hv hp
    rcases hrem v hv hp with h | h
    · exact hs v (h4 v h.1 h.2)
    · exact hs v h

theorem reached_get (env : Env) (pending : PackageSpec → Prop) (st : PlanState)
    (spec : PackageSpec) (h : st.Reached env pending) : (st.get env spec).Reached env pending :=
  reached_of_view env pending pending st _ h (fun c => by simp) (fun c f hf => by simpa using hf)
    (fun c f hp => Or.inl (by simpa using hp)) (fun c hm => Or.inl (by simpa using hm))
    (fun u d hd => Or.inl hd) (fun v hv hp => Or.inl ⟨hv, hp⟩)

/-- A write through a `Cluster&` that keeps the source half and the features to install;
marks are only set on a cluster with a source half. -/
theorem reached_modify (env : Env) (pending : PackageSpec → Prop) (st : PlanState)
    (c0 : PackageSpec) (g : Cluster → Cluster) (h : st.Reached env pending)
    (hsrc : ∀ c, (g c).source = c.source)
    (hfeat : ∀ c f, f ∈ c.to_install_features → f ∈ (g c).to_install_features)
    (hmark : st.Sourced env c0 ∨
      (∀ c, (g c).plus = c.plus) ∧ (∀ c, (g c).minus = c.minus)) :
    (st.modify env c0 g).Reached env pending := by
  refine reached_of_view env pending pending st _ h ?_ ?_ ?_ ?_
    (fun u d hd => Or.inl hd) (fun v hv hp => Or.inl ⟨hv, hp⟩)
  · intro c
    simp only [PlanState.state_cluster_modify]
    split
    · rename_i e; subst e; exact hsrc _
    · rfl
  · intro c f hf
    simp only [PlanState.state_cluster_modify]
    split
    · rename_i e; subst e; exact hfeat _ f hf
    · exact hf
  · intro c f hp
    simp only [PlanState.state_cluster_modify] at hp
    split at hp
    · rename_i e
      subst e
      rcases hmark with hs | ⟨hpl, _⟩
      · exact Or.inr hs
      · left
        unfold Cluster.plus_of at hp ⊢
        rw [hpl] at hp
        exact hp
    · exact Or.inl hp
  · intro c hm
    simp only [PlanState.state_cluster_modify] at hm
    split at hm
    · rename_i e
      subst e
      rcases hmark with hs | ⟨_, hmi⟩
      · exact Or.inr hs
      · left
        rw [hmi] at hm
        exact hm
    · exact Or.inl hm

theorem reached_weaken (env : Env) (pending : PackageSpec → Prop) (st : PlanState)
    (h : st.Reached env (fun _ => False)) : st.Reached env pending :=
  ⟨h.1, h.2.1, h.2.2.1, fun v hv _ => h.2.2.2 v hv (fun hf => hf)⟩

end Vcpkg

namespace Vcpkg

theorem reached_discharge (env : Env) (c0 : PackageSpec) (st : PlanState)
    (h : st.Reached env (fun v => v = c0)) (hs : st.Sourced env c0) :
    st.Reached env (fun _ => False) := by
  refine ⟨h.1, h.2.1, h.2.2.1, fun v hv _ => ?_⟩
  by_cases e : v = c0
  · rw [e]; exact hs
  · exact h.2.2.2 v hv e

theorem reached_plan_install_vertex (env : Env) (pending : PackageSpec → Prop)
    (st : PlanState) (c : PackageSpec) (h : st.Reached env pending) :
    PlanState.Reached env pending { st with graph_plan :=
      { st.graph_plan with install_graph := st.graph_plan.install_graph.add_vertex c } } :=
  reached_of_view env pending pending st _ h (fun _ => rfl) (fun _ _ hf => hf)
    (fun _ _ hp => Or.inl hp) (fun _ hm => Or.inl hm)
    (fun u d hd => Or.inl (by
      simpa only [Graph.adjacency_list_add_vertex] using hd))
    (fun v hv hp => Or.inl ⟨hv, hp⟩)

theorem reached_plan_remove_vertex (env : Env) (pending : PackageSpec → Prop)
    (st : PlanState) (c : PackageSpec) (h : st.Reached env pending) (hs : st.Sourced env c) :
    PlanState.Reached env pending { st with graph_plan :=
      { st.graph_plan with remove_graph := st.graph_plan.remove_graph.add_vertex c } } :=
  reached_of_view env pending pending st _ h (fun _ => rfl) (fun _ _ hf => hf)
    (fun _ _ hp => Or.inl hp) (fun _ hm => Or.inl hm) (fun u d hd => Or.inl hd)
    (fun v hv hp => by
      rcases (Graph.mem_vertex_list_add_vertex _ _ _).1 hv with e | hv'
      · right; rw [e]; exact hs
      · exact Or.inl ⟨hv', hp⟩)

theorem reached_plan_remove_edge (env : Env) (st : PlanState) (c edge : PackageSpec)
    (h : st.Reached env (fun _ => False)) (hs : st.Sourced env c) :
    PlanState.Reached env (fun v => v = edge) { st with graph_plan :=
      { st.graph_plan with remove_graph := st.graph_plan.remove_graph.add_edge c edge } } :=
  reached_of_view env (fun _ => False) (fun v => v = edge) st _ h (fun _ => rfl)
    (fun _ _ hf => hf) (fun _ _ hp => Or.inl hp) (fun _ hm => Or.inl hm)
    (fun u d hd => Or.inl hd)
    (fun v hv hp => by
      rcases (Graph.mem_vertex_list_add_edge _ _ _ _).1 hv with e | e | hv'
      · right; rw [e]; exact hs
      · exact absurd e hp
      · exact Or.inl ⟨hv', fun hf => hf⟩)

theorem reached_plan_install_edge (env : Env) (st : PlanState) (c d : PackageSpec)
    (h : st.Reached env (fun _ => False)) (hs : st.Sourced env d)
    (he : st.EdgeDeclared env c d) :
    PlanState.Reached env (fun _ => False) { st with graph_plan :=
      { st.graph_plan with install_graph := st.graph_plan.install_graph.add_edge c d } } :=
  reached_of_view env (fun _ => False) (fun _ => False) st _ h (fun _ => rfl)
    (fun _ _ hf => hf) (fun _ _ hp => Or.inl hp) (fun _ hm => Or.inl hm)
    (fun u w hw => by
      rcases (Graph.mem_adjacency_list_add_edge _ _ _ _ _).1 hw with ⟨e1, e2⟩ | hw'
      · right
        rw [e1, e2]
        exact ⟨hs, he⟩
      · exact Or.inl hw')
    (fun v hv hp => Or.inl ⟨hv, hp⟩)

theorem source_modify_eq (env : Env) (st : PlanState) (c0 : PackageSpec)
    (g : Cluster → Cluster) (hsrc : ∀ c, (g c).source = c.source) (c : PackageSpec) :
    ((st.modify env c0 g).cluster env c).source = (st.cluster env c).source := by
  simp only [PlanState.state_cluster_modify]
  split
  · rename_i e; subst e; exact hsrc _
  · rfl

theorem mark_minus_body_reached (env : Env) (callee : Marking)
    (hc1 : callee.Meets (core_closure_spec env)) (hc : callee.Meets (reached_spec env))
    (c0 : PackageSpec) (st : PlanState) :
    wp (mark_minus_body env callee c0) (fun _ => (reached_spec env).mark_minus c0 st) st := by
  refine wp_imp _ _ _ _ ?_
  intro hR
  unfold mark_minus_body
  simp only [wp_bind, wp_get]
  rw [wp_ite]
  refine ⟨fun hmin => (wp_pure _ _ _).mpr
    (reached_discharge env c0 st hR (hR.2.1 c0 hmin)), fun _ => ?_⟩
  simp only [wp_bind]
  refine wp_modify_named _ _ _ ?_
  intro st1 hst1
  have hsrc1 : ∀ c, (st1.cluster env c).source = (st.cluster env c).source := by
    subst hst1
    exact source_modify_eq env st c0 _ (fun _ => rfl)
  simp only [wp_get]
  split
  · exact (wp_throw _ _ _).mpr trivial
  · rename_i p_source hsrc
    have hS0 : st.Sourced env c0 := ⟨p_source, by rw [← hsrc1]; exact hsrc⟩
    have hS1 : st1.Sourced env c0 := ⟨p_source, hsrc⟩
    have hR1 : st1.Reached env (fun _ => False) := by
      refine reached_discharge env c0 st1 ?_ hS1
      subst hst1
      exact reached_modify env _ st c0 _ hR (fun _ => rfl) (fun _ _ hf => hf) (Or.inl hS0)
    split
    · exact (wp_pure _ _ _).mpr hR1
    · rename_i p_installed hinst
      simp only [wp_bind]
      refine wp_modify_named _ _ _ ?_
      intro st2 hst2
      have hR2 : st2.Reached env (fun _ => False) ∧ st2.Sourced env c0 := by
        subst hst2
        exact ⟨reached_plan_remove_vertex env _ st1 c0 hR1 hS1, hS1⟩
      refine wp_mono _ _ _ _ (wp_for_each _ _
        (fun s => s.Reached env (fun _ => False) ∧ s.Sourced env c0) ?_ st2 hR2) ?_
      · intro edge _ s hs
        unfold mark_minus_remove_edge
        simp only [wp_bind, wp_modify, wp_check_exit]
        intro _
        refine wp_mono _ _ _ _ (wp_and _ _ _ _ (hc1.2.1 edge _) (hc.2.1 edge _)) ?_
        intro _ s' h
        have hs1 : (s.get env edge).Sourced env c0 :=
          sourced_of_source_eq env s _ c0 (by simp) hs.2
        refine ⟨h.2 (reached_plan_remove_edge env _ c0 edge
          (reached_get env _ s edge hs.1) hs1), ?_⟩
        exact sourced_of_source_eq env _ s' c0 (h.1.1.source c0) hs1
      intro _ st3 hS3
      refine wp_mono _ _ _ _ (wp_for_each _ _
        (fun s => s.Reached env (fun _ => False)) ?_ st3 hS3.1) ?_
      · intro f _ s hs
        unfold mark_minus_reinstall
        simp only [wp_bind, wp_pure]
        refine wp_mono _ _ _ _ (hc.2.2 f c0 s) ?_
        intro _ s' h
        exact h hs
      intro _ st4 hS4
      refine wp_for_each _ _ (fun s => s.Reached env (fun _ => False)) ?_ st4 hS4
      intro d _ s hs
      unfold mark_minus_new_default
      simp only [wp_ite, wp_bind, wp_pure]
      refine ⟨fun _ => ?_, fun _ => hs⟩
      refine wp_mono _ _ _ _ (hc.1 d c0 s) ?_
      intro _ s' h
      exact h hs

/-- What the loop of `follow_plus_dependencies` keeps: `Reached`, the feature among the
features to install, and the source half of the cluster. -/
theorem reached_call_keeps (env : Env) (c0 : PackageSpec) (f : String)
    (p_source : ClusterSource) (s s' : PlanState) (hM : Marked env s s')
    (hR : s'.Reached env (fun _ => False))
    (hK : f ∈ (s.cluster env c0).to_install_features ∧
      (s.cluster env c0).source = some p_source) :
    s'.Reached env (fun _ => False) ∧ f ∈ (s'.cluster env c0).to_install_features ∧
      (s'.cluster env c0).source = some p_source :=
  ⟨hR, hM.features c0 f hK.1, by rw [hM.source c0]; exact hK.2⟩

theorem follow_plus_dependencies_body_reached (env : Env) (pdf : List String)
    (callee : Marking) (hc1 : callee.Meets (core_closure_spec env))
    (hc : callee.Meets (reached_spec env)) (f : String) (c0 : PackageSpec) (st : PlanState) :
    wp (follow_plus_dependencies_body env pdf callee f c0)
      ((reached_spec env).follow_plus_dependencies f c0 st) st := by
  refine wp_imp _ _ _ _ ?_
  intro hR
  unfold follow_plus_dependencies_body
  simp only [wp_bind, wp_get]
  split
  · rename_i p_source hsrc
    split
    · rename_i build_edges hfind
      simp only [wp_bind]
      refine wp_mono _ _ _ _ (wp_and _ _ _ _ (hc1.2.1 c0 st) (hc.2.1 c0 st)) ?_
      intro _ st1 h1
      have hR1 := h1.2 (reached_weaken env _ st hR)
      have hsrc1 : (st1.cluster env c0).source = some p_source := by
        rw [h1.1.1.source c0]; exact hsrc
      refine wp_modify_named _ _ _ ?_
      intro st2 hst2
      have hR2 : st2.Reached env (fun _ => False) := by
        subst hst2; exact reached_plan_install_vertex env _ st1 c0 hR1
      have hsrc2 : (st2.cluster env c0).source = some p_source := by
        subst hst2; exact hsrc1
      refine wp_modify_named _ _ _ ?_
      intro st3 hst3
      have hK3 : st3.Reached env (fun _ => False) ∧
          f ∈ (st3.cluster env c0).to_install_features ∧
          (st3.cluster env c0).source = some p_source := by
        subst hst3
        refine ⟨reached_modify env _ st2 c0 _ hR2 (fun _ => rfl) ?_
          (Or.inr ⟨fun _ => rfl, fun _ => rfl⟩), ?_, ?_⟩
        · intro c g hg
          exact (mem_set_insert _ _ _ _).mpr (Or.inr hg)
        · simp only [PlanState.state_cluster_modify, if_pos]
          exact (mem_set_insert _ _ _ _).mpr (Or.inl rfl)
        · refine Eq.trans ?_ hsrc2
          exact source_modify_eq env st2 c0 _ (by intro _; rfl) c0
      refine wp_mono _ (fun _ s => s.Reached env (fun _ => False) ∧
          f ∈ (s.cluster env c0).to_install_features ∧
          (s.cluster env c0).source = some p_source) _ _ ?_ ?_
      · rw [wp_ite]
        refine ⟨fun _ => ?_, fun _ => (wp_pure _ _ _).mpr hK3⟩
        simp only [wp_bind]
        refine wp_mono _ _ _ _
          (wp_and _ _ _ _ (hc1.1 "core" c0 st3) (hc.1 "core" c0 st3)) ?_
        intro r s4 h
        rw [wp_check_exit]
        intro _
        exact reached_call_keeps env c0 f p_source st3 s4 h.1.1 (h.2 hK3.1) hK3.2
      · intro _ s4 hK4
        simp only [wp_get]
        refine wp_mono _ (fun _ s => s.Reached env (fun _ => False) ∧
            f ∈ (s.cluster env c0).to_install_features ∧
            (s.cluster env c0).source = some p_source) _ _ ?_ ?_
        · rw [wp_ite]
          refine ⟨fun hcond => ?_, fun _ => (wp_pure _ _ _).mpr hK4⟩
          simp only [wp_bind]
          refine wp_mono _ _ _ _
            (wp_and _ _ _ _ (hc1.1 "" c0 s4) (hc.1 "" c0 s4)) ?_
          intro r s5 h
          rw [wp_check_exit]
          intro _
          exact reached_call_keeps env c0 f p_source s4 s5 h.1.1 (h.2 hK4.1) hK4.2
        · intro _ s5 hK5
          refine wp_mono _ _ _ _
            (wp_for_each _ _ (fun s => s.Reached env (fun _ => False) ∧
              f ∈ (s.cluster env c0).to_install_features ∧
              (s.cluster env c0).source = some p_source) ?_ s5 hK5) ?_
          · intro depend hdep s hs
            unfold follow_plus_dependencies_edge
            simp only [wp_bind, wp_modify]
            refine wp_mono _ _ _ _ (wp_and _ _ _ _
              (hc1.1 depend.feature depend.spec _) (hc.1 depend.feature depend.spec _)) ?_
            intro r s' h
            rw [wp_check_exit]
            intro _
            have hg : f ∈ ((s.get env depend.spec).cluster env c0).to_install_features ∧
                ((s.get env depend.spec).cluster env c0).source = some p_source := by
              simpa using hs.2
            have hK' := reached_call_keeps env c0 f p_source _ s' h.1.1
              (h.2 (reached_get env _ s depend.spec hs.1)) hg
            rw [wp_ite]
            refine ⟨fun _ => (wp_pure _ _ _).mpr hK', fun hne => ?_⟩
            rw [wp_modify]
            refine ⟨reached_plan_install_edge env s' c0 depend.spec hK'.1
              (hK'.1.1 _ _ h.1.2.1) ?_, hK'.2.1, hK'.2.2⟩
            exact ⟨hne, f, p_source, build_edges, depend, hK'.2.1, hK'.2.2, hfind, hdep, rfl⟩
          · intro _ s6 hS6
            exact (wp_pure _ _ _).mpr hS6.1
    · exact (wp_pure _ _ _).mpr hR
  · exact (wp_pure _ _ _).mpr hR

theorem mark_plus_body_reached (env : Env) (callee : Marking)
    (hc : callee.Meets (reached_spec env)) (f : String) (c0 : PackageSpec) (st : PlanState) :
    wp (mark_plus_body env callee f c0) ((reached_spec env).mark_plus f c0 st) st := by
  refine wp_imp _ _ _ _ ?_
  intro hR
  unfold mark_plus_body
  simp only [wp_bind, wp_get]
  rw [wp_ite]
  refine ⟨fun _ => (wp_pure _ _ _).mpr hR, fun _ => ?_⟩
  simp only [wp_bind]
  refine wp_modify_named _ _ _ ?_
  intro st1 hst1
  have hsrc1 : ∀ c, (st1.cluster env c).source = (st.cluster env c).source := by
    subst hst1
    exact source_modify_eq env st c0 _ (fun _ => rfl)
  simp only [wp_get]
  split
  · exact (wp_throw _ _ _).mpr trivial
  · rename_i p_source hsrc
    have hS0 : st.Sourced env c0 := ⟨p_source, by rw [← hsrc1]; exact hsrc⟩
    have hR1 : st1.Reached env (fun _ => False) := by
      subst hst1
      exact reached_modify env _ st c0 _ hR (fun _ => rfl) (fun _ _ hf => hf) (Or.inl hS0)
    rw [wp_ite]
    constructor
    · intro _
      simp only [wp_bind]
      refine wp_mono _ _ _ _
        (wp_first_failure _ _ (fun s => s.Reached env (fun _ => False)) ?_ st1 hR1) ?_
      · intro d _ s hs
        refine wp_mono _ _ _ _ (hc.1 d c0 s) ?_
        intro _ s' h
        exact h hs
      intro res s2 hS2
      rw [wp_ite]
      refine ⟨fun _ => (wp_pure _ _ _).mpr hS2, fun _ => ?_⟩
      refine wp_mono _ _ _ _ (hc.1 "core" c0 s2) ?_
      intro _ s' h
      exact h hS2
    · intro _
      rw [wp_ite]
      constructor
      · intro _
        simp only [wp_bind]
        refine wp_mono _ _ _ _
          (wp_for_each _ _ (fun s => s.Reached env (fun _ => False)) ?_ st1 hR1) ?_
        · intro fp _ s hs
          unfold mark_plus_all_features_step
          simp only [wp_bind]
          refine wp_mono _ _ _ _ (hc.1 fp.name c0 s) ?_
          intro _ s' h
          rw [wp_check_exit]
          intro _
          exact h hs
        intro _ s2 hS2
        refine wp_mono _ _ _ _ (hc.1 "core" c0 s2) ?_
        intro _ s' h
        rw [wp_check_exit]
        intro _
        exact (wp_pure _ _ _).mpr (h hS2)
      · intro _
        simp only [wp_bind, wp_get]
        rw [wp_ite]
        refine ⟨fun _ => (wp_pure _ _ _).mpr hR1, fun _ => ?_⟩
        simp only [wp_bind]
        refine wp_mono _ _ _ _ (hc.2.1 c0 st1) ?_
        intro _ s2 h2
        refine wp_mono _ _ _ _ (hc.2.2 f c0 s2) ?_
        intro _ s3 h3
        exact h3 (h2 (reached_weaken env _ st1 hR1))

/-- The marking procedures keep `Reached`. -/
theorem marking_reached (env : Env) (pdf : List String) (fuel : Nat) :
    (marking env pdf fuel).Meets (reached_spec env) :=
  marking_meets_with_core env pdf (reached_spec env)
    (fun callee _ hc f c st => mark_plus_body_reached env callee hc f c st)
    (fun callee hc1 hc c st => mark_minus_body_reached env callee hc1 hc c st)
    (fun callee hc1 hc f c st =>
      follow_plus_dependencies_body_reached env pdf callee hc1 hc f c st) fuel

end Vcpkg

namespace Vcpkg

/-- A state property that the marking keeps is kept by `PackageGraph::install`. -/
theorem install_inv (env : Env) (fuel : Nat) (pdf : List String) (I : PlanState → Prop)
    (hget : ∀ st c, I st → I (st.get env c))
    (hreq : ∀ st c, I st → I (st.modify env c (fun c =>
      { c with request_type := RequestType.USER_REQUESTED })))
    (hplus : ∀ f c st, wp (mark_plus env pdf fuel f c) (fun _ st' => I st → I st') st)
    (hvert : ∀ st c, I st → I { st with graph_plan :=
      { st.graph_plan with install_graph := st.graph_plan.install_graph.add_vertex c } })
    (spec : FeatureSpec) (st : PlanState) (h : I st) :
    wp (PackageGraph.install env fuel spec pdf) (fun _ st' => I st') st := by
  unfold PackageGraph.install
  simp only [wp_bind, wp_modify]
  refine wp_mono _ _ _ _ (hplus spec.feature spec.spec _) ?_
  intro r st3 h3
  rw [wp_check_exit]
  intro _
  exact hvert _ _ (h3 (hreq _ _ (hget _ _ h)))

/-- A state property that the marking keeps is kept by the marking phase. -/
theorem install_all_inv (env : Env) (fuel : Nat) (pdf : List String) (I : PlanState → Prop)
    (hget : ∀ st c, I st → I (st.get env c))
    (hreq : ∀ st c, I st → I (st.modify env c (fun c =>
      { c with request_type := RequestType.USER_REQUESTED })))
    (hplus : ∀ f c st, wp (mark_plus env pdf fuel f c) (fun _ st' => I st → I st') st)
    (hvert : ∀ st c, I st → I { st with graph_plan :=
      { st.graph_plan with install_graph := st.graph_plan.install_graph.add_vertex c } })
    (specs : List FeatureSpec) (st : PlanState) (h : I st) :
    wp (install_all env fuel specs pdf) (fun _ st' => I st') st := by
  unfold install_all
  refine wp_for_each _ _ I ?_ st h
  intro x _ s hs
  rw [wp_ite]
  exact ⟨fun _ => (wp_pure _ _ _).mpr hs,
    fun _ => install_inv env fuel pdf I hget hreq hplus hvert x s hs⟩

/-- Every spec of the input that is not skipped is marked plus and is a vertex of the
install graph when the marking phase is over. -/
theorem install_all_requested (env : Env) (fuel : Nat) (specs : List FeatureSpec)
    (pdf : List String) (st : PlanState) :
    wp (install_all env fuel specs pdf)
      (fun _ st' => ∀ s ∈ specs, ¬ (s.feature = "" ∧ s.name ∈ pdf) →
        (st'.cluster env s.spec).plus_of s.feature = true ∧
        s.spec ∈ st'.graph_plan.install_graph.vertex_list) st := by
  unfold install_all
  refine wp_mono _ _ _ _
    (wp_for_each_rel (fun a b => Marked env a b) (fun s => marked_refl env s)
      (fun a b c hab hbc => marked_trans env _ _ _ hab hbc)
      (fun (s : FeatureSpec) st' => ¬ (s.feature = "" ∧ s.name ∈ pdf) →
        (st'.cluster env s.spec).plus_of s.feature = true ∧
        s.spec ∈ st'.graph_plan.install_graph.vertex_list)
      (fun x s s' hR hE hn => ⟨hR.plus _ _ (hE hn).1, hR.install_vertices _ (hE hn).2⟩)
      specs _ st ?_ st (marked_refl env st)) (fun _ _ h => h.2)
  intro x _ s _
  rw [wp_ite]
  refine ⟨fun hskip => ?_, fun _ => ?_⟩
  · rw [wp_pure]
    exact ⟨marked_refl env s, fun hn => absurd hskip hn⟩
  · exact wp_mono _ _ _ _ (install_core env fuel x pdf s)
      (fun _ _ h => ⟨h.1.1, fun _ => ⟨h.2.1, h.2.2.1⟩⟩)

/-- A `BUILD_AND_INSTALL` action carries the port and the request type of its cluster. -/
theorem serialize_install_build_source (env : Env) (st : PlanState) (hwk : st.WellKeyed env)
    (vs : List PackageSpec) :
    ∀ plan, serialize_install env st vs = Except.ok plan →
      ∀ a, AnyAction.install_action a ∈ plan →
        a.plan_type = InstallPlanType.BUILD_AND_INSTALL →
          a.request_type = (st.cluster env a.spec).request_type ∧
          ∃ source, (st.cluster env a.spec).source = some source ∧
            a.build_action = some source.scf := by
  induction vs with
  | nil =>
    intro plan h a ha _
    simp only [serialize_install, pure, Except.pure, Except.ok.injEq] at h
    subst h
    simp at ha
  | cons p rest ih =>
    intro plan h a ha hb
    obtain ⟨tail, ht, hcase⟩ := serialize_install_cons_ok env st p rest plan h
    rcases hcase with ⟨e, _, _⟩ | ⟨source, htr, hsrc, e⟩ | ⟨installed, _, _, hi, e⟩
    · rw [e] at ha; exact ih tail ht a ha hb
    · rw [e] at ha
      rcases List.mem_cons.mp ha with hx | hx
      · simp only [AnyAction.install_action.injEq] at hx
        subst hx
        refine ⟨?_, source, ?_, rfl⟩
        · simp only [hwk.1 p]
        · simp only [hwk.1 p]; exact hsrc
      · exact ih tail ht a hx hb
    · rw [e] at ha
      rcases List.mem_cons.mp ha with hx | hx
      · simp only [AnyAction.install_action.injEq] at hx
        subst hx
        cases hb
      · exact ih tail ht a hx hb

theorem reached_init (env : Env) (status_db : StatusParagraphs) (g : ClusterGraph)
    (h : create_feature_install_graph env status_db = Except.ok g) :
    PlanState.Reached env (fun _ => False) { m_graph := g, graph_plan := {} } := by
  refine ⟨fun c f hf => ?_, fun c hm => ?_, fun u d hd => ?_, fun v hv _ => ?_⟩
  · rw [(init_cluster_fresh env status_db g h c).2.1 f] at hf; cases hf
  · rw [(init_cluster_fresh env status_db g h c).1] at hm; cases hm
  · simp [Graph.adjacency_list, AssocMap.find] at hd
  · simp [Graph.vertex_list] at hv

/-- The marked state is `Reached`. -/
theorem marked_state_reached (env : Env) (fuel : Nat) (specs : List FeatureSpec)
    (status_db : StatusParagraphs) (marked : PlanState)
    (h : marked_state env fuel specs status_db = Except.ok marked) :
    marked.Reached env (fun _ => False) := by
  rw [marked_state_ok] at h
  obtain ⟨g, hg, hrun⟩ := h
  exact install_all_inv env fuel _ (fun st => st.Reached env (fun _ => False))
    (fun st c hs => reached_get env _ st c hs)
    (fun st c hs => reached_modify env _ st c _ hs (fun _ => rfl) (fun _ _ hf => hf)
      (Or.inr ⟨fun _ => rfl, fun _ => rfl⟩))
    (fun f c st => (marking_reached env _ fuel).1 f c st)
    (fun st c hs => reached_plan_install_vertex env _ st c hs)
    specs _ (reached_init env status_db g hg) () marked hrun

/-- In the marked state the source half of a cluster is the port of its package. -/
theorem marked_state_sourced (env : Env) (fuel : Nat) (specs : List FeatureSpec)
    (status_db : StatusParagraphs) (marked : PlanState)
    (h : marked_state env fuel specs status_db = Except.ok marked) (c : PackageSpec) :
    (marked.cluster env c).source =
      (env.get_control_file c.name).map (fun scf => cluster_from_scf env scf c.triplet) := by
  obtain ⟨g, hg, hM, _, _⟩ := marked_state_marked env fuel specs status_db marked h
  rw [hM.source c, (init_cluster_fresh env status_db g hg c).2.2.2.1]
  rfl

theorem port_of_sourced (env : Env) (fuel : Nat) (specs : List FeatureSpec)
    (status_db : StatusParagraphs) (marked : PlanState)
    (h : marked_state env fuel specs status_db = Except.ok marked) (c : PackageSpec)
    (hs : marked.Sourced env c) : ∃ scf, env.get_control_file c.name = some scf := by
  obtain ⟨src, hsrc⟩ := hs
  rw [marked_state_sourced env fuel specs status_db marked h c] at hsrc
  cases hp : env.get_control_file c.name with
  | none => rw [hp] at hsrc; cases hsrc
  | some scf => exact ⟨scf, rfl⟩

theorem serialize_remove_mem (env : Env) (st : PlanState) (vs : List PackageSpec)
    (r : RemovePlanAction) (h : AnyAction.remove_action r ∈ serialize_remove env st vs) :
    ∃ v ∈ vs, r.spec = (st.cluster env v).spec ∧
      r.request_type = (st.cluster env v).request_type := by
  unfold serialize_remove at h
  obtain ⟨v, hv, e⟩ := List.mem_map.mp h
  simp only [AnyAction.remove_action.injEq] at e
  subst e
  exact ⟨v, hv, rfl, rfl⟩

theorem serialize_install_no_remove (env : Env) (st : PlanState) (vs : List PackageSpec) :
    ∀ plan, serialize_install env st vs = Except.ok plan →
      ∀ r, AnyAction.remove_action r ∉ plan := by
  intro plan h r hr
  obtain ⟨emitted, e, _⟩ := serialize_install_emitted env st vs plan h
  subst e
  obtain ⟨_, _, hx⟩ := List.mem_map.mp hr
  cases hx

theorem serialize_remove_no_install (env : Env) (st : PlanState) (vs : List PackageSpec)
    (a : InstallPlanAction) : AnyAction.install_action a ∉ serialize_remove env st vs := by
  intro h
  unfold serialize_remove at h
  obtain ⟨_, _, hx⟩ := List.mem_map.mp h
  cases hx

/-- The parts of a returned plan: the marked state, the two sorted vertex lists, and where
the actions come from. -/
theorem plan_parts (env : Env) (fuel : Nat) (specs : List FeatureSpec)
    (status_db : StatusParagraphs) (plan : List AnyAction)
    (h : create_feature_install_plan env fuel specs status_db = Except.ok plan) :
    ∃ marked remove_toposort insert_toposort installs,
      marked_state env fuel specs status_db = Except.ok marked ∧
      env.topological_sort marked.graph_plan.remove_graph.vertex_list
        marked.graph_plan.remove_graph = some remove_toposort ∧
      env.topological_sort marked.graph_plan.install_graph.vertex_list
        marked.graph_plan.install_graph = some insert_toposort ∧
      serialize_install env marked insert_toposort = Except.ok installs ∧
      plan = serialize_remove env marked remove_toposort ++ installs ∧
      (∀ a, AnyAction.install_action a ∈ plan ↔ AnyAction.install_action a ∈ installs) ∧
      (∀ r, AnyAction.remove_action r ∈ plan ↔
        AnyAction.remove_action r ∈ serialize_remove env marked remove_toposort) := by
  obtain ⟨marked, hm, hser⟩ := (create_feature_install_plan_ok env fuel specs status_db plan).mp h
  obtain ⟨rs, is, installs, hr, hi, hinst, hplan⟩ := serialize_ok env marked plan hser
  refine ⟨marked, rs, is, installs, hm, hr, hi, hinst, hplan, fun a => ?_, fun r => ?_⟩
  · rw [hplan, List.mem_append]
    exact ⟨fun hx => hx.resolve_left (serialize_remove_no_install env marked rs a), Or.inr⟩
  · rw [hplan, List.mem_append]
    exact ⟨fun hx => hx.resolve_right (serialize_install_no_remove env marked is installs hinst r),
      Or.inl⟩

theorem topological_sort_mem (env : Env) (hsort : env.TopologicalSortSpec) (g : Graph)
    (sorted : List PackageSpec) (h : env.topological_sort g.vertex_list g = some sorted)
    (v : PackageSpec) : v ∈ sorted ↔ v ∈ g.vertex_list := by
  have hs := hsort g
  rw [h] at hs
  exact hs.1.mem_iff

end Vcpkg

namespace Vcpkg

/-! ## A missing definition is fatal (C25) -/

theorem prevent_default_features_of_mem (specs : List FeatureSpec) (name : String)
    (h : name ∈ prevent_default_features_of specs) :
    ∃ spec ∈ specs, spec.feature = "core" ∧ spec.name = name := by
  unfold prevent_default_features_of at h
  have key : ∀ (l : List FeatureSpec) (acc : List String),
      name ∈ l.foldl (fun s spec =>
        if spec.feature = "core" then (if spec.name ∈ s then s else s ++ [spec.name]) else s)
        acc →
      name ∈ acc ∨ ∃ spec ∈ l, spec.feature = "core" ∧ spec.name = name := by
    intro l
    induction l with
    | nil => intro acc h; exact Or.inl h
    | cons x rest ih =>
      intro acc h
      simp only [List.foldl_cons] at h
      rcases ih _ h with h1 | ⟨spec, hs, hc, hn⟩
      · by_cases hx : x.feature = "core"
        · rw [if_pos hx] at h1
          by_cases hm : x.name ∈ acc
          · rw [if_pos hm] at h1; exact Or.inl h1
          · rw [if_neg hm] at h1
            rcases List.mem_append.mp h1 with h2 | h2
            · exact Or.inl h2
            · right
              refine ⟨x, List.mem_cons_self _ _, hx, ?_⟩
              simp only [List.mem_singleton] at h2
              exact h2.symm
        · rw [if_neg hx] at h1; exact Or.inl h1
      · exact Or.inr ⟨spec, List.mem_cons_of_mem _ hs, hc, hn⟩
  rcases key specs [] h with h1 | h1
  · simp at h1
  · exact h1

/-- C25 (missing definition is fatal): `create_feature_install_plan` returns no plan when
the marking reaches a cluster without a source control file.  Whenever a plan is returned,
whatever the recursion depth, every cluster that the marking has given a plus mark or the
minus mark belongs to a package with a port in the catalog; so does every package named in
the input (whether or not its requested feature is already installed), every package that
is built and each of its computed dependencies, and, the topological sort meeting its
contract, every package that is removed to be rebuilt. -/
theorem missing_definition_is_fatal (env : Env) (fuel : Nat) (specs : List FeatureSpec)
    (status_db : StatusParagraphs) (plan : List AnyAction)
    (h : create_feature_install_plan env fuel specs status_db = Except.ok plan) :
    (∃ marked, marked_state env fuel specs status_db = Except.ok marked ∧
      (∀ c f, (marked.cluster env c).plus_of f = true →
        ∃ scf, env.get_control_file c.name = some scf) ∧
      (∀ c, (marked.cluster env c).minus = true →
        ∃ scf, env.get_control_file c.name = some scf)) ∧
    (∀ s ∈ specs, ∃ scf, env.get_control_file s.name = some scf) ∧
    (∀ a, AnyAction.install_action a ∈ plan →
      a.plan_type = InstallPlanType.BUILD_AND_INSTALL →
        (∃ scf, env.get_control_file a.spec.name = some scf) ∧
        ∀ d ∈ a.computed_dependencies, ∃ scf, env.get_control_file d.name = some scf) ∧
    (env.TopologicalSortSpec →
      ∀ r, AnyAction.remove_action r ∈ plan →
        ∃ scf, env.get_control_file r.spec.name = some scf) := by
  obtain ⟨marked, rs, is, installs, hm, hr, hi, hinst, hplan, hmemi, hmemr⟩ :=
    plan_parts env fuel specs status_db plan h
  have hR := marked_state_reached env fuel specs status_db marked hm
  have hwk := marked_state_well_keyed env fuel specs status_db marked hm
  have hport := port_of_sourced env fuel specs status_db marked hm
  have hrun := hm
  rw [marked_state_ok] at hrun
  obtain ⟨g, hg, hrun⟩ := hrun
  have hreq := install_all_requested env fuel specs _ _ () marked hrun
  have hplus : ∀ s ∈ specs, s.feature ≠ "" → ∃ scf, env.get_control_file s.name = some scf := by
    intro s hs hne
    exact hport s.spec (hR.1 _ _ (hreq s hs (fun hskip => hne hskip.1)).1)
  refine ⟨⟨marked, hm, fun c f hf => hport c (hR.1 c f hf), fun c hc => hport c (hR.2.1 c hc)⟩,
    ?_, ?_, ?_⟩
  · intro s hs
    by_cases hskip : s.feature = "" ∧ s.name ∈ prevent_default_features_of specs
    · obtain ⟨s', hs', hcore, hname⟩ := prevent_default_features_of_mem specs s.name hskip.2
      obtain ⟨scf, hscf⟩ := hplus s' hs' (by rw [hcore]; decide)
      exact ⟨scf, by rw [← hname]; exact hscf⟩
    · exact hport s.spec (hR.1 _ _ (hreq s hs hskip).1)
  · intro a ha hb
    have ha' := (hmemi a).mp ha
    obtain ⟨_, src, hsrc, _⟩ :=
      serialize_install_build_source env marked hwk is installs hinst a ha' hb
    obtain ⟨_, _, _, hdeps⟩ := serialize_install_build env marked hwk is installs hinst a ha' hb
    refine ⟨hport a.spec ⟨src, hsrc⟩, fun d hd => ?_⟩
    rw [hdeps, mem_sort_unique_erase] at hd
    obtain ⟨q, hq, e⟩ := List.mem_map.mp hd
    rw [hwk.1 q] at e
    subst e
    exact hport q (hR.2.2.1 a.spec q hq).1
  · intro hsort r hr'
    obtain ⟨v, hv, hspec, _⟩ := serialize_remove_mem env marked rs r ((hmemr r).mp hr')
    rw [hwk.1 v] at hspec
    rw [hspec]
    exact hport v (hR.2.2.2 v
      ((topological_sort_mem env hsort _ rs hr v).mp hv) (fun hf => hf))

/-- The plan for `curl[ssl]`, where `curl` is installed and its core depends on `zlib`: the
packages `curl` and `zlib` both have a port. -/
theorem missing_definition_is_fatal_witness :
    (∃ marked,
      marked_state curl_zlib_env 10 [⟨⟨"curl", x64_linux⟩, "ssl"⟩] curl_status_db =
        Except.ok marked ∧
      (∀ c f, (marked.cluster curl_zlib_env c).plus_of f = true →
        ∃ scf, curl_zlib_env.get_control_file c.name = some scf) ∧
      (∀ c, (marked.cluster curl_zlib_env c).minus = true →
        ∃ scf, curl_zlib_env.get_control_file c.name = some scf)) ∧
    (∀ s ∈ [(⟨⟨"curl", x64_linux⟩, "ssl"⟩ : FeatureSpec)],
      ∃ scf, curl_zlib_env.get_control_file s.name = some scf) ∧
    (∀ a, AnyAction.install_action a ∈ curl_zlib_plan →
      a.plan_type = InstallPlanType.BUILD_AND_INSTALL →
        (∃ scf, curl_zlib_env.get_control_file a.spec.name = some scf) ∧
        ∀ d ∈ a.computed_dependencies,
          ∃ scf, curl_zlib_env.get_control_file d.name = some scf) ∧
    (curl_zlib_env.TopologicalSortSpec →
      ∀ r, AnyAction.remove_action r ∈ curl_zlib_plan →
        ∃ scf, curl_zlib_env.get_control_file r.spec.name = some scf) :=
  missing_definition_is_fatal curl_zlib_env 10 [⟨⟨"curl", x64_linux⟩, "ssl"⟩] curl_status_db
    curl_zlib_plan (by decide)

end Vcpkg

namespace Vcpkg

/-! ## Relations kept by the marking procedures -/

/-- The body of `mark_plus` relates the states before and after by `R` when its callees do
and setting a plus mark does. -/
theorem mark_plus_body_rel (env : Env) (R : PlanState → PlanState → Prop)
    (hrefl : ∀ a, R a a) (htrans : ∀ a b c, R a b → R b c → R a c)
    (hset : ∀ st c f, R st (st.modify env c (fun c =>
      { c with plus := AssocMap.set c.plus f true })))
    (callee : Marking) (hc : callee.Meets (MarkingSpec.rel R)) (f : String)
    (c0 : PackageSpec) (st : PlanState) :
    wp (mark_plus_body env callee f c0) (fun _ st' => R st st') st := by
  unfold mark_plus_body
  simp only [wp_bind, wp_get]
  rw [wp_ite]
  refine ⟨fun _ => (wp_pure _ _ _).mpr (hrefl st), fun _ => ?_⟩
  simp only [wp_bind]
  refine wp_modify_named _ _ _ ?_
  intro st1 hst1
  have hR1 : R st st1 := by subst hst1; exact hset st c0 f
  simp only [wp_get]
  split
  · exact (wp_throw _ _ _).mpr trivial
  · rename_i p_source hsrc
    rw [wp_ite]
    constructor
    · intro _
      simp only [wp_bind]
      refine wp_mono _ _ _ _
        (wp_first_failure _ _ (fun s => R st s) ?_ st1 hR1) ?_
      · intro d _ s hs
        refine wp_mono _ _ _ _ (hc.1 d c0 s) ?_
        intro _ s' h
        exact htrans _ _ _ hs h
      intro res s2 hS2
      rw [wp_ite]
      refine ⟨fun _ => (wp_pure _ _ _).mpr hS2, fun _ => ?_⟩
      refine wp_mono _ _ _ _ (hc.1 "core" c0 s2) ?_
      intro _ s' h
      exact htrans _ _ _ hS2 h
    · intro _
      rw [wp_ite]
      constructor
      · intro _
        simp only [wp_bind]
        refine wp_mono _ _ _ _
          (wp_for_each _ _ (fun s => R st s) ?_ st1 hR1) ?_
        · intro fp _ s hs
          unfold mark_plus_all_features_step
          simp only [wp_bind]
          refine wp_mono _ _ _ _ (hc.1 fp.name c0 s) ?_
          intro _ s' h
          rw [wp_check_exit]
          intro _
          exact htrans _ _ _ hs h
        intro _ s2 hS2
        refine wp_mono _ _ _ _ (hc.1 "core" c0 s2) ?_
        intro _ s' h
        rw [wp_check_exit]
        intro _
        exact (wp_pure _ _ _).mpr (htrans _ _ _ hS2 h)
      · intro _
        simp only [wp_bind, wp_get]
        rw [wp_ite]
        refine ⟨fun _ => (wp_pure _ _ _).mpr hR1, fun _ => ?_⟩
        simp only [wp_bind]
        refine wp_mono _ _ _ _ (hc.2.1 c0 st1) ?_
        intro _ s2 h2
        refine wp_mono _ _ _ _ (hc.2.2 f c0 s2) ?_
        intro _ s3 h3
        exact htrans _ _ _ (htrans _ _ _ hR1 h2) h3

/-- The body of `mark_minus` relates the states before and after by `R` when its callees do
and its own changes of the state do. -/
theorem mark_minus_body_rel (env : Env) (R : PlanState → PlanState → Prop)
    (hrefl : ∀ a, R a a) (htrans : ∀ a b c, R a b → R b c → R a c)
    (hset : ∀ st c, R st (st.modify env c (fun c =>
      { c with minus := true, transient_uninstalled := true })))
    (hget : ∀ st c, R st (st.get env c))
    (hvertex : ∀ st c, R st { st with graph_plan :=
      { st.graph_plan with remove_graph := st.graph_plan.remove_graph.add_vertex c } })
    (hedge : ∀ st c e, R st { st with graph_plan :=
      { st.graph_plan with remove_graph := st.graph_plan.remove_graph.add_edge c e } })
    (callee : Marking) (hc : callee.Meets (MarkingSpec.rel R))
    (c0 : PackageSpec) (st : PlanState) :
    wp (mark_minus_body env callee c0) (fun _ st' => R st st') st := by
  unfold mark_minus_body
  simp only [wp_bind, wp_get]
  rw [wp_ite]
  refine ⟨fun _ => (wp_pure _ _ _).mpr (hrefl st), fun _ => ?_⟩
  simp only [wp_bind]
  refine wp_modify_named _ _ _ ?_
  intro st1 hst1
  have hR1 : R st st1 := by subst hst1; exact hset st c0
  simp only [wp_get]
  split
  · exact (wp_throw _ _ _).mpr trivial
  · split
    · exact (wp_pure _ _ _).mpr hR1
    · simp only [wp_bind]
      refine wp_modify_named _ _ _ ?_
      intro st2 hst2
      have hR2 : R st st2 := by subst hst2; exact htrans _ _ _ hR1 (hvertex st1 c0)
      refine wp_mono _ _ _ _ (wp_for_each _ _ (fun s => R st s) ?_ st2 hR2) ?_
      · intro edge _ s hs
        unfold mark_minus_remove_edge
        simp only [wp_bind, wp_modify, wp_check_exit]
        intro _
        refine wp_mono _ _ _ _ (hc.2.1 edge _) ?_
        intro _ s' h
        exact htrans _ _ _ (htrans _ _ _ (htrans _ _ _ hs (hget s edge)) (hedge _ c0 edge)) h
      intro _ st3 hS3
      refine wp_mono _ _ _ _ (wp_for_each _ _ (fun s => R st s) ?_ st3 hS3) ?_
      · intro f _ s hs
        unfold mark_minus_reinstall
        simp only [wp_bind, wp_pure]
        refine wp_mono _ _ _ _ (hc.2.2 f c0 s) ?_
        intro _ s' h
        exact htrans _ _ _ hs h
      intro _ st4 hS4
      refine wp_for_each _ _ (fun s => R st s) ?_ st4 hS4
      intro d _ s hs
      unfold mark_minus_new_default
      simp only [wp_ite, wp_bind, wp_pure]
      refine ⟨fun _ => ?_, fun _ => hs⟩
      refine wp_mono _ _ _ _ (hc.1 d c0 s) ?_
      intro _ s' h
      exact htrans _ _ _ hs h

/-- The body of `follow_plus_dependencies` relates the states before and after by `R` when
its callees do and its own changes of the state do. -/
theorem follow_plus_dependencies_body_rel (env : Env) (pdf : List String)
    (R : PlanState → PlanState → Prop)
    (hrefl : ∀ a, R a a) (htrans : ∀ a b c, R a b → R b c → R a c)
    (hinsert : ∀ (st : PlanState) c f, R st (PlanState.modify env { st with graph_plan :=
      { st.graph_plan with install_graph := st.graph_plan.install_graph.add_vertex c } } c
      (fun c => { c with to_install_features := set_insert string_less f c.to_install_features })))
    (hget : ∀ st c, R st (st.get env c))
    (hedge : ∀ st c d, R st { st with graph_plan :=
      { st.graph_plan with install_graph := st.graph_plan.install_graph.add_edge c d } })
    (callee : Marking) (hc : callee.Meets (MarkingSpec.rel R)) (f : String)
    (c0 : PackageSpec) (st : PlanState) :
    wp (follow_plus_dependencies_body env pdf callee f c0) (fun _ st' => R st st') st := by
  unfold follow_plus_dependencies_body
  simp only [wp_bind, wp_get]
  split
  · split
    · rename_i build_edges hfind
      simp only [wp_bind]
      refine wp_mono _ _ _ _ (hc.2.1 c0 st) ?_
      intro _ st1 h1
      refine wp_modify_named _ _ _ ?_
      intro st2 hst2
      refine wp_modify_named _ _ _ ?_
      intro st3 hst3
      have hR3 : R st st3 := by
        subst hst3; subst hst2
        exact htrans _ _ _ h1 (hinsert st1 c0 f)
      refine wp_mono _ (fun _ s => R st s) _ _ ?_ ?_
      · rw [wp_ite]
        refine ⟨fun _ => ?_, fun _ => (wp_pure _ _ _).mpr hR3⟩
        simp only [wp_bind]
        refine wp_mono _ _ _ _ (hc.1 "core" c0 st3) ?_
        intro r s4 h
        rw [wp_check_exit]
        intro _
        exact htrans _ _ _ hR3 h
      · intro _ s4 hS4
        simp only [wp_get]
        refine wp_mono _ (fun _ s => R st s) _ _ ?_ ?_
        · rw [wp_ite]
          refine ⟨fun _ => ?_, fun _ => (wp_pure _ _ _).mpr hS4⟩
          simp only [wp_bind]
          refine wp_mono _ _ _ _ (hc.1 "" c0 s4) ?_
          intro r s5 h
          rw [wp_check_exit]
          intro _
          exact htrans _ _ _ hS4 h
        · intro _ s5 hS5
          refine wp_mono _ _ _ _ (wp_for_each _ _ (fun s => R st s) ?_ s5 hS5) ?_
          · intro depend _ s hs
            unfold follow_plus_dependencies_edge
            simp only [wp_bind, wp_modify]
            refine wp_mono _ _ _ _ (hc.1 depend.feature depend.spec _) ?_
            intro r s' h
            rw [wp_check_exit]
            intro _
            have hs' : R st s' := htrans _ _ _ (htrans _ _ _ hs (hget s depend.spec)) h
            rw [wp_ite]
            refine ⟨fun _ => (wp_pure _ _ _).mpr hs', fun _ => ?_⟩
            rw [wp_modify]
            exact htrans _ _ _ hs' (hedge s' c0 depend.spec)
          · intro _ s6 hS6
            exact (wp_pure _ _ _).mpr hS6
    · exact (wp_pure _ _ _).mpr (hrefl st)
  · exact (wp_pure _ _ _).mpr (hrefl st)

end Vcpkg

namespace Vcpkg

/-! ## The build edges of the features to install are edges of the install graph -/

theorem edges_done_mono (env : Env) (st st' : PlanState) (u : PackageSpec) (f : String)
    (hsrc : (st'.cluster env u).source = (st.cluster env u).source)
    (hkept : EdgesKept st st') (h : st.EdgesDone env u f) : st'.EdgesDone env u f := by
  intro src es hs hf x hx hne
  exact hkept _ _ (h src es (by rw [← hsrc]; exact hs) hf x hx hne)

theorem edges_rel_refl (env : Env) (st : PlanState) : EdgesRel env st st :=
  ⟨fun _ => rfl, fun _ _ h => h, fun _ h => h⟩

theorem edges_rel_trans (env : Env) (a b c : PlanState) (hab : EdgesRel env a b)
    (hbc : EdgesRel env b c) : EdgesRel env a c :=
  ⟨fun x => by rw [hbc.1 x, hab.1 x], fun u d h => hbc.2.1 u d (hab.2.1 u d h),
    fun p h => hbc.2.2 p (hab.2.2 p h)⟩

/-- A change of the state that keeps the source halves and the features to install and
loses no edge of the install graph. -/
theorem edges_rel_of_view (env : Env) (st st' : PlanState)
    (hsrc : ∀ c, (st'.cluster env c).source = (st.cluster env c).source)
    (hfeat : ∀ c, (st'.cluster env c).to_install_features =
      (st.cluster env c).to_install_features)
    (hkept : EdgesKept st st') : EdgesRel env st st' := by
  refine ⟨hsrc, hkept, fun pending h u f hf hp => ?_⟩
  rw [hfeat u] at hf
  exact edges_done_mono env st st' u f (hsrc u) hkept (h u f hf hp)

theorem edges_rel_modify (env : Env) (st : PlanState) (c0 : PackageSpec)
    (g : Cluster → Cluster) (hsrc : ∀ c, (g c).source = c.source)
    (hfeat : ∀ c, (g c).to_install_features = c.to_install_features) :
    EdgesRel env st (st.modify env c0 g) := by
  refine edges_rel_of_view env st _ ?_ ?_ (fun _ _ h => h)
  · intro c
    simp only [PlanState.state_cluster_modify]
    split
    · rename_i e; subst e; exact hsrc _
    · rfl
  · intro c
    simp only [PlanState.state_cluster_modify]
    split
    · rename_i e; subst e; exact hfeat _
    · rfl

theorem edges_rel_get (env : Env) (st : PlanState) (c : PackageSpec) :
    EdgesRel env st (st.get env c) :=
  edges_rel_of_view env st _ (fun c => by simp) (fun c => by simp) (fun _ _ h => h)

theorem edges_rel_remove_graph (env : Env) (st : PlanState) (g : Graph) :
    EdgesRel env st { st with graph_plan := { st.graph_plan with remove_graph := g } } :=
  edges_rel_of_view env st _ (fun _ => rfl) (fun _ => rfl) (fun _ _ h => h)

theorem edges_rel_install_vertex (env : Env) (st : PlanState) (c : PackageSpec) :
    EdgesRel env st { st with graph_plan :=
      { st.graph_plan with install_graph := st.graph_plan.install_graph.add_vertex c } } :=
  edges_rel_of_view env st _ (fun _ => rfl) (fun _ => rfl)
    (fun u d h => by simpa only [Graph.adjacency_list_add_vertex] using h)

theorem edges_rel_install_edge (env : Env) (st : PlanState) (c d : PackageSpec) :
    EdgesRel env st { st with graph_plan :=
      { st.graph_plan with install_graph := st.graph_plan.install_graph.add_edge c d } } :=
  edges_rel_of_view env st _ (fun _ => rfl) (fun _ => rfl)
    (fun _ _ h => (Graph.mem_adjacency_list_add_edge _ _ _ _ _).2 (Or.inr h))

theorem follow_plus_dependencies_body_edges (env : Env) (pdf : List String)
    (callee : Marking) (hc : callee.Meets (MarkingSpec.rel (EdgesRel env))) (f : String)
    (c0 : PackageSpec) (st : PlanState) :
    wp (follow_plus_dependencies_body env pdf callee f c0)
      (fun _ st' => EdgesRel env st st') st := by
  unfold follow_plus_dependencies_body
  simp only [wp_bind, wp_get]
  split
  · rename_i p_source hsrc
    split
    · rename_i build_edges hfind
      simp only [wp_bind]
      refine wp_mono _ _ _ _ (hc.2.1 c0 st) ?_
      intro _ st1 h1
      refine wp_modify_named _ _ _ ?_
      intro st2 hst2
      have h2 : EdgesRel env st st2 := by
        subst hst2
        exact edges_rel_trans env _ _ _ h1 (edges_rel_install_vertex env st1 c0)
      refine wp_modify_named _ _ _ ?_
      intro st3 hst3
      -- the state in which the feature is inserted and its edges are pending
      have hJ3 : (∀ c, (st3.cluster env c).source = (st.cluster env c).source) ∧
          EdgesKept st st3 ∧
          ∀ pending, st.EdgesClosed env pending →
            st3.EdgesClosed env (fun u g => pending u g ∨ (u = c0 ∧ g = f)) := by
        subst hst3
        refine ⟨fun c => ?_, fun u d h => h2.2.1 u d h, fun pending hp u g hg hnp => ?_⟩
        · refine Eq.trans ?_ (h2.1 c)
          exact source_modify_eq env st2 c0 _ (by intro _; rfl) c
        · refine edges_done_mono env st2 _ u g
            (source_modify_eq env st2 c0 _ (by intro _; rfl) u) (fun _ _ h => h) ?_
          refine h2.2.2 pending hp u g ?_ (fun hpu => hnp (Or.inl hpu))
          simp only [PlanState.state_cluster_modify] at hg
          split at hg
          · rename_i e
            subst e
            rcases (mem_set_insert _ _ _ _).mp hg with e | hg
            · exact absurd (Or.inr ⟨rfl, e⟩) hnp
            · exact hg
          · exact hg
      -- a call of a callee keeps that
      have hcall : ∀ s s', ((∀ c, (s.cluster env c).source = (st.cluster env c).source) ∧
          EdgesKept st s ∧
          ∀ pending, st.EdgesClosed env pending →
            s.EdgesClosed env (fun u g => pending u g ∨ (u = c0 ∧ g = f))) →
          EdgesRel env s s' →
          ((∀ c, (s'.cluster env c).source = (st.cluster env c).source) ∧
          EdgesKept st s' ∧
          ∀ pending, st.EdgesClosed env pending →
            s'.EdgesClosed env (fun u g => pending u g ∨ (u = c0 ∧ g = f))) := by
        intro s s' hs hr
        exact ⟨fun c => by rw [hr.1 c, hs.1 c], fun u d h => hr.2.1 u d (hs.2.1 u d h),
          fun pending hp => hr.2.2 _ (hs.2.2 pending hp)⟩
      refine wp_mono _ (fun _ s =>
          (∀ c, (s.cluster env c).source = (st.cluster env c).source) ∧
          EdgesKept st s ∧
          ∀ pending, st.EdgesClosed env pending →
            s.EdgesClosed env (fun u g => pending u g ∨ (u = c0 ∧ g = f))) _ _ ?_ ?_
      · rw [wp_ite]
        refine ⟨fun _ => ?_, fun _ => (wp_pure _ _ _).mpr hJ3⟩
        simp only [wp_bind]
        refine wp_mono _ _ _ _ (hc.1 "core" c0 st3) ?_
        intro r s4 h
        rw [wp_check_exit]
        intro _
        exact hcall st3 s4 hJ3 h
      · intro _ s4 hJ4
        simp only [wp_get]
        refine wp_mono _ (fun _ s =>
            (∀ c, (s.cluster env c).source = (st.cluster env c).source) ∧
            EdgesKept st s ∧
            ∀ pending, st.EdgesClosed env pending →
              s.EdgesClosed env (fun u g => pending u g ∨ (u = c0 ∧ g = f))) _ _ ?_ ?_
        · rw [wp_ite]
          refine ⟨fun _ => ?_, fun _ => (wp_pure _ _ _).mpr hJ4⟩
          simp only [wp_bind]
          refine wp_mono _ _ _ _ (hc.1 "" c0 s4) ?_
          intro r s5 h
          rw [wp_check_exit]
          intro _
          exact hcall s4 s5 hJ4 h
        · intro _ s5 hJ5
          refine wp_mono _ _ _ _
            (wp_for_each_from (follow_plus_dependencies_edge env callee f c0)
              (fun pre s =>
                ((∀ c, (s.cluster env c).source = (st.cluster env c).source) ∧
                EdgesKept st s ∧
                ∀ pending, st.EdgesClosed env pending →
                  s.EdgesClosed env (fun u g => pending u g ∨ (u = c0 ∧ g = f))) ∧
                ∀ x ∈ pre, x.spec ≠ c0 →
                  x.spec ∈ s.graph_plan.install_graph.adjacency_list c0)
              build_edges [] ?_ s5 ⟨hJ5, fun x hx => by simp at hx⟩) ?_
          · intro pre depend _ _ s hs
            unfold follow_plus_dependencies_edge
            simp only [wp_bind, wp_modify]
            refine wp_mono _ _ _ _ (hc.1 depend.feature depend.spec _) ?_
            intro r s' h
            rw [wp_check_exit]
            intro _
            have hr : EdgesRel env s s' :=
              edges_rel_trans env _ _ _ (edges_rel_get env s depend.spec) h
            have hJ' := hcall s s' hs.1 hr
            have hpre' : ∀ x ∈ pre, x.spec ≠ c0 →
                x.spec ∈ s'.graph_plan.install_graph.adjacency_list c0 :=
              fun x hx hne => hr.2.1 _ _ (hs.2 x hx hne)
            rw [wp_ite]
            refine ⟨fun he => (wp_pure _ _ _).mpr ⟨hJ', fun x hx hne => ?_⟩, fun hne => ?_⟩
            · rcases List.mem_append.mp hx with hx | hx
              · exact hpre' x hx hne
              · simp only [List.mem_singleton] at hx
                subst hx
                exact absurd he hne
            · rw [wp_modify]
              have hr2 := edges_rel_install_edge env s' c0 depend.spec
              refine ⟨hcall s' _ hJ' hr2, fun x hx hnx => ?_⟩
              rcases List.mem_append.mp hx with hx | hx
              · exact hr2.2.1 _ _ (hpre' x hx hnx)
              · simp only [List.mem_singleton] at hx
                subst hx
                exact (Graph.mem_adjacency_list_add_edge _ _ _ _ _).2 (Or.inl ⟨rfl, rfl⟩)
          · intro _ s6 hS6
            rw [wp_pure]
            simp only [List.nil_append] at hS6
            obtain ⟨⟨hsrc6, hkept6, hclosed6⟩, hdone⟩ := hS6
            refine ⟨hsrc6, hkept6, fun pending hp u g hg hnp => ?_⟩
            by_cases e : u = c0 ∧ g = f
            · obtain ⟨e1, e2⟩ := e
              subst e1
              subst e2
              intro src es hs hf x hx hne
              rw [hsrc6 u, hsrc] at hs
              simp only [Option.some.injEq] at hs
              subst hs
              rw [hfind] at hf
              simp only [Option.some.injEq] at hf
              subst hf
              exact hdone x hx hne
            · exact hclosed6 pending hp u g hg (fun h => h.elim hnp e)
    · exact (wp_pure _ _ _).mpr (edges_rel_refl env st)
  · exact (wp_pure _ _ _).mpr (edges_rel_refl env st)

/-- The marking procedures keep `EdgesClosed`. -/
theorem marking_edges (env : Env) (pdf : List String) (fuel : Nat) :
    (marking env pdf fuel).Meets (MarkingSpec.rel (EdgesRel env)) :=
  marking_meets env pdf (MarkingSpec.rel (EdgesRel env))
    (fun callee hc f c st =>
      mark_plus_body_rel env (EdgesRel env) (edges_rel_refl env) (edges_rel_trans env)
        (fun st c _ => edges_rel_modify env st c _ (by intro _; rfl) (by intro _; rfl))
        callee hc f c st)
    (fun callee hc c st =>
      mark_minus_body_rel env (EdgesRel env) (edges_rel_refl env) (edges_rel_trans env)
        (fun st c => edges_rel_modify env st c _ (by intro _; rfl) (by intro _; rfl))
        (fun st c => edges_rel_get env st c)
        (fun st _ => edges_rel_remove_graph env st _)
        (fun st _ _ => edges_rel_remove_graph env st _)
        callee hc c st)
    (fun callee hc f c st => follow_plus_dependencies_body_edges env pdf callee hc f c st) fuel

end Vcpkg

namespace Vcpkg

/-! ## The computed dependencies of a build action (C30) -/

theorem package_spec_less_strict_total : StrictTotalOrder PackageSpec.less := by
  have hs := string_less_strict_total
  refine ⟨?_, ?_, ?_⟩
  · intro a
    simp only [PackageSpec.less, hs.1, Bool.false_or, Bool.and_false]
  · intro a b c hab hbc
    simp only [PackageSpec.less, Bool.or_eq_true, Bool.and_eq_true, decide_eq_true_eq] at *
    rcases hab with hab | ⟨e1, hab⟩
    · rcases hbc with hbc | ⟨e2, hbc⟩
      · exact Or.inl (hs.2.1 _ _ _ hab hbc)
      · exact Or.inl (by rw [← e2]; exact hab)
    · rcases hbc with hbc | ⟨e2, hbc⟩
      · exact Or.inl (by rw [e1]; exact hbc)
      · exact Or.inr ⟨e1.trans e2, hs.2.1 _ _ _ hab hbc⟩
  · intro a b hne
    simp only [PackageSpec.less, Bool.or_eq_true, Bool.and_eq_true, decide_eq_true_eq]
    by_cases hn : a.name = b.name
    · have ht : a.triplet ≠ b.triplet := by
        intro ht
        apply hne
        cases a; cases b
        simp only at hn ht
        rw [hn, ht]
      rcases hs.2.2 _ _ ht with h | h
      · exact Or.inl (Or.inr ⟨hn, h⟩)
      · exact Or.inr (Or.inr ⟨hn.symm, h⟩)
    · rcases hs.2.2 _ _ hn with h | h
      · exact Or.inl (Or.inl h)
      · exact Or.inr (Or.inl h)

theorem set_insert_sorted {α : Type} [DecidableEq α] (less : α → α → Bool)
    (h : StrictTotalOrder less) (x : α) (l : List α)
    (hl : l.Pairwise (fun a b => less a b = true)) :
    (set_insert less x l).Pairwise (fun a b => less a b = true) := by
  induction l with
  | nil => simp [set_insert]
  | cons y ys ih =>
    simp only [set_insert]
    rw [List.pairwise_cons] at hl
    split
    · exact List.pairwise_cons.mpr hl
    · rename_i hne
      split
      · rename_i hlt
        refine List.pairwise_cons.mpr ⟨fun z hz => ?_, List.pairwise_cons.mpr hl⟩
        rcases List.mem_cons.mp hz with e | hz
        · rw [e]; exact hlt
        · exact h.2.1 _ _ _ hlt (hl.1 z hz)
      · rename_i hnlt
        refine List.pairwise_cons.mpr ⟨fun z hz => ?_, ih hl.2⟩
        rcases (mem_set_insert less x z ys).mp hz with e | hz
        · rw [e]
          rcases h.2.2 x y hne with h1 | h1
          · exact absurd h1 hnlt
          · exact h1
        · exact hl.1 z hz

theorem sort_unique_erase_sorted (specs : List PackageSpec) :
    (sort_unique_erase specs).Pairwise (fun a b => PackageSpec.less a b = true) := by
  unfold sort_unique_erase
  have key : ∀ (l acc : List PackageSpec),
      acc.Pairwise (fun a b => PackageSpec.less a b = true) →
      (l.foldl (fun sorted spec => set_insert PackageSpec.less spec sorted) acc).Pairwise
        (fun a b => PackageSpec.less a b = true) := by
    intro l
    induction l with
    | nil => intro acc h; exact h
    | cons x rest ih =>
      intro acc h
      simp only [List.foldl_cons]
      exact ih _ (set_insert_sorted _ package_spec_less_strict_total x acc h)
  exact key specs [] List.Pairwise.nil

theorem sorted_nodup {α : Type} (less : α → α → Bool) (h : StrictTotalOrder less)
    (l : List α) (hl : l.Pairwise (fun a b => less a b = true)) : l.Nodup := by
  refine List.Pairwise.imp ?_ hl
  intro a b hab e
  rw [e, h.1 b] at hab
  cases hab

theorem edges_closed_init (env : Env) (status_db : StatusParagraphs) (g : ClusterGraph)
    (h : create_feature_install_graph env status_db = Except.ok g) :
    PlanState.EdgesClosed env (fun _ _ => False) { m_graph := g, graph_plan := {} } := by
  intro u f hf
  rw [(init_cluster_fresh env status_db g h u).2.2.1] at hf
  simp at hf

/-- In the marked state the build edges of every feature to install are edges of the
install graph. -/
theorem marked_state_edges_closed (env : Env) (fuel : Nat) (specs : List FeatureSpec)
    (status_db : StatusParagraphs) (marked : PlanState)
    (h : marked_state env fuel specs status_db = Except.ok marked) :
    marked.EdgesClosed env (fun _ _ => False) := by
  rw [marked_state_ok] at h
  obtain ⟨g, hg, hrun⟩ := h
  exact install_all_inv env fuel _ (fun st => st.EdgesClosed env (fun _ _ => False))
    (fun st c hs => (edges_rel_get env st c).2.2 _ hs)
    (fun st c hs => (edges_rel_modify env st c _ (by intro _; rfl) (by intro _; rfl)).2.2 _ hs)
    (fun f c st => wp_mono _ _ _ _ ((marking_edges env _ fuel).1 f c st)
      (fun _ _ hr hs => hr.2.2 _ hs))
    (fun st c hs => (edges_rel_install_vertex env st c).2.2 _ hs)
    specs _ (edges_closed_init env status_db g hg) () marked hrun

/-- C30 (computed dependencies of a build action): for every `BUILD_AND_INSTALL` action of
a plan returned by `create_feature_install_plan`, `computed_dependencies` is sorted by the
order of the specs, has no duplicates and does not contain the spec of the action; the
action carries the port of its package, and a spec is among the computed dependencies
exactly when it is not the spec of the action and is the package of a build edge (an entry
of the dependency list filtered for the triplet of the action) of a feature of the
`feature_list`. -/
theorem computed_dependencies_of_build (env : Env) (fuel : Nat) (specs : List FeatureSpec)
    (status_db : StatusParagraphs) (plan : List AnyAction)
    (h : create_feature_install_plan env fuel specs status_db = Except.ok plan)
    (a : InstallPlanAction) (ha : AnyAction.install_action a ∈ plan)
    (hb : a.plan_type = InstallPlanType.BUILD_AND_INSTALL) :
    a.computed_dependencies.Pairwise (fun x y => PackageSpec.less x y = true) ∧
    a.computed_dependencies.Nodup ∧
    a.spec ∉ a.computed_dependencies ∧
    ∃ scf, a.build_action = some scf ∧ env.get_control_file a.spec.name = some scf ∧
      ∀ d, d ∈ a.computed_dependencies ↔
        (d ≠ a.spec ∧ ∃ f ∈ a.feature_list, ∃ es,
          AssocMap.find (cluster_from_scf env scf a.spec.triplet).build_edges f = some es ∧
          ∃ x ∈ es, x.spec = d) := by
  obtain ⟨marked, rs, is, installs, hm, hr, hi, hinst, hplan, hmemi, hmemr⟩ :=
    plan_parts env fuel specs status_db plan h
  have hR := marked_state_reached env fuel specs status_db marked hm
  have hE := marked_state_edges_closed env fuel specs status_db marked hm
  have hwk := marked_state_well_keyed env fuel specs status_db marked hm
  have ha' := (hmemi a).mp ha
  obtain ⟨_, src, hsrc, hbuild⟩ :=
    serialize_install_build_source env marked hwk is installs hinst a ha' hb
  obtain ⟨_, _, hfl, hdeps⟩ := serialize_install_build env marked hwk is installs hinst a ha' hb
  have hmap : (marked.graph_plan.install_graph.adjacency_list a.spec).map
      (fun q => (marked.cluster env q).spec) =
      marked.graph_plan.install_graph.adjacency_list a.spec := by
    conv_rhs => rw [← List.map_id (marked.graph_plan.install_graph.adjacency_list a.spec)]
    exact List.map_congr_left (fun q _ => hwk.1 q)
  rw [hmap] at hdeps
  have hsorted : a.computed_dependencies.Pairwise (fun x y => PackageSpec.less x y = true) := by
    rw [hdeps]; exact sort_unique_erase_sorted _
  have hmem : ∀ d, d ∈ a.computed_dependencies ↔
      d ∈ marked.graph_plan.install_graph.adjacency_list a.spec := by
    intro d; rw [hdeps, mem_sort_unique_erase]
  have hsrc' := hsrc
  rw [marked_state_sourced env fuel specs status_db marked hm a.spec] at hsrc'
  cases hp : env.get_control_file a.spec.name with
  | none => rw [hp] at hsrc'; cases hsrc'
  | some scf =>
    rw [hp] at hsrc'
    simp only [Option.map_some', Option.some.injEq] at hsrc'
    refine ⟨hsorted, sorted_nodup _ package_spec_less_strict_total _ hsorted, ?_, scf, ?_, rfl, ?_⟩
    · intro hself
      exact (hR.2.2.1 a.spec a.spec ((hmem _).mp hself)).2.1 rfl
    · rw [hbuild, ← hsrc']; rfl
    · intro d
      rw [hmem d]
      constructor
      · intro hd
        obtain ⟨hne, f, src2, es, x, hf, hs2, hfind, hx, hxd⟩ := (hR.2.2.1 a.spec d hd).2
        rw [hsrc] at hs2
        simp only [Option.some.injEq] at hs2
        refine ⟨hne, f, by rw [hfl]; exact hf, es, ?_, x, hx, hxd⟩
        rw [hsrc', hs2]; exact hfind
      · rintro ⟨hne, f, hf, es, hfind, x, hx, hxd⟩
        rw [hfl] at hf
        rw [← hxd]
        refine hE a.spec f hf (fun hf => hf) src es hsrc ?_ x hx (by rw [hxd]; exact hne)
        rw [← hsrc']; exact hfind

/-- Installing `a[core]`, whose core depends on `b`, on an empty installation: the computed
dependencies of the build action for `a` are exactly `b`. -/
theorem computed_dependencies_of_build_witness :
    ab_install_a.computed_dependencies.Pairwise (fun x y => PackageSpec.less x y = true) ∧
    ab_install_a.computed_dependencies.Nodup ∧
    ab_install_a.spec ∉ ab_install_a.computed_dependencies ∧
    ∃ scf, ab_install_a.build_action = some scf ∧
      ab_env.get_control_file ab_install_a.spec.name = some scf ∧
      ∀ d, d ∈ ab_install_a.computed_dependencies ↔
        (d ≠ ab_install_a.spec ∧ ∃ f ∈ ab_install_a.feature_list, ∃ es,
          AssocMap.find (cluster_from_scf ab_env scf ab_install_a.spec.triplet).build_edges f =
            some es ∧
          ∃ x ∈ es, x.spec = d) :=
  computed_dependencies_of_build ab_env 10 [⟨⟨"a", x64_linux⟩, "core"⟩] []
    [AnyAction.install_action ab_install_b, AnyAction.install_action ab_install_a]
    (by decide) ab_install_a (by decide) (by decide)

end Vcpkg

namespace Vcpkg

/-! ## The remove graph is closed under the remove edges -/

theorem remove_kept_refl (env : Env) (st : PlanState) : RemoveKept env st st :=
  ⟨fun _ => rfl, fun _ h => h, fun _ h => h, fun _ _ h => h⟩

theorem remove_kept_trans (env : Env) (a b c : PlanState) (hab : RemoveKept env a b)
    (hbc : RemoveKept env b c) : RemoveKept env a c :=
  ⟨fun x => by rw [hbc.1 x, hab.1 x], fun x h => hbc.2.1 x (hab.2.1 x h),
    fun v h => hbc.2.2.1 v (hab.2.2.1 v h), fun u d h => hbc.2.2.2 u d (hab.2.2.2 u d h)⟩

theorem remove_rel_refl (env : Env) (st : PlanState) : RemoveRel env st st :=
  ⟨remove_kept_refl env st, fun _ _ h => h⟩

theorem remove_rel_trans (env : Env) (a b c : PlanState) (hab : RemoveRel env a b)
    (hbc : RemoveRel env b c) : RemoveRel env a c :=
  ⟨remove_kept_trans env a b c hab.1 hbc.1, fun p q h => hbc.2 p q (hab.2 p q h)⟩

theorem remove_closed_weaken (env : Env) (pendV pendM pendV' pendM' : PackageSpec → Prop)
    (st : PlanState) (hV : ∀ v, pendV v → pendV' v) (hM : ∀ v, pendM v → pendM' v)
    (h : st.RemoveClosed env pendV pendM) : st.RemoveClosed env pendV' pendM' :=
  ⟨fun v hv hp => h.1 v hv (fun hp' => hp (hV v hp')),
    fun v i hm hi hp => h.2 v i hm hi (fun hp' => hp (hM v hp'))⟩

/-- A change of the state that leaves the installed halves, the minus marks and the remove
graph as they are. -/
theorem remove_rel_of_view (env : Env) (st st' : PlanState)
    (hinst : ∀ c, (st'.cluster env c).installed = (st.cluster env c).installed)
    (hminus : ∀ c, (st'.cluster env c).minus = (st.cluster env c).minus)
    (hgraph : st'.graph_plan.remove_graph = st.graph_plan.remove_graph) :
    RemoveRel env st st' := by
  refine ⟨⟨hinst, fun c h => by rw [hminus c]; exact h, fun v h => by rw [hgraph]; exact h,
    fun u d h => by rw [hgraph]; exact h⟩, fun pendV pendM h => ⟨fun v hv hp => ?_,
      fun v i hm hi hp => ?_⟩⟩
  · rw [hminus v]
    rw [hgraph] at hv
    exact h.1 v hv hp
  · rw [hminus v] at hm
    rw [hinst v] at hi
    rw [hgraph]
    exact h.2 v i hm hi hp

theorem remove_rel_modify (env : Env) (st : PlanState) (c0 : PackageSpec)
    (g : Cluster → Cluster) (hinst : ∀ c, (g c).installed = c.installed)
    (hminus : ∀ c, (g c).minus = c.minus) : RemoveRel env st (st.modify env c0 g) := by
  refine remove_rel_of_view env st _ ?_ ?_ rfl
  · intro c
    simp only [PlanState.state_cluster_modify]
    split
    · rename_i e; subst e; exact hinst _
    · rfl
  · intro c
    simp only [PlanState.state_cluster_modify]
    split
    · rename_i e; subst e; exact hminus _
    · rfl

theorem remove_rel_get (env : Env) (st : PlanState) (c : PackageSpec) :
    RemoveRel env st (st.get env c) :=
  remove_rel_of_view env st _ (fun c => by simp) (fun c => by simp) rfl

theorem remove_rel_install_graph (env : Env) (st : PlanState) (g : Graph) :
    RemoveRel env st { st with graph_plan := { st.graph_plan with install_graph := g } } :=
  remove_rel_of_view env st _ (fun _ => rfl) (fun _ => rfl) rfl

theorem remove_rel_insert (env : Env) (st : PlanState) (c : PackageSpec) (f : String) :
    RemoveRel env st (PlanState.modify env { st with graph_plan :=
      { st.graph_plan with install_graph := st.graph_plan.install_graph.add_vertex c } } c
      (fun c => { c with to_install_features := set_insert string_less f c.to_install_features })) :=
  remove_rel_trans env _ _ _ (remove_rel_install_graph env st _)
    (remove_rel_modify env _ c _ (by intro _; rfl) (by intro _; rfl))

/-- A callee that meets the specification of the remove graph relates the states before
and after each call by `RemoveRel`. -/
theorem remove_closed_spec_rel (env : Env) (callee : Marking)
    (hc : callee.Meets (remove_closed_spec env)) :
    callee.Meets (MarkingSpec.rel (RemoveRel env)) :=
  ⟨hc.1, fun c st => wp_mono _ _ _ _ (hc.2.1 c st) (fun _ _ h =>
    ⟨h.1, fun pendV pendM hp =>
      remove_closed_weaken env _ _ _ _ _ (fun _ hv => hv.1) (fun _ hm => hm) (h.2 pendV pendM hp)⟩),
    hc.2.2⟩

theorem mark_minus_body_remove_closed (env : Env) (callee : Marking)
    (hc : callee.Meets (remove_closed_spec env)) (c0 : PackageSpec) (st : PlanState) :
    wp (mark_minus_body env callee c0)
      (fun _ => (remove_closed_spec env).mark_minus c0 st) st := by
  have hcr := remove_closed_spec_rel env callee hc
  unfold mark_minus_body
  simp only [wp_bind, wp_get]
  rw [wp_ite]
  refine ⟨fun hmin => (wp_pure _ _ _).mpr ⟨remove_kept_refl env st, fun pendV pendM h =>
    ⟨fun v hv hp => ?_, h.2⟩⟩, fun hnot => ?_⟩
  · by_cases e : v = c0
    · rw [e]; exact hmin
    · exact h.1 v hv (fun hpv => hp ⟨hpv, e⟩)
  simp only [wp_bind]
  refine wp_modify_named _ _ _ ?_
  intro st1 hst1
  have hinst1 : ∀ c, (st1.cluster env c).installed = (st.cluster env c).installed := by
    subst hst1
    intro c
    simp only [PlanState.state_cluster_modify]
    split
    · rename_i e; subst e; rfl
    · rfl
  have hmin1 : ∀ c, (st1.cluster env c).minus = true ↔
      (c = c0 ∨ (st.cluster env c).minus = true) := by
    subst hst1
    intro c
    simp only [PlanState.state_cluster_modify]
    split
    · rename_i e; subst e; simp
    · rename_i e
      constructor
      · exact Or.inr
      · rintro (h | h)
        · exact absurd h e
        · exact h
  have hg1 : st1.graph_plan = st.graph_plan := by subst hst1; rfl
  have hK1 : RemoveKept env st st1 :=
    ⟨hinst1, fun c h => (hmin1 c).2 (Or.inr h), fun v h => by rw [hg1]; exact h,
      fun u d h => by rw [hg1]; exact h⟩
  have hC1 : ∀ pendV pendM, st.RemoveClosed env pendV pendM →
      st1.RemoveClosed env (fun v => pendV v ∧ v ≠ c0) (fun v => pendM v ∨ v = c0) := by
    intro pendV pendM h
    refine ⟨fun v hv hp => ?_, fun v i hm hi hp => ?_⟩
    · rw [hg1] at hv
      by_cases e : v = c0
      · exact (hmin1 v).2 (Or.inl e)
      · exact (hmin1 v).2 (Or.inr (h.1 v hv (fun hpv => hp ⟨hpv, e⟩)))
    · rw [hg1]
      have hne : v ≠ c0 := fun e => hp (Or.inr e)
      rw [hinst1 v] at hi
      exact h.2 v i (((hmin1 v).1 hm).resolve_left hne) hi (fun hpm => hp (Or.inl hpm))
  simp only [wp_get]
  split
  · exact (wp_throw _ _ _).mpr trivial
  · split
    · rename_i hnone
      refine (wp_pure _ _ _).mpr ⟨hK1, fun pendV pendM h => ?_⟩
      have h1 := hC1 pendV pendM h
      refine ⟨h1.1, fun v i hm hi hp => ?_⟩
      by_cases e : v = c0
      · rw [e, hnone] at hi; cases hi
      · exact h1.2 v i hm hi (fun hpm => hpm.elim hp e)
    · rename_i p_installed hinst
      simp only [wp_bind]
      refine wp_modify_named _ _ _ ?_
      intro st2 hst2
      have hK2 : RemoveKept env st st2 := by
        subst hst2
        refine remove_kept_trans env _ _ _ hK1 ⟨fun _ => rfl, fun _ h => h, fun v h => ?_,
          fun u d h => ?_⟩
        · exact (Graph.mem_vertex_list_add_vertex _ _ _).2 (Or.inr h)
        · simpa only [Graph.adjacency_list_add_vertex] using h
      have hv2 : c0 ∈ st2.graph_plan.remove_graph.vertex_list := by
        subst hst2
        exact (Graph.mem_vertex_list_add_vertex _ _ _).2 (Or.inl rfl)
      have hm2 : (st2.cluster env c0).minus = true := by
        subst hst2
        exact (hmin1 c0).2 (Or.inl rfl)
      have hi2 : (st2.cluster env c0).installed = some p_installed := by
        subst hst2; exact hinst
      have hC2 : ∀ pendV pendM, st.RemoveClosed env pendV pendM →
          st2.RemoveClosed env (fun v => pendV v ∧ v ≠ c0) (fun v => pendM v ∨ v = c0) := by
        intro pendV pendM h
        have h1 := hC1 pendV pendM h
        subst hst2
        refine ⟨fun v hv hp => ?_, fun v i hm hi hp => ?_⟩
        · rcases (Graph.mem_vertex_list_add_vertex _ _ _).1 hv with e | hv'
          · rw [e]; exact hm2
          · exact h1.1 v hv' hp
        · obtain ⟨ha, hb⟩ := h1.2 v i hm hi hp
          refine ⟨(Graph.mem_vertex_list_add_vertex _ _ _).2 (Or.inr ha), fun e he => ?_⟩
          obtain ⟨hb1, hb2⟩ := hb e he
          exact ⟨by simpa only [Graph.adjacency_list_add_vertex] using hb1,
            (Graph.mem_vertex_list_add_vertex _ _ _).2 (Or.inr hb2)⟩
      -- the loop over the remove edges
      refine wp_mono _ _ _ _
        (wp_for_each_from (mark_minus_remove_edge env callee c0)
          (fun pre s =>
            (RemoveKept env st s ∧ (s.cluster env c0).minus = true ∧
              c0 ∈ s.graph_plan.remove_graph.vertex_list ∧
              ∀ pendV pendM, st.RemoveClosed env pendV pendM →
                s.RemoveClosed env (fun v => pendV v ∧ v ≠ c0) (fun v => pendM v ∨ v = c0)) ∧
            ∀ e ∈ pre, e ∈ s.graph_plan.remove_graph.adjacency_list c0 ∧
              e ∈ s.graph_plan.remove_graph.vertex_list)
          p_installed.remove_edges [] ?_ st2
          ⟨⟨hK2, hm2, hv2, hC2⟩, fun e he => by simp at he⟩) ?_
      · intro pre edge _ _ s hs
        obtain ⟨⟨hKs, hms, hvs, hCs⟩, hpre⟩ := hs
        unfold mark_minus_remove_edge
        simp only [wp_bind, wp_modify, wp_check_exit]
        intro _
        refine wp_mono _ _ _ _ (hc.2.1 edge _) ?_
        intro _ s' h
        -- the state in which the edge is added
        have hKe : RemoveKept env s { (s.get env edge) with graph_plan :=
            { (s.get env edge).graph_plan with remove_graph :=
              (s.get env edge).graph_plan.remove_graph.add_edge c0 edge } } :=
          ⟨fun c => by simp, fun c hm => by simpa using hm,
            fun v hv => (Graph.mem_vertex_list_add_edge _ _ _ _).2 (Or.inr (Or.inr hv)),
            fun u d hd => (Graph.mem_adjacency_list_add_edge _ _ _ _ _).2 (Or.inr hd)⟩
        have hKs' : RemoveKept env s s' := remove_kept_trans env _ _ _ hKe h.1
        refine ⟨⟨remove_kept_trans env _ _ _ hKs hKs', hKs'.2.1 c0 hms, hKs'.2.2.1 c0 hvs,
          fun pendV pendM hp => ?_⟩, fun e he => ?_⟩
        · refine remove_closed_weaken env _ _ _ _ _ ?_ (fun _ hm => hm)
            (h.2 (fun v => (pendV v ∧ v ≠ c0) ∨ v = edge) (fun v => pendM v ∨ v = c0) ?_)
          · rintro v ⟨hv | hv, hne⟩
            · exact hv
            · exact absurd hv hne
          · have hsC := hCs pendV pendM hp
            refine ⟨fun v hv hpv => ?_, fun v i hm hi hpm => ?_⟩
            · rcases (Graph.mem_vertex_list_add_edge _ _ _ _).1 hv with e | e | hv'
              · rw [e]; simpa using hms
              · exact absurd (Or.inr e) hpv
              · have := hsC.1 v hv' (fun hx => hpv (Or.inl hx))
                simpa using this
            · have hm' : (s.cluster env v).minus = true := by simpa using hm
              have hi' : (s.cluster env v).installed = some i := by simpa using hi
              obtain ⟨ha, hb⟩ := hsC.2 v i hm' hi' hpm
              exact ⟨hKe.2.2.1 v ha, fun e he => ⟨hKe.2.2.2 v e (hb e he).1,
                hKe.2.2.1 e (hb e he).2⟩⟩
        · rcases List.mem_append.mp he with he | he
          · exact ⟨hKs'.2.2.2 c0 e (hpre e he).1, hKs'.2.2.1 e (hpre e he).2⟩
          · simp only [List.mem_singleton] at he
            subst he
            exact ⟨h.1.2.2.2 c0 e
              ((Graph.mem_adjacency_list_add_edge _ _ _ _ _).2 (Or.inl ⟨rfl, rfl⟩)),
              h.1.2.2.1 e ((Graph.mem_vertex_list_add_edge _ _ _ _).2 (Or.inr (Or.inl rfl)))⟩
      intro _ st3 hS3
      simp only [List.nil_append] at hS3
      obtain ⟨⟨hK3, hm3, hv3, hC3⟩, hdone⟩ := hS3
      have hD3 : RemoveKept env st st3 ∧ ∀ pendV pendM, st.RemoveClosed env pendV pendM →
          st3.RemoveClosed env (fun v => pendV v ∧ v ≠ c0) pendM := by
        refine ⟨hK3, fun pendV pendM hp => ⟨(hC3 pendV pendM hp).1, fun v i hm hi hpm => ?_⟩⟩
        by_cases e : v = c0
        · subst e
          rw [hK3.1 v, ← hinst1 v, hinst] at hi
          simp only [Option.some.injEq] at hi
          subst hi
          exact ⟨hv3, hdone⟩
        · exact (hC3 pendV pendM hp).2 v i hm hi (fun hx => hx.elim hpm e)
      have hstep : ∀ s s', (RemoveKept env st s ∧ ∀ pendV pendM,
          st.RemoveClosed env pendV pendM →
            s.RemoveClosed env (fun v => pendV v ∧ v ≠ c0) pendM) → RemoveRel env s s' →
          (RemoveKept env st s' ∧ ∀ pendV pendM, st.RemoveClosed env pendV pendM →
            s'.RemoveClosed env (fun v => pendV v ∧ v ≠ c0) pendM) :=
        fun s s' hs hr => ⟨remove_kept_trans env _ _ _ hs.1 hr.1,
          fun pendV pendM hp => hr.2 _ _ (hs.2 pendV pendM hp)⟩
      refine wp_mono _ _ _ _ (wp_for_each _ _
        (fun s => RemoveKept env st s ∧ ∀ pendV pendM, st.RemoveClosed env pendV pendM →
          s.RemoveClosed env (fun v => pendV v ∧ v ≠ c0) pendM) ?_ st3 hD3) ?_
      · intro f _ s hs
        unfold mark_minus_reinstall
        simp only [wp_bind, wp_pure]
        refine wp_mono _ _ _ _ (hcr.2.2 f c0 s) ?_
        intro _ s' h
        exact hstep s s' hs h
      intro _ st4 hS4
      refine wp_for_each _ _
        (fun s => RemoveKept env st s ∧ ∀ pendV pendM, st.RemoveClosed env pendV pendM →
          s.RemoveClosed env (fun v => pendV v ∧ v ≠ c0) pendM) ?_ st4 hS4
      intro d _ s hs
      unfold mark_minus_new_default
      simp only [wp_ite, wp_bind, wp_pure]
      refine ⟨fun _ => ?_, fun _ => hs⟩
      refine wp_mono _ _ _ _ (hcr.1 d c0 s) ?_
      intro _ s' h
      exact hstep s s' hs h

/-- The marking procedures keep `RemoveClosed`. -/
theorem marking_remove_closed (env : Env) (pdf : List String) (fuel : Nat) :
    (marking env pdf fuel).Meets (remove_closed_spec env) :=
  marking_meets env pdf (remove_closed_spec env)
    (fun callee hc f c st =>
      mark_plus_body_rel env (RemoveRel env) (remove_rel_refl env) (remove_rel_trans env)
        (fun st c _ => remove_rel_modify env st c _ (by intro _; rfl) (by intro _; rfl))
        callee (remove_closed_spec_rel env callee hc) f c st)
    (fun callee hc c st => mark_minus_body_remove_closed env callee hc c st)
    (fun callee hc f c st =>
      follow_plus_dependencies_body_rel env pdf (RemoveRel env) (remove_rel_refl env)
        (remove_rel_trans env) (fun st c f => remove_rel_insert env st c f)
        (fun st c => remove_rel_get env st c)
        (fun st _ _ => remove_rel_install_graph env st _)
        callee (remove_closed_spec_rel env callee hc) f c st) fuel

theorem remove_closed_init (env : Env) (status_db : StatusParagraphs) (g : ClusterGraph)
    (h : create_feature_install_graph env status_db = Except.ok g) :
    PlanState.RemoveClosed env (fun _ => False) (fun _ => False)
      { m_graph := g, graph_plan := {} } := by
  refine ⟨fun v hv _ => ?_, fun v i hm _ _ => ?_⟩
  · simp [Graph.vertex_list] at hv
  · rw [(init_cluster_fresh env status_db g h v).1] at hm; cases hm

/-- In the marked state every vertex of the remove graph is marked minus, and every
installed cluster that is marked minus is a vertex of the remove graph with an edge to each
of its remove edges. -/
theorem marked_state_remove_closed (env : Env) (fuel : Nat) (specs : List FeatureSpec)
    (status_db : StatusParagraphs) (marked : PlanState)
    (h : marked_state env fuel specs status_db = Except.ok marked) :
    marked.RemoveClosed env (fun _ => False) (fun _ => False) := by
  rw [marked_state_ok] at h
  obtain ⟨g, hg, hrun⟩ := h
  exact install_all_inv env fuel _
    (fun st => st.RemoveClosed env (fun _ => False) (fun _ => False))
    (fun st c hs => (remove_rel_get env st c).2 _ _ hs)
    (fun st c hs => (remove_rel_modify env st c _ (by intro _; rfl) (by intro _; rfl)).2 _ _ hs)
    (fun f c st => wp_mono _ _ _ _ ((marking_remove_closed env _ fuel).1 f c st)
      (fun _ _ hr hs => hr.2 _ _ hs))
    (fun st c hs => (remove_rel_install_graph env st _).2 _ _ hs)
    specs _ (remove_closed_init env status_db g hg) () marked hrun

end Vcpkg

namespace Vcpkg

/-! ## The vertices of the remove graph are installed packages -/

/-- The body of `mark_minus` relates the states before and after by `R`, a relation that
leaves the installed halves alone, when its callees do and its own changes of the state do;
the changes of the remove graph are made for an installed cluster and its remove edges. -/
theorem mark_minus_body_rel_installed (env : Env) (R : PlanState → PlanState → Prop)
    (hrefl : ∀ a, R a a) (htrans : ∀ a b c, R a b → R b c → R a c)
    (hinst : ∀ a b, R a b → ∀ c, (b.cluster env c).installed = (a.cluster env c).installed)
    (hset : ∀ st c, R st (st.modify env c (fun c =>
      { c with minus := true, transient_uninstalled := true })))
    (hget : ∀ st c, R st (st.get env c))
    (hvertex : ∀ (st : PlanState) c i, (st.cluster env c).installed = some i →
      R st { st with graph_plan :=
        { st.graph_plan with remove_graph := st.graph_plan.remove_graph.add_vertex c } })
    (hedge : ∀ (st : PlanState) c e i, (st.cluster env c).installed = some i →
      e ∈ i.remove_edges →
      R st { st with graph_plan :=
        { st.graph_plan with remove_graph := st.graph_plan.remove_graph.add_edge c e } })
    (callee : Marking) (hc : callee.Meets (MarkingSpec.rel R))
    (c0 : PackageSpec) (st : PlanState) :
    wp (mark_minus_body env callee c0) (fun _ st' => R st st') st := by
  unfold mark_minus_body
  simp only [wp_bind, wp_get]
  rw [wp_ite]
  refine ⟨fun _ => (wp_pure _ _ _).mpr (hrefl st), fun _ => ?_⟩
  simp only [wp_bind]
  refine wp_modify_named _ _ _ ?_
  intro st1 hst1
  have hR1 : R st st1 := by subst hst1; exact hset st c0
  simp only [wp_get]
  split
  · exact (wp_throw _ _ _).mpr trivial
  · split
    · exact (wp_pure _ _ _).mpr hR1
    · rename_i p_installed hi1
      simp only [wp_bind]
      refine wp_modify_named _ _ _ ?_
      intro st2 hst2
      have hR2 : R st st2 := by
        subst hst2; exact htrans _ _ _ hR1 (hvertex st1 c0 p_installed hi1)
      have hi0 : (st.cluster env c0).installed = some p_installed := by
        rw [← hinst st st1 hR1 c0]; exact hi1
      refine wp_mono _ _ _ _ (wp_for_each _ _ (fun s => R st s) ?_ st2 hR2) ?_
      · intro edge hedge_mem s hs
        unfold mark_minus_remove_edge
        simp only [wp_bind, wp_modify, wp_check_exit]
        intro _
        refine wp_mono _ _ _ _ (hc.2.1 edge _) ?_
        intro _ s' h
        have hg : R st (s.get env edge) := htrans _ _ _ hs (hget s edge)
        refine htrans _ _ _ (htrans _ _ _ hg (hedge _ c0 edge p_installed ?_ hedge_mem)) h
        rw [hinst st _ hg c0]; exact hi0
      intro _ st3 hS3
      refine wp_mono _ _ _ _ (wp_for_each _ _ (fun s => R st s) ?_ st3 hS3) ?_
      · intro f _ s hs
        unfold mark_minus_reinstall
        simp only [wp_bind, wp_pure]
        refine wp_mono _ _ _ _ (hc.2.2 f c0 s) ?_
        intro _ s' h
        exact htrans _ _ _ hs h
      intro _ st4 hS4
      refine wp_for_each _ _ (fun s => R st s) ?_ st4 hS4
      intro d _ s hs
      unfold mark_minus_new_default
      simp only [wp_ite, wp_bind, wp_pure]
      refine ⟨fun _ => ?_, fun _ => hs⟩
      refine wp_mono _ _ _ _ (hc.1 d c0 s) ?_
      intro _ s' h
      exact htrans _ _ _ hs h

theorem remove_installed_rel_refl (env : Env) (st : PlanState) :
    RemoveInstalledRel env st st := ⟨fun _ => rfl, fun h => h⟩

theorem remove_installed_rel_trans (env : Env) (a b c : PlanState)
    (hab : RemoveInstalledRel env a b) (hbc : RemoveInstalledRel env b c) :
    RemoveInstalledRel env a c :=
  ⟨fun x => by rw [hbc.1 x, hab.1 x], fun h => hbc.2 (hab.2 h)⟩

/-- A change of the state that leaves the installed halves as they are and adds only
installed packages to the vertices of the remove graph. -/
theorem remove_installed_rel_of_view (env : Env) (st st' : PlanState)
    (hinst : ∀ c, (st'.cluster env c).installed = (st.cluster env c).installed)
    (hverts : st.RemoveInstalled env → ∀ v, v ∈ st'.graph_plan.remove_graph.vertex_list →
      v ∈ st.graph_plan.remove_graph.vertex_list ∨ (st.cluster env v).installed ≠ none) :
    RemoveInstalledRel env st st' := by
  refine ⟨hinst, fun h => ⟨fun v hv => ?_, fun v i hi e he => ?_⟩⟩
  · rw [hinst v]
    rcases hverts h v hv with h1 | h1
    · exact h.1 v h1
    · exact h1
  · rw [hinst v] at hi
    rw [hinst e]
    exact h.2 v i hi e he

theorem remove_installed_rel_modify (env : Env) (st : PlanState) (c0 : PackageSpec)
    (g : Cluster → Cluster) (hinst : ∀ c, (g c).installed = c.installed) :
    RemoveInstalledRel env st (st.modify env c0 g) := by
  refine remove_installed_rel_of_view env st _ ?_ (fun _ v hv => Or.inl hv)
  intro c
  simp only [PlanState.state_cluster_modify]
  split
  · rename_i e; subst e; exact hinst _
  · rfl

theorem remove_installed_rel_get (env : Env) (st : PlanState) (c : PackageSpec) :
    RemoveInstalledRel env st (st.get env c) :=
  remove_installed_rel_of_view env st _ (fun c => by simp) (fun _ v hv => Or.inl hv)

theorem remove_installed_rel_install_graph (env : Env) (st : PlanState) (g : Graph) :
    RemoveInstalledRel env st
      { st with graph_plan := { st.graph_plan with install_graph := g } } :=
  remove_installed_rel_of_view env st _ (fun _ => rfl) (fun _ _ hv => Or.inl hv)

/-- The marking procedures keep `RemoveInstalled`. -/
theorem marking_remove_installed (env : Env) (pdf : List String) (fuel : Nat) :
    (marking env pdf fuel).Meets (MarkingSpec.rel (RemoveInstalledRel env)) :=
  marking_meets env pdf (MarkingSpec.rel (RemoveInstalledRel env))
    (fun callee hc f c st =>
      mark_plus_body_rel env _ (remove_installed_rel_refl env) (remove_installed_rel_trans env)
        (fun st c _ => remove_installed_rel_modify env st c _ (by intro _; rfl))
        callee hc f c st)
    (fun callee hc c st =>
      mark_minus_body_rel_installed env _ (remove_installed_rel_refl env)
        (remove_installed_rel_trans env) (fun _ _ h => h.1)
        (fun st c => remove_installed_rel_modify env st c _ (by intro _; rfl))
        (fun st c => remove_installed_rel_get env st c)
        (fun st c i hi => remove_installed_rel_of_view env st _ (fun _ => rfl)
          (fun _ v hv => by
            rcases (Graph.mem_vertex_list_add_vertex _ _ _).1 hv with e | hv'
            · right; rw [e, hi]; exact Option.some_ne_none i
            · exact Or.inl hv'))
        (fun st c e i hi he => remove_installed_rel_of_view env st _ (fun _ => rfl)
          (fun h v hv => by
            rcases (Graph.mem_vertex_list_add_edge _ _ _ _).1 hv with e1 | e1 | hv'
            · right; rw [e1, hi]; exact Option.some_ne_none i
            · right; rw [e1]; exact h.2 c i hi e he
            · exact Or.inl hv'))
        callee hc c st)
    (fun callee hc f c st =>
      follow_plus_dependencies_body_rel env pdf _ (remove_installed_rel_refl env)
        (remove_installed_rel_trans env)
        (fun st c f => remove_installed_rel_trans env _ _ _
          (remove_installed_rel_install_graph env st _)
          (remove_installed_rel_modify env _ c _ (by intro _; rfl)))
        (fun st c => remove_installed_rel_get env st c)
        (fun st _ _ => remove_installed_rel_install_graph env st _)
        callee hc f c st) fuel

theorem remove_installed_init (env : Env) (status_db : StatusParagraphs) (g : ClusterGraph)
    (h : create_feature_install_graph env status_db = Except.ok g) :
    PlanState.RemoveInstalled env { m_graph := g, graph_plan := {} } := by
  refine ⟨fun v hv => ?_, fun v i hi e he => ?_⟩
  · simp [Graph.vertex_list] at hv
  · obtain ⟨_, hnone, hsome⟩ := create_feature_install_graph_cluster env status_db g h v
    cases hl : last_installed status_db v with
    | none =>
      have := hnone hl
      rw [show (PlanState.cluster env { m_graph := g, graph_plan := {} } v).installed =
        (ClusterGraph.cluster env g v).installed from rfl] at hi
      rw [this] at hi; cases hi
    | some ipv =>
      obtain ⟨i', hi', _, _, hedges⟩ := hsome ipv hl
      rw [show (PlanState.cluster env { m_graph := g, graph_plan := {} } v).installed =
        (ClusterGraph.cluster env g v).installed from rfl, hi'] at hi
      simp only [Option.some.injEq] at hi
      subst hi
      obtain ⟨dependent, hd, hspec, _⟩ := (hedges e).1 he
      obtain ⟨ipv', hl'⟩ := (last_installed_isSome status_db e).2 ⟨dependent, hd, hspec⟩
      obtain ⟨_, _, hsome'⟩ := create_feature_install_graph_cluster env status_db g h e
      obtain ⟨i'', hi'', _⟩ := hsome' ipv' hl'
      rw [show (PlanState.cluster env { m_graph := g, graph_plan := {} } e).installed =
        (ClusterGraph.cluster env g e).installed from rfl, hi'']
      exact Option.some_ne_none _

/-- In the marked state every vertex of the remove graph is an installed package. -/
theorem marked_state_remove_installed (env : Env) (fuel : Nat) (specs : List FeatureSpec)
    (status_db : StatusParagraphs) (marked : PlanState)
    (h : marked_state env fuel specs status_db = Except.ok marked) :
    marked.RemoveInstalled env := by
  rw [marked_state_ok] at h
  obtain ⟨g, hg, hrun⟩ := h
  exact install_all_inv env fuel _ (fun st => st.RemoveInstalled env)
    (fun st c hs => (remove_installed_rel_get env st c).2 hs)
    (fun st c hs => (remove_installed_rel_modify env st c _ (by intro _; rfl)).2 hs)
    (fun f c st => wp_mono _ _ _ _ ((marking_remove_installed env _ fuel).1 f c st)
      (fun _ _ hr hs => hr.2 hs))
    (fun st c hs => (remove_installed_rel_install_graph env st _).2 hs)
    specs _ (remove_installed_init env status_db g hg) () marked hrun

/-! ## Every cluster with a feature to install is a vertex of the install graph -/

theorem install_listed_of_view (env : Env) (st st' : PlanState)
    (hfeat : ∀ c, (st'.cluster env c).to_install_features =
      (st.cluster env c).to_install_features)
    (hverts : ∀ v, v ∈ st.graph_plan.install_graph.vertex_list →
      v ∈ st'.graph_plan.install_graph.vertex_list)
    (h : st.InstallListed env) : st'.InstallListed env := by
  intro c f hf
  rw [hfeat c] at hf
  exact hverts c (h c f hf)

theorem install_listed_modify (env : Env) (st : PlanState) (c0 : PackageSpec)
    (g : Cluster → Cluster)
    (hfeat : ∀ c, (g c).to_install_features = c.to_install_features)
    (h : st.InstallListed env) : (st.modify env c0 g).InstallListed env := by
  refine install_listed_of_view env st _ ?_ (fun _ hv => hv) h
  intro c
  simp only [PlanState.state_cluster_modify]
  split
  · rename_i e; subst e; exact hfeat _
  · rfl

theorem install_listed_get (env : Env) (st : PlanState) (c : PackageSpec)
    (h : st.InstallListed env) : (st.get env c).InstallListed env :=
  install_listed_of_view env st (st.get env c) (fun c => by simp) (fun _ hv => hv) h

theorem install_listed_remove_graph (env : Env) (st : PlanState) (g : Graph)
    (h : st.InstallListed env) :
    PlanState.InstallListed env
      { st with graph_plan := { st.graph_plan with remove_graph := g } } :=
  install_listed_of_view env st
    { st with graph_plan := { st.graph_plan with remove_graph := g } }
    (fun _ => rfl) (fun _ hv => hv) h

theorem install_listed_install_vertex (env : Env) (st : PlanState) (c : PackageSpec)
    (h : st.InstallListed env) :
    PlanState.InstallListed env { st with graph_plan :=
      { st.graph_plan with install_graph := st.graph_plan.install_graph.add_vertex c } } :=
  install_listed_of_view env st
    { st with graph_plan :=
      { st.graph_plan with install_graph := st.graph_plan.install_graph.add_vertex c } }
    (fun _ => rfl) (fun _ hv => (Graph.mem_vertex_list_add_vertex _ _ _).2 (Or.inr hv)) h

theorem install_listed_install_edge (env : Env) (st : PlanState) (c d : PackageSpec)
    (h : st.InstallListed env) :
    PlanState.InstallListed env { st with graph_plan :=
      { st.graph_plan with install_graph := st.graph_plan.install_graph.add_edge c d } } :=
  install_listed_of_view env st
    { st with graph_plan :=
      { st.graph_plan with install_graph := st.graph_plan.install_graph.add_edge c d } }
    (fun _ => rfl)
    (fun _ hv => (Graph.mem_vertex_list_add_edge _ _ _ _).2 (Or.inr (Or.inr hv))) h

/-- The marking procedures keep `InstallListed`. -/
theorem marking_install_listed (env : Env) (pdf : List String) (fuel : Nat) :
    (marking env pdf fuel).Meets
      (MarkingSpec.rel (fun st st' => st.InstallListed env → st'.InstallListed env)) :=
  marking_meets env pdf _
    (fun callee hc f c st =>
      mark_plus_body_rel env _ (fun _ h => h) (fun _ _ _ hab hbc h => hbc (hab h))
        (fun st c _ h => install_listed_modify env st c _ (by intro _; rfl) h)
        callee hc f c st)
    (fun callee hc c st =>
      mark_minus_body_rel env _ (fun _ h => h) (fun _ _ _ hab hbc h => hbc (hab h))
        (fun st c h => install_listed_modify env st c _ (by intro _; rfl) h)
        (fun st c h => install_listed_get env st c h)
        (fun st _ h => install_listed_remove_graph env st _ h)
        (fun st _ _ h => install_listed_remove_graph env st _ h)
        callee hc c st)
    (fun callee hc f c st =>
      follow_plus_dependencies_body_rel env pdf _ (fun _ h => h)
        (fun _ _ _ hab hbc h => hbc (hab h))
        (fun st c f h x g hg => by
          simp only [PlanState.state_cluster_modify] at hg
          split at hg
          · rename_i e
            rw [← e]
            exact (Graph.mem_vertex_list_add_vertex _ _ _).2 (Or.inl rfl)
          · exact (Graph.mem_vertex_list_add_vertex _ _ _).2 (Or.inr (h x g hg)))
        (fun st c h => install_listed_get env st c h)
        (fun st c d h => install_listed_install_edge env st c d h)
        callee hc f c st) fuel

/-- In the marked state every cluster with a feature to install is a vertex of the install
graph. -/
theorem marked_state_install_listed (env : Env) (fuel : Nat) (specs : List FeatureSpec)
    (status_db : StatusParagraphs) (marked : PlanState)
    (h : marked_state env fuel specs status_db = Except.ok marked) :
    marked.InstallListed env := by
  rw [marked_state_ok] at h
  obtain ⟨g, hg, hrun⟩ := h
  refine install_all_inv env fuel _ (fun st => st.InstallListed env)
    (fun st c hs => install_listed_get env st c hs)
    (fun st c hs => install_listed_modify env st c _ (by intro _; rfl) hs)
    (fun f c st => (marking_install_listed env _ fuel).1 f c st)
    (fun st c hs => install_listed_install_vertex env st c hs)
    specs _ ?_ () marked hrun
  intro c f hf
  rw [(init_cluster_fresh env status_db g hg c).2.2.1] at hf
  simp at hf

end Vcpkg

namespace Vcpkg

/-! ## Rebuilds and the remove graph (C31, C32, C38) -/

/-- The installed half of the cluster of an installed package in the marked state: it
records the features of the view of the status database and has every dependent as a remove
edge. -/
theorem marked_state_installed (env : Env) (fuel : Nat) (specs : List FeatureSpec)
    (status_db : StatusParagraphs) (marked : PlanState)
    (h : marked_state env fuel specs status_db = Except.ok marked) (s : PackageSpec) :
    (last_installed status_db s = none → (marked.cluster env s).installed = none) ∧
    (∀ ipv, last_installed status_db s = some ipv →
      ∃ i, (marked.cluster env s).installed = some i ∧ i.ipv = ipv ∧
        i.original_features = (cluster_installed_of ipv).original_features ∧
        ∀ x, x ∈ i.remove_edges ↔
          ∃ dependent ∈ status_db, dependent.spec = x ∧ s ∈ env.dependencies dependent) := by
  obtain ⟨g, hg, hM, _, _⟩ := marked_state_marked env fuel specs status_db marked h
  obtain ⟨_, hnone, hsome⟩ := create_feature_install_graph_cluster env status_db g hg s
  rw [hM.installed s]
  exact ⟨hnone, hsome⟩

theorem serialize_remove_of_mem (env : Env) (st : PlanState) (vs : List PackageSpec)
    (v : PackageSpec) (hv : v ∈ vs) :
    ∃ r, AnyAction.remove_action r ∈ serialize_remove env st vs ∧
      r.spec = (st.cluster env v).spec := by
  unfold serialize_remove
  exact ⟨_, List.mem_map.mpr ⟨v, hv, rfl⟩, rfl⟩

/-- C31 (rebuild propagates to reverse dependents): in every plan returned by
`create_feature_install_plan`, the topological sort meeting its contract, if the plan has a
`RemovePlanAction` for the installed package `B` and the installed package `A` directly
depends on `B`, the plan has a `RemovePlanAction` for `A` as well. -/
theorem rebuild_propagates (env : Env) (hsort : env.TopologicalSortSpec) (fuel : Nat)
    (specs : List FeatureSpec) (status_db : StatusParagraphs) (plan : List AnyAction)
    (h : create_feature_install_plan env fuel specs status_db = Except.ok plan)
    (A B : InstalledPackageView) (hA : A ∈ status_db) (hB : B ∈ status_db)
    (hdep : B.spec ∈ env.dependencies A)
    (r : RemovePlanAction) (hr : AnyAction.remove_action r ∈ plan) (hrB : r.spec = B.spec) :
    ∃ r', AnyAction.remove_action r' ∈ plan ∧ r'.spec = A.spec := by
  obtain ⟨marked, rs, is, installs, hm, hrs, his, hinst, hplan, hmemi, hmemr⟩ :=
    plan_parts env fuel specs status_db plan h
  have hwk := marked_state_well_keyed env fuel specs status_db marked hm
  have hC := marked_state_remove_closed env fuel specs status_db marked hm
  obtain ⟨v, hv, hspec, _⟩ := serialize_remove_mem env marked rs r ((hmemr r).mp hr)
  rw [hwk.1 v, hrB] at hspec
  subst hspec
  have hvert := (topological_sort_mem env hsort _ rs hrs B.spec).mp hv
  have hminus := hC.1 B.spec hvert (fun hf => hf)
  obtain ⟨ipv, hl⟩ := (last_installed_isSome status_db B.spec).2 ⟨B, hB, rfl⟩
  obtain ⟨i, hi, _, _, hedges⟩ :=
    (marked_state_installed env fuel specs status_db marked hm B.spec).2 ipv hl
  have hA_edge : A.spec ∈ i.remove_edges := (hedges A.spec).2 ⟨A, hA, rfl, hdep⟩
  have hA_vert := ((hC.2 B.spec i hminus hi (fun hf => hf)).2 A.spec hA_edge).2
  have hA_sorted := (topological_sort_mem env hsort _ rs hrs A.spec).mpr hA_vert
  obtain ⟨r', hr', hspec'⟩ := serialize_remove_of_mem env marked rs A.spec hA_sorted
  rw [hwk.1] at hspec'
  exact ⟨r', (hmemr r').mpr hr', hspec'⟩

/-- The plan for `b[x]` when `a` and `b` are installed and `a` depends on `b`: `b` is
removed to be rebuilt, and so is its dependent `a`. -/
theorem rebuild_propagates_witness :
    ∃ r', AnyAction.remove_action r' ∈ abx_plan ∧
      r'.spec = (make_installed "a" x64_linux [] [] ["b"]).spec :=
  rebuild_propagates abx_env (catalog_env_topological_sort_spec _) 10
    [⟨⟨"b", x64_linux⟩, "x"⟩] ab_status_db abx_plan (by decide)
    (make_installed "a" x64_linux [] [] ["b"]) (make_installed "b" x64_linux [] [] [])
    (by decide) (by decide) (by decide) abx_remove_b (by decide) (by decide)

theorem serialize_remove_getElem (env : Env) (st : PlanState) (hwk : st.WellKeyed env)
    (vs : List PackageSpec) (installs : List AnyAction)
    (hinst : ∀ r, AnyAction.remove_action r ∉ installs)
    (i : Nat) (r : RemovePlanAction)
    (h : (serialize_remove env st vs ++ installs)[i]? = some (AnyAction.remove_action r)) :
    vs[i]? = some r.spec := by
  by_cases hlt : i < (serialize_remove env st vs).length
  · rw [List.getElem?_append_left hlt] at h
    unfold serialize_remove at h
    rw [List.getElem?_map] at h
    cases hv : vs[i]? with
    | none => rw [hv] at h; cases h
    | some v =>
      rw [hv] at h
      simp only [Option.map_some', Option.some.injEq, AnyAction.remove_action.injEq] at h
      subst h
      simp only [hwk.1 v]
  · rw [List.getElem?_append_right (by omega)] at h
    exact absurd (List.getElem?_mem h) (hinst r)

theorem index_lt_of_listed {α : Type} (rs : List α) (hnd : rs.Nodup) (a b : α)
    (pre post : List α) (e : rs = pre ++ b :: post) (ha : a ∈ pre) (i j : Nat)
    (hi : rs[i]? = some a) (hj : rs[j]? = some b) : i < j := by
  obtain ⟨k, hk⟩ := List.mem_iff_getElem?.1 ha
  have hklt : k < pre.length := by
    obtain ⟨hlt, _⟩ := List.getElem?_eq_some.1 hk
    exact hlt
  have hk' : rs[k]? = some a := by
    rw [e, List.getElem?_append_left hklt]; exact hk
  have hp : rs[pre.length]? = some b := by
    rw [e, List.getElem?_append_right (Nat.le_refl _)]
    simp
  have hlen : pre.length < rs.length := by
    rw [e]; simp
  have e1 : k = i := List.getElem?_inj (by omega) hnd (by rw [hk', hi])
  have e2 : pre.length = j := List.getElem?_inj hlen hnd (by rw [hp, hj])
  omega

/-- C32 (remove order): in every plan returned by `create_feature_install_plan`, assuming
that `Graphs::topological_sort` returns a topological order (every vertex once, each after
all vertices of its adjacency list), if the plan removes the installed packages `A` and `B`
and `A` directly depends on `B`, the `RemovePlanAction` for `A`, the dependent, comes before
the `RemovePlanAction` for `B`, its dependency. -/
theorem remove_order (env : Env) (hsort : env.TopologicalSortSpec) (fuel : Nat)
    (specs : List FeatureSpec) (status_db : StatusParagraphs) (plan : List AnyAction)
    (h : create_feature_install_plan env fuel specs status_db = Except.ok plan)
    (A B : InstalledPackageView) (hA : A ∈ status_db) (hB : B ∈ status_db)
    (hdep : B.spec ∈ env.dependencies A)
    (i j : Nat) (rA rB : RemovePlanAction)
    (hi : plan[i]? = some (AnyAction.remove_action rA)) (hrA : rA.spec = A.spec)
    (hj : plan[j]? = some (AnyAction.remove_action rB)) (hrB : rB.spec = B.spec) :
    i < j := by
  obtain ⟨marked, rs, is, installs, hm, hrs, his, hinst, hplan, hmemi, hmemr⟩ :=
    plan_parts env fuel specs status_db plan h
  have hwk := marked_state_well_keyed env fuel specs status_db marked hm
  have hC := marked_state_remove_closed env fuel specs status_db marked hm
  have hto := hsort marked.graph_plan.remove_graph
  rw [hrs] at hto
  obtain ⟨hperm, hord⟩ := hto
  have hnd : rs.Nodup := hperm.nodup_iff.mpr hwk.2.2.1
  subst hplan
  have hno := serialize_install_no_remove env marked is installs hinst
  have hi' := serialize_remove_getElem env marked hwk rs installs hno i rA hi
  have hj' := serialize_remove_getElem env marked hwk rs installs hno j rB hj
  rw [hrA] at hi'
  rw [hrB] at hj'
  -- `B` is a vertex of the remove graph with an edge to `A`
  have hvert : B.spec ∈ marked.graph_plan.remove_graph.vertex_list :=
    hperm.mem_iff.mp (List.getElem?_mem hj')
  have hminus := hC.1 B.spec hvert (fun hf => hf)
  obtain ⟨ipv, hl⟩ := (last_installed_isSome status_db B.spec).2 ⟨B, hB, rfl⟩
  obtain ⟨ib, hib, _, _, hedges⟩ :=
    (marked_state_installed env fuel specs status_db marked hm B.spec).2 ipv hl
  have hA_edge : A.spec ∈ ib.remove_edges := (hedges A.spec).2 ⟨A, hA, rfl, hdep⟩
  have hadj := ((hC.2 B.spec ib hminus hib (fun hf => hf)).2 A.spec hA_edge).1
  obtain ⟨pre, post, e⟩ := List.append_of_mem (List.getElem?_mem hj')
  have hpre : A.spec ∈ pre := by
    rcases ordered_from_listed _ _ _ hord pre B.spec post e A.spec hadj with h1 | h1
    · simp at h1
    · exact h1
  exact index_lt_of_listed rs hnd A.spec B.spec pre post e hpre i j hi' hj'

/-- The plan for `b[x]` when `a` and `b` are installed and `a` depends on `b`: the remove
action for `a` (index 0) comes before the one for `b` (index 1). -/
theorem remove_order_witness :
    create_feature_install_plan abx_env 10 [⟨⟨"b", x64_linux⟩, "x"⟩] ab_status_db =
        Except.ok abx_plan ∧
      (0 : Nat) < 1 :=
  ⟨by decide,
    remove_order abx_env (catalog_env_topological_sort_spec _) 10
      [⟨⟨"b", x64_linux⟩, "x"⟩] ab_status_db abx_plan (by decide)
      (make_installed "a" x64_linux [] [] ["b"]) (make_installed "b" x64_linux [] [] [])
      (by decide) (by decide) (by decide) 0 1 abx_remove_a abx_remove_b
      (by decide) (by decide) (by decide) (by decide)⟩

/-- C38 (every removed package is rebuilt): in every plan returned by
`create_feature_install_plan`, the topological sort meeting its contract, each
`RemovePlanAction` is followed by an `InstallPlanAction` with the same spec and the plan
type `BUILD_AND_INSTALL`, whose `feature_list` contains "core" and every feature that the
status database records for the package and for which the port of the package has build
edges. -/
theorem removed_is_rebuilt (env : Env) (hsort : env.TopologicalSortSpec) (fuel : Nat)
    (specs : List FeatureSpec) (status_db : StatusParagraphs) (plan : List AnyAction)
    (h : create_feature_install_plan env fuel specs status_db = Except.ok plan)
    (i : Nat) (r : RemovePlanAction) (hi : plan[i]? = some (AnyAction.remove_action r)) :
    ∃ j a, i < j ∧ plan[j]? = some (AnyAction.install_action a) ∧ a.spec = r.spec ∧
      a.plan_type = InstallPlanType.BUILD_AND_INSTALL ∧ "core" ∈ a.feature_list ∧
      ∀ ipv, last_installed status_db r.spec = some ipv →
        ∀ f ∈ (cluster_installed_of ipv).original_features,
          ∀ scf es, env.get_control_file r.spec.name = some scf →
            AssocMap.find (cluster_from_scf env scf r.spec.triplet).build_edges f = some es →
              f ∈ a.feature_list := by
  obtain ⟨marked, rs, is, installs, hm, hrs, his, hinst, hplan, hmemi, hmemr⟩ :=
    plan_parts env fuel specs status_db plan h
  have hwk := marked_state_well_keyed env fuel specs status_db marked hm
  have hC := marked_state_remove_closed env fuel specs status_db marked hm
  have hRI := marked_state_remove_installed env fuel specs status_db marked hm
  have hL := marked_state_install_listed env fuel specs status_db marked hm
  obtain ⟨g, hg, hM, _, hT⟩ := marked_state_marked env fuel specs status_db marked hm
  obtain ⟨v, hv, hspec, _⟩ :=
    serialize_remove_mem env marked rs r ((hmemr r).mp (List.getElem?_mem hi))
  rw [hwk.1 v] at hspec
  subst hspec
  have hvert := (topological_sort_mem env hsort _ rs hrs r.spec).mp hv
  have hminus := hC.1 r.spec hvert (fun hf => hf)
  obtain ⟨hmin0, _, _, hsrc0, hinst0⟩ := init_cluster_fresh env status_db g hg r.spec
  cases hi0 : (PlanState.cluster env { m_graph := g, graph_plan := {} } r.spec).installed with
  | none =>
    exact absurd (by rw [hM.installed r.spec]; exact hi0) (hRI.1 r.spec hvert)
  | some i0 =>
    obtain ⟨⟨src, hsrc⟩, _, hfeat⟩ := hM.rebuilt r.spec i0 hi0 hmin0 hminus
    have hdecl : ∀ f, (∃ es, AssocMap.find src.build_edges f = some es) →
        (PlanState.cluster env { m_graph := g, graph_plan := {} } r.spec).declares f :=
      fun f ⟨es, hes⟩ => ⟨src, es, hsrc, hes⟩
    have hcore : "core" ∈ (marked.cluster env r.spec).to_install_features :=
      hfeat "core" (hinst0 i0 hi0).1
        (hdecl "core" (new_cluster_declares_core env r.spec src (by rw [← hsrc0]; exact hsrc)))
    have hiv := hL r.spec "core" hcore
    have his_mem := (topological_sort_mem env hsort _ is his r.spec).mpr hiv
    obtain ⟨a, ha, haspec, hafl, hab⟩ :=
      serialize_install_build_mem env marked is installs hinst r.spec his_mem
        ((hT r.spec).1 hminus)
    rw [hwk.1] at haspec
    have ha' := (hmemi a).mpr ha
    obtain ⟨j, hj⟩ := List.mem_iff_getElem?.1 ha'
    refine ⟨j, a, remove_before_install env plan (Or.inr ⟨fuel, specs, status_db, h⟩) i j r a hi hj,
      hj, haspec, hab, by rw [hafl]; exact hcore, ?_⟩
    intro ipv hl f hf scf es hscf hes
    rw [hafl]
    obtain ⟨_, _, hsome⟩ := create_feature_install_graph_cluster env status_db g hg r.spec
    obtain ⟨i1, hi1, _, horig, _⟩ := hsome ipv hl
    have e : i1 = i0 := by
      have : (PlanState.cluster env { m_graph := g, graph_plan := {} } r.spec).installed =
          some i1 := hi1
      rw [hi0] at this
      simp only [Option.some.injEq] at this
      exact this.symm
    subst e
    refine hfeat f (by rw [horig]; exact hf) (hdecl f ⟨es, ?_⟩)
    have hs : (new_cluster env r.spec).source = some src := by rw [← hsrc0]; exact hsrc
    simp only [new_cluster, hscf, Option.map_some', Option.some.injEq] at hs
    rw [← hs]; exact hes

/-- The plan for `b[x]` when `a` and `b` are installed and `a` depends on `b`: the remove
action for `a` (index 0) is followed by a build action for `a`. -/
theorem removed_is_rebuilt_witness :
    ∃ j a, 0 < j ∧ abx_plan[j]? = some (AnyAction.install_action a) ∧
      a.spec = abx_remove_a.spec ∧
      a.plan_type = InstallPlanType.BUILD_AND_INSTALL ∧ "core" ∈ a.feature_list ∧
      ∀ ipv, last_installed ab_status_db abx_remove_a.spec = some ipv →
        ∀ f ∈ (cluster_installed_of ipv).original_features,
          ∀ scf es, abx_env.get_control_file abx_remove_a.spec.name = some scf →
            AssocMap.find (cluster_from_scf abx_env scf abx_remove_a.spec.triplet).build_edges f
                = some es →
              f ∈ a.feature_list :=
  removed_is_rebuilt abx_env (catalog_env_topological_sort_spec _) 10
    [⟨⟨"b", x64_linux⟩, "x"⟩] ab_status_db abx_plan (by decide) 0 abx_remove_a (by decide)

end Vcpkg

namespace Vcpkg

/-! ## A second call of `mark_plus` (C35) -/

/-- C35 (a second call of `mark_plus`): for every state, cluster and feature, whatever the
recursion depth, once a call `mark_plus(feature, cluster)` has returned, a second call with
the same arguments leaves the state as it is (the cluster graph, every field of every
cluster and both graphs of the plan) and returns `SUCCESS`; so it returns the result of the
first call whenever that was `SUCCESS`. -/
theorem mark_plus_second_call (env : Env) (prevent_default_features : List String)
    (fuel : Nat) (feature : String) (cluster : PackageSpec) (st : PlanState)
    (r : MarkPlusResult) (st' : PlanState)
    (h : (mark_plus env prevent_default_features fuel feature cluster).run st =
      Except.ok (r, st')) :
    (∀ fuel', 1 ≤ fuel' →
      (mark_plus env prevent_default_features fuel' feature cluster).run st' =
        Except.ok (MarkPlusResult.SUCCESS, st')) ∧
    (mark_plus env prevent_default_features fuel feature cluster).run st' =
      Except.ok (MarkPlusResult.SUCCESS, st') ∧
    (r = MarkPlusResult.SUCCESS →
      (mark_plus env prevent_default_features fuel feature cluster).run st' =
        Except.ok (r, st')) := by
  have hplus : (st'.cluster env cluster).plus_of feature = true :=
    ((marking_core_closure env prevent_default_features fuel).1 feature cluster st r st' h).2.1
  have hall : ∀ fuel', 1 ≤ fuel' →
      (mark_plus env prevent_default_features fuel' feature cluster).run st' =
        Except.ok (MarkPlusResult.SUCCESS, st') := by
    intro fuel' hf
    obtain ⟨n, rfl⟩ : ∃ n, fuel' = n + 1 := ⟨fuel' - 1, by omega⟩
    exact mark_plus_run_marked env prevent_default_features n feature cluster st' hplus
  have hfuel : 1 ≤ fuel := by
    cases fuel with
    | zero => cases h
    | succ n => omega
  exact ⟨hall, hall fuel hfuel, fun hr => by rw [hr]; exact hall fuel hfuel⟩

/-- The first call `mark_plus("zzz", foo)` for a feature that the port of `foo` does not
have returns `FEATURE_NOT_FOUND`; the second call leaves the state as it is and returns
`SUCCESS`. -/
theorem mark_plus_second_call_witness :
    (∀ fuel', 1 ≤ fuel' →
      (mark_plus fg_env [] fuel' "zzz" ⟨"foo", x64_linux⟩).run fg_unknown_marked =
        Except.ok (MarkPlusResult.SUCCESS, fg_unknown_marked)) ∧
    (mark_plus fg_env [] 10 "zzz" ⟨"foo", x64_linux⟩).run fg_unknown_marked =
      Except.ok (MarkPlusResult.SUCCESS, fg_unknown_marked) ∧
    (MarkPlusResult.FEATURE_NOT_FOUND = MarkPlusResult.SUCCESS →
      (mark_plus fg_env [] 10 "zzz" ⟨"foo", x64_linux⟩).run fg_unknown_marked =
        Except.ok (MarkPlusResult.FEATURE_NOT_FOUND, fg_unknown_marked)) :=
  mark_plus_second_call fg_env [] 10 "zzz" ⟨"foo", x64_linux⟩ {}
    MarkPlusResult.FEATURE_NOT_FOUND fg_unknown_marked (by decide)

/-- The second call of `mark_plus` does not return the result of the first one: for the
feature `zzz`, which the port of `foo` does not have, the first call returns
`FEATURE_NOT_FOUND` and the second call, made in the state the first one returned in,
returns `SUCCESS`. -/
theorem mark_plus_second_call_counterexample :
    (mark_plus fg_env [] 10 "zzz" ⟨"foo", x64_linux⟩).run {} =
      Except.ok (MarkPlusResult.FEATURE_NOT_FOUND, fg_unknown_marked) ∧
    (mark_plus fg_env [] 10 "zzz" ⟨"foo", x64_linux⟩).run fg_unknown_marked =
      Except.ok (MarkPlusResult.SUCCESS, fg_unknown_marked) := by
  decide

end Vcpkg

namespace Vcpkg

/-! ## Every requested package appears in the plan (C39) -/

theorem requested_step_closed (env : Env) (c : PackageSpec) :
    StepClosed env (fun st => (st.cluster env c).request_type = RequestType.USER_REQUESTED) := by
  intro st st' hI hstep
  cases hstep with
  | get spec => simpa using hI
  | set_plus cluster feature =>
    simp only [PlanState.state_cluster_modify]
    split
    · rename_i e; subst e; exact hI
    · exact hI
  | set_minus cluster =>
    simp only [PlanState.state_cluster_modify]
    split
    · rename_i e; subst e; exact hI
    · exact hI
  | insert_feature cluster feature =>
    simp only [PlanState.state_cluster_modify]
    split
    · rename_i e; subst e; exact hI
    · exact hI
  | set_user_requested cluster =>
    simp only [PlanState.state_cluster_modify]
    split
    · rfl
    · exact hI
  | remove_vertex cluster => exact hI
  | remove_edge cluster edge h => exact hI
  | install_vertex cluster => exact hI
  | install_edge cluster depend h => exact hI

/-- The cluster of the spec is user requested when `PackageGraph::install` returns. -/
theorem install_requested (env : Env) (fuel : Nat) (spec : FeatureSpec) (pdf : List String)
    (st : PlanState) :
    wp (PackageGraph.install env fuel spec pdf)
      (fun _ st' => (st'.cluster env spec.spec).request_type = RequestType.USER_REQUESTED)
      st := by
  unfold PackageGraph.install
  simp only [wp_bind, wp_modify]
  refine wp_mono _ _ _ _ ((marking_keeps env pdf _ (requested_step_closed env spec.spec) fuel).1
    spec.feature spec.spec _ ?_) ?_
  · simp only [PlanState.state_cluster_modify, if_true]
  · intro r st3 h3
    rw [wp_check_exit]
    intro _
    exact h3

/-- Every spec of the input that is not skipped is user requested and is a vertex of the
install graph when the marking phase is over. -/
theorem install_all_user_requested (env : Env) (fuel : Nat) (specs : List FeatureSpec)
    (pdf : List String) (st : PlanState) :
    wp (install_all env fuel specs pdf)
      (fun _ st' => ∀ s ∈ specs, ¬ (s.feature = "" ∧ s.name ∈ pdf) →
        (st'.cluster env s.spec).request_type = RequestType.USER_REQUESTED ∧
        s.spec ∈ st'.graph_plan.install_graph.vertex_list) st := by
  unfold install_all
  refine wp_mono _ _ _ _
    (wp_for_each_rel
      (fun a b => Marked env a b ∧ ∀ c,
        (a.cluster env c).request_type = RequestType.USER_REQUESTED →
        (b.cluster env c).request_type = RequestType.USER_REQUESTED)
      (fun s => ⟨marked_refl env s, fun _ h => h⟩)
      (fun a b c hab hbc => ⟨marked_trans env _ _ _ hab.1 hbc.1, fun x h => hbc.2 x (hab.2 x h)⟩)
      (fun (s : FeatureSpec) st' => ¬ (s.feature = "" ∧ s.name ∈ pdf) →
        (st'.cluster env s.spec).request_type = RequestType.USER_REQUESTED ∧
        s.spec ∈ st'.graph_plan.install_graph.vertex_list)
      (fun x s s' hR hE hn => ⟨hR.2 _ (hE hn).1, hR.1.install_vertices _ (hE hn).2⟩)
      specs _ st ?_ st ⟨marked_refl env st, fun _ h => h⟩) (fun _ _ h => h.2)
  intro x _ s _
  rw [wp_ite]
  refine ⟨fun hskip => ?_, fun _ => ?_⟩
  · rw [wp_pure]
    exact ⟨⟨marked_refl env s, fun _ h => h⟩, fun hn => absurd hskip hn⟩
  · refine wp_mono _ _ _ _ (wp_and _ _ _ _ (install_core env fuel x pdf s)
      (wp_and _ _ _ _ (install_requested env fuel x pdf s)
        (fun r st' hrun c hc =>
          install_keeps env pdf _ (requested_step_closed env c) fuel x s hc r st' hrun))) ?_
    intro _ s' h
    exact ⟨⟨h.1.1.1, h.2.2⟩, fun _ => ⟨h.2.1, h.1.2.2.1⟩⟩

/-- The install actions of the vertices whose cluster is user requested. -/
theorem serialize_install_requested (env : Env) (st : PlanState) (hwk : st.WellKeyed env)
    (vs : List PackageSpec) :
    ∀ plan, serialize_install env st vs = Except.ok plan →
      ∀ v ∈ vs, (st.cluster env v).request_type = RequestType.USER_REQUESTED →
        ∃ a, AnyAction.install_action a ∈ plan ∧ a.spec = v ∧
          a.request_type = RequestType.USER_REQUESTED ∧
          (a.plan_type = InstallPlanType.BUILD_AND_INSTALL ∨
            a.plan_type = InstallPlanType.ALREADY_INSTALLED) := by
  induction vs with
  | nil => intro plan _ v hv; simp at hv
  | cons p rest ih =>
    intro plan h v hv hreq
    obtain ⟨tail, htail, hcase⟩ := serialize_install_cons_ok env st p rest plan h
    have hrest : v ∈ rest → ∃ a, AnyAction.install_action a ∈ plan ∧ a.spec = v ∧
        a.request_type = RequestType.USER_REQUESTED ∧
        (a.plan_type = InstallPlanType.BUILD_AND_INSTALL ∨
          a.plan_type = InstallPlanType.ALREADY_INSTALLED) := by
      intro hvr
      obtain ⟨a, ha, h1⟩ := ih tail htail v hvr hreq
      refine ⟨a, ?_, h1⟩
      rcases hcase with ⟨e, _, _⟩ | ⟨_, _, _, e⟩ | ⟨_, _, _, _, e⟩
      · rw [e]; exact ha
      · rw [e]; exact List.mem_cons_of_mem _ ha
      · rw [e]; exact List.mem_cons_of_mem _ ha
    rcases List.mem_cons.mp hv with e | hvr
    · subst e
      rcases hcase with ⟨_, _, hf⟩ | ⟨source, _, _, e⟩ | ⟨installed, _, _, hi, e⟩
      · exact absurd hreq hf
      · exact ⟨_, by rw [e]; exact List.mem_cons_self _ _, hwk.1 v, hreq, Or.inl rfl⟩
      · exact ⟨_, by rw [e]; exact List.mem_cons_self _ _, hwk.2.1 v installed hi, hreq,
          Or.inr rfl⟩
    · exact hrest hvr

/-- C39 (every requested package appears in the plan): in every plan returned by
`create_feature_install_plan`, the topological sort meeting its contract, for every spec of
the input that the marking does not skip (a spec with a feature, or a defaulted spec of a
package name for which the input has no "core" spec), the plan has an `InstallPlanAction`
for the package spec (name and triplet) of that spec, with the request type
`USER_REQUESTED` and the plan type `BUILD_AND_INSTALL` or `ALREADY_INSTALLED`; this is also
the action of every defaulted spec of the same package spec. -/
theorem requested_in_plan (env : Env) (hsort : env.TopologicalSortSpec) (fuel : Nat)
    (specs : List FeatureSpec) (status_db : StatusParagraphs) (plan : List AnyAction)
    (h : create_feature_install_plan env fuel specs status_db = Except.ok plan)
    (s : FeatureSpec) (hs : s ∈ specs)
    (hkeep : s.feature ≠ "" ∨ ∀ t ∈ specs, t.feature = "core" → t.name ≠ s.name) :
    ∃ a, AnyAction.install_action a ∈ plan ∧ a.spec = s.spec ∧
      a.request_type = RequestType.USER_REQUESTED ∧
      (a.plan_type = InstallPlanType.BUILD_AND_INSTALL ∨
        a.plan_type = InstallPlanType.ALREADY_INSTALLED) := by
  obtain ⟨marked, rs, is, installs, hm, hrs, his, hinst, hplan, hmemi, hmemr⟩ :=
    plan_parts env fuel specs status_db plan h
  have hwk := marked_state_well_keyed env fuel specs status_db marked hm
  have hrun := hm
  rw [marked_state_ok] at hrun
  obtain ⟨g, hg, hrun⟩ := hrun
  have hnot : ¬ (s.feature = "" ∧ s.name ∈ prevent_default_features_of specs) := by
    rintro ⟨he, hn⟩
    rcases hkeep with hf | hall
    · exact hf he
    · obtain ⟨t, ht, hcore, hname⟩ := prevent_default_features_of_mem specs s.name hn
      exact hall t ht hcore hname
  obtain ⟨hreq, hvert⟩ :=
    install_all_user_requested env fuel specs _ _ () marked hrun s hs hnot
  have hsorted := (topological_sort_mem env hsort _ is his s.spec).mpr hvert
  obtain ⟨a, ha, h1⟩ := serialize_install_requested env marked hwk is installs hinst s.spec
    hsorted hreq
  exact ⟨a, (hmemi a).mpr ha, h1⟩

/-- The plan for `curl[ssl]`, where `curl` is installed: the plan has a user requested
action for `curl`. -/
theorem requested_in_plan_witness :
    ∃ a, AnyAction.install_action a ∈ curl_zlib_plan ∧
      a.spec = (⟨⟨"curl", x64_linux⟩, "ssl"⟩ : FeatureSpec).spec ∧
      a.request_type = RequestType.USER_REQUESTED ∧
      (a.plan_type = InstallPlanType.BUILD_AND_INSTALL ∨
        a.plan_type = InstallPlanType.ALREADY_INSTALLED) :=
  requested_in_plan curl_zlib_env (catalog_env_topological_sort_spec _) 10
    [⟨⟨"curl", x64_linux⟩, "ssl"⟩] curl_status_db curl_zlib_plan (by decide)
    ⟨⟨"curl", x64_linux⟩, "ssl"⟩ (by decide) (Or.inl (by decide))

/-- A requested package that does not appear in the plan: for the input of the defaulted
`foo:x64-linux` and `foo[core]:x86-windows`, on an empty installation, the plan that is
returned has one action, for `foo:x86-windows`, and none for `foo:x64-linux`. -/
theorem requested_in_plan_counterexample :
    create_feature_install_plan fg_env 10
        [⟨⟨"foo", x64_linux⟩, ""⟩, ⟨⟨"foo", x86_windows⟩, "core"⟩] [] =
      Except.ok fg_cross_plan ∧
    ¬ ∃ a, AnyAction.install_action a ∈ fg_cross_plan ∧ a.spec = ⟨"foo", x64_linux⟩ := by
  refine ⟨by decide, ?_⟩
  rintro ⟨a, ha, hspec⟩
  simp only [fg_cross_plan, List.mem_singleton, AnyAction.install_action.injEq] at ha
  rw [ha] at hspec
  revert hspec
  decide

end Vcpkg

namespace Vcpkg

/-! ## An unknown feature is never marked successfully -/

theorem unknown_of_view (env : Env) (P : PackageSpec) (f : String) (st st' : PlanState)
    (hsrc : (st'.cluster env P).source = (st.cluster env P).source)
    (hinst : (st'.cluster env P).installed = (st.cluster env P).installed)
    (h : st.Unknown env P f) : st'.Unknown env P f := by
  obtain ⟨h1, h2, h3, h4, h5⟩ := h
  refine ⟨h1, h2, h3, fun src hs => h4 src (by rw [← hsrc]; exact hs), ?_⟩
  unfold Cluster.original at h5 ⊢
  rw [hinst]
  exact h5

theorem plus_of_modify_keep (env : Env) (P : PackageSpec) (f : String) (st : PlanState)
    (c0 : PackageSpec) (g : Cluster → Cluster) (hplus : ∀ c, (g c).plus = c.plus) :
    ((st.modify env c0 g).cluster env P).plus_of f = (st.cluster env P).plus_of f := by
  simp only [PlanState.state_cluster_modify]
  split
  · rename_i e
    subst e
    unfold Cluster.plus_of
    rw [hplus]
  · rfl

theorem plus_of_modify_set (env : Env) (P : PackageSpec) (f : String) (st : PlanState)
    (c0 : PackageSpec) (g : String) (hne : ¬ (c0 = P ∧ g = f)) :
    ((st.modify env c0 (fun c => { c with plus := AssocMap.set c.plus g true })).cluster env
      P).plus_of f = (st.cluster env P).plus_of f := by
  simp only [PlanState.state_cluster_modify]
  split
  · rename_i e
    subst e
    rw [plus_of_set]
    have hfg : f ≠ g := fun e => hne ⟨rfl, e.symm⟩
    simp [hfg]
  · rfl

theorem installed_modify_eq (env : Env) (st : PlanState) (c0 : PackageSpec)
    (g : Cluster → Cluster) (hinst : ∀ c, (g c).installed = c.installed) (c : PackageSpec) :
    ((st.modify env c0 g).cluster env c).installed = (st.cluster env c).installed := by
  simp only [PlanState.state_cluster_modify]
  split
  · rename_i e; subst e; exact hinst _
  · rfl

theorem mark_plus_body_unknown (env : Env) (P : PackageSpec) (f : String) (callee : Marking)
    (hc1 : callee.Meets (core_closure_spec env))
    (hc : callee.Meets (unknown_feature_spec env P f)) (g : String) (c0 : PackageSpec)
    (st : PlanState) :
    wp (mark_plus_body env callee g c0) ((unknown_feature_spec env P f).mark_plus g c0 st)
      st := by
  refine wp_imp _ _ _ _ ?_
  intro hK
  refine wp_imp _ _ _ _ ?_
  intro hJ
  -- what a call of a callee keeps
  have hkeep : ∀ s s' : PlanState, (((s.cluster env P).source = (st.cluster env P).source ∧
      (s.cluster env P).installed = (st.cluster env P).installed) ∧
      (s.cluster env P).plus_of f = false) → Marked env s s' →
      (s'.cluster env P).plus_of f = false →
      (((s'.cluster env P).source = (st.cluster env P).source ∧
      (s'.cluster env P).installed = (st.cluster env P).installed) ∧
      (s'.cluster env P).plus_of f = false) :=
    fun s s' hs hM hJ' => ⟨⟨by rw [hM.source, hs.1.1], by rw [hM.installed, hs.1.2]⟩, hJ'⟩
  have hunk : ∀ s : PlanState, ((s.cluster env P).source = (st.cluster env P).source ∧
      (s.cluster env P).installed = (st.cluster env P).installed) → s.Unknown env P f :=
    fun s hs => unknown_of_view env P f st s hs.1 hs.2 hK
  unfold mark_plus_body
  simp only [wp_bind, wp_get]
  rw [wp_ite]
  refine ⟨fun hp => (wp_pure _ _ _).mpr ⟨fun hPf => ?_, fun _ => hJ⟩, fun _ => ?_⟩
  · rw [hPf.1, hPf.2, hJ] at hp; cases hp
  simp only [wp_bind]
  refine wp_modify_named _ _ _ ?_
  intro st1 hst1
  have hV1 : (st1.cluster env P).source = (st.cluster env P).source ∧
      (st1.cluster env P).installed = (st.cluster env P).installed := by
    subst hst1
    exact ⟨source_modify_eq env st c0 _ (by intro _; rfl) P,
      installed_modify_eq env st c0 _ (by intro _; rfl) P⟩
  have hK1 := hunk st1 hV1
  simp only [wp_get]
  split
  · exact (wp_throw _ _ _).mpr trivial
  · rename_i p_source hsrc
    by_cases hPf : c0 = P ∧ g = f
    · -- the unknown feature itself: the result is the one of `follow_plus_dependencies`
      obtain ⟨e1, e2⟩ := hPf
      subst e1
      subst e2
      rw [wp_ite]
      refine ⟨fun he => absurd he hK.1, fun _ => ?_⟩
      rw [wp_ite]
      refine ⟨fun he => absurd he hK.2.1, fun _ => ?_⟩
      simp only [wp_bind, wp_get]
      rw [wp_ite]
      refine ⟨fun hmem => absurd hmem hK1.2.2.2.2, fun _ => ?_⟩
      simp only [wp_bind]
      refine wp_mono _ _ _ _ (hc1.2.1 c0 st1) ?_
      intro _ s2 h2
      have hK2 : s2.Unknown env c0 g :=
        hunk s2 ⟨by rw [h2.1.source, hV1.1], by rw [h2.1.installed, hV1.2]⟩
      refine wp_mono _ _ _ _ (hc.2.2 g c0 s2) ?_
      intro r s3 h3
      have hr := (h3 hK2).1 ⟨rfl, rfl⟩
      refine ⟨fun _ => hr, fun hn => ?_⟩
      exact absurd ⟨trivial, trivial⟩ hn
    · have hJ1 : (st1.cluster env P).plus_of f = false := by
        subst hst1
        rw [plus_of_modify_set env P f st c0 g hPf]; exact hJ
      have hW1 := And.intro hV1 hJ1
      have hsrcP : c0 = P → (st.cluster env P).source = some p_source := by
        intro e; rw [← hV1.1, ← e]; exact hsrc
      refine wp_mono _ (fun _ s' => (s'.cluster env P).plus_of f = false) _ _ ?_
        (fun _ _ h => ⟨fun hx => absurd hx hPf, fun _ => h⟩)
      rw [wp_ite]
      constructor
      · intro _
        simp only [wp_bind]
        refine wp_mono _ _ _ _
          (wp_first_failure _ _ (fun s =>
            ((s.cluster env P).source = (st.cluster env P).source ∧
            (s.cluster env P).installed = (st.cluster env P).installed) ∧
            (s.cluster env P).plus_of f = false) ?_ st1 hW1) ?_
        · intro d hd s hs
          refine wp_mono _ _ _ _ (wp_and _ _ _ _ (hc1.1 d c0 s) (hc.1 d c0 s)) ?_
          intro _ s' h
          refine hkeep s s' hs h.1.1 ((h.2 (hunk s hs.1) hs.2).2 ?_)
          rintro ⟨e1, e2⟩
          exact (hK.2.2.2.1 p_source (hsrcP e1)).2.1 (by rw [← e2]; exact hd)
        intro res s2 hS2
        rw [wp_ite]
        refine ⟨fun _ => (wp_pure _ _ _).mpr hS2.2, fun _ => ?_⟩
        refine wp_mono _ _ _ _ (hc.1 "core" c0 s2) ?_
        intro _ s' h
        exact (h (hunk s2 hS2.1) hS2.2).2 (fun hx => hK.2.2.1 hx.2.symm)
      · intro _
        rw [wp_ite]
        constructor
        · intro _
          simp only [wp_bind]
          refine wp_mono _ _ _ _
            (wp_for_each _ _ (fun s =>
              ((s.cluster env P).source = (st.cluster env P).source ∧
              (s.cluster env P).installed = (st.cluster env P).installed) ∧
              (s.cluster env P).plus_of f = false) ?_ st1 hW1) ?_
          · intro fp hfp s hs
            unfold mark_plus_all_features_step
            simp only [wp_bind]
            refine wp_mono _ _ _ _ (wp_and _ _ _ _ (hc1.1 fp.name c0 s) (hc.1 fp.name c0 s)) ?_
            intro _ s' h
            rw [wp_check_exit]
            intro _
            refine hkeep s s' hs h.1.1 ((h.2 (hunk s hs.1) hs.2).2 ?_)
            rintro ⟨e1, e2⟩
            exact (hK.2.2.2.1 p_source (hsrcP e1)).2.2 fp hfp e2
          intro _ s2 hS2
          refine wp_mono _ _ _ _ (hc.1 "core" c0 s2) ?_
          intro _ s' h
          rw [wp_check_exit]
          intro _
          exact (wp_pure _ _ _).mpr
            ((h (hunk s2 hS2.1) hS2.2).2 (fun hx => hK.2.2.1 hx.2.symm))
        · intro _
          simp only [wp_bind, wp_get]
          rw [wp_ite]
          refine ⟨fun _ => (wp_pure _ _ _).mpr hJ1, fun _ => ?_⟩
          simp only [wp_bind]
          refine wp_mono _ _ _ _ (wp_and _ _ _ _ (hc1.2.1 c0 st1) (hc.2.1 c0 st1)) ?_
          intro _ s2 h2
          have hW2 := hkeep st1 s2 hW1 h2.1.1 (h2.2 hK1 hJ1)
          refine wp_mono _ _ _ _ (hc.2.2 g c0 s2) ?_
          intro _ s3 h3
          exact (h3 (hunk s2 hW2.1)).2 hW2.2

theorem mark_minus_body_unknown (env : Env) (P : PackageSpec) (f : String) (callee : Marking)
    (hc1 : callee.Meets (core_closure_spec env))
    (hc : callee.Meets (unknown_feature_spec env P f)) (c0 : PackageSpec) (st : PlanState) :
    wp (mark_minus_body env callee c0)
      (fun _ => (unknown_feature_spec env P f).mark_minus c0 st) st := by
  refine wp_imp _ _ _ _ ?_
  intro hK
  refine wp_imp _ _ _ _ ?_
  intro hJ
  have hkeep : ∀ s s' : PlanState, (((s.cluster env P).source = (st.cluster env P).source ∧
      (s.cluster env P).installed = (st.cluster env P).installed) ∧
      (s.cluster env P).plus_of f = false) → Marked env s s' →
      (s'.cluster env P).plus_of f = false →
      (((s'.cluster env P).source = (st.cluster env P).source ∧
      (s'.cluster env P).installed = (st.cluster env P).installed) ∧
      (s'.cluster env P).plus_of f = false) :=
    fun s s' hs hM hJ' => ⟨⟨by rw [hM.source, hs.1.1], by rw [hM.installed, hs.1.2]⟩, hJ'⟩
  have hunk : ∀ s : PlanState, ((s.cluster env P).source = (st.cluster env P).source ∧
      (s.cluster env P).installed = (st.cluster env P).installed) → s.Unknown env P f :=
    fun s hs => unknown_of_view env P f st s hs.1 hs.2 hK
  unfold mark_minus_body
  simp only [wp_bind, wp_get]
  rw [wp_ite]
  refine ⟨fun _ => (wp_pure _ _ _).mpr hJ, fun _ => ?_⟩
  simp only [wp_bind]
  refine wp_modify_named _ _ _ ?_
  intro st1 hst1
  have hW1 : ((st1.cluster env P).source = (st.cluster env P).source ∧
      (st1.cluster env P).installed = (st.cluster env P).installed) ∧
      (st1.cluster env P).plus_of f = false := by
    subst hst1
    refine ⟨⟨source_modify_eq env st c0 _ (by intro _; rfl) P,
      installed_modify_eq env st c0 _ (by intro _; rfl) P⟩, ?_⟩
    rw [plus_of_modify_keep env P f st c0 _ (by intro _; rfl)]; exact hJ
  simp only [wp_get]
  split
  · exact (wp_throw _ _ _).mpr trivial
  · rename_i p_source hsrc
    have hsrcP : c0 = P → (st.cluster env P).source = some p_source := by
      intro e; rw [← hW1.1.1, ← e]; exact hsrc
    split
    · exact (wp_pure _ _ _).mpr hW1.2
    · simp only [wp_bind]
      refine wp_modify_named _ _ _ ?_
      intro st2 hst2
      have hW2 : ((st2.cluster env P).source = (st.cluster env P).source ∧
          (st2.cluster env P).installed = (st.cluster env P).installed) ∧
          (st2.cluster env P).plus_of f = false := by
        subst hst2; exact hW1
      refine wp_mono _ _ _ _ (wp_for_each _ _ (fun s =>
          ((s.cluster env P).source = (st.cluster env P).source ∧
          (s.cluster env P).installed = (st.cluster env P).installed) ∧
          (s.cluster env P).plus_of f = false) ?_ st2 hW2) ?_
      · intro edge _ s hs
        unfold mark_minus_remove_edge
        simp only [wp_bind, wp_modify, wp_check_exit]
        intro _
        refine wp_mono _ _ _ _ (wp_and _ _ _ _ (hc1.2.1 edge _) (hc.2.1 edge _)) ?_
        intro _ s' h
        have hs0 : ((({ (s.get env edge) with graph_plan :=
            { (s.get env edge).graph_plan with remove_graph :=
              (s.get env edge).graph_plan.remove_graph.add_edge c0 edge } } :
            PlanState).cluster env P).source = (st.cluster env P).source ∧
            (({ (s.get env edge) with graph_plan :=
            { (s.get env edge).graph_plan with remove_graph :=
              (s.get env edge).graph_plan.remove_graph.add_edge c0 edge } } :
            PlanState).cluster env P).installed = (st.cluster env P).installed) ∧
            (({ (s.get env edge) with graph_plan :=
            { (s.get env edge).graph_plan with remove_graph :=
              (s.get env edge).graph_plan.remove_graph.add_edge c0 edge } } :
            PlanState).cluster env P).plus_of f = false := by
          simpa using hs
        exact hkeep _ s' hs0 h.1.1 (h.2 (hunk _ hs0.1) hs0.2)
      intro _ st3 hS3
      refine wp_mono _ _ _ _ (wp_for_each _ _ (fun s =>
          ((s.cluster env P).source = (st.cluster env P).source ∧
          (s.cluster env P).installed = (st.cluster env P).installed) ∧
          (s.cluster env P).plus_of f = false) ?_ st3 hS3) ?_
      · intro f' _ s hs
        unfold mark_minus_reinstall
        simp only [wp_bind, wp_pure]
        refine wp_mono _ _ _ _ (wp_and _ _ _ _ (hc1.2.2 f' c0 s) (hc.2.2 f' c0 s)) ?_
        intro _ s' h
        exact hkeep s s' hs h.1.1 ((h.2 (hunk s hs.1)).2 hs.2)
      intro _ st4 hS4
      refine wp_mono _ _ _ _ (wp_for_each _ _ (fun s =>
          ((s.cluster env P).source = (st.cluster env P).source ∧
          (s.cluster env P).installed = (st.cluster env P).installed) ∧
          (s.cluster env P).plus_of f = false) ?_ st4 hS4) (fun _ _ h => h.2)
      intro d hd s hs
      unfold mark_minus_new_default
      simp only [wp_ite, wp_bind, wp_pure]
      refine ⟨fun _ => ?_, fun _ => hs⟩
      refine wp_mono _ _ _ _ (wp_and _ _ _ _ (hc1.1 d c0 s) (hc.1 d c0 s)) ?_
      intro _ s' h
      refine hkeep s s' hs h.1.1 ((h.2 (hunk s hs.1) hs.2).2 ?_)
      rintro ⟨e1, e2⟩
      exact (hK.2.2.2.1 p_source (hsrcP e1)).2.1 (by rw [← e2]; exact hd)

theorem follow_plus_dependencies_body_unknown (env : Env) (pdf : List String)
    (P : PackageSpec) (f : String) (callee : Marking)
    (hc1 : callee.Meets (core_closure_spec env))
    (hc : callee.Meets (unknown_feature_spec env P f)) (g : String) (c0 : PackageSpec)
    (st : PlanState) :
    wp (follow_plus_dependencies_body env pdf callee g c0)
      ((unknown_feature_spec env P f).follow_plus_dependencies g c0 st) st := by
  refine wp_imp _ _ _ _ ?_
  intro hK
  have hkeep : ∀ s s' : PlanState, (((s.cluster env P).source = (st.cluster env P).source ∧
      (s.cluster env P).installed = (st.cluster env P).installed) ∧
      (s.cluster env P).plus_of f = false) → Marked env s s' →
      (s'.cluster env P).plus_of f = false →
      (((s'.cluster env P).source = (st.cluster env P).source ∧
      (s'.cluster env P).installed = (st.cluster env P).installed) ∧
      (s'.cluster env P).plus_of f = false) :=
    fun s s' hs hM hJ' => ⟨⟨by rw [hM.source, hs.1.1], by rw [hM.installed, hs.1.2]⟩, hJ'⟩
  have hunk : ∀ s : PlanState, ((s.cluster env P).source = (st.cluster env P).source ∧
      (s.cluster env P).installed = (st.cluster env P).installed) → s.Unknown env P f :=
    fun s hs => unknown_of_view env P f st s hs.1 hs.2 hK
  unfold follow_plus_dependencies_body
  simp only [wp_bind, wp_get]
  split
  · rename_i p_source hsrc
    split
    · rename_i build_edges hfind
      have hne : ¬ (c0 = P ∧ g = f) := by
        rintro ⟨e1, e2⟩
        subst e1
        subst e2
        rw [(hK.2.2.2.1 p_source hsrc).1] at hfind
        cases hfind
      refine wp_mono _ (fun _ s' => (st.cluster env P).plus_of f = false →
        (s'.cluster env P).plus_of f = false) _ _ ?_
        (fun _ _ h => ⟨fun hx => absurd hx hne, h⟩)
      refine wp_imp _ _ _ _ ?_
      intro hJ
      simp only [wp_bind]
      refine wp_mono _ _ _ _ (wp_and _ _ _ _ (hc1.2.1 c0 st) (hc.2.1 c0 st)) ?_
      intro _ st1 h1
      have hW1 := hkeep st st1 ⟨⟨rfl, rfl⟩, hJ⟩ h1.1.1 (h1.2 hK hJ)
      refine wp_modify_named _ _ _ ?_
      intro st2 hst2
      refine wp_modify_named _ _ _ ?_
      intro st3 hst3
      have hW3 : ((st3.cluster env P).source = (st.cluster env P).source ∧
          (st3.cluster env P).installed = (st.cluster env P).installed) ∧
          (st3.cluster env P).plus_of f = false := by
        subst hst3
        subst hst2
        refine ⟨⟨Eq.trans ?_ hW1.1.1, Eq.trans ?_ hW1.1.2⟩, Eq.trans ?_ hW1.2⟩
        · exact source_modify_eq env _ c0 _ (by intro _; rfl) P
        · exact installed_modify_eq env _ c0 _ (by intro _; rfl) P
        · exact plus_of_modify_keep env P f _ c0 _ (by intro _; rfl)
      refine wp_mono _ (fun _ s =>
          ((s.cluster env P).source = (st.cluster env P).source ∧
          (s.cluster env P).installed = (st.cluster env P).installed) ∧
          (s.cluster env P).plus_of f = false) _ _ ?_ ?_
      · rw [wp_ite]
        refine ⟨fun _ => ?_, fun _ => (wp_pure _ _ _).mpr hW3⟩
        simp only [wp_bind]
        refine wp_mono _ _ _ _ (wp_and _ _ _ _ (hc1.1 "core" c0 st3) (hc.1 "core" c0 st3)) ?_
        intro r s4 h
        rw [wp_check_exit]
        intro _
        exact hkeep st3 s4 hW3 h.1.1
          ((h.2 (hunk st3 hW3.1) hW3.2).2 (fun hx => hK.2.2.1 hx.2.symm))
      · intro _ s4 hW4
        simp only [wp_get]
        refine wp_mono _ (fun _ s =>
            ((s.cluster env P).source = (st.cluster env P).source ∧
            (s.cluster env P).installed = (st.cluster env P).installed) ∧
            (s.cluster env P).plus_of f = false) _ _ ?_ ?_
        · rw [wp_ite]
          refine ⟨fun _ => ?_, fun _ => (wp_pure _ _ _).mpr hW4⟩
          simp only [wp_bind]
          refine wp_mono _ _ _ _ (wp_and _ _ _ _ (hc1.1 "" c0 s4) (hc.1 "" c0 s4)) ?_
          intro r s5 h
          rw [wp_check_exit]
          intro _
          exact hkeep s4 s5 hW4 h.1.1
            ((h.2 (hunk s4 hW4.1) hW4.2).2 (fun hx => hK.1 hx.2.symm))
        · intro _ s5 hW5
          refine wp_mono _ _ _ _
            (wp_for_each _ _ (fun s =>
              ((s.cluster env P).source = (st.cluster env P).source ∧
              (s.cluster env P).installed = (st.cluster env P).installed) ∧
              (s.cluster env P).plus_of f = false) ?_ s5 hW5) ?_
          · intro depend _ s hs
            unfold follow_plus_dependencies_edge
            simp only [wp_bind, wp_modify]
            refine wp_mono _ _ _ _ (wp_and _ _ _ _
              (hc1.1 depend.feature depend.spec _) (hc.1 depend.feature depend.spec _)) ?_
            intro r s' h
            rw [wp_check_exit]
            intro hr
            have hs0 : (((s.get env depend.spec).cluster env P).source =
                (st.cluster env P).source ∧
                ((s.get env depend.spec).cluster env P).installed =
                  (st.cluster env P).installed) ∧
                ((s.get env depend.spec).cluster env P).plus_of f = false := by
              simpa using hs
            have hspec := h.2 (hunk _ hs0.1) hs0.2
            have hnot : ¬ (depend.spec = P ∧ depend.feature = f) := by
              intro hx
              rw [hspec.1 hx] at hr
              simp at hr
            have hW' := hkeep _ s' hs0 h.1.1 (hspec.2 hnot)
            rw [wp_ite]
            refine ⟨fun _ => (wp_pure _ _ _).mpr hW', fun _ => ?_⟩
            rw [wp_modify]
            exact hW'
          · intro _ s6 hS6
            exact (wp_pure _ _ _).mpr hS6.2
    · exact (wp_pure _ _ _).mpr ⟨fun _ => rfl, fun h => h⟩
  · exact (wp_pure _ _ _).mpr ⟨fun _ => rfl, fun h => h⟩

/-- The marking procedures never mark the unknown feature successfully. -/
theorem marking_unknown (env : Env) (pdf : List String) (P : PackageSpec) (f : String)
    (fuel : Nat) : (marking env pdf fuel).Meets (unknown_feature_spec env P f) :=
  marking_meets_with_core env pdf (unknown_feature_spec env P f)
    (fun callee hc1 hc g c st => mark_plus_body_unknown env P f callee hc1 hc g c st)
    (fun callee hc1 hc c st => mark_minus_body_unknown env P f callee hc1 hc c st)
    (fun callee hc1 hc g c st =>
      follow_plus_dependencies_body_unknown env pdf P f callee hc1 hc g c st) fuel

end Vcpkg

namespace Vcpkg

/-! ## An unknown feature is fatal (C24) -/

/-- A loop whose body keeps `I` and, for one of the elements, never returns from a state
with `I`, never returns from a state with `I`. -/
theorem wp_for_each_inv_never {α : Type} (xs : List α) (body : α → Planner Unit)
    (I : PlanState → Prop) (x : α) (hx : x ∈ xs)
    (hkeep : ∀ y ∈ xs, ∀ st, I st → wp (body y) (fun _ st' => I st') st)
    (hbody : ∀ st, I st → wp (body x) (fun _ _ => False) st) :
    ∀ st, I st → wp (for_each xs body) (fun _ _ => False) st := by
  induction xs with
  | nil => simp at hx
  | cons y rest ih =>
    intro st hst
    simp only [for_each, wp_bind]
    rcases List.mem_cons.mp hx with e | hmem
    · subst e
      exact wp_mono _ _ _ _ (hbody st hst) (fun _ _ hf => hf.elim)
    · refine wp_mono _ _ _ _ (hkeep y (List.mem_cons_self _ _) st hst) ?_
      intro _ s1 h1
      exact ih hmem (fun z hz => hkeep z (List.mem_cons_of_mem _ hz)) s1 h1

/-- A feature that is neither "core" nor a feature paragraph of the port has no build
edges. -/
theorem cluster_from_scf_undeclared (env : Env) (scf : SourceControlFile) (t : Triplet)
    (f : String) (hcore : f ≠ "core") (hpar : ∀ fp ∈ scf.feature_paragraphs, fp.name ≠ f) :
    AssocMap.find (cluster_from_scf env scf t).build_edges f = none := by
  unfold cluster_from_scf
  simp only
  have key : ∀ (fps : List FeatureParagraph) (edges : List (String × List FeatureSpec)),
      AssocMap.find edges f = none → (∀ fp ∈ fps, fp.name ≠ f) →
      AssocMap.find (fps.foldl (fun edges feature =>
        AssocMap.emplace edges feature.name
          (env.filter_dependencies_to_specs feature.depends t)) edges) f = none := by
    intro fps
    induction fps with
    | nil => intro edges h _; exact h
    | cons p rest ih =>
      intro edges h hall
      simp only [List.foldl_cons]
      apply ih
      · rw [find_emplace, h]
        have : f ≠ p.name := fun e => hall p (List.mem_cons_self _ _) e.symm
        simp [this]
      · exact fun fp hfp => hall fp (List.mem_cons_of_mem _ hfp)
  apply key _ _ _ hpar
  rw [find_emplace]
  simp [AssocMap.find, hcore]

theorem unknown_init (env : Env) (status_db : StatusParagraphs) (g : ClusterGraph)
    (h : create_feature_install_graph env status_db = Except.ok g)
    (P : PackageSpec) (f : String) (scf : SourceControlFile)
    (hport : env.get_control_file P.name = some scf)
    (h1 : f ≠ "") (h2 : f ≠ "*") (h3 : f ≠ "core")
    (hpar : ∀ fp ∈ scf.feature_paragraphs, fp.name ≠ f)
    (hdef : f ∉ scf.core_paragraph.default_features)
    (hinst : ∀ ipv ∈ status_db, ipv.spec = P → ∀ p ∈ ipv.features, p.feature ≠ f) :
    PlanState.Unknown env P f { m_graph := g, graph_plan := {} } := by
  obtain ⟨_, _, _, hsrc, _⟩ := init_cluster_fresh env status_db g h P
  refine ⟨h1, h2, h3, fun src hs => ?_, ?_⟩
  · rw [hsrc] at hs
    simp only [new_cluster, hport, Option.map_some', Option.some.injEq] at hs
    subst hs
    exact ⟨cluster_from_scf_undeclared env scf P.triplet f h3 hpar, hdef, hpar⟩
  · obtain ⟨_, hnone, hsome⟩ := create_feature_install_graph_cluster env status_db g h P
    unfold Cluster.original
    cases hl : last_installed status_db P with
    | none =>
      have hn := hnone hl
      rw [show (PlanState.cluster env { m_graph := g, graph_plan := {} } P).installed =
        (ClusterGraph.cluster env g P).installed from rfl, hn]
      simp
    | some ipv =>
      obtain ⟨i, hi, _, horig, _⟩ := hsome ipv hl
      rw [show (PlanState.cluster env { m_graph := g, graph_plan := {} } P).installed =
        (ClusterGraph.cluster env g P).installed from rfl, hi]
      simp only
      rw [horig, mem_original_features]
      obtain ⟨hmem, hspec⟩ := last_installed_some status_db P ipv hl
      rintro (e | ⟨p, hp, e⟩)
      · exact h3 e
      · exact hinst ipv hmem hspec p hp e

theorem marked_state_error (env : Env) (fuel : Nat) (specs : List FeatureSpec)
    (status_db : StatusParagraphs) (g : ClusterGraph) (e : Failure)
    (hg : create_feature_install_graph env status_db = Except.ok g)
    (h : (install_all env fuel specs (prevent_default_features_of specs)).run
      { m_graph := g, graph_plan := {} } = Except.error e) :
    create_feature_install_plan env fuel specs status_db = Except.error e := by
  unfold create_feature_install_plan marked_state PackageGraph.init
  simp only [hg, bind, Except.bind, pure, Except.pure]
  rw [h]

/-- C24 (an unknown feature is fatal): for every input that contains a spec `P[f]` where
`P` has a port, `f` is none of "", "*" and "core", is neither a feature paragraph nor a
default feature of the port, and no view of `P` in the status database has the feature
`f`, `create_feature_install_plan` returns no plan, whatever the recursion depth; and when
`P[f]` is the first spec of the input, `P` is not installed and the status database is
consistent, the call fails, for a recursion depth of 2 or more, with the error that `f` is
not a feature of the package `P`. -/
theorem unknown_feature_is_fatal (env : Env) (fuel : Nat) (specs : List FeatureSpec)
    (status_db : StatusParagraphs) (P : PackageSpec) (f : String)
    (hin : (⟨P, f⟩ : FeatureSpec) ∈ specs)
    (scf : SourceControlFile) (hport : env.get_control_file P.name = some scf)
    (h1 : f ≠ "") (h2 : f ≠ "*") (h3 : f ≠ "core")
    (hpar : ∀ fp ∈ scf.feature_paragraphs, fp.name ≠ f)
    (hdef : f ∉ scf.core_paragraph.default_features)
    (hinst : ∀ ipv ∈ status_db, ipv.spec = P → ∀ p ∈ ipv.features, p.feature ≠ f) :
    (∀ plan, create_feature_install_plan env fuel specs status_db ≠ Except.ok plan) ∧
    (specs.head? = some ⟨P, f⟩ → (∀ ipv ∈ status_db, ipv.spec ≠ P) →
      (∃ g, create_feature_install_graph env status_db = Except.ok g) → 2 ≤ fuel →
        create_feature_install_plan env fuel specs status_db =
          Except.error (Failure.fatal (FatalError.not_a_feature f P.name))) := by
  constructor
  · intro plan hplan
    obtain ⟨marked, hm, _⟩ := (create_feature_install_plan_ok env fuel specs status_db plan).mp hplan
    rw [marked_state_ok] at hm
    obtain ⟨g, hg, hrun⟩ := hm
    have hK0 := unknown_init env status_db g hg P f scf hport h1 h2 h3 hpar hdef hinst
    have hJ0 := (init_cluster_fresh env status_db g hg P).2.1 f
    have hinitV : ∀ s : PlanState, (s.Unknown env P f ∧ (s.cluster env P).plus_of f = false) →
        ∀ c, ((s.get env c).modify env c (fun c =>
          { c with request_type := RequestType.USER_REQUESTED })).Unknown env P f ∧
          (((s.get env c).modify env c (fun c =>
          { c with request_type := RequestType.USER_REQUESTED })).cluster env P).plus_of f
            = false := by
      intro s hs c
      refine ⟨unknown_of_view env P f s _ ?_ ?_ hs.1, ?_⟩
      · rw [source_modify_eq env _ c _ (by intro _; rfl) P]; simp
      · rw [installed_modify_eq env _ c _ (by intro _; rfl) P]; simp
      · rw [plus_of_modify_keep env P f _ c _ (by intro _; rfl)]; simpa using hs.2
    refine wp_for_each_inv_never specs _
      (fun s => s.Unknown env P f ∧ (s.cluster env P).plus_of f = false) ⟨P, f⟩ hin ?_ ?_
      _ ⟨hK0, hJ0⟩ () marked hrun
    · intro y _ s hs
      rw [wp_ite]
      refine ⟨fun _ => (wp_pure _ _ _).mpr hs, fun _ => ?_⟩
      unfold PackageGraph.install
      simp only [wp_bind, wp_modify]
      have hs1 := hinitV s hs y.spec
      refine wp_mono _ _ _ _ (wp_and _ _ _ _
        ((marking_core_closure env _ fuel).1 y.feature y.spec _)
        ((marking_unknown env _ P f fuel).1 y.feature y.spec _)) ?_
      intro r s' h
      rw [wp_check_exit]
      intro hr
      have hspec := h.2 hs1.1 hs1.2
      have hnot : ¬ (y.spec = P ∧ y.feature = f) := by
        intro hx
        rw [hspec.1 hx] at hr
        simp at hr
      exact ⟨unknown_of_view env P f _ _ (h.1.1.source P) (h.1.1.installed P) hs1.1,
        hspec.2 hnot⟩
    · intro s hs
      rw [wp_ite]
      refine ⟨fun hskip => absurd hskip.1 h1, fun _ => ?_⟩
      unfold PackageGraph.install
      simp only [wp_bind, wp_modify]
      have hs1 := hinitV s hs P
      refine wp_mono _ _ _ _ ((marking_unknown env _ P f fuel).1 f P _) ?_
      intro r s' h
      rw [wp_check_exit]
      intro hr
      rw [(h hs1.1 hs1.2).1 ⟨rfl, rfl⟩] at hr
      simp at hr
  · intro hhead hnot ⟨g, hg⟩ hfuel
    obtain ⟨n, rfl⟩ : ∃ n, fuel = n + 1 + 1 := ⟨fuel - 2, by omega⟩
    apply marked_state_error env _ specs status_db g _ hg
    cases specs with
    | nil => simp at hhead
    | cons x rest =>
      simp only [List.head?_cons, Option.some.injEq] at hhead
      subst hhead
      have hl : last_installed status_db P = none := by
        cases hl : last_installed status_db P with
        | none => rfl
        | some ipv =>
          obtain ⟨hmem, hspec⟩ := last_installed_some status_db P ipv hl
          exact absurd hspec (hnot ipv hmem)
      have h0 := init_cluster_not_installed env status_db g hg P hl
      have hnew : new_cluster env P =
          { spec := P, source := some (cluster_from_scf env scf P.triplet) } := by
        simp [new_cluster, hport]
      rw [hnew] at h0
      unfold install_all
      simp only [for_each, Planner.run_bind, Planner.run_ite]
      rw [if_neg (fun hskip => h1 hskip.1)]
      rw [install_run]
      simp only [Planner.run_bind]
      rw [mark_plus_run_rebuild env _ (n + 1) f P _ (cluster_from_scf env scf P.triplet)
        (by simp [h0, Cluster.plus_of, AssocMap.find]) (by simp [h0]) h1 h2
        (by simp [h0])]
      simp only [Planner.run_bind]
      rw [mark_minus_run_not_installed env _ n P _ (cluster_from_scf env scf P.triplet)
        (by simp [h0]) (by simp [h0]) (by simp [h0])]
      simp only []
      rw [follow_plus_dependencies_run_not_found env _ n f P _ (by
        intro source hs
        simp [h0] at hs
        subst hs
        exact cluster_from_scf_undeclared env scf P.triplet f h3 hpar)]
      simp [check_exit]
      rfl

/-- The request `foo[zzz]` for a feature that the port of `foo` does not have, on an empty
installation: no plan is returned, and the error is that `zzz` is not a feature of `foo`. -/
theorem unknown_feature_is_fatal_witness :
    (∀ plan, create_feature_install_plan fg_env 10 [⟨⟨"foo", x64_linux⟩, "zzz"⟩] [] ≠
      Except.ok plan) ∧
    ([(⟨⟨"foo", x64_linux⟩, "zzz"⟩ : FeatureSpec)].head? = some ⟨⟨"foo", x64_linux⟩, "zzz"⟩ →
      (∀ ipv ∈ ([] : StatusParagraphs), ipv.spec ≠ ⟨"foo", x64_linux⟩) →
      (∃ g, create_feature_install_graph fg_env [] = Except.ok g) → 2 ≤ 10 →
        create_feature_install_plan fg_env 10 [⟨⟨"foo", x64_linux⟩, "zzz"⟩] [] =
          Except.error (Failure.fatal
            (FatalError.not_a_feature "zzz" (⟨"foo", x64_linux⟩ : PackageSpec).name))) :=
  unknown_feature_is_fatal fg_env 10 [⟨⟨"foo", x64_linux⟩, "zzz"⟩] [] ⟨"foo", x64_linux⟩ "zzz"
    (by decide) fg_port (by decide) (by decide) (by decide) (by decide) (by decide)
    (by decide) (by simp)

/-- Two inputs on which the claim fails.  With `foo` installed, the input `foo[h]`,
`foo[g]` returns a plan, although `g`, a default feature of the port, is no feature
paragraph of the port and is not installed: the rebuild of `foo` for `h` has marked `g`
and only warned.  And the input `bar[core]`, `foo[zzz]` fails with the error of the first
spec, that `bar` has no definition, not with the error that `zzz` is not a feature of
`foo`. -/
theorem unknown_feature_counterexample :
    create_feature_install_plan fg_env 10
        [⟨⟨"foo", x64_linux⟩, "h"⟩, ⟨⟨"foo", x64_linux⟩, "g"⟩] fg_status_db =
      Except.ok fg_plan ∧
    create_feature_install_plan fg_env 10
        [⟨⟨"bar", x64_linux⟩, "core"⟩, ⟨⟨"foo", x64_linux⟩, "zzz"⟩] [] =
      Except.error (Failure.fatal (FatalError.cannot_find_definition "bar")) := by
  decide

end Vcpkg

namespace Vcpkg

/-! ## Drifted features only warn (C34) -/

theorem declared_rel_refl (env : Env) (st : PlanState) : DeclaredRel env st st :=
  ⟨fun _ => rfl, fun h => h⟩

theorem declared_rel_trans (env : Env) (a b c : PlanState) (hab : DeclaredRel env a b)
    (hbc : DeclaredRel env b c) : DeclaredRel env a c :=
  ⟨fun s => (hbc.1 s).trans (hab.1 s), fun h => hbc.2 (hab.2 h)⟩

/-- A change that leaves the source half and the features to install of every cluster as
they are keeps `FeaturesDeclared`. -/
theorem declared_rel_of_same (env : Env) (st st' : PlanState)
    (h : ∀ c, (st'.cluster env c).source = (st.cluster env c).source ∧
      (st'.cluster env c).to_install_features = (st.cluster env c).to_install_features) :
    DeclaredRel env st st' := by
  refine ⟨fun c => (h c).1, fun hd c f hf => ?_⟩
  rw [(h c).2] at hf
  obtain ⟨src, es, hsrc, hes⟩ := hd c f hf
  exact ⟨src, es, by rw [(h c).1]; exact hsrc, hes⟩

theorem declared_rel_modify (env : Env) (st : PlanState) (c : PackageSpec)
    (g : Cluster → Cluster) (hsource : ∀ x, (g x).source = x.source)
    (hfeatures : ∀ x, (g x).to_install_features = x.to_install_features) :
    DeclaredRel env st (st.modify env c g) := by
  refine declared_rel_of_same env _ _ (fun s => ?_)
  rw [PlanState.state_cluster_modify]
  split
  · rename_i e; subst e; exact ⟨hsource _, hfeatures _⟩
  · exact ⟨rfl, rfl⟩

/-- The insertion of a feature that the port of the cluster declares keeps
`FeaturesDeclared`. -/
theorem declared_rel_insert (env : Env) (st : PlanState) (c : PackageSpec) (f : String)
    (hd : (st.cluster env c).declares f) :
    DeclaredRel env st (PlanState.modify env { st with graph_plan :=
      { st.graph_plan with install_graph := st.graph_plan.install_graph.add_vertex c } } c
      (fun c => { c with to_install_features := set_insert string_less f c.to_install_features })) := by
  refine ⟨fun s => ?_, fun h s x hx => ?_⟩
  · rw [PlanState.state_cluster_modify]
    split
    · rename_i e; subst e; rfl
    · rfl
  · rw [PlanState.state_cluster_modify] at hx ⊢
    split at hx
    · rename_i e
      subst e
      rw [if_pos rfl]
      simp only [PlanState.cluster_with_graph_plan] at hx ⊢
      rcases (mem_set_insert _ _ _ _).mp hx with e | hx
      · subst e; exact hd
      · exact h _ _ hx
    · rename_i e
      rw [if_neg e]
      exact h _ _ hx

/-- The body of `follow_plus_dependencies` keeps `FeaturesDeclared`: it inserts the feature
only after it has found the build edges of the feature in the port. -/
theorem follow_plus_dependencies_body_declared (env : Env) (pdf : List String)
    (callee : Marking) (hc : callee.Meets (MarkingSpec.rel (DeclaredRel env))) (f : String)
    (c0 : PackageSpec) (st : PlanState) :
    wp (follow_plus_dependencies_body env pdf callee f c0)
      (fun _ st' => DeclaredRel env st st') st := by
  have htrans := declared_rel_trans env
  unfold follow_plus_dependencies_body
  simp only [wp_bind, wp_get]
  split
  · rename_i p_source hsrc
    split
    · rename_i build_edges hfind
      simp only [wp_bind]
      refine wp_mono _ _ _ _ (hc.2.1 c0 st) ?_
      intro _ st1 h1
      refine wp_modify_named _ _ _ ?_
      intro st2 hst2
      refine wp_modify_named _ _ _ ?_
      intro st3 hst3
      have hR3 : DeclaredRel env st st3 := by
        subst hst3; subst hst2
        refine htrans _ _ _ h1 (declared_rel_insert env st1 c0 f ?_)
        exact ⟨p_source, build_edges, by rw [h1.1 c0]; exact hsrc, hfind⟩
      refine wp_mono _ (fun _ s => DeclaredRel env st s) _ _ ?_ ?_
      · rw [wp_ite]
        refine ⟨fun _ => ?_, fun _ => (wp_pure _ _ _).mpr hR3⟩
        simp only [wp_bind]
        refine wp_mono _ _ _ _ (hc.1 "core" c0 st3) ?_
        intro r s4 h
        rw [wp_check_exit]
        intro _
        exact htrans _ _ _ hR3 h
      · intro _ s4 hS4
        simp only [wp_get]
        refine wp_mono _ (fun _ s => DeclaredRel env st s) _ _ ?_ ?_
        · rw [wp_ite]
          refine ⟨fun _ => ?_, fun _ => (wp_pure _ _ _).mpr hS4⟩
          simp only [wp_bind]
          refine wp_mono _ _ _ _ (hc.1 "" c0 s4) ?_
          intro r s5 h
          rw [wp_check_exit]
          intro _
          exact htrans _ _ _ hS4 h
        · intro _ s5 hS5
          refine wp_mono _ _ _ _ (wp_for_each _ _ (fun s => DeclaredRel env st s) ?_ s5 hS5) ?_
          · intro depend _ s hs
            unfold follow_plus_dependencies_edge
            simp only [wp_bind, wp_modify]
            refine wp_mono _ _ _ _ (hc.1 depend.feature depend.spec _) ?_
            intro r s' h
            rw [wp_check_exit]
            intro _
            have hs' : DeclaredRel env st s' :=
              htrans _ _ _ (htrans _ _ _ hs
                (declared_rel_of_same env _ _ (fun c => by simp))) h
            rw [wp_ite]
            refine ⟨fun _ => (wp_pure _ _ _).mpr hs', fun _ => ?_⟩
            rw [wp_modify]
            exact htrans _ _ _ hs' (declared_rel_of_same env _ _ (fun c => ⟨rfl, rfl⟩))
          · intro _ s6 hS6
            exact (wp_pure _ _ _).mpr hS6
    · exact (wp_pure _ _ _).mpr (declared_rel_refl env st)
  · exact (wp_pure _ _ _).mpr (declared_rel_refl env st)

/-- The marking procedures keep `FeaturesDeclared`. -/
theorem marking_declared (env : Env) (pdf : List String) (fuel : Nat) :
    (marking env pdf fuel).Meets (MarkingSpec.rel (DeclaredRel env)) := by
  refine marking_meets env pdf (MarkingSpec.rel (DeclaredRel env)) ?_ ?_ ?_ fuel
  · intro callee hc f c st
    exact mark_plus_body_rel env (DeclaredRel env) (declared_rel_refl env)
      (declared_rel_trans env)
      (fun st c f => declared_rel_modify env st c _ (fun _ => rfl) (fun _ => rfl))
      callee hc f c st
  · intro callee hc c st
    exact mark_minus_body_rel env (DeclaredRel env) (declared_rel_refl env)
      (declared_rel_trans env)
      (fun st c => declared_rel_modify env st c _ (fun _ => rfl) (fun _ => rfl))
      (fun st c => declared_rel_of_same env _ _ (fun s => by simp))
      (fun st c => declared_rel_of_same env _ _ (fun s => ⟨rfl, rfl⟩))
      (fun st c e => declared_rel_of_same env _ _ (fun s => ⟨rfl, rfl⟩))
      callee hc c st
  · intro callee hc f c st
    exact follow_plus_dependencies_body_declared env pdf callee hc f c st

/-- In the marked state every feature to install has build edges in the port of its
package. -/
theorem marked_state_features_declared (env : Env) (fuel : Nat) (specs : List FeatureSpec)
    (status_db : StatusParagraphs) (marked : PlanState)
    (h : marked_state env fuel specs status_db = Except.ok marked) :
    marked.FeaturesDeclared env := by
  obtain ⟨g, hg, hrun⟩ := (marked_state_ok _ _ _ _ _).mp h
  have hinit : PlanState.FeaturesDeclared env { m_graph := g, graph_plan := {} } := by
    intro c f hf
    obtain ⟨_, _, hfeat, _, _⟩ := init_cluster_fresh env status_db g hg c
    rw [hfeat] at hf
    cases hf
  refine install_all_inv env fuel _ (fun s => s.FeaturesDeclared env) ?_ ?_ ?_ ?_ specs _ hinit
    () marked hrun
  · intro st c hst
    exact (declared_rel_of_same env st _ (fun s => by simp)).2 hst
  · intro st c hst
    exact (declared_rel_modify env st c _ (by intro _; rfl) (by intro _; rfl)).2 hst
  · intro f c st r st' hrun'
    exact ((marking_declared env _ fuel).1 f c st r st' hrun').2
  · intro st c hst
    exact (declared_rel_of_same env st _ (fun s => ⟨rfl, rfl⟩)).2 hst

/-- C34 (drifted features only warn), as the code has it: for a package `P` that is
installed and has a port, an installed feature `old` that the port does not have any more
(`old` is not "core" and no feature paragraph of the port), and a feature `new`, other than
"" and "*", that is a feature paragraph of the port and is not installed: whenever
`create_feature_install_plan` returns a plan for an input that requests `P[new]`, the plan
has a `RemovePlanAction` for `P` followed by a `BUILD_AND_INSTALL` action for `P` whose
feature list contains "core", `new` and every installed feature that is still a feature
paragraph of the port, and does not contain `old`.  And `old` only warns: the step of
`mark_minus` that reinstalls the feature `old` of `P` returns, in every state, and leaves
the state as it is, since `follow_plus_dependencies` returns `FEATURE_NOT_FOUND` for it.
The topological sort is taken to return a topological order of the graph it is given. -/
theorem drifted_features_only_warn (env : Env) (hsort : env.TopologicalSortSpec)
    (status_db : StatusParagraphs) (P : PackageSpec) (ipv : InstalledPackageView)
    (hinstalled : last_installed status_db P = some ipv)
    (scf : SourceControlFile) (hport : env.get_control_file P.name = some scf)
    (old new : String)
    (_hold : old ∈ (cluster_installed_of ipv).original_features)
    (ho1 : old ≠ "core") (hgone : ∀ fp ∈ scf.feature_paragraphs, fp.name ≠ old)
    (hpar : ∃ fp ∈ scf.feature_paragraphs, fp.name = new)
    (hnew : new ∉ (cluster_installed_of ipv).original_features)
    (hn1 : new ≠ "") (hn2 : new ≠ "*")
    (specs : List FeatureSpec) (hreq : (⟨P, new⟩ : FeatureSpec) ∈ specs)
    (fuel : Nat) (plan : List AnyAction)
    (h : create_feature_install_plan env fuel specs status_db = Except.ok plan) :
    (∃ (i j : Nat) (r : RemovePlanAction) (a : InstallPlanAction), i < j ∧
      plan[i]? = some (AnyAction.remove_action r) ∧
      plan[j]? = some (AnyAction.install_action a) ∧ r.spec = P ∧ a.spec = P ∧
      a.plan_type = InstallPlanType.BUILD_AND_INSTALL ∧
      "core" ∈ a.feature_list ∧ new ∈ a.feature_list ∧ old ∉ a.feature_list ∧
      ∀ f ∈ (cluster_installed_of ipv).original_features,
        (∃ fp ∈ scf.feature_paragraphs, fp.name = f) → f ∈ a.feature_list) ∧
    ∀ (pdf : List String) (n : Nat) (st : PlanState),
      (st.cluster env P).source = some (cluster_from_scf env scf P.triplet) →
      (mark_minus_reinstall (marking env pdf (n + 1)) P old).run st = Except.ok ((), st) := by
  refine ⟨?_, fun pdf n st hst => (by
    unfold mark_minus_reinstall
    simp only [Planner.run_bind]
    have hrun := follow_plus_dependencies_run_not_found env pdf n old P st (by
      intro source hs
      rw [hst] at hs
      cases hs
      exact cluster_from_scf_undeclared env scf P.triplet old ho1 hgone)
    unfold follow_plus_dependencies at hrun
    rw [hrun]
    rfl)⟩
  obtain ⟨marked, hmarked, hser⟩ := (create_feature_install_plan_ok _ _ _ _ _).mp h
  have hwk := marked_state_well_keyed env fuel specs status_db marked hmarked
  have hdeclared := marked_state_features_declared env fuel specs status_db marked hmarked
  obtain ⟨g, hg, hM, _, hT⟩ := marked_state_marked env fuel _ status_db marked hmarked
  obtain ⟨g', hg', hrun⟩ := (marked_state_ok _ _ _ _ _).mp hmarked
  rw [hg] at hg'
  cases hg'
  obtain ⟨hplusnew, hv⟩ := install_all_requested env fuel specs _ _ () marked hrun ⟨P, new⟩ hreq
    (fun hskip => hn1 hskip.1)
  obtain ⟨hmin0, hplus0, hfeat0, hsrc0, _⟩ := init_cluster_fresh env status_db g hg P
  obtain ⟨_, _, h3⟩ := create_feature_install_graph_cluster env status_db g hg P
  obtain ⟨i0, hi0, _, horig, _⟩ := h3 ipv hinstalled
  have hi0' : (PlanState.cluster env { m_graph := g, graph_plan := {} } P).installed =
      some i0 := hi0
  have hsrc : (PlanState.cluster env { m_graph := g, graph_plan := {} } P).source =
      some (cluster_from_scf env scf P.triplet) := by
    rw [hsrc0]
    unfold new_cluster
    simp only [hport, Option.map_some']
  have hdecl : ∀ f, (f = "core" ∨ ∃ fp ∈ scf.feature_paragraphs, fp.name = f) →
      (PlanState.cluster env { m_graph := g, graph_plan := {} } P).declares f := by
    intro f hf
    obtain ⟨es, hes⟩ := cluster_from_scf_declares env scf P.triplet f hf
    exact ⟨_, es, hsrc, hes⟩
  obtain ⟨_, _, hadd⟩ := hM.added P new (hplus0 new) hplusnew hn1 hn2 (by
    simp only [Cluster.original, hi0', horig]
    exact hnew)
  obtain ⟨hnewin, hminus⟩ := hadd (hdecl new (Or.inr hpar))
  obtain ⟨_, hrv, hfeat⟩ := hM.rebuilt P i0 hi0' hmin0 hminus
  have htrans := (hT P).1 hminus
  obtain ⟨remove_toposort, insert_toposort, installs, hrem, hins, hinstalls, hplan⟩ :=
    serialize_ok env marked plan hser
  have hperm_r := hsort marked.graph_plan.remove_graph
  rw [hrem] at hperm_r
  have hperm_i := hsort marked.graph_plan.install_graph
  rw [hins] at hperm_i
  obtain ⟨a, ha, haspec, halist, hatype⟩ := serialize_install_build_mem env marked
    insert_toposort installs hinstalls P (hperm_i.1.mem_iff.mpr hv) htrans
  have hr : AnyAction.remove_action
      { spec := (marked.cluster env P).spec
        plan_type := RemovePlanType.REMOVE
        request_type := (marked.cluster env P).request_type } ∈ plan := by
    rw [hplan]
    refine List.mem_append_left _ ?_
    unfold serialize_remove
    exact List.mem_map.mpr ⟨P, hperm_r.1.mem_iff.mpr hrv, rfl⟩
  have ha' : AnyAction.install_action a ∈ plan := by
    rw [hplan]
    exact List.mem_append_right _ ha
  obtain ⟨i, hi⟩ := List.mem_iff_getElem?.mp hr
  obtain ⟨j, hj⟩ := List.mem_iff_getElem?.mp ha'
  refine ⟨i, j, _, a, serialize_remove_before_install env marked plan hser i j _ a hi hj, hi, hj,
    hwk.1 P, by rw [haspec]; exact hwk.1 P, hatype, ?_, by rw [halist]; exact hnewin, ?_, ?_⟩
  · rw [halist]
    refine hfeat "core" ?_ (hdecl "core" (Or.inl rfl))
    rw [horig]
    exact core_mem_original_features ipv
  · rw [halist]
    intro hmem
    obtain ⟨src, es, hs, hes⟩ := hdeclared P old hmem
    rw [hM.source P, hsrc] at hs
    cases hs
    rw [cluster_from_scf_undeclared env scf P.triplet old ho1 hgone] at hes
    cases hes
  · intro f hf hfp
    rw [halist]
    exact hfeat f (by rw [horig]; exact hf) (hdecl f (Or.inr hfp))

set_option maxRecDepth 100000 in
/-- The scenario "drifted feature": `foo` is installed with the features `keep` and `old`,
its port has the features `keep` and `new`; the plan for `foo[new]` removes `foo` and builds
it with "core", `keep` and `new`, without `old`. -/
theorem drifted_features_only_warn_witness :
    create_feature_install_plan drift_env 10 [⟨⟨"foo", x64_linux⟩, "new"⟩] drift_status_db =
      Except.ok drift_plan ∧
    (∃ (i j : Nat) (r : RemovePlanAction) (a : InstallPlanAction), i < j ∧
      drift_plan[i]? = some (AnyAction.remove_action r) ∧
      drift_plan[j]? = some (AnyAction.install_action a) ∧
      r.spec = ⟨"foo", x64_linux⟩ ∧ a.spec = ⟨"foo", x64_linux⟩ ∧
      a.plan_type = InstallPlanType.BUILD_AND_INSTALL ∧
      "core" ∈ a.feature_list ∧ "new" ∈ a.feature_list ∧ "old" ∉ a.feature_list ∧
      ∀ f ∈ (cluster_installed_of drift_installed).original_features,
        (∃ fp ∈ drift_port.feature_paragraphs, fp.name = f) → f ∈ a.feature_list) ∧
    ∀ (pdf : List String) (n : Nat) (st : PlanState),
      (st.cluster drift_env ⟨"foo", x64_linux⟩).source =
        some (cluster_from_scf drift_env drift_port x64_linux) →
      (mark_minus_reinstall (marking drift_env pdf (n + 1)) ⟨"foo", x64_linux⟩ "old").run st =
        Except.ok ((), st) :=
  ⟨by decide,
    drifted_features_only_warn drift_env (catalog_env_topological_sort_spec _)
      drift_status_db ⟨"foo", x64_linux⟩ drift_installed (by decide) drift_port (by decide)
      "old" "new" (by decide) (by decide) (by decide) ⟨⟨"new", []⟩, by decide, rfl⟩
      (by decide) (by decide) (by decide) [⟨⟨"foo", x64_linux⟩, "new"⟩] (by decide)
      10 drift_plan (by decide)⟩

set_option maxRecDepth 100000 in
/-- The premises of C34 do not make `create_feature_install_plan` return: with `foo`
installed with the features `keep` and `old`, the port having no feature `old` and having
the feature `new`, which is not installed and depends on `baz`, a package without a port,
the call for `foo[new]` exits with "cannot find definition for package baz" and returns no
plan, whatever the recursion depth. -/
theorem drifted_features_counterexample :
    last_installed drift_status_db ⟨"foo", x64_linux⟩ = some drift_installed ∧
    drift_baz_env.get_control_file "foo" = some drift_baz_port ∧
    "old" ∈ (cluster_installed_of drift_installed).original_features ∧
    (∀ fp ∈ drift_baz_port.feature_paragraphs, fp.name ≠ "old") ∧
    (∃ fp ∈ drift_baz_port.feature_paragraphs, fp.name = "new") ∧
    "new" ∉ (cluster_installed_of drift_installed).original_features ∧
    create_feature_install_plan drift_baz_env 10 [⟨⟨"foo", x64_linux⟩, "new"⟩]
      drift_status_db =
      Except.error (Failure.fatal (FatalError.cannot_find_definition "baz")) ∧
    ¬ ∃ fuel plan,
      create_feature_install_plan drift_baz_env fuel [⟨⟨"foo", x64_linux⟩, "new"⟩]
        drift_status_db = Except.ok plan := by
  have h10 : create_feature_install_plan drift_baz_env 10 [⟨⟨"foo", x64_linux⟩, "new"⟩]
      drift_status_db =
      Except.error (Failure.fatal (FatalError.cannot_find_definition "baz")) := by decide
  refine ⟨by decide, by decide, by decide, by decide, ⟨⟨"new", ["baz"]⟩, by decide, rfl⟩,
    by decide, h10, ?_⟩
  rintro ⟨fuel, plan, h⟩
  exact create_feature_install_plan_fuel_fatal _ 10 fuel _ _ _ h10 plan h

end Vcpkg

namespace Vcpkg

/-! ## Termination of the marking -/

theorem twp_pure {α : Type} (a : α) (Q : α → PlanState → Prop) (st : PlanState) :
    twp (pure a : Planner α) Q st ↔ Q a st := by
  unfold twp
  rw [wp_pure, Planner.run_pure]
  exact ⟨fun h => h.2, fun h => ⟨fun e => (by cases e), h⟩⟩

theorem twp_bind {α β : Type} (m : Planner α) (f : α → Planner β) (Q : β → PlanState → Prop)
    (st : PlanState) : twp (m >>= f) Q st ↔ twp m (fun a st1 => twp (f a) Q st1) st := by
  unfold twp
  rw [Planner.run_bind, wp_bind]
  unfold wp
  cases h : m.run st with
  | error e => simp
  | ok p =>
    obtain ⟨a, s1⟩ := p
    simp only [ne_eq, Except.ok.injEq, Prod.mk.injEq, and_imp, not_false_eq_true, true_and,
      reduceCtorEq]
    constructor
    · rintro ⟨h1, h2⟩ r s' rfl rfl
      exact ⟨h1, h2 _ _ rfl rfl⟩
    · intro h1
      exact ⟨(h1 a s1 rfl rfl).1, fun r s' e1 e2 => by subst e1; subst e2; exact (h1 _ _ rfl rfl).2⟩

theorem twp_get (Q : PlanState → PlanState → Prop) (st : PlanState) :
    twp (get : Planner PlanState) Q st ↔ Q st st := by
  unfold twp
  rw [wp_get, Planner.run_get]
  exact ⟨fun h => h.2, fun h => ⟨fun e => (by cases e), h⟩⟩

theorem twp_modify (f : PlanState → PlanState) (Q : Unit → PlanState → Prop) (st : PlanState) :
    twp (modify f : Planner Unit) Q st ↔ Q () (f st) := by
  unfold twp
  rw [wp_modify, Planner.run_modify]
  exact ⟨fun h => h.2, fun h => ⟨fun e => (by cases e), h⟩⟩

theorem twp_modify_named (f : PlanState → PlanState) (Q : Unit → PlanState → Prop)
    (st : PlanState) (h : ∀ st', st' = f st → Q () st') : twp (modify f : Planner Unit) Q st :=
  (twp_modify f Q st).mpr (h _ rfl)

theorem twp_throw_fatal {α : Type} (e : FatalError) (Q : α → PlanState → Prop)
    (st : PlanState) : twp (throw (Failure.fatal e) : Planner α) Q st := by
  unfold twp
  rw [wp_throw]
  simp [Planner.run_throw]

theorem twp_ite {α : Type} (c : Prop) [Decidable c] (a b : Planner α)
    (Q : α → PlanState → Prop) (st : PlanState) :
    twp (if c then a else b) Q st ↔ (c → twp a Q st) ∧ (¬ c → twp b Q st) := by
  by_cases h : c <;> simp [h]

theorem twp_check_exit (cond : Bool) (e : FatalError) (Q : Unit → PlanState → Prop)
    (st : PlanState) : twp (check_exit cond e) Q st ↔ (cond = true → Q () st) := by
  unfold check_exit
  cases cond
  · simp only [Bool.false_eq_true, if_false, false_implies, iff_true]
    exact twp_throw_fatal _ _ _
  · simp only [if_true, true_implies]
    exact twp_pure _ _ _

theorem twp_mono {α : Type} (m : Planner α) (Q Q' : α → PlanState → Prop) (st : PlanState)
    (h : twp m Q st) (hQ : ∀ r st', Q r st' → Q' r st') : twp m Q' st :=
  ⟨h.1, wp_mono _ _ _ _ h.2 hQ⟩

/-- Loop rule: an invariant of the body under which the body does not run out of recursion
depth is an invariant of the loop, which does not run out of recursion depth either. -/
theorem twp_for_each {α : Type} (xs : List α) (body : α → Planner Unit)
    (I : PlanState → Prop)
    (hbody : ∀ x ∈ xs, ∀ st, I st → twp (body x) (fun _ st' => I st') st) :
    ∀ st, I st → twp (for_each xs body) (fun _ st' => I st') st := by
  induction xs with
  | nil =>
    intro st h
    simp only [for_each, twp_pure]
    exact h
  | cons x rest ih =>
    intro st h
    simp only [for_each]
    rw [twp_bind]
    refine twp_mono _ _ _ _ (hbody x (List.mem_cons_self _ _) st h) ?_
    intro _ st1 h1
    exact ih (fun y hy => hbody y (List.mem_cons_of_mem _ hy)) st1 h1

theorem twp_first_failure {α : Type} (xs : List α) (body : α → Planner MarkPlusResult)
    (I : PlanState → Prop)
    (hbody : ∀ x ∈ xs, ∀ st, I st → twp (body x) (fun _ st' => I st') st) :
    ∀ st, I st → twp (first_failure xs body) (fun _ st' => I st') st := by
  induction xs with
  | nil =>
    intro st h
    simp only [first_failure, twp_pure]
    exact h
  | cons x rest ih =>
    intro st h
    simp only [first_failure]
    rw [twp_bind]
    refine twp_mono _ _ _ _ (hbody x (List.mem_cons_self _ _) st h) ?_
    intro r st1 h1
    rw [twp_ite]
    exact ⟨fun _ => (twp_pure _ _ _).mpr h1,
      fun _ => ih (fun y hy => hbody y (List.mem_cons_of_mem _ hy)) st1 h1⟩

/-! ### Growth of the marks -/

theorem grow_refl (env : Env) (st : PlanState) : Grow env st st :=
  ⟨fun _ => rfl, fun _ => rfl, fun _ _ h => h, fun _ h => h⟩

theorem grow_trans (env : Env) (a b c : PlanState) (h1 : Grow env a b) (h2 : Grow env b c) :
    Grow env a c :=
  ⟨fun x => (h2.1 x).trans (h1.1 x), fun x => (h2.2.1 x).trans (h1.2.1 x),
    fun x f h => h2.2.2.1 x f (h1.2.2.1 x f h), fun x h => h2.2.2.2 x (h1.2.2.2 x h)⟩

theorem grow_of_marked (env : Env) (st st' : PlanState) (h : Marked env st st') :
    Grow env st st' :=
  ⟨h.source, h.installed, h.plus, h.minus⟩

theorem grow_of_view (env : Env) (st st' : PlanState)
    (h : ∀ c, st'.cluster env c = st.cluster env c) : Grow env st st' :=
  ⟨fun c => by rw [h], fun c => by rw [h], fun c f hp => by rw [h]; exact hp,
    fun c hm => by rw [h]; exact hm⟩

theorem grow_set_plus (env : Env) (st : PlanState) (c0 : PackageSpec) (f : String) :
    Grow env st (st.modify env c0 (fun c => { c with plus := AssocMap.set c.plus f true })) := by
  refine ⟨fun c => source_modify_eq env st c0 _ (by intro _; rfl) c,
    fun c => installed_modify_eq env st c0 _ (by intro _; rfl) c, ?_, ?_⟩
  · intro c g h
    simp only [PlanState.state_cluster_modify]
    split
    · rename_i e
      subst e
      rw [plus_of_set, h]
      simp
    · exact h
  · intro c h
    simp only [PlanState.state_cluster_modify]
    split
    · rename_i e
      subst e
      exact h
    · exact h

theorem grow_set_minus (env : Env) (st : PlanState) (c0 : PackageSpec) :
    Grow env st (st.modify env c0 (fun c =>
      { c with minus := true, transient_uninstalled := true })) := by
  refine ⟨fun c => source_modify_eq env st c0 _ (by intro _; rfl) c,
    fun c => installed_modify_eq env st c0 _ (by intro _; rfl) c, ?_, ?_⟩
  · intro c g h
    rw [plus_of_modify_keep env c g st c0 _ (by intro _; rfl)]
    exact h
  · intro c h
    simp only [PlanState.state_cluster_modify]
    split
    · rfl
    · exact h

theorem grow_modify_keep (env : Env) (st : PlanState) (c0 : PackageSpec)
    (g : Cluster → Cluster) (hsrc : ∀ c, (g c).source = c.source)
    (hinst : ∀ c, (g c).installed = c.installed) (hplus : ∀ c, (g c).plus = c.plus)
    (hminus : ∀ c, (g c).minus = c.minus) : Grow env st (st.modify env c0 g) := by
  refine ⟨fun c => source_modify_eq env st c0 g hsrc c,
    fun c => installed_modify_eq env st c0 g hinst c, ?_, ?_⟩
  · intro c f h
    rw [plus_of_modify_keep env c f st c0 g hplus]
    exact h
  · intro c h
    simp only [PlanState.state_cluster_modify]
    split
    · rename_i e
      subst e
      rw [hminus]
      exact h
    · exact h

/-! ### The measure -/

theorem countP_lt_of_imp {α : Type} (p q : α → Bool) (l : List α)
    (h : ∀ x ∈ l, p x = true → q x = true) (x0 : α) (hx0 : x0 ∈ l) (hq : q x0 = true)
    (hp : p x0 = false) : l.countP p < l.countP q := by
  induction l with
  | nil => simp at hx0
  | cons a rest ih =>
    have hrest : rest.countP p ≤ rest.countP q :=
      List.countP_mono_left (fun x hx => h x (List.mem_cons_of_mem _ hx))
    rcases List.mem_cons.mp hx0 with e | hmem
    · subst e
      rw [List.countP_cons_of_neg _ _ (by simp [hp]), List.countP_cons_of_pos _ _ hq]
      omega
    · have := ih (fun x hx => h x (List.mem_cons_of_mem _ hx)) hmem
      by_cases hpa : p a = true
      · rw [List.countP_cons_of_pos _ _ hpa,
          List.countP_cons_of_pos _ _ (h a (List.mem_cons_self _ _) hpa)]
        omega
      · rw [List.countP_cons_of_neg _ _ hpa]
        by_cases hqa : q a = true
        · rw [List.countP_cons_of_pos _ _ hqa]; omega
        · rw [List.countP_cons_of_neg _ _ hqa]; exact this

theorem marks_left_le_length (env : Env) (U : List FeatureSpec) (st : PlanState) :
    st.marks_left env U ≤ 2 * U.length := by
  unfold PlanState.marks_left
  have h1 := List.countP_le_length (fun x : FeatureSpec =>
    !(st.cluster env x.spec).plus_of x.feature) (l := U)
  have h2 := List.countP_le_length (fun x : FeatureSpec => !(st.cluster env x.spec).minus)
    (l := U)
  omega

theorem marks_left_mono (env : Env) (U : List FeatureSpec) (st st' : PlanState)
    (h : Grow env st st') : st'.marks_left env U ≤ st.marks_left env U := by
  unfold PlanState.marks_left
  have h1 : U.countP (fun x => !(st'.cluster env x.spec).plus_of x.feature) ≤
      U.countP (fun x => !(st.cluster env x.spec).plus_of x.feature) := by
    refine List.countP_mono_left ?_
    intro x _ hx
    cases hp : (st.cluster env x.spec).plus_of x.feature with
    | false => rfl
    | true => rw [h.2.2.1 _ _ hp] at hx; exact absurd hx (by simp)
  have h2 : U.countP (fun x => !(st'.cluster env x.spec).minus) ≤
      U.countP (fun x => !(st.cluster env x.spec).minus) := by
    refine List.countP_mono_left ?_
    intro x _ hx
    cases hp : (st.cluster env x.spec).minus with
    | false => rfl
    | true => rw [h.2.2.2 _ hp] at hx; exact absurd hx (by simp)
  omega

theorem marks_left_lt_plus (env : Env) (U : List FeatureSpec) (st st' : PlanState)
    (h : Grow env st st') (x : FeatureSpec) (hx : x ∈ U)
    (h0 : (st.cluster env x.spec).plus_of x.feature = false)
    (h1 : (st'.cluster env x.spec).plus_of x.feature = true) :
    st'.marks_left env U + 1 ≤ st.marks_left env U := by
  unfold PlanState.marks_left
  have h3 : U.countP (fun x => !(st'.cluster env x.spec).plus_of x.feature) <
      U.countP (fun x => !(st.cluster env x.spec).plus_of x.feature) := by
    refine countP_lt_of_imp _ _ U ?_ x hx (by simp [h0]) (by simp [h1])
    intro y _ hy
    cases hp : (st.cluster env y.spec).plus_of y.feature with
    | false => rfl
    | true => rw [h.2.2.1 _ _ hp] at hy; exact absurd hy (by simp)
  have h2 : U.countP (fun x => !(st'.cluster env x.spec).minus) ≤
      U.countP (fun x => !(st.cluster env x.spec).minus) := by
    refine List.countP_mono_left ?_
    intro x _ hx
    cases hp : (st.cluster env x.spec).minus with
    | false => rfl
    | true => rw [h.2.2.2 _ hp] at hx; exact absurd hx (by simp)
  omega

theorem marks_left_lt_minus (env : Env) (U : List FeatureSpec) (st st' : PlanState)
    (h : Grow env st st') (x : FeatureSpec) (hx : x ∈ U)
    (h0 : (st.cluster env x.spec).minus = false)
    (h1 : (st'.cluster env x.spec).minus = true) :
    st'.marks_left env U + 1 ≤ st.marks_left env U := by
  unfold PlanState.marks_left
  have h3 : U.countP (fun x => !(st'.cluster env x.spec).plus_of x.feature) ≤
      U.countP (fun x => !(st.cluster env x.spec).plus_of x.feature) := by
    refine List.countP_mono_left ?_
    intro x _ hx
    cases hp : (st.cluster env x.spec).plus_of x.feature with
    | false => rfl
    | true => rw [h.2.2.1 _ _ hp] at hx; exact absurd hx (by simp)
  have h2 : U.countP (fun x => !(st'.cluster env x.spec).minus) <
      U.countP (fun x => !(st.cluster env x.spec).minus) := by
    refine countP_lt_of_imp _ _ U ?_ x hx (by simp [h0]) (by simp [h1])
    intro y _ hy
    cases hp : (st.cluster env y.spec).minus with
    | false => rfl
    | true => rw [h.2.2.2 _ hp] at hy; exact absurd hy (by simp)
  omega

/-! ### The closed universe -/

theorem universe_closed_grow (env : Env) (U : List FeatureSpec) (st st' : PlanState)
    (h : Grow env st st') : st'.universe_closed env U = st.universe_closed env U := by
  unfold PlanState.universe_closed
  congr 1
  funext x
  rw [h.1 x.spec, h.2.1 x.spec]

theorem universe_closed_source (env : Env) (U : List FeatureSpec) (st : PlanState)
    (h : st.universe_closed env U = true) (c0 : PackageSpec) (f0 : String)
    (hx : (⟨c0, f0⟩ : FeatureSpec) ∈ U) (src : ClusterSource)
    (hsrc : (st.cluster env c0).source = some src) :
    (⟨c0, "core"⟩ : FeatureSpec) ∈ U ∧ (⟨c0, ""⟩ : FeatureSpec) ∈ U ∧
    (∀ d ∈ src.scf.core_paragraph.default_features, (⟨c0, d⟩ : FeatureSpec) ∈ U) ∧
    (∀ fp ∈ src.scf.feature_paragraphs, (⟨c0, fp.name⟩ : FeatureSpec) ∈ U) ∧
    (∀ f es, AssocMap.find src.build_edges f = some es → ∀ y ∈ es, y ∈ U) := by
  unfold PlanState.universe_closed at h
  rw [List.all_eq_true] at h
  have h1 := h _ hx
  simp only [hsrc, Bool.and_eq_true, decide_eq_true_eq, List.all_eq_true] at h1
  obtain ⟨⟨⟨⟨⟨a, b⟩, c⟩, d⟩, e⟩, _⟩ := h1
  refine ⟨a, b, c, d, ?_⟩
  intro f es hf y hy
  exact e (f, es) (AssocMap.mem_of_find _ _ _ hf) y hy

theorem universe_closed_installed (env : Env) (U : List FeatureSpec) (st : PlanState)
    (h : st.universe_closed env U = true) (c0 : PackageSpec) (f0 : String)
    (hx : (⟨c0, f0⟩ : FeatureSpec) ∈ U) (i : ClusterInstalled)
    (hi : (st.cluster env c0).installed = some i) :
    (∀ e ∈ i.remove_edges, (⟨e, "core"⟩ : FeatureSpec) ∈ U) ∧
    (∀ f ∈ i.original_features, (⟨c0, f⟩ : FeatureSpec) ∈ U) := by
  unfold PlanState.universe_closed at h
  rw [List.all_eq_true] at h
  have h1 := h _ hx
  simp only [hi, Bool.and_eq_true, decide_eq_true_eq, List.all_eq_true] at h1
  exact h1.2

/-! ### The nested calls -/

/-- A nested call of `mark_plus` for a feature spec of the universe, from a state that grew
from the closed state `s0`. -/
theorem callee_twp_plus (env : Env) (U : List FeatureSpec) (n : Nat) (callee : Marking)
    (hcM : callee.Meets (core_closure_spec env)) (hcT : callee.Terminates env U n)
    (s0 : PlanState) (hclosed : s0.universe_closed env U = true)
    (hfuel : 2 * s0.marks_left env U + 1 ≤ n) (c : PackageSpec) (f : String)
    (hx : (⟨c, f⟩ : FeatureSpec) ∈ U) (s : PlanState) (hs : Grow env s0 s) :
    twp (callee.mark_plus f c) (fun _ s' => Grow env s0 s') s := by
  have hcl : s.universe_closed env U = true := by
    rw [universe_closed_grow env U s0 s hs]; exact hclosed
  have hm := marks_left_mono env U s0 s hs
  refine ⟨(hcT s hcl ⟨c, f⟩ hx).1 (by omega), ?_⟩
  refine wp_mono _ _ _ _ (hcM.1 f c s) ?_
  intro _ s' h
  exact grow_trans env _ _ _ hs (grow_of_marked env _ _ h.1)

theorem callee_twp_minus (env : Env) (U : List FeatureSpec) (n : Nat) (callee : Marking)
    (hcM : callee.Meets (core_closure_spec env)) (hcT : callee.Terminates env U n)
    (s0 : PlanState) (hclosed : s0.universe_closed env U = true)
    (hfuel : 2 * s0.marks_left env U + 1 ≤ n) (c : PackageSpec) (f : String)
    (hx : (⟨c, f⟩ : FeatureSpec) ∈ U) (s : PlanState) (hs : Grow env s0 s) :
    twp (callee.mark_minus c) (fun _ s' => Grow env s0 s') s := by
  have hcl : s.universe_closed env U = true := by
    rw [universe_closed_grow env U s0 s hs]; exact hclosed
  have hm := marks_left_mono env U s0 s hs
  refine ⟨(hcT s hcl ⟨c, f⟩ hx).2.1 (by omega), ?_⟩
  refine wp_mono _ _ _ _ (hcM.2.1 c s) ?_
  intro _ s' h
  exact grow_trans env _ _ _ hs (grow_of_marked env _ _ h.1)

theorem callee_twp_follow (env : Env) (U : List FeatureSpec) (n : Nat) (callee : Marking)
    (hcM : callee.Meets (core_closure_spec env)) (hcT : callee.Terminates env U n)
    (s0 : PlanState) (hclosed : s0.universe_closed env U = true)
    (hfuel : 2 * s0.marks_left env U + 2 ≤ n) (c : PackageSpec) (f : String)
    (hx : (⟨c, f⟩ : FeatureSpec) ∈ U) (s : PlanState) (hs : Grow env s0 s) :
    twp (callee.follow_plus_dependencies f c) (fun _ s' => Grow env s0 s') s := by
  have hcl : s.universe_closed env U = true := by
    rw [universe_closed_grow env U s0 s hs]; exact hclosed
  have hm := marks_left_mono env U s0 s hs
  refine ⟨(hcT s hcl ⟨c, f⟩ hx).2.2 (by omega), ?_⟩
  refine wp_mono _ _ _ _ (hcM.2.2 f c s) ?_
  intro _ s' h
  exact grow_trans env _ _ _ hs (grow_of_marked env _ _ h.1)

/-! ### The three bodies -/

theorem mark_plus_body_terminates (env : Env) (U : List FeatureSpec) (n : Nat)
    (callee : Marking) (hcM : callee.Meets (core_closure_spec env))
    (hcT : callee.Terminates env U n) (st : PlanState)
    (hclosed : st.universe_closed env U = true) (c0 : PackageSpec) (g : String)
    (hx : (⟨c0, g⟩ : FeatureSpec) ∈ U) (hfuel : 2 * st.marks_left env U + 1 ≤ n + 1) :
    twp (mark_plus_body env callee g c0) (fun _ _ => True) st := by
  unfold mark_plus_body
  simp only [twp_bind, twp_get]
  rw [twp_ite]
  refine ⟨fun _ => (twp_pure _ _ _).mpr trivial, fun hp => ?_⟩
  simp only [twp_bind]
  refine twp_modify_named _ _ _ ?_
  intro st1 hst1
  have hG1 : Grow env st st1 := by subst hst1; exact grow_set_plus env st c0 g
  have hp1 : (st1.cluster env c0).plus_of g = true := by
    subst hst1
    simp only [PlanState.state_cluster_modify, if_true, plus_of_set]
    simp
  have hlt := marks_left_lt_plus env U st st1 hG1 ⟨c0, g⟩ hx (by simpa using hp) hp1
  have hcl1 : st1.universe_closed env U = true := by
    rw [universe_closed_grow env U st st1 hG1]; exact hclosed
  have hf1 : 2 * st1.marks_left env U + 2 ≤ n := by omega
  simp only [twp_get]
  split
  · exact twp_throw_fatal _ _ _
  · rename_i p_source hsrc
    obtain ⟨hcore, _, hdefs, hpars, _⟩ :=
      universe_closed_source env U st1 hcl1 c0 g hx p_source hsrc
    refine twp_mono _ (fun _ s' => Grow env st1 s') _ _ ?_ (fun _ _ _ => trivial)
    rw [twp_ite]
    constructor
    · intro _
      simp only [twp_bind]
      refine twp_mono _ _ _ _
        (twp_first_failure _ _ (fun s => Grow env st1 s) ?_ st1 (grow_refl env st1)) ?_
      · intro d hd s hs
        exact callee_twp_plus env U n callee hcM hcT st1 hcl1 (by omega) c0 d (hdefs d hd) s hs
      intro res s2 hS2
      rw [twp_ite]
      refine ⟨fun _ => (twp_pure _ _ _).mpr hS2, fun _ => ?_⟩
      exact callee_twp_plus env U n callee hcM hcT st1 hcl1 (by omega) c0 "core" hcore s2 hS2
    · intro _
      rw [twp_ite]
      constructor
      · intro _
        simp only [twp_bind]
        refine twp_mono _ _ _ _
          (twp_for_each _ _ (fun s => Grow env st1 s) ?_ st1 (grow_refl env st1)) ?_
        · intro fp hfp s hs
          unfold mark_plus_all_features_step
          simp only [twp_bind]
          refine twp_mono _ _ _ _ (callee_twp_plus env U n callee hcM hcT st1 hcl1 (by omega)
            c0 fp.name (hpars fp hfp) s hs) ?_
          intro _ s' h
          rw [twp_check_exit]
          intro _
          exact h
        intro _ s2 hS2
        refine twp_mono _ _ _ _ (callee_twp_plus env U n callee hcM hcT st1 hcl1 (by omega)
          c0 "core" hcore s2 hS2) ?_
        intro _ s' h
        rw [twp_check_exit]
        intro _
        exact (twp_pure _ _ _).mpr h
      · intro _
        simp only [twp_bind, twp_get]
        rw [twp_ite]
        refine ⟨fun _ => (twp_pure _ _ _).mpr (grow_refl env st1), fun _ => ?_⟩
        simp only [twp_bind]
        refine twp_mono _ _ _ _ (callee_twp_minus env U n callee hcM hcT st1 hcl1 (by omega)
          c0 g hx st1 (grow_refl env st1)) ?_
        intro _ s2 h2
        exact callee_twp_follow env U n callee hcM hcT st1 hcl1 hf1 c0 g hx s2 h2

theorem mark_minus_body_terminates (env : Env) (U : List FeatureSpec) (n : Nat)
    (callee : Marking) (hcM : callee.Meets (core_closure_spec env))
    (hcT : callee.Terminates env U n) (st : PlanState)
    (hclosed : st.universe_closed env U = true) (c0 : PackageSpec) (g : String)
    (hx : (⟨c0, g⟩ : FeatureSpec) ∈ U) (hfuel : 2 * st.marks_left env U + 1 ≤ n + 1) :
    twp (mark_minus_body env callee c0) (fun _ _ => True) st := by
  unfold mark_minus_body
  simp only [twp_bind, twp_get]
  rw [twp_ite]
  refine ⟨fun _ => (twp_pure _ _ _).mpr trivial, fun hp => ?_⟩
  simp only [twp_bind]
  refine twp_modify_named _ _ _ ?_
  intro st1 hst1
  have hG1 : Grow env st st1 := by subst hst1; exact grow_set_minus env st c0
  have hp1 : (st1.cluster env c0).minus = true := by
    subst hst1
    simp only [PlanState.state_cluster_modify, if_true]
  have hlt := marks_left_lt_minus env U st st1 hG1 ⟨c0, g⟩ hx (by simpa using hp) hp1
  have hcl1 : st1.universe_closed env U = true := by
    rw [universe_closed_grow env U st st1 hG1]; exact hclosed
  have hf1 : 2 * st1.marks_left env U + 2 ≤ n := by omega
  simp only [twp_get]
  split
  · exact twp_throw_fatal _ _ _
  · rename_i p_source hsrc
    obtain ⟨_, _, hdefs, _, _⟩ :=
      universe_closed_source env U st1 hcl1 c0 g hx p_source hsrc
    split
    · exact (twp_pure _ _ _).mpr trivial
    · rename_i p_installed hinst
      obtain ⟨hedges, horig⟩ :=
        universe_closed_installed env U st1 hcl1 c0 g hx p_installed hinst
      refine twp_mono _ (fun _ s' => Grow env st1 s') _ _ ?_ (fun _ _ _ => trivial)
      simp only [twp_bind]
      refine twp_modify_named _ _ _ ?_
      intro st2 hst2
      have hG2 : Grow env st1 st2 := by
        subst hst2
        exact grow_of_view env _ _ (fun _ => rfl)
      refine twp_mono _ _ _ _
        (twp_for_each _ _ (fun s => Grow env st1 s) ?_ st2 hG2) ?_
      · intro edge hedge s hs
        unfold mark_minus_remove_edge
        simp only [twp_bind, twp_modify, twp_check_exit]
        intro _
        refine callee_twp_minus env U n callee hcM hcT st1 hcl1 (by omega) edge "core"
          (hedges edge hedge) _ ?_
        refine grow_trans env _ _ _ hs (grow_of_view env _ _ ?_)
        intro c
        exact PlanState.state_cluster_get env s edge c
      intro _ st3 hS3
      refine twp_mono _ _ _ _
        (twp_for_each _ _ (fun s => Grow env st1 s) ?_ st3 hS3) ?_
      · intro f hf s hs
        unfold mark_minus_reinstall
        simp only [twp_bind, twp_pure]
        exact callee_twp_follow env U n callee hcM hcT st1 hcl1 hf1 c0 f (horig f hf) s hs
      intro _ st4 hS4
      refine twp_for_each _ _ (fun s => Grow env st1 s) ?_ st4 hS4
      intro d hd s hs
      unfold mark_minus_new_default
      simp only [twp_ite, twp_bind, twp_pure]
      refine ⟨fun _ => ?_, fun _ => hs⟩
      exact callee_twp_plus env U n callee hcM hcT st1 hcl1 (by omega) c0 d (hdefs d hd) s hs

theorem follow_plus_dependencies_body_terminates (env : Env) (pdf : List String)
    (U : List FeatureSpec) (n : Nat)
    (callee : Marking) (hcM : callee.Meets (core_closure_spec env))
    (hcT : callee.Terminates env U n) (st : PlanState)
    (hclosed : st.universe_closed env U = true) (c0 : PackageSpec) (g : String)
    (hx : (⟨c0, g⟩ : FeatureSpec) ∈ U) (hfuel : 2 * st.marks_left env U + 2 ≤ n + 1) :
    twp (follow_plus_dependencies_body env pdf callee g c0) (fun _ _ => True) st := by
  have hf0 : 2 * st.marks_left env U + 1 ≤ n := by omega
  unfold follow_plus_dependencies_body
  simp only [twp_bind, twp_get]
  split
  · rename_i p_source hsrc
    obtain ⟨hcore, hdef, _, _, hbuild⟩ :=
      universe_closed_source env U st hclosed c0 g hx p_source hsrc
    split
    · rename_i build_edges hfind
      refine twp_mono _ (fun _ s' => Grow env st s') _ _ ?_ (fun _ _ _ => trivial)
      simp only [twp_bind]
      refine twp_mono _ _ _ _ (callee_twp_minus env U n callee hcM hcT st hclosed hf0
        c0 g hx st (grow_refl env st)) ?_
      intro _ st1 h1
      refine twp_modify_named _ _ _ ?_
      intro st2 hst2
      refine twp_modify_named _ _ _ ?_
      intro st3 hst3
      have hG3 : Grow env st st3 := by
        subst hst3
        subst hst2
        refine grow_trans env _ _ _ h1 (grow_trans env _ _ _
          (grow_of_view env st1 _ (fun _ => rfl)) ?_)
        exact grow_modify_keep env _ c0 _ (by intro _; rfl) (by intro _; rfl)
          (by intro _; rfl) (by intro _; rfl)
      refine twp_mono _ (fun _ s => Grow env st s) _ _ ?_ ?_
      · rw [twp_ite]
        refine ⟨fun _ => ?_, fun _ => (twp_pure _ _ _).mpr hG3⟩
        simp only [twp_bind]
        refine twp_mono _ _ _ _ (callee_twp_plus env U n callee hcM hcT st hclosed hf0
          c0 "core" hcore st3 hG3) ?_
        intro r s4 h
        rw [twp_check_exit]
        intro _
        exact h
      · intro _ s4 hW4
        simp only [twp_get]
        refine twp_mono _ (fun _ s => Grow env st s) _ _ ?_ ?_
        · rw [twp_ite]
          refine ⟨fun _ => ?_, fun _ => (twp_pure _ _ _).mpr hW4⟩
          simp only [twp_bind]
          refine twp_mono _ _ _ _ (callee_twp_plus env U n callee hcM hcT st hclosed hf0
            c0 "" hdef s4 hW4) ?_
          intro r s5 h
          rw [twp_check_exit]
          intro _
          exact h
        · intro _ s5 hW5
          refine twp_mono _ _ _ _
            (twp_for_each _ _ (fun s => Grow env st s) ?_ s5 hW5) ?_
          · intro depend hdep s hs
            unfold follow_plus_dependencies_edge
            simp only [twp_bind, twp_modify]
            refine twp_mono _ _ _ _ (callee_twp_plus env U n callee hcM hcT st hclosed hf0
              depend.spec depend.feature (hbuild g build_edges hfind depend hdep) _
              (grow_trans env _ _ _ hs (grow_of_view env _ _
                (fun c => PlanState.state_cluster_get env s depend.spec c)))) ?_
            intro r s' h
            rw [twp_check_exit]
            intro _
            rw [twp_ite]
            refine ⟨fun _ => (twp_pure _ _ _).mpr h, fun _ => ?_⟩
            rw [twp_modify]
            exact grow_trans env _ _ _ h (grow_of_view env _ _ (fun _ => rfl))
          intro _ s6 h6
          exact (twp_pure _ _ _).mpr h6
    · exact (twp_pure _ _ _).mpr trivial
  · exact (twp_pure _ _ _).mpr trivial

/-- With the recursion depth `n`, no marking procedure runs out of recursion depth when it
is called, in a state in which the universe is closed, for a feature spec of the universe
and `n` is more than twice the number of marks left. -/
theorem marking_terminates_of_closed (env : Env) (pdf : List String) (U : List FeatureSpec) :
    ∀ n, (marking env pdf n).Terminates env U n := by
  intro n
  induction n with
  | zero =>
    intro st _ x _
    exact ⟨fun h => absurd h (by omega), fun h => absurd h (by omega),
      fun h => absurd h (by omega)⟩
  | succ n ih =>
    intro st hclosed x hx
    have hcM := marking_core_closure env pdf n
    refine ⟨fun h => ?_, fun h => ?_, fun h => ?_⟩
    · exact (mark_plus_body_terminates env U n _ hcM ih st hclosed x.spec x.feature hx h).1
    · exact (mark_minus_body_terminates env U n _ hcM ih st hclosed x.spec x.feature hx h).1
    · exact (follow_plus_dependencies_body_terminates env pdf U n _ hcM ih st hclosed
        x.spec x.feature hx h).1

theorem install_terminates (env : Env) (pdf : List String) (U : List FeatureSpec)
    (fuel : Nat) (s0 : PlanState) (hclosed : s0.universe_closed env U = true)
    (hfuel : 2 * s0.marks_left env U + 1 ≤ fuel) (spec : FeatureSpec) (hx : spec ∈ U)
    (s : PlanState) (hs : Grow env s0 s) :
    twp (PackageGraph.install env fuel spec pdf) (fun _ s' => Grow env s0 s') s := by
  unfold PackageGraph.install
  simp only [twp_bind, twp_modify]
  unfold mark_plus
  refine twp_mono _ _ _ _ (callee_twp_plus env U fuel (marking env pdf fuel)
    (marking_core_closure env pdf fuel) (marking_terminates_of_closed env pdf U fuel)
    s0 hclosed hfuel spec.spec spec.feature hx _ ?_) ?_
  · refine grow_trans env _ _ _ hs (grow_trans env _ (s.get env spec.spec) _
      (grow_of_view env _ _ (fun c => PlanState.state_cluster_get env s spec.spec c)) ?_)
    exact grow_modify_keep env _ spec.spec _ (by intro _; rfl) (by intro _; rfl)
      (by intro _; rfl) (by intro _; rfl)
  · intro r s' h
    rw [twp_check_exit]
    intro _
    exact grow_trans env _ _ _ h (grow_of_view env _ _ (fun _ => rfl))

theorem install_all_terminates (env : Env) (pdf : List String) (U : List FeatureSpec)
    (fuel : Nat) (s0 : PlanState) (hclosed : s0.universe_closed env U = true)
    (hfuel : 2 * s0.marks_left env U + 1 ≤ fuel) (specs : List FeatureSpec)
    (hspecs : ∀ s ∈ specs, s ∈ U) :
    twp (install_all env fuel specs pdf) (fun _ s' => Grow env s0 s') s0 := by
  unfold install_all
  refine twp_for_each _ _ (fun s => Grow env s0 s) ?_ s0 (grow_refl env s0)
  intro x hx s hs
  rw [twp_ite]
  exact ⟨fun _ => (twp_pure _ _ _).mpr hs,
    fun _ => install_terminates env pdf U fuel s0 hclosed hfuel x (hspecs x hx) s hs⟩

/-- C33 (termination on cyclic feature graphs): let `U` be a finite list of feature specs
that is closed under the calls of the marking (it has, with a feature spec of a package with
a port, the specs of "core", of the default feature set, of every default feature, of every
feature paragraph and of every build edge of the port, and, with a feature spec of an
installed package, the cores of its remove edges and its original features), whatever cycles
the build edges and the default features form. Since every call that passes its guard sets
one of the at most `2 * U.length` plus and minus marks of `U` for good, a recursion depth of
`4 * U.length + 2` is never exhausted: from every state in which `U` is closed, `mark_plus`,
`mark_minus` and `follow_plus_dependencies` called for a feature spec of `U` do not run out
of recursion depth, and neither does the marking phase of `create_feature_install_plan` for an
input of feature specs of `U`: it returns the marked state or fails with a fatal error. -/
theorem marking_terminates (env : Env) (pdf : List String) (U : List FeatureSpec)
    (fuel : Nat) (st : PlanState) (x : FeatureSpec) (specs : List FeatureSpec)
    (status_db : StatusParagraphs)
    (hclosed : st.universe_closed env U = true) (hx : x ∈ U)
    (hspecs : ∀ s ∈ specs, s ∈ U)
    (hinit : ∀ g, create_feature_install_graph env status_db = Except.ok g →
      ({ m_graph := g, graph_plan := {} } : PlanState).universe_closed env U = true)
    (hfuel : 4 * U.length + 2 ≤ fuel) :
    (mark_plus env pdf fuel x.feature x.spec).run st ≠ Except.error Failure.out_of_fuel ∧
    (mark_minus env pdf fuel x.spec).run st ≠ Except.error Failure.out_of_fuel ∧
    (follow_plus_dependencies env pdf fuel x.feature x.spec).run st ≠
      Except.error Failure.out_of_fuel ∧
    marked_state env fuel specs status_db ≠ Except.error Failure.out_of_fuel ∧
    ((∃ marked, marked_state env fuel specs status_db = Except.ok marked) ∨
      ∃ e, marked_state env fuel specs status_db = Except.error (Failure.fatal e)) := by
  have hT := marking_terminates_of_closed env pdf U fuel st hclosed x hx
  have hm := marks_left_le_length env U st
  have hmark : marked_state env fuel specs status_db ≠ Except.error Failure.out_of_fuel := by
    unfold marked_state PackageGraph.init
    rcases create_feature_install_graph_result env status_db with ⟨g, hg, _⟩ | ⟨_, _, _, _, _, he⟩
    · have h0 := hinit g hg
      have hm0 := marks_left_le_length env U { m_graph := g, graph_plan := {} }
      have h1 := (install_all_terminates env (prevent_default_features_of specs) U fuel _ h0
        (by omega) specs hspecs).1
      simp only [hg, bind, Except.bind, pure, Except.pure]
      revert h1
      cases (install_all env fuel specs (prevent_default_features_of specs)).run
        { m_graph := g, graph_plan := {} } with
      | error e =>
        intro h1 h2
        exact h1 (by simpa using h2)
      | ok p =>
        intro _ h2
        cases h2
    · simp only [he, bind, Except.bind]
      intro h2
      cases h2
  refine ⟨hT.1 (by omega), hT.2.1 (by omega), hT.2.2 (by omega), hmark, ?_⟩
  revert hmark
  cases marked_state env fuel specs status_db with
  | ok m => exact fun _ => Or.inl ⟨m, rfl⟩
  | error e =>
    cases e with
    | fatal e => exact fun _ => Or.inr ⟨e, rfl⟩
    | out_of_fuel => exact fun h => absurd rfl h

set_option maxRecDepth 100000 in
theorem marking_terminates_witness :
    (({} : PlanState).universe_closed cyc_env cyc_universe = true ∧
      (⟨⟨"a", x64_linux⟩, "core"⟩ : FeatureSpec) ∈ cyc_universe ∧
      4 * cyc_universe.length + 2 ≤ 18) ∧
    (mark_plus cyc_env [] 18 "core" ⟨"a", x64_linux⟩).run {} ≠
      Except.error Failure.out_of_fuel ∧
    (mark_minus cyc_env [] 18 ⟨"a", x64_linux⟩).run {} ≠ Except.error Failure.out_of_fuel ∧
    (follow_plus_dependencies cyc_env [] 18 "core" ⟨"a", x64_linux⟩).run {} ≠
      Except.error Failure.out_of_fuel ∧
    marked_state cyc_env 18 [⟨⟨"a", x64_linux⟩, "core"⟩] [] ≠
      Except.error Failure.out_of_fuel ∧
    ((∃ marked, marked_state cyc_env 18 [⟨⟨"a", x64_linux⟩, "core"⟩] [] = Except.ok marked) ∨
      ∃ e, marked_state cyc_env 18 [⟨⟨"a", x64_linux⟩, "core"⟩] [] =
        Except.error (Failure.fatal e)) :=
  ⟨⟨by decide, by decide, by decide⟩,
    marking_terminates cyc_env [] cyc_universe 18 {} ⟨⟨"a", x64_linux⟩, "core"⟩
      [⟨⟨"a", x64_linux⟩, "core"⟩] [] (by decide) (by decide)
      (by intro s hs; simp only [List.mem_singleton] at hs; subst hs; decide)
      (by
        intro g hg
        have e : g = [] := by
          have h0 : create_feature_install_graph cyc_env [] = Except.ok [] := rfl
          rw [h0] at hg
          exact (Except.ok.inj hg).symm
        subst e
        decide)
      (by decide)⟩
end Vcpkg

namespace Vcpkg

/-! ## The BUILD_INFO file -/

end Vcpkg

namespace Vcpkg

/-! ## The inspection of a triplet -/

theorem lines_after_flag_append (pre post : List String) (h : FLAG_GUID ∉ pre) :
    lines_after_flag (pre ++ FLAG_GUID :: post) = post := by
  induction pre with
  | nil => simp [lines_after_flag]
  | cons line rest ih =>
    rw [List.mem_cons, not_or] at h
    have hne : ¬ line = FLAG_GUID := fun e => h.1 e.symm
    simp only [List.cons_append, lines_after_flag, hne, if_false]
    exact ih h.2

theorem lines_after_flag_absent (lines : List String) (h : FLAG_GUID ∉ lines) :
    lines_after_flag lines = [] := by
  induction lines with
  | nil => rfl
  | cons line rest ih =>
    rw [List.mem_cons, not_or] at h
    have hne : ¬ line = FLAG_GUID := fun e => h.1 e.symm
    simp only [lines_after_flag, hne, if_false]
    exact ih h.2

/-- A line whose variable name is not one of the seven recognized names is fatal. -/
theorem parse_triplet_line_unknown (env : SystemEnv) (info : PreBuildInfo) (line name : String)
    (hlen : (env.split line "=").length = 1 ∨ (env.split line "=").length = 2)
    (hname : (env.split line "=").getD 0 "" = name)
    (h1 : name ≠ "VCPKG_TARGET_ARCHITECTURE") (h2 : name ≠ "VCPKG_CMAKE_SYSTEM_NAME")
    (h3 : name ≠ "VCPKG_CMAKE_SYSTEM_VERSION") (h4 : name ≠ "VCPKG_PLATFORM_TOOLSET")
    (h5 : name ≠ "VCPKG_VISUAL_STUDIO_PATH") (h6 : name ≠ "VCPKG_CHAINLOAD_TOOLCHAIN_FILE")
    (h7 : name ≠ "VCPKG_BUILD_TYPE") :
    parse_triplet_line env info line =
      Except.error (Failure.fatal (FatalError.exit_with_message
        ("Unknown variable name " ++ line))) := by
  unfold parse_triplet_line
  simp only [hlen, if_true, hname, h1, h2, h3, h4, h5, h6, h7, if_false]
  rfl

/-- What a line `NAME=VALUE`, or `NAME` without a value, does to the settings. -/
theorem parse_triplet_line_value (env : SystemEnv) (line name value : String)
    (h : env.split line "=" = [name, value] ∨ (env.split line "=" = [name] ∧ value = "")) :
    ((env.split line "=").length = 1 ∨ (env.split line "=").length = 2) ∧
    (env.split line "=").getD 0 "" = name ∧
    (if decide ((env.split line "=").length = 1) = true then ""
      else (env.split line "=").getD 1 "") = value := by
  rcases h with h | ⟨h, hv⟩
  · rw [h]
    exact ⟨Or.inr rfl, rfl, rfl⟩
  · rw [h, hv]
    exact ⟨Or.inl rfl, rfl, rfl⟩

/-- C36 (triplet-inspection parsing ignores the preamble): the settings that
`PreBuildInfo::from_triplet_file` reads depend only on the lines after the first line equal
to `FLAG_GUID`: lines before it, whatever they are, have no effect and cause no failure, and
without such a line no line is read.  After it, a line that splits at "=" into a recognized
name and a value, or into a recognized name alone (the value is empty then), sets the field
of that name, an empty value leaving the optional fields `platform_toolset`,
`visual_studio_path` and `external_toolchain_file` absent; `VCPKG_BUILD_TYPE` takes the empty
value, "debug" or "release" without regard to case, and is a fatal error with any other
value; a line with another variable name is a fatal error. -/
theorem triplet_preamble_ignored (env : SystemEnv) (paths : VcpkgPaths)
    (triplet_file_path : Path) (pre post : List String) (hpre : FLAG_GUID ∉ pre) :
    from_triplet_lines env paths triplet_file_path (pre ++ FLAG_GUID :: post) =
      from_triplet_lines env paths triplet_file_path (FLAG_GUID :: post) ∧
    lines_after_flag (pre ++ FLAG_GUID :: post) = post ∧
    from_triplet_lines env paths triplet_file_path pre =
      from_triplet_lines env paths triplet_file_path [] ∧
    (∀ (triplet : Triplet) (w : World),
      (env.run (triplet_inspection_command env paths triplet) w.fs).exit_code = 0 →
      env.split (env.run (triplet_inspection_command env paths triplet) w.fs).output "\n" =
        pre ++ FLAG_GUID :: post →
      PreBuildInfo.from_triplet_file env paths triplet w =
        from_triplet_lines env paths (paths.triplets ++ u8path (triplet ++ ".cmake"))
          (FLAG_GUID :: post)
          { w with
            fs := (env.run (triplet_inspection_command env paths triplet) w.fs).fs
            commands := w.commands ++ [triplet_inspection_command env paths triplet] }) ∧
    (∀ (info : PreBuildInfo) (tail : List String) (line name value : String),
      (env.split line "=" = [name, value] ∨ (env.split line "=" = [name] ∧ value = "")) →
      (name = "VCPKG_TARGET_ARCHITECTURE" →
        parse_triplet_lines env (line :: tail) info =
          parse_triplet_lines env tail { info with target_architecture := value }) ∧
      (name = "VCPKG_CMAKE_SYSTEM_NAME" →
        parse_triplet_lines env (line :: tail) info =
          parse_triplet_lines env tail { info with cmake_system_name := value }) ∧
      (name = "VCPKG_CMAKE_SYSTEM_VERSION" →
        parse_triplet_lines env (line :: tail) info =
          parse_triplet_lines env tail { info with cmake_system_version := value }) ∧
      (name = "VCPKG_PLATFORM_TOOLSET" →
        parse_triplet_lines env (line :: tail) info =
          parse_triplet_lines env tail
            { info with platform_toolset := if value = "" then none else some value }) ∧
      (name = "VCPKG_VISUAL_STUDIO_PATH" →
        parse_triplet_lines env (line :: tail) info =
          parse_triplet_lines env tail
            { info with visual_studio_path := if value = "" then none else some (u8path value) }) ∧
      (name = "VCPKG_CHAINLOAD_TOOLCHAIN_FILE" →
        parse_triplet_lines env (line :: tail) info =
          parse_triplet_lines env tail
            { info with external_toolchain_file := if value = "" then none else some value }) ∧
      (name = "VCPKG_BUILD_TYPE" →
        parse_triplet_lines env (line :: tail) info =
          if value = "" then parse_triplet_lines env tail { info with build_type := none }
          else if env.case_insensitive_ascii_equals value "debug" = true then
            parse_triplet_lines env tail { info with build_type := some ConfigurationType.DEBUG }
          else if env.case_insensitive_ascii_equals value "release" = true then
            parse_triplet_lines env tail { info with build_type := some ConfigurationType.RELEASE }
          else
            Except.error (Failure.fatal (FatalError.exit_with_message
              ("Unknown setting for VCPKG_BUILD_TYPE: " ++ value)))) ∧
      (name ∉ ["VCPKG_TARGET_ARCHITECTURE", "VCPKG_CMAKE_SYSTEM_NAME",
          "VCPKG_CMAKE_SYSTEM_VERSION", "VCPKG_PLATFORM_TOOLSET", "VCPKG_VISUAL_STUDIO_PATH",
          "VCPKG_CHAINLOAD_TOOLCHAIN_FILE", "VCPKG_BUILD_TYPE"] →
        parse_triplet_lines env (line :: tail) info =
          Except.error (Failure.fatal (FatalError.exit_with_message
            ("Unknown variable name " ++ line))))) := by
  have hfirst : from_triplet_lines env paths triplet_file_path (pre ++ FLAG_GUID :: post) =
      from_triplet_lines env paths triplet_file_path (FLAG_GUID :: post) := by
    unfold from_triplet_lines
    rw [lines_after_flag_append pre post hpre]
    rfl
  refine ⟨hfirst, lines_after_flag_append pre post hpre, ?_, ?_, ?_⟩
  · unfold from_triplet_lines
    rw [lines_after_flag_absent pre hpre]
    rfl
  · intro triplet w hcode hsplit
    have hrun : PreBuildInfo.from_triplet_file env paths triplet w =
        from_triplet_lines env paths (paths.triplets ++ u8path (triplet ++ ".cmake"))
          (env.split (env.run (triplet_inspection_command env paths triplet) w.fs).output "\n")
          { w with
            fs := (env.run (triplet_inspection_command env paths triplet) w.fs).fs
            commands := w.commands ++ [triplet_inspection_command env paths triplet] } := by
      unfold PreBuildInfo.from_triplet_file
      simp only [bind, Proc.bind, cmd_execute_and_capture_output]
      unfold triplet_inspection_command at hcode
      simp only [hcode, decide_True, Proc.check_exit, if_true, Proc.pure]
      rfl
    rw [hrun, hsplit]
    unfold from_triplet_lines
    rw [lines_after_flag_append pre post hpre]
    rfl
  · intro info tail line name value h
    obtain ⟨hlen, hname, hvalue⟩ := parse_triplet_line_value env line name value h
    have hstep : ∀ r : Except Failure PreBuildInfo, parse_triplet_line env info line = r →
        parse_triplet_lines env (line :: tail) info = r.bind (parse_triplet_lines env tail) := by
      intro r hr
      rw [← hr]
      rfl
    refine ⟨?_, ?_, ?_, ?_, ?_, ?_, ?_, ?_⟩
    · intro hn
      rw [hstep (Except.ok { info with target_architecture := value })]
      · rfl
      · unfold parse_triplet_line
        simp only [hlen, if_true, hname, hvalue, hn]
        rfl
    · intro hn
      rw [hstep (Except.ok { info with cmake_system_name := value })]
      · rfl
      · unfold parse_triplet_line
        simp only [hlen, if_true, hname, hvalue, hn]
        rfl
    · intro hn
      rw [hstep (Except.ok { info with cmake_system_version := value })]
      · rfl
      · unfold parse_triplet_line
        simp only [hlen, if_true, hname, hvalue, hn]
        rfl
    · intro hn
      rw [hstep (Except.ok
        { info with platform_toolset := if value = "" then none else some value })]
      · rfl
      · unfold parse_triplet_line
        simp only [hlen, if_true, hname, hvalue, hn]
        rfl
    · intro hn
      rw [hstep (Except.ok
        { info with visual_studio_path := if value = "" then none else some (u8path value) })]
      · rfl
      · unfold parse_triplet_line
        simp only [hlen, if_true, hname, hvalue, hn]
        rfl
    · intro hn
      rw [hstep (Except.ok
        { info with external_toolchain_file := if value = "" then none else some value })]
      · rfl
      · unfold parse_triplet_line
        simp only [hlen, if_true, hname, hvalue, hn]
        rfl
    · intro hn
      rw [hstep _ rfl]
      unfold parse_triplet_line
      simp only [hlen, if_true, hname, hvalue, hn]
      by_cases h0 : value = ""
      · simp only [h0, if_true]
        rfl
      · simp only [h0, if_false]
        by_cases h1 : env.case_insensitive_ascii_equals value "debug" = true
        · simp only [h1, if_true]
          rfl
        · simp only [h1, if_false]
          by_cases h2 : env.case_insensitive_ascii_equals value "release" = true
          · simp only [h2, if_true]
            rfl
          · simp only [h2, if_false]
            rfl
    · intro hn
      simp only [List.mem_cons, List.mem_singleton, List.not_mem_nil, or_false, not_or] at hn
      rw [hstep _ (parse_triplet_line_unknown env info line name hlen hname hn.1 hn.2.1
        hn.2.2.1 hn.2.2.2.1 hn.2.2.2.2.1 hn.2.2.2.2.2.1 hn.2.2.2.2.2.2)]
      rfl

set_option maxRecDepth 100000 in
theorem triplet_preamble_ignored_witness :
    FLAG_GUID ∉ ["-- noise", "BAD=1=2"] ∧
    from_triplet_lines scenario_system_env build_paths ["vcpkg", "triplets", "x64-linux.cmake"]
        (["-- noise", "BAD=1=2"] ++ FLAG_GUID ::
          ["VCPKG_TARGET_ARCHITECTURE=x64", "VCPKG_CMAKE_SYSTEM_NAME=Linux",
            "VCPKG_PLATFORM_TOOLSET="]) =
      from_triplet_lines scenario_system_env build_paths ["vcpkg", "triplets", "x64-linux.cmake"]
        (FLAG_GUID ::
          ["VCPKG_TARGET_ARCHITECTURE=x64", "VCPKG_CMAKE_SYSTEM_NAME=Linux",
            "VCPKG_PLATFORM_TOOLSET="]) ∧
    (from_triplet_lines scenario_system_env build_paths ["vcpkg", "triplets", "x64-linux.cmake"]
        (FLAG_GUID ::
          ["VCPKG_TARGET_ARCHITECTURE=x64", "VCPKG_CMAKE_SYSTEM_NAME=Linux",
            "VCPKG_PLATFORM_TOOLSET="]) {}).1 =
      Except.ok
        { target_architecture := "x64", cmake_system_name := "Linux", platform_toolset := none
          triplet_abi_tag := "-" } :=
  ⟨by decide,
    (triplet_preamble_ignored scenario_system_env build_paths
      ["vcpkg", "triplets", "x64-linux.cmake"] ["-- noise", "BAD=1=2"]
      ["VCPKG_TARGET_ARCHITECTURE=x64", "VCPKG_CMAKE_SYSTEM_NAME=Linux",
        "VCPKG_PLATFORM_TOOLSET="] (by decide)).1,
    by decide⟩

set_option maxRecDepth 100000 in
/-- A line after the flag with the recognized name `VCPKG_BUILD_TYPE` and the value "bogus"
sets no field: it is a fatal error. -/
theorem triplet_build_type_counterexample :
    scenario_system_env.split "VCPKG_BUILD_TYPE=bogus" "=" = ["VCPKG_BUILD_TYPE", "bogus"] ∧
    parse_triplet_line scenario_system_env {} "VCPKG_BUILD_TYPE=bogus" =
      Except.error (Failure.fatal (FatalError.exit_with_message
        "Unknown setting for VCPKG_BUILD_TYPE: bogus")) ∧
    (from_triplet_lines scenario_system_env build_paths ["vcpkg", "triplets", "x64-linux.cmake"]
        [FLAG_GUID, "VCPKG_BUILD_TYPE=bogus"] {}).1 =
      Except.error (Failure.fatal (FatalError.exit_with_message
        "Unknown setting for VCPKG_BUILD_TYPE: bogus")) := by
  decide
end Vcpkg

namespace Vcpkg

/-! ## Reasoning about procedures with effects -/

theorem post_pure {σ α : Type} (a : α) (Q : α → σ → Prop) (s : σ) :
    Proc.post (Proc.pure a : Proc σ α) Q s ↔ Q a s := by
  unfold Proc.post Proc.pure
  constructor
  · intro h; exact h a s rfl
  · intro h a' s' e
    simp only [Prod.mk.injEq, Except.ok.injEq] at e
    obtain ⟨e1, e2⟩ := e
    subst e1; subst e2
    exact h

theorem post_pure_monad {σ α : Type} (a : α) (Q : α → σ → Prop) (s : σ) :
    Proc.post (pure a : Proc σ α) Q s ↔ Q a s := post_pure a Q s

theorem post_bind {σ α β : Type} (x : Proc σ α) (f : α → Proc σ β) (Q : β → σ → Prop)
    (s : σ) : Proc.post (x >>= f) Q s ↔ Proc.post x (fun a s' => Proc.post (f a) Q s') s := by
  show Proc.post (Proc.bind x f) Q s ↔ _
  unfold Proc.post Proc.bind
  constructor
  · intro h a s1 h1 b s2 h2
    apply h b s2
    rw [h1]
    exact h2
  · intro h b s2 h2
    rcases hx : x s with ⟨r, s1⟩
    rw [hx] at h2
    cases r with
    | error e => simp at h2
    | ok a => exact h a s1 hx b s2 h2

theorem post_exit {σ α : Type} (e : FatalError) (Q : α → σ → Prop) (s : σ) :
    Proc.post (Proc.exit e : Proc σ α) Q s := by
  intro a s' h
  simp [Proc.exit] at h

theorem post_mono {σ α : Type} (p : Proc σ α) (Q Q' : α → σ → Prop) (s : σ)
    (h : Proc.post p Q s) (hQ : ∀ a s', Q a s' → Q' a s') : Proc.post p Q' s :=
  fun a s' e => hQ a s' (h a s' e)

theorem post_of_except {σ α : Type} (x : Except Failure α) (Q : α → σ → Prop) (s : σ) :
    Proc.post (Proc.of_except x : Proc σ α) Q s ↔ ∀ a, x = Except.ok a → Q a s := by
  unfold Proc.post Proc.of_except
  constructor
  · intro h a e
    exact h a s (by rw [e])
  · intro h a s' e
    simp only [Prod.mk.injEq] at e
    obtain ⟨e1, e2⟩ := e
    subst e2
    exact h a e1

theorem post_ite {σ α : Type} (c : Prop) [Decidable c] (a b : Proc σ α) (Q : α → σ → Prop)
    (s : σ) : Proc.post (if c then a else b) Q s ↔ (c → Proc.post a Q s) ∧ (¬ c → Proc.post b Q s) := by
  by_cases h : c <;> simp [h]

theorem post_true {σ α : Type} (p : Proc σ α) (s : σ) : Proc.post p (fun _ _ => True) s :=
  fun _ _ _ => trivial

/-- A result that does not depend on the state in which a procedure returns. -/
theorem post_const {σ α β : Type} (x : Proc σ α) (f : α → Proc σ β) (Q : β → Prop) (s : σ)
    (h : ∀ a s', Proc.post (f a) (fun b _ => Q b) s') :
    Proc.post (x >>= f) (fun b _ => Q b) s :=
  (post_bind x f _ s).mpr (fun a s' _ => h a s')

theorem proc_keeps_bind {σ α β : Type} (I : σ → Prop) (x : Proc σ α) (f : α → Proc σ β)
    (hx : Proc.Keeps I x) (hf : ∀ a, Proc.Keeps I (f a)) : Proc.Keeps I (x >>= f) := by
  intro s hs
  show I (Proc.bind x f s).2
  unfold Proc.bind
  have h1 := hx s hs
  rcases hxs : x s with ⟨r, s1⟩
  rw [hxs] at h1
  cases r with
  | error e => exact h1
  | ok a => exact hf a s1 h1

theorem proc_keeps_pure {σ α : Type} (I : σ → Prop) (a : α) : Proc.Keeps I (Proc.pure a : Proc σ α) :=
  fun _ hs => hs

theorem proc_keeps_pure_monad {σ α : Type} (I : σ → Prop) (a : α) :
    Proc.Keeps I (pure a : Proc σ α) :=
  fun _ hs => hs

theorem proc_keeps_exit {σ α : Type} (I : σ → Prop) (e : FatalError) :
    Proc.Keeps I (Proc.exit e : Proc σ α) :=
  fun _ hs => hs

theorem proc_keeps_of_except {σ α : Type} (I : σ → Prop) (x : Except Failure α) :
    Proc.Keeps I (Proc.of_except x : Proc σ α) :=
  fun _ hs => hs

theorem proc_keeps_get {σ : Type} (I : σ → Prop) : Proc.Keeps I (Proc.get : Proc σ σ) :=
  fun _ hs => hs

theorem proc_keeps_modify {σ : Type} (I : σ → Prop) (f : σ → σ) (h : ∀ s, I s → I (f s)) :
    Proc.Keeps I (Proc.modify f) :=
  fun s hs => h s hs

theorem proc_keeps_ite {σ α : Type} (I : σ → Prop) (c : Prop) [Decidable c] (a b : Proc σ α)
    (ha : Proc.Keeps I a) (hb : Proc.Keeps I b) : Proc.Keeps I (if c then a else b) := by
  by_cases h : c <;> simp [h, ha, hb]

theorem proc_keeps_check_exit {σ : Type} (I : σ → Prop) (cond : Bool) (e : FatalError) :
    Proc.Keeps I (Proc.check_exit cond e : Proc σ Unit) := by
  unfold Proc.check_exit
  cases cond
  · exact proc_keeps_exit I e
  · exact proc_keeps_pure I ()

theorem proc_keeps_for_each {σ α : Type} (I : σ → Prop) (xs : List α) (body : α → Proc σ Unit)
    (h : ∀ x, Proc.Keeps I (body x)) : Proc.Keeps I (Proc.for_each xs body) := by
  induction xs with
  | nil => exact proc_keeps_pure I ()
  | cons x rest ih =>
    unfold Proc.for_each
    exact proc_keeps_bind I (body x) _ (h x) (fun _ => ih)

theorem post_exit_iff {σ α : Type} (e : FatalError) (Q : α → σ → Prop) (s : σ) :
    Proc.post (Proc.exit e : Proc σ α) Q s ↔ True :=
  ⟨fun _ => trivial, fun _ => post_exit e Q s⟩

theorem post_get {σ : Type} (Q : σ → σ → Prop) (s : σ) :
    Proc.post (Proc.get : Proc σ σ) Q s ↔ Q s s := by
  unfold Proc.post Proc.get
  constructor
  · intro h; exact h s s rfl
  · intro h a s' e
    simp only [Prod.mk.injEq, Except.ok.injEq] at e
    obtain ⟨e1, e2⟩ := e
    subst e1; subst e2
    exact h

theorem post_modify {σ : Type} (f : σ → σ) (Q : Unit → σ → Prop) (s : σ) :
    Proc.post (Proc.modify f) Q s ↔ Q () (f s) := by
  unfold Proc.post Proc.modify
  constructor
  · intro h; exact h () (f s) rfl
  · intro h a s' e
    simp only [Prod.mk.injEq, Except.ok.injEq] at e
    obtain ⟨_, e2⟩ := e
    subst e2
    exact h

theorem post_check_exit {σ : Type} (cond : Bool) (e : FatalError) (Q : Unit → σ → Prop)
    (s : σ) : Proc.post (Proc.check_exit cond e) Q s ↔ (cond = true → Q () s) := by
  unfold Proc.check_exit
  cases cond
  · simp only [Bool.false_eq_true, if_false, false_implies, iff_true]
    exact post_exit e Q s
  · simp only [if_true, true_implies]
    exact post_pure () Q s

theorem post_cmd_execute (env : SystemEnv) (cmd_line : String) (Q : Int → World → Prop)
    (w : World) :
    Proc.post (cmd_execute env cmd_line) Q w ↔
      Q (env.run cmd_line w.fs).exit_code
        { w with fs := (env.run cmd_line w.fs).fs, commands := w.commands ++ [cmd_line] } := by
  unfold Proc.post cmd_execute
  constructor
  · intro h; exact h _ _ rfl
  · intro h a s' e
    simp only [Prod.mk.injEq, Except.ok.injEq] at e
    obtain ⟨e1, e2⟩ := e
    subst e1; subst e2
    exact h

theorem post_cmd_execute_and_capture_output (env : SystemEnv) (cmd_line : String)
    (Q : ExitCodeAndOutput → World → Prop) (w : World) :
    Proc.post (cmd_execute_and_capture_output env cmd_line) Q w ↔
      Q { exit_code := (env.run cmd_line w.fs).exit_code
          output := (env.run cmd_line w.fs).output }
        { w with fs := (env.run cmd_line w.fs).fs, commands := w.commands ++ [cmd_line] } := by
  unfold Proc.post cmd_execute_and_capture_output
  constructor
  · intro h; exact h _ _ rfl
  · intro h a s' e
    simp only [Prod.mk.injEq, Except.ok.injEq] at e
    obtain ⟨e1, e2⟩ := e
    subst e1; subst e2
    exact h

theorem post_for_each {σ α : Type} (I : σ → Prop) (xs : List α) (body : α → Proc σ Unit)
    (h : ∀ x ∈ xs, ∀ s, I s → Proc.post (body x) (fun _ s' => I s') s) :
    ∀ s, I s → Proc.post (Proc.for_each xs body) (fun _ s' => I s') s := by
  induction xs with
  | nil =>
    intro s hs
    unfold Proc.for_each
    exact (post_pure _ _ _).mpr hs
  | cons x rest ih =>
    intro s hs
    unfold Proc.for_each
    show Proc.post (body x >>= fun _ => Proc.for_each rest body) _ s
    rw [post_bind]
    refine post_mono _ _ _ _ (h x (List.mem_cons_self _ _) s hs) ?_
    intro _ s1 h1
    exact ih (fun y hy => h y (List.mem_cons_of_mem _ hy)) s1 h1
end Vcpkg

namespace Vcpkg

/-! ## The codes that a build returns -/

theorem do_build_package_code (env : SystemEnv) (paths : VcpkgPaths)
    (pre_build_info : PreBuildInfo) (config : InstallPlanAction) (w : World) :
    Proc.post (do_build_package env paths pre_build_info config)
      (fun r _ => r.code.IsBuildOutcome) w := by
  unfold do_build_package
  cases config.build_action with
  | none => simp only [post_bind, post_exit_iff]
  | some scf =>
    cases config.port_dir with
    | none => simp only [post_bind, post_pure, post_exit_iff]
    | some port_dir =>
      simp only [post_bind, post_pure, post_of_except, post_cmd_execute, post_ite, post_get,
        write_binary_control_file, modify_fs, post_modify]
      intro _ _
      exact ⟨fun _ => Or.inr (Or.inl rfl),
        fun _ _ _ => ⟨fun _ => Or.inr (Or.inr rfl), fun _ => Or.inl rfl⟩⟩

theorem do_build_package_and_clean_buildtrees_code (env : SystemEnv) (paths : VcpkgPaths)
    (pre_build_info : PreBuildInfo) (config : InstallPlanAction) (w : World) :
    Proc.post (do_build_package_and_clean_buildtrees env paths pre_build_info config)
      (fun r _ => r.code.IsBuildOutcome) w := by
  unfold do_build_package_and_clean_buildtrees
  rw [post_bind]
  refine post_mono _ _ _ _ (do_build_package_code env paths pre_build_info config w) ?_
  intro result w1 hres
  cases config.build_action with
  | none => simp only [post_bind, post_exit_iff]
  | some scf =>
    simp only [post_bind, post_pure, post_ite, post_get]
    exact ⟨fun _ => post_mono _ _ _ _ (post_true _ _) (fun _ _ _ => hres), fun _ => hres⟩

theorem build_and_publish_code (env : SystemEnv) (paths : VcpkgPaths)
    (config : InstallPlanAction) (scf : SourceControlFile) (pre_build_info : PreBuildInfo)
    (abi_tag_and_file : AbiTagAndFile) (nuget_id nuget_version : String)
    (package_dir buildtree_dir nuget_archives nuget_archive_path archive_path
      archive_tombstone_path : Path)
    (nuget_dependency_strings : List String) (w : World) :
    Proc.post (build_and_publish env paths config scf pre_build_info abi_tag_and_file nuget_id
        nuget_version package_dir buildtree_dir nuget_archives nuget_archive_path archive_path
        archive_tombstone_path nuget_dependency_strings)
      (fun r _ => r.code.IsBuildOutcome) w := by
  unfold build_and_publish
  rw [post_bind]
  refine post_mono _ _ _ _
    (do_build_package_and_clean_buildtrees_code env paths pre_build_info config w) ?_
  intro result w1 hres
  simp only [post_bind, post_pure, post_get, modify_fs, post_modify, post_check_exit]
  intro _
  split
  · split
    · exact post_const _ _ _ _ (fun _ _ => (post_pure _ _ _).mpr hres)
    · exact post_const _ _ _ _ (fun _ _ => (post_pure _ _ _).mpr hres)
  · split
    · exact post_const _ _ _ _ (fun _ _ => (post_pure _ _ _).mpr hres)
    · exact post_const _ _ _ _ (fun _ _ => (post_pure _ _ _).mpr hres)

theorem build_package_with_abi_code (env : SystemEnv) (paths : VcpkgPaths)
    (config : InstallPlanAction) (scf : SourceControlFile) (pre_build_info : PreBuildInfo)
    (abi_tag_and_file : AbiTagAndFile) (nuget_dependency_strings : List String) (w : World) :
    Proc.post (build_package_with_abi env paths config scf pre_build_info abi_tag_and_file
        nuget_dependency_strings)
      (fun r _ => r.code.IsBuildOutcome) w := by
  unfold build_package_with_abi
  simp only [post_bind, post_of_except]
  intro nuget_version _
  refine post_mono _ _ _ _ (post_true _ _) ?_
  intro restored1 w1 _
  refine post_mono _ _ _ _ (post_true _ _) ?_
  intro restored2 w2 _
  rw [post_ite]
  constructor
  · intro _
    simp only [post_bind, post_get]
    split
    · exact (post_pure _ _ _).mpr (Or.inl rfl)
    · exact post_exit _ _ _
  · intro _
    simp only [post_bind, post_get]
    rw [post_ite]
    constructor
    · intro _
      simp only [post_bind, print2, post_modify, post_pure]
      exact Or.inr (Or.inl rfl)
    · intro _
      refine post_const _ _ _ _ (fun _ _ => ?_)
      refine post_const _ _ _ _ (fun _ _ => ?_)
      exact build_and_publish_code _ _ _ _ _ _ _ _ _ _ _ _ _ _ _ _

/-! ## The missing-dependency guard -/

theorem mem_sort_unique_erase_fspecs (env : SystemEnv) (fspecs : List FeatureSpec)
    (x : FeatureSpec) : x ∈ sort_unique_erase_fspecs env fspecs ↔ x ∈ fspecs := by
  unfold sort_unique_erase_fspecs
  have key : ∀ (l acc : List FeatureSpec),
      x ∈ l.foldl (fun sorted fspec => set_insert env.feature_spec_less fspec sorted) acc ↔
        x ∈ acc ∨ x ∈ l := by
    intro l
    induction l with
    | nil => intro acc; simp
    | cons y ys ih =>
      intro acc
      simp only [List.foldl_cons, ih, mem_set_insert, List.mem_cons]
      tauto
  rw [key]
  simp

theorem sort_unique_erase_fspecs_sorted (env : SystemEnv)
    (horder : StrictTotalOrder env.feature_spec_less) (fspecs : List FeatureSpec) :
    (sort_unique_erase_fspecs env fspecs).Pairwise
      (fun a b => env.feature_spec_less a b = true) := by
  unfold sort_unique_erase_fspecs
  have key : ∀ (l acc : List FeatureSpec),
      acc.Pairwise (fun a b => env.feature_spec_less a b = true) →
      (l.foldl (fun sorted fspec => set_insert env.feature_spec_less fspec sorted) acc).Pairwise
        (fun a b => env.feature_spec_less a b = true) := by
    intro l
    induction l with
    | nil => intro acc h; exact h
    | cons y ys ih =>
      intro acc h
      exact ih _ (set_insert_sorted _ horder y acc h)
  exact key _ _ List.Pairwise.nil

theorem mem_expand_defaults (status_db : StatusParagraphs) (l : List FeatureSpec)
    (x : FeatureSpec) :
    x ∈ expand_defaults status_db l ↔
      ∃ y ∈ l,
        (y.feature ≠ "" ∧ x = y) ∨
        (y.feature = "" ∧ status_db.find_installed y.spec = none ∧ x = y) ∨
        (y.feature = "" ∧ ∃ it, status_db.find_installed y.spec = some it ∧ x.spec = y.spec ∧
          (x.feature = "core" ∨ x.feature ∈ it.core.default_features)) := by
  induction l with
  | nil => simp [expand_defaults]
  | cons y ys ih =>
    simp only [expand_defaults, List.mem_append, ih, List.mem_cons, exists_eq_or_imp]
    refine or_congr ?_ Iff.rfl
    by_cases hy : y.feature = ""
    · simp only [hy, if_true, ne_eq, not_true_eq_false, false_and, true_and, false_or]
      cases hfind : status_db.find_installed y.spec with
      | none => simp
      | some it =>
        simp only [List.mem_cons, List.mem_map, false_and, Option.some.injEq, exists_eq_left',
          false_or, reduceCtorEq]
        constructor
        · rintro (h | ⟨d, hd, h⟩)
          · subst h; exact ⟨rfl, Or.inl rfl⟩
          · subst h; exact ⟨rfl, Or.inr hd⟩
        · rintro ⟨hs, h | h⟩
          · left
            cases x
            simp only at hs h
            subst hs; subst h
            rfl
          · right
            refine ⟨x.feature, h, ?_⟩
            cases x
            simp only at hs
            subst hs
            rfl
    · simp [hy]

theorem compute_required_feature_specs_eq (env : SystemEnv) (scf : SourceControlFile)
    (triplet : Triplet) (feature_list dep_strings : List String) (status_db : StatusParagraphs)
    (hdeps : required_dep_strings env scf triplet feature_list = Except.ok dep_strings) :
    compute_required_feature_specs env scf triplet feature_list status_db =
      Except.ok (sort_unique_erase_fspecs env (expand_defaults status_db
        (sort_unique_erase_fspecs env (env.from_strings_and_triplet dep_strings triplet)))) := by
  unfold compute_required_feature_specs
  rw [hdeps]
  rfl

theorem build_package_cascaded (env : SystemEnv) (paths : VcpkgPaths)
    (config : InstallPlanAction) (status_db : StatusParagraphs) (scf : SourceControlFile)
    (required : List FeatureSpec) (w : World)
    (hscf : config.build_action = some scf)
    (hreq : compute_required_feature_specs env scf config.spec.triplet config.feature_list
      status_db = Except.ok required)
    (hunmet : unmet_feature_specs status_db scf.core_paragraph.name required ≠ []) :
    build_package env paths config status_db w =
      (Except.ok
        { code := BuildResult.CASCADED_DUE_TO_MISSING_DEPENDENCIES
          unmet_dependencies := unmet_feature_specs status_db scf.core_paragraph.name required },
        w) := by
  unfold build_package
  rw [hscf]
  simp only [bind, Proc.bind, Proc.pure, Proc.of_except, hreq]
  unfold unmet_feature_specs at hunmet
  simp only [hunmet, not_false_eq_true, if_true]
  rfl

theorem build_package_not_cascaded (env : SystemEnv) (paths : VcpkgPaths)
    (config : InstallPlanAction) (status_db : StatusParagraphs) (scf : SourceControlFile)
    (required : List FeatureSpec) (w : World)
    (hscf : config.build_action = some scf)
    (hreq : compute_required_feature_specs env scf config.spec.triplet config.feature_list
      status_db = Except.ok required)
    (hunmet : unmet_feature_specs status_db scf.core_paragraph.name required = []) :
    Proc.post (build_package env paths config status_db)
      (fun r _ => r.code.IsBuildOutcome) w := by
  unfold build_package
  rw [hscf]
  unfold unmet_feature_specs at hunmet
  simp only [post_bind, post_pure, post_of_except, hreq, Except.ok.injEq, forall_eq']
  simp only [hunmet, not_true_eq_false, if_false]
  simp only [post_bind, post_of_except]
  intro abis _
  refine post_mono _ _ _ _ (post_true _ _) ?_
  intro pre_build_info w1 _
  split
  · exact build_package_with_abi_code _ _ _ _ _ _ _ _
  · exact do_build_package_and_clean_buildtrees_code _ _ _ _ _

theorem scenario_feature_spec_less_strict_total :
    StrictTotalOrder scenario_system_env.feature_spec_less := by
  have hp := package_spec_less_strict_total
  have hs := string_less_strict_total
  have hdef : ∀ a b : FeatureSpec, scenario_system_env.feature_spec_less a b =
      (PackageSpec.less a.spec b.spec ||
        (decide (a.spec = b.spec) && string_less a.feature b.feature)) := fun _ _ => rfl
  refine ⟨?_, ?_, ?_⟩
  · intro a
    rw [hdef]
    simp only [hp.1, hs.1, Bool.false_or, Bool.and_false]
  · intro a b c hab hbc
    rw [hdef] at *
    simp only [Bool.or_eq_true, Bool.and_eq_true, decide_eq_true_eq] at *
    rcases hab with hab | ⟨e1, hab⟩
    · rcases hbc with hbc | ⟨e2, hbc⟩
      · exact Or.inl (hp.2.1 _ _ _ hab hbc)
      · rw [← e2]; exact Or.inl hab
    · rcases hbc with hbc | ⟨e2, hbc⟩
      · rw [e1]; exact Or.inl hbc
      · exact Or.inr ⟨e1.trans e2, hs.2.1 _ _ _ hab hbc⟩
  · intro a b hne
    rw [hdef, hdef]
    simp only [Bool.or_eq_true, Bool.and_eq_true, decide_eq_true_eq]
    by_cases hspec : a.spec = b.spec
    · have hf : a.feature ≠ b.feature := by
        intro e
        apply hne
        cases a; cases b
        simp only at hspec e
        subst hspec; subst e
        rfl
      rcases hs.2.2 _ _ hf with h | h
      · exact Or.inl (Or.inr ⟨hspec, h⟩)
      · exact Or.inr (Or.inr ⟨hspec.symm, h⟩)
    · rcases hp.2.2 _ _ hspec with h | h
      · exact Or.inl (Or.inl h)
      · exact Or.inr (Or.inl h)

/-- C23 (missing-dependency guard): for an action whose selected features other than "core"
are features of its port, `compute_required_feature_specs` returns the feature specs that
the dependencies of the selected features name, where a reference to the default features of
an installed package stands for its core and the default features recorded for it, and
`build_package` returns `CASCADED_DUE_TO_MISSING_DEPENDENCIES` exactly when one of them is
not installed and does not name the package being built: then the result carries these
unmet specs, a list that is sorted and free of duplicates, and the world is left as it was
(no cache is looked up, no command is run); otherwise every result of `build_package` has
one of the codes `SUCCEEDED`, `BUILD_FAILED` and `POST_BUILD_CHECKS_FAILED`. -/
theorem missing_dependency_guard (env : SystemEnv) (paths : VcpkgPaths)
    (config : InstallPlanAction) (status_db : StatusParagraphs) (scf : SourceControlFile)
    (dep_strings : List String) (w : World)
    (hscf : config.build_action = some scf)
    (hdeps : required_dep_strings env scf config.spec.triplet config.feature_list =
      Except.ok dep_strings)
    (horder : StrictTotalOrder env.feature_spec_less) :
    ∃ required,
      compute_required_feature_specs env scf config.spec.triplet config.feature_list
        status_db = Except.ok required ∧
      (∀ x, x ∈ required ↔
        ∃ y ∈ env.from_strings_and_triplet dep_strings config.spec.triplet,
          (y.feature ≠ "" ∧ x = y) ∨
          (y.feature = "" ∧ status_db.find_installed y.spec = none ∧ x = y) ∨
          (y.feature = "" ∧ ∃ it, status_db.find_installed y.spec = some it ∧
            x.spec = y.spec ∧ (x.feature = "core" ∨ x.feature ∈ it.core.default_features))) ∧
      (∀ x, x ∈ unmet_feature_specs status_db scf.core_paragraph.name required ↔
        x ∈ required ∧ status_db.is_installed x = false ∧ x.name ≠ scf.core_paragraph.name) ∧
      (unmet_feature_specs status_db scf.core_paragraph.name required).Pairwise
        (fun a b => env.feature_spec_less a b = true) ∧
      (unmet_feature_specs status_db scf.core_paragraph.name required).Nodup ∧
      (unmet_feature_specs status_db scf.core_paragraph.name required ≠ [] →
        build_package env paths config status_db w =
          (Except.ok
            { code := BuildResult.CASCADED_DUE_TO_MISSING_DEPENDENCIES
              unmet_dependencies :=
                unmet_feature_specs status_db scf.core_paragraph.name required }, w)) ∧
      (unmet_feature_specs status_db scf.core_paragraph.name required = [] →
        ∀ r w', build_package env paths config status_db w = (Except.ok r, w') →
          r.code.IsBuildOutcome ∧
            r.code ≠ BuildResult.CASCADED_DUE_TO_MISSING_DEPENDENCIES) := by
  have hreq := compute_required_feature_specs_eq env scf config.spec.triplet
    config.feature_list dep_strings status_db hdeps
  refine ⟨_, hreq, ?_, ?_, ?_, ?_, ?_, ?_⟩
  · intro x
    rw [mem_sort_unique_erase_fspecs, mem_expand_defaults]
    constructor
    · rintro ⟨y, hy, h⟩
      exact ⟨y, (mem_sort_unique_erase_fspecs _ _ _).mp hy, h⟩
    · rintro ⟨y, hy, h⟩
      exact ⟨y, (mem_sort_unique_erase_fspecs _ _ _).mpr hy, h⟩
  · intro x
    unfold unmet_feature_specs
    simp only [List.mem_filter, Bool.not_eq_true', Bool.or_eq_false_iff, decide_eq_false_iff_not,
      ne_eq]
  · unfold unmet_feature_specs
    exact List.Pairwise.filter _ (sort_unique_erase_fspecs_sorted env horder _)
  · unfold unmet_feature_specs
    exact (sorted_nodup _ horder _ (sort_unique_erase_fspecs_sorted env horder _)).filter _
  · exact build_package_cascaded env paths config status_db scf _ w hscf hreq
  · intro hunmet r w' h
    have hpost : r.code.IsBuildOutcome :=
      build_package_not_cascaded env paths config status_db scf _ w hscf hreq hunmet r w' h
    refine ⟨hpost, ?_⟩
    intro e
    unfold BuildResult.IsBuildOutcome at hpost
    rw [e] at hpost
    rcases hpost with h | h | h <;> cases h

set_option maxRecDepth 100000 in
theorem missing_dependency_guard_witness :
    (curl_build_action.build_action = some (make_port "curl" ["zlib"] [] [("ssl", ["openssl"])]) ∧
      required_dep_strings scenario_system_env
        (make_port "curl" ["zlib"] [] [("ssl", ["openssl"])]) x64_linux ["core", "ssl"] =
        Except.ok ["zlib", "openssl"]) ∧
    build_package scenario_system_env build_paths curl_build_action zlib_only_status_db {} =
      (Except.ok
        { code := BuildResult.CASCADED_DUE_TO_MISSING_DEPENDENCIES
          unmet_dependencies := [⟨⟨"openssl", x64_linux⟩, ""⟩] }, {}) := by
  refine ⟨⟨rfl, by decide⟩, ?_⟩
  obtain ⟨required, hreq, _, _, _, _, hcascaded, _⟩ :=
    missing_dependency_guard scenario_system_env build_paths curl_build_action
      zlib_only_status_db (make_port "curl" ["zlib"] [] [("ssl", ["openssl"])])
      ["zlib", "openssl"] {} rfl (by decide) scenario_feature_spec_less_strict_total
  have hval : compute_required_feature_specs scenario_system_env
      (make_port "curl" ["zlib"] [] [("ssl", ["openssl"])]) curl_build_action.spec.triplet
      curl_build_action.feature_list zlib_only_status_db =
      Except.ok [⟨⟨"openssl", x64_linux⟩, ""⟩, ⟨⟨"zlib", x64_linux⟩, "core"⟩] := by decide
  rw [hval] at hreq
  have e := Except.ok.inj hreq
  subst e
  exact hcascaded (by decide)
end Vcpkg

namespace Vcpkg

/-! ## The commands that were run stay run -/

theorem proc_keeps_modify_fs (c : String) (f : Filesystem → Filesystem) :
    Proc.Keeps (World.ran c) (modify_fs f) :=
  fun _ h => h

theorem proc_keeps_print2 (c : String) (text : String) : Proc.Keeps (World.ran c) (print2 text) :=
  fun _ h => h

theorem proc_keeps_debug_print (c : String) (text : String) :
    Proc.Keeps (World.ran c) (Debug.print text) :=
  fun _ h => h

theorem proc_keeps_cmd_execute (c : String) (env : SystemEnv) (cmd_line : String) :
    Proc.Keeps (World.ran c) (cmd_execute env cmd_line) :=
  fun _ h => List.mem_append_left _ h

theorem proc_keeps_cmd_execute_and_capture_output (c : String) (env : SystemEnv)
    (cmd_line : String) :
    Proc.Keeps (World.ran c) (cmd_execute_and_capture_output env cmd_line) :=
  fun _ h => List.mem_append_left _ h

theorem proc_keeps_fs_rename (c : String) (old_path new_path : Path) :
    Proc.Keeps (World.ran c) (fs_rename old_path new_path) := by
  unfold fs_rename
  refine proc_keeps_bind _ _ _ (proc_keeps_get _) (fun w => ?_)
  exact proc_keeps_ite _ _ _ _ (proc_keeps_modify_fs c _) (proc_keeps_exit _ _)

theorem proc_keeps_jobs_post (c : String) (f : Task) (description : String) :
    Proc.Keeps (World.ran c) (Jobs.post f description) := by
  unfold Jobs.post
  refine proc_keeps_bind _ _ _ (proc_keeps_get _) (fun w => ?_)
  exact proc_keeps_ite _ _ _ _ (proc_keeps_exit _ _) (proc_keeps_modify _ _ (fun _ h => h))

theorem proc_keeps_compress_directory (c : String) (env : SystemEnv) (source destination : Path) :
    Proc.Keeps (World.ran c) (compress_directory env source destination) := by
  unfold compress_directory
  refine proc_keeps_bind _ _ _ (proc_keeps_modify_fs c _) (fun _ => ?_)
  refine proc_keeps_bind _ _ _ (proc_keeps_get _) (fun _ => ?_)
  refine proc_keeps_bind _ _ _ (proc_keeps_check_exit _ _ _) (fun _ => ?_)
  refine proc_keeps_bind _ _ _ (proc_keeps_cmd_execute c env _) (fun _ => ?_)
  exact proc_keeps_pure _ _

theorem proc_keeps_publish_archive (c : String) (env : SystemEnv) (paths : VcpkgPaths)
    (config : InstallPlanAction) (buildtree_dir archive_path : Path) :
    Proc.Keeps (World.ran c) (publish_archive env paths config buildtree_dir archive_path) := by
  unfold publish_archive compress_archive
  refine proc_keeps_bind _ _ _ (proc_keeps_compress_directory c env _ _) (fun _ => ?_)
  refine proc_keeps_bind _ _ _ (proc_keeps_modify_fs c _) (fun _ => ?_)
  refine proc_keeps_bind _ _ _ (proc_keeps_get _) (fun _ => ?_)
  refine proc_keeps_bind _ _ _ (proc_keeps_modify_fs c _) (fun _ => ?_)
  exact proc_keeps_ite _ _ _ _ (proc_keeps_print2 c _) (proc_keeps_print2 c _)

theorem proc_keeps_publish_nuget (c : String) (env : SystemEnv) (paths : VcpkgPaths)
    (config : InstallPlanAction) (scf : SourceControlFile)
    (feed nuget_id nuget_version : String)
    (package_dir buildtree_dir nuget_archives nuget_archive_path : Path)
    (nuget_dependency_strings : List String) :
    Proc.Keeps (World.ran c) (publish_nuget env paths config scf feed nuget_id nuget_version
      package_dir buildtree_dir nuget_archives nuget_archive_path nuget_dependency_strings) := by
  unfold publish_nuget
  refine proc_keeps_bind _ _ _ (proc_keeps_modify_fs c _) (fun _ => ?_)
  refine proc_keeps_bind _ _ _ (proc_keeps_cmd_execute_and_capture_output c env _) (fun _ => ?_)
  refine proc_keeps_ite _ _ _ _ ?_ ?_
  · exact proc_keeps_bind _ _ _ (proc_keeps_print2 c _) (fun _ => proc_keeps_debug_print c _)
  · refine proc_keeps_bind _ _ _ (proc_keeps_modify_fs c _) (fun _ => ?_)
    refine proc_keeps_bind _ _ _ (proc_keeps_fs_rename c _ _) (fun _ => ?_)
    refine proc_keeps_bind _ _ _ (proc_keeps_print2 c _) (fun _ => ?_)
    exact proc_keeps_jobs_post c _ _

theorem proc_keeps_copy_log_file (c : String) (tmp_log_path_destination log_file : Path) :
    Proc.Keeps (World.ran c) (copy_log_file tmp_log_path_destination log_file) := by
  unfold copy_log_file
  exact proc_keeps_ite _ _ _ _ (proc_keeps_modify_fs c _) (proc_keeps_pure _ _)

theorem proc_keeps_publish_tombstone (c : String) (env : SystemEnv) (config : InstallPlanAction)
    (buildtree_dir archive_tombstone_path : Path) :
    Proc.Keeps (World.ran c)
      (publish_tombstone env config buildtree_dir archive_tombstone_path) := by
  unfold publish_tombstone
  refine proc_keeps_bind _ _ _ (proc_keeps_get _) (fun _ => ?_)
  refine proc_keeps_ite _ _ _ _ ?_ (proc_keeps_pure _ _)
  refine proc_keeps_bind _ _ _ (proc_keeps_modify_fs c _) (fun _ => ?_)
  refine proc_keeps_bind _ _ _ (proc_keeps_get _) (fun _ => ?_)
  refine proc_keeps_bind _ _ _ (proc_keeps_for_each _ _ _ (fun _ => proc_keeps_copy_log_file c _ _)) (fun _ => ?_)
  refine proc_keeps_bind _ _ _ (proc_keeps_compress_directory c env _ _) (fun _ => ?_)
  refine proc_keeps_bind _ _ _ (proc_keeps_modify_fs c _) (fun _ => ?_)
  refine proc_keeps_bind _ _ _ (proc_keeps_modify_fs c _) (fun _ => ?_)
  exact proc_keeps_modify_fs c _

theorem proc_keeps_clean_buildtree_file (c : String) (file : Path) :
    Proc.Keeps (World.ran c) (clean_buildtree_file file) := by
  unfold clean_buildtree_file
  refine proc_keeps_bind _ _ _ (proc_keeps_get _) (fun _ => ?_)
  exact proc_keeps_ite _ _ _ _ (proc_keeps_modify_fs c _) (proc_keeps_pure _ _)

theorem ran_bind {α β : Type} (c : String) (x : Proc World α) (f : α → Proc World β)
    (w : World) (hx : World.ran c (x w).2) (hf : ∀ a, Proc.Keeps (World.ran c) (f a)) :
    World.ran c ((x >>= f) w).2 := by
  show World.ran c (Proc.bind x f w).2
  unfold Proc.bind
  rcases hxs : x w with ⟨r, w1⟩
  rw [hxs] at hx
  cases r with
  | error e => exact hx
  | ok a => exact hf a w1 hx

/-- The build tool is run by `do_build_package` for an action with a port directory when
the environment of the build can be made. -/
theorem do_build_package_runs (env : SystemEnv) (paths : VcpkgPaths)
    (pre_build_info : PreBuildInfo) (config : InstallPlanAction) (scf : SourceControlFile)
    (port_dir : Path) (command : String) (w : World)
    (hscf : config.build_action = some scf) (hport : config.port_dir = some port_dir)
    (henv : make_build_env_cmd env pre_build_info (paths.get_toolset pre_build_info) =
      Except.ok command) :
    World.ran (build_command env paths pre_build_info config scf port_dir)
      (do_build_package env paths pre_build_info config w).2 := by
  unfold do_build_package
  simp only [hscf, hport]
  show World.ran _ (Proc.bind (Proc.pure scf) _ w).2
  simp only [Proc.bind, Proc.pure]
  show World.ran _ (Proc.bind (Proc.pure port_dir) _ w).2
  simp only [Proc.bind, Proc.pure]
  show World.ran _ (Proc.bind (Proc.of_except _) _ w).2
  simp only [Proc.bind, Proc.of_except, henv]
  refine ran_bind _ _ _ _ ?_ ?_
  · exact List.mem_append_right _ (List.mem_singleton.mpr rfl)
  · intro return_code
    refine proc_keeps_ite _ _ _ _ (proc_keeps_pure _ _) ?_
    refine proc_keeps_bind _ _ _ (proc_keeps_get _) (fun _ => ?_)
    refine proc_keeps_bind _ _ _ (proc_keeps_of_except _ _) (fun _ => ?_)
    refine proc_keeps_bind _ _ _ (proc_keeps_get _) (fun _ => ?_)
    refine proc_keeps_ite _ _ _ _ (proc_keeps_pure _ _) ?_
    refine proc_keeps_bind _ _ _ ?_ (fun _ => proc_keeps_pure _ _)
    unfold write_binary_control_file
    exact proc_keeps_modify_fs _ _

theorem do_build_package_and_clean_buildtrees_runs (env : SystemEnv) (paths : VcpkgPaths)
    (pre_build_info : PreBuildInfo) (config : InstallPlanAction) (scf : SourceControlFile)
    (port_dir : Path) (command : String) (w : World)
    (hscf : config.build_action = some scf) (hport : config.port_dir = some port_dir)
    (henv : make_build_env_cmd env pre_build_info (paths.get_toolset pre_build_info) =
      Except.ok command) :
    World.ran (build_command env paths pre_build_info config scf port_dir)
      (do_build_package_and_clean_buildtrees env paths pre_build_info config w).2 := by
  unfold do_build_package_and_clean_buildtrees
  refine ran_bind _ _ _ _
    (do_build_package_runs env paths pre_build_info config scf port_dir command w hscf hport
      henv) ?_
  intro result
  simp only [hscf]
  refine proc_keeps_bind _ _ _ (proc_keeps_pure _ _) (fun _ => ?_)
  refine proc_keeps_ite _ _ _ _ ?_ (proc_keeps_pure _ _)
  refine proc_keeps_bind _ _ _ (proc_keeps_get _) (fun _ => ?_)
  refine proc_keeps_bind _ _ _ (proc_keeps_for_each _ _ _ (fun _ => proc_keeps_clean_buildtree_file _ _))
    (fun _ => proc_keeps_pure _ _)

theorem build_and_publish_runs (env : SystemEnv) (paths : VcpkgPaths)
    (config : InstallPlanAction) (scf : SourceControlFile) (pre_build_info : PreBuildInfo)
    (abi_tag_and_file : AbiTagAndFile) (nuget_id nuget_version : String)
    (package_dir buildtree_dir nuget_archives nuget_archive_path archive_path
      archive_tombstone_path : Path)
    (nuget_dependency_strings : List String) (port_dir : Path) (command : String) (w : World)
    (hscf : config.build_action = some scf) (hport : config.port_dir = some port_dir)
    (henv : make_build_env_cmd env pre_build_info (paths.get_toolset pre_build_info) =
      Except.ok command) :
    World.ran (build_command env paths pre_build_info config scf port_dir)
      (build_and_publish env paths config scf pre_build_info abi_tag_and_file nuget_id
        nuget_version package_dir buildtree_dir nuget_archives nuget_archive_path archive_path
        archive_tombstone_path nuget_dependency_strings w).2 := by
  unfold build_and_publish
  refine ran_bind _ _ _ _
    (do_build_package_and_clean_buildtrees_runs env paths pre_build_info config scf port_dir
      command w hscf hport henv) ?_
  intro result
  refine proc_keeps_bind _ _ _ (proc_keeps_modify_fs _ _) (fun _ => ?_)
  refine proc_keeps_bind _ _ _ (proc_keeps_get _) (fun _ => ?_)
  refine proc_keeps_bind _ _ _ (proc_keeps_modify_fs _ _) (fun _ => ?_)
  refine proc_keeps_bind _ _ _ (proc_keeps_check_exit _ _ _) (fun _ => ?_)
  split
  · split
    · exact proc_keeps_bind _ _ _ (proc_keeps_publish_nuget _ _ _ _ _ _ _ _ _ _ _ _ _)
        (fun _ => proc_keeps_pure _ _)
    · exact proc_keeps_bind _ _ _ (proc_keeps_publish_archive _ _ _ _ _ _) (fun _ => proc_keeps_pure _ _)
  · split
    · exact proc_keeps_bind _ _ _ (proc_keeps_publish_tombstone _ _ _ _ _) (fun _ => proc_keeps_pure _ _)
    · exact proc_keeps_bind _ _ _ (proc_keeps_pure _ _) (fun _ => proc_keeps_pure _ _)
end Vcpkg

namespace Vcpkg

/-! ## The look-up in the binary cache -/

theorem mem_create_directories_foldl (p : Path) (e : FileEntry) :
    ∀ (dirs : List Path) (fs : Filesystem), (∀ d ∈ dirs, d <+: p) →
      e ∈ dirs.foldl
        (fun fs dir => if fs.any (fun e => decide (e.path = dir)) then fs
          else fs ++ [{ path := dir, type := FileType.directory }]) fs →
      e ∈ fs ∨ e.path <+: p := by
  intro dirs
  induction dirs with
  | nil => intro fs _ h; exact Or.inl h
  | cons d rest ih =>
    intro fs hd h
    rw [List.foldl_cons] at h
    rcases ih _ (fun x hx => hd x (List.mem_cons_of_mem _ hx)) h with h1 | h1
    · split at h1
      · exact Or.inl h1
      · rcases List.mem_append.mp h1 with h2 | h2
        · exact Or.inl h2
        · rw [List.mem_singleton] at h2
          subst h2
          exact Or.inr (hd d (List.mem_cons_self _ _))
    · exact Or.inr h1

theorem mem_create_directories (fs : Filesystem) (p : Path) (e : FileEntry)
    (h : e ∈ fs.create_directories p) : e ∈ fs ∨ e.path <+: p := by
  unfold Filesystem.create_directories at h
  refine mem_create_directories_foldl p e _ fs ?_ h
  intro d hd
  exact (List.mem_inits d p).mp (List.mem_of_mem_tail hd)

theorem mem_create_directories_of_mem (fs : Filesystem) (p : Path) (e : FileEntry)
    (h : e ∈ fs) : e ∈ fs.create_directories p := by
  unfold Filesystem.create_directories
  have key : ∀ (dirs : List Path) (fs : Filesystem), e ∈ fs →
      e ∈ dirs.foldl
        (fun fs dir => if fs.any (fun e => decide (e.path = dir)) then fs
          else fs ++ [{ path := dir, type := FileType.directory }]) fs := by
    intro dirs
    induction dirs with
    | nil => intro fs h; exact h
    | cons d rest ih =>
      intro fs h
      rw [List.foldl_cons]
      apply ih
      split
      · exact h
      · exact List.mem_append_left _ h
  exact key _ _ h

/-- After `remove_all` and `create_directories` of a directory, nothing is in it. -/
theorem cleared_directory_is_empty (fs : Filesystem) (pkg_path : Path) :
    ((fs.remove_all pkg_path).create_directories pkg_path).get_files_non_recursive pkg_path =
      [] := by
  unfold Filesystem.get_files_non_recursive
  rw [List.map_eq_nil_iff, List.filter_eq_nil_iff]
  intro e he
  simp only [decide_eq_true_eq, not_and]
  intro hne hparent
  have hpath : e.path = pkg_path ++ [e.path.getLast hne] := by
    unfold Path.parent_path at hparent
    rw [← hparent]
    exact (List.dropLast_append_getLast hne).symm
  rcases mem_create_directories _ _ _ he with h | h
  · unfold Filesystem.remove_all at h
    rw [List.mem_filter] at h
    have hpre : pkg_path.isPrefixOf e.path = true := by
      rw [List.isPrefixOf_iff_prefix]
      exact ⟨[e.path.getLast hne], hpath.symm⟩
    rw [hpre] at h
    exact absurd h.2 (by simp)
  · have hlen := h.length_le
    rw [hpath] at hlen
    simp at hlen

theorem from_triplet_lines_world (env : SystemEnv) (paths : VcpkgPaths)
    (triplet_file_path : Path) (lines : List String) (w : World) :
    (from_triplet_lines env paths triplet_file_path lines w).2.commands = w.commands ∧
    (from_triplet_lines env paths triplet_file_path lines w).2.printed = w.printed ∧
    (from_triplet_lines env paths triplet_file_path lines w).2.fs = w.fs := by
  unfold from_triplet_lines
  simp only [bind, Proc.bind, Proc.of_except]
  cases parse_triplet_lines env (lines_after_flag lines) {} with
  | error e => exact ⟨rfl, rfl, rfl⟩
  | ok info =>
    simp only
    unfold triplet_abi_tag_of
    cases AssocMap.find w.s_hash_cache triplet_file_path <;> exact ⟨rfl, rfl, rfl⟩

theorem from_triplet_file_world (env : SystemEnv) (paths : VcpkgPaths) (triplet : Triplet)
    (pre_build_info : PreBuildInfo) (w w1 : World)
    (h : PreBuildInfo.from_triplet_file env paths triplet w = (Except.ok pre_build_info, w1)) :
    w1.commands = w.commands ++ [triplet_inspection_command env paths triplet] ∧
    w1.printed = w.printed ∧
    w1.fs = (env.run (triplet_inspection_command env paths triplet) w.fs).fs := by
  unfold PreBuildInfo.from_triplet_file at h
  simp only [bind, Proc.bind, cmd_execute_and_capture_output] at h
  unfold Proc.check_exit at h
  by_cases hc : decide ((env.run (triplet_inspection_command env paths triplet) w.fs).exit_code
      = 0) = true
  · unfold triplet_inspection_command at hc
    simp only [hc, if_true, Proc.pure] at h
    have hw := from_triplet_lines_world env paths
      (paths.triplets ++ u8path (triplet ++ ".cmake"))
      (env.split (env.run (triplet_inspection_command env paths triplet) w.fs).output "\n")
      { w with
        fs := (env.run (triplet_inspection_command env paths triplet) w.fs).fs
        commands := w.commands ++ [triplet_inspection_command env paths triplet] }
    unfold triplet_inspection_command at hw
    rw [h] at hw
    exact hw
  · unfold triplet_inspection_command at hc
    simp only [hc, if_false] at h
    unfold Proc.exit at h
    simp at h

theorem build_package_with_abi_hit (env : SystemEnv) (paths : VcpkgPaths)
    (config : InstallPlanAction) (scf : SourceControlFile) (pre_build_info : PreBuildInfo)
    (abi : AbiTagAndFile) (nuget_dependency_strings : List String) (nuget_version : String)
    (bcf : BinaryControlFile) (w1 : World)
    (hversion : config.nuget_package_version = Except.ok nuget_version)
    (hnupkg : w1.fs.exists_path
      (paths.package_dir config.spec ++ u8path (config.spec.dir ++ ".nupkg")) = false)
    (harchive : w1.fs.exists_path (archive_path paths abi.tag) = true)
    (hload : env.try_load_cached_package
      (env.run (unzip_command paths config.spec (archive_path paths abi.tag))
        ((w1.fs.remove_all (paths.package_dir config.spec)).create_directories
          (paths.package_dir config.spec))).fs config.spec = some bcf) :
    build_package_with_abi env paths config scf pre_build_info abi nuget_dependency_strings w1 =
      (Except.ok { code := BuildResult.SUCCEEDED, binary_control_file := some bcf },
        { w1 with
          fs := (env.run (unzip_command paths config.spec (archive_path paths abi.tag))
            ((w1.fs.remove_all (paths.package_dir config.spec)).create_directories
              (paths.package_dir config.spec))).fs
          printed := w1.printed ++
            ["Using cached binary package: " ++ (archive_path paths abi.tag).u8string ++ "\n"]
          commands := w1.commands ++
            [unzip_command paths config.spec (archive_path paths abi.tag)] }) := by
  unfold build_package_with_abi restore_unpacked_nupkg restore_archive decompress_archive
  simp only [bind, Proc.bind, Proc.of_except, hversion, Proc.get, hnupkg, Bool.false_eq_true,
    if_false, Proc.pure, not_false_eq_true, if_true, harchive, print2, Proc.modify, modify_fs,
    cleared_directory_is_empty, List.isEmpty_nil, Proc.check_exit, cmd_execute]
  unfold unzip_command at hload
  simp only [hload]
  rfl

theorem build_package_with_abi_tombstone (env : SystemEnv) (paths : VcpkgPaths)
    (config : InstallPlanAction) (scf : SourceControlFile) (pre_build_info : PreBuildInfo)
    (abi : AbiTagAndFile) (nuget_dependency_strings : List String) (nuget_version : String)
    (w1 : World)
    (hversion : config.nuget_package_version = Except.ok nuget_version)
    (hnupkg : w1.fs.exists_path
      (paths.package_dir config.spec ++ u8path (config.spec.dir ++ ".nupkg")) = false)
    (harchive : w1.fs.exists_path (archive_path paths abi.tag) = false)
    (htombstone : w1.fs.exists_path (archive_tombstone_path paths abi.tag) = true)
    (hfail : config.build_options.fail_on_tombstone = FailOnTombstone.YES) :
    build_package_with_abi env paths config scf pre_build_info abi nuget_dependency_strings w1 =
      (Except.ok { code := BuildResult.BUILD_FAILED },
        { w1 with
          printed := w1.printed ++
            ["Found failure tombstone: " ++ (archive_tombstone_path paths abi.tag).u8string ++
              "\n"] }) := by
  unfold build_package_with_abi restore_unpacked_nupkg restore_archive
  simp only [bind, Proc.bind, Proc.of_except, hversion, Proc.get, hnupkg, Bool.false_eq_true,
    if_false, Proc.pure, not_false_eq_true, if_true, harchive, htombstone, hfail, and_self,
    print2, Proc.modify]

theorem build_package_with_abi_miss (env : SystemEnv) (paths : VcpkgPaths)
    (config : InstallPlanAction) (scf : SourceControlFile) (pre_build_info : PreBuildInfo)
    (abi : AbiTagAndFile) (nuget_dependency_strings : List String) (nuget_version : String)
    (w1 : World)
    (hversion : config.nuget_package_version = Except.ok nuget_version)
    (hnupkg : w1.fs.exists_path
      (paths.package_dir config.spec ++ u8path (config.spec.dir ++ ".nupkg")) = false)
    (harchive : w1.fs.exists_path (archive_path paths abi.tag) = false)
    (htombstone : w1.fs.exists_path (archive_tombstone_path paths abi.tag) = true)
    (hfail : config.build_options.fail_on_tombstone = FailOnTombstone.NO) :
    build_package_with_abi env paths config scf pre_build_info abi nuget_dependency_strings w1 =
      build_and_publish env paths config scf pre_build_info abi config.spec.dir nuget_version
        (paths.package_dir config.spec) (paths.buildtrees ++ u8path config.spec.name)
        (paths.root ++ u8path "archives.nuget")
        (paths.root ++ u8path "archives.nuget" ++
          u8path (config.spec.dir ++ "." ++ nuget_version ++ ".nupkg"))
        (archive_path paths abi.tag) (archive_tombstone_path paths abi.tag)
        nuget_dependency_strings
        { w1 with
          printed := w1.printed ++
            ["Found failure tombstone: " ++ (archive_tombstone_path paths abi.tag).u8string ++
              "\n",
             "Could not locate cached archive: " ++ (archive_path paths abi.tag).u8string ++
              "\n"] } := by
  unfold build_package_with_abi restore_unpacked_nupkg restore_archive
  simp only [bind, Proc.bind, Proc.of_except, hversion, Proc.get, hnupkg, Bool.false_eq_true,
    if_false, Proc.pure, not_false_eq_true, if_true, harchive, htombstone, hfail, true_and,
    print2, Proc.modify, reduceCtorEq, List.append_assoc, List.singleton_append]

theorem build_package_to_abi (env : SystemEnv) (paths : VcpkgPaths)
    (config : InstallPlanAction) (status_db : StatusParagraphs) (scf : SourceControlFile)
    (required : List FeatureSpec) (abis : List AbiEntry × List String)
    (pre_build_info : PreBuildInfo) (abi : AbiTagAndFile) (w w1 : World)
    (hscf : config.build_action = some scf)
    (hreq : compute_required_feature_specs env scf config.spec.triplet config.feature_list
      status_db = Except.ok required)
    (hinstalled : ∀ x ∈ required,
      status_db.is_installed x = true ∨ x.name = scf.core_paragraph.name)
    (habis : installed_dependency_abis config status_db
      (sort_unique_erase (required.map FeatureSpec.spec)) ([], []) = Except.ok abis)
    (hinspect : PreBuildInfo.from_triplet_file env paths config.spec.triplet w =
      (Except.ok pre_build_info, w1))
    (habi : config.abi = some abi) :
    build_package env paths config status_db w =
      build_package_with_abi env paths config scf pre_build_info abi abis.2 w1 := by
  have hunmet : required.filter (fun fspec =>
      !(status_db.is_installed fspec || decide (fspec.name = scf.core_paragraph.name))) = [] := by
    rw [List.filter_eq_nil_iff]
    intro x hx
    rcases hinstalled x hx with h | h
    · simp [h]
    · simp [h]
  unfold build_package
  rw [hscf]
  simp only [bind, Proc.bind, Proc.pure, Proc.of_except, hreq, hunmet, not_true_eq_false,
    if_false, habis, hinspect, habi]

/-- C21 (cache hit path): when the feature specs that `build_package` requires are all
installed (or name the package itself), the installed dependencies are found, the triplet
inspection succeeds, the action has an ABI tag, no unpacked `.nupkg` is in the package
directory, the archive of the tag exists and the cached package loads from the package
directory after the archive was unpacked, then `build_package` returns `SUCCEEDED` with the
control file loaded from the cached package.  The commands it runs are the triplet
inspection and `unzip` and no other, so the build tool is not run; it prints "Using cached
binary package"; and the file system it leaves is the one `unzip` leaves after the package
directory was cleared: of the entries that are neither below nor above the package
directory, such as an archive or a tombstone, `build_package` itself changes none. -/
theorem cache_hit_path (env : SystemEnv) (paths : VcpkgPaths)
    (config : InstallPlanAction) (status_db : StatusParagraphs) (scf : SourceControlFile)
    (required : List FeatureSpec) (abis : List AbiEntry × List String)
    (pre_build_info : PreBuildInfo) (abi : AbiTagAndFile) (nuget_version : String)
    (bcf : BinaryControlFile) (w w1 : World)
    (hscf : config.build_action = some scf)
    (hreq : compute_required_feature_specs env scf config.spec.triplet config.feature_list
      status_db = Except.ok required)
    (hinstalled : ∀ x ∈ required,
      status_db.is_installed x = true ∨ x.name = scf.core_paragraph.name)
    (habis : installed_dependency_abis config status_db
      (sort_unique_erase (required.map FeatureSpec.spec)) ([], []) = Except.ok abis)
    (hinspect : PreBuildInfo.from_triplet_file env paths config.spec.triplet w =
      (Except.ok pre_build_info, w1))
    (habi : config.abi = some abi)
    (hversion : config.nuget_package_version = Except.ok nuget_version)
    (hnupkg : w1.fs.exists_path
      (paths.package_dir config.spec ++ u8path (config.spec.dir ++ ".nupkg")) = false)
    (harchive : w1.fs.exists_path (archive_path paths abi.tag) = true)
    (hload : env.try_load_cached_package
      (env.run (unzip_command paths config.spec (archive_path paths abi.tag))
        ((w1.fs.remove_all (paths.package_dir config.spec)).create_directories
          (paths.package_dir config.spec))).fs config.spec = some bcf) :
    build_package env paths config status_db w =
      (Except.ok { code := BuildResult.SUCCEEDED, binary_control_file := some bcf },
        { w1 with
          fs := (env.run (unzip_command paths config.spec (archive_path paths abi.tag))
            ((w1.fs.remove_all (paths.package_dir config.spec)).create_directories
              (paths.package_dir config.spec))).fs
          printed := w1.printed ++
            ["Using cached binary package: " ++ (archive_path paths abi.tag).u8string ++ "\n"]
          commands := w1.commands ++
            [unzip_command paths config.spec (archive_path paths abi.tag)] }) ∧
    (build_package env paths config status_db w).2.commands =
      w.commands ++ [triplet_inspection_command env paths config.spec.triplet,
        unzip_command paths config.spec (archive_path paths abi.tag)] ∧
    (∀ e : FileEntry, ¬ paths.package_dir config.spec <+: e.path →
      ¬ e.path <+: paths.package_dir config.spec →
      (e ∈ (w1.fs.remove_all (paths.package_dir config.spec)).create_directories
          (paths.package_dir config.spec) ↔ e ∈ w1.fs)) := by
  have hrun := build_package_to_abi env paths config status_db scf required abis
    pre_build_info abi w w1 hscf hreq hinstalled habis hinspect habi
  rw [build_package_with_abi_hit env paths config scf pre_build_info abi abis.2 nuget_version
    bcf w1 hversion hnupkg harchive hload] at hrun
  refine ⟨hrun, ?_, ?_⟩
  · rw [hrun]
    simp only
    rw [(from_triplet_file_world env paths config.spec.triplet pre_build_info w w1 hinspect).1]
    simp
  · intro e hbelow habove
    constructor
    · intro h
      rcases mem_create_directories _ _ _ h with h1 | h1
      · unfold Filesystem.remove_all at h1
        exact (List.mem_filter.mp h1).1
      · exact absurd h1 habove
    · intro h
      apply mem_create_directories_of_mem
      unfold Filesystem.remove_all
      rw [List.mem_filter]
      refine ⟨h, ?_⟩
      cases hp : (paths.package_dir config.spec).isPrefixOf e.path with
      | false => rfl
      | true => exact absurd (List.isPrefixOf_iff_prefix.mp hp) hbelow

/-- C22 (tombstone short-circuit): when the feature specs that `build_package` requires are
all installed (or name the package itself), the installed dependencies are found, the
triplet inspection succeeds, the action has an ABI tag, neither an unpacked `.nupkg` nor the
archive of the tag exists and the tombstone of the tag exists, then with
`fail_on_tombstone == YES` the result is `BUILD_FAILED`, only the line "Found failure
tombstone" is printed, and neither a command is run nor the file system changed after the
triplet inspection; with `fail_on_tombstone == NO` the build and the publication of its
outcome are what `build_package` does then, and the build tool is run when the action has a
port directory and the environment of the build can be made. -/
theorem tombstone_short_circuit (env : SystemEnv) (paths : VcpkgPaths)
    (config : InstallPlanAction) (status_db : StatusParagraphs) (scf : SourceControlFile)
    (required : List FeatureSpec) (abis : List AbiEntry × List String)
    (pre_build_info : PreBuildInfo) (abi : AbiTagAndFile) (nuget_version : String)
    (w w1 : World)
    (hscf : config.build_action = some scf)
    (hreq : compute_required_feature_specs env scf config.spec.triplet config.feature_list
      status_db = Except.ok required)
    (hinstalled : ∀ x ∈ required,
      status_db.is_installed x = true ∨ x.name = scf.core_paragraph.name)
    (habis : installed_dependency_abis config status_db
      (sort_unique_erase (required.map FeatureSpec.spec)) ([], []) = Except.ok abis)
    (hinspect : PreBuildInfo.from_triplet_file env paths config.spec.triplet w =
      (Except.ok pre_build_info, w1))
    (habi : config.abi = some abi)
    (hversion : config.nuget_package_version = Except.ok nuget_version)
    (hnupkg : w1.fs.exists_path
      (paths.package_dir config.spec ++ u8path (config.spec.dir ++ ".nupkg")) = false)
    (harchive : w1.fs.exists_path (archive_path paths abi.tag) = false)
    (htombstone : w1.fs.exists_path (archive_tombstone_path paths abi.tag) = true) :
    (config.build_options.fail_on_tombstone = FailOnTombstone.YES →
      build_package env paths config status_db w =
        (Except.ok { code := BuildResult.BUILD_FAILED },
          { w1 with
            printed := w1.printed ++
              ["Found failure tombstone: " ++ (archive_tombstone_path paths abi.tag).u8string ++
                "\n"] }) ∧
      (build_package env paths config status_db w).2.commands =
        w.commands ++ [triplet_inspection_command env paths config.spec.triplet] ∧
      (build_package env paths config status_db w).2.fs =
        (env.run (triplet_inspection_command env paths config.spec.triplet) w.fs).fs) ∧
    (config.build_options.fail_on_tombstone = FailOnTombstone.NO →
      build_package env paths config status_db w =
        build_and_publish env paths config scf pre_build_info abi config.spec.dir nuget_version
          (paths.package_dir config.spec) (paths.buildtrees ++ u8path config.spec.name)
          (paths.root ++ u8path "archives.nuget")
          (paths.root ++ u8path "archives.nuget" ++
            u8path (config.spec.dir ++ "." ++ nuget_version ++ ".nupkg"))
          (archive_path paths abi.tag) (archive_tombstone_path paths abi.tag) abis.2
          { w1 with
            printed := w1.printed ++
              ["Found failure tombstone: " ++ (archive_tombstone_path paths abi.tag).u8string ++
                "\n",
               "Could not locate cached archive: " ++ (archive_path paths abi.tag).u8string ++
                "\n"] } ∧
      ∀ port_dir command, config.port_dir = some port_dir →
        make_build_env_cmd env pre_build_info (paths.get_toolset pre_build_info) =
          Except.ok command →
        World.ran (build_command env paths pre_build_info config scf port_dir)
          (build_package env paths config status_db w).2) := by
  have hrun := build_package_to_abi env paths config status_db scf required abis
    pre_build_info abi w w1 hscf hreq hinstalled habis hinspect habi
  have hworld := from_triplet_file_world env paths config.spec.triplet pre_build_info w w1
    hinspect
  constructor
  · intro hfail
    rw [build_package_with_abi_tombstone env paths config scf pre_build_info abi abis.2
      nuget_version w1 hversion hnupkg harchive htombstone hfail] at hrun
    refine ⟨hrun, ?_, ?_⟩
    · rw [hrun]
      exact hworld.1
    · rw [hrun]
      exact hworld.2.2
  · intro hfail
    rw [build_package_with_abi_miss env paths config scf pre_build_info abi abis.2
      nuget_version w1 hversion hnupkg harchive htombstone hfail] at hrun
    refine ⟨hrun, ?_⟩
    intro port_dir command hport henv
    rw [hrun]
    exact build_and_publish_runs env paths config scf pre_build_info abi _ _ _ _ _ _ _ _ _
      port_dir command _ hscf hport henv

set_option maxRecDepth 100000 in
theorem cache_hit_path_witness :
    build_package scenario_system_env build_paths curl_build_action curl_deps_status_db
        cache_hit_world =
      (Except.ok { code := BuildResult.SUCCEEDED, binary_control_file := some cached_bcf },
        { fs := cache_hit_world.fs ++
            [{ path := ["vcpkg"], type := FileType.directory },
             { path := ["vcpkg", "packages"], type := FileType.directory },
             { path := ["vcpkg", "packages", "curl_x64-linux"], type := FileType.directory },
             { path := ["vcpkg", "packages", "curl_x64-linux", "CONTROL"],
               type := FileType.regular, contents := "cached" }]
          printed := ["Using cached binary package: vcpkg/archives/ab/abcdef.zip\n"]
          commands := [inspect_command,
            "unzip -qq \"vcpkg/archives/ab/abcdef.zip\" \"-dvcpkg/packages/curl_x64-linux\""]
          s_hash_cache := [(["vcpkg", "triplets", "x64-linux.cmake"], "-")] }) :=
  (cache_hit_path scenario_system_env build_paths curl_build_action curl_deps_status_db
    (make_port "curl" ["zlib"] [] [("ssl", ["openssl"])])
    [⟨⟨"openssl", x64_linux⟩, "core"⟩, ⟨⟨"zlib", x64_linux⟩, "core"⟩]
    ([{ key := "openssl", value := "" }, { key := "zlib", value := "" }],
      ["openssl_x64-linux 1.0-", "zlib_x64-linux 1.0-"])
    linux_pre_build_info
    { tag := "abcdef", tag_file := ["vcpkg", "buildtrees", "curl", "x64-linux.vcpkg_abi_info.txt"] }
    "1.0-abcdef" cached_bcf cache_hit_world (inspected_world cache_hit_world.fs)
    rfl (by decide) (by decide) (by decide) (by decide) rfl (by decide) (by decide) (by decide)
    (by decide)).1.trans (by decide)

set_option maxRecDepth 100000 in
theorem tombstone_short_circuit_witness :
    build_package scenario_system_env build_paths curl_build_action_strict curl_deps_status_db
        tombstone_world =
      (Except.ok { code := BuildResult.BUILD_FAILED },
        { fs := tombstone_world.fs
          printed := ["Found failure tombstone: vcpkg/archives/fail/ab/abcdef.zip\n"]
          commands := [inspect_command]
          s_hash_cache := [(["vcpkg", "triplets", "x64-linux.cmake"], "-")] }) ∧
    World.ran curl_build_command
      (build_package scenario_system_env build_paths curl_build_action curl_deps_status_db
        tombstone_world).2 :=
  ⟨(((tombstone_short_circuit scenario_system_env build_paths curl_build_action_strict
      curl_deps_status_db (make_port "curl" ["zlib"] [] [("ssl", ["openssl"])])
      [⟨⟨"openssl", x64_linux⟩, "core"⟩, ⟨⟨"zlib", x64_linux⟩, "core"⟩]
      ([{ key := "openssl", value := "" }, { key := "zlib", value := "" }],
        ["openssl_x64-linux 1.0-", "zlib_x64-linux 1.0-"])
      linux_pre_build_info
      { tag := "abcdef"
        tag_file := ["vcpkg", "buildtrees", "curl", "x64-linux.vcpkg_abi_info.txt"] }
      "1.0-abcdef" tombstone_world (inspected_world tombstone_world.fs)
      rfl (by decide) (by decide) (by decide) (by decide) rfl (by decide) (by decide)
      (by decide) (by decide)).1 rfl).1).trans (by decide),
    by
      have h := ((tombstone_short_circuit scenario_system_env build_paths curl_build_action
        curl_deps_status_db (make_port "curl" ["zlib"] [] [("ssl", ["openssl"])])
        [⟨⟨"openssl", x64_linux⟩, "core"⟩, ⟨⟨"zlib", x64_linux⟩, "core"⟩]
        ([{ key := "openssl", value := "" }, { key := "zlib", value := "" }],
          ["openssl_x64-linux 1.0-", "zlib_x64-linux 1.0-"])
        linux_pre_build_info
        { tag := "abcdef"
          tag_file := ["vcpkg", "buildtrees", "curl", "x64-linux.vcpkg_abi_info.txt"] }
        "1.0-abcdef" tombstone_world (inspected_world tombstone_world.fs)
        rfl (by decide) (by decide) (by decide) (by decide) rfl (by decide) (by decide)
        (by decide) (by decide)).2 rfl).2 ["vcpkg", "ports", "curl"] "" rfl (by decide)
      have hc : build_command scenario_system_env build_paths linux_pre_build_info
          curl_build_action (make_port "curl" ["zlib"] [] [("ssl", ["openssl"])])
          ["vcpkg", "ports", "curl"] = curl_build_command := by decide
      rw [hc] at h
      exact h⟩
end Vcpkg

namespace Vcpkg

/-! ## The cleaning of the build tree (C29) -/

theorem clean_buildtree_file_run (file : Path) (w : World) :
    clean_buildtree_file file w =
      (Except.ok (),
        { w with fs := if w.fs.is_directory file = true then w.fs.remove_all file else w.fs }) := by
  unfold clean_buildtree_file
  simp only [bind, Proc.bind, Proc.get]
  by_cases h : w.fs.is_directory file = true
  · simp only [h, if_true, modify_fs, Proc.modify]
  · simp only [h, if_false, Proc.pure]
    rfl

theorem is_prefix_of_trans (a b c : Path) (hab : a.isPrefixOf b = true)
    (hbc : b.isPrefixOf c = true) : a.isPrefixOf c = true :=
  List.isPrefixOf_iff_prefix.mpr
    ((List.isPrefixOf_iff_prefix.mp hab).trans (List.isPrefixOf_iff_prefix.mp hbc))

theorem is_directory_remove_all (fs : Filesystem) (f d : Path)
    (h : f.isPrefixOf d = false) :
    (fs.remove_all f).is_directory d = fs.is_directory d := by
  unfold Filesystem.remove_all Filesystem.is_directory
  induction fs with
  | nil => rfl
  | cons e rest ih =>
    rw [List.filter_cons]
    by_cases hp : f.isPrefixOf e.path = true
    · have hne : e.path ≠ d := by
        intro he
        rw [he, h] at hp
        exact Bool.noConfusion hp
      have hq : decide (e.path = d ∧ e.type = FileType.directory) = false :=
        decide_eq_false (fun hq => hne hq.1)
      rw [hp, Bool.not_true, if_neg Bool.false_ne_true, List.any_cons, ih, hq, Bool.false_or]
    · simp only [Bool.not_eq_true] at hp
      simp only [hp, Bool.not_false, if_true, List.any_cons, ih]

theorem for_each_clean_buildtree_file (files : List Path) (w : World) :
    Proc.for_each files clean_buildtree_file w =
      (Except.ok (), { w with fs := w.fs.without_directories files }) := by
  induction files generalizing w with
  | nil =>
    unfold Proc.for_each Filesystem.without_directories
    simp [Proc.pure]
  | cons f rest ih =>
    unfold Proc.for_each
    simp only [Proc.bind, clean_buildtree_file_run, ih]
    congr 2
    unfold Filesystem.without_directories
    by_cases hd : w.fs.is_directory f = true
    · simp only [hd, if_true]
      unfold Filesystem.remove_all
      rw [List.filter_filter]
      apply List.filter_congr
      intro e _
      by_cases hp : f.isPrefixOf e.path = true
      · simp [hp, hd]
      · simp only [Bool.not_eq_true] at hp
        have hany : ∀ l : List Path,
            l.any (fun d => Filesystem.is_directory
                (List.filter (fun e => !f.isPrefixOf e.path) w.fs) d && d.isPrefixOf e.path) =
              l.any (fun d => Filesystem.is_directory w.fs d && d.isPrefixOf e.path) := by
          intro l
          induction l with
          | nil => rfl
          | cons d l ihl =>
            simp only [List.any_cons, ihl]
            congr 1
            by_cases hde : d.isPrefixOf e.path = true
            · have hfd : f.isPrefixOf d = false := by
                cases hfd : f.isPrefixOf d with
                | false => rfl
                | true =>
                  rw [is_prefix_of_trans f d e.path hfd hde] at hp
                  exact Bool.noConfusion hp
              have h := is_directory_remove_all w.fs f d hfd
              unfold Filesystem.remove_all at h
              rw [h]
            · simp only [Bool.not_eq_true] at hde
              simp [hde]
        simp only [List.any_cons, hany, hp, hd]
        simp
    · simp only [hd, if_false]
      simp only [Bool.not_eq_true] at hd
      simp [List.any_cons, hd]

theorem mem_without_directories (fs : Filesystem) (files : List Path) (e : FileEntry) :
    e ∈ fs.without_directories files ↔
      e ∈ fs ∧ ∀ d ∈ files, fs.is_directory d = true → ¬ d <+: e.path := by
  unfold Filesystem.without_directories
  rw [List.mem_filter]
  constructor
  · rintro ⟨he, h⟩
    refine ⟨he, fun d hd hdir hpre => ?_⟩
    have : files.any (fun d => fs.is_directory d && d.isPrefixOf e.path) = true := by
      rw [List.any_eq_true]
      exact ⟨d, hd, by rw [hdir, List.isPrefixOf_iff_prefix.mpr hpre]; rfl⟩
    rw [this] at h
    exact Bool.noConfusion h
  · rintro ⟨he, h⟩
    refine ⟨he, ?_⟩
    cases hany : files.any (fun d => fs.is_directory d && d.isPrefixOf e.path) with
    | false => rfl
    | true =>
      rw [List.any_eq_true] at hany
      obtain ⟨d, hd, hdd⟩ := hany
      rw [Bool.and_eq_true] at hdd
      exact absurd (List.isPrefixOf_iff_prefix.mp hdd.2) (h d hd hdd.1)

theorem mem_get_files_non_recursive (fs : Filesystem) (dir d : Path) :
    d ∈ fs.get_files_non_recursive dir ↔
      fs.exists_path d = true ∧ d ≠ [] ∧ d.parent_path = dir := by
  unfold Filesystem.get_files_non_recursive Filesystem.exists_path
  rw [List.mem_map, List.any_eq_true]
  constructor
  · rintro ⟨e, he, rfl⟩
    rw [List.mem_filter] at he
    have h := of_decide_eq_true he.2
    exact ⟨⟨e, he.1, decide_eq_true rfl⟩, h.1, h.2⟩
  · rintro ⟨⟨e, he, hp⟩, hne, hpar⟩
    have hp := of_decide_eq_true hp
    refine ⟨e, ?_, hp⟩
    rw [List.mem_filter]
    refine ⟨he, decide_eq_true ?_⟩
    rw [hp]
    exact ⟨hne, hpar⟩

theorem is_directory_exists (fs : Filesystem) (d : Path) (h : fs.is_directory d = true) :
    fs.exists_path d = true := by
  unfold Filesystem.is_directory at h
  unfold Filesystem.exists_path
  rw [List.any_eq_true] at h ⊢
  obtain ⟨e, he, hp⟩ := h
  exact ⟨e, he, decide_eq_true (of_decide_eq_true hp).1⟩

theorem do_build_package_and_clean_buildtrees_run (env : SystemEnv) (paths : VcpkgPaths)
    (pre_build_info : PreBuildInfo) (config : InstallPlanAction) (scf : SourceControlFile)
    (result : ExtendedBuildResult) (w w1 : World)
    (hscf : config.build_action = some scf)
    (hbuild : do_build_package env paths pre_build_info config w = (Except.ok result, w1)) :
    do_build_package_and_clean_buildtrees env paths pre_build_info config w =
      (Except.ok result,
        if config.build_options.clean_buildtrees = CleanBuildtrees.YES then
          { w1 with
            fs := (w1.fs.without_directories (w1.fs.get_files_non_recursive
              (paths.buildtrees ++ u8path scf.core_paragraph.name))) }
        else w1) := by
  unfold do_build_package_and_clean_buildtrees
  simp only [bind, Proc.bind, hbuild, hscf, Proc.pure, Proc.get]
  by_cases hc : config.build_options.clean_buildtrees = CleanBuildtrees.YES
  · simp only [hc, if_true]
    simp only [Proc.bind, Proc.get, for_each_clean_buildtree_file, Proc.pure]
  · simp only [hc, if_false]
    rfl

theorem length_of_parent_path (d dir : Path) (hne : d ≠ []) (hpar : d.parent_path = dir) :
    d.length = dir.length + 1 := by
  have h := congrArg List.length hpar
  unfold Path.parent_path at h
  rw [List.length_dropLast] at h
  have hpos : 0 < d.length := List.length_pos.mpr hne
  omega

/-- C29 (buildtree cleaning): when `do_build_package` returns,
`do_build_package_and_clean_buildtrees` returns the same result.  With
`clean_buildtrees == YES` the world it leaves differs only in the file system, of which
exactly the entries stay, in their order, that are not at or below a directory directly
under `<buildtrees>/<name>`: of the entries directly under `<buildtrees>/<name>` the
directories are removed, whatever their names, and all others stay, log files or not.  With
`clean_buildtrees == NO` the world is the one `do_build_package` leaves. -/
theorem buildtree_cleaning (env : SystemEnv) (paths : VcpkgPaths)
    (pre_build_info : PreBuildInfo) (config : InstallPlanAction) (scf : SourceControlFile)
    (result : ExtendedBuildResult) (w w1 : World)
    (hscf : config.build_action = some scf)
    (hbuild : do_build_package env paths pre_build_info config w = (Except.ok result, w1)) :
    (config.build_options.clean_buildtrees = CleanBuildtrees.YES →
      ∃ fs : Filesystem,
        do_build_package_and_clean_buildtrees env paths pre_build_info config w =
          (Except.ok result, { w1 with fs := fs }) ∧
        fs = w1.fs.without_directories (w1.fs.get_files_non_recursive
          (paths.buildtrees ++ u8path scf.core_paragraph.name)) ∧
        (∀ e : FileEntry, e ∈ fs ↔
          e ∈ w1.fs ∧ ∀ d : Path, d ≠ [] →
            d.parent_path = paths.buildtrees ++ u8path scf.core_paragraph.name →
            w1.fs.is_directory d = true → ¬ d <+: e.path) ∧
        (∀ e ∈ w1.fs, e.path ≠ [] →
          e.path.parent_path = paths.buildtrees ++ u8path scf.core_paragraph.name →
          (e ∈ fs ↔ w1.fs.is_directory e.path = false))) ∧
    (config.build_options.clean_buildtrees = CleanBuildtrees.NO →
      do_build_package_and_clean_buildtrees env paths pre_build_info config w =
        (Except.ok result, w1)) := by
  have hrun := do_build_package_and_clean_buildtrees_run env paths pre_build_info config scf
    result w w1 hscf hbuild
  have hmem : ∀ e : FileEntry,
      e ∈ w1.fs.without_directories (w1.fs.get_files_non_recursive
          (paths.buildtrees ++ u8path scf.core_paragraph.name)) ↔
        e ∈ w1.fs ∧ ∀ d : Path, d ≠ [] →
          d.parent_path = paths.buildtrees ++ u8path scf.core_paragraph.name →
          w1.fs.is_directory d = true → ¬ d <+: e.path := by
    intro e
    rw [mem_without_directories]
    constructor
    · rintro ⟨he, h⟩
      refine ⟨he, fun d hne hpar hdir => h d ?_ hdir⟩
      rw [mem_get_files_non_recursive]
      exact ⟨is_directory_exists _ _ hdir, hne, hpar⟩
    · rintro ⟨he, h⟩
      refine ⟨he, fun d hd hdir => ?_⟩
      rw [mem_get_files_non_recursive] at hd
      exact h d hd.2.1 hd.2.2 hdir
  constructor
  · intro hc
    rw [if_pos hc] at hrun
    refine ⟨_, hrun, rfl, hmem, ?_⟩
    intro e he hne hpar
    rw [hmem]
    constructor
    · rintro ⟨_, h⟩
      cases hdir : w1.fs.is_directory e.path with
      | false => rfl
      | true => exact absurd (List.prefix_refl e.path) (h e.path hne hpar hdir)
    · intro hdir
      refine ⟨he, fun d hdne hdpar hddir hpre => ?_⟩
      have hlen : d.length = e.path.length := by
        rw [length_of_parent_path d _ hdne hdpar, length_of_parent_path e.path _ hne hpar]
      have heq : d = e.path := hpre.eq_of_length hlen
      rw [heq, hdir] at hddir
      exact Bool.noConfusion hddir
  · intro hc
    rw [if_neg (by rw [hc]; decide)] at hrun
    exact hrun

set_option maxRecDepth 100000 in
theorem buildtree_cleaning_witness :
    do_build_package_and_clean_buildtrees scenario_system_env build_paths linux_pre_build_info
        curl_clean_action buildtree_world =
      (Except.ok { code := BuildResult.BUILD_FAILED },
        { fs := [{ path := ["vcpkg", "buildtrees", "curl"], type := FileType.directory },
                 { path := ["vcpkg", "buildtrees", "curl", "x64-linux.vcpkg_abi_info.txt"],
                   type := FileType.regular, contents := "abi" },
                 { path := ["vcpkg", "buildtrees", "curl", "config-x64-linux.log"],
                   type := FileType.regular, contents := "log" },
                 { path := ["vcpkg", "buildtrees", "zlib"], type := FileType.directory },
                 { path := ["vcpkg", "buildtrees", "zlib", "src"],
                   type := FileType.directory }]
          commands := [curl_build_command] }) := by
  obtain ⟨fs, hrun, hfs, _⟩ :=
    (buildtree_cleaning scenario_system_env build_paths linux_pre_build_info curl_clean_action
      (make_port "curl" ["zlib"] [] [("ssl", ["openssl"])])
      { code := BuildResult.BUILD_FAILED } buildtree_world
      { buildtree_world with commands := [curl_build_command] } rfl (by decide)).1 rfl
  rw [hrun, hfs]
  decide

set_option maxRecDepth 100000 in
/-- C29, the claim as it was worded: in the scenario the build tree of `curl` is cleaned, and
the file of the ABI, which is directly under `<buildtrees>/curl` and is not a log file, is
still there afterwards. -/
theorem buildtree_cleaning_counterexample :
    curl_clean_action.build_options.clean_buildtrees = CleanBuildtrees.YES ∧
    (do_build_package_and_clean_buildtrees scenario_system_env build_paths linux_pre_build_info
      curl_clean_action buildtree_world).1 = Except.ok { code := BuildResult.BUILD_FAILED } ∧
    ({ path := ["vcpkg", "buildtrees", "curl", "x64-linux.vcpkg_abi_info.txt"]
       type := FileType.regular, contents := "abi" } : FileEntry) ∈
      (do_build_package_and_clean_buildtrees scenario_system_env build_paths
        linux_pre_build_info curl_clean_action buildtree_world).2.fs ∧
    Path.parent_path ["vcpkg", "buildtrees", "curl", "x64-linux.vcpkg_abi_info.txt"] =
      build_paths.buildtrees ++ u8path "curl" ∧
    Path.extension ["vcpkg", "buildtrees", "curl", "x64-linux.vcpkg_abi_info.txt"] = ".txt" := by
  decide

/-! ## The ABI of a dependency that is built again (C40) -/

set_option maxRecDepth 100000 in
/-- C40 (no stale dependency ABI), evaluated: the plan removes `openssl`, builds it again and
builds `curl`, which depends on it; the status database records the ABI `old-abi` for the
installed `openssl`.  No tag can be computed for `openssl`, whose dependency `zlib` has no
ABI, so `openssl` is not entered in `abi_tag_map`; the entry of `openssl` among the
dependency ABIs of `curl` is then the one of the status database, `old-abi`, and `curl`
gets an ABI tag made of it. -/
theorem stale_dependency_abi :
    (compute_all_abi_tags scenario_system_env build_paths stale_status_db
        (stale_plan.take 2) {} stale_world).1 =
      Except.ok (stale_plan.take 2,
        { abi_tag_map := []
          pre_build_info_cache :=
            [(x64_linux, { linux_pre_build_info with triplet_abi_tag := "sha1(triplet)-" })] }) ∧
    curl_on_openssl_action.computed_dependencies.map
        (dependency_abi_entry [] stale_status_db) =
      [{ key := "openssl", value := "old-abi" }] ∧
    (compute_all_abi_tags scenario_system_env build_paths stale_status_db stale_plan {}
        stale_world).1.map (fun r => r.1.map (fun action =>
          match action with
          | AnyAction.install_action p => (p.spec.name, p.abi)
          | AnyAction.remove_action p => (p.spec.name, none))) =
      Except.ok [("openssl", none), ("openssl", none),
        ("curl", some
          { tag := "sha1(cmake 3.14.0\nfeatures core\nfile_000 sha1(build curl)\n" ++
              "openssl old-abi\ntriplet sha1(triplet)-\n" ++
              "vcpkg_fixup_cmake_targets sha1(fixup)\n)"
            tag_file := ["vcpkg", "buildtrees", "curl", "x64-linux.vcpkg_abi_info.txt"] })] := by
  decide

end Vcpkg
